import Mathlib

/-!
# littlefs_v2 (64-bit port): a shallow embedding and its verified properties

Machine integers are natural numbers with explicit reduction modulo `2 ^ 64`
(`lfs_size_t`, `lfs_off_t`, `lfs_block_t`) or `2 ^ 32` (`lfs_tag_t`, revision
counters).  A C `int` result is an `Int` obtained by the usual two's
complement narrowing.  Loops are structural recursions on a fuel argument.

Part 1 holds every definition; Part 2 holds the lemmas and theorems.
-/

namespace LittleFS

/-! ## Part 1: definitions -/

/-! ### Machine arithmetic -/

/-- Reduction of a natural number to an unsigned 64-bit value. -/
def wrap64 (x : Nat) : Nat := x % 18446744073709551616

/-- Unsigned 64-bit subtraction `a - b` (operands already below `2 ^ 64`). -/
def sub64 (a b : Nat) : Nat := (a + 18446744073709551616 - b) % 18446744073709551616

/-- Reduction of a natural number to an unsigned 32-bit value. -/
def wrap32 (x : Nat) : Nat := x % 4294967296

/-- Narrowing of an unsigned 64-bit value to a C `int` (two's complement). -/
def toInt32 (x : Nat) : Int :=
  if x % 4294967296 < 2147483648 then ((x % 4294967296 : Nat) : Int)
  else ((x % 4294967296 : Nat) : Int) - 4294967296

/-- Widening of a C `int` to an unsigned 64-bit value (sign extension). -/
def ofInt64 (x : Int) : Nat := (x % 18446744073709551616).toNat

/-! ### `lfs_utility.h`: bit helpers -/

/-- `lfs_min` on unsigned 64-bit numbers. -/
def lfs_min (a b : Nat) : Nat := if a < b then a else b

/-- `lfs_max` on unsigned 64-bit numbers. -/
def lfs_max (a b : Nat) : Nat := if a > b then a else b

/-- `lfs_aligndown`: `a - (a % alignment)`. -/
def lfs_aligndown (a alignment : Nat) : Nat := a - a % alignment

/-- `lfs_alignup`: `lfs_aligndown(a + alignment - 1, alignment)` in 64 bits. -/
def lfs_alignup (a alignment : Nat) : Nat :=
  lfs_aligndown (sub64 (wrap64 (a + alignment)) 1) alignment

/-- Position of the highest set bit plus one (0 for 0), scanning at most
`fuel` bits: what `_BitScanReverse64` finds, plus one. -/
def bitLength : Nat → Nat → Nat
  | 0, _ => 0
  | fuel + 1, n => if n = 0 then 0 else 1 + bitLength fuel (n / 2)

/-- `__builtin_clzll` as the header's fallback defines it: the number of
leading zero bits of a 64-bit value (`63 - where`), and 64 for zero. -/
def builtin_clzll (x : Nat) : Nat := 64 - bitLength 64 x

/-- `lfs_npw2_64`: `1` for `a = 1`, else `64 - clz(a - 1)`. -/
def lfs_npw2_64 (a : Nat) : Nat :=
  if a = 1 then 1 else 64 - builtin_clzll (sub64 a 1)

/-- The loop of `lfs_ctz64`: test bit `result`, return it when set, else go on
with `result + 1`; `fuel` counts the remaining iterations (64 at the start).
Running out of iterations returns 0, as the C code does. -/
def lfs_ctz64_loop (a : Nat) : Nat → Nat → Nat
  | 0, _ => 0
  | fuel + 1, result =>
    if a &&& (1 <<< result) ≠ 0 then result else lfs_ctz64_loop a fuel (result + 1)

/-- `lfs_ctz64`: number of trailing zero bits (0 when `a = 0`). -/
def lfs_ctz64 (a : Nat) : Nat := lfs_ctz64_loop a 64 0

/-- `lfs_popc64`: the branch-free population count of the header, with the
64-bit wrap-around of every intermediate made explicit. -/
def lfs_popc64 (V : Nat) : Nat :=
  let V1 := sub64 V ((V >>> 1) &&& 0x5555555555555555)
  let V2 := wrap64 ((V1 &&& 0x3333333333333333) + ((V1 >>> 2) &&& 0x3333333333333333))
  (wrap64 (((wrap64 (V2 + (V2 >>> 4))) &&& 0x0F0F0F0F0F0F0F0F) * 0x0101010101010101)) >>> 56

/-! ### `lfs_file_index.cpp`: index arithmetic of the CTZ skip list -/

/-- `lfs_ctz_index(lfs, &offset)`: the returned C `int` and the updated
`*offset`.  `block_size` is `lfs->block_size`. -/
def lfs_ctz_index (block_size : Nat) (offset : Nat) : Int × Nat :=
  let size := offset
  let b := sub64 block_size 16
  let i := size / b
  if i = 0 then (0, offset)
  else
    let i := sub64 size (wrap64 (8 * (lfs_popc64 (sub64 i 1) + 2))) / b
    let off := sub64 (sub64 size (wrap64 (b * i))) (wrap64 (8 * lfs_popc64 i))
    (toInt32 i, off)

/-- The pointer-fit assertion of `lfs_raw_format`:
`sizeof(uint64_t) * lfs_npw2_64(0xffffffff / (block_size - 16)) <= block_size`. -/
def format_pointer_fit (block_size : Nat) : Bool :=
  decide (8 * lfs_npw2_64 (0xffffffff / sub64 block_size 16) ≤ block_size)

/-- `LFS_FILE_MAX`. -/
def LFS_FILE_MAX : Nat := 0x7fffffffffffffff

/-! ### Auxiliary definitions used only in proofs -/

/-- Number of one bits among the low `fuel` bits of `n`. -/
def bitCount : Nat → Nat → Nat
  | 0, _ => 0
  | fuel + 1, n => n % 2 + bitCount fuel (n / 2)

/-- Number of trailing zero bits of `n` among its low `fuel` bits. -/
def trailingZeros : Nat → Nat → Nat
  | 0, _ => 0
  | fuel + 1, n => if n % 2 = 1 then 0 else 1 + trailingZeros fuel (n / 2)

/-- Apply `f` to each of the low `n` bytes of `v`, keeping the byte positions. -/
def bytewise (f : Nat → Nat) : Nat → Nat → Nat
  | 0, _ => 0
  | n + 1, v => f (v % 256) + 256 * bytewise f n (v / 256)

/-- Sum of `f` over the low `n` bytes of `v`. -/
def byteSum (f : Nat → Nat) : Nat → Nat → Nat
  | 0, _ => 0
  | n + 1, v => f (v % 256) + byteSum f n (v / 256)

/-- The byte `c` repeated `n` times. -/
def repByte (c : Nat) : Nat → Nat
  | 0 => 0
  | n + 1 => c + 256 * repByte c n

/-- First step of the population count on one byte. -/
def popStep1 (x : Nat) : Nat := x - ((x >>> 1) &&& 0x55)

/-- Second step of the population count on one byte. -/
def popStep2 (x : Nat) : Nat := (x &&& 0x33) + ((x >>> 2) &&& 0x33)

/-- Third step of the population count on one byte. -/
def popStep3 (x : Nat) : Nat := (x + (x >>> 4)) &&& 0x0F

/-- The three steps in sequence: the population count of one byte. -/
def popByte (x : Nat) : Nat := popStep3 (popStep2 (popStep1 x))

/-! ### Error codes and sentinels (`lfs.h`) -/

/-- `LFS_ERR_OK`. -/
def LFS_ERR_OK : Int := 0
/-- `LFS_ERR_IO`. -/
def LFS_ERR_IO : Int := -5
/-- `LFS_ERR_CORRUPT`. -/
def LFS_ERR_CORRUPT : Int := -84
/-- `LFS_ERR_NOENT`. -/
def LFS_ERR_NOENT : Int := -2
/-- `LFS_ERR_NOSPC`. -/
def LFS_ERR_NOSPC : Int := -28
/-- `LFS_ERR_INVAL`. -/
def LFS_ERR_INVAL : Int := -22
/-- `LFS_ERR_NOATTR`. -/
def LFS_ERR_NOATTR : Int := -61
/-- `LFS_BLOCK_NULL`, `(lfs_block_t)-1`. -/
def LFS_BLOCK_NULL : Nat := 18446744073709551615
/-- `LFS_BLOCK_INLINE`, `(lfs_block_t)-2`. -/
def LFS_BLOCK_INLINE : Nat := 18446744073709551614

/-! ### The block device as the cached read path sees it

A disk is a function from block address and byte offset to a byte.  Reads go
through `lfs_bd_read`; the model keeps its range check and takes the caches
to be coherent with the device, so a successful read returns the device's
bytes.  The device itself does not fail. -/

/-- Content of the block device. -/
abbrev Disk := Nat → Nat → Nat

/-- The geometry fields of `lfs_t` that the read path consults. -/
structure Geometry where
  block_size : Nat
  block_count : Nat
deriving DecidableEq, Repr

/-- Outcome of a loop run with bounded fuel: a value, an error code of the
C function, or fuel exhaustion. -/
inductive Run (α : Type) where
  | done (value : α)
  | fail (code : Int)
  | fuel
deriving DecidableEq, Repr

/-- `lfs_bd_read(lfs, ..., block, offset, buffer, size)`: `LFS_ERR_CORRUPT`
outside the device or the block, else the `size` bytes at `offset`. -/
def lfs_bd_read (g : Geometry) (d : Disk) (block offset size : Nat) : Except Int (List Nat) :=
  if block ≥ g.block_count ∨ wrap64 (offset + size) > g.block_size then
    .error LFS_ERR_CORRUPT
  else
    .ok ((List.range size).map (fun j => d block (offset + j)))

/-- `lfs_fromle64` applied to eight bytes read from disk. -/
def lfs_fromle64 (bytes : List Nat) : Nat :=
  (bytes.take 8).foldr (fun x acc => x % 256 + 256 * acc) 0

/-- The eight little-endian bytes of a 64-bit value (`lfs_tole64`). -/
def lfs_tole64 (x : Nat) : List Nat :=
  (List.range 8).map (fun j => x / 256 ^ j % 256)

/-- The skip chosen by one hop of `lfs_ctz_find`:
`lfs_min(lfs_npw2_64(current - target + 1) - 1, lfs_ctz64(current))`. -/
def ctz_find_skip (current target : Nat) : Nat :=
  lfs_min (sub64 (lfs_npw2_64 (wrap64 (sub64 current target + 1))) 1) (lfs_ctz64 current)

/-- The `while (current > target)` loop of `lfs_ctz_find`. -/
def lfs_ctz_find_loop (g : Geometry) (d : Disk) (target : Nat) :
    Nat → Nat → Nat → Run Nat
  | fuel, head, current =>
    if current > target then
      match fuel with
      | 0 => .fuel
      | fuel + 1 =>
        let skip := ctz_find_skip current target
        match lfs_bd_read g d head (wrap64 (8 * skip)) 8 with
        | .error e => .fail e
        | .ok bytes =>
          lfs_ctz_find_loop g d target fuel (lfs_fromle64 bytes)
            (sub64 current (wrap64 (1 <<< skip)))
    else .done head

/-- `lfs_ctz_find(lfs, ..., head, size, pos, &block, &offset)`: the values
stored to `*block` and `*offset`. -/
def lfs_ctz_find (g : Geometry) (d : Disk) (head size pos : Nat) (fuel : Nat) :
    Run (Nat × Nat) :=
  if size = 0 then .done (LFS_BLOCK_NULL, 0)
  else
    let noff := sub64 size 1
    let current := ofInt64 (lfs_ctz_index g.block_size noff).1
    let target := ofInt64 (lfs_ctz_index g.block_size pos).1
    match lfs_ctz_find_loop g d target fuel head current with
    | .done block => .done (block, (lfs_ctz_index g.block_size pos).2)
    | .fail e => .fail e
    | .fuel => .fuel

/-- The `while (true)` loop of `lfs_ctz_traverse`; the callback `cb` maps its
state and a block address to an error code and a new state.  The result is
the returned code with the callback's final state, `none` when the fuel runs
out. -/
def lfs_ctz_traverse_loop {σ : Type} (g : Geometry) (d : Disk) (cb : σ → Nat → Int × σ) :
    Nat → Nat → Nat → σ → Option (Int × σ)
  | 0, _, _, _ => none
  | fuel + 1, head, index, s =>
    let r := cb s head
    if r.1 ≠ 0 then some (r.1, r.2)
    else if index = 0 then some (LFS_ERR_OK, r.2)
    else
      let count := 2 - (index &&& 1)
      match lfs_bd_read g d head 0 (count * 8) with
      | .error e => some (e, r.2)
      | .ok bytes =>
        let heads0 := lfs_fromle64 bytes
        let heads1 := lfs_fromle64 (bytes.drop 8)
        let r2 := cb r.2 heads0
        if r2.1 ≠ 0 then some (r2.1, r2.2)
        else
          lfs_ctz_traverse_loop g d cb fuel (if count = 2 then heads1 else heads0)
            (sub64 index count) r2.2

/-- `lfs_ctz_traverse(lfs, ..., head, size, cb, data)`. -/
def lfs_ctz_traverse {σ : Type} (g : Geometry) (d : Disk) (head size : Nat)
    (cb : σ → Nat → Int × σ) (s : σ) (fuel : Nat) : Option (Int × σ) :=
  if size = 0 then some (LFS_ERR_OK, s)
  else
    let noff := sub64 size 1
    let index := ofInt64 (lfs_ctz_index g.block_size noff).1
    lfs_ctz_traverse_loop g d cb fuel head index s

/-- The callback that records every block it is given and never fails. -/
def record_block (seen : List Nat) (block : Nat) : Int × List Nat := (0, seen ++ [block])

/-- A skip list laid out on disk: `addr n` is the address of the block with
index `n`, and for every index `1 ≤ n ≤ last` and every `k ≤ ctz(n)` the
`k`-th eight-byte pointer at the start of block `n` reads as the address of
block `n - 2 ^ k`. -/
def ctz_wellformed (g : Geometry) (d : Disk) (addr : Nat → Nat) (last : Nat) : Prop :=
  ∀ n, 1 ≤ n → n ≤ last → ∀ k, k ≤ lfs_ctz64 n →
    (lfs_bd_read g d (addr n) (8 * k) 8).map lfs_fromle64 = .ok (addr (n - 2 ^ k))

/-- A concrete skip list used as example input: the block with index `n` lives
at address `base + n`, its first `ctz(n) + 1` eight-byte words are the
little-endian addresses of the blocks `n - 2 ^ k`, and every other byte of
the device is `0xab`. -/
def example_list_disk (base : Nat) : Disk := fun block offset =>
  if base < block ∧ offset / 8 ≤ lfs_ctz64 (block - base) then
    (base + (block - base - 2 ^ (offset / 8))) / 256 ^ (offset % 8) % 256
  else 0xab

/-- Address of the block with index `n` in `example_list_disk base`. -/
def example_list_addr (base n : Nat) : Nat := base + n

/-! ### Tags (`lfs_utility.h`) -/

/-- `LFS_MKTAG(type, id, size)` on 32-bit tags. -/
def LFS_MKTAG (type id size : Nat) : Nat :=
  wrap32 (wrap32 type <<< 20) ||| wrap32 (wrap32 id <<< 10) ||| wrap32 size

/-- `LFS_TYPE_NAME`. -/
def LFS_TYPE_NAME : Nat := 0x000
/-- `LFS_TYPE_STRUCT`. -/
def LFS_TYPE_STRUCT : Nat := 0x200
/-- `LFS_TYPE_USERATTR`. -/
def LFS_TYPE_USERATTR : Nat := 0x300
/-- `LFS_TYPE_SPLICE`. -/
def LFS_TYPE_SPLICE : Nat := 0x400
/-- `LFS_TYPE_CRC`. -/
def LFS_TYPE_CRC : Nat := 0x500
/-- `LFS_TYPE_TAIL`. -/
def LFS_TYPE_TAIL : Nat := 0x600
/-- `LFS_TYPE_GLOBALS`. -/
def LFS_TYPE_GLOBALS : Nat := 0x700
/-- `LFS_TYPE_CREATE`. -/
def LFS_TYPE_CREATE : Nat := 0x401
/-- `LFS_TYPE_DELETE`. -/
def LFS_TYPE_DELETE : Nat := 0x4ff
/-- `LFS_TYPE_MOVESTATE`. -/
def LFS_TYPE_MOVESTATE : Nat := 0x7ff

/-- `lfs_tag_isvalid`: bit 31 clear. -/
def lfs_tag_isvalid (tag : Nat) : Bool := tag &&& 0x80000000 = 0

/-- `lfs_tag_isdelete`: `((int32_t)(tag << 22) >> 22) == -1`, that is, the
ten size bits are all ones. -/
def lfs_tag_isdelete (tag : Nat) : Bool := wrap32 (tag <<< 22) >>> 22 = 0x3ff

/-- `lfs_tag_type1`. -/
def lfs_tag_type1 (tag : Nat) : Nat := (tag &&& 0x70000000) >>> 20

/-- `lfs_tag_type3`. -/
def lfs_tag_type3 (tag : Nat) : Nat := (tag &&& 0x7ff00000) >>> 20

/-- `lfs_tag_chunk`. -/
def lfs_tag_chunk (tag : Nat) : Nat := (tag &&& 0x0ff00000) >>> 20

/-- `lfs_tag_splice`: the chunk read as a signed 8-bit number. -/
def lfs_tag_splice (tag : Nat) : Int :=
  if lfs_tag_chunk tag < 128 then (lfs_tag_chunk tag : Int) else (lfs_tag_chunk tag : Int) - 256

/-- `lfs_tag_id`. -/
def lfs_tag_id (tag : Nat) : Nat := (tag &&& 0x000ffc00) >>> 10

/-- `lfs_tag_size`. -/
def lfs_tag_size (tag : Nat) : Nat := tag &&& 0x000003ff

/-- `lfs_tag_dsize`: `sizeof(tag) + lfs_tag_size(tag + lfs_tag_isdelete(tag))`. -/
def lfs_tag_dsize (tag : Nat) : Nat :=
  4 + lfs_tag_size (wrap32 (tag + if lfs_tag_isdelete tag then 1 else 0))

/-! ### Global state (`lfs_gstate_t`)

`struct lfs_gstate_t { uint32_t tag; lfs_block_t pair[2]; }` with 64-bit
block addresses.  `lfs_gstate_xor` and `lfs_gstate_iszero` read the struct
through a `uint32_t*`, so the model keeps the struct's image as 32-bit
words: with 8-byte alignment of `uint64_t` the words are `tag`, a padding
word, then the low and high halves of `pair[0]` and `pair[1]`; with 4-byte
alignment the padding word is absent. -/

/-- The global state; `pad` is the padding word after `tag`. -/
structure lfs_gstate_t where
  tag : Nat
  pad : Nat
  pair0 : Nat
  pair1 : Nat
deriving DecidableEq, Repr

/-- The struct's image as 32-bit words (little-endian host). -/
def gstate_words (align8 : Bool) (a : lfs_gstate_t) : List Nat :=
  (if align8 then [a.tag, a.pad] else [a.tag])
    ++ [a.pair0 % 4294967296, a.pair0 / 4294967296, a.pair1 % 4294967296, a.pair1 / 4294967296]

/-- The struct read back from its image; `pad0` is kept as the padding word
when the layout has none. -/
def gstate_of_words (align8 : Bool) (pad0 : Nat) (w : List Nat) : lfs_gstate_t :=
  if align8 then
    { tag := w.getD 0 0, pad := w.getD 1 0,
      pair0 := w.getD 2 0 + 4294967296 * w.getD 3 0,
      pair1 := w.getD 4 0 + 4294967296 * w.getD 5 0 }
  else
    { tag := w.getD 0 0, pad := pad0,
      pair0 := w.getD 1 0 + 4294967296 * w.getD 2 0,
      pair1 := w.getD 3 0 + 4294967296 * w.getD 4 0 }

/-- `lfs_gstate_xor(a, b)`: `for (i = 0; i < 3; i++) ((uint32_t*)a)[i] ^=
((const uint32_t*)b)[i]`; the result is the new `*a`. -/
def lfs_gstate_xor (align8 : Bool) (a b : lfs_gstate_t) : lfs_gstate_t :=
  let wa := gstate_words align8 a
  let wb := gstate_words align8 b
  gstate_of_words align8 a.pad
    (List.zipWith (fun x y => x ^^^ y) (wa.take 3) (wb.take 3) ++ wa.drop 3)

/-- `lfs_gstate_iszero(a)`: the first three 32-bit words are zero. -/
def lfs_gstate_iszero (align8 : Bool) (a : lfs_gstate_t) : Bool :=
  ((gstate_words align8 a).take 3).all (fun x => x = 0)

/-- `lfs_gstate_hasmove`. -/
def lfs_gstate_hasmove (a : lfs_gstate_t) : Bool := lfs_tag_type1 a.tag ≠ 0

/-- `lfs_gstate_hasorphans`. -/
def lfs_gstate_hasorphans (a : lfs_gstate_t) : Bool := lfs_tag_size a.tag ≠ 0

/-- The zero state, `{ 0 }`. -/
def gstate_zero : lfs_gstate_t := ⟨0, 0, 0, 0⟩

/-- `lfs_dir_getgstate(lfs, dir, gstate)`, given what its `lfs_dir_get` call
for the MOVESTATE tag returned (`res`) and stored (`temp`, already converted
from little-endian): the returned code and the new `*gstate`. -/
def lfs_dir_getgstate (align8 : Bool) (res : Int) (temp gstate : lfs_gstate_t) :
    Int × lfs_gstate_t :=
  if res < 0 ∧ res ≠ LFS_ERR_NOENT then (res, gstate)
  else if res ≠ LFS_ERR_NOENT then (LFS_ERR_OK, lfs_gstate_xor align8 gstate temp)
  else (LFS_ERR_OK, gstate)

/-- The gstate that `lfs_fs_prepmove(lfs, id, pair)` records for a pending
move of entry `id` out of `pair` (on a state without orphans). -/
def pending_move (id pair0 pair1 : Nat) : lfs_gstate_t :=
  ⟨LFS_MKTAG LFS_TYPE_DELETE id 0, 0, pair0, pair1⟩

/-! ### The block allocator (`lfs_allocator.cpp`)

The lookahead bitmap `free.buffer` is kept as one bit string: bit `k` of the
natural number is bit `k % 64` of the 64-bit word `k / 64`.  The string is
not cut off at `lookahead_size` bytes, so a window larger than the buffer
reads and writes the bits that follow it in memory; `memset` clears only the
buffer's own `8 * lookahead_size` bits.

The state carries a trace that the C code does not have and that no
operation reads: the number of window refills so far, the blocks the
traversal of the current window reported, and the positions examined since
the last `lfs_alloc_ack` with the bit found at each. -/

/-- `lfs_free_t`. -/
structure lfs_free_t where
  offset : Nat
  size : Nat
  i : Nat
  ack : Nat
  buffer : Nat
deriving DecidableEq, Repr

/-- Trace of the allocator (specification only). -/
structure alloc_trace where
  refills : Nat
  reported : List Nat
  examined : List (Nat × Bool)
deriving DecidableEq, Repr

/-- The part of `lfs_t` and its configuration that the allocator uses. -/
structure lfs_alloc_state where
  block_count : Nat
  lookahead_size : Nat
  free : lfs_free_t
  trace : alloc_trace
deriving DecidableEq, Repr

/-- The window position that `lfs_alloc_lookahead` computes for a block:
`((block - free.offset) + block_count) % block_count`. -/
def lookahead_position (s : lfs_alloc_state) (block : Nat) : Nat :=
  wrap64 (sub64 block s.free.offset + s.block_count) % s.block_count

/-- `lfs_alloc_lookahead(p, block)`: returns `LFS_ERR_OK` always. -/
def lfs_alloc_lookahead (s : lfs_alloc_state) (block : Nat) : Int × lfs_alloc_state :=
  let offset := lookahead_position s block
  let s1 := { s with trace := { s.trace with reported := s.trace.reported ++ [block] } }
  if offset < s.free.size then
    (LFS_ERR_OK, { s1 with free := { s.free with buffer := s.free.buffer ||| (1 <<< offset) } })
  else (LFS_ERR_OK, s1)

/-- `lfs_alloc_ack`. -/
def lfs_alloc_ack (s : lfs_alloc_state) : lfs_alloc_state :=
  { s with free := { s.free with ack := s.block_count },
           trace := { s.trace with examined := [] } }

/-- `lfs_alloc_drop`. -/
def lfs_alloc_drop (s : lfs_alloc_state) : lfs_alloc_state :=
  lfs_alloc_ack { s with free := { s.free with size := 0, i := 0 } }

/-- The block that window position `k` stands for:
`(free.offset + k) % block_count`. -/
def window_block (s : lfs_alloc_state) (k : Nat) : Nat :=
  wrap64 (s.free.offset + k) % s.block_count

/-- `lfs->free.i += 1; lfs->free.ack -= 1;` (the trace notes the position
examined and the bit found there). -/
def alloc_advance (s : lfs_alloc_state) : lfs_alloc_state :=
  { s with
    free := { s.free with i := wrap64 (s.free.i + 1), ack := sub64 s.free.ack 1 },
    trace := { s.trace with
      examined := s.trace.examined
        ++ [(window_block s s.free.i, s.free.buffer.testBit s.free.i)] } }

/-- The eager skip after a block was found:
`while (free.i != free.size && bit(free.i)) { free.i += 1; free.ack -= 1; }`. -/
def lfs_alloc_skip : Nat → lfs_alloc_state → Option lfs_alloc_state
  | fuel, s =>
    if s.free.i ≠ s.free.size ∧ s.free.buffer.testBit s.free.i then
      match fuel with
      | 0 => none
      | fuel + 1 => lfs_alloc_skip fuel (alloc_advance s)
    else some s

/-- The window refill at the end of the outer loop body, up to and including
the `memset`. -/
def alloc_refill (s : lfs_alloc_state) : lfs_alloc_state :=
  { s with
    free := { s.free with
      offset := wrap64 (s.free.offset + s.free.size) % s.block_count,
      size := lfs_min (wrap64 (16 * s.lookahead_size)) s.free.ack,
      i := 0,
      buffer := (s.free.buffer >>> (8 * s.lookahead_size)) <<< (8 * s.lookahead_size) },
    trace := { s.trace with refills := s.trace.refills + 1, reported := [] } }

/-- The test `!lfs->cfg->allocate_block ||
lfs->cfg->allocate_block(cfg) == LFS_ERR_NOSPC` seen through its effect: the
code that decides it and the block count afterwards.  Without a callback the
test holds and nothing changes. -/
def allocate_block_result (grow : Option (Nat → Int × Nat)) (block_count : Nat) : Int × Nat :=
  match grow with
  | none => (LFS_ERR_NOSPC, block_count)
  | some cb => cb block_count

/-- `lfs_alloc(lfs, &block)`.  `trav n` is what the `n`-th call of
`lfs_fs_rawtraverse(lfs, lfs_alloc_lookahead, lfs, true)` does: the blocks it
passes to the callback, in order, and the code it returns.  `grow` is the
host's `allocate_block` callback when configured: from the block count to
its return code and the block count it leaves (the example backends grow the
device through `lfs_fs_grow`).  One unit of fuel is spent per window position
examined and per refill.  The result is the returned code, `*block`
(meaningful when the code is `LFS_ERR_OK`) and the new state; `none` when
the fuel runs out. -/
def lfs_alloc (trav : Nat → List Nat × Int) (grow : Option (Nat → Int × Nat)) :
    Nat → lfs_alloc_state → Option (Int × Nat × lfs_alloc_state)
  | 0, _ => none
  | fuel + 1, s =>
    if s.free.i ≠ s.free.size then
      if ¬ s.free.buffer.testBit s.free.i then
        (lfs_alloc_skip fuel (alloc_advance s)).map
          (fun s2 => (LFS_ERR_OK, window_block s s.free.i, s2))
      else lfs_alloc trav grow fuel (alloc_advance s)
    else if s.free.ack = 0 then
      if (allocate_block_result grow s.block_count).1 = LFS_ERR_NOSPC then
        some (LFS_ERR_NOSPC, 0,
          { s with block_count := (allocate_block_result grow s.block_count).2 })
      else
        lfs_alloc trav grow fuel
          (lfs_alloc_ack { s with block_count := (allocate_block_result grow s.block_count).2 })
    else if (trav s.trace.refills).2 ≠ 0 then
      some ((trav s.trace.refills).2, 0,
        lfs_alloc_drop ((trav s.trace.refills).1.foldl
          (fun st b => (lfs_alloc_lookahead st b).2) (alloc_refill s)))
    else
      lfs_alloc trav grow fuel ((trav s.trace.refills).1.foldl
        (fun st b => (lfs_alloc_lookahead st b).2) (alloc_refill s))

/-- Successive calls of `lfs_alloc`, each of which must return
`LFS_ERR_OK`; a `true` flag makes the caller run `lfs_alloc_ack` before that
call.  The result lists the blocks returned. -/
def lfs_alloc_calls (trav : Nat → List Nat × Int) (grow : Option (Nat → Int × Nat))
    (fuel : Nat) : List Bool → lfs_alloc_state → Option (List Nat × lfs_alloc_state)
  | [], s => some ([], s)
  | ackFirst :: rest, s =>
    match lfs_alloc trav grow fuel (if ackFirst then lfs_alloc_ack s else s) with
    | some (code, block, s1) =>
      if code = LFS_ERR_OK then
        match lfs_alloc_calls trav grow fuel rest s1 with
        | some (blocks, s2) => some (block :: blocks, s2)
        | none => none
      else none
    | none => none

/-- Invariant of the allocator state between calls: the device has at most
`2 ^ 63` blocks (so `free.offset + free.size` cannot wrap), the window lies
within one turn around the device, the cursor within the window, the
positions left in the window do not outnumber `ack`, and every block the
current window's traversal reported has its bit set if it falls into the
window. -/
def alloc_wf (s : lfs_alloc_state) : Prop :=
  0 < s.block_count ∧ s.block_count ≤ 9223372036854775808
    ∧ s.free.offset < s.block_count
    ∧ s.free.size ≤ s.block_count
    ∧ s.free.i ≤ s.free.size
    ∧ s.free.size - s.free.i ≤ s.free.ack
    ∧ s.free.ack ≤ s.block_count
    ∧ (s.free.i < s.free.size → ∀ b ∈ s.trace.reported,
        lookahead_position s b < s.free.size →
          s.free.buffer.testBit (lookahead_position s b) = true)

/-- Invariant of the trace of examined positions: together with `ack` they
account for the whole device, and they are consecutive block indices modulo
`block_count`, ending just before the cursor. -/
def alloc_examined_wf (s : lfs_alloc_state) : Prop :=
  s.trace.examined.length + s.free.ack = s.block_count
    ∧ ∃ p0, s.trace.examined.map Prod.fst
          = (List.range s.trace.examined.length).map (fun j => (p0 + j) % s.block_count)
        ∧ (p0 + s.trace.examined.length) % s.block_count
            = (s.free.offset + s.free.i) % s.block_count

/-- How a later state relates to an earlier one of the same window: nothing
but the cursor, `ack` and the trace of examined positions moved. -/
def same_window (s t : lfs_alloc_state) : Prop :=
  t.block_count = s.block_count ∧ t.lookahead_size = s.lookahead_size
    ∧ t.free.offset = s.free.offset ∧ t.free.size = s.free.size
    ∧ t.free.buffer = s.free.buffer
    ∧ t.trace.refills = s.trace.refills ∧ t.trace.reported = s.trace.reported
    ∧ s.free.i ≤ t.free.i ∧ t.free.i ≤ t.free.size
    ∧ t.free.ack + (t.free.i - s.free.i) = s.free.ack
    ∧ t.trace.examined = s.trace.examined
        ++ (List.range (t.free.i - s.free.i)).map
            (fun j => (window_block s (s.free.i + j), s.free.buffer.testBit (s.free.i + j)))

/-- What the model asks of an `allocate_block` callback: it never shrinks the
device and keeps it within `2 ^ 63` blocks. -/
def grow_ok (grow : Option (Nat → Int × Nat)) : Prop :=
  ∀ n, n ≤ 9223372036854775808 →
    n ≤ (allocate_block_result grow n).2
      ∧ (allocate_block_result grow n).2 ≤ 9223372036854775808

/-! ### Metadata blocks: the scan of `lfs_dir_fetchmatch` (`lfs_metadata.cpp`)

The model covers the `while (true)` loop that `lfs_dir_fetchmatch` runs over
one block of a pair, with the initialisation that precedes it in the body of
the `for (idx ...)` loop.  The callback `cb` is given the tag and the entry's
payload (the bytes after the tag that belong to the entry).  Two fields of the
scan state are not in the C code and nothing reads them: `read_end`, one past
the highest byte offset of the block read so far, and `dir_read_end`, the
value of `read_end` when the directory state was last recorded. -/

/-- The table `rtable` of `lfs_crc`. -/
def crc_rtable : List Nat :=
  [0x00000000, 0x1db71064, 0x3b6e20c8, 0x26d930ac,
   0x76dc4190, 0x6b6b51f4, 0x4db26158, 0x5005713c,
   0xedb88320, 0xf00f9344, 0xd6d6a3e8, 0xcb61b38c,
   0x9b64c2b0, 0x86d3d2d4, 0xa00ae278, 0xbdbdf21c]

/-- One round of the loop of `lfs_crc`: both nibbles of one byte. -/
def lfs_crc_byte (crc byte : Nat) : Nat :=
  let c1 := (crc >>> 4) ^^^ crc_rtable.getD ((crc ^^^ (byte % 256)) &&& 0xf) 0
  (c1 >>> 4) ^^^ crc_rtable.getD ((c1 ^^^ ((byte % 256) >>> 4)) &&& 0xf) 0

/-- `lfs_crc(crc, buffer, size)` over the bytes of the buffer. -/
def lfs_crc (crc : Nat) (data : List Nat) : Nat := data.foldl lfs_crc_byte crc

/-- `lfs_frombe32` applied to four bytes read from disk. -/
def lfs_frombe32 (bytes : List Nat) : Nat :=
  (bytes.take 4).foldl (fun acc x => 256 * acc + x % 256) 0

/-- `lfs_fromle32` applied to four bytes read from disk. -/
def lfs_fromle32 (bytes : List Nat) : Nat :=
  (bytes.take 4).foldr (fun x acc => x % 256 + 256 * acc) 0

/-- The four little-endian bytes of a 32-bit value (`lfs_tole32`). -/
def lfs_tole32 (x : Nat) : List Nat :=
  (List.range 4).map (fun j => x / 256 ^ j % 256)

/-- `LFS_CMP_EQ`. -/
def LFS_CMP_EQ : Int := 0
/-- `LFS_CMP_GT`. -/
def LFS_CMP_GT : Int := 2

/-- The fields of `lfs_metadata_dir_t` that the scan records at a CRC tag
whose checksum matches. -/
structure dir_record where
  offset : Nat
  etag : Nat
  count : Nat
  tail0 : Nat
  tail1 : Nat
  split : Bool
deriving DecidableEq, Repr

/-- The variables of the scan: the locals of the loop, `besttag`,
`lfs->seed`, the recorded directory state and `dir->erased`, and the two
specification-only fields. -/
structure fetch_state where
  offset : Nat
  ptag : Nat
  crc : Nat
  tempcount : Nat
  temptail0 : Nat
  temptail1 : Nat
  tempsplit : Bool
  tempbesttag : Nat
  besttag : Nat
  seed : Nat
  dir : dir_record
  erased : Bool
  read_end : Nat
  dir_read_end : Nat
deriving DecidableEq, Repr

/-- How one pass through the loop body ends: `continue`, `break`, or
`return err`. -/
inductive fetch_ctl where
  | next
  | stop
  | error (code : Int)
deriving DecidableEq, Repr

/-- The 32-bit pattern of a C `int` (conversion to `lfs_tag_t`). -/
def ofInt32 (x : Int) : Nat := (x % 4294967296).toNat

/-- The `for (j = sizeof(tag); j < lfs_tag_dsize(tag); j++)` loop that feeds
an entry's payload to the checksum byte by byte.  The result is the checksum
and whether a read failed with `LFS_ERR_CORRUPT` (which leaves the `for` loop
after `dir->erased = false`); any other read error is returned. -/
def fetch_crc_entry (g : Geometry) (d : Disk) (block offset dsize : Nat) :
    Nat → Nat → Nat → Except Int (Nat × Bool)
  | 0, _, crc => .ok (crc, false)
  | n + 1, j, crc =>
    if j < dsize then
      match lfs_bd_read g d block (offset + j) 1 with
      | .error err => if err = LFS_ERR_CORRUPT then .ok (crc, true) else .error err
      | .ok dat => fetch_crc_entry g d block offset dsize n (j + 1) (lfs_crc crc dat)
    else .ok (crc, false)

/-- The tail of the loop body for a CRC tag: read the stored checksum,
compare, and on a match record the directory state.  `s` already has
`ptag = tag`. -/
def fetch_step_crc (g : Geometry) (d : Disk) (block : Nat) (s : fetch_state) (tag : Nat) :
    fetch_state × fetch_ctl :=
  match lfs_bd_read g d block (wrap64 (s.offset + 4)) 4 with
  | .error err =>
    if err = LFS_ERR_CORRUPT then ({ s with erased := false }, .stop) else (s, .error err)
  | .ok raw =>
    if s.crc ≠ lfs_fromle32 raw then
      ({ s with erased := false, read_end := max s.read_end (wrap64 (s.offset + 4) + 4) }, .stop)
    else
      ({ s with
          ptag := s.ptag ^^^ wrap32 ((lfs_tag_chunk tag &&& 1) <<< 31),
          seed := lfs_crc s.seed (lfs_tole32 s.crc),
          besttag := s.tempbesttag,
          dir := { offset := wrap64 (s.offset + lfs_tag_dsize tag),
                   etag := s.ptag ^^^ wrap32 ((lfs_tag_chunk tag &&& 1) <<< 31),
                   count := s.tempcount, tail0 := s.temptail0, tail1 := s.temptail1,
                   split := s.tempsplit },
          crc := 0xffffffff,
          read_end := max s.read_end (wrap64 (s.offset + 4) + 4),
          dir_read_end := max s.read_end (wrap64 (s.offset + 4) + 4) }, .next)

/-- The `if`/`else if` chain on directory modification tags (NAME, SPLICE,
TAIL). -/
def fetch_step_modify (g : Geometry) (d : Disk) (block : Nat) (s : fetch_state) (tag : Nat) :
    fetch_state × fetch_ctl :=
  if lfs_tag_type1 tag = LFS_TYPE_NAME then
    (if lfs_tag_id tag ≥ s.tempcount then { s with tempcount := (lfs_tag_id tag + 1) % 65536 }
      else s, .next)
  else if lfs_tag_type1 tag = LFS_TYPE_SPLICE then
    ({ s with
        tempcount := (((s.tempcount : Int) + lfs_tag_splice tag) % 65536).toNat,
        tempbesttag :=
          if tag = (LFS_MKTAG LFS_TYPE_DELETE 0 0 ||| (LFS_MKTAG 0 0x3ff 0 &&& s.tempbesttag)) then
            s.tempbesttag ||| 0x80000000
          else if s.tempbesttag ≠ 0xffffffff ∧ lfs_tag_id tag ≤ lfs_tag_id s.tempbesttag then
            wrap32 (s.tempbesttag + LFS_MKTAG 0 (ofInt32 (lfs_tag_splice tag)) 0)
          else s.tempbesttag }, .next)
  else if lfs_tag_type1 tag = LFS_TYPE_TAIL then
    match lfs_bd_read g d block (wrap64 (s.offset + 4)) 16 with
    | .error err =>
      if err = LFS_ERR_CORRUPT then
        ({ s with tempsplit := decide (lfs_tag_chunk tag &&& 1 = 1), erased := false }, .stop)
      else ({ s with tempsplit := decide (lfs_tag_chunk tag &&& 1 = 1) }, .error err)
    | .ok raw =>
      ({ s with
          tempsplit := decide (lfs_tag_chunk tag &&& 1 = 1),
          temptail0 := lfs_fromle64 raw,
          temptail1 := lfs_fromle64 (raw.drop 8),
          read_end := max s.read_end (wrap64 (s.offset + 4) + 16) }, .next)
  else (s, .next)

/-- The `found a match for our fetcher?` part: the callback is run on the
tag and the entry's payload. -/
def fetch_step_match (d : Disk) (block fmask ftag : Nat) (cb : Nat → List Nat → Int)
    (s : fetch_state) (tag : Nat) : fetch_state × fetch_ctl :=
  if fmask &&& tag = fmask &&& ftag then
    if cb tag ((List.range (lfs_tag_dsize tag - 4)).map (fun j => d block (s.offset + 4 + j))) < 0
    then
      if cb tag ((List.range (lfs_tag_dsize tag - 4)).map (fun j => d block (s.offset + 4 + j)))
          = LFS_ERR_CORRUPT then
        ({ s with erased := false }, .stop)
      else
        (s, .error
          (cb tag ((List.range (lfs_tag_dsize tag - 4)).map (fun j => d block (s.offset + 4 + j)))))
    else if
      cb tag ((List.range (lfs_tag_dsize tag - 4)).map (fun j => d block (s.offset + 4 + j)))
        = LFS_CMP_EQ then
      ({ s with tempbesttag := tag }, .next)
    else if LFS_MKTAG LFS_TYPE_MOVESTATE 0x3ff 0 &&& tag
        = LFS_MKTAG LFS_TYPE_MOVESTATE 0x3ff 0 &&& s.tempbesttag then
      ({ s with tempbesttag := 0xffffffff }, .next)
    else if
      cb tag ((List.range (lfs_tag_dsize tag - 4)).map (fun j => d block (s.offset + 4 + j)))
        = LFS_CMP_GT ∧ lfs_tag_id tag ≤ lfs_tag_id s.tempbesttag then
      ({ s with tempbesttag := tag ||| 0x80000000 }, .next)
    else (s, .next)
  else (s, .next)

/-- The state after the entry's payload went into the checksum (`r` is the
result of the `for` loop). -/
def fetch_entry_state (s : fetch_state) (r : Nat × Bool) (tag : Nat) : fetch_state :=
  { s with crc := r.1, erased := if r.2 then false else s.erased,
           read_end := max s.read_end (s.offset + lfs_tag_dsize tag) }

/-- The loop body for a tag that is not a CRC tag: checksum the entry, apply
the modification tags, offer the entry to the callback.  `s` already has
`ptag = tag`. -/
def fetch_step_entry (g : Geometry) (d : Disk) (block fmask ftag : Nat)
    (cb : Nat → List Nat → Int) (s : fetch_state) (tag : Nat) : fetch_state × fetch_ctl :=
  match fetch_crc_entry g d block s.offset (lfs_tag_dsize tag) (lfs_tag_dsize tag) 4 s.crc with
  | .error err => (s, .error err)
  | .ok r =>
    if (fetch_step_modify g d block (fetch_entry_state s r tag) tag).2 = .next then
      fetch_step_match d block fmask ftag cb
        (fetch_step_modify g d block (fetch_entry_state s r tag) tag).1 tag
    else fetch_step_modify g d block (fetch_entry_state s r tag) tag

/-- The state after the next tag was read: `offset += lfs_tag_dsize(ptag)`
and the four raw bytes of the tag went into the checksum. -/
def fetch_tag_state (s : fetch_state) (raw : List Nat) : fetch_state :=
  { s with
    offset := wrap64 (s.offset + lfs_tag_dsize s.ptag),
    crc := lfs_crc s.crc raw,
    read_end := max s.read_end (wrap64 (s.offset + lfs_tag_dsize s.ptag) + 4) }

/-- One pass through the body of the `while (true)` loop. -/
def fetch_step (g : Geometry) (d : Disk) (write_size block fmask ftag : Nat)
    (cb : Nat → List Nat → Int) (s : fetch_state) : fetch_state × fetch_ctl :=
  match lfs_bd_read g d block (wrap64 (s.offset + lfs_tag_dsize s.ptag)) 4 with
  | .error err =>
    if err = LFS_ERR_CORRUPT then
      ({ s with offset := wrap64 (s.offset + lfs_tag_dsize s.ptag), erased := false }, .stop)
    else ({ s with offset := wrap64 (s.offset + lfs_tag_dsize s.ptag) }, .error err)
  | .ok raw =>
    if ¬ lfs_tag_isvalid (lfs_frombe32 raw ^^^ s.ptag) then
      ({ fetch_tag_state s raw with
          erased := decide (lfs_tag_type1 s.ptag = LFS_TYPE_CRC
            ∧ s.dir.offset % write_size = 0) }, .stop)
    else if wrap64 (wrap64 (s.offset + lfs_tag_dsize s.ptag)
        + lfs_tag_dsize (lfs_frombe32 raw ^^^ s.ptag)) > g.block_size then
      ({ fetch_tag_state s raw with erased := false }, .stop)
    else if lfs_tag_type1 (lfs_frombe32 raw ^^^ s.ptag) = LFS_TYPE_CRC then
      fetch_step_crc g d block
        { fetch_tag_state s raw with ptag := lfs_frombe32 raw ^^^ s.ptag }
        (lfs_frombe32 raw ^^^ s.ptag)
    else
      fetch_step_entry g d block fmask ftag cb
        { fetch_tag_state s raw with ptag := lfs_frombe32 raw ^^^ s.ptag }
        (lfs_frombe32 raw ^^^ s.ptag)

/-- The `while (true)` loop: the state when the loop is left and the code
`lfs_dir_fetchmatch` returns from inside the loop (0 when the loop is left by
`break`); `none` when the fuel runs out.  One unit of fuel per tag. -/
def fetch_scan (g : Geometry) (d : Disk) (write_size block fmask ftag : Nat)
    (cb : Nat → List Nat → Int) : Nat → fetch_state → Option (fetch_state × Int)
  | 0, _ => none
  | fuel + 1, s =>
    if (fetch_step g d write_size block fmask ftag cb s).2 = .next then
      fetch_scan g d write_size block fmask ftag cb fuel
        (fetch_step g d write_size block fmask ftag cb s).1
    else
      some ((fetch_step g d write_size block fmask ftag cb s).1,
        match (fetch_step g d write_size block fmask ftag cb s).2 with
        | .error code => code
        | _ => 0)

/-- The state at the top of the body of `for (idx ...)`: `offset = 0`,
`ptag = 0xffffffff`, no entries, null tail, and the checksum of the revision
count, which was read from the first four bytes of the block. -/
def fetch_init (rev besttag seed : Nat) (dir : dir_record) (erased : Bool) : fetch_state :=
  { offset := 0, ptag := 0xffffffff, crc := lfs_crc 0xffffffff (lfs_tole32 rev),
    tempcount := 0, temptail0 := LFS_BLOCK_NULL, temptail1 := LFS_BLOCK_NULL,
    tempsplit := false, tempbesttag := besttag, besttag := besttag, seed := seed,
    dir := dir, erased := erased, read_end := 4, dir_read_end := 0 }

/-- The scan of one block by `lfs_dir_fetchmatch`, given the block's revision
count and `lfs->seed`: the state when the loop is left, starting from a
`*dir` with `offset = 0` and `besttag = -1`. -/
def lfs_dir_fetchmatch_block (g : Geometry) (d : Disk) (write_size block rev seed fmask ftag : Nat)
    (cb : Nat → List Nat → Int) (fuel : Nat) : Option (fetch_state × Int) :=
  fetch_scan g d write_size block fmask ftag cb fuel
    (fetch_init rev 0xffffffff seed ⟨0, 0, 0, 0, 0, false⟩ false)

/-- A block given by its first bytes; what follows is erased (0xff), as are
all other blocks. -/
def disk_of_bytes (block : Nat) (bytes : List Nat) : Disk :=
  fun b off => if b = block then bytes.getD off 0xff else 0xff

/-- Two disks hold the same bytes below offset `n` of a block. -/
def agree_below (d1 d2 : Disk) (block n : Nat) : Prop :=
  ∀ off, off < n → d1 block off = d2 block off

/-! ### Reading and growing a file stored as a skip list (`lfs_file.cpp`,
`lfs_file_index.cpp`) -/

/-- The fields of `lfs_file_t` that `lfs_file_flushedread` uses on a file
without `LFS_F_INLINE`: `ctz.head`, `ctz.size`, `pos`, `block`, `off` and the
flag `LFS_F_READING`. -/
structure lfs_file_t where
  head : Nat
  size : Nat
  pos : Nat
  block : Nat
  offset : Nat
  reading : Bool
deriving DecidableEq, Repr

/-- The `check if we need a new block` part of the loop of
`lfs_file_flushedread` (file not inline): `lfs_ctz_find` stores to
`file->block` and `file->off`; `hops` is the fuel of that walk. -/
def flushedread_find (g : Geometry) (d : Disk) (hops : Nat) (f : lfs_file_t) : Run lfs_file_t :=
  if ¬ f.reading ∨ f.offset = g.block_size then
    match lfs_ctz_find g d f.head f.size f.pos hops with
    | .done r => .done { f with block := r.1, offset := r.2, reading := true }
    | .fail e => .fail e
    | .fuel => .fuel
  else .done f

/-- The `while (nsize > 0)` loop of `lfs_file_flushedread` (file not inline):
the error code (0 when the loop ends), the bytes stored to the buffer and the
file state; `none` when the fuel runs out. -/
def lfs_file_flushedread_loop (g : Geometry) (d : Disk) (hops : Nat) :
    Nat → lfs_file_t → Nat → List Nat → Option (Int × List Nat × lfs_file_t)
  | 0, _, _, _ => none
  | fuel + 1, f, nsize, data =>
    if nsize > 0 then
      match flushedread_find g d hops f with
      | .fuel => none
      | .fail e => some (e, data, f)
      | .done f1 =>
        match lfs_bd_read g d f1.block f1.offset
            (lfs_min nsize (sub64 g.block_size f1.offset)) with
        | .error e => some (e, data, f1)
        | .ok bytes =>
          lfs_file_flushedread_loop g d hops fuel
            { f1 with
              pos := wrap64 (f1.pos + lfs_min nsize (sub64 g.block_size f1.offset)),
              offset := wrap64 (f1.offset + lfs_min nsize (sub64 g.block_size f1.offset)) }
            (sub64 nsize (lfs_min nsize (sub64 g.block_size f1.offset))) (data ++ bytes)
    else some (0, data, f)

/-- `lfs_file_flushedread(lfs, file, buffer, size)` on a file that is not
inline: the return value (the number of bytes read, or a negative error
code), the bytes stored to the buffer, and the file state. -/
def lfs_file_flushedread (g : Geometry) (d : Disk) (hops fuel : Nat) (f : lfs_file_t)
    (size : Nat) : Option (Int × List Nat × lfs_file_t) :=
  if f.pos ≥ f.size then some (LFS_ERR_OK, [], f)
  else
    (lfs_file_flushedread_loop g d hops fuel f (lfs_min size (sub64 f.size f.pos)) []).map
      (fun r => (if r.1 = 0 then ((lfs_min size (sub64 f.size f.pos) : Nat) : Int) else r.1, r.2))

/-- What `lfs_ctz_extend` does with the block it allocated. -/
inductive ctz_extend_plan where
  | first
  | copy (noff : Nat)
  | append (index skips offset : Nat)
deriving DecidableEq, Repr

/-- The decision of `lfs_ctz_extend(lfs, ..., head, size, &block, &off)`:
for an empty file the new block is the first; if the last block is judged
incomplete (`noff != block_size`) its first `noff` bytes are copied into the
new block, which replaces it, and writing goes on at `noff`; else the new
block is appended with index `index + 1`, `lfs_ctz64(index) + 1` pointers, and
writing goes on behind the pointers. -/
def lfs_ctz_extend_plan (block_size size : Nat) : ctz_extend_plan :=
  if size = 0 then .first
  else if wrap64 ((lfs_ctz_index block_size (sub64 size 1)).2 + 1) ≠ block_size then
    .copy (wrap64 ((lfs_ctz_index block_size (sub64 size 1)).2 + 1))
  else
    .append (wrap64 (ofInt64 (lfs_ctz_index block_size (sub64 size 1)).1 + 1))
      (lfs_ctz64 (wrap64 (ofInt64 (lfs_ctz_index block_size (sub64 size 1)).1 + 1)) + 1)
      (wrap64 (8 * (lfs_ctz64 (wrap64 (ofInt64 (lfs_ctz_index block_size (sub64 size 1)).1 + 1))
        + 1)))

/-- The example skip list `example_list_disk base` as a file whose last block,
of index `last`, holds one data byte `byte` behind its pointers and is still
erased (0xff) after it. -/
def example_file_disk (base last byte : Nat) : Disk := fun block offset =>
  if block = base + last ∧ 8 * (lfs_ctz64 last + 1) ≤ offset then
    if offset = 8 * (lfs_ctz64 last + 1) then byte else 0xff
  else example_list_disk base block offset

/-! ### The bitwise CRC-32 that `lfs_crc` is compared with

This definition is the reference computation, written from its usual
description (reflected, polynomial `0xEDB88320`, one input bit at a time,
least significant bit first, no initial or final inversion); it is not code
of the repository. -/

/-- One input bit: shift right by one, and xor the polynomial when the low bit
of `crc xor bit` is 1. -/
def crc32_reference_bit (crc bit : Nat) : Nat :=
  if (crc ^^^ bit) % 2 = 1 then (crc >>> 1) ^^^ 0xEDB88320 else crc >>> 1

/-- The eight bits of one byte, least significant first. -/
def crc32_reference_byte (crc byte : Nat) : Nat :=
  (List.range 8).foldl (fun c j => crc32_reference_bit c (byte >>> j % 2)) crc

/-- The reference CRC of a byte sequence started at `crc`. -/
def crc32_reference (crc : Nat) (data : List Nat) : Nat :=
  data.foldl crc32_reference_byte crc

/-! ### Appending to a metadata block (`lfs_commit.cpp`)

`lfs_bd_write` puts bytes into the write cache and the cache is programmed
when it fills or is flushed; the model shows the block as it is once the
cache is flushed, and the device does not fail. -/

/-- The device after `bytes` were programmed at `offset` of `block`. -/
def disk_prog (d : Disk) (block offset : Nat) (bytes : List Nat) : Disk :=
  fun b o =>
    if b = block ∧ offset ≤ o ∧ o < offset + bytes.length then bytes.getD (o - offset) 0
    else d b o

/-- The four big-endian bytes of a 32-bit value (`lfs_tobe32` followed by the
write of the word). -/
def lfs_tobe32 (x : Nat) : List Nat :=
  [x / 16777216 % 256, x / 65536 % 256, x / 256 % 256, x % 256]

/-- `lfs_commit_t`; `begin_` and `end_` are the fields `begin` and `end`. -/
structure lfs_commit_t where
  block : Nat
  offset : Nat
  ptag : Nat
  crc : Nat
  begin_ : Nat
  end_ : Nat
deriving DecidableEq, Repr

/-- `lfs_dir_commit_write(lfs, commit, buffer, size)`: program the bytes,
feed them to the checksum, advance the offset. -/
def lfs_dir_commit_write (d : Disk) (c : lfs_commit_t) (bytes : List Nat) :
    Int × Disk × lfs_commit_t :=
  (LFS_ERR_OK, disk_prog d c.block c.offset bytes,
    { c with crc := lfs_crc c.crc bytes, offset := wrap64 (c.offset + bytes.length) })

/-- The `from disk` loop of `lfs_dir_commit_attribute`: copy `count` bytes
from `(block, offset)` of the device, one at a time. -/
def commit_from_disk (g : Geometry) (block offset : Nat) :
    Nat → Nat → Disk → lfs_commit_t → Int × Disk × lfs_commit_t
  | 0, _, d, c => (LFS_ERR_OK, d, c)
  | count + 1, i, d, c =>
    match lfs_bd_read g d block (wrap64 (offset + i)) 1 with
    | .error err => (err, d, c)
    | .ok dat =>
      commit_from_disk g block offset count (i + 1) (lfs_dir_commit_write d c dat).2.1
        (lfs_dir_commit_write d c dat).2.2

/-- `lfs_dir_commit_attribute(lfs, commit, tag, buffer)`.  A tag with bit 31
clear takes its payload from memory (`buffer`, read as `dsize - 4` bytes), a
tag with bit 31 set copies it from the device at `source = (block, offset)`.
The result is the returned code, the device and `*commit`. -/
def lfs_dir_commit_attribute (g : Geometry) (d : Disk) (c : lfs_commit_t) (tag : Nat)
    (buffer : List Nat) (source : Nat × Nat) : Int × Disk × lfs_commit_t :=
  if wrap64 (c.offset + lfs_tag_dsize tag) > c.end_ then (LFS_ERR_NOSPC, d, c)
  else if tag &&& 0x80000000 = 0 then
    (LFS_ERR_OK,
      (lfs_dir_commit_write
        (lfs_dir_commit_write d c (lfs_tobe32 ((tag &&& 0x7fffffff) ^^^ c.ptag))).2.1
        (lfs_dir_commit_write d c (lfs_tobe32 ((tag &&& 0x7fffffff) ^^^ c.ptag))).2.2
        ((List.range (lfs_tag_dsize tag - 4)).map (fun j => buffer.getD j 0))).2.1,
      { (lfs_dir_commit_write
          (lfs_dir_commit_write d c (lfs_tobe32 ((tag &&& 0x7fffffff) ^^^ c.ptag))).2.1
          (lfs_dir_commit_write d c (lfs_tobe32 ((tag &&& 0x7fffffff) ^^^ c.ptag))).2.2
          ((List.range (lfs_tag_dsize tag - 4)).map (fun j => buffer.getD j 0))).2.2 with
        ptag := tag &&& 0x7fffffff })
  else
    if (commit_from_disk g source.1 source.2 (lfs_tag_dsize tag - 4) 0
        (lfs_dir_commit_write d c (lfs_tobe32 ((tag &&& 0x7fffffff) ^^^ c.ptag))).2.1
        (lfs_dir_commit_write d c (lfs_tobe32 ((tag &&& 0x7fffffff) ^^^ c.ptag))).2.2).1 ≠ 0
    then
      commit_from_disk g source.1 source.2 (lfs_tag_dsize tag - 4) 0
        (lfs_dir_commit_write d c (lfs_tobe32 ((tag &&& 0x7fffffff) ^^^ c.ptag))).2.1
        (lfs_dir_commit_write d c (lfs_tobe32 ((tag &&& 0x7fffffff) ^^^ c.ptag))).2.2
    else
      (LFS_ERR_OK,
        (commit_from_disk g source.1 source.2 (lfs_tag_dsize tag - 4) 0
          (lfs_dir_commit_write d c (lfs_tobe32 ((tag &&& 0x7fffffff) ^^^ c.ptag))).2.1
          (lfs_dir_commit_write d c (lfs_tobe32 ((tag &&& 0x7fffffff) ^^^ c.ptag))).2.2).2.1,
        { (commit_from_disk g source.1 source.2 (lfs_tag_dsize tag - 4) 0
            (lfs_dir_commit_write d c (lfs_tobe32 ((tag &&& 0x7fffffff) ^^^ c.ptag))).2.1
            (lfs_dir_commit_write d c (lfs_tobe32 ((tag &&& 0x7fffffff) ^^^ c.ptag))).2.2).2.2
          with ptag := tag &&& 0x7fffffff })

/-- Successive calls of `lfs_dir_commit_attribute` for tags with their
payloads in memory, stopping at the first call that fails. -/
def commit_attributes (g : Geometry) :
    List (Nat × List Nat) → Disk → lfs_commit_t → Int × Disk × lfs_commit_t
  | [], d, c => (LFS_ERR_OK, d, c)
  | a :: rest, d, c =>
    if (lfs_dir_commit_attribute g d c a.1 a.2 (0, 0)).1 ≠ 0 then
      lfs_dir_commit_attribute g d c a.1 a.2 (0, 0)
    else
      commit_attributes g rest (lfs_dir_commit_attribute g d c a.1 a.2 (0, 0)).2.1
        (lfs_dir_commit_attribute g d c a.1 a.2 (0, 0)).2.2

/-- The tags that the first `n` passes of the loop of `lfs_dir_fetchmatch`
decode (`ptag` after each pass), as long as the loop goes on. -/
def fetch_tags (g : Geometry) (d : Disk) (write_size block fmask ftag : Nat)
    (cb : Nat → List Nat → Int) : Nat → fetch_state → List Nat
  | 0, _ => []
  | n + 1, s =>
    if (fetch_step g d write_size block fmask ftag cb s).2 = .next then
      (fetch_step g d write_size block fmask ftag cb s).1.ptag
        :: fetch_tags g d write_size block fmask ftag cb n
            (fetch_step g d write_size block fmask ftag cb s).1
    else []

/-- The bytes that a list of attributes takes in a metadata block. -/
def attrs_dsize (attrs : List (Nat × List Nat)) : Nat :=
  (attrs.map (fun a => lfs_tag_dsize a.1)).sum

/-- `LFS_TYPE_REG`. -/
def LFS_TYPE_REG : Nat := 0x001

/-- `LFS_TYPE_DIR`. -/
def LFS_TYPE_DIR : Nat := 0x002

/-! ### `lfs_dir_fetchmatch`: choice of the block and the result -/

/-- `lfs_scmp(a, b)`: `(int)(unsigned)(a - b)` on 32-bit sequence numbers. -/
def lfs_scmp (a b : Nat) : Int := toInt32 (wrap32 (wrap32 a + 4294967296 - wrap32 b))

/-- `lfs_pair_cmp`: 0 when the pairs share a block. -/
def lfs_pair_cmp (a0 a1 b0 b1 : Nat) : Int :=
  if a0 = b0 ∨ a1 = b1 ∨ a0 = b1 ∨ a1 = b0 then 0 else 1

/-- `lfs_gstate_hasmovehere(a, pair)`. -/
def lfs_gstate_hasmovehere (a : lfs_gstate_t) (p0 p1 : Nat) : Bool :=
  lfs_tag_type1 a.tag ≠ 0 ∧ lfs_pair_cmp a.pair0 a.pair1 p0 p1 = 0

/-- The read of one revision count: the code of `lfs_bd_read` and `revs[i]`
after `lfs_fromle32` (0, the initial value, when the read failed). -/
def fetch_rev (g : Geometry) (d : Disk) (block : Nat) : Int × Nat :=
  match lfs_bd_read g d block 0 4 with
  | .error err => (err, 0)
  | .ok raw => (0, lfs_fromle32 raw)

/-- The loop `for (int i = 0; i < 2; i++)` over the two revision counts:
`(revs[0], revs[1], r)`, or the error returned.  At `i = 0` the comparison is
with `revs[1] = 0` and can only set `r = 0`, which it is already; at `i = 1`
the block `pair[1]` is chosen when `lfs_scmp(revs[1], revs[0]) > 0`. -/
def fetch_revs (g : Geometry) (d : Disk) (pair0 pair1 : Nat) : Except Int (Nat × Nat × Nat) :=
  if (fetch_rev g d pair0).1 ≠ 0 ∧ (fetch_rev g d pair0).1 ≠ LFS_ERR_CORRUPT then
    .error (fetch_rev g d pair0).1
  else if (fetch_rev g d pair1).1 ≠ 0 ∧ (fetch_rev g d pair1).1 ≠ LFS_ERR_CORRUPT then
    .error (fetch_rev g d pair1).1
  else
    .ok ((fetch_rev g d pair0).2, (fetch_rev g d pair1).2,
      if (fetch_rev g d pair1).1 ≠ LFS_ERR_CORRUPT
          ∧ lfs_scmp (fetch_rev g d pair1).2 (fetch_rev g d pair0).2 > 0 then 1 else 0)

/-- What `lfs_dir_fetchmatch` leaves in `*dir`: the pair in the order chosen,
the revision count, and the state of the scan (which holds the recorded
directory, `besttag` and `lfs->seed`). -/
structure fetched_dir where
  pair0 : Nat
  pair1 : Nat
  revision_count : Nat
  scan : fetch_state
deriving DecidableEq, Repr

/-- The synthetic move applied to `besttag` once a block was accepted. -/
def fetch_besttag (gdisk : lfs_gstate_t) (p0 p1 : Nat) (besttag : Nat) : Nat :=
  if lfs_gstate_hasmovehere gdisk p0 p1 then
    if lfs_tag_id gdisk.tag = lfs_tag_id besttag then besttag ||| 0x80000000
    else if besttag ≠ 0xffffffff ∧ lfs_tag_id gdisk.tag < lfs_tag_id besttag then
      wrap32 (besttag + 4294967296 - LFS_MKTAG 0 1 0)
    else besttag
  else besttag

/-- The part `consider what we have good enough`: the value returned and
`*id`. -/
def fetch_finish (gdisk : lfs_gstate_t) (p0 p1 : Nat) (s : fetch_state) : Int × Nat :=
  (if lfs_tag_isvalid (fetch_besttag gdisk p0 p1 s.besttag) then
      (fetch_besttag gdisk p0 p1 s.besttag : Int)
    else if lfs_tag_id (fetch_besttag gdisk p0 p1 s.besttag) < s.dir.count then LFS_ERR_NOENT
    else LFS_ERR_OK,
   lfs_min (lfs_tag_id (fetch_besttag gdisk p0 p1 s.besttag)) s.dir.count % 65536)

/-- The loop `for (idx ...)` of `lfs_dir_fetchmatch` over the blocks `first`
and `other` with their revision counts: the value returned, `*id` and `*dir`.
`none` when the fuel runs out (one unit per tag of a block). -/
def fetch_blocks (g : Geometry) (d : Disk) (write_size seed : Nat) (gdisk : lfs_gstate_t)
    (first other rev_first rev_other fmask ftag : Nat) (cb : Nat → List Nat → Int)
    (fuel : Nat) : Option (Int × Nat × fetched_dir) :=
  match fetch_scan g d write_size first fmask ftag cb fuel
      (fetch_init rev_first 0xffffffff seed ⟨0, 0, 0, 0, 0, false⟩ false) with
  | none => none
  | some (t, c) =>
    if c ≠ 0 then some (c, 0, ⟨first, other, rev_first, t⟩)
    else if t.dir.offset > 0 then
      some ((fetch_finish gdisk first other t).1, (fetch_finish gdisk first other t).2,
        ⟨first, other, rev_first, t⟩)
    else
      match fetch_scan g d write_size other fmask ftag cb fuel
          (fetch_init rev_other t.besttag t.seed t.dir t.erased) with
      | none => none
      | some (u, e) =>
        if e ≠ 0 then some (e, 0, ⟨other, first, rev_other, u⟩)
        else if u.dir.offset > 0 then
          some ((fetch_finish gdisk other first u).1, (fetch_finish gdisk other first u).2,
            ⟨other, first, rev_other, u⟩)
        else some (LFS_ERR_CORRUPT, 0, ⟨first, other, rev_other, u⟩)

/-- `lfs_dir_fetchmatch(lfs, dir, pair, fmask, ftag, id, cb, data)`: the value
returned, `*id`, and `*dir` when the function got as far as writing it. -/
def lfs_dir_fetchmatch (g : Geometry) (d : Disk) (write_size seed : Nat) (gdisk : lfs_gstate_t)
    (pair0 pair1 fmask ftag : Nat) (cb : Nat → List Nat → Int) (fuel : Nat) :
    Option (Int × Nat × Option fetched_dir) :=
  if pair0 ≥ g.block_count ∨ pair1 ≥ g.block_count then some (LFS_ERR_CORRUPT, 0, none)
  else
    match fetch_revs g d pair0 pair1 with
    | .error err => some (err, 0, none)
    | .ok (revs0, revs1, r) =>
      (fetch_blocks g d write_size seed gdisk
        (if r = 0 then pair0 else pair1) (if r = 0 then pair1 else pair0)
        (if r = 0 then revs0 else revs1) (if r = 0 then revs1 else revs0)
        fmask ftag cb fuel).map (fun x => (x.1, x.2.1, some x.2.2))

/-- A device given by the first bytes of its first blocks; all the rest is
erased (0xff). -/
def disk_of_blocks (blocks : List (List Nat)) : Disk :=
  fun b off => (blocks.getD b []).getD off 0xff

/-! ### Relocation rule (`lfs_commit.cpp`) -/

/-- `lfs_dir_needs_relocation(lfs, dir)`:
`block_cycles > 0 && (revision_count + 1) % ((block_cycles + 1) | 1) == 0`,
with `block_cycles` an `int32_t` and `revision_count` a `uint32_t`, so that
the sum is taken modulo 2^32. -/
def lfs_dir_needs_relocation (block_cycles : Int) (revision_count : Nat) : Bool :=
  block_cycles > 0 ∧ wrap32 (revision_count + 1) % ((block_cycles.toNat + 1) ||| 1) = 0

/-! ### Inline files: the thresholds of `lfs_file.cpp` -/

/-- The test at the head of `lfs_file_flushedwrite`: an inline file is
outlined before `nsize` bytes are written at `pos` when
`lfs_max(pos + nsize, ctz.size) > lfs_min(0x3fe, lfs_min(cache_size,
(metadata_max ? metadata_max : lfs->block_size) / sizeof(lfs_block_t[2])))`;
`lfs_block_t` is `uint64_t`. -/
def lfs_file_flushedwrite_outlines (cache_size metadata_max block_size : Nat)
    (is_inline : Bool) (pos size nsize : Nat) : Bool :=
  is_inline ∧ lfs_max (wrap64 (pos + nsize)) size
    > lfs_min 0x3fe (lfs_min cache_size
        ((if metadata_max ≠ 0 then metadata_max else block_size) / 16))

/-- The test of `lfs_file_rawtruncate` for a shrinking file: the file becomes
inline when `size <= lfs_min(0x3fe, lfs_min(cache_size,
(metadata_max ? metadata_max : cfg->block_size) / 8))`. -/
def lfs_file_rawtruncate_inlines (cache_size metadata_max block_size : Nat)
    (size oldsize : Nat) : Bool :=
  size < oldsize ∧ size ≤ lfs_min 0x3fe (lfs_min cache_size
    ((if metadata_max ≠ 0 then metadata_max else block_size) / 8))

/-! ### `lfs_file_rawseek` (`lfs_file.cpp`) -/

/-- An unsigned 64-bit value read as `int64_t` (two's complement). -/
def toInt64 (x : Nat) : Int :=
  if x % 18446744073709551616 < 9223372036854775808 then
    ((x % 18446744073709551616 : Nat) : Int)
  else ((x % 18446744073709551616 : Nat) : Int) - 18446744073709551616

/-- `LFS_F_DIRTY`. -/
def LFS_F_DIRTY : Nat := 0x010000

/-- `LFS_F_WRITING`. -/
def LFS_F_WRITING : Nat := 0x020000

/-- `LFS_F_READING`. -/
def LFS_F_READING : Nat := 0x040000

/-- `LFS_F_INLINE`. -/
def LFS_F_INLINE : Nat := 0x100000

/-- `LFS_SEEK_SET`. -/
def LFS_SEEK_SET : Int := 0

/-- `LFS_SEEK_CUR`. -/
def LFS_SEEK_CUR : Int := 1

/-- `LFS_SEEK_END`. -/
def LFS_SEEK_END : Int := 2

/-- The fields of `lfs_file_t` that `lfs_file_rawseek` and `lfs_file_flush`
read and write: `flags`, `pos`, `ctz`, `block`, `off` and the cache's
`block`, `off` and `size`. -/
structure seek_file where
  flags : Nat
  pos : Nat
  ctz_head : Nat
  ctz_size : Nat
  block : Nat
  offset : Nat
  cache_block : Nat
  cache_offset : Nat
  cache_size : Nat
deriving DecidableEq, Repr

/-- `lfs_file_rawsize`. -/
def lfs_file_rawsize (f : seek_file) : Nat :=
  if f.flags &&& LFS_F_WRITING ≠ 0 then lfs_max f.pos f.ctz_size else f.ctz_size

/-- The `actual file updates` at the end of `lfs_file_flush`; `pos` is the
position saved on entry. -/
def flush_update (f : seek_file) (pos : Nat) : seek_file :=
  { f with ctz_head := f.block, ctz_size := f.pos,
           flags := (f.flags &&& (0xffffffff - LFS_F_WRITING)) ||| LFS_F_DIRTY, pos := pos }

/-- The state after the `if (file->flags & LFS_F_READING)` part of
`lfs_file_flush`. -/
def flush_reading (f : seek_file) : seek_file :=
  if f.flags &&& LFS_F_READING ≠ 0 then
    { f with cache_block := if f.flags &&& LFS_F_INLINE = 0 then LFS_BLOCK_NULL else f.cache_block,
             flags := f.flags &&& (0xffffffff - LFS_F_READING) }
  else f

/-- `lfs_file_flush(lfs, file)`: the returned code and `*file`.  For a file
that is being written and is not inline, the two loops that copy the rest of
the old file and write the cache out work on the device and the allocator;
they are the parameter `write_out`, which gives the code they leave with (0
when they fall through) and the file as they leave it. -/
def lfs_file_flush (write_out : seek_file → Int × seek_file) (f : seek_file) :
    Int × seek_file :=
  if (flush_reading f).flags &&& LFS_F_WRITING ≠ 0 then
    if (flush_reading f).flags &&& LFS_F_INLINE = 0 then
      if (write_out (flush_reading f)).1 ≠ 0 then write_out (flush_reading f)
      else (LFS_ERR_OK, flush_update (write_out (flush_reading f)).2 (flush_reading f).pos)
    else
      (LFS_ERR_OK,
        flush_update
          { flush_reading f with pos := lfs_max (flush_reading f).pos (flush_reading f).ctz_size }
          (flush_reading f).pos)
  else (LFS_ERR_OK, flush_reading f)

/-- The `find new pos` part of `lfs_file_rawseek`: the new position, or
`none` where the function returns `LFS_ERR_INVAL`.  The sums are 64-bit. -/
def seek_npos (f : seek_file) (offset whence : Int) : Option Nat :=
  if whence = LFS_SEEK_SET then some (ofInt64 offset)
  else if whence = LFS_SEEK_CUR then
    if toInt64 (ofInt64 (toInt64 f.pos + offset)) < 0 then none
    else some (wrap64 (f.pos + ofInt64 offset))
  else if whence = LFS_SEEK_END then
    if toInt64 (ofInt64 (toInt64 (lfs_file_rawsize f) + offset)) < 0 then none
    else some (ofInt64 (toInt64 (ofInt64 (toInt64 (lfs_file_rawsize f) + offset))))
  else some f.pos

/-- `lfs_file_rawseek(lfs, file, offset, whence)`: the value returned and
`*file`. -/
def lfs_file_rawseek (write_out : seek_file → Int × seek_file) (block_size file_max_size : Nat)
    (f : seek_file) (offset whence : Int) : Int × seek_file :=
  match seek_npos f offset whence with
  | none => (LFS_ERR_INVAL, f)
  | some npos =>
    if npos > file_max_size then (LFS_ERR_INVAL, f)
    else if f.pos = npos then (toInt64 npos, f)
    else if f.flags &&& LFS_F_WRITING = 0
        ∧ (lfs_ctz_index block_size f.pos).1 = (lfs_ctz_index block_size npos).1
        ∧ (lfs_ctz_index block_size npos).2 ≥ f.cache_offset
        ∧ (lfs_ctz_index block_size npos).2 < wrap64 (f.cache_offset + f.cache_size) then
      (toInt64 npos, { f with pos := npos, offset := (lfs_ctz_index block_size npos).2 })
    else if (lfs_file_flush write_out f).1 ≠ 0 then lfs_file_flush write_out f
    else (toInt64 npos, { (lfs_file_flush write_out f).2 with pos := npos })

/-- The position that a seek asks for, as an integer: `offset`,
`pos + offset` or `size + offset`. -/
def seek_target (f : seek_file) (offset whence : Int) : Int :=
  if whence = LFS_SEEK_SET then offset
  else if whence = LFS_SEEK_CUR then (f.pos : Int) + offset
  else (lfs_file_rawsize f : Int) + offset

/-! ### Path lookup (`lfs_dir_find`) -/

/-- `LFS_ERR_NOTDIR`. -/
def LFS_ERR_NOTDIR : Int := -20

/-- `name += strspn(name, "/")`: the path without its leading slashes.  A
path is the list of the characters before the terminating NUL. -/
def skip_slashes (name : List Char) : List Char := name.dropWhile (fun c => c = '/')

/-- `strcspn(name, "/")`: the length of the first component. -/
def name_length (name : List Char) : Nat := (name.takeWhile (fun c => c ≠ '/')).length

/-- The loop `skip if matched by '..' in name` of `lfs_dir_find`, started at
`suffix` with `depth`: `some (some rest)` when the name is cancelled and the
search goes on at `rest`, `some none` when the loop is left by `break`;
`none` when the fuel runs out. -/
def find_suffix : Nat → List Char → Int → Option (Option (List Char))
  | 0, _, _ => none
  | fuel + 1, suffix, depth =>
    if name_length (skip_slashes suffix) = 0 then some none
    else if name_length (skip_slashes suffix) = 2
        ∧ (skip_slashes suffix).take 2 = ['.', '.'] then
      if depth - 1 = 0 then some (some ((skip_slashes suffix).drop 2))
      else find_suffix fuel ((skip_slashes suffix).drop 2) (depth - 1)
    else
      find_suffix fuel ((skip_slashes suffix).drop (name_length (skip_slashes suffix)))
        (depth + 1)

/-- The loop of `lfs_dir_find`.  `lookup tag name` stands for the two steps
`grab the entry data` and `find entry matching name` in the directory whose
entry is `tag`: the tag found, or a negative error.  The result is the value
returned, `*path`, and the names that were looked up, in order; `none` when
the fuel runs out. -/
def lfs_dir_find_loop (lookup : Int → List Char → Int) :
    Nat → List Char → Int → List Char → List (List Char) →
      Option (Int × List Char × List (List Char))
  | 0, _, _, _, _ => none
  | fuel + 1, name, tag, path, looked =>
    if (name_length (skip_slashes name) = 1 ∧ (skip_slashes name).take 1 = ['.'])
        ∨ (name_length (skip_slashes name) = 2 ∧ (skip_slashes name).take 2 = ['.', '.']) then
      lfs_dir_find_loop lookup fuel
        ((skip_slashes name).drop (name_length (skip_slashes name))) tag path looked
    else
      match find_suffix ((skip_slashes name).length + 1)
          ((skip_slashes name).drop (name_length (skip_slashes name))) 1 with
      | none => none
      | some (some rest) => lfs_dir_find_loop lookup fuel rest tag path looked
      | some none =>
        if skip_slashes name = [] then some (tag, path, looked)
        else if lfs_tag_type3 tag.toNat ≠ LFS_TYPE_DIR then
          some (LFS_ERR_NOTDIR, skip_slashes name, looked)
        else if lookup tag ((skip_slashes name).take (name_length (skip_slashes name))) < 0 then
          some (lookup tag ((skip_slashes name).take (name_length (skip_slashes name))),
            skip_slashes name,
            looked ++ [(skip_slashes name).take (name_length (skip_slashes name))])
        else
          lfs_dir_find_loop lookup fuel
            ((skip_slashes name).drop (name_length (skip_slashes name)))
            (lookup tag ((skip_slashes name).take (name_length (skip_slashes name))))
            (skip_slashes name)
            (looked ++ [(skip_slashes name).take (name_length (skip_slashes name))])

/-- `lfs_dir_find(lfs, dir, &path, id)`, starting at the root. -/
def lfs_dir_find (lookup : Int → List Char → Int) (path : List Char) :
    Option (Int × List Char × List (List Char)) :=
  lfs_dir_find_loop lookup (path.length + 1) path (LFS_MKTAG LFS_TYPE_DIR 0x3ff 0) path []

/-! ### Lookups in a metadata block (`lfs_dir_getslice`) -/

/-- `LFS_FROM_NOOP`. -/
def LFS_FROM_NOOP : Nat := 0x000

/-- `LFS_TYPE_FROM`. -/
def LFS_TYPE_FROM : Nat := 0x100

/-- `LFS_FROM_MOVE`. -/
def LFS_FROM_MOVE : Nat := 0x101

/-- `LFS_FROM_USERATTRS`. -/
def LFS_FROM_USERATTRS : Nat := 0x102

/-- `lfs_metadata_dir_t`. -/
structure lfs_metadata_dir_t where
  pair0 : Nat
  pair1 : Nat
  revision_count : Nat
  offset : Nat
  etag : Nat
  count : Nat
  erased : Bool
  split : Bool
  tail0 : Nat
  tail1 : Nat
deriving DecidableEq, Repr

/-- `LFS_MKTAG(0, lfs_tag_splice(tag), 0)` as a 32-bit word. -/
def splice_word (tag : Nat) : Nat := LFS_MKTAG 0 (ofInt32 (lfs_tag_splice tag)) 0

/-- `gtag - gdiff` in 32-bit arithmetic; `gdiff` is held as its 32-bit
pattern. -/
def getslice_gtag (gtag gdiff : Nat) : Nat := wrap32 (wrap32 gtag + 4294967296 - wrap32 gdiff)

/-- How one pass of the loop of `lfs_dir_getslice` ends. -/
inductive getslice_ctl where
  | done (res : Int) (buffer : Option (List Nat))
  | next (offset ntag gdiff : Nat)
deriving DecidableEq, Repr

/-- The test `lfs_tag_id(gmask) != 0 && lfs_tag_type1(tag) == LFS_TYPE_SPLICE
&& lfs_tag_id(tag) <= lfs_tag_id(gtag - gdiff)`. -/
def getslice_splices (gmask gtag gdiff tag : Nat) : Bool :=
  lfs_tag_id gmask ≠ 0 ∧ lfs_tag_type1 tag = LFS_TYPE_SPLICE
    ∧ lfs_tag_id tag ≤ lfs_tag_id (getslice_gtag gtag gdiff)

/-- `gdiff` after the part `move around splices`. -/
def getslice_gdiff (gmask gtag gdiff tag : Nat) : Nat :=
  if getslice_splices gmask gtag gdiff tag then wrap32 (gdiff + splice_word tag) else gdiff

/-- The second half of the loop body of `lfs_dir_getslice`: the comparison
with the (moved) `gtag`, and the read of the payload into a buffer of `gsize`
bytes.  `offset` is the offset of `tag`, `ntag` the tag before it. -/
def getslice_match (g : Geometry) (d : Disk) (pair0 gmask gtag goff gsize : Nat)
    (offset tag ntag gdiff : Nat) : getslice_ctl :=
  if gmask &&& tag = gmask &&& getslice_gtag gtag gdiff then
    if lfs_tag_isdelete tag then .done LFS_ERR_NOENT none
    else
      match lfs_bd_read g d pair0 (wrap64 (offset + 4 + goff))
          (lfs_min (lfs_tag_size tag) gsize) with
      | .error err => .done err none
      | .ok dat =>
        .done (toInt32 (wrap32 (tag + gdiff)))
          (some (dat ++ List.replicate (gsize - lfs_min (lfs_tag_size tag) gsize) 0))
  else .next offset ntag gdiff

/-- One pass of the loop of `lfs_dir_getslice`, entered with
`offset >= sizeof(lfs_tag_t) + lfs_tag_dsize(ntag)`. -/
def getslice_step (g : Geometry) (d : Disk) (pair0 gmask gtag goff gsize : Nat)
    (offset ntag gdiff : Nat) : getslice_ctl :=
  match lfs_bd_read g d pair0 (offset - lfs_tag_dsize ntag) 4 with
  | .error err => .done err none
  | .ok raw =>
    if getslice_splices gmask gtag gdiff ntag
        ∧ ntag = (LFS_MKTAG LFS_TYPE_CREATE 0 0
            ||| (LFS_MKTAG 0 0x3ff 0 &&& getslice_gtag gtag gdiff)) then
      .done LFS_ERR_NOENT none
    else
      getslice_match g d pair0 gmask gtag goff gsize (offset - lfs_tag_dsize ntag) ntag
        ((lfs_frombe32 raw ^^^ ntag) &&& 0x7fffffff) (getslice_gdiff gmask gtag gdiff ntag)

/-- The loop of `lfs_dir_getslice`: the value returned and the buffer when it
was filled; `none` when the fuel runs out (one unit per tag). -/
def getslice_loop (g : Geometry) (d : Disk) (pair0 gmask gtag goff gsize : Nat) :
    Nat → Nat → Nat → Nat → Option (Int × Option (List Nat))
  | 0, _, _, _ => none
  | fuel + 1, offset, ntag, gdiff =>
    if offset ≥ 4 + lfs_tag_dsize ntag then
      match getslice_step g d pair0 gmask gtag goff gsize offset ntag gdiff with
      | .done res buffer => some (res, buffer)
      | .next o n gd => getslice_loop g d pair0 gmask gtag goff gsize fuel o n gd
    else some (LFS_ERR_NOENT, none)

/-- `lfs_dir_getslice(lfs, dir, gmask, gtag, goff, gbuffer, gsize)`, with
`lfs->gdisk` given. -/
def lfs_dir_getslice (g : Geometry) (d : Disk) (gdisk : lfs_gstate_t) (dir : lfs_metadata_dir_t)
    (gmask gtag goff gsize fuel : Nat) : Option (Int × Option (List Nat)) :=
  getslice_loop g d dir.pair0 gmask gtag goff gsize fuel dir.offset dir.etag
    (if lfs_gstate_hasmovehere gdisk dir.pair0 dir.pair1 ∧ lfs_tag_id gmask ≠ 0
        ∧ lfs_tag_id gdisk.tag ≤ lfs_tag_id gtag then
      wrap32 (4294967296 - LFS_MKTAG 0 1 0)
    else 0)

/-- `lfs_dir_get(lfs, dir, gmask, gtag, buffer)`. -/
def lfs_dir_get (g : Geometry) (d : Disk) (gdisk : lfs_gstate_t) (dir : lfs_metadata_dir_t)
    (gmask gtag fuel : Nat) : Option (Int × Option (List Nat)) :=
  lfs_dir_getslice g d gdisk dir gmask gtag 0 (lfs_tag_size gtag) fuel

/-! ### Compaction (`lfs_dir_traverse`, `lfs_dir_commit_crc`, `lfs_dir_compact`) -/

/-- `lfs_dir_traverse_filter(p, tag, buffer)`: whether the tag `*p` is
redundant, and the new `*p`. -/
def lfs_dir_traverse_filter (filtertag tag : Nat) : Bool × Nat :=
  if ((if tag &&& LFS_MKTAG LFS_TYPE_FROM 0 0 ≠ 0 then LFS_MKTAG LFS_TYPE_MOVESTATE 0x3ff 0
        else LFS_MKTAG LFS_TYPE_GLOBALS 0x3ff 0) &&& tag)
      = ((if tag &&& LFS_MKTAG LFS_TYPE_FROM 0 0 ≠ 0 then LFS_MKTAG LFS_TYPE_MOVESTATE 0x3ff 0
        else LFS_MKTAG LFS_TYPE_GLOBALS 0x3ff 0) &&& filtertag)
      ∨ lfs_tag_isdelete filtertag
      ∨ (LFS_MKTAG LFS_TYPE_MOVESTATE 0x3ff 0 &&& tag)
        = (LFS_MKTAG LFS_TYPE_DELETE 0 0 ||| (LFS_MKTAG 0 0x3ff 0 &&& filtertag)) then
    (true, LFS_MKTAG LFS_FROM_NOOP 0 0)
  else if lfs_tag_type1 tag = LFS_TYPE_SPLICE ∧ lfs_tag_id tag ≤ lfs_tag_id filtertag then
    (false, wrap32 (filtertag + splice_word tag))
  else (false, filtertag)

/-- The inner run of `lfs_dir_traverse` that is pushed for a tag of the block
(`tmask = 0`, callback `lfs_dir_traverse_filter`, no attributes in memory):
it goes over the tags that follow `(offset, ptag)` in the block and leaves
the pushed tag as the filter changed it, `LFS_FROM_NOOP` when the tag is
redundant.  `none` when the fuel runs out or a tag of type
`LFS_FROM_USERATTRS` with entries is met, whose buffer is not on the
device. -/
def traverse_filter_pass (g : Geometry) (d : Disk) (dir : lfs_metadata_dir_t) :
    Nat → Nat → Nat → Nat → Option (Except Int Nat)
  | 0, _, _, _ => none
  | fuel + 1, offset, ptag, filtertag =>
    if wrap64 (offset + lfs_tag_dsize ptag) < dir.offset then
      match lfs_bd_read g d dir.pair0 (wrap64 (offset + lfs_tag_dsize ptag)) 4 with
      | .error err => some (.error err)
      | .ok raw =>
        if lfs_tag_type3 ((lfs_frombe32 raw ^^^ ptag) ||| 0x80000000) = LFS_FROM_NOOP
            ∨ lfs_tag_type3 ((lfs_frombe32 raw ^^^ ptag) ||| 0x80000000) = LFS_FROM_MOVE then
          traverse_filter_pass g d dir fuel (wrap64 (offset + lfs_tag_dsize ptag))
            ((lfs_frombe32 raw ^^^ ptag) ||| 0x80000000) filtertag
        else if lfs_tag_type3 ((lfs_frombe32 raw ^^^ ptag) ||| 0x80000000)
            = LFS_FROM_USERATTRS then
          if lfs_tag_size ((lfs_frombe32 raw ^^^ ptag) ||| 0x80000000) = 0 then
            traverse_filter_pass g d dir fuel (wrap64 (offset + lfs_tag_dsize ptag))
              ((lfs_frombe32 raw ^^^ ptag) ||| 0x80000000) filtertag
          else none
        else if (lfs_dir_traverse_filter filtertag
            ((lfs_frombe32 raw ^^^ ptag) ||| 0x80000000)).1 then
          some (.ok (lfs_dir_traverse_filter filtertag
            ((lfs_frombe32 raw ^^^ ptag) ||| 0x80000000)).2)
        else
          traverse_filter_pass g d dir fuel (wrap64 (offset + lfs_tag_dsize ptag))
            ((lfs_frombe32 raw ^^^ ptag) ||| 0x80000000)
            (lfs_dir_traverse_filter filtertag
              ((lfs_frombe32 raw ^^^ ptag) ||| 0x80000000)).2
    else some (.ok filtertag)

/-- What `lfs_dir_traverse` does with a tag of the block after the filter
run, in the call made by `lfs_dir_compact` (callback
`lfs_dir_commit_commit`): `tag` is the tag as the filter left it and
`offset` the offset of its payload.  `none` for the tags of type
`LFS_FROM_MOVE` and `LFS_FROM_USERATTRS`, whose buffers are not on the
device. -/
def traverse_commit_tag (g : Geometry) (d : Disk) (dir : lfs_metadata_dir_t) (begin_ end_ : Nat)
    (c : lfs_commit_t) (tag offset : Nat) : Option (Int × Disk × lfs_commit_t) :=
  if ¬ (lfs_tag_id tag ≥ begin_ ∧ lfs_tag_id tag < end_) then some (0, d, c)
  else if lfs_tag_type3 tag = LFS_FROM_NOOP then some (0, d, c)
  else if lfs_tag_type3 tag = LFS_FROM_MOVE then none
  else if lfs_tag_type3 tag = LFS_FROM_USERATTRS then
    if lfs_tag_size tag = 0 then some (0, d, c) else none
  else
    some (lfs_dir_commit_attribute g d c
      (wrap32 (tag + LFS_MKTAG 0 (ofInt32 (-(begin_ : Int))) 0)) [] (dir.pair0, offset))

/-- The run of `lfs_dir_traverse` in `lfs_dir_compact` over the tags of the
block of `dir` that follow `(offset, ptag)`: `tmask = LFS_MKTAG(LFS_TYPE_SPLICE,
0x3ff, 0)`, `ttag = LFS_MKTAG(LFS_TYPE_NAME, 0, 0)`, ids `begin_ .. end_`,
`diff = -begin_`, no attributes in memory.  The result is the code returned,
the device and the commit. -/
def compact_traverse (g : Geometry) (dir : lfs_metadata_dir_t) (begin_ end_ : Nat) :
    Nat → Nat → Nat → Disk → lfs_commit_t → Option (Int × Disk × lfs_commit_t)
  | 0, _, _, _, _ => none
  | fuel + 1, offset, ptag, d, c =>
    if wrap64 (offset + lfs_tag_dsize ptag) < dir.offset then
      match lfs_bd_read g d dir.pair0 (wrap64 (offset + lfs_tag_dsize ptag)) 4 with
      | .error err => some (err, d, c)
      | .ok raw =>
        if (LFS_MKTAG LFS_TYPE_MOVESTATE 0 0 &&& LFS_MKTAG LFS_TYPE_SPLICE 0x3ff 0
              &&& ((lfs_frombe32 raw ^^^ ptag) ||| 0x80000000))
            ≠ (LFS_MKTAG LFS_TYPE_MOVESTATE 0 0 &&& LFS_MKTAG LFS_TYPE_SPLICE 0x3ff 0
              &&& LFS_MKTAG LFS_TYPE_NAME 0 0) then
          compact_traverse g dir begin_ end_ fuel (wrap64 (offset + lfs_tag_dsize ptag))
            ((lfs_frombe32 raw ^^^ ptag) ||| 0x80000000) d c
        else
          match traverse_filter_pass g d dir fuel (wrap64 (offset + lfs_tag_dsize ptag))
              ((lfs_frombe32 raw ^^^ ptag) ||| 0x80000000)
              ((lfs_frombe32 raw ^^^ ptag) ||| 0x80000000) with
          | none => none
          | some (.error err) => some (err, d, c)
          | some (.ok tag) =>
            match traverse_commit_tag g d dir begin_ end_ c tag
                (wrap64 (wrap64 (offset + lfs_tag_dsize ptag) + 4)) with
            | none => none
            | some r =>
              if r.1 ≠ 0 then some r
              else
                compact_traverse g dir begin_ end_ fuel (wrap64 (offset + lfs_tag_dsize ptag))
                  ((lfs_frombe32 raw ^^^ ptag) ||| 0x80000000) r.2.1 r.2.2
    else some (0, d, c)

/-- The state of the first loop of `lfs_dir_commit_crc`. -/
structure crc_state where
  d : Disk
  c : lfs_commit_t
  off1 : Nat
  crc1 : Nat

/-- `noff` in the first loop of `lfs_dir_commit_crc`, for a commit at
`offset`. -/
def crc_noff (end_ offset : Nat) : Nat :=
  if wrap64 (lfs_min (sub64 end_ (wrap64 (offset + 4))) 0x3fe + wrap64 (offset + 4)) < end_ then
    lfs_min (wrap64 (lfs_min (sub64 end_ (wrap64 (offset + 4))) 0x3fe + wrap64 (offset + 4)))
      (sub64 end_ 16)
  else wrap64 (lfs_min (sub64 end_ (wrap64 (offset + 4))) 0x3fe + wrap64 (offset + 4))

/-- The bit `reset = ~lfs_frombe32(tag) >> 31` for the word read at `noff`;
the word stays 0xffffffff when the read is out of the block. -/
def crc_reset (g : Geometry) (d : Disk) (block noff : Nat) : Nat :=
  match lfs_bd_read g d block noff 4 with
  | .error _ => 0
  | .ok raw => if lfs_frombe32 raw < 2147483648 then 1 else 0

/-- The first loop of `lfs_dir_commit_crc`: CRC tags are written until the
commit reaches `end_`. -/
def commit_crc_loop (g : Geometry) (end_ : Nat) : Nat → crc_state → Option crc_state
  | 0, _ => none
  | fuel + 1, s =>
    if s.c.offset < end_ then
      commit_crc_loop g end_ fuel
        { d := disk_prog s.d s.c.block s.c.offset
            (lfs_tobe32
                (LFS_MKTAG (LFS_TYPE_CRC + crc_reset g s.d s.c.block (crc_noff end_ s.c.offset))
                    0x3ff (sub64 (crc_noff end_ s.c.offset) (wrap64 (s.c.offset + 4)))
                  ^^^ s.c.ptag)
              ++ lfs_tole32 (lfs_crc s.c.crc (lfs_tobe32
                (LFS_MKTAG (LFS_TYPE_CRC + crc_reset g s.d s.c.block (crc_noff end_ s.c.offset))
                    0x3ff (sub64 (crc_noff end_ s.c.offset) (wrap64 (s.c.offset + 4)))
                  ^^^ s.c.ptag)))),
          c := { s.c with
            offset := wrap64 (s.c.offset + 4 + lfs_tag_size
              (LFS_MKTAG (LFS_TYPE_CRC + crc_reset g s.d s.c.block (crc_noff end_ s.c.offset))
                0x3ff (sub64 (crc_noff end_ s.c.offset) (wrap64 (s.c.offset + 4))))),
            ptag := LFS_MKTAG (LFS_TYPE_CRC + crc_reset g s.d s.c.block (crc_noff end_ s.c.offset))
                0x3ff (sub64 (crc_noff end_ s.c.offset) (wrap64 (s.c.offset + 4)))
              ^^^ wrap32 (crc_reset g s.d s.c.block (crc_noff end_ s.c.offset) <<< 31),
            crc := 0xffffffff },
          off1 := if s.off1 = 0 then wrap64 (s.c.offset + 4) else s.off1,
          crc1 := if s.off1 = 0 then
              lfs_crc s.c.crc (lfs_tobe32
                (LFS_MKTAG (LFS_TYPE_CRC + crc_reset g s.d s.c.block (crc_noff end_ s.c.offset))
                    0x3ff (sub64 (crc_noff end_ s.c.offset) (wrap64 (s.c.offset + 4)))
                  ^^^ s.c.ptag))
            else s.crc1 }
    else some s

/-- The `for` loop of the check at the end of `lfs_dir_commit_crc`: the
checksum of the bytes `i .. limit - 1`, or the code returned from inside. -/
def commit_crc_sum (g : Geometry) (d : Disk) (block off1 crc1 limit : Nat) :
    Nat → Nat → Nat → Except Int Nat
  | 0, _, crc => .ok crc
  | n + 1, i, crc =>
    if i < limit then
      if i = off1 ∧ crc ≠ crc1 then .error LFS_ERR_CORRUPT
      else
        match lfs_bd_read g d block i 1 with
        | .error err => .error err
        | .ok dat => commit_crc_sum g d block off1 crc1 limit n (i + 1) (lfs_crc crc dat)
    else .ok crc

/-- The `while (offset < end)` loop of the check at the end of
`lfs_dir_commit_crc`: the code returned. -/
def commit_crc_check (g : Geometry) (d : Disk) (block end_ off1 crc1 : Nat) :
    Nat → Nat → Nat → Option Int
  | 0, _, _ => none
  | fuel + 1, offset, noff =>
    if offset < end_ then
      match commit_crc_sum g d block off1 crc1 (wrap64 (noff + 4))
          (wrap64 (noff + 4) - offset) offset 0xffffffff with
      | .error err => some err
      | .ok crc =>
        if crc ≠ 0 then some LFS_ERR_CORRUPT
        else
          commit_crc_check g d block end_ off1 crc1 fuel
            (if wrap64 (lfs_min (sub64 end_ noff) 0x3fe + noff) < end_ then
              lfs_min (wrap64 (lfs_min (sub64 end_ noff) 0x3fe + noff)) (sub64 end_ 16)
             else wrap64 (lfs_min (sub64 end_ noff) 0x3fe + noff))
            (wrap64 ((if wrap64 (lfs_min (sub64 end_ noff) 0x3fe + noff) < end_ then
              lfs_min (wrap64 (lfs_min (sub64 end_ noff) 0x3fe + noff)) (sub64 end_ 16)
             else wrap64 (lfs_min (sub64 end_ noff) 0x3fe + noff)) + 4))
    else some LFS_ERR_OK

/-- `lfs_dir_commit_crc(lfs, commit)`: the code returned, the device and the
commit.  Reads of the word after the commit that fail otherwise than out of
the block do not occur in the model of the device. -/
def lfs_dir_commit_crc (g : Geometry) (d : Disk) (write_size : Nat) (c : lfs_commit_t)
    (fuel : Nat) : Option (Int × Disk × lfs_commit_t) :=
  match commit_crc_loop g (lfs_alignup (wrap64 (c.offset + 16)) write_size) fuel ⟨d, c, 0, 0⟩ with
  | none => none
  | some s =>
    match commit_crc_check g s.d c.block (lfs_alignup (wrap64 (c.offset + 16)) write_size)
        s.off1 s.crc1 fuel c.begin_ s.off1 with
    | none => none
    | some code => some (code, s.d, s.c)

/-- The device after `lfs_bd_erase(lfs, block)`; `fill` is what the erased
block reads as. -/
def disk_erase (d : Disk) (block : Nat) (fill : Nat → Nat) : Disk :=
  fun b off => if b = block then fill off else d b off

/-- The commits of `lfs_dir_compact` that follow the traversal: the tail when
the pair has one, and the gstate delta `delta` (its bytes after
`lfs_gstate_tole64`) when the gstate code of the function left one that is
not zero.  The result is the first code that is not 0, or 0. -/
def compact_trailer (g : Geometry) (d : Disk) (c : lfs_commit_t) (dir : lfs_metadata_dir_t)
    (delta : Option (List Nat)) : Int × Disk × lfs_commit_t :=
  if (if dir.tail0 = LFS_BLOCK_NULL ∨ dir.tail1 = LFS_BLOCK_NULL then (0, d, c)
      else lfs_dir_commit_attribute g d c
        (LFS_MKTAG (LFS_TYPE_TAIL + (if dir.split then 1 else 0)) 0x3ff 16)
        (lfs_tole64 dir.tail0 ++ lfs_tole64 dir.tail1) (0, 0)).1 ≠ 0 then
    (if dir.tail0 = LFS_BLOCK_NULL ∨ dir.tail1 = LFS_BLOCK_NULL then (0, d, c)
      else lfs_dir_commit_attribute g d c
        (LFS_MKTAG (LFS_TYPE_TAIL + (if dir.split then 1 else 0)) 0x3ff 16)
        (lfs_tole64 dir.tail0 ++ lfs_tole64 dir.tail1) (0, 0))
  else
    match delta with
    | none =>
      (if dir.tail0 = LFS_BLOCK_NULL ∨ dir.tail1 = LFS_BLOCK_NULL then (0, d, c)
        else lfs_dir_commit_attribute g d c
          (LFS_MKTAG (LFS_TYPE_TAIL + (if dir.split then 1 else 0)) 0x3ff 16)
          (lfs_tole64 dir.tail0 ++ lfs_tole64 dir.tail1) (0, 0))
    | some bytes =>
      lfs_dir_commit_attribute g
        (if dir.tail0 = LFS_BLOCK_NULL ∨ dir.tail1 = LFS_BLOCK_NULL then (0, d, c)
          else lfs_dir_commit_attribute g d c
            (LFS_MKTAG (LFS_TYPE_TAIL + (if dir.split then 1 else 0)) 0x3ff 16)
            (lfs_tole64 dir.tail0 ++ lfs_tole64 dir.tail1) (0, 0)).2.1
        (if dir.tail0 = LFS_BLOCK_NULL ∨ dir.tail1 = LFS_BLOCK_NULL then (0, d, c)
          else lfs_dir_commit_attribute g d c
            (LFS_MKTAG (LFS_TYPE_TAIL + (if dir.split then 1 else 0)) 0x3ff 16)
            (lfs_tole64 dir.tail0 ++ lfs_tole64 dir.tail1) (0, 0)).2.2
        (LFS_MKTAG LFS_TYPE_MOVESTATE 0x3ff 24) bytes (0, 0)

/-- `lfs_dir_compact(lfs, dir, NULL, 0, dir, begin, end)` on the path without
relocation: the pair is not due for relocation (or is the superblock pair)
and no step reports `LFS_ERR_CORRUPT`.  `fill` is the erased state of the
block, `delta` the gstate delta to be committed.  The result is the code
returned, the device and `*dir`; `none` on the paths that relocate and when
the fuel runs out. -/
def lfs_dir_compact (g : Geometry) (write_size metadata_max : Nat) (block_cycles : Int)
    (d : Disk) (fill : Nat → Nat) (dir : lfs_metadata_dir_t) (delta : Option (List Nat))
    (begin_ end_ fuel : Nat) : Option (Int × Disk × lfs_metadata_dir_t) :=
  if lfs_dir_needs_relocation block_cycles dir.revision_count
      ∧ lfs_pair_cmp dir.pair0 dir.pair1 0 1 ≠ 0 then none
  else
    match compact_traverse g dir begin_ end_ fuel 0 0xffffffff
        (lfs_dir_commit_write (disk_erase d dir.pair1 fill)
          ⟨dir.pair1, 0, 0xffffffff, 0xffffffff, 0,
            sub64 (if metadata_max ≠ 0 then metadata_max else g.block_size) 16⟩
          (lfs_tole32 (wrap32 (dir.revision_count + 1)))).2.1
        (lfs_dir_commit_write (disk_erase d dir.pair1 fill)
          ⟨dir.pair1, 0, 0xffffffff, 0xffffffff, 0,
            sub64 (if metadata_max ≠ 0 then metadata_max else g.block_size) 16⟩
          (lfs_tole32 (wrap32 (dir.revision_count + 1)))).2.2 with
    | none => none
    | some t =>
      if t.1 = LFS_ERR_CORRUPT then none
      else if t.1 ≠ 0 then some (t.1, t.2.1, { dir with revision_count := wrap32 (dir.revision_count + 1) })
      else if (compact_trailer g t.2.1 t.2.2 dir delta).1 = LFS_ERR_CORRUPT then none
      else if (compact_trailer g t.2.1 t.2.2 dir delta).1 ≠ 0 then
        some ((compact_trailer g t.2.1 t.2.2 dir delta).1, (compact_trailer g t.2.1 t.2.2 dir delta).2.1,
          { dir with revision_count := wrap32 (dir.revision_count + 1) })
      else
        match lfs_dir_commit_crc g (compact_trailer g t.2.1 t.2.2 dir delta).2.1 write_size
            (compact_trailer g t.2.1 t.2.2 dir delta).2.2 fuel with
        | none => none
        | some r =>
          if r.1 = LFS_ERR_CORRUPT then none
          else if r.1 ≠ 0 then
            some (r.1, r.2.1, { dir with revision_count := wrap32 (dir.revision_count + 1) })
          else
            some (0, r.2.1,
              { dir with
                revision_count := wrap32 (dir.revision_count + 1),
                pair0 := dir.pair1, pair1 := dir.pair0,
                count := (end_ + 65536 - begin_) % 65536,
                offset := r.2.2.offset, etag := r.2.2.ptag })

/-! ### The log of a metadata block

The entries of a block as a list of tags with their payloads, latest first.
These definitions restate the loops of `lfs_dir_getslice` and of the filter
of `lfs_dir_traverse` over such a list; the theorems relate them to the
models over the bytes of the device. -/

/-- The loop of `lfs_dir_getslice` over the entries of a block, latest
first. -/
def log_get (gmask gtag gsize : Nat) : List (Nat × List Nat) → Nat → Int × Option (List Nat)
  | [], _ => (LFS_ERR_NOENT, none)
  | e :: R, gdiff =>
    if getslice_splices gmask gtag gdiff e.1
        ∧ e.1 = (LFS_MKTAG LFS_TYPE_CREATE 0 0
            ||| (LFS_MKTAG 0 0x3ff 0 &&& getslice_gtag gtag gdiff)) then
      (LFS_ERR_NOENT, none)
    else if gmask &&& e.1
        = gmask &&& getslice_gtag gtag (getslice_gdiff gmask gtag gdiff e.1) then
      if lfs_tag_isdelete e.1 then (LFS_ERR_NOENT, none)
      else
        (toInt32 (wrap32 (e.1 + getslice_gdiff gmask gtag gdiff e.1)),
          some (e.2.take (lfs_min (lfs_tag_size e.1) gsize)
            ++ List.replicate (gsize - lfs_min (lfs_tag_size e.1) gsize) 0))
    else log_get gmask gtag gsize R (getslice_gdiff gmask gtag gdiff e.1)

/-- One call of `lfs_dir_traverse_filter` on the tag `filtertag` for a later
tag `tag`: `none` when the tag is redundant. -/
def filter_step (filtertag tag : Nat) : Option Nat :=
  if (lfs_dir_traverse_filter filtertag tag).1 then none
  else some (lfs_dir_traverse_filter filtertag tag).2

/-- The filter run over the tags that follow a tag, oldest first. -/
def log_filter : List Nat → Nat → Option Nat
  | [], filtertag => some filtertag
  | u :: B, filtertag =>
    match filter_step filtertag u with
    | none => none
    | some t => log_filter B t

/-- The entries that are left of a log (latest first) when every tag went
through the filter for all the tags after it, and the tags with the bit of
`LFS_TYPE_SPLICE` in their type are left out. -/
def log_live : List (Nat × List Nat) → List (Nat × List Nat)
  | [] => []
  | u :: R =>
    (if u.1 &&& 0x40000000 = 0 then [u] else [])
      ++ (log_live R).filterMap (fun e => (filter_step e.1 u.1).map (fun t => (t, e.2)))

/-- The entry count as the scan of `lfs_dir_fetchmatch` keeps it, for a log
given latest first. -/
def log_count : List (Nat × List Nat) → Nat
  | [] => 0
  | u :: R =>
    if lfs_tag_type1 u.1 = LFS_TYPE_NAME then
      (if lfs_tag_id u.1 ≥ log_count R then (lfs_tag_id u.1 + 1) % 65536 else log_count R)
    else if lfs_tag_type1 u.1 = LFS_TYPE_SPLICE then
      (((log_count R : Int) + lfs_tag_splice u.1) % 65536).toNat
    else log_count R

/-- No tag of the log is a SPLICE tag. -/
def log_nosplice (R : List (Nat × List Nat)) : Prop :=
  ∀ e ∈ R, lfs_tag_type1 e.1 ≠ LFS_TYPE_SPLICE

/-- The tags a log may hold after a log with `count` entries: a tag of an
entry (a name, a struct or a user attribute of an id below the count, or a
name that adds the next ids of a log without SPLICE tags), a CREATE, a
DELETE of an entry, or a tag of the pair (CRC, TAIL, MOVESTATE) with id
0x3ff. -/
def tag_ok (count : Nat) (nosplice : Prop) (t : Nat) : Prop :=
  t < 2147483648
    ∧ ((t &&& 0x40000000 = 0 ∧ lfs_tag_type3 t ≠ LFS_FROM_NOOP ∧ lfs_tag_type3 t ≠ LFS_FROM_MOVE
          ∧ lfs_tag_type3 t ≠ LFS_FROM_USERATTRS
          ∧ (lfs_tag_id t < count
            ∨ (lfs_tag_type1 t = LFS_TYPE_NAME ∧ nosplice ∧ lfs_tag_id t < 0x3ff)))
      ∨ (t = LFS_MKTAG LFS_TYPE_CREATE (lfs_tag_id t) 0 ∧ lfs_tag_id t ≤ count ∧ count < 0x3ff)
      ∨ (lfs_tag_type3 t = LFS_TYPE_DELETE ∧ lfs_tag_id t < count)
      ∨ ((lfs_tag_type1 t = LFS_TYPE_CRC ∨ lfs_tag_type1 t = LFS_TYPE_TAIL
            ∨ lfs_tag_type1 t = LFS_TYPE_GLOBALS) ∧ lfs_tag_id t = 0x3ff))

/-- A well-formed log, latest first. -/
def log_wf : List (Nat × List Nat) → Prop
  | [] => True
  | u :: R => log_wf R ∧ tag_ok (log_count R) (log_nosplice R) u.1

/-- The lookups that go by the uniqueness of the filter: the mask holds the
id and the part of the type by which `lfs_dir_traverse_filter` tells a
duplicate (the first three bits, or all eleven when the bit 0x100 is set),
and the tag looked for is not of the SPLICE, CRC, TAIL or GLOBALS types. -/
def lookup_ok (gmask gtag : Nat) : Prop :=
  gtag < 2147483648 ∧ gtag &&& 0x40000000 = 0
    ∧ gmask = (if gtag &&& 0x10000000 ≠ 0 then 0x7ffffc00 else 0x700ffc00)

/-- Two tags that `lfs_dir_traverse_filter` takes for the same attribute of
the same entry: the same id and the same first three bits of the type, and
the same type when the bit 0x100 is set. -/
def same_slot (a b : Nat) : Prop :=
  a / 1024 % 1024 = b / 1024 % 1024 ∧ a / 268435456 % 8 = b / 268435456 % 8
    ∧ (a / 268435456 % 2 = 1 → a / 1048576 % 2048 = b / 1048576 % 2048)

/-- What holds of every entry that the filter leaves of a log with `count`
entries: its tag is a valid tag of an entry below the count, of a type that
the traversal hands to its callback. -/
def live_ok (count : Nat) (t : Nat) : Prop :=
  t < 2147483648 ∧ t / 1073741824 % 2 = 0 ∧ t / 1024 % 1024 < count
    ∧ t / 1048576 % 2048 ≠ 0 ∧ t / 1048576 % 2048 ≠ 257 ∧ t / 1048576 % 2048 ≠ 258

/-- The entries of a block, latest first, as `lfs_dir_getslice` meets them
when it walks back from `offset` with the tag `ntag`: the tag of the entry is
`ntag` without its bit 31, the entry takes `lfs_tag_dsize` bytes before
`offset`, its payload follows its word, and the word xored with the tag is
the tag of the entry before.  The walk ends at offset 4 with the tag
0xffffffff that the first word of a block is xored with. -/
def block_log (d : Disk) (block : Nat) : List (Nat × List Nat) → Nat → Nat → Prop
  | [], offset, ntag => offset = 4 ∧ ntag % 2147483648 = 0x7fffffff
  | e :: L, offset, ntag =>
    e.1 = ntag % 2147483648
      ∧ 4 + lfs_tag_dsize e.1 ≤ offset
      ∧ e.2 = (List.range (lfs_tag_dsize e.1 - 4)).map
          (fun j => d block (offset - lfs_tag_dsize e.1 + 4 + j))
      ∧ block_log d block L (offset - lfs_tag_dsize e.1)
          (lfs_frombe32 ((List.range 4).map (fun j => d block (offset - lfs_tag_dsize e.1 + j)))
            ^^^ e.1)

instance block_log_decidable (d : Disk) (block : Nat) :
    ∀ (L : List (Nat × List Nat)) (offset ntag : Nat),
      Decidable (block_log d block L offset ntag)
  | [], offset, ntag =>
    inferInstanceAs (Decidable (offset = 4 ∧ ntag % 2147483648 = 0x7fffffff))
  | e :: L, offset, ntag =>
    have := block_log_decidable d block L (offset - lfs_tag_dsize e.1)
      (lfs_frombe32 ((List.range 4).map (fun j => d block (offset - lfs_tag_dsize e.1 + j)))
        ^^^ e.1)
    inferInstanceAs (Decidable (e.1 = ntag % 2147483648
      ∧ 4 + lfs_tag_dsize e.1 ≤ offset
      ∧ e.2 = (List.range (lfs_tag_dsize e.1 - 4)).map
          (fun j => d block (offset - lfs_tag_dsize e.1 + 4 + j))
      ∧ block_log d block L (offset - lfs_tag_dsize e.1)
          (lfs_frombe32 ((List.range 4).map (fun j => d block (offset - lfs_tag_dsize e.1 + j)))
            ^^^ e.1)))

/-- The entries of a block, oldest first, as `lfs_dir_traverse` meets them
when it walks on from `offset` with the tag `ptag` of the entry before, up to
`end_`. -/
def fwd_log (d : Disk) (block end_ : Nat) : List (Nat × List Nat) → Nat → Nat → Prop
  | [], offset, _ => offset = end_
  | a :: B, offset, ptag =>
    a.1 = (lfs_frombe32 ((List.range 4).map (fun j => d block (offset + j))) ^^^ ptag)
        % 2147483648
      ∧ offset + lfs_tag_dsize a.1 ≤ end_
      ∧ a.2 = (List.range (lfs_tag_dsize a.1 - 4)).map (fun j => d block (offset + 4 + j))
      ∧ fwd_log d block end_ B (offset + lfs_tag_dsize a.1) a.1

/-- The entries that the traversal of `lfs_dir_compact` hands to
`lfs_dir_commit_commit` for the entries of a block given oldest first: every
tag without the bit of `LFS_TYPE_SPLICE` goes through the filter for the
tags after it. -/
def live_fwd : List (Nat × List Nat) → List (Nat × List Nat)
  | [] => []
  | a :: B =>
    (if a.1 &&& 0x40000000 = 0 then
      (match log_filter (B.map (fun u => u.1)) a.1 with
       | some t => [(t, a.2)]
       | none => [])
     else []) ++ live_fwd B

/-! ### The superblock checks of `lfs_raw_mount` -/

/-- The fields of `lfs_dir_t` that `lfs_dir_rawread` uses; `id` is a
`uint16_t`, `pos` an `lfs_off_t`. -/
structure lfs_dir_t where
  id : Nat
  pos : Nat
  metadata : lfs_metadata_dir_t
deriving DecidableEq, Repr

/-- `struct lfs_info`; the name is the string before the terminating NUL. -/
structure lfs_info where
  type : Nat
  size : Nat
  name : List Char
deriving DecidableEq, Repr

/-- The loop of `lfs_dir_rawread`.  `fetch m` stands for
`lfs_dir_fetch(lfs, &m, m.tail)` and `getinfo m id info` for
`lfs_dir_getinfo(lfs, &m, id, info)`: the code returned and what is left in
the structure.  One unit of fuel per pass; `none` when the fuel runs out. -/
def dir_read_loop (fetch : lfs_metadata_dir_t → Int × lfs_metadata_dir_t)
    (getinfo : lfs_metadata_dir_t → Nat → lfs_info → Int × lfs_info) :
    Nat → lfs_dir_t → lfs_info → Option (Int × lfs_dir_t × lfs_info)
  | 0, _, _ => none
  | fuel + 1, dir, info =>
    if dir.id = dir.metadata.count ∧ ¬ dir.metadata.split then some (LFS_ERR_NOENT, dir, info)
    else if dir.id = dir.metadata.count ∧ (fetch dir.metadata).1 ≠ 0 then
      some ((fetch dir.metadata).1, { dir with metadata := (fetch dir.metadata).2 }, info)
    else
      if (getinfo
            (if dir.id = dir.metadata.count then (fetch dir.metadata).2 else dir.metadata)
            (if dir.id = dir.metadata.count then 0 else dir.id) info).1 ≠ 0
          ∧ (getinfo
            (if dir.id = dir.metadata.count then (fetch dir.metadata).2 else dir.metadata)
            (if dir.id = dir.metadata.count then 0 else dir.id) info).1 ≠ LFS_ERR_NOENT then
        some ((getinfo
            (if dir.id = dir.metadata.count then (fetch dir.metadata).2 else dir.metadata)
            (if dir.id = dir.metadata.count then 0 else dir.id) info).1,
          { dir with
            metadata :=
              if dir.id = dir.metadata.count then (fetch dir.metadata).2 else dir.metadata,
            id := if dir.id = dir.metadata.count then 0 else dir.id },
          (getinfo
            (if dir.id = dir.metadata.count then (fetch dir.metadata).2 else dir.metadata)
            (if dir.id = dir.metadata.count then 0 else dir.id) info).2)
      else if (getinfo
            (if dir.id = dir.metadata.count then (fetch dir.metadata).2 else dir.metadata)
            (if dir.id = dir.metadata.count then 0 else dir.id) info).1 ≠ LFS_ERR_NOENT then
        some (LFS_ERR_OK,
          { metadata :=
              if dir.id = dir.metadata.count then (fetch dir.metadata).2 else dir.metadata,
            id := ((if dir.id = dir.metadata.count then 0 else dir.id) + 1) % 65536,
            pos := wrap64 (dir.pos + 1) },
          (getinfo
            (if dir.id = dir.metadata.count then (fetch dir.metadata).2 else dir.metadata)
            (if dir.id = dir.metadata.count then 0 else dir.id) info).2)
      else
        dir_read_loop fetch getinfo fuel
          { dir with
            metadata :=
              if dir.id = dir.metadata.count then (fetch dir.metadata).2 else dir.metadata,
            id := ((if dir.id = dir.metadata.count then 0 else dir.id) + 1) % 65536 }
          (getinfo
            (if dir.id = dir.metadata.count then (fetch dir.metadata).2 else dir.metadata)
            (if dir.id = dir.metadata.count then 0 else dir.id) info).2

/-- `lfs_dir_rawread(lfs, dir, info)`, which `lfs_dir_read` returns the value
of: the value returned, `*dir` and `*info`. -/
def lfs_dir_rawread (fetch : lfs_metadata_dir_t → Int × lfs_metadata_dir_t)
    (getinfo : lfs_metadata_dir_t → Nat → lfs_info → Int × lfs_info)
    (fuel : Nat) (dir : lfs_dir_t) (_info : lfs_info) : Option (Int × lfs_dir_t × lfs_info) :=
  if dir.pos = 0 then
    some (LFS_ERR_OK, { dir with pos := wrap64 (dir.pos + 1) }, ⟨LFS_TYPE_DIR, 0, ['.']⟩)
  else if dir.pos = 1 then
    some (LFS_ERR_OK, { dir with pos := wrap64 (dir.pos + 1) }, ⟨LFS_TYPE_DIR, 0, ['.', '.']⟩)
  else dir_read_loop fetch getinfo fuel dir ⟨0, 0, []⟩

/-! ### The lookahead window set up by `lfs_raw_format` -/

/-- The allocator state that `lfs_raw_format` sets up before it allocates
the root pair: `memset(free.buffer, 0, lookahead_size)`, `free.offset = 0`,
`free.size = lfs_min(sizeof(lfs_block_t[2]) * lookahead_size, block_count)`,
`free.i = 0`, `lfs_alloc_ack`.  `memory` is what the bit string of the
buffer and of the bytes after it held before. -/
def lfs_format_seed (lookahead_size block_count memory : Nat) : lfs_alloc_state :=
  lfs_alloc_ack
    { block_count := block_count,
      lookahead_size := lookahead_size,
      free :=
        { offset := 0,
          size := lfs_min (wrap64 (16 * lookahead_size)) block_count,
          i := 0,
          ack := 0,
          buffer := (memory >>> (8 * lookahead_size)) <<< (8 * lookahead_size) },
      trace := ⟨0, [], []⟩ }

/-! ### Files marked `LFS_F_ERRED` (`lfs_file_rawsync`, `lfs_file_rawwrite`) -/

/-- `LFS_F_ERRED`. -/
def LFS_F_ERRED : Nat := 0x080000

/-- `LFS_O_APPEND`. -/
def LFS_O_APPEND : Nat := 0x0800

/-- `LFS_ERR_FBIG`. -/
def LFS_ERR_FBIG : Int := -27

/-- What `lfs_file_rawsync` and `lfs_file_rawwrite` themselves read and write
of a file: the flags, the position, the size, and whether
`lfs_pair_isnull(file->metadata.pair)`.  The other fields of the file, `lfs_t`
and the device are the `world`, which the functions called change. -/
structure erred_file (σ : Type) where
  flags : Nat
  pos : Nat
  ctz_size : Nat
  pair_null : Bool
  world : σ

/-- `lfs_file_rawsync(lfs, file)`.  `flush` stands for `lfs_file_flush` and
`commit` for the `lfs_dir_commit` of the file's struct and attributes. -/
def lfs_file_rawsync {σ : Type} (flush commit : erred_file σ → Int × erred_file σ)
    (f : erred_file σ) : Int × erred_file σ :=
  if f.flags &&& LFS_F_ERRED ≠ 0 then (LFS_ERR_OK, f)
  else if (flush f).1 ≠ 0 then
    ((flush f).1, { (flush f).2 with flags := (flush f).2.flags ||| LFS_F_ERRED })
  else if (flush f).2.flags &&& LFS_F_DIRTY ≠ 0 ∧ ¬ (flush f).2.pair_null then
    if (commit (flush f).2).1 ≠ 0 then
      ((commit (flush f).2).1,
        { (commit (flush f).2).2 with
          flags := (commit (flush f).2).2.flags ||| LFS_F_ERRED })
    else
      (LFS_ERR_OK,
        { (commit (flush f).2).2 with
          flags := (commit (flush f).2).2.flags &&& (0xffffffff ^^^ LFS_F_DIRTY) })
  else (LFS_ERR_OK, (flush f).2)

/-- `lfs_file_rawclose(lfs, file)`: the sync, then `release` for the removal
from the list of open handles and the release of the buffer. -/
def lfs_file_rawclose {σ : Type} (flush commit : erred_file σ → Int × erred_file σ)
    (release : erred_file σ → erred_file σ) (f : erred_file σ) : Int × erred_file σ :=
  ((lfs_file_rawsync flush commit f).1, release (lfs_file_rawsync flush commit f).2)

/-- The loop `fill with zeros` of `lfs_file_rawwrite`: one-byte writes until
`file->pos` reaches `pos`; the first negative result is returned.  `none`
when the fuel runs out. -/
def write_zero_fill {σ : Type} (flushedwrite : erred_file σ → List Nat → Int × erred_file σ)
    (pos : Nat) : Nat → erred_file σ → Option (Int × erred_file σ)
  | 0, _ => none
  | fuel + 1, f =>
    if f.pos < pos then
      if (flushedwrite f [0]).1 < 0 then some (flushedwrite f [0])
      else write_zero_fill flushedwrite pos fuel (flushedwrite f [0]).2
    else some (0, f)

/-- The step `if ((file->flags & LFS_O_APPEND) && file->pos < file->ctz.size)`
of `lfs_file_rawwrite`. -/
def write_append_pos {σ : Type} (f : erred_file σ) : erred_file σ :=
  if f.flags &&& LFS_O_APPEND ≠ 0 ∧ f.pos < f.ctz_size then { f with pos := f.ctz_size }
  else f

/-- `lfs_file_rawwrite` from the size check on: `LFS_ERR_FBIG` when
`file->pos + size` exceeds `file_max_size`, the zero fill when the position
is past the end of a file that is not being written, the write itself, and
on success `file->flags &= ~LFS_F_ERRED`. -/
def write_checked {σ : Type} (file_max_size : Nat)
    (flushedwrite : erred_file σ → List Nat → Int × erred_file σ)
    (fuel : Nat) (f : erred_file σ) (buffer : List Nat) : Option (Int × erred_file σ) :=
  if wrap64 (f.pos + buffer.length) > file_max_size then some (LFS_ERR_FBIG, f)
  else
    match (if f.flags &&& LFS_F_WRITING = 0 ∧ f.pos > f.ctz_size then
        write_zero_fill flushedwrite f.pos fuel { f with pos := f.ctz_size }
      else some (0, f)) with
    | none => none
    | some z =>
      if z.1 < 0 then some z
      else if (flushedwrite z.2 buffer).1 < 0 then some (flushedwrite z.2 buffer)
      else
        some ((flushedwrite z.2 buffer).1,
          { (flushedwrite z.2 buffer).2 with
            flags := (flushedwrite z.2 buffer).2.flags &&& (0xffffffff ^^^ LFS_F_ERRED) })

/-- `lfs_file_rawwrite(lfs, file, buffer, size)` with `size` the length of
`buffer`.  `flush` stands for `lfs_file_flush` and `flushedwrite` for
`lfs_file_flushedwrite`. -/
def lfs_file_rawwrite {σ : Type} (file_max_size : Nat)
    (flush : erred_file σ → Int × erred_file σ)
    (flushedwrite : erred_file σ → List Nat → Int × erred_file σ)
    (fuel : Nat) (f : erred_file σ) (buffer : List Nat) : Option (Int × erred_file σ) :=
  if f.flags &&& LFS_F_READING ≠ 0 then
    if (flush f).1 ≠ 0 then some (flush f)
    else write_checked file_max_size flushedwrite fuel (write_append_pos (flush f).2) buffer
  else write_checked file_max_size flushedwrite fuel (write_append_pos f) buffer
/-- A `lfs_file_flushedwrite` for the example: the bytes are appended to the
world and the position and size advance. -/
def example_flushedwrite (f : erred_file (List Nat)) (b : List Nat) :
    Int × erred_file (List Nat) :=
  (b.length, { f with pos := f.pos + b.length, ctz_size := f.pos + b.length,
                      world := f.world ++ b,
                      flags := f.flags ||| LFS_F_WRITING })

/-! ### The patching of the open handles (`fixmlist` of `lfs_dir_relocating_commit`) -/

/-- An open handle as `lfs_dir_relocating_commit` sees it:
`lfs_metadata_list_t` with its `uint16_t id`, its `uint8_t type` and its
metadata pair, and the `pos` that follows in a `lfs_dir_t` (read and written
only when `type` is `LFS_TYPE_DIR`). -/
structure lfs_metadata_list_t where
  id : Nat
  type : Nat
  pos : Nat
  metadata : lfs_metadata_dir_t
deriving DecidableEq, Repr

/-- The body of the loop over the attributes in `fixmlist` for one attribute
tag: a DELETE of the handle's id sets the pair to `LFS_BLOCK_NULL`, a DELETE
below the id decrements, a CREATE at or below the id increments. -/
def fixmlist_attr (e : lfs_metadata_list_t) (tag : Nat) : lfs_metadata_list_t :=
  if lfs_tag_type3 tag = LFS_TYPE_DELETE ∧ e.id = lfs_tag_id tag then
    { e with metadata := { e.metadata with pair0 := LFS_BLOCK_NULL, pair1 := LFS_BLOCK_NULL } }
  else if lfs_tag_type3 tag = LFS_TYPE_DELETE ∧ e.id > lfs_tag_id tag then
    { e with id := (e.id + 65535) % 65536,
             pos := if e.type = LFS_TYPE_DIR then wrap64 (e.pos + 18446744073709551615)
                    else e.pos }
  else if lfs_tag_type3 tag = LFS_TYPE_CREATE ∧ e.id ≥ lfs_tag_id tag then
    { e with id := (e.id + 1) % 65536,
             pos := if e.type = LFS_TYPE_DIR then wrap64 (e.pos + 1) else e.pos }
  else e

/-- The loop `for (int i = 0; i < attrcount; i++)` of `fixmlist`. -/
def fixmlist_attrs (e : lfs_metadata_list_t) (attrs : List Nat) : lfs_metadata_list_t :=
  attrs.foldl fixmlist_attr e

/-- The loop `while (entry->id >= entry->metadata.count && entry->metadata.split)`
of `fixmlist`; `fetch` stands for `lfs_dir_fetch` of the tail.  `none` when
the fuel runs out. -/
def fixmlist_split (fetch : lfs_metadata_dir_t → Int × lfs_metadata_dir_t) :
    Nat → lfs_metadata_list_t → Option (Int × lfs_metadata_list_t)
  | 0, _ => none
  | fuel + 1, e =>
    if e.id ≥ e.metadata.count ∧ e.metadata.split then
      if (fetch e.metadata).1 ≠ 0 then
        some ((fetch e.metadata).1,
          { e with id := e.id - e.metadata.count, metadata := (fetch e.metadata).2 })
      else
        fixmlist_split fetch fuel
          { e with id := e.id - e.metadata.count, metadata := (fetch e.metadata).2 }
    else some (0, e)

/-- The body of the loop over the handles in `fixmlist`.  `own` says that
`entry->metadata.pair` is the array `pair` itself that was given to
`lfs_dir_relocating_commit`, so that `entry->metadata.pair != pair` is
false. -/
def fixmlist_entry (fetch : lfs_metadata_dir_t → Int × lfs_metadata_dir_t) (fuel : Nat)
    (dir : lfs_metadata_dir_t) (oldpair0 oldpair1 : Nat) (attrs : List Nat) (own : Bool)
    (e : lfs_metadata_list_t) : Option (Int × lfs_metadata_list_t) :=
  if lfs_pair_cmp e.metadata.pair0 e.metadata.pair1 oldpair0 oldpair1 = 0 then
    fixmlist_split fetch fuel
      (if own then { e with metadata := dir }
        else fixmlist_attrs { e with metadata := dir } attrs)
  else some (0, e)

/-- The loop over `lfs->metadata_list` in `fixmlist`: the handles in list
order, `own` the position of the handle whose pair array was given as
`pair`, `i` the position of the head of the list.  A failed fetch ends the
loop with its error and the handles after it untouched; otherwise `state`
is returned. -/
def fixmlist (fetch : lfs_metadata_dir_t → Int × lfs_metadata_dir_t) (fuel : Nat)
    (dir : lfs_metadata_dir_t) (oldpair0 oldpair1 : Nat) (attrs : List Nat)
    (own : Option Nat) (state : Int) :
    Nat → List lfs_metadata_list_t → Option (Int × List lfs_metadata_list_t)
  | _, [] => some (state, [])
  | i, e :: es =>
    match fixmlist_entry fetch fuel dir oldpair0 oldpair1 attrs (own = some i) e with
    | none => none
    | some r =>
      if r.1 ≠ 0 then some (r.1, r.2 :: es)
      else
        match fixmlist fetch fuel dir oldpair0 oldpair1 attrs own state (i + 1) es with
        | none => none
        | some rs => some (rs.1, r.2 :: rs.2)

/-- The patch of one handle for one attribute as the claim words it, in
unbounded arithmetic: a CREATE at id `k` increments an id `>= k`, a DELETE at
id `k` decrements an id `> k` and sets the pair of a handle with id `k` to
`(NULL, NULL)`; for a directory handle `pos` moves together with `id`. -/
def patch_handle (e : lfs_metadata_list_t) (tag : Nat) : lfs_metadata_list_t :=
  if lfs_tag_type3 tag = LFS_TYPE_CREATE then
    if lfs_tag_id tag ≤ e.id then
      { e with id := e.id + 1, pos := if e.type = LFS_TYPE_DIR then e.pos + 1 else e.pos }
    else e
  else if lfs_tag_type3 tag = LFS_TYPE_DELETE then
    if lfs_tag_id tag < e.id then
      { e with id := e.id - 1, pos := if e.type = LFS_TYPE_DIR then e.pos - 1 else e.pos }
    else if e.id = lfs_tag_id tag then
      { e with metadata := { e.metadata with pair0 := LFS_BLOCK_NULL, pair1 := LFS_BLOCK_NULL } }
    else e
  else e

/-- The handles after the commit as the claim describes them: a handle on
another pair is left as it is, the handle whose pair array was given to the
commit takes the committed directory, and every other handle on the pair
takes it and is patched with the attributes in order. -/
def patched_handles (dir : lfs_metadata_dir_t) (oldpair0 oldpair1 : Nat) (attrs : List Nat)
    (own : Option Nat) (i : Nat) (es : List lfs_metadata_list_t) : List lfs_metadata_list_t :=
  (es.enumFrom i).map (fun p =>
    if lfs_pair_cmp p.2.metadata.pair0 p.2.metadata.pair1 oldpair0 oldpair1 = 0 then
      (if own = some p.1 then { p.2 with metadata := dir }
        else attrs.foldl patch_handle { p.2 with metadata := dir })
    else p.2)

/-- The ranges in which the arithmetic of the patch does not wrap: the id
stays a `uint16_t` and, for a directory handle, the position is not below
the id and stays a 64-bit offset. -/
def handle_in_range (n : Nat) (e : lfs_metadata_list_t) : Prop :=
  e.id + n < 65536 ∧ (e.type = LFS_TYPE_DIR → e.id ≤ e.pos ∧ e.pos + n < 18446744073709551616)

instance handle_in_range_decidable (n : Nat) (e : lfs_metadata_list_t) :
    Decidable (handle_in_range n e) := by
  unfold handle_in_range
  exact inferInstance

/-! ### Pending moves (`lfs_fs_prepmove`, `lfs_fs_demove`) -/

/-- The three global states of `lfs_t` that a commit reads and writes, and
the `world`: the rest of `lfs_t` and the device. -/
structure move_state (σ : Type) where
  gstate : lfs_gstate_t
  gdisk : lfs_gstate_t
  gdelta : lfs_gstate_t
  world : σ

/-- `lfs_fs_prepmove(lfs, id, pair)`: the move bits of `gstate.tag` are
replaced by a DELETE of `id`, or cleared when `id` is `0x3ff`. -/
def lfs_fs_prepmove {σ : Type} (s : move_state σ) (id pair0 pair1 : Nat) : move_state σ :=
  { s with gstate :=
      { s.gstate with
        tag := (s.gstate.tag &&& (0xffffffff ^^^ LFS_MKTAG LFS_TYPE_MOVESTATE 0x3ff 0))
          ||| (if id ≠ 0x3ff then LFS_MKTAG LFS_TYPE_DELETE id 0 else 0),
        pair0 := if id ≠ 0x3ff then pair0 else 0,
        pair1 := if id ≠ 0x3ff then pair1 else 0 } }

/-- `lfs_dir_commit` where the commit is appended in place, or compacted
without a relocation, and nothing is dropped: `write` stands for all that is
written, and on success `lfs->gdisk = lfs->gstate; lfs->gdelta = {0}`. -/
def lfs_dir_commit_plain {σ : Type}
    (write : move_state σ → lfs_metadata_dir_t → List (Nat × List Nat) → Int × σ)
    (s : move_state σ) (dir : lfs_metadata_dir_t) (attrs : List (Nat × List Nat)) :
    Int × move_state σ :=
  if (write s dir attrs).1 ≠ 0 then
    ((write s dir attrs).1, { s with world := (write s dir attrs).2 })
  else
    (LFS_ERR_OK,
      { s with gdisk := s.gstate, gdelta := ⟨0, 0, 0, 0⟩, world := (write s dir attrs).2 })

/-- `lfs_fs_demove(lfs)`.  `fetch` stands for `lfs_dir_fetch` and `commit`
for `lfs_dir_commit`. -/
def lfs_fs_demove {σ : Type} (fetch : σ → Nat → Nat → Int × lfs_metadata_dir_t × σ)
    (commit : move_state σ → lfs_metadata_dir_t → List (Nat × List Nat) → Int × move_state σ)
    (s : move_state σ) : Int × move_state σ :=
  if ¬ lfs_gstate_hasmove s.gdisk then (LFS_ERR_OK, s)
  else if (fetch s.world s.gdisk.pair0 s.gdisk.pair1).1 ≠ 0 then
    ((fetch s.world s.gdisk.pair0 s.gdisk.pair1).1,
      { s with world := (fetch s.world s.gdisk.pair0 s.gdisk.pair1).2.2 })
  else if (commit
      (lfs_fs_prepmove { s with world := (fetch s.world s.gdisk.pair0 s.gdisk.pair1).2.2 }
        0x3ff 0 0)
      (fetch s.world s.gdisk.pair0 s.gdisk.pair1).2.1
      [(LFS_MKTAG LFS_TYPE_DELETE (lfs_tag_id s.gdisk.tag) 0, [])]).1 ≠ 0 then
    commit
      (lfs_fs_prepmove { s with world := (fetch s.world s.gdisk.pair0 s.gdisk.pair1).2.2 }
        0x3ff 0 0)
      (fetch s.world s.gdisk.pair0 s.gdisk.pair1).2.1
      [(LFS_MKTAG LFS_TYPE_DELETE (lfs_tag_id s.gdisk.tag) 0, [])]
  else
    (LFS_ERR_OK,
      (commit
        (lfs_fs_prepmove { s with world := (fetch s.world s.gdisk.pair0 s.gdisk.pair1).2.2 }
          0x3ff 0 0)
        (fetch s.world s.gdisk.pair0 s.gdisk.pair1).2.1
        [(LFS_MKTAG LFS_TYPE_DELETE (lfs_tag_id s.gdisk.tag) 0, [])]).2)

/-! ### Creating entries (`lfs_dir_find` with an id, and the checks of
`lfs_dir_rawcreate`, `lfs_file_rawopencfg` and `lfs_raw_rename`) -/

/-- `LFS_O_WRONLY`. -/
def LFS_O_WRONLY : Nat := 2

/-- `LFS_O_CREAT`. -/
def LFS_O_CREAT : Nat := 0x0100

/-- `LFS_ERR_EXIST`. -/
def LFS_ERR_EXIST : Int := -17

/-- `LFS_ERR_ISDIR`. -/
def LFS_ERR_ISDIR : Int := -21

/-- `LFS_ERR_NAMETOOLONG`. -/
def LFS_ERR_NAMETOOLONG : Int := -36

/-- `LFS_TYPE_INLINESTRUCT`. -/
def LFS_TYPE_INLINESTRUCT : Nat := 0x201

/-- The loop of `lfs_dir_find` with the state and the id it writes.
`lookup s tag name` stands for the two steps `grab the entry data` and
`find entry matching name` in the directory whose entry is `tag`: the tag
found or a negative error, the last value that `lfs_dir_fetchmatch` writes
through an id pointer (`none` when it writes none), and the state with the
directory fetched.  The id pointer is handed on only when
`strchr(name, '/') == NULL`.  The result is the value returned, `*path`,
`*id` and the state; `none` when the fuel runs out. -/
def lfs_dir_find_id_loop {σ : Type} (lookup : σ → Int → List Char → Int × Option Nat × σ) :
    Nat → σ → List Char → Int → List Char → Nat → Option (Int × List Char × Nat × σ)
  | 0, _, _, _, _, _ => none
  | fuel + 1, s, name, tag, path, id =>
    if (name_length (skip_slashes name) = 1 ∧ (skip_slashes name).take 1 = ['.'])
        ∨ (name_length (skip_slashes name) = 2 ∧ (skip_slashes name).take 2 = ['.', '.']) then
      lfs_dir_find_id_loop lookup fuel s
        ((skip_slashes name).drop (name_length (skip_slashes name))) tag path id
    else
      match find_suffix ((skip_slashes name).length + 1)
          ((skip_slashes name).drop (name_length (skip_slashes name))) 1 with
      | none => none
      | some (some rest) => lfs_dir_find_id_loop lookup fuel s rest tag path id
      | some none =>
        if skip_slashes name = [] then some (tag, path, id, s)
        else if lfs_tag_type3 tag.toNat ≠ LFS_TYPE_DIR then
          some (LFS_ERR_NOTDIR, skip_slashes name, id, s)
        else if (lookup s tag ((skip_slashes name).take (name_length (skip_slashes name)))).1
            < 0 then
          some ((lookup s tag ((skip_slashes name).take (name_length (skip_slashes name)))).1,
            skip_slashes name,
            (if '/' ∈ skip_slashes name then id
              else (lookup s tag
                ((skip_slashes name).take (name_length (skip_slashes name)))).2.1.getD id),
            (lookup s tag ((skip_slashes name).take (name_length (skip_slashes name)))).2.2)
        else
          lfs_dir_find_id_loop lookup fuel
            (lookup s tag ((skip_slashes name).take (name_length (skip_slashes name)))).2.2
            ((skip_slashes name).drop (name_length (skip_slashes name)))
            (lookup s tag ((skip_slashes name).take (name_length (skip_slashes name)))).1
            (skip_slashes name)
            (if '/' ∈ skip_slashes name then id
              else (lookup s tag
                ((skip_slashes name).take (name_length (skip_slashes name)))).2.1.getD id)

/-- `lfs_dir_find(lfs, dir, &path, &id)`: `*id = 0x3ff`, the search starts at
the root (`enter` sets `dir->tail` to `lfs->root`). -/
def lfs_dir_find_id {σ : Type} (enter : σ → σ)
    (lookup : σ → Int → List Char → Int × Option Nat × σ) (s : σ) (path : List Char) :
    Option (Int × List Char × Nat × σ) :=
  lfs_dir_find_id_loop lookup (path.length + 1) (enter s) path
    (LFS_MKTAG LFS_TYPE_DIR 0x3ff 0) path 0x3ff

/-- `lfs_dir_rawcreate(lfs, path)` up to the check of the name.  `force`
stands for `lfs_fs_forceconsistency`, `name_max_length` for
`lfs->name_max_length`, and `build` for the function from
`build up new directory` on, with the name left in `path` and the id. -/
def lfs_dir_rawcreate {σ : Type} (force : σ → Int × σ) (enter : σ → σ)
    (lookup : σ → Int → List Char → Int × Option Nat × σ) (name_max_length : σ → Nat)
    (build : σ → List Char → Nat → Int × σ) (s : σ) (path : List Char) : Option (Int × σ) :=
  if (force s).1 ≠ 0 then some (force s)
  else
    match lfs_dir_find_id enter lookup (force s).2 path with
    | none => none
    | some (err, name, id, s1) =>
      if ¬ (err = LFS_ERR_NOENT ∧ id ≠ 0x3ff) then
        some (if err < 0 then err else LFS_ERR_EXIST, s1)
      else if name.length > name_max_length s1 then some (LFS_ERR_NAMETOOLONG, s1)
      else some (build s1 name id)

/-- `lfs_file_rawopencfg(lfs, file, path, flags, cfg)` up to the commit of a
new entry.  `setup` stands for `setup simple file details`, `append` for
`file->type = LFS_TYPE_REG; lfs_mlist_append` with `file->id`, `commit` for
`lfs_dir_commit(lfs, &file->metadata, attr, 3)`, `created` for the rest of the
function after the commit of a new entry, `existing` for the branches of an
entry that exists and what follows them, and `cleanup` for the label
`cleanup`. -/
def lfs_file_rawopencfg {σ : Type} (force : σ → Int × σ) (setup : σ → Nat → σ)
    (enter : σ → σ) (lookup : σ → Int → List Char → Int × Option Nat × σ)
    (name_max_length : σ → Nat) (append : σ → Nat → σ)
    (commit : σ → List (Nat × List Nat) → Int × σ) (created : σ → Int × σ)
    (existing : σ → Int → Nat → Int × σ) (cleanup : σ → σ)
    (s : σ) (path : List Char) (flags : Nat) : Option (Int × σ) :=
  if flags &&& LFS_O_WRONLY = LFS_O_WRONLY ∧ (force s).1 ≠ 0 then some (force s)
  else
    match lfs_dir_find_id enter lookup
        (setup (if flags &&& LFS_O_WRONLY = LFS_O_WRONLY then (force s).2 else s) flags)
        path with
    | none => none
    | some (tag, name, id, s1) =>
      if tag < 0 ∧ ¬ (tag = LFS_ERR_NOENT ∧ id ≠ 0x3ff) then some (tag, cleanup s1)
      else if tag = LFS_ERR_NOENT then
        if flags &&& LFS_O_CREAT = 0 then some (LFS_ERR_NOENT, cleanup (append s1 id))
        else if name.length > name_max_length (append s1 id) then
          some (LFS_ERR_NAMETOOLONG, cleanup (append s1 id))
        else if (commit (append s1 id)
            [(LFS_MKTAG LFS_TYPE_CREATE id 0, []),
             (LFS_MKTAG LFS_TYPE_REG id name.length, name.map Char.toNat),
             (LFS_MKTAG LFS_TYPE_INLINESTRUCT id 0, [])]).1 = LFS_ERR_NOSPC then
          some (LFS_ERR_NAMETOOLONG,
            cleanup (commit (append s1 id)
              [(LFS_MKTAG LFS_TYPE_CREATE id 0, []),
               (LFS_MKTAG LFS_TYPE_REG id name.length, name.map Char.toNat),
               (LFS_MKTAG LFS_TYPE_INLINESTRUCT id 0, [])]).2)
        else if (commit (append s1 id)
            [(LFS_MKTAG LFS_TYPE_CREATE id 0, []),
             (LFS_MKTAG LFS_TYPE_REG id name.length, name.map Char.toNat),
             (LFS_MKTAG LFS_TYPE_INLINESTRUCT id 0, [])]).1 ≠ 0 then
          some ((commit (append s1 id)
              [(LFS_MKTAG LFS_TYPE_CREATE id 0, []),
               (LFS_MKTAG LFS_TYPE_REG id name.length, name.map Char.toNat),
               (LFS_MKTAG LFS_TYPE_INLINESTRUCT id 0, [])]).1,
            cleanup (commit (append s1 id)
              [(LFS_MKTAG LFS_TYPE_CREATE id 0, []),
               (LFS_MKTAG LFS_TYPE_REG id name.length, name.map Char.toNat),
               (LFS_MKTAG LFS_TYPE_INLINESTRUCT id 0, [])]).2)
        else
          some (created (commit (append s1 id)
            [(LFS_MKTAG LFS_TYPE_CREATE id 0, []),
             (LFS_MKTAG LFS_TYPE_REG id name.length, name.map Char.toNat),
             (LFS_MKTAG LFS_TYPE_INLINESTRUCT id 0, [])]).2)
      else some (existing (append s1 id) tag id)

/-- `lfs_raw_rename(lfs, oldpath, newpath)` up to the check of the new
name.  `samepair` stands for `lfs_pair_cmp(oldcwd.pair, newcwd.pair) == 0`,
and `move` for the rest of the function, from the check that a directory to
be replaced is empty on, with `oldtag`, `prevtag`, `newid`, `newoldid` and the
name left in `newpath`. -/
def lfs_raw_rename {σ : Type} (force : σ → Int × σ)
    (enter_old : σ → σ) (lookup_old : σ → Int → List Char → Int × Option Nat × σ)
    (enter_new : σ → σ) (lookup_new : σ → Int → List Char → Int × Option Nat × σ)
    (name_max_length : σ → Nat) (samepair : σ → Bool)
    (move : σ → Int → Int → Nat → Nat → List Char → Int × σ)
    (s : σ) (oldpath newpath : List Char) : Option (Int × σ) :=
  if (force s).1 ≠ 0 then some (force s)
  else
    match lfs_dir_find_id enter_old lookup_old (force s).2 oldpath with
    | none => none
    | some (oldtag, _, _, s1) =>
      if oldtag < 0 ∨ lfs_tag_id oldtag.toNat = 0x3ff then
        some (if oldtag < 0 then oldtag else LFS_ERR_INVAL, s1)
      else
        match lfs_dir_find_id enter_new lookup_new s1 newpath with
        | none => none
        | some (prevtag, newname, newid, s2) =>
          if (prevtag < 0 ∨ lfs_tag_id prevtag.toNat = 0x3ff)
              ∧ ¬ (prevtag = LFS_ERR_NOENT ∧ newid ≠ 0x3ff) then
            some (if prevtag < 0 then prevtag else LFS_ERR_INVAL, s2)
          else if prevtag = LFS_ERR_NOENT then
            if newname.length > name_max_length s2 then some (LFS_ERR_NAMETOOLONG, s2)
            else
              some (move s2 oldtag prevtag newid
                (if samepair s2 ∧ newid ≤ lfs_tag_id oldtag.toNat then
                  (lfs_tag_id oldtag.toNat + 1) % 65536
                else lfs_tag_id oldtag.toNat) newname)
          else if lfs_tag_type3 prevtag.toNat ≠ lfs_tag_type3 oldtag.toNat then
            some (LFS_ERR_ISDIR, s2)
          else if samepair s2 ∧ newid = lfs_tag_id oldtag.toNat then some (LFS_ERR_OK, s2)
          else some (move s2 oldtag prevtag newid (lfs_tag_id oldtag.toNat) newname)

/-- A lookup for the examples: the root holds the directory `a` with id 1
(beside the superblock entry), and `a` holds the file `f0` with id 0; a name
that is not found leaves the count of the directory as the id.  The state
counts the lookups and the commits. -/
def example_lookup (s : Nat × Nat) (tag : Int) (name : List Char) :
    Int × Option Nat × (Nat × Nat) :=
  if lfs_tag_id tag.toNat = 0x3ff ∧ name = ['a'] then
    (LFS_MKTAG LFS_TYPE_DIR 1 1, some 1, (s.1 + 1, s.2))
  else if lfs_tag_id tag.toNat = 1 ∧ name = ['f', '0'] then
    (LFS_MKTAG LFS_TYPE_REG 0 2, some 0, (s.1 + 1, s.2))
  else
    (LFS_ERR_NOENT, some (if lfs_tag_id tag.toNat = 0x3ff then 2 else 1), (s.1 + 1, s.2))

/-! ### Custom attributes (`lfs_raw_get_attribute`) -/

/-- `lfs_raw_get_attribute(lfs, path, type, buffer, size)` with `size` the
length of `buffer`.  `find` stands for `lfs_dir_find(lfs, &cwd, &path, NULL)`
and `fetch_root` for `lfs_dir_fetch(lfs, &cwd, lfs->root)`.  The result is the
value returned and the caller's buffer: `lfs_dir_get` writes its first
`lfs_min(size, attr_max_size)` bytes when it finds the attribute, and nothing
otherwise. -/
def lfs_raw_get_attribute (g : Geometry) (d : Disk) (gdisk : lfs_gstate_t)
    (find : List Char → Int × lfs_metadata_dir_t) (fetch_root : Int × lfs_metadata_dir_t)
    (attr_max_size : Nat) (path : List Char) (type : Nat) (buffer : List Nat) (fuel : Nat) :
    Option (Int × List Nat) :=
  if (find path).1 < 0 then some ((find path).1, buffer)
  else if lfs_tag_id (find path).1.toNat = 0x3ff ∧ fetch_root.1 ≠ 0 then
    some (fetch_root.1, buffer)
  else
    match lfs_dir_get g d gdisk
        (if lfs_tag_id (find path).1.toNat = 0x3ff then fetch_root.2 else (find path).2)
        (LFS_MKTAG LFS_TYPE_MOVESTATE 0x3ff 0)
        (LFS_MKTAG (LFS_TYPE_USERATTR + type)
          (if lfs_tag_id (find path).1.toNat = 0x3ff then 0 else lfs_tag_id (find path).1.toNat)
          (lfs_min buffer.length attr_max_size))
        fuel with
    | none => none
    | some (tag, out) =>
      if tag < 0 then
        some (if tag = LFS_ERR_NOENT then LFS_ERR_NOATTR else tag,
          match out with
          | some bytes => bytes ++ buffer.drop bytes.length
          | none => buffer)
      else
        some (lfs_tag_size tag.toNat,
          match out with
          | some bytes => bytes ++ buffer.drop bytes.length
          | none => buffer)

/-- A metadata block for the examples, with revision 7 and two entries: id 0
is the file `b` with the inline contents 3, 4, 5 and the attribute of type 5
with the two bytes 7, 7; id 1 is the file `a`. -/
def example_attr_block : List Nat :=
  [7, 0, 0, 0, 191, 239, 255, 255, 64, 0, 0, 1, 97, 32, 0, 0, 3, 1, 2, 96, 0, 0, 2, 64, 0, 0,
   1, 98, 32, 0, 0, 2, 3, 4, 5, 0, 48, 4, 19, 9, 0, 0, 0, 0, 0, 0, 0, 44, 1, 0, 0, 0, 0, 0, 0,
   16, 112, 4, 18, 7, 7, 96, 95, 252, 13, 165, 129, 7, 191, 255, 255, 255, 255, 255, 255, 255]

/-- The block `example_attr_block` as fetched: pair `(0, 1)`, the commit ends
at offset 80, two ids. -/
def example_attr_dir : lfs_metadata_dir_t :=
  ⟨0, 1, 7, 80, 1343224847, 2, false, false, LFS_BLOCK_NULL, LFS_BLOCK_NULL⟩

/-! ### Traversal of the blocks in use (`lfs_fs_rawtraverse`, `lfs_fs_rawsize`) -/

/-- `LFS_TYPE_DIRSTRUCT`. -/
def LFS_TYPE_DIRSTRUCT : Nat := 0x200

/-- `LFS_TYPE_CTZSTRUCT`. -/
def LFS_TYPE_CTZSTRUCT : Nat := 0x202

/-- `lfs_pair_isnull`. -/
def lfs_pair_isnull (pair0 pair1 : Nat) : Bool :=
  pair0 = LFS_BLOCK_NULL ∨ pair1 = LFS_BLOCK_NULL

/-- The fields of an open handle that `lfs_fs_rawtraverse` reads: `type`,
`flags`, `ctz.head`, `ctz.size`, `block` and `pos`. -/
structure open_file where
  type : Nat
  flags : Nat
  head : Nat
  size : Nat
  block : Nat
  pos : Nat
deriving DecidableEq, Repr

/-- The body of `for (uint16_t id = 0; id < dir.count; id++)` in
`lfs_fs_rawtraverse` from the result of `lfs_dir_get` on: `none` stands for
`continue` and for the end of the body, `some` for a `return`; the fuel of
the walk over a skip list is `hops`. -/
def traverse_entry {σ : Type} (g : Geometry) (d : Disk) (cb : σ → Nat → Int × σ)
    (includeorphans : Bool) (hops : Nat) (tag : Int) (ctz : List Nat) (s : σ) :
    Option (Option Int × σ) :=
  if tag < 0 then
    if tag = LFS_ERR_NOENT then some (none, s) else some (some tag, s)
  else if lfs_tag_type3 tag.toNat = LFS_TYPE_CTZSTRUCT then
    match lfs_ctz_traverse g d (lfs_fromle64 ctz) (lfs_fromle64 (ctz.drop 8)) cb s hops with
    | none => none
    | some r => if r.1 ≠ 0 then some (some r.1, r.2) else some (none, r.2)
  else if includeorphans ∧ lfs_tag_type3 tag.toNat = LFS_TYPE_DIRSTRUCT then
    if (cb s (lfs_fromle64 ctz)).1 ≠ 0 then
      some (some (cb s (lfs_fromle64 ctz)).1, (cb s (lfs_fromle64 ctz)).2)
    else if (cb (cb s (lfs_fromle64 ctz)).2 (lfs_fromle64 (ctz.drop 8))).1 ≠ 0 then
      some (some (cb (cb s (lfs_fromle64 ctz)).2 (lfs_fromle64 (ctz.drop 8))).1,
        (cb (cb s (lfs_fromle64 ctz)).2 (lfs_fromle64 (ctz.drop 8))).2)
    else some (none, (cb (cb s (lfs_fromle64 ctz)).2 (lfs_fromle64 (ctz.drop 8))).2)
  else some (none, s)

/-- The loop `for (uint16_t id = 0; id < dir.count; id++)` of
`lfs_fs_rawtraverse`, one unit of fuel per id: the error returned, or 0 at
the end of the loop, with the state of the callback.  The lookup is
`lfs_dir_get` with `LFS_MKTAG(LFS_TYPE_GLOBALS, 0x3ff, 0)` and
`LFS_MKTAG(LFS_TYPE_STRUCT, id, sizeof(ctz))`. -/
def traverse_ids {σ : Type} (g : Geometry) (d : Disk) (gdisk : lfs_gstate_t)
    (cb : σ → Nat → Int × σ) (includeorphans : Bool) (hops : Nat) (dir : lfs_metadata_dir_t) :
    Nat → Nat → σ → Option (Int × σ)
  | 0, _, _ => none
  | fuel + 1, id, s =>
    if id < dir.count then
      match lfs_dir_get g d gdisk dir (LFS_MKTAG LFS_TYPE_GLOBALS 0x3ff 0)
          (LFS_MKTAG LFS_TYPE_STRUCT id 16) hops with
      | none => none
      | some (tag, out) =>
        match traverse_entry g d cb includeorphans hops tag (out.getD []) s with
        | none => none
        | some (some err, s1) => some (err, s1)
        | some (none, s1) =>
          traverse_ids g d gdisk cb includeorphans hops dir fuel ((id + 1) % 65536) s1
    else some (0, s)

/-- The loop `while (!lfs_pair_isnull(dir.tail))` of `lfs_fs_rawtraverse`, one
unit of fuel per pair; `fetch` stands for `lfs_dir_fetch`.  The result is the
error returned, or 0 when the loop is left, with the state of the
callback. -/
def traverse_pairs {σ : Type} (g : Geometry) (d : Disk) (gdisk : lfs_gstate_t)
    (fetch : Nat → Nat → Int × lfs_metadata_dir_t) (cb : σ → Nat → Int × σ)
    (includeorphans : Bool) (hops : Nat) :
    Nat → Nat → Nat → Nat → σ → Option (Int × σ)
  | 0, _, _, _, _ => none
  | fuel + 1, cycle, tail0, tail1, s =>
    if lfs_pair_isnull tail0 tail1 then some (0, s)
    else if cycle ≥ g.block_count / 2 then some (LFS_ERR_CORRUPT, s)
    else if (cb s tail0).1 ≠ 0 then some (cb s tail0)
    else if (cb (cb s tail0).2 tail1).1 ≠ 0 then some (cb (cb s tail0).2 tail1)
    else if (fetch tail0 tail1).1 ≠ 0 then
      some ((fetch tail0 tail1).1, (cb (cb s tail0).2 tail1).2)
    else
      match traverse_ids g d gdisk cb includeorphans hops (fetch tail0 tail1).2
          ((fetch tail0 tail1).2.count + 1) 0 (cb (cb s tail0).2 tail1).2 with
      | none => none
      | some r =>
        if r.1 ≠ 0 then some r
        else
          traverse_pairs g d gdisk fetch cb includeorphans hops fuel (wrap64 (cycle + 1))
            (fetch tail0 tail1).2.tail0 (fetch tail0 tail1).2.tail1 r.2

/-- The loop `iterate over any open files` of `lfs_fs_rawtraverse`; the
contents of a file's cache are taken as written to the device. -/
def traverse_files {σ : Type} (g : Geometry) (d : Disk) (cb : σ → Nat → Int × σ)
    (hops : Nat) : List open_file → σ → Option (Int × σ)
  | [], s => some (LFS_ERR_OK, s)
  | f :: fs, s =>
    if f.type ≠ LFS_TYPE_REG then traverse_files g d cb hops fs s
    else
      match (if f.flags &&& LFS_F_DIRTY ≠ 0 ∧ f.flags &&& LFS_F_INLINE = 0 then
          lfs_ctz_traverse g d f.head f.size cb s hops else some (0, s)) with
      | none => none
      | some r =>
        if r.1 ≠ 0 then some r
        else
          match (if f.flags &&& LFS_F_WRITING ≠ 0 ∧ f.flags &&& LFS_F_INLINE = 0 then
              lfs_ctz_traverse g d f.block f.pos cb r.2 hops else some (0, r.2)) with
          | none => none
          | some r2 =>
            if r2.1 ≠ 0 then some r2
            else traverse_files g d cb hops fs r2.2

/-- `lfs_fs_rawtraverse(lfs, cb, data, includeorphans)`: the walk starts at
the pair `(0, 1)`; `fuel` bounds the number of pairs and `hops` each walk
inside a block or a skip list. -/
def lfs_fs_rawtraverse {σ : Type} (g : Geometry) (d : Disk) (gdisk : lfs_gstate_t)
    (fetch : Nat → Nat → Int × lfs_metadata_dir_t) (files : List open_file)
    (cb : σ → Nat → Int × σ) (s : σ) (includeorphans : Bool) (fuel hops : Nat) :
    Option (Int × σ) :=
  match traverse_pairs g d gdisk fetch cb includeorphans hops fuel 0 0 1 s with
  | none => none
  | some r => if r.1 ≠ 0 then some r else traverse_files g d cb hops files r.2

/-- Two runs of a traversal end alike: both run out of fuel, or both return
the same code with related states of their callbacks. -/
def res_rel {α β : Type} (R : α → β → Prop) (o1 : Option (Int × α)) (o2 : Option (Int × β)) :
    Prop :=
  match o1, o2 with
  | none, none => True
  | some a, some b => a.1 = b.1 ∧ R a.2 b.2
  | _, _ => False

/-- A device for the examples, after `mkdir /a` and `mkdir /a/b` on a fresh
filesystem of 8 blocks of 256 bytes: block 0 holds the root with the
superblock entry and the entry of `a`, whose pair is `(2, 3)`; block 2 holds
`a` with the entry of `b`, whose pair is `(4, 5)`; block 4 holds the empty
directory `b`.  The tails thread the root, `a` and `b`. -/
def example_tree_disk : Disk :=
  disk_of_blocks
    [[1, 0, 0, 0, 191, 239, 255, 255, 79, 224, 0, 8, 108, 105, 116, 116, 108, 101, 102, 115,
      47, 224, 0, 56, 0, 0, 2, 0, 0, 0, 0, 0, 0, 1, 0, 0, 0, 0, 0, 0, 8, 0, 0, 0, 0, 0, 0, 0,
      255, 0, 0, 0, 0, 0, 0, 0, 255, 255, 255, 127, 0, 0, 0, 0, 254, 3, 0, 0, 0, 0, 0, 0,
      96, 0, 4, 48, 64, 48, 0, 1, 97, 32, 32, 0, 17, 2, 0, 0, 0, 0, 0, 0, 0, 3, 0, 0, 0, 0, 0,
      0, 0, 64, 15, 248, 0, 2, 0, 0, 0, 0, 0, 0, 0, 3, 0, 0, 0, 0, 0, 0, 0, 48, 0, 0, 3, 243,
      249, 135, 188],
     [],
     [1, 0, 0, 0, 191, 239, 255, 255, 64, 48, 0, 1, 98, 32, 32, 0, 17, 4, 0, 0, 0, 0, 0, 0, 0,
      5, 0, 0, 0, 0, 0, 0, 0, 64, 15, 252, 0, 4, 0, 0, 0, 0, 0, 0, 0, 5, 0, 0, 0, 0, 0, 0, 0,
      48, 0, 0, 31, 137, 186, 235, 198],
     [],
     [1, 0, 0, 0, 159, 240, 3, 239, 255, 255, 255, 255, 255, 255, 255, 255, 255, 255, 255, 255,
      255, 255, 255, 255, 48, 0, 0, 28, 197, 239, 112, 159]]

/-- The three pairs of `example_tree_disk` as `lfs_dir_fetch` finds them. -/
def example_tree_fetch (pair0 pair1 : Nat) : Int × lfs_metadata_dir_t :=
  if pair0 = 0 ∧ pair1 = 1 then (0, ⟨0, 1, 1, 144, 1343224851, 2, true, false, 2, 3⟩)
  else if pair0 = 2 ∧ pair1 = 3 then (0, ⟨2, 3, 1, 72, 1343224847, 1, true, false, 4, 5⟩)
  else if pair0 = 4 ∧ pair1 = 5 then
    (0, ⟨4, 5, 1, 40, 1343224844, 0, true, false, LFS_BLOCK_NULL, LFS_BLOCK_NULL⟩)
  else (LFS_ERR_CORRUPT, ⟨pair0, pair1, 0, 0, 0, 0, false, false, 0, 0⟩)

instance log_nosplice_decidable (R : List (Nat × List Nat)) : Decidable (log_nosplice R) := by
  unfold log_nosplice
  exact inferInstance

instance tag_ok_decidable (count : Nat) (nosplice : Prop) [Decidable nosplice] (t : Nat) :
    Decidable (tag_ok count nosplice t) := by
  unfold tag_ok
  exact inferInstance

/-- Whether a log is well formed. -/
def log_wf_decidable : (L : List (Nat × List Nat)) → Decidable (log_wf L)
  | [] => isTrue trivial
  | u :: R =>
    match log_wf_decidable R with
    | isTrue h =>
      if hk : tag_ok (log_count R) (log_nosplice R) u.1 then isTrue ⟨h, hk⟩
      else isFalse (fun hc => hk hc.2)
    | isFalse h => isFalse (fun hc => h hc.1)

instance log_wf_decidable_instance (L : List (Nat × List Nat)) : Decidable (log_wf L) :=
  log_wf_decidable L

instance lookup_ok_decidable (gmask gtag : Nat) : Decidable (lookup_ok gmask gtag) := by
  unfold lookup_ok
  exact inferInstance

/-- The entries of `example_attr_block`, latest first: the CRC tag, the
attribute of type 5 of `b`, the CTZ struct of `a` (id 1), the inline struct
and the name of `b` (id 0) and its CREATE, and the inline struct, the name
and the CREATE that `a` was written with as id 0. -/
def example_attr_log : List (Nat × List Nat) :=
  [(1343224847, [165, 129, 7, 191, 255, 255, 255, 255, 255, 255, 255, 255, 255, 255, 255]),
   (810549250, [7, 7]),
   (538969104, [9, 0, 0, 0, 0, 0, 0, 0, 44, 1, 0, 0, 0, 0, 0, 0]),
   (537919491, [3, 4, 5]),
   (1048577, [98]),
   (1074790400, []),
   (537919490, [1, 2]),
   (1048577, [97]),
   (1074790400, [])]

/-! ### The orphan count (`lfs_fs_preporphans`) -/

/-- `LFS_TYPE_HAS_ORPHANS`. -/
def LFS_TYPE_HAS_ORPHANS : Nat := 0x800

/-- `lfs_fs_preporphans(lfs, orphans)`: the code returned and the new
`lfs->gstate`.  `orphans` is the value of the `int8_t` argument (from -128 to
127); `gstate.tag += orphans` adds it modulo 2^32, then bit 31 of the tag is
replaced by `lfs_gstate_hasorphans`. -/
def lfs_fs_preporphans (gstate : lfs_gstate_t) (orphans : Int) : Int × lfs_gstate_t :=
  (LFS_ERR_OK,
    { gstate with
      tag := (ofInt32 (gstate.tag + orphans)
            &&& (0xffffffff ^^^ LFS_MKTAG LFS_TYPE_HAS_ORPHANS 0 0))
        ||| wrap32 ((if lfs_gstate_hasorphans { gstate with tag := ofInt32 (gstate.tag + orphans) }
            then 1 else 0) <<< 31) })

/-! ### A fresh metadata pair (`lfs_dir_alloc`) -/

/-- The revision count that `lfs_dir_alloc` leaves in `*dir`: the word read
from the first four bytes of `pair[0]` (0 when the read fails), aligned when
`block_cycles > 0` by `(uint32_t)lfs_alignup(revision_count,
(block_cycles + 1) | 1)`; `lfs_alignup` works on `uint64_t`. -/
def dir_alloc_revision (g : Geometry) (d : Disk) (block_cycles : Int) (pair0 : Nat) : Nat :=
  if block_cycles > 0 then
    wrap32 (lfs_alignup
      (match lfs_bd_read g d pair0 0 4 with
       | .ok raw => lfs_fromle32 raw
       | .error _ => 0)
      ((block_cycles.toNat + 1) ||| 1))
  else
    match lfs_bd_read g d pair0 0 4 with
    | .ok raw => lfs_fromle32 raw
    | .error _ => 0

/-- `lfs_dir_alloc(lfs, dir)`: `alloc1` and `alloc0` are what the two calls
of `lfs_alloc` return and store, the first for `pair[1]`, the second for
`pair[0]`.  The result is the code returned and `*dir`. -/
def lfs_dir_alloc (g : Geometry) (d : Disk) (block_cycles : Int) (alloc1 alloc0 : Int × Nat)
    (dir : lfs_metadata_dir_t) : Int × lfs_metadata_dir_t :=
  if alloc1.1 ≠ 0 then (alloc1.1, dir)
  else if alloc0.1 ≠ 0 then (alloc0.1, { dir with pair1 := alloc1.2 })
  else
    match lfs_bd_read g d alloc0.2 0 4 with
    | .error err =>
      if err ≠ LFS_ERR_CORRUPT then
        (err, { dir with pair0 := alloc0.2, pair1 := alloc1.2, revision_count := 0 })
      else
        (LFS_ERR_OK,
          { pair0 := alloc0.2, pair1 := alloc1.2,
            revision_count := dir_alloc_revision g d block_cycles alloc0.2,
            offset := 4, etag := 0xffffffff, count := 0, erased := false, split := false,
            tail0 := LFS_BLOCK_NULL, tail1 := LFS_BLOCK_NULL })
    | .ok _ =>
      (LFS_ERR_OK,
        { pair0 := alloc0.2, pair1 := alloc1.2,
          revision_count := dir_alloc_revision g d block_cycles alloc0.2,
          offset := 4, etag := 0xffffffff, count := 0, erased := false, split := false,
          tail0 := LFS_BLOCK_NULL, tail1 := LFS_BLOCK_NULL })

/-! ### Logical blocks over erase units (`lfs_bd_rawread`, `lfs_bd_rawprog`)

What the two functions ask of the device: each call of `cfg->read` or
`cfg->write` is recorded with the place in the caller's buffer that the
call's data pointer points at, and with the outcome of the assertion
`off + size <= lfs->erase_size` that precedes it.  The device does not
fail. -/

/-- One call of `cfg->read` or `cfg->write`: the physical block, the offset
in it, the number of bytes, the index in the caller's buffer of the first
byte handed over, and whether `LFS_ASSERT(off + size <= lfs->erase_size)`
held before the call. -/
structure device_call where
  block : Nat
  off : Nat
  size : Nat
  buffer_index : Nat
  assert_holds : Bool
deriving DecidableEq, Repr

/-- The loop `while (size > 0)` of `lfs_bd_rawread` and of `lfs_bd_rawprog`:
`delta = lfs_min(size, off + erase_size)`; the pointer `buffer_` is not
advanced, so every call gets the start of the buffer. -/
def bd_raw_loop (erase_size : Nat) : Nat → Nat → Nat → Nat → Option (List device_call)
  | 0, _, _, size => if size > 0 then none else some []
  | fuel + 1, block, off, size =>
    if size > 0 then
      (bd_raw_loop erase_size fuel
        (if wrap64 (off + lfs_min size (wrap64 (off + erase_size))) = erase_size then
          wrap64 (block + 1) else block)
        (if wrap64 (off + lfs_min size (wrap64 (off + erase_size))) = erase_size then 0
          else wrap64 (off + lfs_min size (wrap64 (off + erase_size))))
        (sub64 size (lfs_min size (wrap64 (off + erase_size))))).map
        (fun calls =>
          ⟨block, off, lfs_min size (wrap64 (off + erase_size)), 0,
            decide (wrap64 (off + size) ≤ erase_size)⟩ :: calls)
    else some []

/-- `lfs_bd_rawread(lfs, block, off, buffer, size)`: the calls of
`cfg->read`, in order. -/
def lfs_bd_rawread (block_size erase_size block off size fuel : Nat) :
    Option (List device_call) :=
  bd_raw_loop erase_size fuel
    (wrap64 (wrap64 (block * (block_size / erase_size)) + off / erase_size))
    (off % erase_size) size

/-- `lfs_bd_rawprog(lfs, block, off, buffer, size)`: the calls of
`cfg->write`, in order. -/
def lfs_bd_rawprog (block_size erase_size block off size fuel : Nat) :
    Option (List device_call) :=
  bd_raw_loop erase_size fuel
    (wrap64 (wrap64 (block * (block_size / erase_size)) + off / erase_size))
    (off % erase_size) size

/-! ### The caches of the block device (`lfs_bd_read`, `lfs_bd_write`)

`lfs_bd_read` above is the read as the rest of the model sees it, with the
caches coherent with the device.  Here the two caches are explicit: a read
is served from the write cache, from the read cache, or from the device
(`rawread` stands for `lfs_bd_rawread` and gives the code and the bytes that
it stores), and a write goes to the write cache, which is flushed when it is
full (`flush` stands for `lfs_bd_flush`). -/

/-- `lfs_cache_t`; `buffer k` is the byte at index `k` of the buffer. -/
structure lfs_cache_t where
  block : Nat
  offset : Nat
  size : Nat
  buffer : Nat → Nat

/-- The test `block == cache->block && offset < cache->offset + cache->size`
of `lfs_bd_read`. -/
def cache_overlaps (c : lfs_cache_t) (block offset : Nat) : Bool :=
  block = c.block ∧ offset < wrap64 (c.offset + c.size)

/-- The `diff` bytes that `memcpy` takes from the buffer of a cache for
`offset`. -/
def cache_bytes (c : lfs_cache_t) (offset diff : Nat) : List Nat :=
  (List.range diff).map (fun j => c.buffer (sub64 offset c.offset + j))

/-- The buffer after `memcpy(&buffer[index], data, diff)`. -/
def buffer_copy (buffer : Nat → Nat) (index : Nat) (data : List Nat) (diff : Nat) : Nat → Nat :=
  fun k => if index ≤ k ∧ k < index + diff then data.getD (k - index) 0 else buffer k

/-- `diff` in `lfs_bd_read` after the part for the write cache, when the
bytes at `offset` are not in the write cache: `size`, cut at the start of
the write cache when this lies ahead in the same block. -/
def read_diff_write_cache (wc : Option lfs_cache_t) (block offset size : Nat) : Nat :=
  match wc with
  | none => size
  | some w => if cache_overlaps w block offset then lfs_min size (sub64 w.offset offset) else size

/-- `diff` in `lfs_bd_read` after the part for the read cache, when the bytes
at `offset` are in neither cache. -/
def read_diff (wc : Option lfs_cache_t) (rc : lfs_cache_t) (block offset size : Nat) : Nat :=
  if cache_overlaps rc block offset then
    lfs_min (read_diff_write_cache wc block offset size) (sub64 rc.offset offset)
  else read_diff_write_cache wc block offset size

/-- Whether the bytes at `offset` are in the write cache. -/
def in_write_cache (wc : Option lfs_cache_t) (block offset : Nat) : Bool :=
  match wc with
  | none => false
  | some w => cache_overlaps w block offset ∧ offset ≥ w.offset

/-- The write cache when there is one (read only where `in_write_cache`
holds). -/
def the_write_cache (wc : Option lfs_cache_t) : lfs_cache_t :=
  wc.getD ⟨LFS_BLOCK_NULL, 0, 0, fun _ => 0⟩

/-- The loop `while (size > 0)` of `lfs_bd_read`: the code returned, the
bytes stored in the caller's buffer so far, and the read cache. -/
def bd_read_loop (g : Geometry) (read_size cache_size : Nat)
    (rawread : Nat → Nat → Nat → Int × List Nat) (wc : Option lfs_cache_t) (block hint : Nat) :
    Nat → lfs_cache_t → Nat → Nat → List Nat → Option (Int × List Nat × lfs_cache_t)
  | 0, rc, _, size, out => if size > 0 then none else some (LFS_ERR_OK, out, rc)
  | fuel + 1, rc, offset, size, out =>
    if size > 0 then
      if in_write_cache wc block offset then
        bd_read_loop g read_size cache_size rawread wc block hint fuel rc
          (wrap64 (offset + lfs_min size
            (sub64 (the_write_cache wc).size (sub64 offset (the_write_cache wc).offset))))
          (sub64 size (lfs_min size
            (sub64 (the_write_cache wc).size (sub64 offset (the_write_cache wc).offset))))
          (out ++ cache_bytes (the_write_cache wc) offset (lfs_min size
            (sub64 (the_write_cache wc).size (sub64 offset (the_write_cache wc).offset))))
      else if cache_overlaps rc block offset ∧ offset ≥ rc.offset then
        bd_read_loop g read_size cache_size rawread wc block hint fuel rc
          (wrap64 (offset + lfs_min (read_diff_write_cache wc block offset size)
            (sub64 rc.size (sub64 offset rc.offset))))
          (sub64 size (lfs_min (read_diff_write_cache wc block offset size)
            (sub64 rc.size (sub64 offset rc.offset))))
          (out ++ cache_bytes rc offset (lfs_min (read_diff_write_cache wc block offset size)
            (sub64 rc.size (sub64 offset rc.offset))))
      else if size ≥ hint ∧ offset % read_size = 0 ∧ size ≥ read_size then
        if (rawread block offset
            (lfs_aligndown (read_diff wc rc block offset size) read_size)).1 ≠ 0 then
          some ((rawread block offset
            (lfs_aligndown (read_diff wc rc block offset size) read_size)).1, out, rc)
        else
          bd_read_loop g read_size cache_size rawread wc block hint fuel rc
            (wrap64 (offset + lfs_aligndown (read_diff wc rc block offset size) read_size))
            (sub64 size (lfs_aligndown (read_diff wc rc block offset size) read_size))
            (out ++ (rawread block offset
              (lfs_aligndown (read_diff wc rc block offset size) read_size)).2)
      else if (rawread block (lfs_aligndown offset read_size)
          (lfs_min (sub64 (lfs_min (lfs_alignup (wrap64 (offset + hint)) read_size) g.block_size)
            (lfs_aligndown offset read_size)) cache_size)).1 ≠ 0 then
        some ((rawread block (lfs_aligndown offset read_size)
          (lfs_min (sub64 (lfs_min (lfs_alignup (wrap64 (offset + hint)) read_size) g.block_size)
            (lfs_aligndown offset read_size)) cache_size)).1, out,
          { rc with
            block := block,
            offset := lfs_aligndown offset read_size,
            size := lfs_min (sub64 (lfs_min (lfs_alignup (wrap64 (offset + hint)) read_size)
              g.block_size) (lfs_aligndown offset read_size)) cache_size })
      else
        bd_read_loop g read_size cache_size rawread wc block hint fuel
          { block := block,
            offset := lfs_aligndown offset read_size,
            size := lfs_min (sub64 (lfs_min (lfs_alignup (wrap64 (offset + hint)) read_size)
              g.block_size) (lfs_aligndown offset read_size)) cache_size,
            buffer := fun k =>
              (rawread block (lfs_aligndown offset read_size)
                (lfs_min (sub64 (lfs_min (lfs_alignup (wrap64 (offset + hint)) read_size)
                  g.block_size) (lfs_aligndown offset read_size)) cache_size)).2.getD k
                (rc.buffer k) }
          offset size out
    else some (LFS_ERR_OK, out, rc)

/-- `lfs_bd_read(lfs, write_cache, read_cache, hint, block, offset, buffer,
size)` with its caches: the code returned, the bytes stored in `buffer`, and
the read cache; `wc` is `none` for a null `write_cache`. -/
def lfs_bd_read_caches (g : Geometry) (read_size cache_size : Nat)
    (rawread : Nat → Nat → Nat → Int × List Nat) (wc : Option lfs_cache_t) (rc : lfs_cache_t)
    (hint block offset size fuel : Nat) : Option (Int × List Nat × lfs_cache_t) :=
  if block ≥ g.block_count ∨ wrap64 (offset + size) > g.block_size then
    some (LFS_ERR_CORRUPT, [], rc)
  else bd_read_loop g read_size cache_size rawread wc block hint fuel rc offset size []

/-- The loop `while (size > 0)` of `lfs_bd_write`; `s` is what `lfs_bd_flush`
works on besides the write cache (the read cache and the device).  The last
component of the result counts the calls of `lfs_bd_flush`; it is not in the
C code. -/
def bd_write_loop {σ : Type} (cache_size write_size : Nat)
    (flush : lfs_cache_t → σ → Int × lfs_cache_t × σ) (block : Nat) :
    Nat → lfs_cache_t → σ → Nat → List Nat → Nat → Option (Int × lfs_cache_t × σ × Nat)
  | 0, wc, s, _, data, flushes =>
    if data.length > 0 then none else some (LFS_ERR_OK, wc, s, flushes)
  | fuel + 1, wc, s, offset, data, flushes =>
    if data.length > 0 then
      if block = wc.block ∧ offset ≥ wc.offset ∧ offset < wrap64 (wc.offset + cache_size) then
        if lfs_max wc.size (sub64 (wrap64 (offset + lfs_min data.length
              (sub64 cache_size (sub64 offset wc.offset)))) wc.offset) = cache_size then
          if (flush
              { wc with
                buffer := buffer_copy wc.buffer (sub64 offset wc.offset) data
                  (lfs_min data.length (sub64 cache_size (sub64 offset wc.offset))),
                size := lfs_max wc.size (sub64 (wrap64 (offset + lfs_min data.length
                  (sub64 cache_size (sub64 offset wc.offset)))) wc.offset) } s).1 ≠ 0 then
            some ((flush
              { wc with
                buffer := buffer_copy wc.buffer (sub64 offset wc.offset) data
                  (lfs_min data.length (sub64 cache_size (sub64 offset wc.offset))),
                size := lfs_max wc.size (sub64 (wrap64 (offset + lfs_min data.length
                  (sub64 cache_size (sub64 offset wc.offset)))) wc.offset) } s).1,
              (flush
              { wc with
                buffer := buffer_copy wc.buffer (sub64 offset wc.offset) data
                  (lfs_min data.length (sub64 cache_size (sub64 offset wc.offset))),
                size := lfs_max wc.size (sub64 (wrap64 (offset + lfs_min data.length
                  (sub64 cache_size (sub64 offset wc.offset)))) wc.offset) } s).2.1,
              (flush
              { wc with
                buffer := buffer_copy wc.buffer (sub64 offset wc.offset) data
                  (lfs_min data.length (sub64 cache_size (sub64 offset wc.offset))),
                size := lfs_max wc.size (sub64 (wrap64 (offset + lfs_min data.length
                  (sub64 cache_size (sub64 offset wc.offset)))) wc.offset) } s).2.2,
              flushes + 1)
          else
            bd_write_loop cache_size write_size flush block fuel
              (flush
              { wc with
                buffer := buffer_copy wc.buffer (sub64 offset wc.offset) data
                  (lfs_min data.length (sub64 cache_size (sub64 offset wc.offset))),
                size := lfs_max wc.size (sub64 (wrap64 (offset + lfs_min data.length
                  (sub64 cache_size (sub64 offset wc.offset)))) wc.offset) } s).2.1
              (flush
              { wc with
                buffer := buffer_copy wc.buffer (sub64 offset wc.offset) data
                  (lfs_min data.length (sub64 cache_size (sub64 offset wc.offset))),
                size := lfs_max wc.size (sub64 (wrap64 (offset + lfs_min data.length
                  (sub64 cache_size (sub64 offset wc.offset)))) wc.offset) } s).2.2
              (wrap64 (offset + lfs_min data.length
                (sub64 cache_size (sub64 offset wc.offset))))
              (data.drop (lfs_min data.length (sub64 cache_size (sub64 offset wc.offset))))
              (flushes + 1)
        else
          bd_write_loop cache_size write_size flush block fuel
            { wc with
              buffer := buffer_copy wc.buffer (sub64 offset wc.offset) data
                (lfs_min data.length (sub64 cache_size (sub64 offset wc.offset))),
              size := lfs_max wc.size (sub64 (wrap64 (offset + lfs_min data.length
                (sub64 cache_size (sub64 offset wc.offset)))) wc.offset) }
            s
            (wrap64 (offset + lfs_min data.length
              (sub64 cache_size (sub64 offset wc.offset))))
            (data.drop (lfs_min data.length (sub64 cache_size (sub64 offset wc.offset))))
            flushes
      else
        bd_write_loop cache_size write_size flush block fuel
          { wc with block := block, offset := lfs_aligndown offset write_size, size := 0 }
          s offset data flushes
    else some (LFS_ERR_OK, wc, s, flushes)

/-- `lfs_bd_write(lfs, write_cache, read_cache, validate, block, offset,
buffer, size)`: the code returned, the write cache, the rest of the state,
and the number of calls of `lfs_bd_flush`. -/
def lfs_bd_write {σ : Type} (cache_size write_size : Nat)
    (flush : lfs_cache_t → σ → Int × lfs_cache_t × σ) (wc : lfs_cache_t) (s : σ)
    (block offset : Nat) (data : List Nat) (fuel : Nat) : Option (Int × lfs_cache_t × σ × Nat) :=
  bd_write_loop cache_size write_size flush block fuel wc s offset data 0

/-- An example `lfs_bd_flush` that only empties the write cache. -/
def example_cache_flush (wc : lfs_cache_t) (s : Unit) : Int × lfs_cache_t × Unit :=
  (LFS_ERR_OK, { wc with block := LFS_BLOCK_NULL, buffer := fun _ => 0xff }, s)

/-- An example write cache that holds no block. -/
def example_empty_cache : lfs_cache_t := ⟨LFS_BLOCK_NULL, 0, 0, fun _ => 0xff⟩

/-- An example read cache that holds zeros for the bytes 8 to 15 of block
3. -/
def example_stale_cache : lfs_cache_t := ⟨3, 8, 8, fun _ => 0⟩

/-! ### The passes of the first loop of `lfs_dir_commit_crc` -/

/-- The CRC tag that a pass of the first loop of `lfs_dir_commit_crc` builds
for the commit of the state `s`:
`LFS_MKTAG(LFS_TYPE_CRC + reset, 0x3ff, noff - offset)`. -/
def crc_pass_tag (g : Geometry) (end_ : Nat) (s : crc_state) : Nat :=
  LFS_MKTAG (LFS_TYPE_CRC + crc_reset g s.d s.c.block (crc_noff end_ s.c.offset))
    0x3ff (sub64 (crc_noff end_ s.c.offset) (wrap64 (s.c.offset + 4)))

/-- The state after one pass of the first loop of `lfs_dir_commit_crc`
(the body of `commit_crc_loop`). -/
def crc_pass (g : Geometry) (end_ : Nat) (s : crc_state) : crc_state :=
  { d := disk_prog s.d s.c.block s.c.offset
      (lfs_tobe32 (crc_pass_tag g end_ s ^^^ s.c.ptag)
        ++ lfs_tole32 (lfs_crc s.c.crc (lfs_tobe32 (crc_pass_tag g end_ s ^^^ s.c.ptag)))),
    c := { s.c with
      offset := wrap64 (s.c.offset + 4 + lfs_tag_size (crc_pass_tag g end_ s)),
      ptag := crc_pass_tag g end_ s
        ^^^ wrap32 (crc_reset g s.d s.c.block (crc_noff end_ s.c.offset) <<< 31),
      crc := 0xffffffff },
    off1 := if s.off1 = 0 then wrap64 (s.c.offset + 4) else s.off1,
    crc1 := if s.off1 = 0 then
        lfs_crc s.c.crc (lfs_tobe32 (crc_pass_tag g end_ s ^^^ s.c.ptag))
      else s.crc1 }

/-- An example state of the loop of `lfs_dir_commit_crc`: a commit on block
1 that holds the revision count 0 and nothing else, on a device that reads
0x00 everywhere, so that the word after the commit has its leading bit 0. -/
def example_crc_state : crc_state :=
  ⟨fun _ _ => 0, ⟨1, 4, 0xffffffff, lfs_crc 0xffffffff (lfs_tole32 0), 0, 240⟩, 0, 0⟩

/-- The state of the scan of `lfs_dir_fetchmatch` when it has read the
revision count 0 of a block. -/
def example_scan_state : fetch_state :=
  fetch_init 0 0xffffffff 0 ⟨0, 0, 0, 0, 0, false⟩ false

/-! ### Walks along the chain of tails (`lfs_fs_pred`, `lfs_fs_parent`) -/

/-- The loop of `lfs_fs_pred`; `fetch` stands for `lfs_dir_fetch` and gives
the code and the directory fetched from a pair.  The result is the code
returned, `*pdir`, and the value of `cycle`, the number of pairs visited. -/
def fs_pred_loop (g : Geometry) (fetch : Nat → Nat → Int × lfs_metadata_dir_t)
    (pair0 pair1 : Nat) : Nat → Nat → lfs_metadata_dir_t → Option (Int × lfs_metadata_dir_t × Nat)
  | 0, _, _ => none
  | fuel + 1, cycle, pdir =>
    if lfs_pair_isnull pdir.tail0 pdir.tail1 then some (LFS_ERR_NOENT, pdir, cycle)
    else if cycle ≥ g.block_count / 2 then some (LFS_ERR_CORRUPT, pdir, cycle)
    else if lfs_pair_cmp pdir.tail0 pdir.tail1 pair0 pair1 = 0 then
      some (LFS_ERR_OK, pdir, wrap64 (cycle + 1))
    else if (fetch pdir.tail0 pdir.tail1).1 ≠ 0 then
      some ((fetch pdir.tail0 pdir.tail1).1, (fetch pdir.tail0 pdir.tail1).2, wrap64 (cycle + 1))
    else
      fs_pred_loop g fetch pair0 pair1 fuel (wrap64 (cycle + 1)) (fetch pdir.tail0 pdir.tail1).2

/-- `lfs_fs_pred(lfs, pair, pdir)`. -/
def lfs_fs_pred (g : Geometry) (fetch : Nat → Nat → Int × lfs_metadata_dir_t)
    (pair0 pair1 : Nat) (pdir : lfs_metadata_dir_t) (fuel : Nat) :
    Option (Int × lfs_metadata_dir_t × Nat) :=
  fs_pred_loop g fetch pair0 pair1 fuel 0 { pdir with tail0 := 0, tail1 := 1 }

/-- The loop of `lfs_fs_parent`; `fetchmatch` stands for `lfs_dir_fetchmatch`
with the mask, the tag and the callback `lfs_fs_parent_match` for the pair
looked for, and gives the tag or code returned and the directory fetched.
The result is the tag or code returned, `*parent`, and the value of `cycle`,
the number of pairs visited. -/
def fs_parent_loop (g : Geometry) (fetchmatch : Nat → Nat → Int × lfs_metadata_dir_t) :
    Nat → Nat → lfs_metadata_dir_t → Option (Int × lfs_metadata_dir_t × Nat)
  | 0, _, _ => none
  | fuel + 1, cycle, parent =>
    if lfs_pair_isnull parent.tail0 parent.tail1 then some (LFS_ERR_NOENT, parent, cycle)
    else if cycle ≥ g.block_count / 2 then some (LFS_ERR_CORRUPT, parent, cycle)
    else if (fetchmatch parent.tail0 parent.tail1).1 ≠ 0
        ∧ (fetchmatch parent.tail0 parent.tail1).1 ≠ LFS_ERR_NOENT then
      some ((fetchmatch parent.tail0 parent.tail1).1, (fetchmatch parent.tail0 parent.tail1).2,
        wrap64 (cycle + 1))
    else
      fs_parent_loop g fetchmatch fuel (wrap64 (cycle + 1))
        (fetchmatch parent.tail0 parent.tail1).2

/-- `lfs_fs_parent(lfs, pair, parent)`. -/
def lfs_fs_parent (g : Geometry) (fetchmatch : Nat → Nat → Int × lfs_metadata_dir_t)
    (parent : lfs_metadata_dir_t) (fuel : Nat) : Option (Int × lfs_metadata_dir_t × Nat) :=
  fs_parent_loop g fetchmatch fuel 0 { parent with tail0 := 0, tail1 := 1 }

/-- The chain of tails that starts at the pair (0, 1): the pair number
`k + 1` is the tail of the directory that `fetch` gives for the pair number
`k`.  This is the statement's name for the pairs, not code of the
repository. -/
def tail_chain (fetch : Nat → Nat → Int × lfs_metadata_dir_t) : Nat → Nat × Nat
  | 0 => (0, 1)
  | k + 1 =>
    ((fetch (tail_chain fetch k).1 (tail_chain fetch k).2).2.tail0,
      (fetch (tail_chain fetch k).1 (tail_chain fetch k).2).2.tail1)

/-- An example `lfs_dir_fetch` on a device whose pairs all have the pair
(0, 1) as their tail, and no entries: a chain that never ends. -/
def example_cyclic_fetch (_pair0 _pair1 : Nat) : Int × lfs_metadata_dir_t :=
  (0, ⟨0, 1, 1, 4, 0xffffffff, 0, false, false, 0, 1⟩)

/-! ### Extending a CTZ skip list (`lfs_ctz_extend`) -/

/-- The loop `for (idx = 0; idx < noff; idx++)` of `lfs_ctz_extend` that
copies the last block: one byte is read from `(head, idx)` and written to
`(nblock, idx)`; the first argument counts the passes that remain.  The reads
pass no write cache, so they see the device `d` as it was when the loop
started; `w` is the device with the bytes written so far. -/
def ctz_extend_copy (g : Geometry) (d : Disk) (head nblock : Nat) :
    Nat → Nat → Disk → Except Int Disk
  | 0, _, w => .ok w
  | n + 1, idx, w =>
    match lfs_bd_read g d head idx 1 with
    | .error err => .error err
    | .ok data => ctz_extend_copy g d head nblock n (idx + 1) (disk_prog w nblock idx data)

/-- The loop `for (idx = 0; idx < skips; idx++)` of `lfs_ctz_extend` that
writes the pointers of an appended block: `nhead` is written at `8 * idx` of
`nblock`, and unless this was the last pass the next `nhead` is read from
`(nhead, 8 * idx)`; the first argument counts the passes that remain. -/
def ctz_extend_pointers (g : Geometry) (d : Disk) (nblock skips : Nat) :
    Nat → Nat → Nat → Disk → Except Int Disk
  | 0, _, _, w => .ok w
  | n + 1, idx, nhead, w =>
    if idx ≠ skips - 1 then
      match lfs_bd_read g d nhead (8 * idx) 8 with
      | .error err => .error err
      | .ok bytes =>
        ctz_extend_pointers g d nblock skips n (idx + 1) (lfs_fromle64 bytes)
          (disk_prog w nblock (8 * idx) (lfs_tole64 nhead))
    else
      ctz_extend_pointers g d nblock skips n (idx + 1) nhead
        (disk_prog w nblock (8 * idx) (lfs_tole64 nhead))

/-- `lfs_ctz_extend(lfs, ..., head, size, &block, &offset)` when `lfs_alloc`
returned `nblock` and neither the erase nor a write fails: the device as it
is once the write cache is flushed, and the values stored to `*block` and
`*offset`.  `fill` is what the erased block reads as. -/
def lfs_ctz_extend (g : Geometry) (d : Disk) (fill : Nat → Nat) (nblock head size : Nat) :
    Except Int (Disk × Nat × Nat) :=
  if size = 0 then .ok (disk_erase d nblock fill, nblock, 0)
  else
    let noff := wrap64 ((lfs_ctz_index g.block_size (sub64 size 1)).2 + 1)
    if noff ≠ g.block_size then
      (ctz_extend_copy g (disk_erase d nblock fill) head nblock noff 0
        (disk_erase d nblock fill)).map (fun w => (w, nblock, noff))
    else
      let index := wrap64 (ofInt64 (lfs_ctz_index g.block_size (sub64 size 1)).1 + 1)
      let skips := lfs_ctz64 index + 1
      (ctz_extend_pointers g (disk_erase d nblock fill) nblock skips skips 0 head
        (disk_erase d nblock fill)).map (fun w => (w, nblock, wrap64 (8 * skips)))

/-- What a caller sees of a result of `lfs_ctz_extend`: the code returned,
the block, the offset, and the first `count` eight-byte words of the block on
the device. -/
def ctz_extend_view (count : Nat) (r : Except Int (Disk × Nat × Nat)) :
    Int × Nat × Nat × List Nat :=
  match r with
  | .error err => (err, 0, 0, [])
  | .ok x => (LFS_ERR_OK, x.2.1, x.2.2,
      (List.range count).map (fun k =>
        lfs_fromle64 ((List.range 8).map (fun j => x.1 x.2.1 (8 * k + j)))))

/-! ### The search for the superblock in `lfs_raw_mount`

`fetch l tail0 tail1` stands for `lfs_dir_fetchmatch(lfs, &dir, dir.tail,
..., lfs_dir_find_match, "littlefs")` run with the block size and the block
count of `l`: the tag returned and `dir`.  `get l dir` stands for
`lfs_dir_get` of the inline struct of id 0 followed by
`lfs_superblock_fromle64`, and `getgstate l dir gstate` for
`lfs_dir_getgstate`: the code returned and what is stored. -/

theorem land_split_pow (k a b : Nat) :
    a &&& b = ((a % 2 ^ k) &&& (b % 2 ^ k)) + 2 ^ k * ((a / 2 ^ k) &&& (b / 2 ^ k)) := by
  have hlt : (a % 2 ^ k) &&& (b % 2 ^ k) < 2 ^ k :=
    Nat.and_lt_two_pow _ (Nat.mod_lt _ (by positivity))
  apply Nat.eq_of_testBit_eq
  intro j
  rw [Nat.add_comm, Nat.testBit_mul_pow_two_add _ hlt]
  by_cases hj : j < k
  · simp [hj, Nat.testBit_and, Nat.testBit_mod_two_pow]
  · simp only [hj, if_false, Nat.testBit_and]
    have e : ∀ x : Nat, (x / 2 ^ k).testBit (j - k) = x.testBit j := by
      intro x
      rw [← Nat.shiftRight_eq_div_pow, Nat.testBit_shiftRight]
      congr 1; omega
    rw [e, e]

theorem land_split256 (a b : Nat) :
    a &&& b = ((a % 256) &&& (b % 256)) + 256 * ((a / 256) &&& (b / 256)) :=
  land_split_pow 8 a b


/-! ### The branch-free population count -/

theorem bytewise_lt (f : Nat → Nat) (hf : ∀ x, x < 256 → f x < 256) :
    ∀ n v, bytewise f n v < 256 ^ n
  | 0, _ => by simp [bytewise]
  | n + 1, v => by
    have h1 := hf (v % 256) (Nat.mod_lt _ (by norm_num))
    have h2 := bytewise_lt f hf n (v / 256)
    simp only [bytewise, pow_succ]
    omega

theorem bytewise_comp (f g : Nat → Nat) (hf : ∀ x, x < 256 → f x < 256) :
    ∀ n v, bytewise g n (bytewise f n v) = bytewise (fun x => g (f x)) n v
  | 0, _ => by simp [bytewise]
  | n + 1, v => by
    have h1 := hf (v % 256) (Nat.mod_lt _ (by norm_num))
    have ih := bytewise_comp f g hf n (v / 256)
    simp only [bytewise]
    have e1 : (f (v % 256) + 256 * bytewise f n (v / 256)) % 256 = f (v % 256) := by omega
    have e2 : (f (v % 256) + 256 * bytewise f n (v / 256)) / 256 = bytewise f n (v / 256) := by
      omega
    rw [e1, e2, ih]

set_option maxRecDepth 100000 in
theorem popStep1_byte : ∀ x : Nat, x < 256 → ∀ y : Nat, y < 2 →
    ((x >>> 1) + 128 * y) &&& 0x55 = (x >>> 1) &&& 0x55 := by
  decide

set_option maxRecDepth 100000 in
theorem popStep2_byte : ∀ x : Nat, x < 256 → ∀ y : Nat, y < 4 →
    ((x >>> 2) + 64 * y) &&& 0x33 = (x >>> 2) &&& 0x33 := by
  decide

set_option maxRecDepth 100000 in
theorem popStep3_byte : ∀ x : Nat, x < 256 → ∀ y : Nat, y < 8 →
    (x + x / 16 + 16 * y) &&& 0x0F = (x + (x >>> 4)) &&& 0x0F := by
  decide

set_option maxRecDepth 100000 in
theorem popStep1_lt : ∀ x : Nat, x < 256 → popStep1 x < 256 := by
  decide

set_option maxRecDepth 100000 in
theorem popStep21_nibbles : ∀ x : Nat, x < 256 →
    popStep2 (popStep1 x) % 16 ≤ 7 ∧ popStep2 (popStep1 x) / 16 ≤ 7 := by
  decide

set_option maxRecDepth 100000 in
theorem popByte_eq_bitCount : ∀ x : Nat, x < 256 → popByte x = bitCount 8 x := by
  decide

set_option maxRecDepth 100000 in
theorem popByte_le : ∀ x : Nat, x < 256 → popByte x ≤ 8 := by
  decide

theorem popStage1 : ∀ n v, v < 256 ^ n →
    v - ((v >>> 1) &&& repByte 0x55 n) = bytewise popStep1 n v
  | 0, v, h => by simp at h; simp [bytewise, h]
  | n + 1, v, h => by
    have ih := popStage1 n (v / 256) (by rw [pow_succ] at h; omega)
    simp only [bytewise, repByte]
    rw [land_split256 (v >>> 1)]
    have e1 : (v >>> 1) / 256 = (v / 256) >>> 1 := by
      simp only [Nat.shiftRight_eq_div_pow]; omega
    have e2 : (0x55 + 256 * repByte 0x55 n) % 256 = 0x55 := by omega
    have e3 : (0x55 + 256 * repByte 0x55 n) / 256 = repByte 0x55 n := by omega
    rw [e1, e2, e3, ← ih]
    have e4 : ((v >>> 1) % 256) &&& 0x55 = ((v % 256) >>> 1) &&& 0x55 := by
      have : (v >>> 1) % 256 = ((v % 256) >>> 1) + 128 * ((v / 256) % 2) := by
        simp only [Nat.shiftRight_eq_div_pow]; omega
      rw [this]
      exact popStep1_byte _ (Nat.mod_lt _ (by norm_num)) _ (Nat.mod_lt _ (by norm_num))
    rw [e4]
    have l1 : ((v % 256) >>> 1) &&& 0x55 ≤ v % 256 := by
      have := @Nat.and_le_left ((v % 256) >>> 1) 0x55
      have : (v % 256) >>> 1 ≤ v % 256 := by
        simp only [Nat.shiftRight_eq_div_pow]; omega
      omega
    have l2 : ((v / 256) >>> 1) &&& repByte 0x55 n ≤ v / 256 := by
      have := @Nat.and_le_left ((v / 256) >>> 1) (repByte 0x55 n)
      have : (v / 256) >>> 1 ≤ v / 256 := by
        simp only [Nat.shiftRight_eq_div_pow]; omega
      omega
    simp only [popStep1]
    omega

theorem popStage2 : ∀ n v,
    (v &&& repByte 0x33 n) + ((v >>> 2) &&& repByte 0x33 n) = bytewise popStep2 n (v % 256 ^ n)
  | 0, v => by simp [bytewise, repByte]
  | n + 1, v => by
    have ih := popStage2 n (v / 256)
    simp only [bytewise, repByte]
    rw [land_split256 (v >>> 2), land_split256 v]
    have e1 : (v >>> 2) / 256 = (v / 256) >>> 2 := by
      simp only [Nat.shiftRight_eq_div_pow]; omega
    have e2 : (0x33 + 256 * repByte 0x33 n) % 256 = 0x33 := by omega
    have e3 : (0x33 + 256 * repByte 0x33 n) / 256 = repByte 0x33 n := by omega
    have e4 : ((v >>> 2) % 256) &&& 0x33 = ((v % 256) >>> 2) &&& 0x33 := by
      have : (v >>> 2) % 256 = ((v % 256) >>> 2) + 64 * ((v / 256) % 4) := by
        simp only [Nat.shiftRight_eq_div_pow]; omega
      rw [this]
      exact popStep2_byte _ (Nat.mod_lt _ (by norm_num)) _ (Nat.mod_lt _ (by norm_num))
    have e5 : v % 256 ^ (n + 1) % 256 = v % 256 := by
      rw [pow_succ, Nat.mod_mul_left_mod]
    have e6 : v % 256 ^ (n + 1) / 256 = (v / 256) % 256 ^ n := by
      rw [pow_succ, Nat.mul_comm, Nat.mod_mul_right_div_self]
    rw [e1, e2, e3, e4, e5, e6, ← ih]
    simp only [popStep2]
    omega

theorem bytewise_mod16 (g : Nat → Nat) (hg : ∀ x, x < 256 → g x % 16 ≤ 7) :
    ∀ n v, bytewise g n v % 16 ≤ 7
  | 0, _ => by simp [bytewise]
  | n + 1, v => by
    have := hg (v % 256) (Nat.mod_lt _ (by norm_num))
    simp only [bytewise]
    omega

theorem popStage3 (g : Nat → Nat) (hg : ∀ x, x < 256 → g x % 16 ≤ 7 ∧ g x / 16 ≤ 7) :
    ∀ n v, (bytewise g n v + (bytewise g n v >>> 4)) &&& repByte 0x0F n
      = bytewise (fun x => popStep3 (g x)) n v
  | 0, v => by simp [bytewise, repByte]
  | n + 1, v => by
    have ih := popStage3 g hg n (v / 256)
    have hlo := hg (v % 256) (Nat.mod_lt _ (by norm_num))
    have hhi := bytewise_mod16 g (fun x hx => (hg x hx).1) n (v / 256)
    simp only [bytewise, repByte]
    generalize g (v % 256) = lo at hlo ⊢
    generalize bytewise g n (v / 256) = hi at ih hhi ⊢
    rw [land_split256]
    have e2 : (0x0F + 256 * repByte 0x0F n) % 256 = 0x0F := by omega
    have e3 : (0x0F + 256 * repByte 0x0F n) / 256 = repByte 0x0F n := by omega
    have e4 : (lo + 256 * hi + (lo + 256 * hi) >>> 4) % 256
        = lo + lo / 16 + 16 * (hi % 16) := by
      simp only [Nat.shiftRight_eq_div_pow]; omega
    have e5 : (lo + 256 * hi + (lo + 256 * hi) >>> 4) / 256 = hi + hi >>> 4 := by
      simp only [Nat.shiftRight_eq_div_pow]; omega
    rw [e2, e3, e4, e5, ih, popStep3_byte lo (by omega) (hi % 16) (by omega)]
    simp only [popStep3]

theorem popFinalSum (c0 c1 c2 c3 c4 c5 c6 c7 : Nat)
    (h0 : c0 ≤ 8) (h1 : c1 ≤ 8) (h2 : c2 ≤ 8) (h3 : c3 ≤ 8)
    (h4 : c4 ≤ 8) (h5 : c5 ≤ 8) (h6 : c6 ≤ 8) (h7 : c7 ≤ 8) :
    (((c0 + 256 * (c1 + 256 * (c2 + 256 * (c3 + 256 * (c4 + 256 * (c5 + 256 * (c6 + 256 * c7)))))))
      * 72340172838076673) % 18446744073709551616) / 72057594037927936
      = c0 + c1 + c2 + c3 + c4 + c5 + c6 + c7 := by
  have key : (c0 + 256 * (c1 + 256 * (c2 + 256 * (c3 + 256 * (c4 + 256 * (c5 + 256 * (c6 + 256 * c7)))))))
      * 72340172838076673
      = (1 * (c0) + 256 * (c0 + c1) + 65536 * (c0 + c1 + c2) + 16777216 * (c0 + c1 + c2 + c3) + 4294967296 * (c0 + c1 + c2 + c3 + c4) + 1099511627776 * (c0 + c1 + c2 + c3 + c4 + c5) + 281474976710656 * (c0 + c1 + c2 + c3 + c4 + c5 + c6) + 72057594037927936 * (c0 + c1 + c2 + c3 + c4 + c5 + c6 + c7)) + 18446744073709551616 * (c1 * 1 + c2 * 257 + c3 * 65793 + c4 * 16843009 + c5 * 4311810305 + c6 * 1103823438081 + c7 * 282578800148737) := by
    ring
  rw [key, Nat.add_mul_mod_self_left]
  generalize hL : 1 * (c0) + 256 * (c0 + c1) + 65536 * (c0 + c1 + c2) + 16777216 * (c0 + c1 + c2 + c3) + 4294967296 * (c0 + c1 + c2 + c3 + c4) + 1099511627776 * (c0 + c1 + c2 + c3 + c4 + c5) + 281474976710656 * (c0 + c1 + c2 + c3 + c4 + c5 + c6) = low
  have hlow : low < 72057594037927936 := by omega
  have hs : c0 + c1 + c2 + c3 + c4 + c5 + c6 + c7 ≤ 64 := by omega
  clear hL key
  generalize c0 + c1 + c2 + c3 + c4 + c5 + c6 + c7 = s at hs ⊢
  clear h0 h1 h2 h3 h4 h5 h6 h7
  omega

theorem bitCount_add (a : Nat) : ∀ b v, bitCount (b + a) v = bitCount b v + bitCount a (v / 2 ^ b)
  | 0, v => by simp [bitCount]
  | b + 1, v => by
    have ih := bitCount_add a b (v / 2)
    have e : b + 1 + a = (b + a) + 1 := by omega
    rw [e]
    simp only [bitCount]
    rw [ih, Nat.div_div_eq_div_mul, pow_succ, Nat.mul_comm 2]
    omega

theorem bitCount_mod : ∀ f v, bitCount f (v % 2 ^ f) = bitCount f v
  | 0, v => by simp [bitCount]
  | f + 1, v => by
    have ih := bitCount_mod f (v / 2)
    simp only [bitCount]
    have e1 : v % 2 ^ (f + 1) % 2 = v % 2 := by
      rw [pow_succ, Nat.mod_mul_left_mod]
    have e2 : v % 2 ^ (f + 1) / 2 = (v / 2) % 2 ^ f := by
      rw [pow_succ, Nat.mod_mul_left_div_self]
    rw [e1, e2, ih]

theorem bitCount_byteSum : ∀ n v, bitCount (8 * n) v = byteSum popByte n v
  | 0, v => by simp [bitCount, byteSum]
  | n + 1, v => by
    have ih := bitCount_byteSum n (v / 256)
    have e : 8 * (n + 1) = 8 + 8 * n := by ring
    rw [e, bitCount_add]
    simp only [byteSum]
    have e8 : (2 : Nat) ^ 8 = 256 := by norm_num
    rw [← bitCount_mod 8 v, e8, popByte_eq_bitCount _ (Nat.mod_lt _ (by norm_num)), ih]

/-- The header's population count computes the number of one bits. -/
theorem lfs_popc64_eq_bitCount (V : Nat) (hV : V < 18446744073709551616) :
    lfs_popc64 V = bitCount 64 V := by
  have m1 : (0x5555555555555555 : Nat) = repByte 0x55 8 := by decide
  have m2 : (0x3333333333333333 : Nat) = repByte 0x33 8 := by decide
  have m4 : (0x0F0F0F0F0F0F0F0F : Nat) = repByte 0x0F 8 := by decide
  have p8 : (256 : Nat) ^ 8 = 18446744073709551616 := by norm_num
  have hV8 : V < 256 ^ 8 := by rw [p8]; exact hV
  have s1 := popStage1 8 V hV8
  have b1 := bytewise_lt popStep1 popStep1_lt 8 V
  have hX : (V >>> 1) &&& repByte 0x55 8 ≤ V := by
    have := @Nat.and_le_left (V >>> 1) (repByte 0x55 8)
    have : V >>> 1 ≤ V := by simp only [Nat.shiftRight_eq_div_pow]; omega
    omega
  have hV1 : sub64 V ((V >>> 1) &&& 0x5555555555555555) = bytewise popStep1 8 V := by
    rw [m1, ← s1]
    unfold sub64
    omega
  have s2 := popStage2 8 (bytewise popStep1 8 V)
  rw [Nat.mod_eq_of_lt b1, bytewise_comp popStep1 popStep2 popStep1_lt] at s2
  have g2 : ∀ x, x < 256 → (fun x => popStep2 (popStep1 x)) x < 256 := by
    intro x hx
    have := popStep21_nibbles x hx
    simp only
    omega
  have b2 := bytewise_lt _ g2 8 V
  have hV2 : wrap64 ((bytewise popStep1 8 V &&& 0x3333333333333333)
      + ((bytewise popStep1 8 V >>> 2) &&& 0x3333333333333333))
      = bytewise (fun x => popStep2 (popStep1 x)) 8 V := by
    rw [m2, s2]
    unfold wrap64
    rw [p8] at b2
    exact Nat.mod_eq_of_lt b2
  have s3 := popStage3 (fun x => popStep2 (popStep1 x)) popStep21_nibbles 8 V
  have b3 : bytewise (fun x => popStep2 (popStep1 x)) 8 V
      + (bytewise (fun x => popStep2 (popStep1 x)) 8 V >>> 4) < 18446744073709551616 := by
    have hm := bytewise_mod16 (fun x => popStep2 (popStep1 x))
      (fun x hx => (popStep21_nibbles x hx).1) 8 V
    have hh : ∀ x, x < 256 → (fun x => popStep2 (popStep1 x)) x < 128 := by
      intro x hx
      have := popStep21_nibbles x hx
      simp only
      omega
    have : bytewise (fun x => popStep2 (popStep1 x)) 8 V < 128 * 256 ^ 7 := by
      simp only [bytewise]
      have a0 := hh (V % 256) (Nat.mod_lt _ (by norm_num))
      have a1 := hh (V / 256 % 256) (Nat.mod_lt _ (by norm_num))
      have a2 := hh (V / 256 / 256 % 256) (Nat.mod_lt _ (by norm_num))
      have a3 := hh (V / 256 / 256 / 256 % 256) (Nat.mod_lt _ (by norm_num))
      have a4 := hh (V / 256 / 256 / 256 / 256 % 256) (Nat.mod_lt _ (by norm_num))
      have a5 := hh (V / 256 / 256 / 256 / 256 / 256 % 256) (Nat.mod_lt _ (by norm_num))
      have a6 := hh (V / 256 / 256 / 256 / 256 / 256 / 256 % 256) (Nat.mod_lt _ (by norm_num))
      have a7 := hh (V / 256 / 256 / 256 / 256 / 256 / 256 / 256 % 256)
        (Nat.mod_lt _ (by norm_num))
      simp only at a0 a1 a2 a3 a4 a5 a6 a7
      norm_num
      omega
    simp only [Nat.shiftRight_eq_div_pow]
    norm_num at this ⊢
    omega
  unfold lfs_popc64
  simp only [hV1, hV2]
  have hV3 : wrap64 (bytewise (fun x => popStep2 (popStep1 x)) 8 V
      + (bytewise (fun x => popStep2 (popStep1 x)) 8 V >>> 4)) &&& 0x0F0F0F0F0F0F0F0F
      = bytewise popByte 8 V := by
    unfold wrap64
    rw [Nat.mod_eq_of_lt b3, m4, s3]
    rfl
  rw [hV3]
  have e64 : 64 = 8 * 8 := by norm_num
  rw [e64, bitCount_byteSum]
  simp only [bytewise, byteSum, wrap64, Nat.shiftRight_eq_div_pow]
  have a0 := popByte_le (V % 256) (Nat.mod_lt _ (by norm_num))
  have a1 := popByte_le (V / 256 % 256) (Nat.mod_lt _ (by norm_num))
  have a2 := popByte_le (V / 256 / 256 % 256) (Nat.mod_lt _ (by norm_num))
  have a3 := popByte_le (V / 256 / 256 / 256 % 256) (Nat.mod_lt _ (by norm_num))
  have a4 := popByte_le (V / 256 / 256 / 256 / 256 % 256) (Nat.mod_lt _ (by norm_num))
  have a5 := popByte_le (V / 256 / 256 / 256 / 256 / 256 % 256) (Nat.mod_lt _ (by norm_num))
  have a6 := popByte_le (V / 256 / 256 / 256 / 256 / 256 / 256 % 256)
    (Nat.mod_lt _ (by norm_num))
  have a7 := popByte_le (V / 256 / 256 / 256 / 256 / 256 / 256 / 256 % 256)
    (Nat.mod_lt _ (by norm_num))
  have := popFinalSum _ _ _ _ _ _ _ _ a0 a1 a2 a3 a4 a5 a6 a7
  norm_num at this ⊢
  omega


/-! ### Trailing zeros and the index arithmetic -/

theorem land_one_shl (a r : Nat) : a &&& (1 <<< r) = 2 ^ r * ((a / 2 ^ r) % 2) := by
  rw [Nat.one_shiftLeft, land_split_pow r a (2 ^ r)]
  have h1 : 2 ^ r % 2 ^ r = 0 := Nat.mod_self _
  have h2 : 2 ^ r / 2 ^ r = 1 := Nat.div_self (by positivity)
  rw [h1, h2, Nat.and_zero, Nat.and_one_is_mod, Nat.zero_add]

theorem lfs_ctz64_loop_eq (a : Nat) : ∀ fuel r, 0 < a / 2 ^ r → a / 2 ^ r < 2 ^ fuel →
    lfs_ctz64_loop a fuel r = r + trailingZeros fuel (a / 2 ^ r)
  | 0, r, h0, h1 => by simp at h1; omega
  | fuel + 1, r, h0, h1 => by
    simp only [lfs_ctz64_loop, trailingZeros, land_one_shl]
    have hpos : 0 < 2 ^ r := by positivity
    by_cases hb : (a / 2 ^ r) % 2 = 1
    · have : 2 ^ r * (a / 2 ^ r % 2) ≠ 0 := by
        rw [hb]; omega
      simp [this, hb]
    · have hz : (a / 2 ^ r) % 2 = 0 := by omega
      have : ¬ (2 ^ r * (a / 2 ^ r % 2) ≠ 0) := by
        rw [hz]; simp
      rw [if_neg this, if_neg hb]
      have e : a / 2 ^ (r + 1) = a / 2 ^ r / 2 := by
        rw [pow_succ, Nat.div_div_eq_div_mul]
      have ih := lfs_ctz64_loop_eq a fuel (r + 1) (by rw [e]; omega)
        (by rw [e]; rw [pow_succ] at h1; omega)
      rw [ih, e]
      omega

theorem lfs_ctz64_eq (a : Nat) (h0 : 0 < a) (h1 : a < 18446744073709551616) :
    lfs_ctz64 a = trailingZeros 64 a := by
  have := lfs_ctz64_loop_eq a 64 0 (by simpa using h0) (by norm_num; exact h1)
  simpa [lfs_ctz64] using this

theorem bitCount_zero : ∀ f, bitCount f 0 = 0
  | 0 => rfl
  | f + 1 => by simp [bitCount, bitCount_zero f]

theorem bitCount_le : ∀ f k n, n < 2 ^ k → bitCount f n ≤ k
  | 0, _, _, _ => by simp [bitCount]
  | f + 1, 0, n, h => by
    have : n = 0 := by simpa using h
    subst this
    simp [bitCount_zero]
  | f + 1, k + 1, n, h => by
    have ih := bitCount_le f k (n / 2) (by rw [pow_succ] at h; omega)
    simp only [bitCount]
    omega

theorem bitCount_pred : ∀ f i, 0 < i → i < 2 ^ f →
    bitCount f (i - 1) + 1 = bitCount f i + trailingZeros f i
  | 0, i, h0, h1 => by simp at h1; omega
  | f + 1, i, h0, h1 => by
    simp only [bitCount, trailingZeros]
    by_cases hb : i % 2 = 1
    · have e1 : (i - 1) % 2 = 0 := by omega
      have e2 : (i - 1) / 2 = i / 2 := by omega
      rw [e1, e2, if_pos hb, hb]
      omega
    · have e1 : (i - 1) % 2 = 1 := by omega
      have e2 : (i - 1) / 2 = i / 2 - 1 := by omega
      have ih := bitCount_pred f (i / 2) (by omega) (by rw [pow_succ] at h1; omega)
      rw [e1, e2, if_neg hb]
      omega

/-- Inside the range where every intermediate fits (the quotient
`p / (block_size - 16)` below `2 ^ k` with `k ≤ 31`, and `k + 2` pointer words
of slack in a block), `lfs_ctz_index` returns the block index `i` and the
in-block offset `off` of byte `p`: `p = (B - 16) * i + 8 * popcount i + off`,
`off < B`, and `off` lies behind the `ctz(i) + 1` pointers of block `i`. -/
theorem lfs_ctz_index_spec (B p k : Nat) (hB : 16 < B) (hB64 : B < 18446744073709551616)
    (hp : p < 18446744073709551616) (hk : p / (B - 16) < 2 ^ k) (hk31 : k ≤ 31)
    (hfit : 8 * (k + 2) ≤ B - 16) :
    ∃ i off : Nat, lfs_ctz_index B p = ((i : Int), off)
      ∧ p = (B - 16) * i + 8 * lfs_popc64 i + off
      ∧ (i = 0 → off < B)
      ∧ (0 < i → 8 * (lfs_ctz64 i + 1) ≤ off ∧ off < B) := by
  have hb : sub64 B 16 = B - 16 := by unfold sub64; omega
  generalize hbdef : B - 16 = b at *
  have hbpos : 0 < b := by omega
  have hk2 : (2 : Nat) ^ k ≤ 2 ^ 31 := Nat.pow_le_pow_right (by norm_num) hk31
  have h231 : (2 : Nat) ^ 31 = 2147483648 := by norm_num
  have h264 : (2 : Nat) ^ 64 = 18446744073709551616 := by norm_num
  have hdm := Nat.div_add_mod p b
  have hmod := Nat.mod_lt p hbpos
  generalize hi0 : p / b = i0 at *
  have unfold_eq : lfs_ctz_index B p =
      if i0 = 0 then (0, p)
      else (toInt32 (sub64 p (wrap64 (8 * (lfs_popc64 (sub64 i0 1) + 2))) / b),
        sub64 (sub64 p (wrap64 (b * (sub64 p (wrap64 (8 * (lfs_popc64 (sub64 i0 1) + 2))) / b))))
          (wrap64 (8 * lfs_popc64 (sub64 p (wrap64 (8 * (lfs_popc64 (sub64 i0 1) + 2))) / b)))) := by
    unfold lfs_ctz_index
    simp only [hb, hi0]
  rw [unfold_eq]
  by_cases hz : i0 = 0
  · refine ⟨0, p, ?_, ?_, ?_, ?_⟩
    · simp [hz]
    · have : lfs_popc64 0 = 0 := by decide
      rw [this]; omega
    · intro _; subst hz; omega
    · intro h; omega
  · rw [if_neg hz]
    have hi0pos : 0 < i0 := Nat.pos_of_ne_zero hz
    have hs1 : sub64 i0 1 = i0 - 1 := by unfold sub64; omega
    have hi0lt : i0 - 1 < 18446744073709551616 := by omega
    have hP1 : lfs_popc64 (i0 - 1) = bitCount 64 (i0 - 1) := lfs_popc64_eq_bitCount _ hi0lt
    have hP1le : bitCount 64 (i0 - 1) ≤ k := bitCount_le 64 k (i0 - 1) (by omega)
    rw [hs1, hP1]
    generalize hP1g : bitCount 64 (i0 - 1) = P1 at *
    have hw1 : wrap64 (8 * (P1 + 2)) = 8 * (P1 + 2) := by unfold wrap64; omega
    have hbi0 : b * i0 ≤ p := by omega
    have hble : b ≤ b * i0 := Nat.le_mul_of_pos_right b hi0pos
    have hq : sub64 p (8 * (P1 + 2)) = p - 8 * (P1 + 2) := by unfold sub64; omega
    rw [hw1, hq]
    have hdm2 := Nat.div_add_mod (p - 8 * (P1 + 2)) b
    have hmod2 := Nat.mod_lt (p - 8 * (P1 + 2)) hbpos
    generalize hi : (p - 8 * (P1 + 2)) / b = i at *
    -- the candidate index is `i0` or `i0 - 1`
    have hile : i ≤ i0 := by
      by_contra hcon
      have : b * (i0 + 1) ≤ b * i := Nat.mul_le_mul_left b (by omega)
      rw [Nat.mul_succ] at this
      omega
    have hige : i0 ≤ i + 1 := by
      by_contra hcon
      have : b * (i + 2) ≤ b * i0 := Nat.mul_le_mul_left b (by omega)
      have e : b * (i + 2) = b * i + 2 * b := by ring
      omega
    have hilt : i < 18446744073709551616 := by omega
    have hPi : lfs_popc64 i = bitCount 64 i := lfs_popc64_eq_bitCount _ hilt
    have hPile : bitCount 64 i ≤ k := bitCount_le 64 k i (by omega)
    have hti : toInt32 i = (i : Int) := by
      unfold toInt32
      have : i % 4294967296 = i := Nat.mod_eq_of_lt (by omega)
      rw [this, if_pos (by omega)]
    have hid : 0 < i → bitCount 64 (i - 1) + 1 = bitCount 64 i + lfs_ctz64 i := by
      intro hpos
      rw [lfs_ctz64_eq i hpos hilt]
      exact bitCount_pred 64 i hpos (by rw [h264]; exact hilt)
    have hbi : b * i ≤ p := by omega
    have hw2 : wrap64 (b * i) = b * i := by unfold wrap64; omega
    have hw3 : wrap64 (8 * lfs_popc64 i) = 8 * lfs_popc64 i := by
      unfold wrap64; rw [hPi]; omega
    rw [hti, hw2, hw3, hPi]
    have hs2 : sub64 p (b * i) = p - b * i := by unfold sub64; omega
    rw [hs2]
    rcases Nat.lt_or_ge i i0 with hlt | hge
    · -- `i + 1 = i0`
      have hi1 : i0 = i + 1 := by omega
      subst hi1
      have hmul : b * (i + 1) = b * i + b := Nat.mul_succ b i
      have hP1i : P1 = bitCount 64 i := by
        rw [← hP1g]; simp
      have hlow : 8 * bitCount 64 i ≤ p - b * i := by omega
      have hs3 : sub64 (p - b * i) (8 * bitCount 64 i) = p - b * i - 8 * bitCount 64 i := by
        unfold sub64; omega
      refine ⟨i, p - b * i - 8 * bitCount 64 i, by rw [hs3], by omega, ?_, ?_⟩
      · intro _; omega
      · intro hpos
        have hidp := hid hpos
        have := bitCount_le 64 k (i - 1) (by omega)
        omega
    · -- `i = i0`
      have hi1 : i = i0 := by omega
      subst hi1
      have hidp := hid hi0pos
      rw [hP1g] at hidp
      have hlow : 8 * bitCount 64 i ≤ p - b * i := by omega
      have hs3 : sub64 (p - b * i) (8 * bitCount 64 i) = p - b * i - 8 * bitCount 64 i := by
        unfold sub64; omega
      refine ⟨i, p - b * i - 8 * bitCount 64 i, by rw [hs3], by omega, ?_, ?_⟩
      · intro h0; omega
      · intro _; omega


/-! ### `lfs_ctz_find`: the backward walk -/

theorem bitLength_le : ∀ f d, bitLength f d ≤ f
  | 0, _ => by simp [bitLength]
  | f + 1, d => by
    have := bitLength_le f (d / 2)
    simp only [bitLength]
    split <;> omega

theorem bitLength_spec : ∀ f d, 0 < d → d < 2 ^ f →
    1 ≤ bitLength f d ∧ 2 ^ (bitLength f d - 1) ≤ d
  | 0, d, h0, h1 => by simp at h1; omega
  | f + 1, d, h0, h1 => by
    simp only [bitLength]
    rw [if_neg (by omega)]
    refine ⟨by omega, ?_⟩
    by_cases hd : d / 2 = 0
    · have : bitLength f (d / 2) = 0 := by
        rw [hd]; cases f <;> simp [bitLength]
      rw [this]; simpa using h0
    · have ih := bitLength_spec f (d / 2) (by omega) (by rw [pow_succ] at h1; omega)
      have e : 1 + bitLength f (d / 2) - 1 = (bitLength f (d / 2) - 1) + 1 := by omega
      rw [e, pow_succ]
      omega

theorem ctz_find_skip_spec (current target : Nat) (h : target < current)
    (hc : current < 18446744073709551616) :
    ctz_find_skip current target ≤ lfs_ctz64 current
      ∧ 2 ^ ctz_find_skip current target ≤ current - target := by
  have hd : sub64 current target = current - target := by unfold sub64; omega
  have hs : sub64 (wrap64 (current - target + 1)) 1 = current - target := by
    unfold sub64 wrap64; omega
  have hne : wrap64 (current - target + 1) ≠ 1 := by unfold wrap64; omega
  have hbl := bitLength_spec 64 (current - target) (by omega) (by norm_num; omega)
  have hble := bitLength_le 64 (current - target)
  have hn : lfs_npw2_64 (wrap64 (current - target + 1)) = bitLength 64 (current - target) := by
    unfold lfs_npw2_64 builtin_clzll
    rw [if_neg hne, hs]
    omega
  have hm : sub64 (bitLength 64 (current - target)) 1 = bitLength 64 (current - target) - 1 := by
    unfold sub64; omega
  unfold ctz_find_skip
  rw [hd, hn, hm]
  unfold lfs_min
  constructor
  · split <;> omega
  · split
    · exact hbl.2
    · exact le_trans (Nat.pow_le_pow_right (by norm_num) (by omega)) hbl.2

theorem lfs_ctz_find_loop_spec (g : Geometry) (d : Disk) (addr : Nat → Nat) (target : Nat) :
    ∀ fuel current, target ≤ current → current < 18446744073709551616 →
      current - target ≤ fuel →
      (∀ n, target < n → n ≤ current → ∀ k, k ≤ lfs_ctz64 n →
        (lfs_bd_read g d (addr n) (8 * k) 8).map lfs_fromle64 = .ok (addr (n - 2 ^ k))) →
      lfs_ctz_find_loop g d target fuel (addr current) current = .done (addr target)
  | 0, current, h1, _, h3, _ => by
    have : current = target := by omega
    subst this
    unfold lfs_ctz_find_loop
    simp
  | fuel + 1, current, h1, h2, h3, hwf => by
    unfold lfs_ctz_find_loop
    by_cases hgt : current > target
    · rw [if_pos hgt]
      have hs := ctz_find_skip_spec current target hgt h2
      simp only
      generalize ctz_find_skip current target = skip at hs
      have hk64 : skip < 64 := by
        by_contra hcon
        have : (2 : Nat) ^ 64 ≤ 2 ^ skip := Nat.pow_le_pow_right (by norm_num) (by omega)
        norm_num at this
        omega
      have hw8 : wrap64 (8 * skip) = 8 * skip := by unfold wrap64; omega
      have hp2 : 2 ^ skip < 18446744073709551616 := lt_of_le_of_lt hs.2 (by omega)
      have hsh : wrap64 (1 <<< skip) = 2 ^ skip := by
        rw [Nat.one_shiftLeft]; unfold wrap64; exact Nat.mod_eq_of_lt hp2
      have hsub : sub64 current (2 ^ skip) = current - 2 ^ skip := by unfold sub64; omega
      have hrd := hwf current hgt (le_refl _) skip hs.1
      rw [hw8, hsh, hsub]
      cases hr : lfs_bd_read g d (addr current) (8 * skip) 8 with
      | error e => rw [hr] at hrd; simp [Except.map] at hrd
      | ok bytes =>
        rw [hr] at hrd
        simp only [Except.map, Except.ok.injEq] at hrd
        simp only
        rw [hrd]
        have hpos : 0 < 2 ^ skip := by positivity
        exact lfs_ctz_find_loop_spec g d addr target fuel (current - 2 ^ skip)
          (by omega) (by omega) (by omega)
          (fun n hn1 hn2 k hk => hwf n hn1 (by omega) k hk)
    · have : current = target := by omega
      subst this
      simp

theorem ofInt64_lt (x : Int) : ofInt64 x < 18446744073709551616 := by
  unfold ofInt64
  have h := Int.emod_lt_of_pos x (by norm_num : (0 : Int) < 18446744073709551616)
  have h0 := Int.emod_nonneg x (by norm_num : (18446744073709551616 : Int) ≠ 0)
  omega

theorem lfs_fromle64_tole64 (x : Nat) (hx : x < 18446744073709551616) :
    lfs_fromle64 (lfs_tole64 x) = x := by
  simp only [lfs_fromle64, lfs_tole64, List.range, List.range.loop, List.map, List.take,
    List.foldr]
  omega

theorem trailingZeros_pow_le : ∀ f n, 0 < n → n < 2 ^ f → 2 ^ trailingZeros f n ≤ n
  | 0, n, h0, h1 => by simp at h1; omega
  | f + 1, n, h0, h1 => by
    simp only [trailingZeros]
    split
    · simpa using h0
    · have ih := trailingZeros_pow_le f (n / 2) (by omega) (by rw [pow_succ] at h1; omega)
      rw [Nat.add_comm, pow_succ]
      omega

theorem lfs_ctz64_pow_le (n : Nat) (h0 : 0 < n) (h1 : n < 18446744073709551616) :
    2 ^ lfs_ctz64 n ≤ n := by
  rw [lfs_ctz64_eq n h0 h1]
  exact trailingZeros_pow_le 64 n h0 (by norm_num; exact h1)

/-- The example list is a well-formed skip list whenever its blocks lie on
the device and every pointer word lies inside its block. -/
theorem example_list_wellformed (g : Geometry) (base last : Nat)
    (hcount : base + last < g.block_count)
    (h64 : g.block_count ≤ 18446744073709551616)
    (hsize : ∀ n, 1 ≤ n → n ≤ last → 8 * (lfs_ctz64 n + 1) ≤ g.block_size) :
    ctz_wellformed g (example_list_disk base) (example_list_addr base) last := by
  intro n h1 h2 k hk
  have hs := hsize n h1 h2
  have hp := lfs_ctz64_pow_le n (by omega) (by omega)
  have hk2 : (2 : Nat) ^ k ≤ 2 ^ lfs_ctz64 n := Nat.pow_le_pow_right (by norm_num) hk
  have hc64 : lfs_ctz64 n < 64 := by
    by_contra hcon
    have : (2 : Nat) ^ 64 ≤ 2 ^ lfs_ctz64 n := Nat.pow_le_pow_right (by norm_num) (by omega)
    norm_num at this
    omega
  have hw : wrap64 (8 * k + 8) = 8 * k + 8 := by unfold wrap64; omega
  unfold lfs_bd_read example_list_addr
  rw [hw, if_neg (by omega)]
  simp only [Except.map, Except.ok.injEq]
  have hx : base + (n - 2 ^ k) < 18446744073709551616 := by
    have := Nat.sub_le n (2 ^ k)
    omega
  rw [← lfs_fromle64_tole64 (base + (n - 2 ^ k)) hx]
  congr 1
  unfold lfs_tole64
  apply List.map_congr_left
  intro j hj
  have hj8 : j < 8 := List.mem_range.mp hj
  have e1 : (8 * k + j) / 8 = k := by omega
  have e2 : (8 * k + j) % 8 = j := by omega
  unfold example_list_disk
  have e3 : base + n - base = n := by omega
  rw [e1, e2, e3, if_pos ⟨by omega, hk⟩]

/-- Where the head is the block with the index that `lfs_ctz_index(size - 1)`
gives: on a well-formed skip list with that head, for every position whose
index `lfs_ctz_index(pos)` is at most that index, `lfs_ctz_find` terminates
(fuel equal to the index distance suffices) and returns the address of the
block with index `lfs_ctz_index(pos)` together with the in-block offset of
`pos`; and every hop's skip `min(npw2(current - target + 1) - 1, ctz(current))`
satisfies `skip ≤ ctz(current)` and `2 ^ skip ≤ current - target`, so the walk
never passes below the target index. -/
theorem lfs_ctz_find_returns_target_block (g : Geometry) (d : Disk) (addr : Nat → Nat)
    (size pos fuel : Nat) (hsize : 0 < size) (hsize64 : size < 18446744073709551616)
    (hle : ofInt64 (lfs_ctz_index g.block_size pos).1
      ≤ ofInt64 (lfs_ctz_index g.block_size (size - 1)).1)
    (hwf : ctz_wellformed g d addr (ofInt64 (lfs_ctz_index g.block_size (size - 1)).1))
    (hfuel : ofInt64 (lfs_ctz_index g.block_size (size - 1)).1
      - ofInt64 (lfs_ctz_index g.block_size pos).1 ≤ fuel) :
    lfs_ctz_find g d (addr (ofInt64 (lfs_ctz_index g.block_size (size - 1)).1)) size pos fuel
        = .done (addr (ofInt64 (lfs_ctz_index g.block_size pos).1),
            (lfs_ctz_index g.block_size pos).2)
      ∧ ∀ current, ofInt64 (lfs_ctz_index g.block_size pos).1 < current →
          current ≤ ofInt64 (lfs_ctz_index g.block_size (size - 1)).1 →
          ctz_find_skip current (ofInt64 (lfs_ctz_index g.block_size pos).1) ≤ lfs_ctz64 current
            ∧ 2 ^ ctz_find_skip current (ofInt64 (lfs_ctz_index g.block_size pos).1)
                ≤ current - ofInt64 (lfs_ctz_index g.block_size pos).1 := by
  have hs1 : sub64 size 1 = size - 1 := by unfold sub64; omega
  have hl64 := ofInt64_lt (lfs_ctz_index g.block_size (size - 1)).1
  constructor
  · unfold lfs_ctz_find
    rw [if_neg (by omega), hs1]
    simp only
    rw [lfs_ctz_find_loop_spec g d addr _ fuel _ hle hl64 hfuel
      (fun n hn1 hn2 k hk => hwf n (by omega) hn2 k hk)]
  · intro current h1 h2
    exact ctz_find_skip_spec current _ h1 (by omega)

/-- A four-block list with 512-byte blocks, looked up at byte 100 of 2000. -/
theorem lfs_ctz_find_returns_target_block_witness :
    lfs_ctz_find ⟨512, 16⟩ (example_list_disk 4) (example_list_addr 4 3) 2000 100 3
      = .done (example_list_addr 4 0, 100) := by
  have hwf : ctz_wellformed ⟨512, 16⟩ (example_list_disk 4) (example_list_addr 4)
      (ofInt64 (lfs_ctz_index (Geometry.mk 512 16).block_size (2000 - 1)).1) := by
    apply example_list_wellformed
    · decide
    · decide
    · intro n h1 h2
      have e : ofInt64 (lfs_ctz_index (Geometry.mk 512 16).block_size (2000 - 1)).1 = 3 := by
        decide
      rw [e] at h2
      interval_cases n <;> decide
  have h := lfs_ctz_find_returns_target_block ⟨512, 16⟩ (example_list_disk 4)
    (example_list_addr 4) 2000 100 3 (by decide) (by decide) (by decide) hwf (by decide)
  have e1 : ofInt64 (lfs_ctz_index (Geometry.mk 512 16).block_size (2000 - 1)).1 = 3 := by
    decide
  have e2 : ofInt64 (lfs_ctz_index (Geometry.mk 512 16).block_size 100).1 = 0 := by decide
  have e3 : (lfs_ctz_index (Geometry.mk 512 16).block_size 100).2 = 100 := by decide
  rw [e1, e2, e3] at h
  exact h.1


/-! ### C5: where the closed form leaves its range -/

/-- C5 (code defect, evaluated): block sizes 200 and 256 pass format's
pointer-fit assertion, and the byte positions below are at most `LFS_FILE_MAX`,
yet `lfs_ctz_index` returns an offset inside the pointer area of the block it
names (below `8 * (ctz(i) + 1)`); and with 4096-byte blocks the index `2 ^ 31`
of byte 8761733284104 comes back as the C `int` `-2147483648`. -/
theorem C5_ctz_index_leaves_data_area :
    format_pointer_fit 200 = true
      ∧ 771752120 ≤ LFS_FILE_MAX
      ∧ lfs_ctz_index 200 771752120 = (4194304, 176)
      ∧ 176 < 8 * (lfs_ctz64 4194304 + 1)
      ∧ format_pointer_fit 256 = true
      ∧ 128849019120 ≤ LFS_FILE_MAX
      ∧ lfs_ctz_index 256 128849019120 = (536870912, 232)
      ∧ 232 < 8 * (lfs_ctz64 536870912 + 1)
      ∧ format_pointer_fit 4096 = true
      ∧ 8761733284104 ≤ LFS_FILE_MAX
      ∧ lfs_ctz_index 4096 8761733284104 = (-2147483648, 256) := by
  decide

/-- Witness for `lfs_ctz_index_spec`: 512-byte blocks and byte 1000000. -/
theorem lfs_ctz_index_spec_witness :
    ∃ i off : Nat, lfs_ctz_index 512 1000000 = ((i : Int), off)
      ∧ 1000000 = (512 - 16) * i + 8 * lfs_popc64 i + off
      ∧ (i = 0 → off < 512)
      ∧ (0 < i → 8 * (lfs_ctz64 i + 1) ≤ off ∧ off < 512) :=
  lfs_ctz_index_spec 512 1000000 31 (by decide) (by decide) (by decide) (by decide)
    (by decide) (by decide)

/-- Witness for `lfs_popc64_eq_bitCount`. -/
theorem lfs_popc64_eq_bitCount_witness :
    lfs_popc64 0xdeadbeefcafe = bitCount 64 0xdeadbeefcafe :=
  lfs_popc64_eq_bitCount 0xdeadbeefcafe (by decide)


/-! ### C7: `lfs_ctz_traverse` -/

/-- C7 (code defect, evaluated): on well-formed lists with 512-byte blocks,
`lfs_ctz_traverse` reports each block once when the last index is even
(three blocks, 1100 bytes), but reports the block below the head twice when
the last index is odd (two blocks, 600 bytes: block 4 twice; four blocks,
2000 bytes: block 6 twice), because `cb(data, heads[0])` runs also when only
one pointer was read and that block then becomes the next `head`. -/
theorem C7_ctz_traverse_reports_block_twice :
    ctz_wellformed ⟨512, 16⟩ (example_list_disk 4) (example_list_addr 4) 3
      ∧ lfs_ctz_traverse ⟨512, 16⟩ (example_list_disk 4) (example_list_addr 4 2) 1100
        record_block [] 8 = some (0, [6, 5, 4])
      ∧ lfs_ctz_traverse ⟨512, 16⟩ (example_list_disk 4) (example_list_addr 4 1) 600
        record_block [] 8 = some (0, [5, 4, 4])
      ∧ lfs_ctz_traverse ⟨512, 16⟩ (example_list_disk 4) (example_list_addr 4 3) 2000
        record_block [] 8 = some (0, [7, 6, 6, 5, 4]) := by
  refine ⟨?_, by decide, by decide, by decide⟩
  apply example_list_wellformed
  · decide
  · decide
  · intro n h1 h2
    interval_cases n <;> decide


/-! ### C10: `lfs_gstate_xor` -/

/-- Whatever the alignment, `lfs_gstate_xor` leaves `pair[1]` of its first
argument as it was. -/
theorem lfs_gstate_xor_pair1 (align8 : Bool) (a b : lfs_gstate_t) :
    (lfs_gstate_xor align8 a b).pair1 = a.pair1 := by
  cases align8 <;>
    simp [lfs_gstate_xor, gstate_words, gstate_of_words] <;> omega

/-- C10 (code defect, evaluated): a pending move of entry 5 out of pair
(2, 3), XOR-accumulated into the zero state by `lfs_dir_getgstate`, yields a
state whose `pair[1]` is 0, not 3, under either struct alignment; with
8-byte alignment and a source pair (0x100000002, 3) the upper half of
`pair[0]` is lost as well. -/
theorem C10_gstate_xor_skips_pair1 :
    lfs_tag_id (pending_move 5 2 3).tag = 5
      ∧ lfs_dir_getgstate true 0 (pending_move 5 2 3) gstate_zero
          = (0, ⟨LFS_MKTAG LFS_TYPE_DELETE 5 0, 0, 2, 0⟩)
      ∧ lfs_dir_getgstate false 0 (pending_move 5 2 3) gstate_zero
          = (0, ⟨LFS_MKTAG LFS_TYPE_DELETE 5 0, 0, 2, 0⟩)
      ∧ lfs_gstate_xor true gstate_zero (pending_move 5 0x100000002 3)
          = ⟨LFS_MKTAG LFS_TYPE_DELETE 5 0, 0, 2, 0⟩ := by
  decide



/-! ### The allocator: window arithmetic -/

theorem window_block_lt (s : lfs_alloc_state) (k : Nat) (h : 0 < s.block_count) :
    window_block s k < s.block_count := Nat.mod_lt _ h

theorem lookahead_position_window_block (s : lfs_alloc_state) (k : Nat)
    (h0 : 0 < s.block_count) (h1 : s.block_count ≤ 9223372036854775808)
    (h2 : s.free.offset < s.block_count) (h3 : k < s.block_count) :
    lookahead_position s (window_block s k) = k := by
  unfold lookahead_position window_block
  have hw : wrap64 (s.free.offset + k) = s.free.offset + k := by unfold wrap64; omega
  rw [hw]
  generalize s.block_count = bc at *
  generalize s.free.offset = off at *
  rcases Nat.lt_or_ge (off + k) bc with hlt | hge
  · rw [Nat.mod_eq_of_lt hlt]
    have e1 : sub64 (off + k) off = k := by unfold sub64; omega
    have e2 : wrap64 (k + bc) = k + bc := by unfold wrap64; omega
    rw [e1, e2, Nat.add_mod_right, Nat.mod_eq_of_lt h3]
  · have e0 : (off + k) % bc = off + k - bc := by
      rw [Nat.mod_eq_sub_mod hge, Nat.mod_eq_of_lt (by omega)]
    rw [e0]
    have e1 : sub64 (off + k - bc) off = 18446744073709551616 + k - bc := by
      unfold sub64; omega
    have e2 : wrap64 (18446744073709551616 + k - bc + bc) = k := by unfold wrap64; omega
    rw [e1, e2, Nat.mod_eq_of_lt h3]

theorem window_block_injective (s : lfs_alloc_state) (j k : Nat)
    (h0 : 0 < s.block_count) (h1 : s.block_count ≤ 9223372036854775808)
    (h2 : s.free.offset < s.block_count) (hj : j < s.block_count) (hk : k < s.block_count)
    (h : window_block s j = window_block s k) : j = k := by
  have e1 := lookahead_position_window_block s j h0 h1 h2 hj
  have e2 := lookahead_position_window_block s k h0 h1 h2 hk
  rw [h] at e1
  omega

theorem same_window_advance (s : lfs_alloc_state) (h1 : s.free.i < s.free.size)
    (h2 : s.free.size ≤ 9223372036854775808) (h3 : s.free.size - s.free.i ≤ s.free.ack)
    (h4 : s.free.ack ≤ 9223372036854775808) :
    same_window s (alloc_advance s) := by
  have e1 : wrap64 (s.free.i + 1) = s.free.i + 1 := by unfold wrap64; omega
  have e2 : sub64 s.free.ack 1 = s.free.ack - 1 := by unfold sub64; omega
  have hi : (alloc_advance s).free.i = s.free.i + 1 := e1
  have ha : (alloc_advance s).free.ack = s.free.ack - 1 := e2
  have hsz : (alloc_advance s).free.size = s.free.size := rfl
  have hex : (alloc_advance s).trace.examined = s.trace.examined
      ++ [(window_block s s.free.i, s.free.buffer.testBit s.free.i)] := rfl
  refine ⟨rfl, rfl, rfl, rfl, rfl, rfl, rfl, by omega, by omega, by omega, ?_⟩
  have : s.free.i + 1 - s.free.i = 1 := by omega
  rw [hex, hi, this]
  simp [List.range_succ]

theorem same_window_trans (s t u : lfs_alloc_state) (h1 : same_window s t)
    (h2 : same_window t u) : same_window s u := by
  obtain ⟨a1, a2, a3, a4, a5, a6, a7, a8, a9, a10, a11⟩ := h1
  obtain ⟨b1, b2, b3, b4, b5, b6, b7, b8, b9, b10, b11⟩ := h2
  refine ⟨by rw [b1, a1], by rw [b2, a2], by rw [b3, a3], by rw [b4, a4], by rw [b5, a5],
    by rw [b6, a6], by rw [b7, a7], by omega, b9, by omega, ?_⟩
  rw [b11, a11, List.append_assoc]
  congr 1
  have hsplit : u.free.i - s.free.i = (t.free.i - s.free.i) + (u.free.i - t.free.i) := by omega
  rw [hsplit, List.range_add, List.map_append, List.map_map]
  congr 1
  apply List.map_congr_left
  intro j _
  have hwb : window_block t (t.free.i + j) = window_block s (s.free.i + (t.free.i - s.free.i + j)) := by
    unfold window_block
    rw [a3, a1]
    congr 2
    omega
  simp only [Function.comp, hwb, a5]
  congr 2
  omega

theorem same_window_refl (s : lfs_alloc_state) (h : s.free.i ≤ s.free.size) :
    same_window s s := by
  unfold same_window
  simp [h]

theorem lfs_alloc_skip_spec : ∀ fuel s, s.free.i ≤ s.free.size →
    s.free.size ≤ 9223372036854775808 → s.free.size - s.free.i ≤ s.free.ack →
    s.free.ack ≤ 9223372036854775808 → s.free.size - s.free.i ≤ fuel →
    ∃ t, lfs_alloc_skip fuel s = some t ∧ same_window s t
      ∧ (∀ j, j < t.free.i - s.free.i → s.free.buffer.testBit (s.free.i + j) = true)
  | fuel, s, h1, h2, h3, h4, h5 => by
    unfold lfs_alloc_skip
    by_cases hc : s.free.i ≠ s.free.size ∧ s.free.buffer.testBit s.free.i = true
    · rw [if_pos hc]
      have hlt : s.free.i < s.free.size := by omega
      cases fuel with
      | zero => omega
      | succ fuel =>
        simp only
        have hsw := same_window_advance s hlt h2 h3 h4
        obtain ⟨a1, a2, a3, a4, a5, a6, a7, a8, a9, a10, a11⟩ := hsw
        have e1 : (alloc_advance s).free.i = s.free.i + 1 := by
          unfold alloc_advance wrap64; simp; omega
        obtain ⟨t, ht, hst, hbits⟩ := lfs_alloc_skip_spec fuel (alloc_advance s)
          (by omega) (by omega) (by omega) (by omega) (by omega)
        refine ⟨t, ht, same_window_trans s _ t (same_window_advance s hlt h2 h3 h4) hst, ?_⟩
        intro j hj
        rcases Nat.eq_zero_or_pos j with hj0 | hjpos
        · subst hj0; simpa using hc.2
        · have := hbits (j - 1) (by omega)
          rw [a5, e1] at this
          have e : s.free.i + 1 + (j - 1) = s.free.i + j := by omega
          rw [e] at this
          exact this
    · rw [if_neg hc]
      exact ⟨s, rfl, same_window_refl s h1, by intro j hj; omega⟩


/-! ### The allocator: filling the window -/

theorem lfs_alloc_lookahead_fields (s : lfs_alloc_state) (b : Nat) :
    (lfs_alloc_lookahead s b).2.block_count = s.block_count
      ∧ (lfs_alloc_lookahead s b).2.lookahead_size = s.lookahead_size
      ∧ (lfs_alloc_lookahead s b).2.free.offset = s.free.offset
      ∧ (lfs_alloc_lookahead s b).2.free.size = s.free.size
      ∧ (lfs_alloc_lookahead s b).2.free.i = s.free.i
      ∧ (lfs_alloc_lookahead s b).2.free.ack = s.free.ack
      ∧ (lfs_alloc_lookahead s b).2.trace.refills = s.trace.refills
      ∧ (lfs_alloc_lookahead s b).2.trace.examined = s.trace.examined
      ∧ (lfs_alloc_lookahead s b).2.trace.reported = s.trace.reported ++ [b]
      ∧ (∀ k, s.free.buffer.testBit k = true →
          (lfs_alloc_lookahead s b).2.free.buffer.testBit k = true)
      ∧ (lookahead_position s b < s.free.size →
          (lfs_alloc_lookahead s b).2.free.buffer.testBit (lookahead_position s b) = true) := by
  unfold lfs_alloc_lookahead
  by_cases h : lookahead_position s b < s.free.size
  · dsimp only
    rw [if_pos h]
    refine ⟨rfl, rfl, rfl, rfl, rfl, rfl, rfl, rfl, rfl, ?_, ?_⟩
    · intro k hk
      simp [Nat.testBit_or, hk]
    · intro _
      simp [Nat.testBit_or, Nat.one_shiftLeft, Nat.testBit_two_pow_self]
  · dsimp only
    rw [if_neg h]
    refine ⟨rfl, rfl, rfl, rfl, rfl, rfl, rfl, rfl, rfl, ?_, ?_⟩
    · intro k hk; exact hk
    · intro hc; exact absurd hc h

theorem lookahead_position_congr (s t : lfs_alloc_state) (b : Nat)
    (h1 : t.block_count = s.block_count) (h2 : t.free.offset = s.free.offset) :
    lookahead_position t b = lookahead_position s b := by
  unfold lookahead_position
  rw [h1, h2]

theorem lfs_alloc_lookahead_fold : ∀ (blocks : List Nat) (s : lfs_alloc_state),
    let t := blocks.foldl (fun st b => (lfs_alloc_lookahead st b).2) s
    t.block_count = s.block_count
      ∧ t.lookahead_size = s.lookahead_size
      ∧ t.free.offset = s.free.offset
      ∧ t.free.size = s.free.size
      ∧ t.free.i = s.free.i
      ∧ t.free.ack = s.free.ack
      ∧ t.trace.refills = s.trace.refills
      ∧ t.trace.examined = s.trace.examined
      ∧ t.trace.reported = s.trace.reported ++ blocks
      ∧ (∀ k, s.free.buffer.testBit k = true → t.free.buffer.testBit k = true)
      ∧ (∀ b ∈ blocks, lookahead_position s b < s.free.size →
          t.free.buffer.testBit (lookahead_position s b) = true)
  | [], s => by simp
  | b :: rest, s => by
    obtain ⟨a1, a2, a3, a4, a5, a6, a7, a8, a9, a10, a11⟩ := lfs_alloc_lookahead_fields s b
    have ih := lfs_alloc_lookahead_fold rest (lfs_alloc_lookahead s b).2
    simp only [List.foldl_cons] at ih ⊢
    obtain ⟨b1, b2, b3, b4, b5, b6, b7, b8, b9, b10, b11⟩ := ih
    refine ⟨by rw [b1, a1], by rw [b2, a2], by rw [b3, a3], by rw [b4, a4], by rw [b5, a5],
      by rw [b6, a6], by rw [b7, a7], by rw [b8, a8], by rw [b9, a9]; simp, ?_, ?_⟩
    · intro k hk
      exact b10 k (a10 k hk)
    · intro c hc hpos
      rcases List.mem_cons.mp hc with rfl | hin
      · exact b10 _ (a11 hpos)
      · have := b11 c hin
        rw [lookahead_position_congr s (lfs_alloc_lookahead s b).2 c a1 a3, a4] at this
        exact this hpos


/-! ### The allocator: `lfs_alloc` keeps its invariant -/

theorem alloc_wf_same_window (s t : lfs_alloc_state) (h : alloc_wf s) (hw : same_window s t) :
    alloc_wf t := by
  obtain ⟨w1, w2, w3, w4, w5, w6, w7, w8⟩ := h
  obtain ⟨a1, a2, a3, a4, a5, a6, a7, a8, a9, a10, a11⟩ := hw
  refine ⟨by omega, by omega, by omega, by omega, by omega, by omega, by omega, ?_⟩
  intro hlt b hb hpos
  rw [lookahead_position_congr s t b a1 a3] at hpos ⊢
  rw [a5]
  rw [a7] at hb
  exact w8 (by omega) b hb (by omega)

theorem lfs_alloc_skip_some : ∀ fuel s t, lfs_alloc_skip fuel s = some t →
    s.free.i ≤ s.free.size → s.free.size ≤ 9223372036854775808 →
    s.free.size - s.free.i ≤ s.free.ack → s.free.ack ≤ 9223372036854775808 →
    same_window s t
      ∧ (∀ j, j < t.free.i - s.free.i → s.free.buffer.testBit (s.free.i + j) = true)
      ∧ (t.free.i = t.free.size ∨ t.free.buffer.testBit t.free.i = false)
  | fuel, s, t, h, h1, h2, h3, h4 => by
    unfold lfs_alloc_skip at h
    by_cases hc : s.free.i ≠ s.free.size ∧ s.free.buffer.testBit s.free.i = true
    · rw [if_pos hc] at h
      have hlt : s.free.i < s.free.size := by omega
      cases fuel with
      | zero => simp at h
      | succ fuel =>
        simp only at h
        have hsw := same_window_advance s hlt h2 h3 h4
        obtain ⟨a1, a2, a3, a4, a5, a6, a7, a8, a9, a10, a11⟩ := hsw
        have e1 : (alloc_advance s).free.i = s.free.i + 1 := by
          unfold alloc_advance wrap64; simp; omega
        obtain ⟨hst, hbits, hend⟩ := lfs_alloc_skip_some fuel (alloc_advance s) t h
          (by omega) (by omega) (by omega) (by omega)
        refine ⟨same_window_trans s _ t (same_window_advance s hlt h2 h3 h4) hst, ?_, hend⟩
        intro j hj
        rcases Nat.eq_zero_or_pos j with hj0 | hjpos
        · subst hj0; simpa using hc.2
        · have := hbits (j - 1) (by omega)
          rw [a5, e1] at this
          have e : s.free.i + 1 + (j - 1) = s.free.i + j := by omega
          rw [e] at this
          exact this
    · rw [if_neg hc] at h
      simp only [Option.some.injEq] at h
      subst h
      refine ⟨same_window_refl s h1, by intro j hj; omega, ?_⟩
      by_cases he : s.free.i = s.free.size
      · exact Or.inl he
      · right
        have : ¬ s.free.buffer.testBit s.free.i = true := fun hb => hc ⟨he, hb⟩
        simpa using this

theorem lfs_alloc_invariant (trav : Nat → List Nat × Int) (grow : Option (Nat → Int × Nat))
    (hg : grow_ok grow) :
    ∀ fuel s code b s', alloc_wf s → lfs_alloc trav grow fuel s = some (code, b, s') →
      alloc_wf s' ∧ s.trace.refills ≤ s'.trace.refills
        ∧ (code = LFS_ERR_OK →
            (s.free.i = s.free.size → s.trace.refills < s'.trace.refills)
            ∧ ∃ k, k < s'.free.i ∧ b = window_block s' k
                ∧ s'.free.buffer.testBit k = false ∧ b ∉ s'.trace.reported
                ∧ (s'.trace.refills = s.trace.refills →
                    s.free.i ≤ k ∧ s'.free.offset = s.free.offset
                      ∧ s'.block_count = s.block_count ∧ s'.free.size = s.free.size))
  | 0, s, code, b, s', _, h => by simp [lfs_alloc] at h
  | fuel + 1, s, code, b, s', hwf, h => by
    obtain ⟨w1, w2, w3, w4, w5, w6, w7, w8⟩ := hwf
    have hwf : alloc_wf s := ⟨w1, w2, w3, w4, w5, w6, w7, w8⟩
    unfold lfs_alloc at h
    by_cases hne : s.free.i ≠ s.free.size
    · rw [if_pos hne] at h
      have hlt : s.free.i < s.free.size := by omega
      have hadv := same_window_advance s hlt (by omega) w6 (by omega)
      have hwfa := alloc_wf_same_window s _ hwf hadv
      by_cases hbit : ¬ s.free.buffer.testBit s.free.i = true
      · rw [if_pos hbit] at h
        obtain ⟨v1, v2, v3, v4, v5, v6, v7, v8⟩ := hwfa
        cases hsk : lfs_alloc_skip fuel (alloc_advance s) with
        | none => rw [hsk] at h; simp at h
        | some s2 =>
          rw [hsk] at h
          simp only [Option.map_some', Option.some.injEq, Prod.mk.injEq] at h
          obtain ⟨hc, hb, hs⟩ := h
          subst hs
          have hskip := lfs_alloc_skip_some fuel (alloc_advance s) s2 hsk v5 (by omega) v6
            (by omega)
          have hsw := same_window_trans s _ s2 hadv hskip.1
          have hwf2 := alloc_wf_same_window s s2 hwf hsw
          obtain ⟨a1, a2, a3, a4, a5, a6, a7, a8, a9, a10, a11⟩ := hsw
          have hai : (alloc_advance s).free.i = s.free.i + 1 := by
            unfold alloc_advance wrap64; simp; omega
          have hi2 : s.free.i < s2.free.i := by
            have := hskip.1.2.2.2.2.2.2.2.1
            omega
          have hwb : window_block s2 s.free.i = window_block s s.free.i := by
            unfold window_block; rw [a3, a1]
          refine ⟨hwf2, by omega, ?_⟩
          intro _
          refine ⟨fun he => absurd he hne, s.free.i, hi2, ?_, ?_, ?_, ?_⟩
          · rw [← hb, hwb]
          · rw [a5]; simpa using hbit
          · rw [a7, ← hb]
            intro hin
            have hpos := lookahead_position_window_block s s.free.i w1 w2 w3 (by omega)
            have := w8 hlt _ hin (by rw [hpos]; exact hlt)
            rw [hpos] at this
            exact hbit this
          · intro _
            exact ⟨le_refl _, a3, a1, a4⟩
      · rw [if_neg hbit] at h
        have ih := lfs_alloc_invariant trav grow hg fuel (alloc_advance s) code b s' hwfa h
        obtain ⟨a1, a2, a3, a4, a5, a6, a7, a8, a9, a10, a11⟩ := hadv
        have hai : (alloc_advance s).free.i = s.free.i + 1 := by
          unfold alloc_advance wrap64; simp; omega
        refine ⟨ih.1, by rw [← a6]; exact ih.2.1, ?_⟩
        intro hc
        obtain ⟨_, k, hk1, hk2, hk3, hk4, hk5⟩ := ih.2.2 hc
        refine ⟨fun he => absurd he hne, k, hk1, hk2, hk3, hk4, ?_⟩
        intro hr
        have := hk5 (by rw [a6]; exact hr)
        rw [a3, a1, a4, hai] at this
        exact ⟨by omega, this.2.1, this.2.2.1, this.2.2.2⟩
    · rw [if_neg hne] at h
      have hieq : s.free.i = s.free.size := by omega
      by_cases hack : s.free.ack = 0
      · rw [if_pos hack] at h
        have hgr := hg s.block_count w2
        by_cases hns : (allocate_block_result grow s.block_count).1 = LFS_ERR_NOSPC
        · rw [if_pos hns] at h
          simp only [Option.some.injEq, Prod.mk.injEq] at h
          obtain ⟨hc, hb, hs⟩ := h
          subst hs
          refine ⟨⟨?_, ?_, ?_, ?_, ?_, ?_, ?_, ?_⟩, le_refl _, ?_⟩
          · show 0 < (allocate_block_result grow s.block_count).2; omega
          · exact hgr.2
          · show s.free.offset < (allocate_block_result grow s.block_count).2; omega
          · show s.free.size ≤ (allocate_block_result grow s.block_count).2; omega
          · exact w5
          · exact w6
          · show s.free.ack ≤ (allocate_block_result grow s.block_count).2; omega
          · intro hlt
            exact absurd hieq (by
              have : s.free.i < s.free.size := hlt
              omega)
          · intro hc2
            rw [← hc] at hc2
            exact absurd hc2 (by decide)
        · rw [if_neg hns] at h
          have hwft : alloc_wf (lfs_alloc_ack
              { s with block_count := (allocate_block_result grow s.block_count).2 }) := by
            refine ⟨?_, ?_, ?_, ?_, ?_, ?_, ?_, ?_⟩
            · show 0 < (allocate_block_result grow s.block_count).2; omega
            · exact hgr.2
            · show s.free.offset < (allocate_block_result grow s.block_count).2; omega
            · show s.free.size ≤ (allocate_block_result grow s.block_count).2; omega
            · exact w5
            · show s.free.size - s.free.i ≤ (allocate_block_result grow s.block_count).2; omega
            · exact le_refl _
            · intro hlt
              exact absurd hieq (by
                have : s.free.i < s.free.size := hlt
                omega)
          have ih := lfs_alloc_invariant trav grow hg fuel _ code b s' hwft h
          refine ⟨ih.1, ih.2.1, ?_⟩
          intro hc
          obtain ⟨hstrict, k, hk1, hk2, hk3, hk4, hk5⟩ := ih.2.2 hc
          have hs := hstrict hieq
          refine ⟨fun _ => hs, k, hk1, hk2, hk3, hk4, ?_⟩
          intro hr
          have : s.trace.refills < s'.trace.refills := hs
          omega
      · rw [if_neg hack] at h
        obtain ⟨b1, b2, b3, b4, b5, b6, b7, b8, b9, b10, b11⟩ :=
          lfs_alloc_lookahead_fold (trav s.trace.refills).1 (alloc_refill s)
        have hoff : (alloc_refill s).free.offset < s.block_count := Nat.mod_lt _ w1
        have hsz : (alloc_refill s).free.size ≤ s.free.ack := by
          show lfs_min _ _ ≤ _
          unfold lfs_min; split <;> omega
        have hr1 : (alloc_refill s).trace.refills = s.trace.refills + 1 := rfl
        have hi0 : (alloc_refill s).free.i = 0 := rfl
        have hack0 : (alloc_refill s).free.ack = s.free.ack := rfl
        have hbc0 : (alloc_refill s).block_count = s.block_count := rfl
        have hrep0 : (alloc_refill s).trace.reported = [] := rfl
        generalize hfold : List.foldl (fun st b => (lfs_alloc_lookahead st b).2) (alloc_refill s)
          (trav s.trace.refills).1 = t at *
        by_cases herr : (trav s.trace.refills).2 ≠ 0
        · rw [if_pos herr] at h
          simp only [Option.some.injEq, Prod.mk.injEq] at h
          obtain ⟨hc, hb, hs⟩ := h
          subst hs
          refine ⟨⟨?_, ?_, ?_, ?_, ?_, ?_, ?_, ?_⟩, ?_, ?_⟩
          · show 0 < t.block_count
            rw [b1, hbc0]; exact w1
          · show t.block_count ≤ _
            rw [b1, hbc0]; exact w2
          · show t.free.offset < t.block_count
            rw [b1, b3, hbc0]; exact hoff
          · show 0 ≤ t.block_count; omega
          · show 0 ≤ 0; omega
          · show 0 - 0 ≤ t.block_count; omega
          · show t.block_count ≤ t.block_count
            exact le_refl _
          · intro hlt
            exact absurd hlt (by show ¬ (0 < 0); omega)
          · show s.trace.refills ≤ t.trace.refills
            rw [b7, hr1]; omega
          · intro hc2
            rw [← hc] at hc2
            exact absurd hc2 herr
        · rw [if_neg herr] at h
          have hwft : alloc_wf t := by
            refine ⟨?_, ?_, ?_, ?_, ?_, ?_, ?_, ?_⟩
            · rw [b1, hbc0]; exact w1
            · rw [b1, hbc0]; exact w2
            · rw [b1, b3, hbc0]; exact hoff
            · rw [b1, b4, hbc0]; omega
            · rw [b5, hi0]; omega
            · rw [b4, b5, b6, hi0, hack0]; omega
            · rw [b6, b1, hack0, hbc0]; exact w7
            · intro _ c hc hpos
              rw [b9, hrep0] at hc
              have hc2 : c ∈ (trav s.trace.refills).1 := by simpa using hc
              rw [lookahead_position_congr (alloc_refill s) t c b1 b3] at hpos ⊢
              rw [b4] at hpos
              exact b11 c hc2 hpos
          have ih := lfs_alloc_invariant trav grow hg fuel t code b s' hwft h
          rw [b7, hr1] at ih
          refine ⟨ih.1, by omega, ?_⟩
          intro hc
          obtain ⟨_, k, hk1, hk2, hk3, hk4, hk5⟩ := ih.2.2 hc
          refine ⟨fun _ => by omega, k, hk1, hk2, hk3, hk4, ?_⟩
          intro hr
          omega


/-! ### The allocator: successive calls -/

theorem alloc_wf_ack (s : lfs_alloc_state) (h : alloc_wf s) : alloc_wf (lfs_alloc_ack s) := by
  obtain ⟨w1, w2, w3, w4, w5, w6, w7, w8⟩ := h
  refine ⟨w1, w2, w3, w4, w5, ?_, ?_, w8⟩
  · show s.free.size - s.free.i ≤ s.block_count
    omega
  · show s.block_count ≤ s.block_count
    exact le_refl _

theorem window_block_congr (s t : lfs_alloc_state) (k : Nat)
    (h1 : t.block_count = s.block_count) (h2 : t.free.offset = s.free.offset) :
    window_block t k = window_block s k := by
  unfold window_block
  rw [h1, h2]

theorem lfs_alloc_calls_invariant (trav : Nat → List Nat × Int)
    (grow : Option (Nat → Int × Nat)) (hg : grow_ok grow) (fuel : Nat) :
    ∀ (acks : List Bool) (s : lfs_alloc_state) (blocks : List Nat) (s' : lfs_alloc_state),
      alloc_wf s → lfs_alloc_calls trav grow fuel acks s = some (blocks, s') →
      alloc_wf s' ∧ s.trace.refills ≤ s'.trace.refills
        ∧ (s'.trace.refills = s.trace.refills →
            s.free.i ≤ s'.free.i ∧ s'.free.offset = s.free.offset
              ∧ s'.block_count = s.block_count
              ∧ (∀ b ∈ blocks, ∃ k, s.free.i ≤ k ∧ k < s'.free.i ∧ b = window_block s' k)
              ∧ blocks.Nodup)
  | [], s, blocks, s', hwf, h => by
    simp only [lfs_alloc_calls, Option.some.injEq, Prod.mk.injEq] at h
    obtain ⟨hb, hs⟩ := h
    subst hb; subst hs
    exact ⟨hwf, le_refl _, fun _ => ⟨le_refl _, rfl, rfl, by simp, List.nodup_nil⟩⟩
  | ackFirst :: rest, s, blocks, s', hwf, h => by
    have hwf0 : alloc_wf (if ackFirst then lfs_alloc_ack s else s) := by
      cases ackFirst
      · exact hwf
      · exact alloc_wf_ack s hwf
    have hr0 : (if ackFirst then lfs_alloc_ack s else s).trace.refills = s.trace.refills := by
      cases ackFirst <;> rfl
    have hi0 : (if ackFirst then lfs_alloc_ack s else s).free.i = s.free.i := by
      cases ackFirst <;> rfl
    have ho0 : (if ackFirst then lfs_alloc_ack s else s).free.offset = s.free.offset := by
      cases ackFirst <;> rfl
    have hb0 : (if ackFirst then lfs_alloc_ack s else s).block_count = s.block_count := by
      cases ackFirst <;> rfl
    unfold lfs_alloc_calls at h
    generalize (if ackFirst then lfs_alloc_ack s else s) = s0 at *
    cases h1 : lfs_alloc trav grow fuel s0 with
    | none => simp [h1] at h
    | some r =>
      obtain ⟨code, b, s1⟩ := r
      simp only [h1] at h
      by_cases hc : code = LFS_ERR_OK
      · rw [if_pos hc] at h
        cases h2 : lfs_alloc_calls trav grow fuel rest s1 with
        | none => simp [h2] at h
        | some r2 =>
          obtain ⟨bl, s2⟩ := r2
          simp only [h2, Option.some.injEq, Prod.mk.injEq] at h
          obtain ⟨hb, hs⟩ := h
          subst hb; subst hs
          obtain ⟨a1, a2, a3⟩ := lfs_alloc_invariant trav grow hg fuel s0 code b s1 hwf0 h1
          obtain ⟨c1, c2, c3⟩ := lfs_alloc_calls_invariant trav grow hg fuel rest s1 bl s2 a1 h2
          refine ⟨c1, by omega, ?_⟩
          intro hr
          obtain ⟨_, k, k1, k2, k3, k4, k5⟩ := a3 hc
          obtain ⟨d1, d2, d3, d4, d5⟩ := c3 (by omega)
          obtain ⟨e1, e2, e3, e4⟩ := k5 (by omega)
          obtain ⟨f1, f2, f3, f4, f5, f6, f7, f8⟩ := c1
          refine ⟨by omega, by omega, by omega, ?_, ?_⟩
          · intro x hx
            rcases List.mem_cons.1 hx with hx | hx
            · refine ⟨k, by omega, by omega, ?_⟩
              rw [hx, k2]
              exact (window_block_congr s1 s2 k d3 d2).symm
            · obtain ⟨j, j1, j2, j3⟩ := d4 x hx
              exact ⟨j, by omega, j2, j3⟩
          · refine List.nodup_cons.2 ⟨?_, d5⟩
            intro hmem
            obtain ⟨j, j1, j2, j3⟩ := d4 b hmem
            have hk : b = window_block s2 k := by
              rw [k2]; exact (window_block_congr s1 s2 k d3 d2).symm
            rw [hk] at j3
            have := window_block_injective s2 k j f1 f2 f3 (by omega) (by omega) j3
            omega
      · rw [if_neg hc] at h
        simp at h


/-! ### C8: what `lfs_alloc` hands out -/

/-- C8 (amended): on a device of at most `2 ^ 63` blocks (part of `alloc_wf`,
which holds after format and after mount), whenever `lfs_alloc` returns
`LFS_ERR_OK` the returned block `b` is below `block_count`, was not reported to
`lfs_alloc_lookahead` by the traversal that filled the current window, and is
the block of a window position whose bit is clear; and the blocks returned by
this and the following successful calls (with or without `lfs_alloc_ack` in
between) are pairwise distinct as long as no call refills the window. -/
theorem C8_alloc_returns_unreported_distinct_blocks (trav : Nat → List Nat × Int)
    (grow : Option (Nat → Int × Nat)) (fuel : Nat) (acks : List Bool)
    (s s1 s2 : lfs_alloc_state) (b : Nat) (blocks : List Nat)
    (hg : grow_ok grow) (hwf : alloc_wf s)
    (hcall : lfs_alloc trav grow fuel s = some (LFS_ERR_OK, b, s1))
    (hcalls : lfs_alloc_calls trav grow fuel acks s1 = some (blocks, s2)) :
    b < s1.block_count
      ∧ b ∉ s1.trace.reported
      ∧ (∃ k, k < s1.free.size ∧ b = window_block s1 k ∧ s1.free.buffer.testBit k = false)
      ∧ (s2.trace.refills = s1.trace.refills → (b :: blocks).Nodup) := by
  obtain ⟨a1, _, a3⟩ := lfs_alloc_invariant trav grow hg fuel s LFS_ERR_OK b s1 hwf hcall
  obtain ⟨_, k, k1, k2, k3, k4, _⟩ := a3 rfl
  obtain ⟨c1, _, c3⟩ := lfs_alloc_calls_invariant trav grow hg fuel acks s1 blocks s2 a1 hcalls
  obtain ⟨w1, w2, w3, w4, w5, w6, w7, w8⟩ := a1
  refine ⟨?_, k4, ⟨k, by omega, k2, k3⟩, ?_⟩
  · rw [k2]
    exact window_block_lt s1 k w1
  · intro hr
    obtain ⟨d1, d2, d3, d4, d5⟩ := c3 hr
    obtain ⟨f1, f2, f3, f4, f5, f6, f7, f8⟩ := c1
    refine List.nodup_cons.2 ⟨?_, d5⟩
    intro hmem
    obtain ⟨j, j1, j2, j3⟩ := d4 b hmem
    have hk : b = window_block s2 k := by
      rw [k2]; exact (window_block_congr s1 s2 k d3 d2).symm
    rw [hk] at j3
    have := window_block_injective s2 k j f1 f2 f3 (by omega) (by omega) j3
    omega

/-- Witness for C8: eight blocks, mounted with lookahead offset 0, blocks 0, 1,
2 and 5 in use.  The first call refills the window and returns block 3; the
next two calls (the second after `lfs_alloc_ack`) return blocks 4 and 6 from
the same window. -/
theorem C8_alloc_returns_unreported_distinct_blocks_witness :
    lfs_alloc (fun _ => ([0, 1, 2, 5], 0)) none 20 ⟨8, 8, ⟨0, 0, 0, 8, 0⟩, ⟨0, [], []⟩⟩
        = some (LFS_ERR_OK, 3,
            ⟨8, 8, ⟨0, 8, 4, 4, 39⟩,
              ⟨1, [0, 1, 2, 5], [(0, true), (1, true), (2, true), (3, false)]⟩⟩)
      ∧ lfs_alloc_calls (fun _ => ([0, 1, 2, 5], 0)) none 20 [false, true]
          ⟨8, 8, ⟨0, 8, 4, 4, 39⟩,
            ⟨1, [0, 1, 2, 5], [(0, true), (1, true), (2, true), (3, false)]⟩⟩
        = some ([4, 6], ⟨8, 8, ⟨0, 8, 7, 7, 39⟩, ⟨1, [0, 1, 2, 5], [(6, false)]⟩⟩)
      ∧ (3 < 8 ∧ 3 ∉ [0, 1, 2, 5] ∧ [3, 4, 6].Nodup) := by
  have hg : grow_ok none := fun n hn => ⟨le_refl _, hn⟩
  have hwf : alloc_wf ⟨8, 8, ⟨0, 0, 0, 8, 0⟩, ⟨0, [], []⟩⟩ := by
    refine ⟨by decide, by decide, by decide, by decide, by decide, by decide, by decide, ?_⟩
    intro h
    exact absurd h (by decide)
  have h1 : lfs_alloc (fun _ => ([0, 1, 2, 5], 0)) none 20 ⟨8, 8, ⟨0, 0, 0, 8, 0⟩, ⟨0, [], []⟩⟩
      = some (LFS_ERR_OK, 3,
          ⟨8, 8, ⟨0, 8, 4, 4, 39⟩,
            ⟨1, [0, 1, 2, 5], [(0, true), (1, true), (2, true), (3, false)]⟩⟩) := by decide
  have h2 : lfs_alloc_calls (fun _ => ([0, 1, 2, 5], 0)) none 20 [false, true]
        ⟨8, 8, ⟨0, 8, 4, 4, 39⟩,
          ⟨1, [0, 1, 2, 5], [(0, true), (1, true), (2, true), (3, false)]⟩⟩
      = some ([4, 6], ⟨8, 8, ⟨0, 8, 7, 7, 39⟩, ⟨1, [0, 1, 2, 5], [(6, false)]⟩⟩) := by decide
  have h := C8_alloc_returns_unreported_distinct_blocks (fun _ => ([0, 1, 2, 5], 0)) none 20
    [false, true] _ _ _ 3 [4, 6] hg hwf h1 h2
  exact ⟨h1, h2, h.1, h.2.1, h.2.2.2 rfl⟩

/-- C8 (counterexample to the unamended claim): a device of `2 ^ 64 - 3`
blocks, mounted with lookahead offset 0, whose traversal reports blocks 0, 1
and 5.  For block 5 the sum `(block - free.offset) + block_count` wraps around
`2 ^ 64`, so `lfs_alloc_lookahead` sets bit 2 instead of bit 5, and the third
successful call returns block 5, which the traversal of the current window
(the only refill) reported. -/
theorem C8_alloc_counterexample :
    (lfs_alloc_calls (fun _ => ([0, 1, 5], 0)) none 20 [false, false, false]
        ⟨18446744073709551613, 8, ⟨0, 0, 0, 18446744073709551613, 0⟩, ⟨0, [], []⟩⟩).map
        (fun r => (r.1, r.2.trace.reported, r.2.trace.refills, r.2.free.buffer))
      = some ([3, 4, 5], [0, 1, 5], 1, 7) := by
  decide

/-! ### The allocator: the positions examined since the last acknowledgement -/

theorem window_block_eq (s : lfs_alloc_state) (k : Nat)
    (h1 : s.block_count ≤ 9223372036854775808) (h2 : s.free.offset < s.block_count)
    (h3 : k ≤ s.block_count) :
    window_block s k = (s.free.offset + k) % s.block_count := by
  unfold window_block wrap64
  have e : (s.free.offset + k) % 18446744073709551616 = s.free.offset + k :=
    Nat.mod_eq_of_lt (by omega)
  rw [e]

theorem add_mod_congr (a b j m : Nat) (h : a % m = b % m) : (a + j) % m = (b + j) % m := by
  rw [Nat.add_mod a j m, Nat.add_mod b j m, h]

theorem alloc_examined_wf_same_window (s t : lfs_alloc_state) (hwf : alloc_wf s)
    (hw : same_window s t) (he : alloc_examined_wf s) : alloc_examined_wf t := by
  obtain ⟨w1, w2, w3, w4, w5, w6, w7, w8⟩ := hwf
  obtain ⟨a1, a2, a3, a4, a5, a6, a7, a8, a9, a10, a11⟩ := hw
  obtain ⟨e1, p0, e2, e3⟩ := he
  have hlen : t.trace.examined.length = s.trace.examined.length + (t.free.i - s.free.i) := by
    rw [a11]; simp
  refine ⟨by rw [hlen, a1]; omega, p0, ?_, ?_⟩
  · rw [hlen, a1, List.range_add, List.map_append, ← e2, a11, List.map_append]
    congr 1
    rw [List.map_map, List.map_map]
    apply List.map_congr_left
    intro j hj
    have hj2 : j < t.free.i - s.free.i := List.mem_range.1 hj
    show window_block s (s.free.i + j) = (p0 + (s.trace.examined.length + j)) % s.block_count
    rw [window_block_eq s _ w2 w3 (by omega), ← Nat.add_assoc, ← Nat.add_assoc]
    exact (add_mod_congr _ _ j _ e3).symm
  · rw [hlen, a1, a3, ← Nat.add_assoc]
    have := add_mod_congr _ _ (t.free.i - s.free.i) _ e3
    rw [this]
    congr 1
    omega

theorem alloc_examined_wf_ack (s : lfs_alloc_state) : alloc_examined_wf (lfs_alloc_ack s) :=
  ⟨by show 0 + s.block_count = s.block_count; omega, s.free.offset + s.free.i, rfl, rfl⟩


theorem alloc_wf_refill (s : lfs_alloc_state) (blocks : List Nat) (hwf : alloc_wf s) :
    alloc_wf (blocks.foldl (fun st b => (lfs_alloc_lookahead st b).2) (alloc_refill s)) := by
  obtain ⟨w1, w2, w3, w4, w5, w6, w7, w8⟩ := hwf
  obtain ⟨b1, b2, b3, b4, b5, b6, b7, b8, b9, b10, b11⟩ :=
    lfs_alloc_lookahead_fold blocks (alloc_refill s)
  have hoff : (alloc_refill s).free.offset < s.block_count := Nat.mod_lt _ w1
  have hsz : (alloc_refill s).free.size ≤ s.free.ack := by
    show lfs_min _ _ ≤ _
    unfold lfs_min; split <;> omega
  have hi0 : (alloc_refill s).free.i = 0 := rfl
  have hack0 : (alloc_refill s).free.ack = s.free.ack := rfl
  have hbc0 : (alloc_refill s).block_count = s.block_count := rfl
  have hrep0 : (alloc_refill s).trace.reported = [] := rfl
  generalize hfold : List.foldl (fun st b => (lfs_alloc_lookahead st b).2) (alloc_refill s)
    blocks = t at *
  refine ⟨?_, ?_, ?_, ?_, ?_, ?_, ?_, ?_⟩
  · rw [b1, hbc0]; exact w1
  · rw [b1, hbc0]; exact w2
  · rw [b1, b3, hbc0]; exact hoff
  · rw [b1, b4, hbc0]; omega
  · rw [b5, hi0]; omega
  · rw [b4, b5, b6, hi0, hack0]; omega
  · rw [b6, b1, hack0, hbc0]; exact w7
  · intro _ c hc hpos
    rw [b9, hrep0] at hc
    have hc2 : c ∈ blocks := by simpa using hc
    rw [lookahead_position_congr (alloc_refill s) t c b1 b3] at hpos ⊢
    rw [b4] at hpos
    exact b11 c hc2 hpos

theorem alloc_examined_wf_refill (s : lfs_alloc_state) (blocks : List Nat) (hwf : alloc_wf s)
    (hi : s.free.i = s.free.size) (he : alloc_examined_wf s) :
    alloc_examined_wf
      (blocks.foldl (fun st b => (lfs_alloc_lookahead st b).2) (alloc_refill s)) := by
  obtain ⟨w1, w2, w3, w4, w5, w6, w7, w8⟩ := hwf
  obtain ⟨b1, b2, b3, b4, b5, b6, b7, b8, b9, b10, b11⟩ :=
    lfs_alloc_lookahead_fold blocks (alloc_refill s)
  obtain ⟨e1, p0, e2, e3⟩ := he
  have hoff : (alloc_refill s).free.offset = (s.free.offset + s.free.size) % s.block_count := by
    show wrap64 _ % _ = _
    unfold wrap64
    have e : (s.free.offset + s.free.size) % 18446744073709551616
        = s.free.offset + s.free.size := Nat.mod_eq_of_lt (by omega)
    rw [e]
  have hi0 : (alloc_refill s).free.i = 0 := rfl
  have hack0 : (alloc_refill s).free.ack = s.free.ack := rfl
  have hbc0 : (alloc_refill s).block_count = s.block_count := rfl
  have hex0 : (alloc_refill s).trace.examined = s.trace.examined := rfl
  generalize hfold : List.foldl (fun st b => (lfs_alloc_lookahead st b).2) (alloc_refill s)
    blocks = t at *
  refine ⟨by rw [b8, b6, b1, hex0, hack0, hbc0]; exact e1, p0, ?_, ?_⟩
  · rw [b8, b1, hex0, hbc0]; exact e2
  · rw [b8, b1, b3, b5, hex0, hbc0, hoff, hi0, e3, hi, Nat.add_zero, Nat.mod_mod]

theorem filter_clear_of_all_set (l : List (Nat × Bool)) (h : ∀ e ∈ l, e.2 = true) :
    l.filter (fun e => !e.2) = [] := by
  rw [List.filter_eq_nil_iff]
  intro e he
  simp [h e he]

theorem same_window_new_set (s t : lfs_alloc_state) (hw : same_window s t)
    (hb : ∀ j, j < t.free.i - s.free.i → s.free.buffer.testBit (s.free.i + j) = true) :
    ∃ new, t.trace.examined = s.trace.examined ++ new ∧ ∀ e ∈ new, e.2 = true := by
  obtain ⟨a1, a2, a3, a4, a5, a6, a7, a8, a9, a10, a11⟩ := hw
  refine ⟨_, a11, ?_⟩
  intro e he
  obtain ⟨j, hj, rfl⟩ := List.mem_map.1 he
  exact hb j (List.mem_range.1 hj)


theorem lfs_alloc_examined (trav : Nat → List Nat × Int)
    (htrav : ∀ n, (trav n).2 ≠ LFS_ERR_NOSPC) :
    ∀ fuel s code b s', alloc_wf s → alloc_examined_wf s →
      lfs_alloc trav none fuel s = some (code, b, s') →
      (code = LFS_ERR_OK ∨ code = LFS_ERR_NOSPC) →
        alloc_wf s' ∧ alloc_examined_wf s' ∧ s'.block_count = s.block_count
          ∧ ∃ new, s'.trace.examined = s.trace.examined ++ new
              ∧ (code = LFS_ERR_OK → (new.filter (fun e => !e.2)).map Prod.fst = [b])
              ∧ (code = LFS_ERR_NOSPC → s'.free.ack = 0 ∧ ∀ e ∈ new, e.2 = true)
  | 0, s, code, b, s', _, _, h, _ => by simp [lfs_alloc] at h
  | fuel + 1, s, code, b, s', hwf, he, h, hcode => by
    obtain ⟨w1, w2, w3, w4, w5, w6, w7, w8⟩ := hwf
    have hwf : alloc_wf s := ⟨w1, w2, w3, w4, w5, w6, w7, w8⟩
    unfold lfs_alloc at h
    by_cases hne : s.free.i ≠ s.free.size
    · rw [if_pos hne] at h
      have hlt : s.free.i < s.free.size := by omega
      have hadv := same_window_advance s hlt (by omega) w6 (by omega)
      have hwfa := alloc_wf_same_window s _ hwf hadv
      have hea := alloc_examined_wf_same_window s _ hwf hadv he
      have hexa : (alloc_advance s).trace.examined = s.trace.examined
          ++ [(window_block s s.free.i, s.free.buffer.testBit s.free.i)] := rfl
      by_cases hbit : ¬ s.free.buffer.testBit s.free.i = true
      · rw [if_pos hbit] at h
        cases hsk : lfs_alloc_skip fuel (alloc_advance s) with
        | none => simp [hsk] at h
        | some s2 =>
          simp only [hsk, Option.map_some', Option.some.injEq, Prod.mk.injEq] at h
          obtain ⟨hc, hb, hs⟩ := h
          subst hs
          obtain ⟨x1, x2, x3, x4, x5, x6, x7, x8⟩ := hwfa
          obtain ⟨k1, k2, _⟩ := lfs_alloc_skip_some fuel _ _ hsk x5 (by omega) x6 (by omega)
          have hwfa : alloc_wf (alloc_advance s) := ⟨x1, x2, x3, x4, x5, x6, x7, x8⟩
          obtain ⟨new, n1, n2⟩ := same_window_new_set _ _ k1 k2
          refine ⟨alloc_wf_same_window _ _ hwfa k1,
            alloc_examined_wf_same_window _ _ hwfa k1 hea, k1.1, ?_⟩
          refine ⟨(window_block s s.free.i, s.free.buffer.testBit s.free.i) :: new, ?_, ?_, ?_⟩
          · rw [n1, hexa]; simp
          · intro _
            have hf : s.free.buffer.testBit s.free.i = false := by simpa using hbit
            rw [hf, List.filter_cons_of_pos (by simp), filter_clear_of_all_set new n2, ← hb]
            rfl
          · intro hc2
            rw [← hc] at hc2
            exact absurd hc2 (by decide)
      · rw [if_neg hbit] at h
        have hset : s.free.buffer.testBit s.free.i = true := by simpa using hbit
        obtain ⟨i1, i2, i3, new, n1, n2, n3⟩ :=
          lfs_alloc_examined trav htrav fuel _ code b s' hwfa hea h hcode
        refine ⟨i1, i2, i3, (window_block s s.free.i, true) :: new, ?_, ?_, ?_⟩
        · rw [n1, hexa, hset]; simp
        · intro hc
          rw [List.filter_cons_of_neg (by simp)]
          exact n2 hc
        · intro hc
          refine ⟨(n3 hc).1, ?_⟩
          intro e hmem
          rcases List.mem_cons.1 hmem with h1 | h1
          · rw [h1]
          · exact (n3 hc).2 e h1
    · rw [if_neg hne] at h
      have hieq : s.free.i = s.free.size := by omega
      by_cases hack : s.free.ack = 0
      · rw [if_pos hack] at h
        have hres : allocate_block_result none s.block_count = (LFS_ERR_NOSPC, s.block_count) :=
          rfl
        rw [hres] at h
        simp only [if_true, Option.some.injEq, Prod.mk.injEq] at h
        obtain ⟨hc, hb, hs⟩ := h
        subst hs
        refine ⟨hwf, he, rfl, [], by simp, ?_, ?_⟩
        · intro hc2
          rw [← hc] at hc2
          exact absurd hc2 (by decide)
        · intro _
          exact ⟨hack, by simp⟩
      · rw [if_neg hack] at h
        by_cases herr : (trav s.trace.refills).2 ≠ 0
        · rw [if_pos herr] at h
          simp only [Option.some.injEq, Prod.mk.injEq] at h
          obtain ⟨hc, hb, hs⟩ := h
          rcases hcode with h0 | h0
          · rw [← hc] at h0
            exact absurd h0 herr
          · rw [← hc] at h0
            exact absurd h0 (htrav _)
        · rw [if_neg herr] at h
          have hwft := alloc_wf_refill s (trav s.trace.refills).1 hwf
          have het := alloc_examined_wf_refill s (trav s.trace.refills).1 hwf hieq he
          obtain ⟨b1, b2, b3, b4, b5, b6, b7, b8, b9, b10, b11⟩ :=
            lfs_alloc_lookahead_fold (trav s.trace.refills).1 (alloc_refill s)
          have hex0 : (alloc_refill s).trace.examined = s.trace.examined := rfl
          have hbc0 : (alloc_refill s).block_count = s.block_count := rfl
          generalize hfold : List.foldl (fun st b => (lfs_alloc_lookahead st b).2) (alloc_refill s)
            (trav s.trace.refills).1 = t at *
          obtain ⟨i1, i2, i3, new, n1, n2, n3⟩ :=
            lfs_alloc_examined trav htrav fuel t code b s' hwft het h hcode
          exact ⟨i1, i2, by rw [i3, b1, hbc0], new, by rw [n1, b8, hex0], n2, n3⟩


theorem lfs_alloc_calls_examined (trav : Nat → List Nat × Int)
    (htrav : ∀ n, (trav n).2 ≠ LFS_ERR_NOSPC) (fuel : Nat) :
    ∀ (n : Nat) (s : lfs_alloc_state) (blocks : List Nat) (s' : lfs_alloc_state),
      alloc_wf s → alloc_examined_wf s →
      lfs_alloc_calls trav none fuel (List.replicate n false) s = some (blocks, s') →
        alloc_wf s' ∧ alloc_examined_wf s' ∧ s'.block_count = s.block_count
          ∧ ∃ new, s'.trace.examined = s.trace.examined ++ new
              ∧ (new.filter (fun e => !e.2)).map Prod.fst = blocks
  | 0, s, blocks, s', hwf, he, h => by
    simp only [List.replicate, lfs_alloc_calls, Option.some.injEq, Prod.mk.injEq] at h
    obtain ⟨hb, hs⟩ := h
    subst hb; subst hs
    exact ⟨hwf, he, rfl, [], by simp, rfl⟩
  | n + 1, s, blocks, s', hwf, he, h => by
    rw [List.replicate_succ] at h
    unfold lfs_alloc_calls at h
    have hs0 : (if false = true then lfs_alloc_ack s else s) = s := rfl
    rw [hs0] at h
    cases h1 : lfs_alloc trav none fuel s with
    | none => simp [h1] at h
    | some r =>
      obtain ⟨code, b, s1⟩ := r
      simp only [h1] at h
      by_cases hc : code = LFS_ERR_OK
      · rw [if_pos hc] at h
        cases h2 : lfs_alloc_calls trav none fuel (List.replicate n false) s1 with
        | none => simp [h2] at h
        | some r2 =>
          obtain ⟨bl, s2⟩ := r2
          simp only [h2, Option.some.injEq, Prod.mk.injEq] at h
          obtain ⟨hb, hs⟩ := h
          subst hb; subst hs
          obtain ⟨a1, a2, a3, new1, m1, m2, _⟩ :=
            lfs_alloc_examined trav htrav fuel s code b s1 hwf he h1 (Or.inl hc)
          obtain ⟨c1, c2, c3, new2, m3, m4⟩ :=
            lfs_alloc_calls_examined trav htrav fuel n s1 bl s2 a1 a2 h2
          refine ⟨c1, c2, by rw [c3, a3], new1 ++ new2, ?_, ?_⟩
          · rw [m3, m1, List.append_assoc]
          · rw [List.filter_append, List.map_append, m2 hc, m4]
            rfl
      · rw [if_neg hc] at h
        simp at h

theorem lfs_alloc_terminates (trav : Nat → List Nat × Int) :
    ∀ fuel s, alloc_wf s → 0 < s.lookahead_size → s.lookahead_size < 1152921504606846976 →
      2 * s.free.ack + (if s.free.i = s.free.size then 1 else 0) < fuel →
      ∃ code b s', lfs_alloc trav none fuel s = some (code, b, s')
        ∧ (code = LFS_ERR_OK ∨ code = LFS_ERR_NOSPC ∨ (code ≠ 0 ∧ ∃ n, code = (trav n).2))
        ∧ s'.trace.refills + (if s.free.i = s.free.size then 0 else 1)
            ≤ s.trace.refills + s.free.ack
  | 0, s, _, _, _, hf => by omega
  | fuel + 1, s, hwf, hl1, hl2, hf => by
    obtain ⟨w1, w2, w3, w4, w5, w6, w7, w8⟩ := hwf
    have hwf : alloc_wf s := ⟨w1, w2, w3, w4, w5, w6, w7, w8⟩
    unfold lfs_alloc
    by_cases hne : s.free.i ≠ s.free.size
    · rw [if_pos hne]
      rw [if_neg hne] at hf ⊢
      have hlt : s.free.i < s.free.size := by omega
      have hadv := same_window_advance s hlt (by omega) w6 (by omega)
      have hwfa := alloc_wf_same_window s _ hwf hadv
      obtain ⟨a1, a2, a3, a4, a5, a6, a7, a8, a9, a10, a11⟩ := hadv
      have hi1 : (alloc_advance s).free.i = s.free.i + 1 := by
        show wrap64 _ = _
        unfold wrap64; omega
      by_cases hbit : ¬ s.free.buffer.testBit s.free.i = true
      · rw [if_pos hbit]
        obtain ⟨t, t1, t2, _⟩ := lfs_alloc_skip_spec fuel (alloc_advance s) a9
          (by omega) (by omega) (by omega) (by omega)
        rw [t1]
        refine ⟨LFS_ERR_OK, window_block s s.free.i, t, rfl, Or.inl rfl, ?_⟩
        have := t2.2.2.2.2.2.1
        omega
      · rw [if_neg hbit]
        obtain ⟨code, b, s', r1, r2, r3⟩ := lfs_alloc_terminates trav fuel (alloc_advance s)
          hwfa (by rw [a2]; exact hl1) (by rw [a2]; exact hl2) (by split <;> omega)
        refine ⟨code, b, s', r1, r2, ?_⟩
        have h6 : (alloc_advance s).trace.refills = s.trace.refills := a6
        split at r3 <;> omega
    · rw [if_neg hne]
      have hieq : s.free.i = s.free.size := by omega
      rw [if_pos hieq] at hf ⊢
      by_cases hack : s.free.ack = 0
      · rw [if_pos hack]
        have hres : allocate_block_result none s.block_count = (LFS_ERR_NOSPC, s.block_count) :=
          rfl
        rw [hres]
        simp only [if_true]
        exact ⟨_, _, _, rfl, Or.inr (Or.inl rfl), by show s.trace.refills + 0 ≤ _; omega⟩
      · rw [if_neg hack]
        obtain ⟨b1, b2, b3, b4, b5, b6, b7, b8, b9, b10, b11⟩ :=
          lfs_alloc_lookahead_fold (trav s.trace.refills).1 (alloc_refill s)
        have hwft := alloc_wf_refill s (trav s.trace.refills).1 hwf
        have hr1 : (alloc_refill s).trace.refills = s.trace.refills + 1 := rfl
        have hi0 : (alloc_refill s).free.i = 0 := rfl
        have hack0 : (alloc_refill s).free.ack = s.free.ack := rfl
        have hla0 : (alloc_refill s).lookahead_size = s.lookahead_size := rfl
        have hsz : 0 < (alloc_refill s).free.size := by
          show 0 < lfs_min (wrap64 (16 * s.lookahead_size)) s.free.ack
          unfold lfs_min wrap64
          split <;> omega
        generalize hfold : List.foldl (fun st b => (lfs_alloc_lookahead st b).2) (alloc_refill s)
          (trav s.trace.refills).1 = t at *
        by_cases herr : (trav s.trace.refills).2 ≠ 0
        · rw [if_pos herr]
          refine ⟨_, _, _, rfl, Or.inr (Or.inr ⟨herr, _, rfl⟩), ?_⟩
          show t.trace.refills + 0 ≤ _
          omega
        · rw [if_neg herr]
          obtain ⟨code, b, s', r1, r2, r3⟩ := lfs_alloc_terminates trav fuel t
            hwft (by rw [b2, hla0]; exact hl1) (by rw [b2, hla0]; exact hl2)
            (by rw [b6, hack0]; split <;> omega)
          refine ⟨code, b, s', r1, r2, ?_⟩
          rw [if_neg (by omega)] at r3
          omega


theorem consecutive_perm (bc p0 : Nat) :
    ((List.range bc).map (fun j => (p0 + j) % bc)).Perm (List.range bc) := by
  rcases Nat.eq_zero_or_pos bc with h0 | hpos
  · subst h0; simp
  apply List.Subperm.perm_of_length_le
  · apply List.subperm_of_subset
    · apply List.Nodup.map_on _ (List.nodup_range bc)
      intro j hj k hk hjk
      have hj2 := List.mem_range.1 hj
      have hk2 := List.mem_range.1 hk
      have h1 : j ≡ k [MOD bc] := Nat.ModEq.add_left_cancel' p0 hjk
      exact Nat.ModEq.eq_of_lt_of_lt h1 hj2 hk2
    · intro x hx
      obtain ⟨j, _, rfl⟩ := List.mem_map.1 hx
      exact List.mem_range.2 (Nat.mod_lt _ hpos)
  · simp

/-! ### C9: when `lfs_alloc` gives up -/

/-- C9 (amended): no `allocate_block` callback, a device of at most `2 ^ 63`
blocks, lookahead size in `(0, 2 ^ 60)`, traversals that never return
`LFS_ERR_NOSPC` themselves.  After `lfs_alloc_ack` and `n` successful calls
that returned `blocks`, the next call with enough fuel returns: with a block,
with `LFS_ERR_NOSPC`, or with the error of a failed traversal, after at most
`ack` window refills.  When it returns `LFS_ERR_NOSPC`, `ack` is 0 and exactly
`block_count` positions were examined since the acknowledgement; their blocks
are consecutive modulo `block_count`, so every block index occurs once; the
positions found clear are exactly those of the `blocks` handed out since the
acknowledgement, and every position the failing call itself examined had its
bit set. -/
theorem C9_alloc_nospc_after_full_sweep (trav : Nat → List Nat × Int) (fuel n : Nat)
    (s s1 : lfs_alloc_state) (blocks : List Nat)
    (htrav : ∀ m, (trav m).2 ≠ LFS_ERR_NOSPC)
    (hwf : alloc_wf s)
    (hl1 : 0 < s1.lookahead_size) (hl2 : s1.lookahead_size < 1152921504606846976)
    (hcalls : lfs_alloc_calls trav none fuel (List.replicate n false) (lfs_alloc_ack s)
      = some (blocks, s1))
    (hfuel : 2 * s.block_count + 1 < fuel) :
    ∃ code b s', lfs_alloc trav none fuel s1 = some (code, b, s')
      ∧ (code = LFS_ERR_OK ∨ code = LFS_ERR_NOSPC ∨ (code ≠ 0 ∧ ∃ m, code = (trav m).2))
      ∧ s'.trace.refills ≤ s1.trace.refills + s1.free.ack
      ∧ (code = LFS_ERR_NOSPC →
          s'.free.ack = 0
            ∧ s'.trace.examined.length = s'.block_count
            ∧ (∃ p0, s'.trace.examined.map Prod.fst
                = (List.range s'.block_count).map (fun j => (p0 + j) % s'.block_count))
            ∧ (s'.trace.examined.map Prod.fst).Perm (List.range s'.block_count)
            ∧ (s'.trace.examined.filter (fun e => !e.2)).map Prod.fst = blocks
            ∧ ∃ new, s'.trace.examined = s1.trace.examined ++ new ∧ ∀ e ∈ new, e.2 = true) := by
  obtain ⟨c1, c2, c3, new1, m1, m2⟩ := lfs_alloc_calls_examined trav htrav fuel n
    (lfs_alloc_ack s) blocks s1 (alloc_wf_ack s hwf) (alloc_examined_wf_ack s) hcalls
  have hbc : s1.block_count = s.block_count := c3
  have hack : s1.free.ack ≤ s1.block_count := c1.2.2.2.2.2.2.1
  obtain ⟨code, b, s', r1, r2, r3⟩ := lfs_alloc_terminates trav fuel s1 c1 hl1 hl2
    (by split <;> omega)
  refine ⟨code, b, s', r1, r2, by split at r3 <;> omega, ?_⟩
  intro hc
  obtain ⟨_, ⟨e1, p0, e2, e3⟩, _, new, n1, _, n3⟩ :=
    lfs_alloc_examined trav htrav fuel s1 code b s' c1 c2 r1 (Or.inr hc)
  obtain ⟨hz, hall⟩ := n3 hc
  have hlen : s'.trace.examined.length = s'.block_count := by omega
  refine ⟨hz, hlen, ⟨p0, by rw [e2, hlen]⟩, ?_, ?_, new, n1, hall⟩
  · rw [e2, hlen]
    exact consecutive_perm _ _
  · have h0 : (lfs_alloc_ack s).trace.examined = [] := rfl
    rw [n1, m1, h0, List.nil_append, List.filter_append, filter_clear_of_all_set new hall,
      List.append_nil, m2]


/-- Witness for C9: eight blocks, lookahead offset 0, blocks 0, 1, 2 and 5 in
use.  After the acknowledgement four calls return blocks 3, 4, 6 and 7; the
fifth call returns `LFS_ERR_NOSPC` with all eight positions examined. -/
theorem C9_alloc_nospc_after_full_sweep_witness :
    lfs_alloc_calls (fun _ => ([0, 1, 2, 5], 0)) none 20 (List.replicate 4 false)
        (lfs_alloc_ack ⟨8, 8, ⟨0, 0, 0, 8, 0⟩, ⟨0, [], []⟩⟩)
      = some ([3, 4, 6, 7],
          ⟨8, 8, ⟨0, 8, 8, 0, 39⟩,
            ⟨1, [0, 1, 2, 5], [(0, true), (1, true), (2, true), (3, false), (4, false),
              (5, true), (6, false), (7, false)]⟩⟩)
      ∧ lfs_alloc (fun _ => ([0, 1, 2, 5], 0)) none 20
          ⟨8, 8, ⟨0, 8, 8, 0, 39⟩,
            ⟨1, [0, 1, 2, 5], [(0, true), (1, true), (2, true), (3, false), (4, false),
              (5, true), (6, false), (7, false)]⟩⟩
        = some (LFS_ERR_NOSPC, 0,
          ⟨8, 8, ⟨0, 8, 8, 0, 39⟩,
            ⟨1, [0, 1, 2, 5], [(0, true), (1, true), (2, true), (3, false), (4, false),
              (5, true), (6, false), (7, false)]⟩⟩)
      ∧ ∃ code b s', lfs_alloc (fun _ => ([0, 1, 2, 5], 0)) none 20
            ⟨8, 8, ⟨0, 8, 8, 0, 39⟩,
              ⟨1, [0, 1, 2, 5], [(0, true), (1, true), (2, true), (3, false), (4, false),
                (5, true), (6, false), (7, false)]⟩⟩ = some (code, b, s')
          ∧ (code = LFS_ERR_NOSPC →
              s'.trace.examined.length = s'.block_count
                ∧ (s'.trace.examined.map Prod.fst).Perm (List.range s'.block_count)
                ∧ (s'.trace.examined.filter (fun e => !e.2)).map Prod.fst = [3, 4, 6, 7]) := by
  have hwf : alloc_wf ⟨8, 8, ⟨0, 0, 0, 8, 0⟩, ⟨0, [], []⟩⟩ := by
    refine ⟨by decide, by decide, by decide, by decide, by decide, by decide, by decide, ?_⟩
    intro h
    exact absurd h (by decide)
  have h1 : lfs_alloc_calls (fun _ => ([0, 1, 2, 5], 0)) none 20 (List.replicate 4 false)
        (lfs_alloc_ack ⟨8, 8, ⟨0, 0, 0, 8, 0⟩, ⟨0, [], []⟩⟩)
      = some ([3, 4, 6, 7],
          ⟨8, 8, ⟨0, 8, 8, 0, 39⟩,
            ⟨1, [0, 1, 2, 5], [(0, true), (1, true), (2, true), (3, false), (4, false),
              (5, true), (6, false), (7, false)]⟩⟩) := by decide
  obtain ⟨code, b, s', r1, _, _, r4⟩ :=
    C9_alloc_nospc_after_full_sweep (fun _ => ([0, 1, 2, 5], 0)) 20 4 _ _ [3, 4, 6, 7]
      (fun _ => show (0 : Int) ≠ LFS_ERR_NOSPC by decide) hwf (by decide) (by decide) h1
      (by decide)
  refine ⟨h1, by decide, code, b, s', r1, ?_⟩
  intro hc
  obtain ⟨_, q1, _, q2, q3, _⟩ := r4 hc
  exact ⟨q1, q2, q3⟩

/-- C9 (counterexample to the unamended claim): four blocks, blocks 0 and 1 in
use.  After `lfs_alloc_ack` two calls return blocks 2 and 3; the third call
returns `LFS_ERR_NOSPC` with `ack = 0`, although two of the four positions
examined since the acknowledgement were found clear. -/
theorem C9_alloc_counterexample :
    ((lfs_alloc_calls (fun _ => ([0, 1], 0)) none 12 [true, false]
        ⟨4, 8, ⟨0, 0, 0, 4, 0⟩, ⟨0, [], []⟩⟩).bind
      (fun r => (lfs_alloc (fun _ => ([0, 1], 0)) none 12 r.2).map
        (fun q => (r.1, q.1, q.2.2.free.ack, q.2.2.trace.examined))))
      = some ([2, 3], LFS_ERR_NOSPC, 0, [(0, true), (1, true), (2, false), (3, false)]) := by
  decide


/-! ### The scan of `lfs_dir_fetchmatch`: what a pass through the loop reads -/

theorem lfs_bd_read_congr (g : Geometry) (d1 d2 : Disk) (block n offset size : Nat)
    (ha : agree_below d1 d2 block n)
    (h : ∀ bytes, lfs_bd_read g d2 block offset size = .ok bytes → offset + size ≤ n) :
    lfs_bd_read g d1 block offset size = lfs_bd_read g d2 block offset size := by
  unfold lfs_bd_read at h ⊢
  by_cases hc : block ≥ g.block_count ∨ wrap64 (offset + size) > g.block_size
  · rw [if_pos hc, if_pos hc]
  · rw [if_neg hc] at h
    rw [if_neg hc, if_neg hc]
    have hn := h _ rfl
    congr 1
    apply List.map_congr_left
    intro j hj
    have := List.mem_range.1 hj
    exact ha _ (by omega)

theorem lfs_bd_read_error (g : Geometry) (d : Disk) (block offset size : Nat) (err : Int)
    (h : lfs_bd_read g d block offset size = .error err) : err = LFS_ERR_CORRUPT := by
  unfold lfs_bd_read at h
  split at h
  · injection h with h; exact h.symm
  · cases h

theorem lfs_tag_dsize_ge (tag : Nat) : 4 ≤ lfs_tag_dsize tag := by
  unfold lfs_tag_dsize; omega

theorem lfs_tag_dsize_le (tag : Nat) : lfs_tag_dsize tag ≤ 1027 := by
  unfold lfs_tag_dsize lfs_tag_size
  have := @Nat.and_le_right (wrap32 (tag + if lfs_tag_isdelete tag = true then 1 else 0)) 1023
  omega

theorem fetch_step_crc_read_end (g : Geometry) (d : Disk) (block : Nat) (s : fetch_state)
    (tag : Nat) :
    s.read_end ≤ (fetch_step_crc g d block s tag).1.read_end
      ∧ ((fetch_step_crc g d block s tag).1.dir = s.dir
          ∧ (fetch_step_crc g d block s tag).1.dir_read_end = s.dir_read_end
        ∨ (fetch_step_crc g d block s tag).1.dir_read_end
            = (fetch_step_crc g d block s tag).1.read_end) := by
  unfold fetch_step_crc
  split
  · split <;> simp
  · split <;> simp

theorem fetch_step_crc_congr (g : Geometry) (d1 d2 : Disk) (block n : Nat) (s : fetch_state)
    (tag : Nat) (ha : agree_below d1 d2 block n)
    (h : (fetch_step_crc g d2 block s tag).1.read_end ≤ n) :
    fetch_step_crc g d1 block s tag = fetch_step_crc g d2 block s tag := by
  have hr : lfs_bd_read g d1 block (wrap64 (s.offset + 4)) 4
      = lfs_bd_read g d2 block (wrap64 (s.offset + 4)) 4 := by
    apply lfs_bd_read_congr g d1 d2 block n _ _ ha
    intro bytes hb
    simp only [fetch_step_crc, hb] at h
    split at h <;> simp only [sup_le_iff] at h <;> exact h.2
  unfold fetch_step_crc
  rw [hr]


theorem fetch_step_modify_read_end (g : Geometry) (d : Disk) (block : Nat) (s : fetch_state)
    (tag : Nat) :
    s.read_end ≤ (fetch_step_modify g d block s tag).1.read_end
      ∧ (fetch_step_modify g d block s tag).1.dir = s.dir
      ∧ (fetch_step_modify g d block s tag).1.dir_read_end = s.dir_read_end
      ∧ (fetch_step_modify g d block s tag).1.offset = s.offset := by
  unfold fetch_step_modify
  split
  · split <;> simp
  · split
    · simp
    · split
      · split
        · split <;> simp
        · simp
      · simp

theorem fetch_step_modify_congr (g : Geometry) (d1 d2 : Disk) (block n : Nat) (s : fetch_state)
    (tag : Nat) (ha : agree_below d1 d2 block n)
    (h : (fetch_step_modify g d2 block s tag).1.read_end ≤ n) :
    fetch_step_modify g d1 block s tag = fetch_step_modify g d2 block s tag := by
  by_cases ht : lfs_tag_type1 tag = LFS_TYPE_TAIL
  · have hr : lfs_bd_read g d1 block (wrap64 (s.offset + 4)) 16
        = lfs_bd_read g d2 block (wrap64 (s.offset + 4)) 16 := by
      apply lfs_bd_read_congr g d1 d2 block n _ _ ha
      intro bytes hb
      have h1 : lfs_tag_type1 tag ≠ LFS_TYPE_NAME := by rw [ht]; decide
      have h2 : lfs_tag_type1 tag ≠ LFS_TYPE_SPLICE := by rw [ht]; decide
      simp only [fetch_step_modify, if_neg h1, if_neg h2, if_pos ht, hb, sup_le_iff] at h
      exact h.2
    unfold fetch_step_modify
    rw [hr]
  · unfold fetch_step_modify
    rw [if_neg ht, if_neg ht]

theorem fetch_step_match_read_end (d : Disk) (block fmask ftag : Nat)
    (cb : Nat → List Nat → Int) (s : fetch_state) (tag : Nat) :
    (fetch_step_match d block fmask ftag cb s tag).1.read_end = s.read_end
      ∧ (fetch_step_match d block fmask ftag cb s tag).1.dir = s.dir
      ∧ (fetch_step_match d block fmask ftag cb s tag).1.dir_read_end = s.dir_read_end := by
  unfold fetch_step_match
  split
  · split
    · split <;> simp
    · split
      · simp
      · split
        · simp
        · split <;> simp
  · simp

theorem fetch_step_match_congr (d1 d2 : Disk) (block n fmask ftag : Nat)
    (cb : Nat → List Nat → Int) (s : fetch_state) (tag : Nat) (ha : agree_below d1 d2 block n)
    (h : s.offset + lfs_tag_dsize tag ≤ n) :
    fetch_step_match d1 block fmask ftag cb s tag
      = fetch_step_match d2 block fmask ftag cb s tag := by
  have hp : (List.range (lfs_tag_dsize tag - 4)).map (fun j => d1 block (s.offset + 4 + j))
      = (List.range (lfs_tag_dsize tag - 4)).map (fun j => d2 block (s.offset + 4 + j)) := by
    apply List.map_congr_left
    intro j hj
    have := List.mem_range.1 hj
    exact ha _ (by omega)
  unfold fetch_step_match
  rw [hp]

theorem fetch_crc_entry_congr (g : Geometry) (d1 d2 : Disk) (block n offset dsize : Nat)
    (ha : agree_below d1 d2 block n) (h : offset + dsize ≤ n) :
    ∀ fuel j crc, fetch_crc_entry g d1 block offset dsize fuel j crc
      = fetch_crc_entry g d2 block offset dsize fuel j crc
  | 0, j, crc => rfl
  | fuel + 1, j, crc => by
    unfold fetch_crc_entry
    by_cases hj : j < dsize
    · rw [if_pos hj, if_pos hj]
      rw [lfs_bd_read_congr g d1 d2 block n (offset + j) 1 ha (fun _ _ => by omega)]
      cases lfs_bd_read g d2 block (offset + j) 1 with
      | error err => rfl
      | ok dat => exact fetch_crc_entry_congr g d1 d2 block n offset dsize ha h fuel _ _
    · rw [if_neg hj, if_neg hj]

theorem fetch_crc_entry_ok (g : Geometry) (d : Disk) (block offset dsize : Nat) :
    ∀ fuel j crc, ∃ r, fetch_crc_entry g d block offset dsize fuel j crc = .ok r
  | 0, j, crc => ⟨_, rfl⟩
  | fuel + 1, j, crc => by
    unfold fetch_crc_entry
    by_cases hj : j < dsize
    · rw [if_pos hj]
      cases hr : lfs_bd_read g d block (offset + j) 1 with
      | error err =>
        have := lfs_bd_read_error g d block _ _ err hr
        exact ⟨(crc, true), by simp [this]⟩
      | ok dat => exact fetch_crc_entry_ok g d block offset dsize fuel _ _
    · rw [if_neg hj]
      exact ⟨_, rfl⟩


theorem fetch_step_entry_read_end (g : Geometry) (d : Disk) (block fmask ftag : Nat)
    (cb : Nat → List Nat → Int) (s : fetch_state) (tag : Nat) :
    max s.read_end (s.offset + lfs_tag_dsize tag)
        ≤ (fetch_step_entry g d block fmask ftag cb s tag).1.read_end
      ∧ (fetch_step_entry g d block fmask ftag cb s tag).1.dir = s.dir
      ∧ (fetch_step_entry g d block fmask ftag cb s tag).1.dir_read_end = s.dir_read_end := by
  obtain ⟨r, hr⟩ := fetch_crc_entry_ok g d block s.offset (lfs_tag_dsize tag)
    (lfs_tag_dsize tag) 4 s.crc
  unfold fetch_step_entry
  rw [hr]
  dsimp only
  have e1 : (fetch_entry_state s r tag).read_end
      = max s.read_end (s.offset + lfs_tag_dsize tag) := rfl
  have e2 : (fetch_entry_state s r tag).dir = s.dir := rfl
  have e3 : (fetch_entry_state s r tag).dir_read_end = s.dir_read_end := rfl
  generalize fetch_entry_state s r tag = s1 at *
  obtain ⟨m1, m2, m3, _⟩ := fetch_step_modify_read_end g d block s1 tag
  split
  · obtain ⟨n1, n2, n3⟩ := fetch_step_match_read_end d block fmask ftag cb
      (fetch_step_modify g d block s1 tag).1 tag
    rw [n1, n2, n3, m2, m3, e2, e3, ← e1]
    exact ⟨m1, rfl, rfl⟩
  · rw [m2, m3, e2, e3, ← e1]
    exact ⟨m1, rfl, rfl⟩

theorem fetch_step_entry_congr (g : Geometry) (d1 d2 : Disk) (block n fmask ftag : Nat)
    (cb : Nat → List Nat → Int) (s : fetch_state) (tag : Nat) (ha : agree_below d1 d2 block n)
    (h : (fetch_step_entry g d2 block fmask ftag cb s tag).1.read_end ≤ n) :
    fetch_step_entry g d1 block fmask ftag cb s tag
      = fetch_step_entry g d2 block fmask ftag cb s tag := by
  have hre := (fetch_step_entry_read_end g d2 block fmask ftag cb s tag).1
  have hn : s.offset + lfs_tag_dsize tag ≤ n := le_trans (le_trans (le_max_right _ _) hre) h
  obtain ⟨r, hr⟩ := fetch_crc_entry_ok g d2 block s.offset (lfs_tag_dsize tag)
    (lfs_tag_dsize tag) 4 s.crc
  have hr1 := fetch_crc_entry_congr g d1 d2 block n s.offset (lfs_tag_dsize tag) ha hn
    (lfs_tag_dsize tag) 4 s.crc
  unfold fetch_step_entry at h ⊢
  rw [hr1, hr]
  rw [hr] at h
  dsimp only at h ⊢
  have e4 : (fetch_entry_state s r tag).offset = s.offset := rfl
  generalize fetch_entry_state s r tag = s1 at *
  obtain ⟨_, _, _, m4⟩ := fetch_step_modify_read_end g d2 block s1 tag
  have hm : (fetch_step_modify g d2 block s1 tag).1.read_end ≤ n := by
    split at h
    · rw [(fetch_step_match_read_end d2 block fmask ftag cb _ tag).1] at h
      exact h
    · exact h
  rw [fetch_step_modify_congr g d1 d2 block n s1 tag ha hm]
  split
  · exact fetch_step_match_congr d1 d2 block n fmask ftag cb _ tag ha (by rw [m4, e4]; exact hn)
  · rfl


theorem fetch_step_read_end (g : Geometry) (d : Disk) (write_size block fmask ftag : Nat)
    (cb : Nat → List Nat → Int) (s : fetch_state) :
    s.read_end ≤ (fetch_step g d write_size block fmask ftag cb s).1.read_end
      ∧ ((fetch_step g d write_size block fmask ftag cb s).1.dir = s.dir
          ∧ (fetch_step g d write_size block fmask ftag cb s).1.dir_read_end = s.dir_read_end
        ∨ (fetch_step g d write_size block fmask ftag cb s).1.dir_read_end
            = (fetch_step g d write_size block fmask ftag cb s).1.read_end) := by
  unfold fetch_step
  split
  · split <;> simp
  · rename_i raw _
    have e0 : s.read_end ≤ (fetch_tag_state s raw).read_end := le_max_left _ _
    split
    · exact ⟨e0, Or.inl ⟨rfl, rfl⟩⟩
    · split
      · exact ⟨e0, Or.inl ⟨rfl, rfl⟩⟩
      · split
        · obtain ⟨c1, c2⟩ := fetch_step_crc_read_end g d block
            { fetch_tag_state s raw with ptag := lfs_frombe32 raw ^^^ s.ptag }
            (lfs_frombe32 raw ^^^ s.ptag)
          exact ⟨le_trans e0 c1, c2⟩
        · obtain ⟨c1, c2, c3⟩ := fetch_step_entry_read_end g d block fmask ftag cb
            { fetch_tag_state s raw with ptag := lfs_frombe32 raw ^^^ s.ptag }
            (lfs_frombe32 raw ^^^ s.ptag)
          exact ⟨le_trans e0 (le_trans (le_max_left _ _) c1), Or.inl ⟨c2, c3⟩⟩

theorem fetch_step_congr (g : Geometry) (d1 d2 : Disk) (write_size block n fmask ftag : Nat)
    (cb : Nat → List Nat → Int) (s : fetch_state) (ha : agree_below d1 d2 block n)
    (h : (fetch_step g d2 write_size block fmask ftag cb s).1.read_end ≤ n) :
    fetch_step g d1 write_size block fmask ftag cb s
      = fetch_step g d2 write_size block fmask ftag cb s := by
  have hr : lfs_bd_read g d1 block (wrap64 (s.offset + lfs_tag_dsize s.ptag)) 4
      = lfs_bd_read g d2 block (wrap64 (s.offset + lfs_tag_dsize s.ptag)) 4 := by
    apply lfs_bd_read_congr g d1 d2 block n _ _ ha
    intro raw hb
    have e0 : wrap64 (s.offset + lfs_tag_dsize s.ptag) + 4 ≤ (fetch_tag_state s raw).read_end :=
      le_max_right _ _
    simp only [fetch_step, hb] at h
    split at h
    · exact le_trans e0 h
    · split at h
      · exact le_trans e0 h
      · split at h
        · have h2 := le_trans (fetch_step_crc_read_end g d2 block _ _).1 h
          exact le_trans e0 h2
        · have h2 := le_trans (fetch_step_entry_read_end g d2 block fmask ftag cb _ _).1 h
          exact le_trans e0 (le_trans (le_max_left _ _) h2)
  unfold fetch_step at h ⊢
  rw [hr]
  cases hb : lfs_bd_read g d2 block (wrap64 (s.offset + lfs_tag_dsize s.ptag)) 4 with
  | error err => rfl
  | ok raw =>
    rw [hb] at h
    dsimp only at h ⊢
    split
    · rfl
    · rename_i h1
      rw [if_neg h1] at h
      split
      · rfl
      · rename_i h2
        rw [if_neg h2] at h
        split
        · rename_i h3
          rw [if_pos h3] at h
          exact fetch_step_crc_congr g d1 d2 block n _ _ ha h
        · rename_i h3
          rw [if_neg h3] at h
          exact fetch_step_entry_congr g d1 d2 block n fmask ftag cb _ _ ha h


theorem fetch_step_crc_offset (g : Geometry) (d : Disk) (block : Nat) (s : fetch_state)
    (tag : Nat) : (fetch_step_crc g d block s tag).1.offset = s.offset := by
  unfold fetch_step_crc
  split
  · split <;> rfl
  · split <;> rfl

theorem fetch_step_match_offset (d : Disk) (block fmask ftag : Nat)
    (cb : Nat → List Nat → Int) (s : fetch_state) (tag : Nat) :
    (fetch_step_match d block fmask ftag cb s tag).1.offset = s.offset := by
  unfold fetch_step_match
  split
  · split
    · split <;> rfl
    · split
      · rfl
      · split
        · rfl
        · split <;> rfl
  · rfl

theorem fetch_step_entry_offset (g : Geometry) (d : Disk) (block fmask ftag : Nat)
    (cb : Nat → List Nat → Int) (s : fetch_state) (tag : Nat) :
    (fetch_step_entry g d block fmask ftag cb s tag).1.offset = s.offset := by
  unfold fetch_step_entry
  split
  · rfl
  · rename_i r _
    have e : (fetch_entry_state s r tag).offset = s.offset := rfl
    split
    · rw [fetch_step_match_offset, (fetch_step_modify_read_end g d block _ tag).2.2.2, e]
    · rw [(fetch_step_modify_read_end g d block _ tag).2.2.2, e]

theorem fetch_step_progress (g : Geometry) (d : Disk) (write_size block fmask ftag : Nat)
    (cb : Nat → List Nat → Int) (s : fetch_state)
    (hg : g.block_size ≤ 9223372036854775808) (hs : s.offset ≤ g.block_size)
    (h : (fetch_step g d write_size block fmask ftag cb s).2 = .next) :
    s.offset < (fetch_step g d write_size block fmask ftag cb s).1.offset
      ∧ (fetch_step g d write_size block fmask ftag cb s).1.offset ≤ g.block_size := by
  have h1 := lfs_tag_dsize_ge s.ptag
  have h2 := lfs_tag_dsize_le s.ptag
  have ho : wrap64 (s.offset + lfs_tag_dsize s.ptag) = s.offset + lfs_tag_dsize s.ptag := by
    unfold wrap64; omega
  unfold fetch_step at h ⊢
  cases hb : lfs_bd_read g d block (wrap64 (s.offset + lfs_tag_dsize s.ptag)) 4 with
  | error err =>
    rw [hb] at h
    dsimp only at h
    split at h <;> cases h
  | ok raw =>
    have hin : s.offset + lfs_tag_dsize s.ptag + 4 ≤ g.block_size := by
      unfold lfs_bd_read at hb
      split at hb
      · cases hb
      · rename_i hc
        rw [ho] at hc
        have : ¬ wrap64 (s.offset + lfs_tag_dsize s.ptag + 4) > g.block_size :=
          fun hx => hc (Or.inr hx)
        unfold wrap64 at this
        omega
    have e : (fetch_tag_state s raw).offset = s.offset + lfs_tag_dsize s.ptag := ho
    rw [hb] at h
    dsimp only at h ⊢
    split
    · rename_i h1
      rw [if_pos h1] at h
      cases h
    · rename_i h1
      rw [if_neg h1] at h
      split
      · rename_i h2
        rw [if_pos h2] at h
        cases h
      · split
        · rw [fetch_step_crc_offset]
          show s.offset < (fetch_tag_state s raw).offset ∧ (fetch_tag_state s raw).offset ≤ _
          rw [e]; omega
        · rw [fetch_step_entry_offset]
          show s.offset < (fetch_tag_state s raw).offset ∧ (fetch_tag_state s raw).offset ≤ _
          rw [e]; omega

theorem fetch_scan_terminates (g : Geometry) (d : Disk) (write_size block fmask ftag : Nat)
    (cb : Nat → List Nat → Int) (hg : g.block_size ≤ 9223372036854775808) :
    ∀ fuel s, s.offset ≤ g.block_size → g.block_size - s.offset < fuel →
      ∃ r, fetch_scan g d write_size block fmask ftag cb fuel s = some r
  | 0, s, _, hf => by omega
  | fuel + 1, s, hs, hf => by
    unfold fetch_scan
    split
    · rename_i hn
      obtain ⟨p1, p2⟩ := fetch_step_progress g d write_size block fmask ftag cb s hg hs hn
      exact fetch_scan_terminates g d write_size block fmask ftag cb hg fuel _ p2 (by omega)
    · exact ⟨_, rfl⟩

theorem fetch_scan_record (g : Geometry) (d : Disk) (write_size block fmask ftag : Nat)
    (cb : Nat → List Nat → Int) :
    ∀ fuel s t c, fetch_scan g d write_size block fmask ftag cb fuel s = some (t, c) →
      (t.dir = s.dir ∧ t.dir_read_end = s.dir_read_end)
        ∨ (fetch_step g d write_size block fmask ftag cb s).1.read_end ≤ t.dir_read_end
  | 0, s, t, c, h => by simp [fetch_scan] at h
  | fuel + 1, s, t, c, h => by
    unfold fetch_scan at h
    obtain ⟨q1, q2⟩ := fetch_step_read_end g d write_size block fmask ftag cb s
    split at h
    · rcases fetch_scan_record g d write_size block fmask ftag cb fuel _ t c h with ih | ih
      · rcases q2 with q | q
        · exact Or.inl ⟨ih.1.trans q.1, ih.2.trans q.2⟩
        · right
          rw [ih.2, q]
      · right
        exact le_trans (fetch_step_read_end g d write_size block fmask ftag cb _).1 ih
    · simp only [Option.some.injEq, Prod.mk.injEq] at h
      obtain ⟨ht, _⟩ := h
      subst ht
      rcases q2 with q | q
      · exact Or.inl q
      · right
        rw [q]

theorem agree_below_symm (d1 d2 : Disk) (block n : Nat) (h : agree_below d1 d2 block n) :
    agree_below d2 d1 block n := fun off ho => (h off ho).symm

theorem fetch_scan_congr (g : Geometry) (d1 d2 : Disk) (write_size block n fmask ftag : Nat)
    (cb : Nat → List Nat → Int) (ha : agree_below d1 d2 block n) :
    ∀ fuel s t1 c1 t2 c2,
      fetch_scan g d1 write_size block fmask ftag cb fuel s = some (t1, c1) →
      fetch_scan g d2 write_size block fmask ftag cb fuel s = some (t2, c2) →
      t1.dir_read_end ≤ n → t2.dir_read_end ≤ n → t1.dir = t2.dir
  | 0, s, t1, c1, t2, c2, h1, _, _, _ => by simp [fetch_scan] at h1
  | fuel + 1, s, t1, c1, t2, c2, h1, h2, hn1, hn2 => by
    rcases fetch_scan_record g d1 write_size block fmask ftag cb _ s t1 c1 h1 with r1 | r1
    · rcases fetch_scan_record g d2 write_size block fmask ftag cb _ s t2 c2 h2 with r2 | r2
      · rw [r1.1, r2.1]
      · have hc := fetch_step_congr g d1 d2 write_size block n fmask ftag cb s ha
          (le_trans r2 hn2)
        unfold fetch_scan at h1 h2
        rw [hc] at h1
        split at h2
        · rename_i hx
          rw [if_pos hx] at h1
          exact fetch_scan_congr g d1 d2 write_size block n fmask ftag cb ha fuel _ t1 c1 t2 c2
            h1 h2 hn1 hn2
        · rename_i hx
          rw [if_neg hx] at h1
          rw [h1] at h2
          simp only [Option.some.injEq, Prod.mk.injEq] at h2
          rw [h2.1]
    · have hc := fetch_step_congr g d2 d1 write_size block n fmask ftag cb s
        (agree_below_symm d1 d2 block n ha) (le_trans r1 hn1)
      unfold fetch_scan at h1 h2
      rw [hc] at h2
      split at h1
      · rename_i hx
        rw [if_pos hx] at h2
        exact fetch_scan_congr g d1 d2 write_size block n fmask ftag cb ha fuel _ t1 c1 t2 c2
          h1 h2 hn1 hn2
      · rename_i hx
        rw [if_neg hx] at h2
        rw [h1] at h2
        simp only [Option.some.injEq, Prod.mk.injEq] at h2
        rw [h2.1]


theorem fetch_step_crc_records (g : Geometry) (d : Disk) (block : Nat) (s : fetch_state)
    (tag : Nat) (h : (fetch_step_crc g d block s tag).1.dir ≠ s.dir) :
    ∃ sum, lfs_bd_read g d block (wrap64 (s.offset + 4)) 4 = .ok sum
      ∧ s.crc = lfs_fromle32 sum := by
  unfold fetch_step_crc at h
  cases hb : lfs_bd_read g d block (wrap64 (s.offset + 4)) 4 with
  | error err =>
    rw [hb] at h
    dsimp only at h
    split at h <;> exact absurd rfl h
  | ok sum =>
    rw [hb] at h
    dsimp only at h
    by_cases hc : s.crc ≠ lfs_fromle32 sum
    · rw [if_pos hc] at h
      exact absurd rfl h
    · exact ⟨sum, rfl, not_not.1 hc⟩

theorem fetch_step_records (g : Geometry) (d : Disk) (write_size block fmask ftag : Nat)
    (cb : Nat → List Nat → Int) (s : fetch_state)
    (h : (fetch_step g d write_size block fmask ftag cb s).1.dir ≠ s.dir) :
    ∃ raw sum, lfs_bd_read g d block (wrap64 (s.offset + lfs_tag_dsize s.ptag)) 4 = .ok raw
      ∧ lfs_tag_type1 (lfs_frombe32 raw ^^^ s.ptag) = LFS_TYPE_CRC
      ∧ lfs_bd_read g d block (wrap64 (wrap64 (s.offset + lfs_tag_dsize s.ptag) + 4)) 4 = .ok sum
      ∧ lfs_crc s.crc raw = lfs_fromle32 sum := by
  unfold fetch_step at h
  cases hb : lfs_bd_read g d block (wrap64 (s.offset + lfs_tag_dsize s.ptag)) 4 with
  | error err =>
    rw [hb] at h
    dsimp only at h
    split at h <;> exact absurd rfl h
  | ok raw =>
    rw [hb] at h
    dsimp only at h
    split at h
    · exact absurd rfl h
    · split at h
      · exact absurd rfl h
      · split at h
        · rename_i h3
          obtain ⟨sum, s1, s2⟩ := fetch_step_crc_records g d block _ _ h
          exact ⟨raw, sum, rfl, h3, s1, s2⟩
        · exact absurd (fetch_step_entry_read_end g d block fmask ftag cb _ _).2.1 h

/-! ### C2: a torn append is invisible -/

/-- C2: the scan of `lfs_dir_fetchmatch` over a block terminates, changes
the recorded directory state (offset, etag, count, tail, split) only in a
pass that read a CRC tag whose stored checksum equals the running checksum,
and is blind to what follows the commits: if two disks hold the same bytes
below offset `n` of the block (one with the torn append, one erased), and on
each the last record was made having read only bytes below `n` (no CRC tag
with a matching checksum was met in the bytes from `n` on), then the
recorded offset, etag, count, tail and split are the same. -/
theorem C2_fetch_ignores_uncommitted_tail (g : Geometry) (d1 d2 : Disk)
    (write_size block rev seed fmask ftag n fuel : Nat) (cb : Nat → List Nat → Int)
    (hg : g.block_size ≤ 9223372036854775808) (hfuel : g.block_size < fuel)
    (ha : agree_below d1 d2 block n) :
    (∀ s, (fetch_step g d1 write_size block fmask ftag cb s).1.dir ≠ s.dir →
      ∃ raw sum,
        lfs_bd_read g d1 block (wrap64 (s.offset + lfs_tag_dsize s.ptag)) 4 = .ok raw
          ∧ lfs_tag_type1 (lfs_frombe32 raw ^^^ s.ptag) = LFS_TYPE_CRC
          ∧ lfs_bd_read g d1 block (wrap64 (wrap64 (s.offset + lfs_tag_dsize s.ptag) + 4)) 4
              = .ok sum
          ∧ lfs_crc s.crc raw = lfs_fromle32 sum)
      ∧ ∃ t1 c1 t2 c2,
          lfs_dir_fetchmatch_block g d1 write_size block rev seed fmask ftag cb fuel
              = some (t1, c1)
            ∧ lfs_dir_fetchmatch_block g d2 write_size block rev seed fmask ftag cb fuel
              = some (t2, c2)
            ∧ (t1.dir_read_end ≤ n → t2.dir_read_end ≤ n → t1.dir = t2.dir) := by
  refine ⟨fun s h => fetch_step_records g d1 write_size block fmask ftag cb s h, ?_⟩
  obtain ⟨⟨t1, c1⟩, h1⟩ := fetch_scan_terminates g d1 write_size block fmask ftag cb hg fuel
    (fetch_init rev 0xffffffff seed ⟨0, 0, 0, 0, 0, false⟩ false) (Nat.zero_le _)
    (by show g.block_size - 0 < fuel; omega)
  obtain ⟨⟨t2, c2⟩, h2⟩ := fetch_scan_terminates g d2 write_size block fmask ftag cb hg fuel
    (fetch_init rev 0xffffffff seed ⟨0, 0, 0, 0, 0, false⟩ false) (Nat.zero_le _)
    (by show g.block_size - 0 < fuel; omega)
  exact ⟨t1, c1, t2, c2, h1, h2,
    fetch_scan_congr g d1 d2 write_size block n fmask ftag cb ha fuel _ t1 c1 t2 c2 h1 h2⟩

set_option maxRecDepth 100000 in
/-- Witness for C2: a 64-byte block with one commit of 40 bytes (a tail
entry, a name entry and the CRC tag), once followed by an uncommitted name
entry and once erased.  Both scans record offset 40 and one entry; the scan
of the torn block went on to byte 51 and counted a second entry, which it
did not record. -/
theorem C2_fetch_ignores_uncommitted_tail_witness :
    agree_below
        (disk_of_bytes 0 [1, 0, 0, 0, 159, 240, 3, 239, 2, 0, 0, 0, 0, 0, 0, 0, 3, 0, 0, 0, 0,
          0, 0, 0, 96, 31, 252, 19, 97, 98, 99, 80, 31, 252, 6, 135, 37, 2, 66, 255,
          80, 31, 248, 6, 120, 121, 122])
        (disk_of_bytes 0 [1, 0, 0, 0, 159, 240, 3, 239, 2, 0, 0, 0, 0, 0, 0, 0, 3, 0, 0, 0, 0,
          0, 0, 0, 96, 31, 252, 19, 97, 98, 99, 80, 31, 252, 6, 135, 37, 2, 66, 255]) 0 40
      ∧ ∃ t1 c1 t2 c2,
          lfs_dir_fetchmatch_block ⟨64, 4⟩
              (disk_of_bytes 0 [1, 0, 0, 0, 159, 240, 3, 239, 2, 0, 0, 0, 0, 0, 0, 0, 3, 0, 0, 0,
                0, 0, 0, 0, 96, 31, 252, 19, 97, 98, 99, 80, 31, 252, 6, 135, 37, 2, 66, 255,
                80, 31, 248, 6, 120, 121, 122])
              4 0 1 0 0xffffffff 0xffffffff (fun _ _ => 0) 65 = some (t1, c1)
            ∧ lfs_dir_fetchmatch_block ⟨64, 4⟩
              (disk_of_bytes 0 [1, 0, 0, 0, 159, 240, 3, 239, 2, 0, 0, 0, 0, 0, 0, 0, 3, 0, 0, 0,
                0, 0, 0, 0, 96, 31, 252, 19, 97, 98, 99, 80, 31, 252, 6, 135, 37, 2, 66, 255])
              4 0 1 0 0xffffffff 0xffffffff (fun _ _ => 0) 65 = some (t2, c2)
            ∧ t1.dir = t2.dir ∧ t1.dir = ⟨40, 1343224837, 1, 2, 3, false⟩
            ∧ t1.read_end = 51 ∧ t1.tempcount = 2 := by
  have ha : agree_below
      (disk_of_bytes 0 [1, 0, 0, 0, 159, 240, 3, 239, 2, 0, 0, 0, 0, 0, 0, 0, 3, 0, 0, 0, 0,
        0, 0, 0, 96, 31, 252, 19, 97, 98, 99, 80, 31, 252, 6, 135, 37, 2, 66, 255,
        80, 31, 248, 6, 120, 121, 122])
      (disk_of_bytes 0 [1, 0, 0, 0, 159, 240, 3, 239, 2, 0, 0, 0, 0, 0, 0, 0, 3, 0, 0, 0, 0,
        0, 0, 0, 96, 31, 252, 19, 97, 98, 99, 80, 31, 252, 6, 135, 37, 2, 66, 255]) 0 40 := by
    unfold agree_below
    decide
  obtain ⟨_, t1, c1, t2, c2, h1, h2, h3⟩ := C2_fetch_ignores_uncommitted_tail ⟨64, 4⟩ _ _
    4 0 1 0 0xffffffff 0xffffffff 40 65 (fun _ _ => 0) (by decide) (by decide) ha
  have e1 : lfs_dir_fetchmatch_block ⟨64, 4⟩
      (disk_of_bytes 0 [1, 0, 0, 0, 159, 240, 3, 239, 2, 0, 0, 0, 0, 0, 0, 0, 3, 0, 0, 0,
        0, 0, 0, 0, 96, 31, 252, 19, 97, 98, 99, 80, 31, 252, 6, 135, 37, 2, 66, 255,
        80, 31, 248, 6, 120, 121, 122])
      4 0 1 0 0xffffffff 0xffffffff (fun _ _ => 0) 65
      = some (⟨47, 1049603, 1330723743, 2, 2, 3, false, 4294967295, 4294967295, 3840690359,
          ⟨40, 1343224837, 1, 2, 3, false⟩, false, 51, 39⟩, 0) := by decide
  have e2 : lfs_dir_fetchmatch_block ⟨64, 4⟩
      (disk_of_bytes 0 [1, 0, 0, 0, 159, 240, 3, 239, 2, 0, 0, 0, 0, 0, 0, 0, 3, 0, 0, 0,
        0, 0, 0, 0, 96, 31, 252, 19, 97, 98, 99, 80, 31, 252, 6, 135, 37, 2, 66, 255])
      4 0 1 0 0xffffffff 0xffffffff (fun _ _ => 0) 65
      = some (⟨40, 1343224837, 0, 1, 2, 3, false, 4294967295, 4294967295, 3840690359,
          ⟨40, 1343224837, 1, 2, 3, false⟩, true, 44, 39⟩, 0) := by decide
  rw [e1] at h1
  rw [e2] at h2
  simp only [Option.some.injEq, Prod.mk.injEq] at h1 h2
  obtain ⟨h1a, _⟩ := h1
  obtain ⟨h2a, _⟩ := h2
  subst h1a; subst h2a
  exact ⟨ha, _, _, _, _, e1, e2, h3 (by decide) (by decide), rfl, rfl, rfl⟩


/-! ### C1, C4 and C6: files that reach the range where the index arithmetic fails -/

theorem example_file_wellformed (g : Geometry) (base last byte : Nat)
    (hcount : base + last < g.block_count)
    (h64 : g.block_count ≤ 18446744073709551616)
    (hsize : ∀ n, 1 ≤ n → n ≤ last → 8 * (lfs_ctz64 n + 1) ≤ g.block_size) :
    ctz_wellformed g (example_file_disk base last byte) (example_list_addr base) last := by
  intro n h1 h2 k hk
  have hw := example_list_wellformed g base last hcount h64 hsize n h1 h2 k hk
  rw [← hw]
  congr 1
  unfold lfs_bd_read
  split
  · rfl
  · congr 1
    apply List.map_congr_left
    intro j hj
    have hj8 : j < 8 := List.mem_range.mp hj
    unfold example_file_disk example_list_addr
    by_cases hn : n = last
    · subst hn
      rw [if_neg (by omega)]
    · rw [if_neg (by omega)]

set_option maxRecDepth 100000 in
/-- C1 (code defect, evaluated): 200-byte blocks pass format's pointer-fit
assertion.  Byte 771751936 is the first data byte of the block with index
4194303 (behind its one pointer), so a file of 771751937 bytes is a
well-formed list of 4194304 blocks with that block as head.  For this byte
`lfs_ctz_index` returns index 4194302 and offset 200, so `lfs_file_flushedread`
of the whole file from position 0 takes the head for the block with index
4194302, follows its second "pointer", which is file data, and returns
`LFS_ERR_CORRUPT` without a byte read. -/
theorem C1_read_back_fails_with_small_blocks :
    format_pointer_fit 200 = true
      ∧ 771751937 ≤ LFS_FILE_MAX
      ∧ 771751936 = (200 - 16) * 4194303 + 8 * lfs_popc64 4194303 + 8 * (lfs_ctz64 4194303 + 1)
      ∧ ctz_wellformed ⟨200, 4194400⟩ (example_file_disk 4 4194303 0xab)
          (example_list_addr 4) 4194303
      ∧ lfs_ctz_index 200 771751936 = (4194302, 200)
      ∧ lfs_file_flushedread ⟨200, 4194400⟩ (example_file_disk 4 4194303 0xab) 64 10
          ⟨example_list_addr 4 4194303, 771751937, 0, 0, 0, false⟩ 771751937
        = some (LFS_ERR_CORRUPT, [],
            ⟨example_list_addr 4 4194303, 771751937, 0, 0, 0, false⟩) := by
  refine ⟨by decide, by decide, by decide, ?_, by decide, by decide⟩
  apply example_file_wellformed
  · decide
  · decide
  · intro n h1 h2
    have hp := lfs_ctz64_pow_le n (by omega) (by omega)
    have : lfs_ctz64 n < 23 := by
      by_contra hcon
      have : (2 : Nat) ^ 23 ≤ 2 ^ lfs_ctz64 n := Nat.pow_le_pow_right (by norm_num) (by omega)
      norm_num at this
      omega
    show 8 * (lfs_ctz64 n + 1) ≤ 200
    omega

set_option maxRecDepth 100000 in
/-- C6 (code defect, evaluated): with 200-byte blocks, which pass format's
pointer-fit assertion, byte 771751936 is the first data byte of the block
with index 4194303, so a file of 771751937 bytes is a well-formed list of the
blocks 0 to 4194303 whose head is block 4194303, the last block.
`lfs_ctz_find` takes the last index from `lfs_ctz_index(size - 1)`, which is
4194302 here.  For the position 771751935, the last byte of block 4194302, it
returns the head, which is block 4194303; for the position 771751936 it
returns the head with offset 200, the block size; and for position 0 it takes
the head for block 4194302, reads its second "pointer", which is file data,
and returns `LFS_ERR_CORRUPT`.  With 512-byte blocks the lookup of byte 100
in the four-block list of 2000 bytes returns block 0. -/
theorem C6_ctz_find_takes_head_for_block_below :
    format_pointer_fit 200 = true
      ∧ 771751937 ≤ LFS_FILE_MAX
      ∧ 771751936 = (200 - 16) * 4194303 + 8 * lfs_popc64 4194303 + 8 * (lfs_ctz64 4194303 + 1)
      ∧ ctz_wellformed ⟨200, 4194400⟩ (example_file_disk 4 4194303 0xab)
          (example_list_addr 4) 4194303
      ∧ lfs_ctz_index 200 (771751937 - 1) = (4194302, 200)
      ∧ lfs_ctz_index 200 771751935 = (4194302, 199)
      ∧ lfs_ctz_find ⟨200, 4194400⟩ (example_file_disk 4 4194303 0xab)
          (example_list_addr 4 4194303) 771751937 771751935 64
        = .done (example_list_addr 4 4194303, 199)
      ∧ example_list_addr 4 4194303 ≠ example_list_addr 4 4194302
      ∧ lfs_ctz_find ⟨200, 4194400⟩ (example_file_disk 4 4194303 0xab)
          (example_list_addr 4 4194303) 771751937 771751936 64
        = .done (example_list_addr 4 4194303, 200)
      ∧ lfs_ctz_index 200 0 = (0, 0)
      ∧ lfs_ctz_find ⟨200, 4194400⟩ (example_file_disk 4 4194303 0xab)
          (example_list_addr 4 4194303) 771751937 0 64
        = .fail LFS_ERR_CORRUPT
      ∧ lfs_ctz_find ⟨512, 16⟩ (example_list_disk 4) (example_list_addr 4 3) 2000 100 64
        = .done (example_list_addr 4 0, 100) := by
  refine ⟨by decide, by decide, by decide, ?_, by decide, by decide, by decide, by decide,
    by decide, by decide, by decide, by decide⟩
  apply example_file_wellformed
  · decide
  · decide
  · intro n h1 h2
    have hp := lfs_ctz64_pow_le n (by omega) (by omega)
    have : lfs_ctz64 n < 23 := by
      by_contra hcon
      have : (2 : Nat) ^ 23 ≤ 2 ^ lfs_ctz64 n := Nat.pow_le_pow_right (by norm_num) (by omega)
      norm_num at this
      omega
    show 8 * (lfs_ctz64 n + 1) ≤ 200
    omega

set_option maxRecDepth 100000 in
/-- C4 (code defect, evaluated): 200-byte blocks, a file of 771751936 bytes
(blocks 0 to 4194302, all full) whose last byte, at position 771751935, reads
back as 0xab.  `lfs_file_truncate` to 771751937 bytes writes one zero byte,
for which `lfs_ctz_extend` appends the block with index 4194303 (one pointer,
data from offset 8).  With the new head and size, position 771751935 is looked
up in the new head block at offset 199 and reads back as 0xff, the erased
rest of that block. -/
theorem C4_truncate_grow_changes_old_bytes :
    lfs_ctz_extend_plan 200 771751936 = .append 4194303 1 8
      ∧ ctz_wellformed ⟨200, 4194400⟩ (example_file_disk 4 4194303 0)
          (example_list_addr 4) 4194303
      ∧ lfs_file_flushedread ⟨200, 4194400⟩ (example_file_disk 4 4194303 0) 64 10
          ⟨example_list_addr 4 4194302, 771751936, 771751935, 0, 0, false⟩ 1
        = some (1, [0xab],
            ⟨example_list_addr 4 4194302, 771751936, 771751936, example_list_addr 4 4194302,
              200, true⟩)
      ∧ lfs_file_flushedread ⟨200, 4194400⟩ (example_file_disk 4 4194303 0) 64 10
          ⟨example_list_addr 4 4194303, 771751937, 771751935, 0, 0, false⟩ 1
        = some (1, [0xff],
            ⟨example_list_addr 4 4194303, 771751937, 771751936, example_list_addr 4 4194303,
              200, true⟩) := by
  refine ⟨by decide, ?_, by decide, by decide⟩
  apply example_file_wellformed
  · decide
  · decide
  · intro n h1 h2
    have hp := lfs_ctz64_pow_le n (by omega) (by omega)
    have : lfs_ctz64 n < 23 := by
      by_contra hcon
      have : (2 : Nat) ^ 23 ≤ 2 ^ lfs_ctz64 n := Nat.pow_le_pow_right (by norm_num) (by omega)
      norm_num at this
      omega
    show 8 * (lfs_ctz64 n + 1) ≤ 200
    omega


set_option maxRecDepth 100000 in
/-- With 200-byte blocks, reading the last byte of the file of 771751937
bytes alone: `lfs_ctz_find` yields the head block with offset 200, the block
size, so every pass of the loop of `lfs_file_flushedread` reads 0 bytes and
the loop does not end, whatever the fuel. -/
theorem flushedread_last_byte_no_progress : ∀ fuel,
    lfs_file_flushedread_loop ⟨200, 4194400⟩ (example_file_disk 4 4194303 0xab) 64 fuel
      ⟨example_list_addr 4 4194303, 771751937, 771751936, example_list_addr 4 4194303, 200,
        true⟩ 1 [] = none
  | 0 => rfl
  | fuel + 1 => by
    have e1 : flushedread_find ⟨200, 4194400⟩ (example_file_disk 4 4194303 0xab) 64
        ⟨example_list_addr 4 4194303, 771751937, 771751936, example_list_addr 4 4194303, 200,
          true⟩
        = .done ⟨example_list_addr 4 4194303, 771751937, 771751936,
            example_list_addr 4 4194303, 200, true⟩ := by decide
    have e2 : lfs_bd_read ⟨200, 4194400⟩ (example_file_disk 4 4194303 0xab)
        (example_list_addr 4 4194303) 200 (lfs_min 1 (sub64 200 200)) = .ok [] := rfl
    have e3 : wrap64 (771751936 + lfs_min 1 (sub64 200 200)) = 771751936 := by decide
    have e4 : wrap64 (200 + lfs_min 1 (sub64 200 200)) = 200 := by decide
    have e5 : sub64 1 (lfs_min 1 (sub64 200 200)) = 1 := by decide
    unfold lfs_file_flushedread_loop
    rw [if_pos (by decide), e1]
    dsimp only
    rw [e2]
    dsimp only
    rw [e3, e4, e5]
    exact flushedread_last_byte_no_progress fuel


/-! ### Tags: fields of `LFS_MKTAG` -/

theorem LFS_MKTAG_eq (type id size : Nat) (ht : type < 2048) (hi : id < 1024)
    (hs : size < 1024) :
    LFS_MKTAG type id size = type * 1048576 + id * 1024 + size := by
  unfold LFS_MKTAG wrap32
  rw [Nat.mod_eq_of_lt (show type < 4294967296 by omega),
    Nat.mod_eq_of_lt (show id < 4294967296 by omega),
    Nat.mod_eq_of_lt (show size < 4294967296 by omega),
    Nat.shiftLeft_eq, Nat.shiftLeft_eq,
    Nat.mod_eq_of_lt (show type * 2 ^ 20 < 4294967296 by omega),
    Nat.mod_eq_of_lt (show id * 2 ^ 10 < 4294967296 by omega)]
  have e1 : type * 2 ^ 20 ||| id * 2 ^ 10 = type * 2 ^ 20 + id * 2 ^ 10 := by
    have := Nat.mul_add_lt_is_or (show id * 2 ^ 10 < 2 ^ 20 by omega) type
    rw [Nat.mul_comm type, ← this]
  have e2 : (type * 2 ^ 20 + id * 2 ^ 10) ||| size = type * 2 ^ 20 + id * 2 ^ 10 + size := by
    have := Nat.mul_add_lt_is_or (show size < 2 ^ 10 by omega) (type * 1024 + id)
    have e : 2 ^ 10 * (type * 1024 + id) = type * 2 ^ 20 + id * 2 ^ 10 := by ring
    rw [e] at this
    exact this.symm
  rw [e1, e2]
  norm_num

theorem land_low_mask (k x : Nat) : x &&& (2 ^ k - 1) = x % 2 ^ k :=
  Nat.and_pow_two_sub_one_eq_mod x k

theorem land_shifted_mask (k x m : Nat) :
    (x &&& (2 ^ k * m)) >>> k = (x / 2 ^ k) &&& m := by
  rw [land_split_pow k x (2 ^ k * m), Nat.mul_mod_right, Nat.and_zero, Nat.zero_add,
    Nat.mul_div_cancel_left _ (by positivity : 0 < 2 ^ k), Nat.shiftRight_eq_div_pow,
    Nat.mul_div_cancel_left _ (by positivity : 0 < 2 ^ k)]

/-- C15: for `type < 2 ^ 11`, `id < 2 ^ 10` and `size < 2 ^ 10` the tag
`LFS_MKTAG(type, id, size)` is valid (bit 31 clear), `lfs_tag_type3`,
`lfs_tag_id` and `lfs_tag_size` give back `type`, `id` and `size`, and
`lfs_tag_type1` and `lfs_tag_chunk` are `type & 0x700` and `type & 0xff`. -/
theorem C15_mktag_fields (type id size : Nat) (ht : type < 2048) (hi : id < 1024)
    (hs : size < 1024) :
    lfs_tag_isvalid (LFS_MKTAG type id size) = true
      ∧ lfs_tag_type3 (LFS_MKTAG type id size) = type
      ∧ lfs_tag_id (LFS_MKTAG type id size) = id
      ∧ lfs_tag_size (LFS_MKTAG type id size) = size
      ∧ lfs_tag_type1 (LFS_MKTAG type id size) = type &&& 0x700
      ∧ lfs_tag_chunk (LFS_MKTAG type id size) = type &&& 0xff := by
  rw [LFS_MKTAG_eq type id size ht hi hs]
  have d20 : (type * 1048576 + id * 1024 + size) / 2 ^ 20 = type := by
    norm_num; omega
  have d10 : (type * 1048576 + id * 1024 + size) / 2 ^ 10 = type * 1024 + id := by
    norm_num; omega
  refine ⟨?_, ?_, ?_, ?_, ?_, ?_⟩
  · unfold lfs_tag_isvalid
    have h := land_split_pow 31 (type * 1048576 + id * 1024 + size) 0x80000000
    have e1 : (type * 1048576 + id * 1024 + size) / 2 ^ 31 = 0 := by
      norm_num; omega
    rw [e1] at h
    simp only [Nat.zero_and, Nat.mul_zero, Nat.add_zero] at h
    have e2 : (0x80000000 : Nat) % 2 ^ 31 = 0 := by norm_num
    rw [e2, Nat.and_zero] at h
    simp [h]
  · unfold lfs_tag_type3
    have h := land_shifted_mask 20 (type * 1048576 + id * 1024 + size) 0x7ff
    rw [d20] at h
    have e : (2 ^ 20 * 0x7ff : Nat) = 0x7ff00000 := by norm_num
    rw [e] at h
    rw [h]
    have := land_low_mask 11 type
    norm_num at this
    rw [this]
    omega
  · unfold lfs_tag_id
    have h := land_shifted_mask 10 (type * 1048576 + id * 1024 + size) 0x3ff
    rw [d10] at h
    have e : (2 ^ 10 * 0x3ff : Nat) = 0x000ffc00 := by norm_num
    rw [e] at h
    rw [h]
    have := land_low_mask 10 (type * 1024 + id)
    norm_num at this
    rw [this]
    omega
  · unfold lfs_tag_size
    have := land_low_mask 10 (type * 1048576 + id * 1024 + size)
    norm_num at this
    rw [this]
    omega
  · unfold lfs_tag_type1
    have h := land_shifted_mask 20 (type * 1048576 + id * 1024 + size) 0x700
    rw [d20] at h
    have e : (2 ^ 20 * 0x700 : Nat) = 0x70000000 := by norm_num
    rw [e] at h
    exact h
  · unfold lfs_tag_chunk
    have h := land_shifted_mask 20 (type * 1048576 + id * 1024 + size) 0xff
    rw [d20] at h
    have e : (2 ^ 20 * 0xff : Nat) = 0x0ff00000 := by norm_num
    rw [e] at h
    exact h

/-- Witness for C15: the tag of a CRC entry of five bytes. -/
theorem C15_mktag_fields_witness :
    lfs_tag_isvalid (LFS_MKTAG 0x500 0x3ff 5) = true
      ∧ lfs_tag_type3 (LFS_MKTAG 0x500 0x3ff 5) = 0x500
      ∧ lfs_tag_id (LFS_MKTAG 0x500 0x3ff 5) = 0x3ff
      ∧ lfs_tag_size (LFS_MKTAG 0x500 0x3ff 5) = 5
      ∧ lfs_tag_type1 (LFS_MKTAG 0x500 0x3ff 5) = 0x500 &&& 0x700
      ∧ lfs_tag_chunk (LFS_MKTAG 0x500 0x3ff 5) = 0x500 &&& 0xff :=
  C15_mktag_fields 0x500 0x3ff 5 (by decide) (by decide) (by decide)


/-! ### Tags: `lfs_tag_dsize` -/

theorem lfs_tag_size_eq_mod (tag : Nat) : lfs_tag_size tag = tag % 1024 := by
  unfold lfs_tag_size
  have := land_low_mask 10 tag
  norm_num at this
  exact this

theorem lfs_tag_isdelete_iff (tag : Nat) : lfs_tag_isdelete tag = true ↔ tag % 1024 = 1023 := by
  unfold lfs_tag_isdelete wrap32
  rw [Nat.shiftLeft_eq, Nat.shiftRight_eq_div_pow]
  have e : tag * 2 ^ 22 % 4294967296 / 2 ^ 22 = tag % 1024 := by
    norm_num
    omega
  rw [e]
  simp

/-- C16: for every tag, `lfs_tag_dsize(tag)` is 4 plus the ten-bit size
field, except that it is 4 when the size field is `0x3ff`; it depends on the
low ten bits of the tag only (not on the type and id fields), and
`lfs_tag_dsize(0xffffffff) = 4`. -/
theorem C16_tag_dsize (tag : Nat) :
    lfs_tag_dsize tag = (if lfs_tag_size tag = 0x3ff then 4 else 4 + lfs_tag_size tag)
      ∧ lfs_tag_dsize tag = lfs_tag_dsize (tag % 1024)
      ∧ lfs_tag_dsize 0xffffffff = 4 := by
  have key : ∀ t : Nat,
      lfs_tag_dsize t = (if t % 1024 = 1023 then 4 else 4 + t % 1024) := by
    intro t
    unfold lfs_tag_dsize
    rw [lfs_tag_size_eq_mod]
    unfold wrap32
    by_cases h : t % 1024 = 1023
    · have hd : lfs_tag_isdelete t = true := (lfs_tag_isdelete_iff t).2 h
      rw [hd, if_pos rfl, if_pos h]
      omega
    · have hd : ¬ lfs_tag_isdelete t = true := fun hx => h ((lfs_tag_isdelete_iff t).1 hx)
      rw [if_neg hd, if_neg h]
      omega
  refine ⟨?_, ?_, by decide⟩
  · rw [key, lfs_tag_size_eq_mod]
  · rw [key, key (tag % 1024), Nat.mod_mod]


/-! ### `lfs_crc` and the bitwise CRC-32 -/

theorem crc32_reference_bit_even (x y b : Nat) (hy : y % 2 = 0) :
    crc32_reference_bit (x ^^^ y) b = crc32_reference_bit x b ^^^ (y >>> 1) := by
  unfold crc32_reference_bit
  have e1 : ((x ^^^ y) ^^^ b) % 2 = (x ^^^ b) % 2 := by
    have h1 := @Nat.xor_mod_two_eq (x ^^^ y) b
    have h2 := @Nat.xor_mod_two_eq x y
    have h3 := @Nat.xor_mod_two_eq x b
    omega
  have e2 : (x ^^^ y) >>> 1 = (x >>> 1) ^^^ (y >>> 1) := by
    simp only [Nat.shiftRight_eq_div_pow, Nat.pow_one, Nat.xor_div_two]
  rw [e1, e2]
  split
  · rw [Nat.xor_assoc, Nat.xor_comm (y >>> 1), ← Nat.xor_assoc]
  · rfl

/-- Four input bits, least significant first. -/
theorem xor_split_pow (k c : Nat) : c = (c % 2 ^ k) ^^^ (2 ^ k * (c / 2 ^ k)) := by
  apply Nat.eq_of_testBit_eq
  intro j
  rw [Nat.testBit_xor, Nat.testBit_mod_two_pow, Nat.testBit_mul_pow_two]
  by_cases hj : j < k
  · have : ¬ j ≥ k := by omega
    simp [hj, this]
  · have h2 : j ≥ k := by omega
    have e : (c / 2 ^ k).testBit (j - k) = c.testBit j := by
      rw [← Nat.shiftRight_eq_div_pow, Nat.testBit_shiftRight]
      congr 1; omega
    simp [hj, h2, e]

theorem crc32_four_bits (c d : Nat) :
    crc32_reference_bit (crc32_reference_bit (crc32_reference_bit (crc32_reference_bit c
        (d % 2)) (d >>> 1 % 2)) (d >>> 2 % 2)) (d >>> 3 % 2)
      = crc32_reference_bit (crc32_reference_bit (crc32_reference_bit (crc32_reference_bit
          (c % 16) (d % 2)) (d >>> 1 % 2)) (d >>> 2 % 2)) (d >>> 3 % 2) ^^^ (c / 16) := by
  have hc := xor_split_pow 4 c
  norm_num at hc
  have s1 : (16 * (c / 16)) >>> 1 = 8 * (c / 16) := by
    rw [Nat.shiftRight_eq_div_pow]; omega
  have s2 : (8 * (c / 16)) >>> 1 = 4 * (c / 16) := by
    rw [Nat.shiftRight_eq_div_pow]; omega
  have s3 : (4 * (c / 16)) >>> 1 = 2 * (c / 16) := by
    rw [Nat.shiftRight_eq_div_pow]; omega
  have s4 : (2 * (c / 16)) >>> 1 = c / 16 := by
    rw [Nat.shiftRight_eq_div_pow]; omega
  conv_lhs => rw [hc]
  rw [crc32_reference_bit_even _ _ _ (by omega), s1,
    crc32_reference_bit_even _ _ _ (by omega), s2,
    crc32_reference_bit_even _ _ _ (by omega), s3,
    crc32_reference_bit_even _ _ _ (by omega), s4]

set_option maxRecDepth 100000 in
theorem crc32_four_bits_table : ∀ l : Nat, l < 16 → ∀ d : Nat, d < 16 →
    crc32_reference_bit (crc32_reference_bit (crc32_reference_bit (crc32_reference_bit l
        (d % 2)) (d >>> 1 % 2)) (d >>> 2 % 2)) (d >>> 3 % 2)
      = crc_rtable.getD ((l ^^^ d) &&& 0xf) 0 := by
  decide


theorem shiftRight_mod_two (x j : Nat) : x >>> j % 2 = (x.testBit j).toNat := by
  rw [Nat.toNat_testBit, Nat.shiftRight_eq_div_pow]

theorem xor_land_low (a b : Nat) :
    (a ^^^ b) &&& 0xf = ((a % 16) ^^^ (b % 16)) &&& 0xf := by
  apply Nat.eq_of_testBit_eq
  intro j
  have e16 : (16 : Nat) = 2 ^ 4 := by norm_num
  simp only [Nat.testBit_and, Nat.testBit_xor, e16, Nat.testBit_mod_two_pow]
  by_cases hj : j < 4
  · simp [hj]
  · have : Nat.testBit 15 j = false := by
      apply Nat.testBit_lt_two_pow
      calc (15 : Nat) < 2 ^ 4 := by norm_num
        _ ≤ 2 ^ j := Nat.pow_le_pow_right (by norm_num) (by omega)
    simp [this]

theorem crc32_nibble (c x : Nat) :
    (c >>> 4) ^^^ crc_rtable.getD ((c ^^^ x) &&& 0xf) 0
      = crc32_reference_bit (crc32_reference_bit (crc32_reference_bit (crc32_reference_bit c
          (x % 16 % 2)) ((x % 16) >>> 1 % 2)) ((x % 16) >>> 2 % 2)) ((x % 16) >>> 3 % 2) := by
  rw [crc32_four_bits c (x % 16),
    crc32_four_bits_table (c % 16) (Nat.mod_lt _ (by norm_num)) (x % 16)
      (Nat.mod_lt _ (by norm_num)),
    xor_land_low c x, Nat.shiftRight_eq_div_pow, Nat.xor_comm]

theorem low_nibble_bit (x j : Nat) (hj : j < 4) : (x % 16) >>> j % 2 = x >>> j % 2 := by
  rw [shiftRight_mod_two, shiftRight_mod_two]
  have e16 : (16 : Nat) = 2 ^ 4 := by norm_num
  rw [e16, Nat.testBit_mod_two_pow]
  simp [hj]

theorem high_nibble_bit (x j : Nat) (hj : j < 4) :
    (((x % 256) >>> 4) % 16) >>> j % 2 = x >>> (4 + j) % 2 := by
  rw [low_nibble_bit _ _ hj, shiftRight_mod_two, shiftRight_mod_two, Nat.testBit_shiftRight]
  have e : (256 : Nat) = 2 ^ 8 := by norm_num
  rw [e, Nat.testBit_mod_two_pow]
  have : 4 + j < 8 := by omega
  simp [this]

theorem lfs_crc_byte_eq (crc byte : Nat) :
    lfs_crc_byte crc byte = crc32_reference_byte crc byte := by
  unfold lfs_crc_byte crc32_reference_byte
  dsimp only
  rw [crc32_nibble, crc32_nibble]
  have b0 := low_nibble_bit (byte % 256) 0 (by norm_num)
  have b1 := low_nibble_bit (byte % 256) 1 (by norm_num)
  have b2 := low_nibble_bit (byte % 256) 2 (by norm_num)
  have b3 := low_nibble_bit (byte % 256) 3 (by norm_num)
  have c0 := high_nibble_bit byte 0 (by norm_num)
  have c1 := high_nibble_bit byte 1 (by norm_num)
  have c2 := high_nibble_bit byte 2 (by norm_num)
  have c3 := high_nibble_bit byte 3 (by norm_num)
  have d : ∀ j, j < 8 → (byte % 256) >>> j % 2 = byte >>> j % 2 := by
    intro j hj
    rw [shiftRight_mod_two, shiftRight_mod_two]
    have e : (256 : Nat) = 2 ^ 8 := by norm_num
    rw [e, Nat.testBit_mod_two_pow]
    simp [hj]
  simp only [Nat.shiftRight_zero] at b0 c0
  have d0 := d 0 (by norm_num)
  simp only [Nat.shiftRight_zero] at d0
  rw [b0, b1, b2, b3, c0, c1, c2, c3, d0, d 1 (by norm_num), d 2 (by norm_num),
    d 3 (by norm_num)]
  simp [List.range_succ, List.foldl]

/-- C14: for every start value and every byte sequence, `lfs_crc` with its
16-entry nibble table equals the bitwise reflected CRC-32 with polynomial
`0xEDB88320` (per input bit, least significant first, no initial or final
inversion). -/
theorem C14_lfs_crc_is_reflected_crc32 (c : Nat) (s : List Nat) :
    lfs_crc c s = crc32_reference c s := by
  unfold lfs_crc crc32_reference
  have e : lfs_crc_byte = crc32_reference_byte := by
    funext a b
    exact lfs_crc_byte_eq a b
  rw [e]

theorem lfs_frombe32_tobe32 (x : Nat) (h : x < 4294967296) :
    lfs_frombe32 (lfs_tobe32 x) = x := by
  unfold lfs_frombe32 lfs_tobe32
  simp only [List.take, List.foldl]
  omega

theorem xor_xor_cancel (t p : Nat) : (t ^^^ p) ^^^ p = t := by
  rw [Nat.xor_assoc, Nat.xor_self, Nat.xor_zero]

theorem land_bit31 (x : Nat) : x &&& 0x80000000 = 0 ↔ x.testBit 31 = false := by
  have h := Nat.and_two_pow x 31
  norm_num at h
  rw [h]
  cases x.testBit 31 <;> simp

theorem valid_tag_land (t : Nat) (h : t < 2147483648) :
    t &&& 0x7fffffff = t ∧ t &&& 0x80000000 = 0 := by
  constructor
  · have := land_low_mask 31 t
    norm_num at this
    rw [this]
    exact Nat.mod_eq_of_lt h
  · rw [land_bit31]
    exact Nat.testBit_lt_two_pow (by norm_num; exact h)

theorem xor_lt_two_pow32 (a b : Nat) (ha : a < 4294967296) (hb : b < 4294967296) :
    a ^^^ b < 4294967296 := by
  have := @Nat.xor_lt_two_pow a b 32 (by norm_num; exact ha) (by norm_num; exact hb)
  norm_num at this
  exact this

theorem fetch_step_modify_ptag (g : Geometry) (d : Disk) (block : Nat) (s : fetch_state)
    (tag : Nat) (hb : block < g.block_count) (hg : g.block_size ≤ 9223372036854775808)
    (ho : s.offset + 20 ≤ g.block_size) :
    (fetch_step_modify g d block s tag).2 = .next
      ∧ (fetch_step_modify g d block s tag).1.ptag = s.ptag
      ∧ (fetch_step_modify g d block s tag).1.offset = s.offset := by
  unfold fetch_step_modify
  split
  · split <;> exact ⟨rfl, rfl, rfl⟩
  · split
    · exact ⟨rfl, rfl, rfl⟩
    · split
      · have e : lfs_bd_read g d block (wrap64 (s.offset + 4)) 16
            = .ok ((List.range 16).map (fun j => d block (wrap64 (s.offset + 4) + j))) := by
          unfold lfs_bd_read wrap64
          rw [if_neg]
          omega
        rw [e]
        exact ⟨rfl, rfl, rfl⟩
      · exact ⟨rfl, rfl, rfl⟩

theorem fetch_step_match_ptag (d : Disk) (block fmask ftag : Nat)
    (cb : Nat → List Nat → Int) (s : fetch_state) (tag : Nat) (hcb : ∀ t p, 0 ≤ cb t p) :
    (fetch_step_match d block fmask ftag cb s tag).2 = .next
      ∧ (fetch_step_match d block fmask ftag cb s tag).1.ptag = s.ptag
      ∧ (fetch_step_match d block fmask ftag cb s tag).1.offset = s.offset := by
  unfold fetch_step_match
  split
  · rw [if_neg (not_lt.mpr (hcb _ _))]
    split
    · exact ⟨rfl, rfl, rfl⟩
    · split
      · exact ⟨rfl, rfl, rfl⟩
      · split <;> exact ⟨rfl, rfl, rfl⟩
  · exact ⟨rfl, rfl, rfl⟩

theorem fetch_step_entry_ptag (g : Geometry) (d : Disk) (block fmask ftag : Nat)
    (cb : Nat → List Nat → Int) (s : fetch_state) (tag : Nat)
    (hb : block < g.block_count) (hg : g.block_size ≤ 9223372036854775808)
    (ho : s.offset + 20 ≤ g.block_size) (hcb : ∀ t p, 0 ≤ cb t p) :
    (fetch_step_entry g d block fmask ftag cb s tag).2 = .next
      ∧ (fetch_step_entry g d block fmask ftag cb s tag).1.ptag = s.ptag
      ∧ (fetch_step_entry g d block fmask ftag cb s tag).1.offset = s.offset := by
  unfold fetch_step_entry
  obtain ⟨r, hr⟩ := fetch_crc_entry_ok g d block s.offset (lfs_tag_dsize tag)
    (lfs_tag_dsize tag) 4 s.crc
  rw [hr]
  have hm := fetch_step_modify_ptag g d block (fetch_entry_state s r tag) tag hb hg ho
  simp only []
  rw [if_pos hm.1]
  have hx := fetch_step_match_ptag d block fmask ftag cb
    (fetch_step_modify g d block (fetch_entry_state s r tag) tag).1 tag hcb
  exact ⟨hx.1, hx.2.1.trans hm.2.1, hx.2.2.trans hm.2.2⟩

/-- One pass of the scanner over a stored word `be32(t xor ptag)`: the pass
decodes `t`, stands at the word's offset and goes on. -/
theorem fetch_step_decodes (g : Geometry) (d : Disk) (write_size block fmask ftag : Nat)
    (cb : Nat → List Nat → Int) (s : fetch_state) (t : Nat)
    (hb : block < g.block_count) (hg : g.block_size ≤ 9223372036854775808)
    (hcb : ∀ t p, 0 ≤ cb t p)
    (ht : t < 2147483648) (hp : s.ptag < 4294967296)
    (hcrc : lfs_tag_type1 t ≠ LFS_TYPE_CRC)
    (ho : s.offset + lfs_tag_dsize s.ptag + lfs_tag_dsize t + 16 ≤ g.block_size)
    (hw : ∀ j, j < 4 → d block (s.offset + lfs_tag_dsize s.ptag + j)
      = (lfs_tobe32 (t ^^^ s.ptag)).getD j 0) :
    (fetch_step g d write_size block fmask ftag cb s).2 = .next
      ∧ (fetch_step g d write_size block fmask ftag cb s).1.ptag = t
      ∧ (fetch_step g d write_size block fmask ftag cb s).1.offset
          = s.offset + lfs_tag_dsize s.ptag := by
  have hd := lfs_tag_dsize_ge t
  have hw0 : wrap64 (s.offset + lfs_tag_dsize s.ptag) = s.offset + lfs_tag_dsize s.ptag := by
    unfold wrap64; omega
  have e : lfs_bd_read g d block (wrap64 (s.offset + lfs_tag_dsize s.ptag)) 4
      = .ok (lfs_tobe32 (t ^^^ s.ptag)) := by
    rw [hw0]
    unfold lfs_bd_read
    rw [if_neg (by unfold wrap64; omega)]
    congr 1
    have h0 := hw 0 (by omega)
    have h1 := hw 1 (by omega)
    have h2 := hw 2 (by omega)
    have h3 := hw 3 (by omega)
    simp only [lfs_tobe32, List.getD_cons_zero, List.getD_cons_succ] at h0 h1 h2 h3
    simp only [List.range, List.range.loop, List.map, lfs_tobe32]
    rw [← h0, ← h1, ← h2, ← h3]
  have hdec : lfs_frombe32 (lfs_tobe32 (t ^^^ s.ptag)) ^^^ s.ptag = t := by
    rw [lfs_frombe32_tobe32 _ (xor_lt_two_pow32 _ _ (by omega) hp), xor_xor_cancel]
  unfold fetch_step
  rw [e]
  simp only [hdec]
  have hv : lfs_tag_isvalid t = true := by
    unfold lfs_tag_isvalid
    simp [(valid_tag_land t ht).2]
  rw [if_neg (by simp [hv]), if_neg (by rw [hw0]; unfold wrap64; omega), if_neg hcrc]
  have hx := fetch_step_entry_ptag g d block fmask ftag cb
    { fetch_tag_state s (lfs_tobe32 (t ^^^ s.ptag)) with ptag := t } t hb hg
    (by show wrap64 (s.offset + lfs_tag_dsize s.ptag) + 20 ≤ g.block_size
        rw [hw0]; omega) hcb
  refine ⟨hx.1, hx.2.1, ?_⟩
  rw [hx.2.2]
  exact hw0

theorem lfs_dir_commit_attribute_ok (g : Geometry) (d : Disk) (c : lfs_commit_t) (tag : Nat)
    (buffer : List Nat) (source : Nat × Nat)
    (ht : tag < 2147483648) (hfit : c.offset + lfs_tag_dsize tag ≤ c.end_)
    (he : c.end_ < 18446744073709551616) :
    (lfs_dir_commit_attribute g d c tag buffer source).1 = 0
      ∧ (lfs_dir_commit_attribute g d c tag buffer source).2.2.offset
          = c.offset + lfs_tag_dsize tag
      ∧ (lfs_dir_commit_attribute g d c tag buffer source).2.2.ptag = tag
      ∧ (lfs_dir_commit_attribute g d c tag buffer source).2.2.block = c.block
      ∧ (lfs_dir_commit_attribute g d c tag buffer source).2.2.end_ = c.end_
      ∧ (∀ j, j < 4 → (lfs_dir_commit_attribute g d c tag buffer source).2.1 c.block
            (c.offset + j) = (lfs_tobe32 (tag ^^^ c.ptag)).getD j 0)
      ∧ (∀ b o, b ≠ c.block ∨ o < c.offset →
            (lfs_dir_commit_attribute g d c tag buffer source).2.1 b o = d b o) := by
  have hd := lfs_tag_dsize_ge tag
  have hv := valid_tag_land tag ht
  unfold lfs_dir_commit_attribute
  rw [if_neg (by unfold wrap64; omega), if_pos hv.2, hv.1]
  have hlen : (lfs_tobe32 (tag ^^^ c.ptag)).length = 4 := rfl
  simp only [lfs_dir_commit_write, hlen, List.length_map, List.length_range]
  have e4 : wrap64 (c.offset + 4) = c.offset + 4 := by unfold wrap64; omega
  rw [e4]
  refine ⟨rfl, ?_, trivial, trivial, trivial, ?_, ?_⟩
  · unfold wrap64; omega
  · intro j hj
    unfold disk_prog
    rw [if_neg (by omega), if_pos ⟨rfl, by omega, by omega⟩]
    congr 1
    omega
  · intro b o hbo
    unfold disk_prog
    rw [if_neg (by omega), if_neg (by omega)]

theorem lfs_bd_read_word (g : Geometry) (d : Disk) (block offset x : Nat)
    (hb : block < g.block_count) (ho : offset + 4 ≤ g.block_size)
    (hg : g.block_size ≤ 9223372036854775808)
    (hw : ∀ j, j < 4 → d block (offset + j) = (lfs_tobe32 x).getD j 0) :
    lfs_bd_read g d block offset 4 = .ok (lfs_tobe32 x) := by
  unfold lfs_bd_read
  rw [if_neg (by unfold wrap64; omega)]
  congr 1
  have h0 := hw 0 (by omega)
  have h1 := hw 1 (by omega)
  have h2 := hw 2 (by omega)
  have h3 := hw 3 (by omega)
  simp only [lfs_tobe32, List.getD_cons_zero, List.getD_cons_succ] at h0 h1 h2 h3
  simp only [List.range, List.range.loop, List.map, lfs_tobe32]
  rw [← h0, ← h1, ← h2, ← h3]

theorem attrs_dsize_cons (a : Nat × List Nat) (rest : List (Nat × List Nat)) :
    attrs_dsize (a :: rest) = lfs_tag_dsize a.1 + attrs_dsize rest := by
  simp [attrs_dsize]

theorem attrs_dsize_take_le (attrs : List (Nat × List Nat)) :
    ∀ i, attrs_dsize (attrs.take i) ≤ attrs_dsize attrs := by
  induction attrs with
  | nil => intro i; simp [attrs_dsize]
  | cons a rest ih =>
    intro i
    cases i with
    | zero => simp [attrs_dsize]
    | succ i =>
      rw [List.take_succ_cons, attrs_dsize_cons, attrs_dsize_cons]
      have := ih i
      omega

theorem commit_attributes_cons (g : Geometry) (a : Nat × List Nat)
    (rest : List (Nat × List Nat)) (d : Disk) (c : lfs_commit_t)
    (h : (lfs_dir_commit_attribute g d c a.1 a.2 (0, 0)).1 = 0) :
    commit_attributes g (a :: rest) d c
      = commit_attributes g rest (lfs_dir_commit_attribute g d c a.1 a.2 (0, 0)).2.1
          (lfs_dir_commit_attribute g d c a.1 a.2 (0, 0)).2.2 := by
  show (if (lfs_dir_commit_attribute g d c a.1 a.2 (0, 0)).1 ≠ 0 then _ else _) = _
  rw [if_neg (not_not.mpr h)]

theorem commit_attributes_ok (g : Geometry) :
    ∀ (attrs : List (Nat × List Nat)) (d : Disk) (c : lfs_commit_t),
      (∀ a ∈ attrs, a.1 < 2147483648) → c.offset + attrs_dsize attrs ≤ c.end_ →
      c.end_ < 18446744073709551616 →
      (commit_attributes g attrs d c).1 = 0
        ∧ (∀ b o, b ≠ c.block ∨ o < c.offset → (commit_attributes g attrs d c).2.1 b o = d b o)
  | [], d, c, _, _, _ => ⟨rfl, fun _ _ _ => rfl⟩
  | a :: rest, d, c, hv, hfit, he => by
    rw [attrs_dsize_cons] at hfit
    have h1 := lfs_dir_commit_attribute_ok g d c a.1 a.2 (0, 0)
      (hv a (List.mem_cons_self _ _)) (by omega) he
    rw [commit_attributes_cons g a rest d c h1.1]
    have ih := commit_attributes_ok g rest (lfs_dir_commit_attribute g d c a.1 a.2 (0, 0)).2.1
      (lfs_dir_commit_attribute g d c a.1 a.2 (0, 0)).2.2
      (fun x hx => hv x (List.mem_cons_of_mem _ hx))
      (by rw [h1.2.1, h1.2.2.2.2.1]; omega) (by rw [h1.2.2.2.2.1]; exact he)
    refine ⟨ih.1, ?_⟩
    intro b o hbo
    rw [ih.2 b o (by rw [h1.2.2.2.1, h1.2.1]; omega)]
    exact h1.2.2.2.2.2.2 b o hbo

theorem commit_attributes_words (g : Geometry) :
    ∀ (attrs : List (Nat × List Nat)) (d : Disk) (c : lfs_commit_t),
      (∀ a ∈ attrs, a.1 < 2147483648) → c.offset + attrs_dsize attrs ≤ c.end_ →
      c.end_ < 18446744073709551616 →
      ∀ i, i < attrs.length → ∀ j, j < 4 →
        (commit_attributes g attrs d c).2.1 c.block (c.offset + attrs_dsize (attrs.take i) + j)
          = (lfs_tobe32 ((attrs.map Prod.fst).getD i 0
              ^^^ (c.ptag :: attrs.map Prod.fst).getD i 0)).getD j 0
  | [], d, c, _, _, _, i, hi, _, _ => by simp at hi
  | a :: rest, d, c, hv, hfit, he, i, hi, j, hj => by
    rw [attrs_dsize_cons] at hfit
    have hd := lfs_tag_dsize_ge a.1
    have h1 := lfs_dir_commit_attribute_ok g d c a.1 a.2 (0, 0)
      (hv a (List.mem_cons_self _ _)) (by omega) he
    rw [commit_attributes_cons g a rest d c h1.1]
    have hv2 : ∀ x ∈ rest, x.1 < 2147483648 := fun x hx => hv x (List.mem_cons_of_mem _ hx)
    have hfit2 : (lfs_dir_commit_attribute g d c a.1 a.2 (0, 0)).2.2.offset + attrs_dsize rest
        ≤ (lfs_dir_commit_attribute g d c a.1 a.2 (0, 0)).2.2.end_ := by
      rw [h1.2.1, h1.2.2.2.2.1]; omega
    have he2 : (lfs_dir_commit_attribute g d c a.1 a.2 (0, 0)).2.2.end_
        < 18446744073709551616 := by rw [h1.2.2.2.2.1]; exact he
    cases i with
    | zero =>
      have hf := (commit_attributes_ok g rest
        (lfs_dir_commit_attribute g d c a.1 a.2 (0, 0)).2.1
        (lfs_dir_commit_attribute g d c a.1 a.2 (0, 0)).2.2 hv2 hfit2 he2).2 c.block (c.offset + j)
        (by rw [h1.2.1]; omega)
      simp only [List.take_zero, attrs_dsize, List.map_nil, List.sum_nil, Nat.add_zero,
        List.map_cons, List.getD_cons_zero]
      rw [hf]
      exact h1.2.2.2.2.2.1 j hj
    | succ i =>
      have ih := commit_attributes_words g rest
        (lfs_dir_commit_attribute g d c a.1 a.2 (0, 0)).2.1
        (lfs_dir_commit_attribute g d c a.1 a.2 (0, 0)).2.2 hv2 hfit2 he2 i
        (by simpa using hi) j hj
      rw [h1.2.2.2.1, h1.2.1, h1.2.2.1] at ih
      rw [List.take_succ_cons, attrs_dsize_cons]
      simp only [List.map_cons, List.getD_cons_succ]
      rw [show c.offset + (lfs_tag_dsize a.1 + attrs_dsize (List.take i rest)) + j
        = c.offset + lfs_tag_dsize a.1 + attrs_dsize (List.take i rest) + j by omega]
      exact ih

theorem commit_attributes_scanned (g : Geometry) (write_size fmask ftag : Nat)
    (cb : Nat → List Nat → Int) (hg : g.block_size ≤ 9223372036854775808)
    (hcb : ∀ t p, 0 ≤ cb t p) :
    ∀ (attrs : List (Nat × List Nat)) (d : Disk) (c : lfs_commit_t) (s : fetch_state),
      (∀ a ∈ attrs, a.1 < 2147483648) → (∀ a ∈ attrs, lfs_tag_type1 a.1 ≠ LFS_TYPE_CRC) →
      c.offset + attrs_dsize attrs ≤ c.end_ → c.end_ + 16 ≤ g.block_size →
      c.block < g.block_count → c.ptag < 4294967296 →
      s.ptag = c.ptag → s.offset + lfs_tag_dsize s.ptag = c.offset →
      fetch_tags g (commit_attributes g attrs d c).2.1 write_size c.block fmask ftag cb
        attrs.length s = attrs.map Prod.fst
  | [], _, _, _, _, _, _, _, _, _, _, _ => rfl
  | a :: rest, d, c, s, hv, hnc, hfit, hend, hb, hp, hsp, hso => by
    have hw := commit_attributes_words g (a :: rest) d c hv hfit (by omega) 0 (by simp)
    simp only [List.take_zero, attrs_dsize, List.map_nil, List.sum_nil, Nat.add_zero,
      List.map_cons, List.getD_cons_zero] at hw
    rw [attrs_dsize_cons] at hfit
    have hd := lfs_tag_dsize_ge a.1
    have hs := fetch_step_decodes g (commit_attributes g (a :: rest) d c).2.1 write_size
      c.block fmask ftag cb s a.1 hb hg hcb (hv a (List.mem_cons_self _ _))
      (by rw [hsp]; exact hp) (hnc a (List.mem_cons_self _ _)) (by omega)
      (by rw [hso, hsp]; exact hw)
    have h1 := lfs_dir_commit_attribute_ok g d c a.1 a.2 (0, 0)
      (hv a (List.mem_cons_self _ _)) (by omega) (by omega)
    have ih := commit_attributes_scanned g write_size fmask ftag cb hg hcb rest
      (lfs_dir_commit_attribute g d c a.1 a.2 (0, 0)).2.1
      (lfs_dir_commit_attribute g d c a.1 a.2 (0, 0)).2.2
      (fetch_step g (commit_attributes g (a :: rest) d c).2.1 write_size
        c.block fmask ftag cb s).1
      (fun x hx => hv x (List.mem_cons_of_mem _ hx))
      (fun x hx => hnc x (List.mem_cons_of_mem _ hx))
      (by rw [h1.2.1, h1.2.2.2.2.1]; omega) (by rw [h1.2.2.2.2.1]; exact hend)
      (by rw [h1.2.2.2.1]; exact hb)
      (by rw [h1.2.2.1]; have := hv a (List.mem_cons_self _ _); omega)
      (by rw [h1.2.2.1]; exact hs.2.1)
      (by rw [hs.2.2, hs.2.1, h1.2.1, hso])
    rw [h1.2.2.2.1, ← commit_attributes_cons g a rest d c h1.1] at ih
    show (if _ then _ else _) = _
    rw [if_pos hs.1, ih, hs.2.1]
    rfl

theorem valid_tag_lt (t : Nat) (h : t < 4294967296) (hv : lfs_tag_isvalid t = true) :
    t < 2147483648 := by
  unfold lfs_tag_isvalid at hv
  have h1 := (land_bit31 t).mp (by simpa using hv)
  have h2 := Nat.toNat_testBit t 31
  rw [h1] at h2
  simp at h2
  omega

theorem erased_word_invalid (t0 : Nat) (h : t0 < 4294967296) (hv : lfs_tag_isvalid t0 = true) :
    lfs_tag_isvalid (lfs_frombe32 [0xff, 0xff, 0xff, 0xff] ^^^ t0) = false := by
  have e : lfs_frombe32 [0xff, 0xff, 0xff, 0xff] = 2 ^ 32 - 1 := by decide
  have h31 := valid_tag_lt t0 h hv
  unfold lfs_tag_isvalid
  rw [e]
  have hb : (((2 : Nat) ^ 32 - 1) ^^^ t0).testBit 31 = true := by
    rw [Nat.testBit_xor, Nat.testBit_two_pow_sub_one,
      Nat.testBit_lt_two_pow (by norm_num; exact h31)]
    decide
  have hn : ¬ ((2 ^ 32 - 1) ^^^ t0) &&& 0x80000000 = 0 := by
    rw [land_bit31, hb]; decide
  norm_num at hn
  simp [hn]

theorem fetch_step_erased (g : Geometry) (d : Disk) (write_size block fmask ftag : Nat)
    (cb : Nat → List Nat → Int) (s : fetch_state)
    (hp : s.ptag < 4294967296) (hv : lfs_tag_isvalid s.ptag = true)
    (hr : lfs_bd_read g d block (wrap64 (s.offset + lfs_tag_dsize s.ptag)) 4
      = .ok [0xff, 0xff, 0xff, 0xff]) :
    (fetch_step g d write_size block fmask ftag cb s).2 = .stop := by
  unfold fetch_step
  rw [hr]
  simp only []
  rw [if_pos (by rw [erased_word_invalid s.ptag hp hv]; decide)]

/-- C13: tags in a metadata block are XOR-chained.  When
`lfs_dir_commit_attribute` appends valid tags `t1..tn` after a previous tag
`t0` (the commit's `ptag`) and they fit, every call returns 0, the four bytes
stored at the offset of `ti` are the big-endian bytes of `ti xor t(i-1)`, and
the scanner's decoding (the stored word xor the previously decoded tag) gives
`ti` back; the loop of `lfs_dir_fetchmatch`, started at `t0`, decodes
`t1..tn` in order (for tags that are not CRC tags, which that loop checks
against the checksum, and a callback that reports no error).  An erased word
`0xffffffff` decodes to an invalid tag after every valid previous tag, and
the loop stops there. -/
theorem C13_xor_chained_tags (g : Geometry) (d : Disk) (c : lfs_commit_t)
    (attrs : List (Nat × List Nat)) (write_size fmask ftag : Nat) (cb : Nat → List Nat → Int)
    (s : fetch_state)
    (hg : g.block_size ≤ 9223372036854775808) (hb : c.block < g.block_count)
    (hend : c.end_ + 16 ≤ g.block_size) (hp : c.ptag < 4294967296)
    (hv : ∀ a ∈ attrs, a.1 < 4294967296 ∧ lfs_tag_isvalid a.1 = true)
    (hfit : c.offset + attrs_dsize attrs ≤ c.end_)
    (hsp : s.ptag = c.ptag) (hso : s.offset + lfs_tag_dsize s.ptag = c.offset) :
    (commit_attributes g attrs d c).1 = 0
      ∧ (∀ i, i < attrs.length →
          lfs_bd_read g (commit_attributes g attrs d c).2.1 c.block
              (c.offset + attrs_dsize (attrs.take i)) 4
            = .ok (lfs_tobe32 ((attrs.map Prod.fst).getD i 0
                ^^^ (c.ptag :: attrs.map Prod.fst).getD i 0))
          ∧ lfs_frombe32 (lfs_tobe32 ((attrs.map Prod.fst).getD i 0
                ^^^ (c.ptag :: attrs.map Prod.fst).getD i 0))
              ^^^ (c.ptag :: attrs.map Prod.fst).getD i 0
            = (attrs.map Prod.fst).getD i 0)
      ∧ ((∀ a ∈ attrs, lfs_tag_type1 a.1 ≠ LFS_TYPE_CRC) → (∀ t p, 0 ≤ cb t p) →
          fetch_tags g (commit_attributes g attrs d c).2.1 write_size c.block fmask ftag cb
            attrs.length s = attrs.map Prod.fst)
      ∧ (∀ t0, t0 < 4294967296 → lfs_tag_isvalid t0 = true →
          lfs_tag_isvalid (lfs_frombe32 [0xff, 0xff, 0xff, 0xff] ^^^ t0) = false)
      ∧ (∀ d2 s2, s2.ptag < 4294967296 → lfs_tag_isvalid s2.ptag = true →
          lfs_bd_read g d2 c.block (wrap64 (s2.offset + lfs_tag_dsize s2.ptag)) 4
            = .ok [0xff, 0xff, 0xff, 0xff] →
          (fetch_step g d2 write_size c.block fmask ftag cb s2).2 = .stop) := by
  have hv1 : ∀ a ∈ attrs, a.1 < 2147483648 := fun a ha => valid_tag_lt a.1 (hv a ha).1 (hv a ha).2
  refine ⟨(commit_attributes_ok g attrs d c hv1 hfit (by omega)).1, ?_, ?_, erased_word_invalid,
    fun d2 s2 h1 h2 h3 => fetch_step_erased g d2 write_size c.block fmask ftag cb s2 h1 h2 h3⟩
  · intro i hi
    have hle := attrs_dsize_take_le attrs i
    have hlt : (attrs.map Prod.fst).getD i 0 < 2147483648 := by
      rw [List.getD_eq_getElem _ _ (by simpa using hi), List.getElem_map]
      exact hv1 _ (List.getElem_mem _)
    have hprev : (c.ptag :: attrs.map Prod.fst).getD i 0 < 4294967296 := by
      cases i with
      | zero => exact hp
      | succ k =>
        rw [List.getD_cons_succ, List.getD_eq_getElem _ _ (by simp; omega), List.getElem_map]
        have := hv1 _ (List.getElem_mem (show k < attrs.length by omega))
        omega
    have hdi : 4 ≤ attrs_dsize attrs - attrs_dsize (attrs.take i) := by
      have e : attrs_dsize attrs
          = attrs_dsize (attrs.take i) + attrs_dsize (attrs.drop i) := by
        unfold attrs_dsize
        rw [← List.sum_append, ← List.map_append, List.take_append_drop]
      have hdrop : attrs.drop i = attrs[i] :: attrs.drop (i + 1) := List.drop_eq_getElem_cons hi
      rw [hdrop, attrs_dsize_cons] at e
      have := lfs_tag_dsize_ge attrs[i].1
      omega
    constructor
    · exact lfs_bd_read_word g _ c.block _ _ hb (by omega) hg
        (commit_attributes_words g attrs d c hv1 hfit (by omega) i hi)
    · rw [lfs_frombe32_tobe32 _ (xor_lt_two_pow32 _ _ (by omega) hprev), xor_xor_cancel]
  · intro hnc hcb
    exact commit_attributes_scanned g write_size fmask ftag cb hg hcb attrs d c s hv1 hnc hfit
      hend hb hp hsp hso

set_option maxRecDepth 100000 in
/-- A compacted block after its header (offset 4, previous tag 0xffffffff)
receives a CREATE tag and a file name of three bytes; the scan from the start
of the block decodes the two tags. -/
theorem C13_xor_chained_tags_witness :
    (commit_attributes ⟨64, 4⟩ [(LFS_MKTAG LFS_TYPE_CREATE 0 0, []),
        (LFS_MKTAG LFS_TYPE_REG 0 3, [97, 98, 99])] (fun _ _ => 0xff)
        ⟨0, 4, 0xffffffff, 0xffffffff, 0, 48⟩).1 = 0
      ∧ fetch_tags ⟨64, 4⟩
          (commit_attributes ⟨64, 4⟩ [(LFS_MKTAG LFS_TYPE_CREATE 0 0, []),
            (LFS_MKTAG LFS_TYPE_REG 0 3, [97, 98, 99])] (fun _ _ => 0xff)
            ⟨0, 4, 0xffffffff, 0xffffffff, 0, 48⟩).2.1
          4 0 0xffffffff 0xffffffff (fun _ _ => 0) 2
          (fetch_init 1 0xffffffff 0 ⟨0, 0, 0, 0, 0, false⟩ false)
        = [LFS_MKTAG LFS_TYPE_CREATE 0 0, LFS_MKTAG LFS_TYPE_REG 0 3] := by
  have h := C13_xor_chained_tags ⟨64, 4⟩ (fun _ _ => 0xff)
    ⟨0, 4, 0xffffffff, 0xffffffff, 0, 48⟩
    [(LFS_MKTAG LFS_TYPE_CREATE 0 0, []), (LFS_MKTAG LFS_TYPE_REG 0 3, [97, 98, 99])]
    4 0xffffffff 0xffffffff (fun _ _ => 0)
    (fetch_init 1 0xffffffff 0 ⟨0, 0, 0, 0, 0, false⟩ false)
    (by decide) (by decide) (by decide) (by decide) (by decide) (by decide) rfl (by decide)
  exact ⟨h.1, h.2.2.1 (by decide) (fun _ _ => le_refl _)⟩

theorem lfs_scmp_succ (r : Nat) :
    lfs_scmp (wrap32 (r + 1)) r = 1 ∧ lfs_scmp r (wrap32 (r + 1)) = -1 := by
  unfold lfs_scmp toInt32 wrap32
  constructor
  · split_ifs <;> omega
  · split_ifs <;> omega

theorem fetch_revs_ok (g : Geometry) (d : Disk) (p0 p1 a b : Nat)
    (h0 : fetch_rev g d p0 = (0, a)) (h1 : fetch_rev g d p1 = (0, b)) :
    fetch_revs g d p0 p1 = .ok (a, b, if lfs_scmp b a > 0 then 1 else 0) := by
  unfold fetch_revs
  rw [h0, h1]
  simp [LFS_ERR_CORRUPT]

theorem fetch_blocks_first (g : Geometry) (d : Disk) (write_size seed : Nat)
    (gdisk : lfs_gstate_t) (first other rev_first rev_other fmask ftag : Nat)
    (cb : Nat → List Nat → Int) (fuel : Nat) (t : fetch_state)
    (hscan : fetch_scan g d write_size first fmask ftag cb fuel
      (fetch_init rev_first 0xffffffff seed ⟨0, 0, 0, 0, 0, false⟩ false) = some (t, 0))
    (ht : 0 < t.dir.offset) :
    fetch_blocks g d write_size seed gdisk first other rev_first rev_other fmask ftag cb fuel
      = some ((fetch_finish gdisk first other t).1, (fetch_finish gdisk first other t).2,
          ⟨first, other, rev_first, t⟩) := by
  unfold fetch_blocks
  rw [hscan]
  simp only []
  rw [if_neg (by simp), if_pos ht]

theorem lfs_dir_fetchmatch_terminates (g : Geometry) (d : Disk) (write_size seed : Nat)
    (gdisk : lfs_gstate_t) (pair0 pair1 fmask ftag : Nat) (cb : Nat → List Nat → Int)
    (fuel : Nat) (hg : g.block_size ≤ 9223372036854775808) (hf : g.block_size < fuel) :
    ∃ r, lfs_dir_fetchmatch g d write_size seed gdisk pair0 pair1 fmask ftag cb fuel
      = some r := by
  have key : ∀ first other rf ro, ∃ r, fetch_blocks g d write_size seed gdisk first other
      rf ro fmask ftag cb fuel = some r := by
    intro first other rf ro
    unfold fetch_blocks
    obtain ⟨⟨t, c⟩, h1⟩ := fetch_scan_terminates g d write_size first fmask ftag cb hg fuel
      (fetch_init rf 0xffffffff seed ⟨0, 0, 0, 0, 0, false⟩ false) (Nat.zero_le _)
      (by show g.block_size - 0 < fuel; omega)
    rw [h1]
    simp only []
    split
    · exact ⟨_, rfl⟩
    · split
      · exact ⟨_, rfl⟩
      · obtain ⟨⟨u, e⟩, h2⟩ := fetch_scan_terminates g d write_size other fmask ftag cb hg
          fuel (fetch_init ro t.besttag t.seed t.dir t.erased) (Nat.zero_le _)
          (by show g.block_size - 0 < fuel; omega)
        rw [h2]
        simp only []
        split
        · exact ⟨_, rfl⟩
        · split <;> exact ⟨_, rfl⟩
  unfold lfs_dir_fetchmatch
  split
  · exact ⟨_, rfl⟩
  · split
    · exact ⟨_, rfl⟩
    · rename_i revs0 revs1 r _
      obtain ⟨x, hx⟩ := key (if r = 0 then pair0 else pair1) (if r = 0 then pair1 else pair0)
        (if r = 0 then revs0 else revs1) (if r = 0 then revs1 else revs0)
      rw [hx]
      exact ⟨_, rfl⟩

/-- C11: `lfs_dir_fetchmatch` tries first the block whose revision count is
greater under `lfs_scmp`: with both counts read, `pair[1]` is tried first
exactly when `lfs_scmp(revs[1], revs[0]) > 0`.  When the two blocks hold the
revisions `r` and `r + 1` (modulo 2^32, so also 0xffffffff and 0) and the
block with `r + 1` has a commit with a good checksum, the directory is
fetched from that block, whichever of the two comes first in the pair. -/
theorem C11_fetch_prefers_newer_revision (g : Geometry) (d : Disk) (write_size seed : Nat)
    (gdisk : lfs_gstate_t) (older newer fmask ftag : Nat) (cb : Nat → List Nat → Int)
    (fuel r : Nat) (t : fetch_state)
    (hbo : older < g.block_count) (hbn : newer < g.block_count)
    (hro : fetch_rev g d older = (0, r)) (hrn : fetch_rev g d newer = (0, wrap32 (r + 1)))
    (hscan : fetch_scan g d write_size newer fmask ftag cb fuel
      (fetch_init (wrap32 (r + 1)) 0xffffffff seed ⟨0, 0, 0, 0, 0, false⟩ false) = some (t, 0))
    (ht : 0 < t.dir.offset) :
    (∀ p0 p1 a b, fetch_rev g d p0 = (0, a) → fetch_rev g d p1 = (0, b) →
        fetch_revs g d p0 p1 = .ok (a, b, if lfs_scmp b a > 0 then 1 else 0))
      ∧ lfs_scmp (wrap32 (r + 1)) r > 0 ∧ ¬ lfs_scmp r (wrap32 (r + 1)) > 0
      ∧ lfs_dir_fetchmatch g d write_size seed gdisk older newer fmask ftag cb fuel
          = some ((fetch_finish gdisk newer older t).1, (fetch_finish gdisk newer older t).2,
              some ⟨newer, older, wrap32 (r + 1), t⟩)
      ∧ lfs_dir_fetchmatch g d write_size seed gdisk newer older fmask ftag cb fuel
          = some ((fetch_finish gdisk newer older t).1, (fetch_finish gdisk newer older t).2,
              some ⟨newer, older, wrap32 (r + 1), t⟩) := by
  obtain ⟨s1, s2⟩ := lfs_scmp_succ r
  have hb := fetch_blocks_first g d write_size seed gdisk newer older (wrap32 (r + 1)) r
    fmask ftag cb fuel t hscan ht
  refine ⟨fun p0 p1 a b => fetch_revs_ok g d p0 p1 a b, by rw [s1]; decide,
    by rw [s2]; decide, ?_, ?_⟩
  · unfold lfs_dir_fetchmatch
    rw [if_neg (by omega), fetch_revs_ok g d older newer _ _ hro hrn, s1]
    simp only [gt_iff_lt, Int.reduceLT, if_true, if_false, Nat.one_ne_zero, one_ne_zero]
    rw [hb]
    rfl
  · unfold lfs_dir_fetchmatch
    rw [if_neg (by omega), fetch_revs_ok g d newer older _ _ hrn hro, s2]
    simp only [gt_iff_lt, Int.reduceLT, Int.reduceNeg, if_true, if_false]
    rw [hb]
    rfl

set_option maxRecDepth 100000 in
/-- Block 0 holds revision 0xffffffff and block 1 revision 0, each with one
commit; the pair is fetched from block 1 in both orders. -/
theorem C11_fetch_prefers_newer_revision_witness :
    lfs_dir_fetchmatch ⟨64, 4⟩
        (disk_of_blocks [[255, 255, 255, 255, 175, 240, 3, 251, 212, 2, 142, 161],
          [0, 0, 0, 0, 175, 240, 3, 251, 66, 34, 83, 59]])
        4 0 gstate_zero 0 1 0xffffffff 0xffffffff (fun _ _ => 0) 65
      = lfs_dir_fetchmatch ⟨64, 4⟩
        (disk_of_blocks [[255, 255, 255, 255, 175, 240, 3, 251, 212, 2, 142, 161],
          [0, 0, 0, 0, 175, 240, 3, 251, 66, 34, 83, 59]])
        4 0 gstate_zero 1 0 0xffffffff 0xffffffff (fun _ _ => 0) 65
    ∧ ∃ t, lfs_dir_fetchmatch ⟨64, 4⟩
        (disk_of_blocks [[255, 255, 255, 255, 175, 240, 3, 251, 212, 2, 142, 161],
          [0, 0, 0, 0, 175, 240, 3, 251, 66, 34, 83, 59]])
        4 0 gstate_zero 0 1 0xffffffff 0xffffffff (fun _ _ => 0) 65
      = some (0, 0, some ⟨1, 0, 0, t⟩) ∧ t.dir.offset = 12 := by
  have hscan : fetch_scan ⟨64, 4⟩
      (disk_of_blocks [[255, 255, 255, 255, 175, 240, 3, 251, 212, 2, 142, 161],
        [0, 0, 0, 0, 175, 240, 3, 251, 66, 34, 83, 59]]) 4 1 0xffffffff 0xffffffff
      (fun _ _ => 0) 65
      (fetch_init (wrap32 (4294967295 + 1)) 0xffffffff 0 ⟨0, 0, 0, 0, 0, false⟩ false)
      = some (⟨12, 1343224836, 0, 0, 18446744073709551615, 18446744073709551615, false,
          4294967295, 4294967295, 709485963,
          ⟨12, 1343224836, 0, 18446744073709551615, 18446744073709551615, false⟩,
          true, 16, 12⟩, 0) := by decide
  have h := C11_fetch_prefers_newer_revision ⟨64, 4⟩
    (disk_of_blocks [[255, 255, 255, 255, 175, 240, 3, 251, 212, 2, 142, 161],
      [0, 0, 0, 0, 175, 240, 3, 251, 66, 34, 83, 59]])
    4 0 gstate_zero 0 1 0xffffffff 0xffffffff (fun _ _ => 0) 65 4294967295 _
    (by decide) (by decide) (by decide) (by decide) hscan (by decide)
  exact ⟨h.2.2.2.1.trans h.2.2.2.2.symm, _, h.2.2.2.1, rfl⟩

theorem lor_one (x : Nat) : x ||| 1 = 2 * (x / 2) + 1 := by
  have h1 : (x ||| 1) % 2 = 1 := Nat.or_mod_two_eq_one.mpr (Or.inr rfl)
  have h2 : (x ||| 1) / 2 = x / 2 := by
    rw [Nat.or_div_two]
    simp
  omega

/-- C18 (amended): `lfs_dir_needs_relocation` holds exactly when
`block_cycles > 0` and `(revision_count + 1) mod ((block_cycles + 1) | 1) = 0`
with the sum taken in 32 bits: for every revision count below 0xffffffff that
is the plain sum, and at 0xffffffff, where the sum wraps to 0, it holds for
every `block_cycles > 0`; with `block_cycles = -1` it never holds.  For
`block_cycles > 0` the modulus is odd and at least 3, and two consecutive
revision counts that trigger a relocation (no 32-bit wraparound between them)
differ by the modulus, an odd number, so their parities differ. -/
theorem C18_needs_relocation (block_cycles : Int) (revision_count : Nat) :
    (lfs_dir_needs_relocation block_cycles revision_count = true ↔
        block_cycles > 0
          ∧ ((revision_count + 1) % 4294967296) % ((block_cycles.toNat + 1) ||| 1) = 0)
      ∧ (revision_count < 4294967295 →
          (lfs_dir_needs_relocation block_cycles revision_count = true ↔
            block_cycles > 0 ∧ (revision_count + 1) % ((block_cycles.toNat + 1) ||| 1) = 0))
      ∧ (lfs_dir_needs_relocation block_cycles 4294967295 = true ↔ block_cycles > 0)
      ∧ lfs_dir_needs_relocation (-1) revision_count = false
      ∧ (block_cycles > 0 →
          ((block_cycles.toNat + 1) ||| 1) % 2 = 1 ∧ 3 ≤ ((block_cycles.toNat + 1) ||| 1)
          ∧ ∀ rev1 rev2, rev1 < rev2 → rev2 < 4294967295 →
              lfs_dir_needs_relocation block_cycles rev1 = true →
              lfs_dir_needs_relocation block_cycles rev2 = true →
              (∀ k, rev1 < k → k < rev2 → lfs_dir_needs_relocation block_cycles k = false) →
              rev2 - rev1 = ((block_cycles.toNat + 1) ||| 1) ∧ (rev2 - rev1) % 2 = 1
                ∧ rev1 % 2 ≠ rev2 % 2) := by
  have hiff : ∀ rev, lfs_dir_needs_relocation block_cycles rev = true ↔
      block_cycles > 0 ∧ ((rev + 1) % 4294967296) % ((block_cycles.toNat + 1) ||| 1) = 0 := by
    intro rev
    simp [lfs_dir_needs_relocation, wrap32]
  have hsmall : ∀ rev, rev < 4294967295 → (rev + 1) % 4294967296 = rev + 1 :=
    fun rev h => Nat.mod_eq_of_lt (by omega)
  refine ⟨hiff revision_count, ?_, ?_, ?_, ?_⟩
  · intro h
    rw [hiff, hsmall _ h]
  · rw [hiff]
    constructor
    · exact fun h => h.1
    · exact fun h => ⟨h, by norm_num⟩
  · simp [lfs_dir_needs_relocation]
  · intro hpos
    have hm := lor_one (block_cycles.toNat + 1)
    have hn : 1 ≤ block_cycles.toNat := by omega
    generalize (block_cycles.toNat + 1) ||| 1 = m at *
    have hodd : m % 2 = 1 := by omega
    have h3 : 3 ≤ m := by omega
    refine ⟨hodd, h3, ?_⟩
    intro rev1 rev2 h12 h2 t1 t2 hbetween
    have e1 := ((hiff rev1).mp t1).2
    have e2 := ((hiff rev2).mp t2).2
    rw [hsmall _ (by omega)] at e1
    rw [hsmall _ h2] at e2
    have hle : rev2 ≤ rev1 + m := by
      by_contra hc
      have hk := hbetween (rev1 + m) (by omega) (by omega)
      have hk2 : lfs_dir_needs_relocation block_cycles (rev1 + m) = true := by
        rw [hiff, hsmall _ (by omega)]
        refine ⟨hpos, ?_⟩
        rw [show rev1 + m + 1 = rev1 + 1 + m by omega, Nat.add_mod_right]
        exact e1
      rw [hk2] at hk
      exact Bool.noConfusion hk
    have hdvd : m ∣ rev2 - rev1 := by
      have d1 : m ∣ rev1 + 1 := Nat.dvd_of_mod_eq_zero e1
      have d2 : m ∣ rev2 + 1 := Nat.dvd_of_mod_eq_zero e2
      have := Nat.dvd_sub' d2 d1
      rwa [show rev2 + 1 - (rev1 + 1) = rev2 - rev1 by omega] at this
    have hge : m ≤ rev2 - rev1 := Nat.le_of_dvd (by omega) hdvd
    have heq : rev2 - rev1 = m := by omega
    refine ⟨heq, by omega, by omega⟩

/-- With `block_cycles = 2` the modulus is 3; the revision counts 2 and 5
are consecutive triggers. -/
theorem C18_needs_relocation_witness :
    lfs_dir_needs_relocation 2 2 = true ∧ lfs_dir_needs_relocation 2 5 = true
      ∧ 5 - 2 = (((2 : Int).toNat + 1) ||| 1) ∧ 2 % 2 ≠ 5 % 2 := by
  have h := ((C18_needs_relocation 2 0).2.2.2.2 (by decide)).2.2 2 5 (by decide) (by decide)
    (by decide) (by decide) (by intro k h1 h2; interval_cases k <;> decide)
  exact ⟨by decide, by decide, h.1, h.2.2⟩

/-- C18, the revision count for which the formula with the plain sum fails:
with `block_cycles = 2` (modulus 3) and `revision_count = 0xffffffff` the
32-bit sum `revision_count + 1` is 0 and `lfs_dir_needs_relocation` is true,
while `(0xffffffff + 1) mod 3` is 1. -/
theorem C18_needs_relocation_counterexample :
    lfs_dir_needs_relocation 2 0xffffffff = true
      ∧ (2 : Int) > 0
      ∧ (0xffffffff + 1) % (((2 : Int).toNat + 1) ||| 1) = 1
      ∧ ¬ ((2 : Int) > 0 ∧ (0xffffffff + 1) % (((2 : Int).toNat + 1) ||| 1) = 0) := by
  decide

/-- C19: with 512-byte blocks, a 512-byte cache and no `metadata_max`, the
limit `min(0x3fe, cache_size, block_size / 8)` is 64.  A write of 40 bytes at
the start of an empty inline file gives a file of 40 bytes, within the limit,
yet `lfs_file_flushedwrite` outlines the file, because it divides by
`sizeof(lfs_block_t[2]) = 16`; it outlines exactly above 32 bytes.
`lfs_file_rawtruncate` divides by 8 and makes a file shrunk to 40 bytes
inline, so the two limits differ. -/
theorem C19_write_outlines_below_inline_limit :
    lfs_max (0 + 40) 0 ≤ lfs_min 0x3fe (lfs_min 512 (512 / 8))
      ∧ lfs_file_flushedwrite_outlines 512 0 512 true 0 0 40 = true
      ∧ lfs_file_rawtruncate_inlines 512 0 512 40 100 = true
      ∧ ∀ pos size nsize, pos + nsize < 18446744073709551616 →
          (lfs_file_flushedwrite_outlines 512 0 512 true pos size nsize = true
            ↔ 32 < max (pos + nsize) size) := by
  refine ⟨by decide, by decide, by decide, ?_⟩
  intro pos size nsize h
  simp only [lfs_file_flushedwrite_outlines, lfs_max, lfs_min, wrap64,
    Nat.mod_eq_of_lt h]
  norm_num
  split_ifs <;> omega

theorem toInt64_small (x : Nat) (h : x < 9223372036854775808) : toInt64 x = x := by
  unfold toInt64
  rw [Nat.mod_eq_of_lt (by omega), if_pos h]

theorem ofInt64_nonneg (s : Int) (h0 : 0 ≤ s) (h1 : s < 18446744073709551616) :
    ofInt64 s = s.toNat := by
  unfold ofInt64
  rw [Int.emod_eq_of_lt h0 h1]

theorem ofInt64_neg (s : Int) (h0 : s < 0) (h1 : -18446744073709551616 ≤ s) :
    ofInt64 s = (s + 18446744073709551616).toNat := by
  unfold ofInt64
  congr 1
  omega

theorem toInt64_ofInt64 (s : Int) (h0 : -9223372036854775808 ≤ s)
    (h1 : s < 9223372036854775808) : toInt64 (ofInt64 s) = s := by
  by_cases hs : 0 ≤ s
  · rw [ofInt64_nonneg s hs (by omega), toInt64_small _ (by omega)]
    omega
  · rw [ofInt64_neg s (by omega) (by omega)]
    unfold toInt64
    have e : (s + 18446744073709551616).toNat % 18446744073709551616
        = (s + 18446744073709551616).toNat := Nat.mod_eq_of_lt (by omega)
    rw [e, if_neg (by omega)]
    omega

theorem toInt64_ofInt64_high (s : Int) (h0 : 9223372036854775808 ≤ s)
    (h1 : s < 18446744073709551616) : toInt64 (ofInt64 s) < 0 := by
  rw [ofInt64_nonneg s (by omega) h1]
  unfold toInt64
  have e : s.toNat % 18446744073709551616 = s.toNat := Nat.mod_eq_of_lt (by omega)
  rw [e, if_neg (by omega)]
  omega

theorem seek_npos_spec (f : seek_file) (offset whence : Int) (file_max_size : Nat)
    (hoff : -9223372036854775808 ≤ offset ∧ offset < 9223372036854775808)
    (hw : whence = LFS_SEEK_SET ∨ whence = LFS_SEEK_CUR ∨ whence = LFS_SEEK_END)
    (hpos : f.pos ≤ file_max_size) (hsize : f.ctz_size ≤ file_max_size)
    (hmax : file_max_size ≤ LFS_FILE_MAX) :
    ((seek_target f offset whence < 0 ∨ seek_target f offset whence > file_max_size) →
        seek_npos f offset whence = none
          ∨ ∃ n, seek_npos f offset whence = some n ∧ n > file_max_size)
      ∧ (0 ≤ seek_target f offset whence ∧ seek_target f offset whence ≤ file_max_size →
          seek_npos f offset whence = some (seek_target f offset whence).toNat) := by
  have hrs : lfs_file_rawsize f ≤ file_max_size := by
    unfold lfs_file_rawsize lfs_max
    split_ifs <;> omega
  unfold LFS_FILE_MAX at hmax
  unfold seek_npos seek_target
  generalize lfs_file_rawsize f = sz at *
  rcases hw with h | h | h
  · subst h
    simp only [LFS_SEEK_SET, LFS_SEEK_CUR, LFS_SEEK_END, if_true]
    constructor
    · intro ht
      right
      refine ⟨_, rfl, ?_⟩
      rcases ht with ht | ht
      · rw [ofInt64_neg offset ht (by omega)]; omega
      · rw [ofInt64_nonneg offset (by omega) (by omega)]; omega
    · intro ht
      rw [ofInt64_nonneg offset (by omega) (by omega)]
  · subst h
    simp only [LFS_SEEK_SET, LFS_SEEK_CUR, LFS_SEEK_END, if_true, if_false, one_ne_zero]
    rw [toInt64_small f.pos (by omega)]
    constructor
    · intro ht
      by_cases hh : (f.pos : Int) + offset < 9223372036854775808
      · rw [toInt64_ofInt64 _ (by omega) hh]
        by_cases hn : (f.pos : Int) + offset < 0
        · left
          rw [if_pos hn]
        · right
          rw [if_neg hn]
          refine ⟨_, rfl, ?_⟩
          unfold wrap64
          by_cases ho : 0 ≤ offset
          · rw [ofInt64_nonneg offset ho (by omega)]; omega
          · rw [ofInt64_neg offset (by omega) (by omega)]; omega
      · left
        rw [if_pos (toInt64_ofInt64_high _ (by omega) (by omega))]
    · intro ht
      rw [toInt64_ofInt64 _ (by omega) (by omega), if_neg (by omega)]
      congr 1
      unfold wrap64
      by_cases ho : 0 ≤ offset
      · rw [ofInt64_nonneg offset ho (by omega)]; omega
      · rw [ofInt64_neg offset (by omega) (by omega)]; omega
  · subst h
    simp only [LFS_SEEK_SET, LFS_SEEK_CUR, LFS_SEEK_END,
      if_neg (show ¬ ((2 : Int) = 0) by decide), if_neg (show ¬ ((2 : Int) = 1) by decide),
      if_true]
    rw [toInt64_small sz (by omega)]
    constructor
    · intro ht
      by_cases hh : (sz : Int) + offset < 9223372036854775808
      · rw [toInt64_ofInt64 _ (by omega) hh]
        by_cases hn : (sz : Int) + offset < 0
        · left
          rw [if_pos hn]
        · right
          rw [if_neg hn]
          refine ⟨_, rfl, ?_⟩
          rw [ofInt64_nonneg _ (by omega) (by omega)]
          omega
      · left
        rw [if_pos (toInt64_ofInt64_high _ (by omega) (by omega))]
    · intro ht
      rw [toInt64_ofInt64 _ (by omega) (by omega), if_neg (by omega)]
      rw [ofInt64_nonneg _ (by omega) (by omega)]

theorem flush_reading_flags (f : seek_file) (m : Nat)
    (hm : (0xffffffff - LFS_F_READING) &&& m = m) :
    (flush_reading f).flags &&& m = f.flags &&& m := by
  unfold flush_reading
  split
  · show (f.flags &&& (0xffffffff - LFS_F_READING)) &&& m = f.flags &&& m
    rw [Nat.and_assoc, hm]
  · rfl

theorem lfs_file_flush_ok (write_out : seek_file → Int × seek_file) (f : seek_file)
    (h : f.flags &&& LFS_F_WRITING = 0 ∨ f.flags &&& LFS_F_INLINE ≠ 0) :
    (lfs_file_flush write_out f).1 = 0 := by
  unfold lfs_file_flush
  rw [flush_reading_flags f LFS_F_WRITING (by decide),
    flush_reading_flags f LFS_F_INLINE (by decide)]
  split
  · split
    · rename_i h1 h2
      rcases h with h | h
      · exact absurd h h1
      · exact absurd h2 h
    · rfl
  · rfl

/-- C20 (amended): `lfs_file_rawseek` computes the target as `offset`
(SEEK_SET), `pos + offset` (SEEK_CUR) or `size + offset` (SEEK_END).  A
target that is negative or above `file_max` gives `LFS_ERR_INVAL` and leaves
the file as it was.  A target in `[0, file_max]` is returned and becomes the
position whenever `lfs_file_flush` succeeds, as it always does for a file
that is not being written or is inline; otherwise the seek either returns
the target (position unchanged, or within the read cache) or returns the
error of `lfs_file_flush`. -/
theorem C20_seek_target (write_out : seek_file → Int × seek_file)
    (block_size file_max_size : Nat) (f : seek_file) (offset whence : Int)
    (hoff : -9223372036854775808 ≤ offset ∧ offset < 9223372036854775808)
    (hw : whence = LFS_SEEK_SET ∨ whence = LFS_SEEK_CUR ∨ whence = LFS_SEEK_END)
    (hpos : f.pos ≤ file_max_size) (hsize : f.ctz_size ≤ file_max_size)
    (hmax : file_max_size ≤ LFS_FILE_MAX) :
    ((seek_target f offset whence < 0 ∨ seek_target f offset whence > file_max_size) →
        lfs_file_rawseek write_out block_size file_max_size f offset whence
          = (LFS_ERR_INVAL, f))
      ∧ (0 ≤ seek_target f offset whence ∧ seek_target f offset whence ≤ file_max_size →
          ((lfs_file_flush write_out f).1 = 0 →
            (lfs_file_rawseek write_out block_size file_max_size f offset whence).1
                = seek_target f offset whence
              ∧ ((lfs_file_rawseek write_out block_size file_max_size f offset whence).2.pos
                  : Int) = seek_target f offset whence)
          ∧ (((lfs_file_rawseek write_out block_size file_max_size f offset whence).1
                = seek_target f offset whence
              ∧ ((lfs_file_rawseek write_out block_size file_max_size f offset whence).2.pos
                  : Int) = seek_target f offset whence)
            ∨ ((lfs_file_flush write_out f).1 ≠ 0
              ∧ lfs_file_rawseek write_out block_size file_max_size f offset whence
                = lfs_file_flush write_out f)))
      ∧ ((f.flags &&& LFS_F_WRITING = 0 ∨ f.flags &&& LFS_F_INLINE ≠ 0) →
          (lfs_file_flush write_out f).1 = 0) := by
  obtain ⟨hA, hB⟩ := seek_npos_spec f offset whence file_max_size hoff hw hpos hsize hmax
  refine ⟨?_, ?_, lfs_file_flush_ok write_out f⟩
  · intro ht
    unfold lfs_file_rawseek
    rcases hA ht with h | ⟨n, h, hn⟩
    · rw [h]
    · rw [h]
      simp only []
      rw [if_pos hn]
  · intro ht
    have hn := hB ht
    generalize seek_target f offset whence = tg at *
    unfold LFS_FILE_MAX at hmax
    have htn : ((tg.toNat : Nat) : Int) = tg := Int.toNat_of_nonneg ht.1
    have h64 : toInt64 tg.toNat = tg := by
      rw [toInt64_small _ (by omega)]; exact htn
    have key : ((lfs_file_rawseek write_out block_size file_max_size f offset whence).1 = tg
          ∧ ((lfs_file_rawseek write_out block_size file_max_size f offset whence).2.pos
              : Int) = tg)
        ∨ ((lfs_file_flush write_out f).1 ≠ 0
          ∧ lfs_file_rawseek write_out block_size file_max_size f offset whence
            = lfs_file_flush write_out f) := by
      unfold lfs_file_rawseek
      rw [hn]
      simp only []
      rw [if_neg (by omega)]
      split
      · rename_i hp
        left
        exact ⟨h64, by rw [hp]; exact htn⟩
      · split
        · left
          exact ⟨h64, htn⟩
        · split
          · rename_i he
            right
            exact ⟨he, rfl⟩
          · left
            exact ⟨h64, htn⟩
    refine ⟨?_, key⟩
    intro h0
    rcases key with k | k
    · exact k
    · exact absurd h0 k.1

/-- A file of 2000 bytes is being written at position 500; the seek to
position 0 has to flush, and the flush ends with `LFS_ERR_NOSPC` (the copy of
the rest of the file needs a new block and none is free).  The target 0 is
in range, yet the seek returns `LFS_ERR_NOSPC` and the position stays 500. -/
theorem C20_seek_counterexample :
    seek_target ⟨0x020002, 500, 5, 2000, 7, 500, 7, 0, 500⟩ 0 LFS_SEEK_SET = 0
      ∧ lfs_file_rawseek (fun x => (LFS_ERR_NOSPC, x)) 512 LFS_FILE_MAX
          ⟨0x020002, 500, 5, 2000, 7, 500, 7, 0, 500⟩ 0 LFS_SEEK_SET
        = (LFS_ERR_NOSPC, ⟨0x020002, 500, 5, 2000, 7, 500, 7, 0, 500⟩) := by
  decide

/-- A read-only file of 2000 bytes at position 500 seeks 100 bytes back from
the end and to 50 bytes before the start. -/
theorem C20_seek_target_witness :
    lfs_file_rawseek (fun x => (LFS_ERR_NOSPC, x)) 512 LFS_FILE_MAX
        ⟨1, 500, 5, 2000, 7, 500, 18446744073709551615, 0, 0⟩ (-2050) LFS_SEEK_END
      = (LFS_ERR_INVAL, ⟨1, 500, 5, 2000, 7, 500, 18446744073709551615, 0, 0⟩)
    ∧ (lfs_file_rawseek (fun x => (LFS_ERR_NOSPC, x)) 512 LFS_FILE_MAX
        ⟨1, 500, 5, 2000, 7, 500, 18446744073709551615, 0, 0⟩ (-100) LFS_SEEK_END).1
      = 1900 := by
  have h1 := C20_seek_target (fun x => (LFS_ERR_NOSPC, x)) 512 LFS_FILE_MAX
    ⟨1, 500, 5, 2000, 7, 500, 18446744073709551615, 0, 0⟩ (-2050) LFS_SEEK_END
    (by decide) (by decide) (by decide) (by decide) (by decide)
  have h2 := C20_seek_target (fun x => (LFS_ERR_NOSPC, x)) 512 LFS_FILE_MAX
    ⟨1, 500, 5, 2000, 7, 500, 18446744073709551615, 0, 0⟩ (-100) LFS_SEEK_END
    (by decide) (by decide) (by decide) (by decide) (by decide)
  exact ⟨h1.1 (by decide),
    (((h2.2.1 (by decide)).1 (h2.2.2 (Or.inl (by decide)))).1).trans (by decide)⟩

/-- C17: the path `a/./..` has the normal form of the root, for which
`lfs_dir_find` looks up no name and returns the root's tag (as it does for
the empty path and for `a/..`).  For `a/./..` it looks up `a` and returns the
tag of `a`: the loop that matches a name with a later `..` counts the
component `.` as a name, so `a` is not cancelled, and the `..` is then
skipped as if it stood at the root.  Here every lookup finds a directory
with id 1.  The path `foo/../bar` looks up only `bar`. -/
theorem C17_dot_hides_dotdot :
    lfs_dir_find (fun _ _ => LFS_MKTAG LFS_TYPE_DIR 1 0) ['a', '/', '.', '/', '.', '.']
        = some (((LFS_MKTAG LFS_TYPE_DIR 1 0 : Nat) : Int), ['a', '/', '.', '/', '.', '.'], [['a']])
      ∧ lfs_dir_find (fun _ _ => LFS_MKTAG LFS_TYPE_DIR 1 0) []
        = some (((LFS_MKTAG LFS_TYPE_DIR 0x3ff 0 : Nat) : Int), [], [])
      ∧ lfs_dir_find (fun _ _ => LFS_MKTAG LFS_TYPE_DIR 1 0) ['a', '/', '.', '.']
        = some (((LFS_MKTAG LFS_TYPE_DIR 0x3ff 0 : Nat) : Int), ['a', '/', '.', '.'], [])
      ∧ lfs_dir_find (fun _ _ => LFS_MKTAG LFS_TYPE_DIR 1 0)
          ['f', 'o', 'o', '/', '.', '.', '/', 'b', 'a', 'r']
        = some (((LFS_MKTAG LFS_TYPE_DIR 1 0 : Nat) : Int), ['b', 'a', 'r'], [['b', 'a', 'r']]) := by
  refine ⟨?_, ?_, ?_, ?_⟩ <;> rfl

theorem land_field (k n x : Nat) :
    x &&& (2 ^ k * (2 ^ n - 1)) = x / 2 ^ k % 2 ^ n * 2 ^ k := by
  apply Nat.eq_of_testBit_eq
  intro i
  rw [Nat.mul_comm (x / 2 ^ k % 2 ^ n), Nat.testBit_and, Nat.testBit_mul_pow_two,
    Nat.testBit_mul_pow_two, Nat.testBit_two_pow_sub_one, Nat.testBit_mod_two_pow,
    ← Nat.shiftRight_eq_div_pow, Nat.testBit_shiftRight]
  by_cases h : k ≤ i
  · simp only [ge_iff_le, h, decide_True, Bool.true_and]
    rw [show k + (i - k) = i by omega]
    cases x.testBit i <;> simp
  · simp [h]

theorem land_two_fields (k1 n1 k2 n2 x : Nat) (h : k1 + n1 ≤ k2) :
    x &&& (2 ^ k1 * (2 ^ n1 - 1) + 2 ^ k2 * (2 ^ n2 - 1))
      = x / 2 ^ k1 % 2 ^ n1 * 2 ^ k1 + x / 2 ^ k2 % 2 ^ n2 * 2 ^ k2 := by
  have h1 : 2 ^ k1 * 2 ^ n1 ≤ 2 ^ k2 := by
    rw [← Nat.pow_add]; exact Nat.pow_le_pow_right (by norm_num) h
  have h2 : 0 < 2 ^ k1 := Nat.two_pow_pos k1
  have h3 : 0 < 2 ^ n1 := Nat.two_pow_pos n1
  have hlt : 2 ^ k1 * (2 ^ n1 - 1) < 2 ^ k2 :=
    lt_of_lt_of_le (Nat.mul_lt_mul_of_pos_left (by omega) h2) h1
  have hlt2 : x / 2 ^ k1 % 2 ^ n1 * 2 ^ k1 < 2 ^ k2 := by
    have h4 : x / 2 ^ k1 % 2 ^ n1 < 2 ^ n1 := Nat.mod_lt _ h3
    have h5 := Nat.mul_lt_mul_of_pos_right h4 h2
    rw [Nat.mul_comm (2 ^ n1)] at h5
    exact lt_of_lt_of_le h5 h1
  rw [Nat.add_comm (2 ^ k1 * (2 ^ n1 - 1)), Nat.mul_add_lt_is_or hlt, Nat.and_or_distrib_left,
    land_field, land_field, Nat.mul_comm _ (2 ^ k2), ← Nat.mul_add_lt_is_or hlt2, Nat.add_comm]

theorem lfs_tag_id_eq (t : Nat) : lfs_tag_id t = t / 1024 % 1024 := by
  unfold lfs_tag_id
  have h := land_field 10 10 t
  norm_num at h
  rw [h, Nat.shiftRight_eq_div_pow]
  omega

theorem lfs_tag_type1_eq (t : Nat) : lfs_tag_type1 t = t / 268435456 % 8 * 256 := by
  unfold lfs_tag_type1
  have h := land_field 28 3 t
  norm_num at h
  rw [h, Nat.shiftRight_eq_div_pow]
  omega

theorem lfs_tag_type3_eq (t : Nat) : lfs_tag_type3 t = t / 1048576 % 2048 := by
  unfold lfs_tag_type3
  have h := land_field 20 11 t
  norm_num at h
  rw [h, Nat.shiftRight_eq_div_pow]
  omega

theorem lfs_tag_chunk_eq (t : Nat) : lfs_tag_chunk t = t / 1048576 % 256 := by
  unfold lfs_tag_chunk
  have h := land_field 20 8 t
  norm_num at h
  rw [h, Nat.shiftRight_eq_div_pow]
  omega

theorem land_mask700 (t : Nat) :
    0x700ffc00 &&& t = t / 1024 % 1024 * 1024 + t / 268435456 % 8 * 268435456 := by
  have h := land_two_fields 10 10 28 3 t (by norm_num)
  norm_num at h
  rw [Nat.and_comm]
  exact h

theorem land_mask7ff (t : Nat) :
    0x7ffffc00 &&& t = t / 1024 % 1024 * 1024 + t / 1048576 % 2048 * 1048576 := by
  have h := land_two_fields 10 10 20 11 t (by norm_num)
  norm_num at h
  rw [Nat.and_comm]
  exact h

theorem land_idmask (t : Nat) : 0xffc00 &&& t = t / 1024 % 1024 * 1024 := by
  have h := land_field 10 10 t
  norm_num at h
  rw [Nat.and_comm]
  exact h

theorem land_frombit (t : Nat) : t &&& 0x10000000 = t / 268435456 % 2 * 268435456 := by
  have h := land_field 28 1 t
  norm_num at h
  exact h

theorem land_low31 (t : Nat) : t &&& 0x7fffffff = t % 2147483648 := by
  have h := land_low_mask 31 t
  norm_num at h
  exact h

theorem lor_bit31 (t : Nat) (h : t < 4294967296) :
    t ||| 0x80000000 = t % 2147483648 + 2147483648 := by
  have h1 : (2 : Nat) ^ 31 * 1 + t % 2147483648 = 2 ^ 31 * 1 ||| t % 2147483648 :=
    Nat.mul_add_lt_is_or (by norm_num; omega) 1
  norm_num at h1
  by_cases hb : t < 2147483648
  · rw [Nat.mod_eq_of_lt hb] at h1 ⊢
    rw [Nat.or_comm, ← h1, Nat.add_comm]
  · have e : t = 2147483648 ||| t % 2147483648 := by rw [← h1]; omega
    conv_lhs => rw [e]
    rw [Nat.or_comm, ← Nat.or_assoc, Nat.or_self, ← h1, Nat.add_comm]

theorem mask700_iff (a b : Nat) :
    0x700ffc00 &&& a = 0x700ffc00 &&& b
      ↔ a / 1024 % 1024 = b / 1024 % 1024 ∧ a / 268435456 % 8 = b / 268435456 % 8 := by
  rw [land_mask700, land_mask700]
  omega

theorem mask7ff_iff (a b : Nat) :
    0x7ffffc00 &&& a = 0x7ffffc00 &&& b
      ↔ a / 1024 % 1024 = b / 1024 % 1024 ∧ a / 1048576 % 2048 = b / 1048576 % 2048 := by
  rw [land_mask7ff, land_mask7ff]
  omega

theorem land_bit30 (t : Nat) : t &&& 0x40000000 = t / 1073741824 % 2 * 1073741824 := by
  have h := land_field 30 1 t
  norm_num at h
  exact h

theorem splice_word_eq (u : Nat) :
    splice_word u = if u / 1048576 % 256 < 128 then u / 1048576 % 256 * 1024
      else 4294967296 - (256 - u / 1048576 % 256) * 1024 := by
  unfold splice_word lfs_tag_splice LFS_MKTAG ofInt32 wrap32
  rw [lfs_tag_chunk_eq]
  simp only [Nat.shiftLeft_eq]
  have hc : u / 1048576 % 256 < 256 := Nat.mod_lt _ (by norm_num)
  generalize u / 1048576 % 256 = c at hc ⊢
  have z1 : 0 % 4294967296 * 2 ^ 20 % 4294967296 = 0 := by norm_num
  have z2 : 0 % 4294967296 = 0 := by norm_num
  rw [z1, z2, Nat.zero_or, Nat.or_zero]
  split_ifs with h
  · have e : (((c : Int)) % 4294967296).toNat = c := by omega
    rw [e]
    omega
  · have e : (((c : Int) - 256) % 4294967296).toNat = 4294967296 - (256 - c) := by omega
    rw [e]
    omega

/-- `lfs_dir_traverse_filter` in terms of the fields of the two tags. -/
theorem filter_step_eq (T u : Nat) :
    filter_step T u =
      if (if u / 268435456 % 2 = 1 then
            u / 1024 % 1024 = T / 1024 % 1024 ∧ u / 1048576 % 2048 = T / 1048576 % 2048
          else u / 1024 % 1024 = T / 1024 % 1024 ∧ u / 268435456 % 8 = T / 268435456 % 8)
          ∨ T % 1024 = 1023
          ∨ (u / 1048576 % 2048 = 0x4ff ∧ u / 1024 % 1024 = T / 1024 % 1024) then none
      else if u / 268435456 % 8 = 4 ∧ u / 1024 % 1024 ≤ T / 1024 % 1024 then
        some ((T + splice_word u) % 4294967296)
      else some T := by
  have c1 : LFS_MKTAG LFS_TYPE_FROM 0 0 = 0x10000000 := by decide
  have c2 : LFS_MKTAG LFS_TYPE_MOVESTATE 0x3ff 0 = 0x7ffffc00 := by decide
  have c3 : LFS_MKTAG LFS_TYPE_GLOBALS 0x3ff 0 = 0x700ffc00 := by decide
  have c4 : LFS_MKTAG LFS_TYPE_DELETE 0 0 = 0x4ff00000 := by decide
  have c5 : LFS_MKTAG 0 0x3ff 0 = 0xffc00 := by decide
  have c6 : LFS_MKTAG LFS_FROM_NOOP 0 0 = 0 := by decide
  have hor : (0x4ff00000 : Nat) ||| (0xffc00 &&& T) = 0x4ff00000 + T / 1024 % 1024 * 1024 := by
    rw [land_idmask]
    have := @Nat.mul_add_lt_is_or 20 (T / 1024 % 1024 * 1024) (by norm_num; omega) 0x4ff
    norm_num at this
    omega
  have hdel : (lfs_tag_isdelete T = true) ↔ T % 1024 = 1023 := lfs_tag_isdelete_iff T
  have hA : ((if u / 268435456 % 2 * 268435456 ≠ 0 then 2147482624 else 1880095744) &&& u
        = (if u / 268435456 % 2 * 268435456 ≠ 0 then 2147482624 else 1880095744) &&& T)
      ↔ (if u / 268435456 % 2 = 1 then
            u / 1024 % 1024 = T / 1024 % 1024 ∧ u / 1048576 % 2048 = T / 1048576 % 2048
          else u / 1024 % 1024 = T / 1024 % 1024 ∧ u / 268435456 % 8 = T / 268435456 % 8) := by
    by_cases hb : u / 268435456 % 2 = 1
    · rw [if_pos (by omega), if_pos hb]
      exact mask7ff_iff u T
    · rw [if_neg (by omega), if_neg hb]
      exact mask700_iff u T
  have hC : (2147482624 &&& u = 1341128704 + T / 1024 % 1024 * 1024)
      ↔ (u / 1048576 % 2048 = 0x4ff ∧ u / 1024 % 1024 = T / 1024 % 1024) := by
    have := land_mask7ff u
    norm_num at this
    rw [this]
    omega
  have hS : (u / 268435456 % 8 * 256 = LFS_TYPE_SPLICE) ↔ u / 268435456 % 8 = 4 := by
    unfold LFS_TYPE_SPLICE
    omega
  unfold filter_step lfs_dir_traverse_filter
  rw [c1, c2, c3, c4, c5, c6, hor, land_frombit, lfs_tag_type1_eq, lfs_tag_id_eq, lfs_tag_id_eq]
  simp only [hA, hdel, hC, hS]
  by_cases hc : (if u / 268435456 % 2 = 1 then
            u / 1024 % 1024 = T / 1024 % 1024 ∧ u / 1048576 % 2048 = T / 1048576 % 2048
          else u / 1024 % 1024 = T / 1024 % 1024 ∧ u / 268435456 % 8 = T / 268435456 % 8)
          ∨ T % 1024 = 1023
          ∨ (u / 1048576 % 2048 = 0x4ff ∧ u / 1024 % 1024 = T / 1024 % 1024)
  · simp only [if_pos hc, if_true]
  · simp only [if_neg hc]
    by_cases hs : u / 268435456 % 8 = 4 ∧ u / 1024 % 1024 ≤ T / 1024 % 1024
    · simp only [if_pos hs, wrap32]
      simp
    · simp only [if_neg hs]
      simp

theorem lookup_ok_mask (gmask q : Nat) (h : lookup_ok gmask q) :
    lfs_tag_id gmask = 1023 ∧ q < 2147483648 ∧ q / 1073741824 % 2 = 0
      ∧ ∀ t, (gmask &&& t = gmask &&& q) ↔
          (t / 1024 % 1024 = q / 1024 % 1024
            ∧ (if q / 268435456 % 2 = 1 then t / 1048576 % 2048 = q / 1048576 % 2048
                else t / 268435456 % 8 = q / 268435456 % 8)) := by
  obtain ⟨h1, h2, h3⟩ := h
  rw [land_bit30] at h2
  rw [land_frombit] at h3
  by_cases hb : q / 268435456 % 2 = 1
  · rw [if_pos (by omega)] at h3
    subst h3
    refine ⟨by decide, h1, by omega, fun t => ?_⟩
    rw [if_pos hb]
    exact mask7ff_iff t q
  · rw [if_neg (by omega)] at h3
    subst h3
    refine ⟨by decide, h1, by omega, fun t => ?_⟩
    rw [if_neg hb]
    exact mask700_iff t q

theorem getslice_gtag_eq (gtag gd : Nat) (hg : gtag < 4294967296) (hd : gd < 4294967296) :
    getslice_gtag gtag gd = (gtag + 4294967296 - gd) % 4294967296 := by
  unfold getslice_gtag wrap32
  rw [Nat.mod_eq_of_lt hg, Nat.mod_eq_of_lt hd]

/-- A pass of the lookup over a tag that is not a SPLICE tag. -/
theorem log_get_cons_plain (gmask gtag gsize : Nat) (e : Nat × List Nat)
    (R : List (Nat × List Nat)) (gd : Nat) (h : e.1 / 268435456 % 8 ≠ 4) :
    log_get gmask gtag gsize (e :: R) gd =
      if gmask &&& e.1 = gmask &&& getslice_gtag gtag gd then
        if lfs_tag_isdelete e.1 then (LFS_ERR_NOENT, none)
        else
          (toInt32 (wrap32 (e.1 + gd)),
            some (e.2.take (lfs_min (lfs_tag_size e.1) gsize)
              ++ List.replicate (gsize - lfs_min (lfs_tag_size e.1) gsize) 0))
      else log_get gmask gtag gsize R gd := by
  have hs : getslice_splices gmask gtag gd e.1 = false := by
    unfold getslice_splices
    rw [lfs_tag_type1_eq]
    unfold LFS_TYPE_SPLICE
    simp
    intro _ h2
    omega
  have hg : getslice_gdiff gmask gtag gd e.1 = gd := by
    unfold getslice_gdiff
    rw [hs]
    rfl
  show (if getslice_splices gmask gtag gd e.1 = true ∧ _ then _ else _) = _
  rw [hs, hg]
  simp

/-- A pass of the lookup over a CREATE tag. -/
theorem log_get_cons_create (gmask gtag gsize : Nat) (e : Nat × List Nat)
    (R : List (Nat × List Nat)) (gd k : Nat) (hg : gtag < 4294967296) (hd : gd < 4294967296)
    (hq : lookup_ok gmask (getslice_gtag gtag gd)) (hk : k < 1024)
    (he : e.1 = 1074790400 + k * 1024) :
    log_get gmask gtag gsize (e :: R) gd =
      if k ≤ getslice_gtag gtag gd / 1024 % 1024 then
        if k = getslice_gtag gtag gd / 1024 % 1024 then (LFS_ERR_NOENT, none)
        else log_get gmask gtag gsize R ((gd + 1024) % 4294967296)
      else log_get gmask gtag gsize R gd := by
  obtain ⟨m1, m2, m3, m4⟩ := lookup_ok_mask gmask _ hq
  have c1 : LFS_MKTAG LFS_TYPE_CREATE 0 0 = 1074790400 := by decide
  have c5 : LFS_MKTAG 0 0x3ff 0 = 0xffc00 := by decide
  have hor : (1074790400 : Nat) ||| (0xffc00 &&& getslice_gtag gtag gd)
      = 1074790400 + getslice_gtag gtag gd / 1024 % 1024 * 1024 := by
    rw [land_idmask]
    have := @Nat.mul_add_lt_is_or 20 (getslice_gtag gtag gd / 1024 % 1024 * 1024)
      (by norm_num; omega) 1025
    norm_num at this
    omega
  have hsw : splice_word e.1 = 1024 := by
    rw [splice_word_eq, he]
    have : (1074790400 + k * 1024) / 1048576 % 256 = 1 := by omega
    rw [this]
    rfl
  have hs : getslice_splices gmask gtag gd e.1 = true
      ↔ k ≤ getslice_gtag gtag gd / 1024 % 1024 := by
    unfold getslice_splices
    rw [m1, lfs_tag_type1_eq, lfs_tag_id_eq, lfs_tag_id_eq, he]
    unfold LFS_TYPE_SPLICE
    simp
    have h1 : (1074790400 + k * 1024) / 268435456 % 8 * 256 = 1024 := by omega
    have h2 : (1074790400 + k * 1024) / 1024 % 1024 = k := by omega
    rw [h1, h2]
    simp
  have hq2 := getslice_gtag_eq gtag gd hg hd
  show (if getslice_splices gmask gtag gd e.1 = true ∧ _ then _ else _) = _
  rw [c1, c5, hor]
  unfold getslice_gdiff
  by_cases hle : k ≤ getslice_gtag gtag gd / 1024 % 1024
  · rw [if_pos hle]
    have hs1 := hs.mpr hle
    rw [hs1]
    by_cases hke : k = getslice_gtag gtag gd / 1024 % 1024
    · rw [if_pos hke, if_pos ⟨rfl, by rw [he, hke]⟩]
    · rw [if_neg hke, if_neg (by rw [he]; intro hc; omega)]
      simp only [if_true, hsw, wrap32]
      have hq3 := getslice_gtag_eq gtag ((gd + 1024) % 4294967296) hg (Nat.mod_lt _ (by norm_num))
      have hnm : ¬ (gmask &&& e.1 = gmask &&& getslice_gtag gtag ((gd + 1024) % 4294967296)) := by
        intro hc
        have hq' : lookup_ok gmask (getslice_gtag gtag ((gd + 1024) % 4294967296)) := by
          obtain ⟨a1, a2, a3⟩ := hq
          rw [land_bit30] at a2
          rw [land_frombit] at a3
          refine ⟨by omega, by rw [land_bit30]; omega, ?_⟩
          rw [land_frombit, a3]
          have : getslice_gtag gtag ((gd + 1024) % 4294967296) / 268435456 % 2
              = getslice_gtag gtag gd / 268435456 % 2 := by omega
          rw [this]
        obtain ⟨n1, n2, n3, n4⟩ := lookup_ok_mask gmask _ hq'
        have := (n4 e.1).mp hc
        rw [he] at this
        split_ifs at this <;> omega
      rw [if_neg hnm]
  · rw [if_neg hle]
    have hs1 : getslice_splices gmask gtag gd e.1 = false := by
      cases hx : getslice_splices gmask gtag gd e.1
      · rfl
      · exact absurd (hs.mp hx) hle
    rw [hs1]
    simp only [Bool.false_eq_true, false_and, if_false]
    have hnm : ¬ (gmask &&& e.1 = gmask &&& getslice_gtag gtag gd) := by
      intro hc
      have := (m4 e.1).mp hc
      rw [he] at this
      split_ifs at this <;> omega
    rw [if_neg hnm]

theorem lookup_ok_shift (gmask q q2 : Nat) (hq : lookup_ok gmask q) (h2 : q2 < 2147483648)
    (ht : q2 / 268435456 = q / 268435456) : lookup_ok gmask q2 := by
  obtain ⟨a1, a2, a3⟩ := hq
  rw [land_bit30] at a2
  rw [land_frombit] at a3
  refine ⟨h2, by rw [land_bit30]; omega, ?_⟩
  rw [land_frombit, a3, ht]

/-- A pass of the lookup over a DELETE tag. -/
theorem log_get_cons_delete (gmask gtag gsize : Nat) (e : Nat × List Nat)
    (R : List (Nat × List Nat)) (gd k : Nat) (hg : gtag < 4294967296) (hd : gd < 4294967296)
    (hq : lookup_ok gmask (getslice_gtag gtag gd))
    (hid : getslice_gtag gtag gd / 1024 % 1024 < 1023)
    (he : e.1 / 1048576 % 2048 = 1279) (hk : e.1 / 1024 % 1024 = k) :
    log_get gmask gtag gsize (e :: R) gd =
      if k ≤ getslice_gtag gtag gd / 1024 % 1024 then
        log_get gmask gtag gsize R ((gd + 4294966272) % 4294967296)
      else log_get gmask gtag gsize R gd := by
  obtain ⟨m1, m2, m3, m4⟩ := lookup_ok_mask gmask _ hq
  have c1 : LFS_MKTAG LFS_TYPE_CREATE 0 0 = 1074790400 := by decide
  have c5 : LFS_MKTAG 0 0x3ff 0 = 0xffc00 := by decide
  have hor : (1074790400 : Nat) ||| (0xffc00 &&& getslice_gtag gtag gd)
      = 1074790400 + getslice_gtag gtag gd / 1024 % 1024 * 1024 := by
    rw [land_idmask]
    have := @Nat.mul_add_lt_is_or 20 (getslice_gtag gtag gd / 1024 % 1024 * 1024)
      (by norm_num; omega) 1025
    norm_num at this
    omega
  have hsw : splice_word e.1 = 4294966272 := by
    rw [splice_word_eq]
    have : e.1 / 1048576 % 256 = 255 := by omega
    rw [this]
    rfl
  have hs : getslice_splices gmask gtag gd e.1 = true
      ↔ k ≤ getslice_gtag gtag gd / 1024 % 1024 := by
    unfold getslice_splices
    rw [m1, lfs_tag_type1_eq, lfs_tag_id_eq, lfs_tag_id_eq, hk]
    unfold LFS_TYPE_SPLICE
    simp
    have h1 : e.1 / 268435456 % 8 * 256 = 1024 := by omega
    rw [h1]
    simp
  have hq2 := getslice_gtag_eq gtag gd hg hd
  have hnc : ¬ (e.1 = 1074790400 + getslice_gtag gtag gd / 1024 % 1024 * 1024) := by
    intro hc
    rw [hc] at he
    omega
  show (if getslice_splices gmask gtag gd e.1 = true ∧ _ then _ else _) = _
  rw [c1, c5, hor, if_neg (fun hc => hnc hc.2)]
  unfold getslice_gdiff
  by_cases hle : k ≤ getslice_gtag gtag gd / 1024 % 1024
  · rw [if_pos hle]
    have hs1 := hs.mpr hle
    rw [hs1]
    simp only [if_true, hsw, wrap32]
    have hq3 := getslice_gtag_eq gtag ((gd + 4294966272) % 4294967296) hg
      (Nat.mod_lt _ (by norm_num))
    have hnm : ¬ (gmask &&& e.1
        = gmask &&& getslice_gtag gtag ((gd + 4294966272) % 4294967296)) := by
      intro hc
      have hq' := lookup_ok_shift gmask _ (getslice_gtag gtag ((gd + 4294966272) % 4294967296))
        hq (by omega) (by omega)
      obtain ⟨n1, n2, n3, n4⟩ := lookup_ok_mask gmask _ hq'
      have := (n4 e.1).mp hc
      split_ifs at this <;> omega
    rw [if_neg hnm]
  · rw [if_neg hle]
    have hs1 : getslice_splices gmask gtag gd e.1 = false := by
      cases hx : getslice_splices gmask gtag gd e.1
      · rfl
      · exact absurd (hs.mp hx) hle
    rw [hs1]
    simp only [Bool.false_eq_true, if_false]
    have hnm : ¬ (gmask &&& e.1 = gmask &&& getslice_gtag gtag gd) := by
      intro hc
      have := (m4 e.1).mp hc
      split_ifs at this <;> omega
    rw [if_neg hnm]

theorem match_same_slot (gmask q a b : Nat) (hq : lookup_ok gmask q)
    (ha : gmask &&& a = gmask &&& q) (hb : gmask &&& b = gmask &&& q) : same_slot a b := by
  obtain ⟨m1, m2, m3, m4⟩ := lookup_ok_mask gmask _ hq
  have h1 := (m4 a).mp ha
  have h2 := (m4 b).mp hb
  unfold same_slot
  split_ifs at h1 h2 <;> omega

theorem log_get_nomatch (gmask gtag gsize gd : Nat) :
    ∀ X : List (Nat × List Nat), (∀ e ∈ X, e.1 / 268435456 % 8 ≠ 4) →
      (∀ e ∈ X, ¬ (gmask &&& e.1 = gmask &&& getslice_gtag gtag gd)) →
      log_get gmask gtag gsize X gd = (LFS_ERR_NOENT, none)
  | [], _, _ => rfl
  | e :: X, hp, hn => by
    rw [log_get_cons_plain gmask gtag gsize e X gd (hp e (List.mem_cons_self _ _)),
      if_neg (hn e (List.mem_cons_self _ _))]
    exact log_get_nomatch gmask gtag gsize gd X (fun x hx => hp x (List.mem_cons_of_mem _ hx))
      (fun x hx => hn x (List.mem_cons_of_mem _ hx))

/-- The lookup in a list without SPLICE tags whose tags went through one
more call of the filter is the lookup in the list itself for the moved
tag. -/
theorem log_get_filterMap (gmask gtag gsize : Nat) (φ : Nat → Option Nat) (gd gd2 : Nat)
    (hq : lookup_ok gmask (getslice_gtag gtag gd2)) :
    ∀ X : List (Nat × List Nat), (∀ e ∈ X, e.1 / 268435456 % 8 ≠ 4) →
      X.Pairwise (fun a b => ¬ same_slot a.1 b.1) →
      (∀ e ∈ X, ∀ t, φ e.1 = some t →
        t / 268435456 % 8 ≠ 4
          ∧ ((gmask &&& t = gmask &&& getslice_gtag gtag gd)
              ↔ (gmask &&& e.1 = gmask &&& getslice_gtag gtag gd2))
          ∧ (gmask &&& e.1 = gmask &&& getslice_gtag gtag gd2 →
              lfs_tag_isdelete t = lfs_tag_isdelete e.1
                ∧ wrap32 (t + gd) = wrap32 (e.1 + gd2)
                ∧ lfs_tag_size t = lfs_tag_size e.1)) →
      (∀ e ∈ X, φ e.1 = none → gmask &&& e.1 = gmask &&& getslice_gtag gtag gd2 →
        lfs_tag_isdelete e.1 = true) →
      log_get gmask gtag gsize (X.filterMap (fun e => (φ e.1).map (fun t => (t, e.2)))) gd
        = log_get gmask gtag gsize X gd2
  | [], _, _, _, _ => rfl
  | e :: X, hp, hu, h3, h4 => by
    have hpX : ∀ x ∈ X, x.1 / 268435456 % 8 ≠ 4 := fun x hx => hp x (List.mem_cons_of_mem _ hx)
    have huX := (List.pairwise_cons.mp hu).2
    have hue := (List.pairwise_cons.mp hu).1
    have ih := log_get_filterMap gmask gtag gsize φ gd gd2 hq X hpX huX
      (fun x hx => h3 x (List.mem_cons_of_mem _ hx))
      (fun x hx => h4 x (List.mem_cons_of_mem _ hx))
    rw [log_get_cons_plain gmask gtag gsize e X gd2 (hp e (List.mem_cons_self _ _))]
    cases hφ : φ e.1 with
    | none =>
      rw [List.filterMap_cons_none (by rw [hφ]; rfl), ih]
      by_cases hm : gmask &&& e.1 = gmask &&& getslice_gtag gtag gd2
      · rw [if_pos hm, h4 e (List.mem_cons_self _ _) hφ hm]
        simp only [if_true]
        exact log_get_nomatch gmask gtag gsize gd2 X hpX
          (fun x hx hc => hue x hx (match_same_slot gmask _ e.1 x.1 hq hm hc))
      · rw [if_neg hm]
    | some t =>
      obtain ⟨p1, p2, p6⟩ := h3 e (List.mem_cons_self _ _) t hφ
      rw [List.filterMap_cons_some (by rw [hφ]; rfl),
        log_get_cons_plain gmask gtag gsize (t, e.2) _ gd p1]
      by_cases hm : gmask &&& e.1 = gmask &&& getslice_gtag gtag gd2
      · obtain ⟨p3, p4, p5⟩ := p6 hm
        rw [if_pos hm, if_pos (p2.mpr hm)]
        simp only [p3, p4, p5]
      · rw [if_neg hm, if_neg (fun hc => hm (p2.mp hc))]
        exact ih

theorem filter_step_plain (T u : Nat) (hu : u / 268435456 % 8 ≠ 4) :
    filter_step T u =
      if (if u / 268435456 % 2 = 1 then
            u / 1024 % 1024 = T / 1024 % 1024 ∧ u / 1048576 % 2048 = T / 1048576 % 2048
          else u / 1024 % 1024 = T / 1024 % 1024 ∧ u / 268435456 % 8 = T / 268435456 % 8)
          ∨ T % 1024 = 1023 then none
      else some T := by
  rw [filter_step_eq]
  have h1 : ¬ (u / 1048576 % 2048 = 0x4ff ∧ u / 1024 % 1024 = T / 1024 % 1024) := by
    intro hc
    omega
  have h2 : ¬ (u / 268435456 % 8 = 4 ∧ u / 1024 % 1024 ≤ T / 1024 % 1024) := fun hc => hu hc.1
  simp only [h1, h2, or_false, if_false]

theorem filter_step_create (T k : Nat) (hk : k < 1024) (hT : T < 2147483648)
    (hb : T / 1073741824 % 2 = 0) :
    filter_step T (1074790400 + k * 1024) =
      if T % 1024 = 1023 then none
      else if k ≤ T / 1024 % 1024 then some (T + 1024) else some T := by
  rw [filter_step_eq, splice_word_eq]
  have e1 : (1074790400 + k * 1024) / 268435456 % 2 = 0 := by omega
  have e2 : (1074790400 + k * 1024) / 268435456 % 8 = 4 := by omega
  have e3 : (1074790400 + k * 1024) / 1048576 % 2048 = 1025 := by omega
  have e4 : (1074790400 + k * 1024) / 1024 % 1024 = k := by omega
  have e5 : (1074790400 + k * 1024) / 1048576 % 256 = 1 := by omega
  rw [e1, e2, e3, e4, e5]
  have h1 : ¬ (k = T / 1024 % 1024 ∧ 4 = T / 268435456 % 8) := by
    intro hc
    omega
  simp only [h1, false_or, true_and, if_false]
  norm_num
  have e6 : (T + 1024) % 4294967296 = T + 1024 := Nat.mod_eq_of_lt (by omega)
  rw [e6]

theorem filter_step_delete (T u : Nat) (hu : u / 1048576 % 2048 = 1279) (hT : T < 2147483648)
    (hb : T / 1073741824 % 2 = 0) :
    filter_step T u =
      if T % 1024 = 1023 ∨ u / 1024 % 1024 = T / 1024 % 1024 then none
      else if u / 1024 % 1024 ≤ T / 1024 % 1024 then some (T - 1024) else some T := by
  rw [filter_step_eq, splice_word_eq]
  have e1 : u / 268435456 % 2 = 0 := by omega
  have e2 : u / 268435456 % 8 = 4 := by omega
  have e5 : u / 1048576 % 256 = 255 := by omega
  rw [e1, e2, e5, hu]
  have h0 : ¬ ((0 : Nat) = 1) := by decide
  have h1 : ¬ (u / 1024 % 1024 = T / 1024 % 1024 ∧ 4 = T / 268435456 % 8) := by
    intro hc
    omega
  have h2 : ¬ ((255 : Nat) < 128) := by decide
  simp only [h0, h1, h2, false_or, true_and, if_false]
  by_cases hc : T % 1024 = 1023 ∨ u / 1024 % 1024 = T / 1024 % 1024
  · rw [if_pos hc, if_pos hc]
  · rw [if_neg hc, if_neg hc]
    by_cases hl : u / 1024 % 1024 ≤ T / 1024 % 1024
    · rw [if_pos hl, if_pos hl]
      have e6 : (T + (4294967296 - (256 - 255) * 1024)) % 4294967296 = T - 1024 := by omega
      rw [e6]
    · rw [if_neg hl, if_neg hl]

theorem tag_ok_iff (c : Nat) (ns : Prop) (t : Nat) :
    tag_ok c ns t ↔
      t < 2147483648
        ∧ ((t / 1073741824 % 2 = 0 ∧ t / 1048576 % 2048 ≠ 0 ∧ t / 1048576 % 2048 ≠ 257
              ∧ t / 1048576 % 2048 ≠ 258
              ∧ (t / 1024 % 1024 < c ∨ (t / 268435456 % 8 = 0 ∧ ns ∧ t / 1024 % 1024 < 1023)))
          ∨ (t = 1074790400 + t / 1024 % 1024 * 1024 ∧ t / 1024 % 1024 ≤ c ∧ c < 1023)
          ∨ (t / 1048576 % 2048 = 1279 ∧ t / 1024 % 1024 < c)
          ∨ ((t / 268435456 % 8 = 5 ∨ t / 268435456 % 8 = 6 ∨ t / 268435456 % 8 = 7)
              ∧ t / 1024 % 1024 = 1023)) := by
  unfold tag_ok
  have hmk : LFS_MKTAG LFS_TYPE_CREATE (lfs_tag_id t) 0 = 1074790400 + t / 1024 % 1024 * 1024 := by
    rw [LFS_MKTAG_eq _ _ _ (by decide) (by rw [lfs_tag_id_eq]; omega) (by decide),
      lfs_tag_id_eq]
    unfold LFS_TYPE_CREATE
    omega
  rw [hmk, land_bit30, lfs_tag_type3_eq, lfs_tag_type1_eq, lfs_tag_id_eq]
  unfold LFS_FROM_NOOP LFS_FROM_MOVE LFS_FROM_USERATTRS LFS_TYPE_NAME LFS_TYPE_DELETE
    LFS_TYPE_CRC LFS_TYPE_TAIL LFS_TYPE_GLOBALS
  constructor
  · rintro ⟨h1, h2⟩
    refine ⟨h1, ?_⟩
    rcases h2 with ⟨a, b, c1, d, e⟩ | ⟨a, b, c1⟩ | ⟨a, b⟩ | ⟨a, b⟩
    · left
      refine ⟨by omega, b, c1, d, ?_⟩
      rcases e with e | ⟨e1, e2, e3⟩
      · exact Or.inl e
      · exact Or.inr ⟨by omega, e2, e3⟩
    · right; left; exact ⟨a, b, c1⟩
    · right; right; left; exact ⟨a, b⟩
    · right; right; right; exact ⟨by omega, b⟩
  · rintro ⟨h1, h2⟩
    refine ⟨h1, ?_⟩
    rcases h2 with ⟨a, b, c1, d, e⟩ | ⟨a, b, c1⟩ | ⟨a, b⟩ | ⟨a, b⟩
    · left
      refine ⟨by omega, b, c1, d, ?_⟩
      rcases e with e | ⟨e1, e2, e3⟩
      · exact Or.inl e
      · exact Or.inr ⟨by omega, e2, e3⟩
    · right; left; exact ⟨a, b, c1⟩
    · right; right; left; exact ⟨a, b⟩
    · right; right; right; exact ⟨by omega, b⟩

theorem log_count_cons (u : Nat × List Nat) (R : List (Nat × List Nat)) :
    log_count (u :: R) =
      if u.1 / 268435456 % 8 = 0 then
        (if u.1 / 1024 % 1024 ≥ log_count R then u.1 / 1024 % 1024 + 1 else log_count R)
      else if u.1 / 268435456 % 8 = 4 then
        (if u.1 / 1048576 % 256 < 128 then (log_count R + u.1 / 1048576 % 256) % 65536
         else (log_count R + 65536 - (256 - u.1 / 1048576 % 256)) % 65536)
      else log_count R := by
  show (if lfs_tag_type1 u.1 = LFS_TYPE_NAME then _ else _) = _
  rw [lfs_tag_type1_eq, lfs_tag_id_eq]
  unfold LFS_TYPE_NAME LFS_TYPE_SPLICE lfs_tag_splice
  rw [lfs_tag_chunk_eq]
  by_cases h0 : u.1 / 268435456 % 8 = 0
  · rw [if_pos (by omega), if_pos h0]
    split_ifs <;> omega
  · rw [if_neg (by omega), if_neg h0]
    by_cases h4 : u.1 / 268435456 % 8 = 4
    · rw [if_pos (by omega), if_pos h4]
      split_ifs <;> omega
    · rw [if_neg (by omega), if_neg h4]

theorem log_live_cons (u : Nat × List Nat) (R : List (Nat × List Nat)) :
    log_live (u :: R) =
      (if u.1 / 1073741824 % 2 = 0 then [u] else [])
        ++ (log_live R).filterMap (fun e => (filter_step e.1 u.1).map (fun t => (t, e.2))) := by
  show (if u.1 &&& 0x40000000 = 0 then [u] else []) ++ _ = _
  rw [land_bit30]
  have : (u.1 / 1073741824 % 2 * 1073741824 = 0) ↔ u.1 / 1073741824 % 2 = 0 := by omega
  simp only [this]

theorem mem_filter_live (u : Nat) (X : List (Nat × List Nat)) (x : Nat × List Nat)
    (h : x ∈ X.filterMap (fun e => (filter_step e.1 u).map (fun t => (t, e.2)))) :
    ∃ e ∈ X, filter_step e.1 u = some x.1 ∧ x.2 = e.2 := by
  obtain ⟨e, he, hf⟩ := List.mem_filterMap.mp h
  cases hs : filter_step e.1 u with
  | none => rw [hs] at hf; exact absurd hf (by simp)
  | some t =>
    rw [hs] at hf
    simp only [Option.map_some', Option.some.injEq] at hf
    subst hf
    exact ⟨e, he, hs, rfl⟩

theorem mem_filter_step (u : Nat) (a b : Nat × List Nat)
    (h : b ∈ (filter_step a.1 u).map (fun t => (t, a.2))) :
    filter_step a.1 u = some b.1 := by
  cases hs : filter_step a.1 u with
  | none => rw [hs] at h; exact absurd h (by simp)
  | some t =>
    rw [hs] at h
    simp only [Option.map_some', Option.mem_def, Option.some.injEq] at h
    rw [← h]

/-- The invariant of the filtered log goes over to the log with one more
tag, when every tag that the filter keeps for the new tag is again a tag of
an entry below the new count and the tags kept from two different slots are
of different slots. -/
theorem log_live_filter_inv (u c c2 : Nat) (X : List (Nat × List Nat))
    (ihl : ∀ e ∈ X, live_ok c e.1)
    (ihp : X.Pairwise (fun a b => ¬ same_slot a.1 b.1))
    (h1 : ∀ T t, live_ok c T → filter_step T u = some t → live_ok c2 t)
    (h2 : ∀ T T2 t t2, live_ok c T → live_ok c T2 → filter_step T u = some t →
      filter_step T2 u = some t2 → same_slot t t2 → same_slot T T2) :
    (∀ e ∈ X.filterMap (fun e => (filter_step e.1 u).map (fun t => (t, e.2))), live_ok c2 e.1)
      ∧ (X.filterMap (fun e => (filter_step e.1 u).map (fun t => (t, e.2)))).Pairwise
          (fun a b => ¬ same_slot a.1 b.1) := by
  constructor
  · intro e he
    obtain ⟨e0, he0, hf, _⟩ := mem_filter_live u _ e he
    exact h1 e0.1 e.1 (ihl e0 he0) hf
  · refine List.Pairwise.filterMap _ ?_
      (ihp.imp_of_mem (fun ha hb h => (⟨ihl _ ha, ihl _ hb, h⟩ :
        live_ok c _ ∧ live_ok c _ ∧ ¬ same_slot _ _)))
    intro a a2 hr b hb b2 hb2
    obtain ⟨l1, l2, hns⟩ := hr
    exact fun hs => hns (h2 a.1 a2.1 b.1 b2.1 l1 l2 (mem_filter_step u a b hb)
      (mem_filter_step u a2 b2 hb2) hs)

theorem filter_entry_cases (T u : Nat) (h4 : u / 268435456 % 8 ≠ 4) :
    filter_step T u = none ∨ (filter_step T u = some T ∧ ¬ same_slot u T) := by
  rw [filter_step_plain T u h4]
  by_cases hc : (if u / 268435456 % 2 = 1 then
      u / 1024 % 1024 = T / 1024 % 1024 ∧ u / 1048576 % 2048 = T / 1048576 % 2048
    else u / 1024 % 1024 = T / 1024 % 1024
      ∧ u / 268435456 % 8 = T / 268435456 % 8) ∨ T % 1024 = 1023
  · rw [if_pos hc]
    exact Or.inl rfl
  · rw [if_neg hc]
    right
    refine ⟨rfl, ?_⟩
    intro hs
    apply hc
    left
    unfold same_slot at hs
    by_cases hb : u / 268435456 % 2 = 1
    · rw [if_pos hb]
      exact ⟨hs.1, hs.2.2 hb⟩
    · rw [if_neg hb]
      exact ⟨hs.1, hs.2.1⟩

theorem filter_create_cases (T u c : Nat) (hT : live_ok c T)
    (hu : u = 1074790400 + u / 1024 % 1024 * 1024) (t : Nat)
    (ht : filter_step T u = some t) :
    (t = T + 1024 ∧ u / 1024 % 1024 ≤ T / 1024 % 1024)
      ∨ (t = T ∧ T / 1024 % 1024 < u / 1024 % 1024) := by
  obtain ⟨a1, a2, a3, a4⟩ := hT
  rw [hu, filter_step_create T _ (by omega) a1 a2] at ht
  split_ifs at ht with c1 c2
  · simp only [Option.some.injEq] at ht
    exact Or.inl ⟨ht.symm, by omega⟩
  · simp only [Option.some.injEq] at ht
    exact Or.inr ⟨ht.symm, by omega⟩

theorem filter_delete_cases (T u c : Nat) (hT : live_ok c T)
    (hu : u / 1048576 % 2048 = 1279) (t : Nat) (ht : filter_step T u = some t) :
    (t = T - 1024 ∧ u / 1024 % 1024 < T / 1024 % 1024)
      ∨ (t = T ∧ T / 1024 % 1024 < u / 1024 % 1024) := by
  obtain ⟨a1, a2, a3, a4⟩ := hT
  rw [filter_step_delete T _ hu a1 a2] at ht
  split_ifs at ht with c1 c2
  · simp only [Option.some.injEq] at ht
    exact Or.inl ⟨ht.symm, by omega⟩
  · simp only [Option.some.injEq] at ht
    exact Or.inr ⟨ht.symm, by omega⟩

theorem live_ok_up (T c : Nat) (hT : live_ok c T) (hc : c < 1023) : live_ok (c + 1) (T + 1024) := by
  unfold live_ok at hT ⊢
  omega

theorem live_ok_down (T c : Nat) (hT : live_ok c T) (h : 0 < T / 1024 % 1024) :
    live_ok (c - 1) (T - 1024) := by
  unfold live_ok at hT ⊢
  omega

theorem live_ok_mono (T c c2 : Nat) (hT : live_ok c T) (h : T / 1024 % 1024 < c2) :
    live_ok c2 T := by
  unfold live_ok at hT ⊢
  omega

theorem same_slot_up (T T2 c : Nat) (hT : live_ok c T) (hT2 : live_ok c T2) (hc : c ≤ 1023)
    (h : same_slot (T + 1024) (T2 + 1024)) : same_slot T T2 := by
  unfold live_ok at hT hT2
  unfold same_slot at h ⊢
  omega

theorem same_slot_down (T T2 c : Nat) (hT : live_ok c T) (hT2 : live_ok c T2)
    (h1 : 0 < T / 1024 % 1024) (h2 : 0 < T2 / 1024 % 1024)
    (h : same_slot (T - 1024) (T2 - 1024)) : same_slot T T2 := by
  unfold live_ok at hT hT2
  unfold same_slot at h ⊢
  omega

theorem same_slot_id (a b : Nat) (h : same_slot a b) : a / 1024 % 1024 = b / 1024 % 1024 := h.1

theorem id_up (T c : Nat) (hT : live_ok c T) (hc : c ≤ 1023) :
    (T + 1024) / 1024 % 1024 = T / 1024 % 1024 + 1 := by
  unfold live_ok at hT
  omega

theorem id_down (T c : Nat) (hT : live_ok c T) (h : 0 < T / 1024 % 1024) :
    (T - 1024) / 1024 % 1024 = T / 1024 % 1024 - 1 := by
  unfold live_ok at hT
  omega

theorem log_live_inv_entry (u : Nat × List Nat) (R : List (Nat × List Nat))
    (ihc : log_count R ≤ 1023) (ihl : ∀ e ∈ log_live R, live_ok (log_count R) e.1)
    (ihp : (log_live R).Pairwise (fun a b => ¬ same_slot a.1 b.1))
    (hu31 : u.1 < 2147483648) (k1 : u.1 / 1073741824 % 2 = 0)
    (k2 : u.1 / 1048576 % 2048 ≠ 0) (k3 : u.1 / 1048576 % 2048 ≠ 257)
    (k4 : u.1 / 1048576 % 2048 ≠ 258)
    (k5 : u.1 / 1024 % 1024 < log_count R
      ∨ (u.1 / 268435456 % 8 = 0 ∧ log_nosplice R ∧ u.1 / 1024 % 1024 < 1023)) :
    log_count R ≤ log_count (u :: R) ∧ log_count (u :: R) ≤ 1023
      ∧ u.1 / 1024 % 1024 < log_count (u :: R)
      ∧ (∀ e ∈ log_live (u :: R), live_ok (log_count (u :: R)) e.1)
      ∧ (log_live (u :: R)).Pairwise (fun a b => ¬ same_slot a.1 b.1) := by
  have h4 : u.1 / 268435456 % 8 ≠ 4 := by omega
  have hcount : log_count R ≤ log_count (u :: R) ∧ log_count (u :: R) ≤ 1023
      ∧ u.1 / 1024 % 1024 < log_count (u :: R) := by
    rw [log_count_cons]
    split_ifs <;> omega
  obtain ⟨q1, q2⟩ := log_live_filter_inv u.1 (log_count R) (log_count (u :: R)) (log_live R)
    ihl ihp
    (fun T t hT ht => by
      rcases filter_entry_cases T u.1 h4 with hs | ⟨hs, _⟩
      · rw [hs] at ht; exact absurd ht (by simp)
      · rw [hs] at ht
        simp only [Option.some.injEq] at ht
        rw [← ht]
        exact live_ok_mono T _ _ hT (by have := hT.2.2.1; omega))
    (fun T T2 t t2 hT hT2 ht ht2 hs => by
      rcases filter_entry_cases T u.1 h4 with hx | ⟨hx, _⟩
      · rw [hx] at ht; exact absurd ht (by simp)
      · rcases filter_entry_cases T2 u.1 h4 with hy | ⟨hy, _⟩
        · rw [hy] at ht2; exact absurd ht2 (by simp)
        · rw [hx] at ht
          rw [hy] at ht2
          simp only [Option.some.injEq] at ht ht2
          rw [ht, ht2]
          exact hs)
  refine ⟨hcount.1, hcount.2.1, hcount.2.2, ?_, ?_⟩
  · rw [log_live_cons, if_pos k1]
    intro e he
    rcases List.mem_append.mp he with h | h
    · rw [List.mem_singleton.mp h]
      exact ⟨hu31, k1, hcount.2.2, k2, k3, k4⟩
    · exact q1 e h
  · rw [log_live_cons, if_pos k1, List.pairwise_append]
    refine ⟨List.pairwise_singleton _ _, q2, ?_⟩
    intro a ha b hb
    rw [List.mem_singleton.mp ha]
    obtain ⟨e0, he0, hf, _⟩ := mem_filter_live u.1 _ b hb
    rcases filter_entry_cases e0.1 u.1 h4 with hs | ⟨hs, hns⟩
    · rw [hs] at hf; exact absurd hf (by simp)
    · rw [hs] at hf
      simp only [Option.some.injEq] at hf
      rw [← hf]
      exact hns

theorem log_live_inv_create (u : Nat × List Nat) (R : List (Nat × List Nat))
    (ihc : log_count R ≤ 1023) (ihl : ∀ e ∈ log_live R, live_ok (log_count R) e.1)
    (ihp : (log_live R).Pairwise (fun a b => ¬ same_slot a.1 b.1))
    (k1 : u.1 = 1074790400 + u.1 / 1024 % 1024 * 1024)
    (k2 : u.1 / 1024 % 1024 ≤ log_count R) (k3 : log_count R < 1023) :
    log_count (u :: R) = log_count R + 1
      ∧ (∀ e ∈ log_live (u :: R), live_ok (log_count (u :: R)) e.1)
      ∧ (log_live (u :: R)).Pairwise (fun a b => ¬ same_slot a.1 b.1) := by
  have hcount : log_count (u :: R) = log_count R + 1 := by
    rw [log_count_cons]
    have hc28 : u.1 / 268435456 % 8 = 4 := by omega
    have hch : u.1 / 1048576 % 256 = 1 := by omega
    rw [if_neg (by omega), if_pos hc28, if_pos (by omega), hch]
    omega
  have hb30 : ¬ (u.1 / 1073741824 % 2 = 0) := by omega
  rw [log_live_cons, if_neg hb30, List.nil_append, hcount]
  refine ⟨rfl, ?_⟩
  refine log_live_filter_inv u.1 (log_count R) (log_count R + 1) (log_live R) ihl ihp
    (fun T t hT ht => by
      rcases filter_create_cases T u.1 _ hT k1 t ht with ⟨h1, h2⟩ | ⟨h1, h2⟩
      · rw [h1]; exact live_ok_up T _ hT k3
      · rw [h1]; exact live_ok_mono T _ _ hT (by have := hT.2.2.1; omega))
    (fun T T2 t t2 hT hT2 ht ht2 hs => by
      rcases filter_create_cases T u.1 _ hT k1 t ht with ⟨h1, h2⟩ | ⟨h1, h2⟩
      · rcases filter_create_cases T2 u.1 _ hT2 k1 t2 ht2 with ⟨g1, g2⟩ | ⟨g1, g2⟩
        · rw [h1, g1] at hs
          exact same_slot_up T T2 _ hT hT2 ihc hs
        · rw [h1, g1] at hs
          have := same_slot_id _ _ hs
          rw [id_up T _ hT ihc] at this
          omega
      · rcases filter_create_cases T2 u.1 _ hT2 k1 t2 ht2 with ⟨g1, g2⟩ | ⟨g1, g2⟩
        · rw [h1, g1] at hs
          have := same_slot_id _ _ hs
          rw [id_up T2 _ hT2 ihc] at this
          omega
        · rw [h1, g1] at hs
          exact hs)

theorem log_live_inv_delete (u : Nat × List Nat) (R : List (Nat × List Nat))
    (ihc : log_count R ≤ 1023) (ihl : ∀ e ∈ log_live R, live_ok (log_count R) e.1)
    (ihp : (log_live R).Pairwise (fun a b => ¬ same_slot a.1 b.1))
    (k1 : u.1 / 1048576 % 2048 = 1279) (k2 : u.1 / 1024 % 1024 < log_count R) :
    log_count (u :: R) = log_count R - 1
      ∧ (∀ e ∈ log_live (u :: R), live_ok (log_count (u :: R)) e.1)
      ∧ (log_live (u :: R)).Pairwise (fun a b => ¬ same_slot a.1 b.1) := by
  have hcount : log_count (u :: R) = log_count R - 1 := by
    rw [log_count_cons]
    have hc28 : u.1 / 268435456 % 8 = 4 := by omega
    have hch : u.1 / 1048576 % 256 = 255 := by omega
    rw [if_neg (by omega), if_pos hc28, if_neg (by omega), hch]
    omega
  have hb30 : ¬ (u.1 / 1073741824 % 2 = 0) := by omega
  rw [log_live_cons, if_neg hb30, List.nil_append, hcount]
  refine ⟨rfl, ?_⟩
  refine log_live_filter_inv u.1 (log_count R) (log_count R - 1) (log_live R) ihl ihp
    (fun T t hT ht => by
      rcases filter_delete_cases T u.1 _ hT k1 t ht with ⟨h1, h2⟩ | ⟨h1, h2⟩
      · rw [h1]; exact live_ok_down T _ hT (by omega)
      · rw [h1]; exact live_ok_mono T _ _ hT (by omega))
    (fun T T2 t t2 hT hT2 ht ht2 hs => by
      rcases filter_delete_cases T u.1 _ hT k1 t ht with ⟨h1, h2⟩ | ⟨h1, h2⟩
      · rcases filter_delete_cases T2 u.1 _ hT2 k1 t2 ht2 with ⟨g1, g2⟩ | ⟨g1, g2⟩
        · rw [h1, g1] at hs
          exact same_slot_down T T2 _ hT hT2 (by omega) (by omega) hs
        · rw [h1, g1] at hs
          have := same_slot_id _ _ hs
          rw [id_down T _ hT (by omega)] at this
          omega
      · rcases filter_delete_cases T2 u.1 _ hT2 k1 t2 ht2 with ⟨g1, g2⟩ | ⟨g1, g2⟩
        · rw [h1, g1] at hs
          have := same_slot_id _ _ hs
          rw [id_down T2 _ hT2 (by omega)] at this
          omega
        · rw [h1, g1] at hs
          exact hs)

theorem log_live_inv_pair (u : Nat × List Nat) (R : List (Nat × List Nat))
    (ihl : ∀ e ∈ log_live R, live_ok (log_count R) e.1)
    (ihp : (log_live R).Pairwise (fun a b => ¬ same_slot a.1 b.1))
    (k1 : u.1 / 268435456 % 8 = 5 ∨ u.1 / 268435456 % 8 = 6 ∨ u.1 / 268435456 % 8 = 7) :
    log_count (u :: R) = log_count R
      ∧ (∀ e ∈ log_live (u :: R), live_ok (log_count (u :: R)) e.1)
      ∧ (log_live (u :: R)).Pairwise (fun a b => ¬ same_slot a.1 b.1) := by
  have h4 : u.1 / 268435456 % 8 ≠ 4 := by omega
  have hcount : log_count (u :: R) = log_count R := by
    rw [log_count_cons, if_neg (by omega), if_neg h4]
  have hb30 : ¬ (u.1 / 1073741824 % 2 = 0) := by omega
  rw [log_live_cons, if_neg hb30, List.nil_append, hcount]
  refine ⟨rfl, ?_⟩
  refine log_live_filter_inv u.1 (log_count R) (log_count R) (log_live R) ihl ihp
    (fun T t hT ht => by
      rcases filter_entry_cases T u.1 h4 with hs | ⟨hs, _⟩
      · rw [hs] at ht; exact absurd ht (by simp)
      · rw [hs] at ht
        simp only [Option.some.injEq] at ht
        rw [← ht]
        exact hT)
    (fun T T2 t t2 hT hT2 ht ht2 hs => by
      rcases filter_entry_cases T u.1 h4 with hx | ⟨hx, _⟩
      · rw [hx] at ht; exact absurd ht (by simp)
      · rcases filter_entry_cases T2 u.1 h4 with hy | ⟨hy, _⟩
        · rw [hy] at ht2; exact absurd ht2 (by simp)
        · rw [hx] at ht
          rw [hy] at ht2
          simp only [Option.some.injEq] at ht ht2
          rw [ht, ht2]
          exact hs)

/-- The filtered log of a well-formed log holds tags of entries below the
count, no two of the same slot. -/
theorem log_live_inv : ∀ R : List (Nat × List Nat), log_wf R →
    log_count R ≤ 1023 ∧ (∀ e ∈ log_live R, live_ok (log_count R) e.1)
      ∧ (log_live R).Pairwise (fun a b => ¬ same_slot a.1 b.1)
  | [], _ => ⟨by decide, fun e he => absurd he (List.not_mem_nil _), List.Pairwise.nil⟩
  | u :: R, hw => by
    obtain ⟨hwR, hok⟩ := hw
    obtain ⟨ihc, ihl, ihp⟩ := log_live_inv R hwR
    rw [tag_ok_iff] at hok
    obtain ⟨hu31, hkind⟩ := hok
    rcases hkind with ⟨k1, k2, k3, k4, k5⟩ | ⟨k1, k2, k3⟩ | ⟨k1, k2⟩ | ⟨k1, k2⟩
    · obtain ⟨a1, a2, a3, a4, a5⟩ := log_live_inv_entry u R ihc ihl ihp hu31 k1 k2 k3 k4 k5
      exact ⟨a2, a4, a5⟩
    · obtain ⟨a1, a2, a3⟩ := log_live_inv_create u R ihc ihl ihp k1 k2 k3
      exact ⟨by omega, a2, a3⟩
    · obtain ⟨a1, a2, a3⟩ := log_live_inv_delete u R ihc ihl ihp k1 k2
      exact ⟨by omega, a2, a3⟩
    · obtain ⟨a1, a2, a3⟩ := log_live_inv_pair u R ihl ihp k1
      exact ⟨by omega, a2, a3⟩


theorem isdelete_congr (a b : Nat) (h : a % 1024 = b % 1024) :
    lfs_tag_isdelete a = lfs_tag_isdelete b := by
  rw [Bool.eq_iff_iff, lfs_tag_isdelete_iff, lfs_tag_isdelete_iff, h]

/-- The lookup in a filtered log whose tags went through the filter for one
more tag is the lookup in the filtered log for the tag moved by `gd2`. -/
theorem log_get_live_step (gmask gtag gsize u gd gd2 c : Nat) (X : List (Nat × List Nat))
    (hq2 : lookup_ok gmask (getslice_gtag gtag gd2))
    (hl : ∀ e ∈ X, live_ok c e.1) (hp : X.Pairwise (fun a b => ¬ same_slot a.1 b.1))
    (h3 : ∀ T t, live_ok c T → filter_step T u = some t →
        t / 268435456 % 8 ≠ 4
          ∧ ((gmask &&& t = gmask &&& getslice_gtag gtag gd)
              ↔ (gmask &&& T = gmask &&& getslice_gtag gtag gd2))
          ∧ (gmask &&& T = gmask &&& getslice_gtag gtag gd2 →
              t % 1024 = T % 1024 ∧ (t + gd) % 4294967296 = (T + gd2) % 4294967296))
    (h4 : ∀ T, live_ok c T → filter_step T u = none →
        gmask &&& T = gmask &&& getslice_gtag gtag gd2 → T % 1024 = 1023) :
    log_get gmask gtag gsize
        (X.filterMap (fun e => (filter_step e.1 u).map (fun t => (t, e.2)))) gd
      = log_get gmask gtag gsize X gd2 := by
  refine log_get_filterMap gmask gtag gsize (fun T => filter_step T u) gd gd2 hq2 X ?_ hp ?_ ?_
  · intro e he
    have := hl e he
    unfold live_ok at this
    omega
  · intro e he t ht
    obtain ⟨a, b, c⟩ := h3 e.1 t (hl e he) ht
    refine ⟨a, b, fun hm => ?_⟩
    obtain ⟨c1, c2⟩ := c hm
    exact ⟨isdelete_congr _ _ c1, c2, by rw [lfs_tag_size_eq_mod, lfs_tag_size_eq_mod, c1]⟩
  · intro e he hn hm
    exact (lfs_tag_isdelete_iff _).2 (h4 e.1 (hl e he) hn hm)

theorem filter_entry_none (T u : Nat) (h4 : u / 268435456 % 8 ≠ 4)
    (hn : filter_step T u = none) :
    (if u / 268435456 % 2 = 1 then
        u / 1024 % 1024 = T / 1024 % 1024 ∧ u / 1048576 % 2048 = T / 1048576 % 2048
      else u / 1024 % 1024 = T / 1024 % 1024 ∧ u / 268435456 % 8 = T / 268435456 % 8)
      ∨ T % 1024 = 1023 := by
  by_contra hc
  rw [filter_step_plain T u h4, if_neg hc] at hn
  exact absurd hn (by simp)

theorem log_get_live_entry (gmask gtag gsize : Nat) (u : Nat × List Nat)
    (R : List (Nat × List Nat)) (gd : Nat)
    (hq : lookup_ok gmask (getslice_gtag gtag gd))
    (ihl : ∀ e ∈ log_live R, live_ok (log_count R) e.1)
    (ihp : (log_live R).Pairwise (fun a b => ¬ same_slot a.1 b.1))
    (ih : log_get gmask gtag gsize (log_live R) gd = log_get gmask gtag gsize R gd)
    (k1 : u.1 / 1073741824 % 2 = 0) :
    log_get gmask gtag gsize (log_live (u :: R)) gd = log_get gmask gtag gsize (u :: R) gd := by
  obtain ⟨m1, m2, m3, m4⟩ := lookup_ok_mask gmask _ hq
  have h4 : u.1 / 268435456 % 8 ≠ 4 := by omega
  rw [log_live_cons, if_pos k1, List.singleton_append,
    log_get_cons_plain gmask gtag gsize u R gd h4, log_get_cons_plain gmask gtag gsize u _ gd h4]
  by_cases hm : gmask &&& u.1 = gmask &&& getslice_gtag gtag gd
  · rw [if_pos hm, if_pos hm]
  · rw [if_neg hm, if_neg hm, ← ih]
    refine log_get_live_step gmask gtag gsize u.1 gd gd (log_count R) (log_live R) hq ihl ihp ?_ ?_
    · intro T t hT ht
      rcases filter_entry_cases T u.1 h4 with hs | ⟨hs, _⟩
      · rw [hs] at ht; exact absurd ht (by simp)
      · rw [hs] at ht
        simp only [Option.some.injEq] at ht
        subst ht
        refine ⟨?_, Iff.rfl, fun _ => ⟨rfl, rfl⟩⟩
        unfold live_ok at hT
        omega
    · intro T hT hn hmT
      rcases filter_entry_none T u.1 h4 hn with hc | hc
      · exfalso
        apply hm
        rw [m4 u.1]
        have := (m4 T).mp hmT
        split_ifs at hc this ⊢ <;> omega
      · exact hc

theorem log_get_live_pair (gmask gtag gsize : Nat) (u : Nat × List Nat)
    (R : List (Nat × List Nat)) (gd : Nat)
    (hq : lookup_ok gmask (getslice_gtag gtag gd))
    (ihc : log_count R ≤ 1023)
    (ihl : ∀ e ∈ log_live R, live_ok (log_count R) e.1)
    (ihp : (log_live R).Pairwise (fun a b => ¬ same_slot a.1 b.1))
    (ih : log_get gmask gtag gsize (log_live R) gd = log_get gmask gtag gsize R gd)
    (k1 : u.1 / 268435456 % 8 = 5 ∨ u.1 / 268435456 % 8 = 6 ∨ u.1 / 268435456 % 8 = 7)
    (k2 : u.1 / 1024 % 1024 = 1023) :
    log_get gmask gtag gsize (log_live (u :: R)) gd = log_get gmask gtag gsize (u :: R) gd := by
  obtain ⟨m1, m2, m3, m4⟩ := lookup_ok_mask gmask _ hq
  have h4 : u.1 / 268435456 % 8 ≠ 4 := by omega
  have hb30 : ¬ (u.1 / 1073741824 % 2 = 0) := by omega
  have hm : ¬ (gmask &&& u.1 = gmask &&& getslice_gtag gtag gd) := by
    rw [m4 u.1]
    intro hc
    split_ifs at hc <;> omega
  rw [log_live_cons, if_neg hb30, List.nil_append,
    log_get_cons_plain gmask gtag gsize u R gd h4, if_neg hm, ← ih]
  refine log_get_live_step gmask gtag gsize u.1 gd gd (log_count R) (log_live R) hq ihl ihp ?_ ?_
  · intro T t hT ht
    rcases filter_entry_cases T u.1 h4 with hs | ⟨hs, _⟩
    · rw [hs] at ht; exact absurd ht (by simp)
    · rw [hs] at ht
      simp only [Option.some.injEq] at ht
      subst ht
      refine ⟨?_, Iff.rfl, fun _ => ⟨rfl, rfl⟩⟩
      unfold live_ok at hT
      omega
  · intro T hT hn hmT
    rcases filter_entry_none T u.1 h4 hn with hc | hc
    · exfalso
      unfold live_ok at hT
      split_ifs at hc <;> omega
    · exact hc


theorem filter_create_none (T u c : Nat) (hT : live_ok c T)
    (hu : u = 1074790400 + u / 1024 % 1024 * 1024) (hn : filter_step T u = none) :
    T % 1024 = 1023 := by
  obtain ⟨a1, a2, a3, a4⟩ := hT
  by_contra hc
  rw [hu, filter_step_create T _ (by omega) a1 a2, if_neg hc] at hn
  split_ifs at hn

theorem filter_delete_none (T u c : Nat) (hT : live_ok c T)
    (hu : u / 1048576 % 2048 = 1279) (hn : filter_step T u = none) :
    T % 1024 = 1023 ∨ u / 1024 % 1024 = T / 1024 % 1024 := by
  obtain ⟨a1, a2, a3, a4⟩ := hT
  by_contra hc
  rw [filter_step_delete T _ hu a1 a2, if_neg hc] at hn
  split_ifs at hn

theorem fields_up (T : Nat) (h : T / 1024 % 1024 < 1023) :
    (T + 1024) / 1024 % 1024 = T / 1024 % 1024 + 1
      ∧ (T + 1024) / 1048576 % 2048 = T / 1048576 % 2048
      ∧ (T + 1024) / 268435456 % 8 = T / 268435456 % 8
      ∧ (T + 1024) / 268435456 % 2 = T / 268435456 % 2
      ∧ (T + 1024) % 1024 = T % 1024 := by
  refine ⟨?_, ?_, ?_, ?_, ?_⟩ <;> omega

theorem live_plain (c T : Nat) (h : live_ok c T) : T / 268435456 % 8 ≠ 4 := by
  unfold live_ok at h
  omega

theorem live_id (c T : Nat) (h : live_ok c T) : T / 1024 % 1024 < c := h.2.2.1

theorem match_id (gmask q t : Nat) (hq : lookup_ok gmask q) (h : gmask &&& t = gmask &&& q) :
    t / 1024 % 1024 = q / 1024 % 1024 :=
  (((lookup_ok_mask gmask q hq).2.2.2 t).mp h).1

theorem match_up (gmask q q2 T : Nat) (hq : lookup_ok gmask q) (hq2 : lookup_ok gmask q2)
    (hrel : q2 + 1024 = q) (h1 : T / 1024 % 1024 < 1023) (h2 : q2 / 1024 % 1024 < 1023) :
    (gmask &&& (T + 1024) = gmask &&& q) ↔ (gmask &&& T = gmask &&& q2) := by
  subst hrel
  obtain ⟨m1, m2, m3, m4⟩ := lookup_ok_mask gmask _ hq
  obtain ⟨n1, n2, n3, n4⟩ := lookup_ok_mask gmask _ hq2
  rw [m4, n4]
  obtain ⟨a1, a2, a3, a4, a5⟩ := fields_up T h1
  obtain ⟨b1, b2, b3, b4, b5⟩ := fields_up q2 h2
  rw [a1, a2, a3, b1, b2, b3, b4, Nat.add_left_inj]

theorem wrap_up (T gd : Nat) :
    (T + 1024 + gd) % 4294967296 = (T + (gd + 1024) % 4294967296) % 4294967296 := by
  omega

theorem wrap_down (T gd : Nat) (h : 1024 ≤ T) :
    (T - 1024 + gd) % 4294967296 = (T + (gd + 4294966272) % 4294967296) % 4294967296 := by
  omega

theorem getslice_gtag_up (gtag gd : Nat) (hg : gtag < 4294967296) (hd : gd < 4294967296)
    (h : 1024 ≤ getslice_gtag gtag gd) :
    getslice_gtag gtag ((gd + 1024) % 4294967296) + 1024 = getslice_gtag gtag gd := by
  have hq2e := getslice_gtag_eq gtag ((gd + 1024) % 4294967296) hg (Nat.mod_lt _ (by omega))
  have hqe := getslice_gtag_eq gtag gd hg hd
  omega

theorem getslice_gtag_down (gtag gd : Nat) (hg : gtag < 4294967296) (hd : gd < 4294967296)
    (h : getslice_gtag gtag gd + 1024 < 4294967296) :
    getslice_gtag gtag ((gd + 4294966272) % 4294967296) = getslice_gtag gtag gd + 1024 := by
  have hq2e := getslice_gtag_eq gtag ((gd + 4294966272) % 4294967296) hg
    (Nat.mod_lt _ (by omega))
  have hqe := getslice_gtag_eq gtag gd hg hd
  omega

theorem id_pos_ge (q : Nat) (h : 0 < q / 1024 % 1024) : 1024 ≤ q := by omega

theorem shift_high_up (q : Nat) (h : q / 1024 % 1024 < 1023) (h2 : q < 2147483648) :
    q + 1024 < 2147483648 ∧ (q + 1024) / 268435456 = q / 268435456
      ∧ (q + 1024) / 1024 % 1024 = q / 1024 % 1024 + 1 := by
  refine ⟨?_, ?_, ?_⟩ <;> omega


theorem log_get_live_create (gmask gtag gsize : Nat) (u : Nat × List Nat)
    (R : List (Nat × List Nat)) (gd : Nat) (hg : gtag < 4294967296) (hd : gd < 4294967296)
    (hq : lookup_ok gmask (getslice_gtag gtag gd))
    (ihl : ∀ e ∈ log_live R, live_ok (log_count R) e.1)
    (ihp : (log_live R).Pairwise (fun a b => ¬ same_slot a.1 b.1))
    (ih : ∀ gd2, gd2 < 4294967296 → lookup_ok gmask (getslice_gtag gtag gd2) →
      getslice_gtag gtag gd2 / 1024 % 1024 < log_count R →
      log_get gmask gtag gsize (log_live R) gd2 = log_get gmask gtag gsize R gd2)
    (k1 : u.1 = 1074790400 + u.1 / 1024 % 1024 * 1024)
    (k2 : u.1 / 1024 % 1024 ≤ log_count R) (k3 : log_count R < 1023)
    (hid : getslice_gtag gtag gd / 1024 % 1024 < log_count R + 1) :
    log_get gmask gtag gsize (log_live (u :: R)) gd = log_get gmask gtag gsize (u :: R) gd := by
  have hb30 : ¬ (u.1 / 1073741824 % 2 = 0) := by omega
  have hk : u.1 / 1024 % 1024 < 1024 := Nat.mod_lt _ (by decide)
  rw [log_live_cons, if_neg hb30, List.nil_append,
    log_get_cons_create gmask gtag gsize u R gd (u.1 / 1024 % 1024) hg hd hq hk k1]
  have hplain : ∀ T t, live_ok (log_count R) T → filter_step T u.1 = some t →
      t / 268435456 % 8 ≠ 4 := by
    intro T t hT ht
    rcases filter_create_cases T u.1 _ hT k1 t ht with ⟨h1, h2⟩ | ⟨h1, h2⟩
    · rw [h1]; exact live_plain _ _ (live_ok_up T _ hT k3)
    · rw [h1]; exact live_plain _ _ hT
  by_cases hle : u.1 / 1024 % 1024 ≤ getslice_gtag gtag gd / 1024 % 1024
  · rw [if_pos hle]
    by_cases hke : u.1 / 1024 % 1024 = getslice_gtag gtag gd / 1024 % 1024
    · rw [if_pos hke]
      apply log_get_nomatch
      · intro x hx
        obtain ⟨e0, he0, hf, _⟩ := mem_filter_live u.1 _ x hx
        exact hplain e0.1 x.1 (ihl e0 he0) hf
      · intro x hx hc
        obtain ⟨e0, he0, hf, _⟩ := mem_filter_live u.1 _ x hx
        have hT := ihl e0 he0
        have hc1 := match_id gmask _ _ hq hc
        have hi := live_id _ _ hT
        rcases filter_create_cases e0.1 u.1 _ hT k1 x.1 hf with ⟨h1, h2⟩ | ⟨h1, h2⟩
        · rw [h1, (fields_up e0.1 (by omega)).1] at hc1
          omega
        · rw [h1] at hc1
          omega
    · rw [if_neg hke]
      have hrel := getslice_gtag_up gtag gd hg hd (id_pos_ge _ (by omega))
      have hq31 := hq.1
      have hq2 : lookup_ok gmask (getslice_gtag gtag ((gd + 1024) % 4294967296)) :=
        lookup_ok_shift gmask (getslice_gtag gtag gd)
          (getslice_gtag gtag ((gd + 1024) % 4294967296)) hq (by omega) (by omega)
      have hq2id : getslice_gtag gtag ((gd + 1024) % 4294967296) / 1024 % 1024 + 1
          = getslice_gtag gtag gd / 1024 % 1024 := by omega
      rw [← ih _ (Nat.mod_lt _ (by omega)) hq2 (by omega)]
      refine log_get_live_step gmask gtag gsize u.1 gd _ (log_count R) (log_live R) hq2 ihl ihp
        ?_ ?_
      · intro T t hT ht
        have hi := live_id _ _ hT
        refine ⟨hplain T t hT ht, ?_⟩
        rcases filter_create_cases T u.1 _ hT k1 t ht with ⟨h1, h2⟩ | ⟨h1, h2⟩
        · rw [h1]
          exact ⟨match_up gmask _ _ T hq hq2 hrel (by omega) (by omega),
            fun _ => ⟨(fields_up T (by omega)).2.2.2.2, wrap_up T gd⟩⟩
        · rw [h1]
          have f1 : ¬ (gmask &&& T = gmask &&& getslice_gtag gtag gd) := by
            intro hc
            have := match_id gmask _ _ hq hc
            omega
          have f2 : ¬ (gmask &&& T
              = gmask &&& getslice_gtag gtag ((gd + 1024) % 4294967296)) := by
            intro hc
            have := match_id gmask _ _ hq2 hc
            omega
          exact ⟨iff_of_false f1 f2, fun hc => absurd hc f2⟩
      · intro T hT hn _
        exact filter_create_none T u.1 _ hT k1 hn
  · rw [if_neg hle, ← ih gd hd hq (by omega)]
    refine log_get_live_step gmask gtag gsize u.1 gd gd (log_count R) (log_live R) hq ihl ihp
      ?_ ?_
    · intro T t hT ht
      have hi := live_id _ _ hT
      refine ⟨hplain T t hT ht, ?_⟩
      rcases filter_create_cases T u.1 _ hT k1 t ht with ⟨h1, h2⟩ | ⟨h1, h2⟩
      · rw [h1]
        have f1 : ¬ (gmask &&& (T + 1024) = gmask &&& getslice_gtag gtag gd) := by
          intro hc
          have := match_id gmask _ _ hq hc
          rw [(fields_up T (by omega)).1] at this
          omega
        have f2 : ¬ (gmask &&& T = gmask &&& getslice_gtag gtag gd) := by
          intro hc
          have := match_id gmask _ _ hq hc
          omega
        exact ⟨iff_of_false f1 f2, fun hc => absurd hc f2⟩
      · rw [h1]
        exact ⟨Iff.rfl, fun _ => ⟨rfl, rfl⟩⟩
    · intro T hT hn _
      exact filter_create_none T u.1 _ hT k1 hn


theorem log_get_live_delete (gmask gtag gsize : Nat) (u : Nat × List Nat)
    (R : List (Nat × List Nat)) (gd : Nat) (hg : gtag < 4294967296) (hd : gd < 4294967296)
    (hq : lookup_ok gmask (getslice_gtag gtag gd))
    (ihc : log_count R ≤ 1023)
    (ihl : ∀ e ∈ log_live R, live_ok (log_count R) e.1)
    (ihp : (log_live R).Pairwise (fun a b => ¬ same_slot a.1 b.1))
    (ih : ∀ gd2, gd2 < 4294967296 → lookup_ok gmask (getslice_gtag gtag gd2) →
      getslice_gtag gtag gd2 / 1024 % 1024 < log_count R →
      log_get gmask gtag gsize (log_live R) gd2 = log_get gmask gtag gsize R gd2)
    (k1 : u.1 / 1048576 % 2048 = 1279)
    (hid : getslice_gtag gtag gd / 1024 % 1024 + 1 < log_count R) :
    log_get gmask gtag gsize (log_live (u :: R)) gd = log_get gmask gtag gsize (u :: R) gd := by
  have hb30 : ¬ (u.1 / 1073741824 % 2 = 0) := by omega
  rw [log_live_cons, if_neg hb30, List.nil_append,
    log_get_cons_delete gmask gtag gsize u R gd (u.1 / 1024 % 1024) hg hd hq (by omega) k1 rfl]
  have hplain : ∀ T t, live_ok (log_count R) T → filter_step T u.1 = some t →
      t / 268435456 % 8 ≠ 4 := by
    intro T t hT ht
    rcases filter_delete_cases T u.1 _ hT k1 t ht with ⟨h1, h2⟩ | ⟨h1, h2⟩
    · rw [h1]; exact live_plain _ _ (live_ok_down T _ hT (by omega))
    · rw [h1]; exact live_plain _ _ hT
  by_cases hle : u.1 / 1024 % 1024 ≤ getslice_gtag gtag gd / 1024 % 1024
  · rw [if_pos hle]
    have hq31 := hq.1
    have hrel := getslice_gtag_down gtag gd hg hd (by omega)
    obtain ⟨s1, s2, s3⟩ := shift_high_up (getslice_gtag gtag gd) (by omega) hq31
    have hq2 : lookup_ok gmask (getslice_gtag gtag ((gd + 4294966272) % 4294967296)) := by
      rw [hrel]
      exact lookup_ok_shift gmask (getslice_gtag gtag gd) _ hq s1 s2
    have hq2id : getslice_gtag gtag ((gd + 4294966272) % 4294967296) / 1024 % 1024
        = getslice_gtag gtag gd / 1024 % 1024 + 1 := by
      rw [hrel]
      exact s3
    rw [← ih _ (Nat.mod_lt _ (by omega)) hq2 (by omega)]
    refine log_get_live_step gmask gtag gsize u.1 gd _ (log_count R) (log_live R) hq2 ihl ihp
      ?_ ?_
    · intro T t hT ht
      have hi := live_id _ _ hT
      refine ⟨hplain T t hT ht, ?_⟩
      rcases filter_delete_cases T u.1 _ hT k1 t ht with ⟨h1, h2⟩ | ⟨h1, h2⟩
      · rw [h1]
        have hT1 : 1024 ≤ T := id_pos_ge T (by omega)
        have hidd := id_down T _ hT (by omega)
        have hm := match_up gmask _ _ (T - 1024) hq2 hq hrel.symm (by omega) (by omega)
        rw [Nat.sub_add_cancel hT1] at hm
        exact ⟨hm.symm, fun _ => ⟨by omega, wrap_down T gd hT1⟩⟩
      · rw [h1]
        have f1 : ¬ (gmask &&& T = gmask &&& getslice_gtag gtag gd) := by
          intro hc
          have := match_id gmask _ _ hq hc
          omega
        have f2 : ¬ (gmask &&& T
            = gmask &&& getslice_gtag gtag ((gd + 4294966272) % 4294967296)) := by
          intro hc
          have := match_id gmask _ _ hq2 hc
          omega
        exact ⟨iff_of_false f1 f2, fun hc => absurd hc f2⟩
    · intro T hT hn hm
      rcases filter_delete_none T u.1 _ hT k1 hn with h | h
      · exact h
      · have := match_id gmask _ _ hq2 hm
        omega
  · rw [if_neg hle, ← ih gd hd hq (by omega)]
    refine log_get_live_step gmask gtag gsize u.1 gd gd (log_count R) (log_live R) hq ihl ihp
      ?_ ?_
    · intro T t hT ht
      have hi := live_id _ _ hT
      refine ⟨hplain T t hT ht, ?_⟩
      rcases filter_delete_cases T u.1 _ hT k1 t ht with ⟨h1, h2⟩ | ⟨h1, h2⟩
      · rw [h1]
        have hidd := id_down T _ hT (by omega)
        have f1 : ¬ (gmask &&& (T - 1024) = gmask &&& getslice_gtag gtag gd) := by
          intro hc
          have := match_id gmask _ _ hq hc
          omega
        have f2 : ¬ (gmask &&& T = gmask &&& getslice_gtag gtag gd) := by
          intro hc
          have := match_id gmask _ _ hq hc
          omega
        exact ⟨iff_of_false f1 f2, fun hc => absurd hc f2⟩
      · rw [h1]
        exact ⟨Iff.rfl, fun _ => ⟨rfl, rfl⟩⟩
    · intro T hT hn hm
      rcases filter_delete_none T u.1 _ hT k1 hn with h | h
      · exact h
      · have := match_id gmask _ _ hq hm
        omega

/-- The lookups of `lookup_ok` give the same in the filtered log of a
well-formed log as in the log itself, for every id below the count (or for
every id when the log has no SPLICE tag). -/
theorem log_get_live (gmask gtag gsize : Nat) (hg : gtag < 4294967296) :
    ∀ (R : List (Nat × List Nat)) (gd : Nat), log_wf R → gd < 4294967296 →
      lookup_ok gmask (getslice_gtag gtag gd) →
      (getslice_gtag gtag gd / 1024 % 1024 < log_count R ∨ log_nosplice R) →
      log_get gmask gtag gsize (log_live R) gd = log_get gmask gtag gsize R gd
  | [], _, _, _, _, _ => rfl
  | u :: R, gd, hw, hd, hq, hid => by
    obtain ⟨hwR, hok⟩ := hw
    obtain ⟨ihc, ihl, ihp⟩ := log_live_inv R hwR
    have ih := fun gd2 h1 h2 h3 => log_get_live gmask gtag gsize hg R gd2 hwR h1 h2 h3
    have hns : log_nosplice (u :: R) → log_nosplice R ∧ u.1 / 268435456 % 8 ≠ 4 := by
      intro h
      refine ⟨fun e he => h e (List.mem_cons_of_mem _ he), ?_⟩
      have := h u (List.mem_cons_self _ _)
      rw [lfs_tag_type1_eq] at this
      unfold LFS_TYPE_SPLICE at this
      omega
    rw [tag_ok_iff] at hok
    obtain ⟨hu31, hkind⟩ := hok
    rcases hkind with ⟨k1, k2, k3, k4, k5⟩ | ⟨k1, k2, k3⟩ | ⟨k1, k2⟩ | ⟨k1, k2⟩
    · refine log_get_live_entry gmask gtag gsize u R gd hq ihl ihp (ih gd hd hq ?_) k1
      rcases hid with h | h
      · rw [log_count_cons] at h
        rcases k5 with k5 | k5
        · left
          split_ifs at h <;> omega
        · exact Or.inr k5.2.1
      · exact Or.inr (hns h).1
    · have hc := (log_live_inv_create u R ihc ihl ihp k1 k2 k3).1
      refine log_get_live_create gmask gtag gsize u R gd hg hd hq ihl ihp
        (fun gd2 h1 h2 h3 => ih gd2 h1 h2 (Or.inl h3)) k1 k2 k3 ?_
      rcases hid with h | h
      · rw [hc] at h
        exact h
      · exact absurd (by omega) (hns h).2
    · have hc := (log_live_inv_delete u R ihc ihl ihp k1 k2).1
      refine log_get_live_delete gmask gtag gsize u R gd hg hd hq ihc ihl ihp
        (fun gd2 h1 h2 h3 => ih gd2 h1 h2 (Or.inl h3)) k1 ?_
      rcases hid with h | h
      · rw [hc] at h
        omega
      · exact absurd (by omega) (hns h).2
    · have hc := (log_live_inv_pair u R ihl ihp k1).1
      refine log_get_live_pair gmask gtag gsize u R gd hq ihc ihl ihp (ih gd hd hq ?_) k1 k2
      rcases hid with h | h
      · rw [hc] at h
        exact Or.inl h
      · exact Or.inr (hns h).1


/-! ### The filtered log read forward -/

theorem log_filter_append (u : Nat) : ∀ (B : List Nat) (T : Nat),
    log_filter (B ++ [u]) T = (log_filter B T).bind (fun t => filter_step t u)
  | [], T => by
    show (match filter_step T u with | none => none | some t => log_filter [] t)
      = filter_step T u
    cases filter_step T u <;> rfl
  | b :: B, T => by
    show (match filter_step T b with | none => none | some t => log_filter (B ++ [u]) t) = _
    have e : log_filter (b :: B) T
        = (match filter_step T b with | none => none | some t => log_filter B t) := rfl
    rw [e]
    cases filter_step T b with
    | none => rfl
    | some t => exact log_filter_append u B t

theorem live_fwd_cons (a : Nat × List Nat) (B : List (Nat × List Nat)) :
    live_fwd (a :: B) =
      (if a.1 / 1073741824 % 2 = 0 then
        (match log_filter (B.map (fun u => u.1)) a.1 with
         | some t => [(t, a.2)]
         | none => [])
       else []) ++ live_fwd B := by
  show (if a.1 &&& 0x40000000 = 0 then _ else _) ++ _ = _
  rw [land_bit30]
  have : (a.1 / 1073741824 % 2 * 1073741824 = 0) ↔ a.1 / 1073741824 % 2 = 0 := by omega
  simp only [this]

theorem live_fwd_snoc (u : Nat × List Nat) : ∀ A : List (Nat × List Nat),
    live_fwd (A ++ [u]) =
      (live_fwd A).filterMap (fun e => (filter_step e.1 u.1).map (fun t => (t, e.2)))
        ++ (if u.1 / 1073741824 % 2 = 0 then [u] else [])
  | [] => by
    rw [List.nil_append, live_fwd_cons]
    show _ ++ [] = [] ++ _
    rw [List.append_nil, List.nil_append]
    rfl
  | a :: A => by
    rw [List.cons_append, live_fwd_cons, live_fwd_cons, live_fwd_snoc u A, List.map_append,
      List.filterMap_append, ← List.append_assoc]
    congr 1
    congr 1
    show _ = List.filterMap _ _
    rw [List.map_singleton, log_filter_append]
    by_cases hb : a.1 / 1073741824 % 2 = 0
    · rw [if_pos hb, if_pos hb]
      cases hl : log_filter (List.map (fun u => u.1) A) a.1 with
      | none => rfl
      | some t =>
        show _ = List.filterMap _ [(t, a.2)]
        cases hf : filter_step t u.1 with
        | none =>
          rw [List.filterMap_cons_none (by rw [hf]; rfl)]
          simp only [Option.bind, hf, List.filterMap_nil]
        | some t2 =>
          rw [List.filterMap_cons_some (by rw [hf]; rfl)]
          simp only [Option.bind, hf, List.filterMap_nil]
    · rw [if_neg hb, if_neg hb]
      rfl

theorem log_live_eq : ∀ L : List (Nat × List Nat), log_live L = (live_fwd L.reverse).reverse
  | [] => rfl
  | u :: R => by
    rw [log_live_cons, List.reverse_cons, live_fwd_snoc, List.reverse_append,
      ← List.filterMap_reverse, ← log_live_eq R]
    congr 1
    split_ifs <;> rfl

theorem mem_live_fwd (a : Nat × List Nat) (B : List (Nat × List Nat)) (t : Nat)
    (hb : a.1 / 1073741824 % 2 = 0)
    (ht : log_filter (B.map (fun u => u.1)) a.1 = some t) :
    ∀ A1 : List (Nat × List Nat), (t, a.2) ∈ live_fwd (A1 ++ a :: B)
  | [] => by
    rw [List.nil_append, live_fwd_cons, if_pos hb, ht]
    exact List.mem_append_left _ (List.mem_singleton.mpr rfl)
  | x :: A1 => by
    rw [List.cons_append, live_fwd_cons]
    exact List.mem_append_right _ (mem_live_fwd a B t hb ht A1)

theorem log_wf_suffix : ∀ X Y : List (Nat × List Nat), log_wf (X ++ Y) → log_wf Y
  | [], _, h => h
  | _ :: X, Y, h => log_wf_suffix X Y h.1

theorem log_wf_tags : ∀ L : List (Nat × List Nat), log_wf L →
    ∀ u ∈ L, u.1 < 2147483648 ∧ u.1 / 1048576 % 2048 ≠ 0 ∧ u.1 / 1048576 % 2048 ≠ 257
      ∧ u.1 / 1048576 % 2048 ≠ 258
  | [], _, u, hu => absurd hu (List.not_mem_nil _)
  | e :: L, hw, u, hu => by
    rcases List.mem_cons.mp hu with h | h
    · rw [h]
      have hok := hw.2
      rw [tag_ok_iff] at hok
      obtain ⟨h31, hk⟩ := hok
      refine ⟨h31, ?_⟩
      rcases hk with ⟨k1, k2, k3, k4, k5⟩ | ⟨k1, k2, k3⟩ | ⟨k1, k2⟩ | ⟨k1, k2⟩
      · exact ⟨k2, k3, k4⟩
      · refine ⟨?_, ?_, ?_⟩ <;> omega
      · refine ⟨?_, ?_, ?_⟩ <;> omega
      · refine ⟨?_, ?_, ?_⟩ <;> omega
    · exact log_wf_tags L hw.1 u h

/-- Every value that the filter takes on its way over the tags after a tag
of a well-formed log is the tag of a live entry. -/
theorem log_wf_chain (L : List (Nat × List Nat)) (hw : log_wf L)
    (A1 : List (Nat × List Nat)) (a : Nat × List Nat) (B1 B2 : List (Nat × List Nat))
    (hs : L.reverse = A1 ++ a :: (B1 ++ B2)) (hb : a.1 / 1073741824 % 2 = 0) (t : Nat)
    (ht : log_filter (B1.map (fun u => u.1)) a.1 = some t) :
    live_ok (log_count ((A1 ++ a :: B1).reverse)) t := by
  have hL : L = B2.reverse ++ (A1 ++ a :: B1).reverse := by
    rw [← List.reverse_append, List.append_assoc, List.cons_append, ← hs, List.reverse_reverse]
  rw [hL] at hw
  have hw2 := log_wf_suffix _ _ hw
  have hm := mem_live_fwd a B1 t hb ht A1
  have hm2 : (t, a.2) ∈ log_live ((A1 ++ a :: B1).reverse) := by
    rw [log_live_eq, List.reverse_reverse]
    exact List.mem_reverse.mpr hm
  exact (log_live_inv _ hw2).2.1 _ hm2


theorem fields_hi (x : Nat) :
    (x + 2147483648) / 1024 % 1024 = x / 1024 % 1024
      ∧ (x + 2147483648) / 1048576 % 2048 = x / 1048576 % 2048
      ∧ (x + 2147483648) / 268435456 % 8 = x / 268435456 % 8
      ∧ (x + 2147483648) / 268435456 % 2 = x / 268435456 % 2
      ∧ (x + 2147483648) % 1024 = x % 1024
      ∧ (x + 2147483648) / 1048576 % 256 = x / 1048576 % 256
      ∧ (x + 2147483648) / 1073741824 % 2 = x / 1073741824 % 2 := by
  refine ⟨?_, ?_, ?_, ?_, ?_, ?_, ?_⟩ <;> omega

theorem splice_word_hi (u : Nat) : splice_word (u + 2147483648) = splice_word u := by
  rw [splice_word_eq, splice_word_eq, (fields_hi u).2.2.2.2.2.1]

theorem splice_word_lt (u : Nat) : splice_word u < 4294967296 := by
  rw [splice_word_eq]
  split_ifs <;> omega

/-- The filter on two tags with their bit 31 set. -/
theorem filter_step_hi (T u : Nat)
    (ht : ∀ t, filter_step T u = some t → t < 2147483648) :
    filter_step (T + 2147483648) (u + 2147483648)
      = (filter_step T u).map (fun t => t + 2147483648) := by
  obtain ⟨a1, a2, a3, a4, a5, a6, a7⟩ := fields_hi T
  obtain ⟨b1, b2, b3, b4, b5, b6, b7⟩ := fields_hi u
  rw [filter_step_eq] at ht ⊢
  rw [filter_step_eq, a1, a2, a3, a5, b1, b2, b3, b4, splice_word_hi]
  by_cases hc : (if u / 268435456 % 2 = 1 then
            u / 1024 % 1024 = T / 1024 % 1024 ∧ u / 1048576 % 2048 = T / 1048576 % 2048
          else u / 1024 % 1024 = T / 1024 % 1024 ∧ u / 268435456 % 8 = T / 268435456 % 8)
          ∨ T % 1024 = 1023
          ∨ (u / 1048576 % 2048 = 0x4ff ∧ u / 1024 % 1024 = T / 1024 % 1024)
  · rw [if_pos hc, if_pos hc, Option.map_none']
  · rw [if_neg hc] at ht
    rw [if_neg hc, if_neg hc]
    by_cases hs : u / 268435456 % 8 = 4 ∧ u / 1024 % 1024 ≤ T / 1024 % 1024
    · rw [if_pos hs] at ht
      rw [if_pos hs, if_pos hs]
      have h1 := ht _ rfl
      have h2 := splice_word_lt u
      rw [Option.map_some']
      exact congrArg some (by omega)
    · rw [if_neg hs, if_neg hs, Option.map_some']

theorem log_filter_nil (T : Nat) : log_filter [] T = some T := rfl

theorem log_filter_cons (u : Nat) (B : List Nat) (T : Nat) :
    log_filter (u :: B) T
      = (match filter_step T u with | none => none | some t => log_filter B t) := rfl

/-- The filter run over tags with their bit 31 set, as `lfs_dir_traverse`
holds them. -/
theorem log_filter_hi (B : List Nat) : ∀ (T : Nat), T < 2147483648 →
    (∀ B1 B2 t, B = B1 ++ B2 → log_filter B1 T = some t → t < 2147483648) →
    log_filter (B.map (fun u => u + 2147483648)) (T + 2147483648)
      = (log_filter B T).map (fun t => t + 2147483648) := by
  induction B with
  | nil =>
    intro T _ _
    rw [List.map_nil, log_filter_nil, log_filter_nil, Option.map_some']
  | cons u B ih =>
    intro T hT hc
    have hstep : ∀ t, filter_step T u = some t → t < 2147483648 := by
      intro t ht
      refine hc [u] B t rfl ?_
      rw [log_filter_cons, ht]
      exact log_filter_nil t
    rw [List.map_cons, log_filter_cons, log_filter_cons, filter_step_hi T u hstep]
    cases hf : filter_step T u with
    | none => simp only [Option.map_none']
    | some t =>
      simp only [Option.map_some']
      refine ih t (hstep t hf) ?_
      intro B1 B2 t2 hB ht2
      refine hc (u :: B1) B2 t2 (by rw [hB]; rfl) ?_
      rw [log_filter_cons, hf]
      exact ht2


/-! ### The walks over the bytes of a block -/

theorem lfs_tag_dsize_mod (t : Nat) :
    lfs_tag_dsize t = if t % 1024 = 1023 then 4 else 4 + t % 1024 := by
  unfold lfs_tag_dsize
  rw [lfs_tag_size_eq_mod]
  unfold wrap32
  by_cases h : t % 1024 = 1023
  · have hd : lfs_tag_isdelete t = true := (lfs_tag_isdelete_iff t).2 h
    rw [hd, if_pos rfl, if_pos h]
    omega
  · have hd : ¬ lfs_tag_isdelete t = true := fun hx => h ((lfs_tag_isdelete_iff t).1 hx)
    rw [if_neg hd, if_neg h]
    omega

theorem lfs_tag_dsize_congr (a b : Nat) (h : a % 1024 = b % 1024) :
    lfs_tag_dsize a = lfs_tag_dsize b := by
  rw [lfs_tag_dsize_mod, lfs_tag_dsize_mod, h]

theorem xor_mod_two_pow (a b k : Nat) : (a ^^^ b) % 2 ^ k = (a % 2 ^ k) ^^^ (b % 2 ^ k) := by
  apply Nat.eq_of_testBit_eq
  intro i
  simp only [Nat.testBit_mod_two_pow, Nat.testBit_xor]
  by_cases h : i < k <;> simp [h]

theorem xor_mod31 (a b : Nat) :
    (a ^^^ b) % 2147483648 = (a % 2147483648) ^^^ (b % 2147483648) := by
  have := xor_mod_two_pow a b 31
  norm_num at this
  exact this

theorem lfs_bd_read_ok (g : Geometry) (d : Disk) (block offset n : Nat)
    (hb : block < g.block_count) (ho : offset + n ≤ g.block_size)
    (hg : g.block_size < 9223372036854775808) :
    lfs_bd_read g d block offset n = .ok ((List.range n).map (fun j => d block (offset + j))) := by
  unfold lfs_bd_read
  rw [if_neg (by unfold wrap64; omega)]

theorem lfs_frombe32_lt (raw : List Nat) : lfs_frombe32 raw < 4294967296 := by
  unfold lfs_frombe32
  match raw with
  | [] => simp
  | [a] => simp only [List.take, List.foldl]; omega
  | [a, b] => simp only [List.take, List.foldl]; omega
  | [a, b, c] => simp only [List.take, List.foldl]; omega
  | a :: b :: c :: e :: _ => simp only [List.take, List.foldl]; omega

theorem block_log_congr (d : Disk) (block : Nat) (L : List (Nat × List Nat))
    (offset n1 n2 : Nat) (h : n1 % 2147483648 = n2 % 2147483648) :
    block_log d block L offset n1 ↔ block_log d block L offset n2 := by
  cases L with
  | nil =>
    show (_ ∧ n1 % 2147483648 = _) ↔ (_ ∧ n2 % 2147483648 = _)
    rw [h]
  | cons e L =>
    show (e.1 = n1 % 2147483648 ∧ _) ↔ (e.1 = n2 % 2147483648 ∧ _)
    rw [h]

theorem block_log_length (d : Disk) (block : Nat) : ∀ (L : List (Nat × List Nat))
    (offset ntag : Nat), block_log d block L offset ntag → 4 * L.length + 4 ≤ offset
  | [], offset, ntag, h => by
    have := h.1
    simp only [List.length_nil]
    omega
  | e :: L, offset, ntag, h => by
    obtain ⟨h1, h2, h3, h4⟩ := h
    have := block_log_length d block L _ _ h4
    have := lfs_tag_dsize_ge e.1
    simp only [List.length_cons]
    omega


/-- One pass of the loop of `lfs_dir_getslice` over the latest entry of the
log of a block, when the tag held by the loop has its bit 31 clear. -/
theorem getslice_loop_cons (g : Geometry) (d : Disk) (block gmask gtag gsize fuel : Nat)
    (offset ntag gd : Nat) (e : Nat × List Nat) (L : List (Nat × List Nat))
    (hb : block < g.block_count) (ho : offset ≤ g.block_size)
    (hg : g.block_size < 9223372036854775808)
    (h : block_log d block (e :: L) offset ntag) (hn : ntag < 2147483648) :
    getslice_loop g d block gmask gtag 0 gsize (fuel + 1) offset ntag gd =
      if getslice_splices gmask gtag gd e.1
          ∧ e.1 = (LFS_MKTAG LFS_TYPE_CREATE 0 0
              ||| (LFS_MKTAG 0 0x3ff 0 &&& getslice_gtag gtag gd)) then
        some (LFS_ERR_NOENT, none)
      else if gmask &&& e.1
          = gmask &&& getslice_gtag gtag (getslice_gdiff gmask gtag gd e.1) then
        if lfs_tag_isdelete e.1 then some (LFS_ERR_NOENT, none)
        else
          some (toInt32 (wrap32 (e.1 + getslice_gdiff gmask gtag gd e.1)),
            some (e.2.take (lfs_min (lfs_tag_size e.1) gsize)
              ++ List.replicate (gsize - lfs_min (lfs_tag_size e.1) gsize) 0))
      else
        getslice_loop g d block gmask gtag 0 gsize fuel (offset - lfs_tag_dsize e.1)
          ((lfs_frombe32 ((List.range 4).map
              (fun j => d block (offset - lfs_tag_dsize e.1 + j))) ^^^ e.1) % 2147483648)
          (getslice_gdiff gmask gtag gd e.1) := by
  obtain ⟨h1, h2, h3, h4⟩ := h
  have hd := lfs_tag_dsize_ge e.1
  have he : e.1 = ntag := by rw [h1]; exact Nat.mod_eq_of_lt hn
  rw [← he]
  have hread := lfs_bd_read_ok g d block (offset - lfs_tag_dsize e.1) 4 hb (by omega) hg
  show (if offset ≥ 4 + lfs_tag_dsize e.1 then
      (match getslice_step g d block gmask gtag 0 gsize offset e.1 gd with
        | .done res buffer => some (res, buffer)
        | .next o n gd2 => getslice_loop g d block gmask gtag 0 gsize fuel o n gd2)
    else some (LFS_ERR_NOENT, none)) = _
  rw [if_pos h2]
  unfold getslice_step
  rw [hread]
  simp only []
  by_cases hc : getslice_splices gmask gtag gd e.1 = true
      ∧ e.1 = (LFS_MKTAG LFS_TYPE_CREATE 0 0
          ||| (LFS_MKTAG 0 0x3ff 0 &&& getslice_gtag gtag gd))
  · rw [if_pos hc, if_pos hc]
  · rw [if_neg hc, if_neg hc]
    unfold getslice_match
    by_cases hm : gmask &&& e.1
        = gmask &&& getslice_gtag gtag (getslice_gdiff gmask gtag gd e.1)
    · rw [if_pos hm, if_pos hm]
      by_cases hdel : lfs_tag_isdelete e.1 = true
      · rw [if_pos hdel, if_pos hdel]
      · rw [if_neg hdel, if_neg hdel]
        have hsz : lfs_tag_dsize e.1 = 4 + lfs_tag_size e.1 := by
          rw [lfs_tag_dsize_mod, lfs_tag_size_eq_mod,
            if_neg (fun hx => hdel ((lfs_tag_isdelete_iff _).2 hx))]
        have hmin : lfs_min (lfs_tag_size e.1) gsize ≤ lfs_tag_size e.1 := by
          unfold lfs_min
          split_ifs <;> omega
        have hw : wrap64 (offset - lfs_tag_dsize e.1 + 4 + 0)
            = offset - lfs_tag_dsize e.1 + 4 := by
          unfold wrap64
          omega
        rw [hw, lfs_bd_read_ok g d block _ _ hb (by omega) hg]
        simp only []
        have ht : e.2.take (lfs_min (lfs_tag_size e.1) gsize)
            = (List.range (lfs_min (lfs_tag_size e.1) gsize)).map
                (fun j => d block (offset - lfs_tag_dsize e.1 + 4 + j)) := by
          rw [h3, ← List.map_take, List.take_range, Nat.min_eq_left (by omega)]
        rw [ht]
    · rw [if_neg hm, if_neg hm]
      simp only []
      rw [land_low31]


theorem log_get_cons_eq (gmask gtag gsize : Nat) (e : Nat × List Nat)
    (L : List (Nat × List Nat)) (gd : Nat) :
    log_get gmask gtag gsize (e :: L) gd =
      if getslice_splices gmask gtag gd e.1
          ∧ e.1 = (LFS_MKTAG LFS_TYPE_CREATE 0 0
              ||| (LFS_MKTAG 0 0x3ff 0 &&& getslice_gtag gtag gd)) then
        (LFS_ERR_NOENT, none)
      else if gmask &&& e.1
          = gmask &&& getslice_gtag gtag (getslice_gdiff gmask gtag gd e.1) then
        if lfs_tag_isdelete e.1 then (LFS_ERR_NOENT, none)
        else
          (toInt32 (wrap32 (e.1 + getslice_gdiff gmask gtag gd e.1)),
            some (e.2.take (lfs_min (lfs_tag_size e.1) gsize)
              ++ List.replicate (gsize - lfs_min (lfs_tag_size e.1) gsize) 0))
      else log_get gmask gtag gsize L (getslice_gdiff gmask gtag gd e.1) := rfl

/-- The loop of `lfs_dir_getslice` over a block is the lookup in the log of
the block, with one unit of fuel for every entry and one more. -/
theorem getslice_loop_log (g : Geometry) (d : Disk) (block gmask gtag gsize : Nat)
    (hb : block < g.block_count) (hg : g.block_size < 9223372036854775808) :
    ∀ (L : List (Nat × List Nat)) (fuel offset ntag gd : Nat),
      block_log d block L offset ntag → ntag < 2147483648 → offset ≤ g.block_size →
      L.length < fuel →
      getslice_loop g d block gmask gtag 0 gsize fuel offset ntag gd
        = some (log_get gmask gtag gsize L gd)
  | [], 0, _, _, _, _, _, _, hf => absurd hf (by simp)
  | [], fuel + 1, offset, ntag, gd, h, hn, _, _ => by
    obtain ⟨h1, h2⟩ := h
    have hnt : ntag = 2147483647 := by omega
    have hds : lfs_tag_dsize ntag = 4 := by
      rw [lfs_tag_dsize_mod, hnt]
      rfl
    show (if offset ≥ 4 + lfs_tag_dsize ntag then _ else some (LFS_ERR_NOENT, none)) = _
    rw [if_neg (by omega)]
    rfl
  | _ :: _, 0, _, _, _, _, _, _, hf => absurd hf (by simp)
  | e :: L, fuel + 1, offset, ntag, gd, h, hn, ho, hf => by
    rw [getslice_loop_cons g d block gmask gtag gsize fuel offset ntag gd e L hb ho hg h hn,
      log_get_cons_eq]
    obtain ⟨h1, h2, h3, h4⟩ := h
    have ih := getslice_loop_log g d block gmask gtag gsize hb hg L fuel
      (offset - lfs_tag_dsize e.1)
      ((lfs_frombe32 ((List.range 4).map
          (fun j => d block (offset - lfs_tag_dsize e.1 + j))) ^^^ e.1) % 2147483648)
      (getslice_gdiff gmask gtag gd e.1)
      ((block_log_congr d block L _ _ _ (by omega)).mp h4)
      (Nat.mod_lt _ (by omega)) (by omega)
      (by simp only [List.length_cons] at hf; omega)
    rw [ih]
    split_ifs <;> rfl

theorem pair_tag_nomatch (gmask q t : Nat) (hq : lookup_ok gmask q)
    (ht : t / 268435456 % 8 = 5 ∨ t / 268435456 % 8 = 6 ∨ t / 268435456 % 8 = 7) :
    ¬ (gmask &&& t = gmask &&& q) := by
  obtain ⟨m1, m2, m3, m4⟩ := lookup_ok_mask gmask _ hq
  rw [m4 t]
  intro hc
  split_ifs at hc <;> omega

/-- The lookup goes over the tags of the pair (CRC, TAIL, MOVESTATE). -/
theorem log_get_pair_tags (gmask gtag gsize gd : Nat)
    (hq : lookup_ok gmask (getslice_gtag gtag gd)) (X : List (Nat × List Nat)) :
    ∀ P : List (Nat × List Nat),
      (∀ e ∈ P, e.1 / 268435456 % 8 = 5 ∨ e.1 / 268435456 % 8 = 6
        ∨ e.1 / 268435456 % 8 = 7) →
      log_get gmask gtag gsize (P ++ X) gd = log_get gmask gtag gsize X gd
  | [], _ => rfl
  | e :: P, hP => by
    have he := hP e (List.mem_cons_self _ _)
    rw [List.cons_append, log_get_cons_plain gmask gtag gsize e _ gd (by omega),
      if_neg (pair_tag_nomatch gmask _ e.1 hq he)]
    exact log_get_pair_tags gmask gtag gsize gd hq X P
      (fun x hx => hP x (List.mem_cons_of_mem _ hx))

/-- The first pass of the loop of `lfs_dir_getslice`, over the CRC tag that
ends the block; the tag may have its bit 31 set. -/
theorem getslice_loop_head (g : Geometry) (d : Disk) (block gmask gtag gsize fuel : Nat)
    (offset ntag gd : Nat) (e : Nat × List Nat) (L : List (Nat × List Nat))
    (hb : block < g.block_count) (ho : offset ≤ g.block_size)
    (hg : g.block_size < 9223372036854775808)
    (h : block_log d block (e :: L) offset ntag)
    (hq : lookup_ok gmask (getslice_gtag gtag gd))
    (hp : e.1 / 268435456 % 8 = 5 ∨ e.1 / 268435456 % 8 = 6 ∨ e.1 / 268435456 % 8 = 7) :
    getslice_loop g d block gmask gtag 0 gsize (fuel + 1) offset ntag gd =
      getslice_loop g d block gmask gtag 0 gsize fuel (offset - lfs_tag_dsize e.1)
        ((lfs_frombe32 ((List.range 4).map
            (fun j => d block (offset - lfs_tag_dsize e.1 + j))) ^^^ e.1) % 2147483648)
        gd := by
  obtain ⟨h1, h2, h3, h4⟩ := h
  have hd := lfs_tag_dsize_ge e.1
  have hds : lfs_tag_dsize ntag = lfs_tag_dsize e.1 :=
    lfs_tag_dsize_congr _ _ (by omega)
  have hread := lfs_bd_read_ok g d block (offset - lfs_tag_dsize e.1) 4 hb (by omega) hg
  have hs : getslice_splices gmask gtag gd ntag = false := by
    unfold getslice_splices
    rw [lfs_tag_type1_eq]
    unfold LFS_TYPE_SPLICE
    simp
    intro _ h2
    omega
  have hgd : getslice_gdiff gmask gtag gd ntag = gd := by
    unfold getslice_gdiff
    rw [hs]
    rfl
  have hnm : ¬ (gmask &&& ntag = gmask &&& getslice_gtag gtag gd) :=
    pair_tag_nomatch gmask _ ntag hq (by omega)
  show (if offset ≥ 4 + lfs_tag_dsize ntag then
      (match getslice_step g d block gmask gtag 0 gsize offset ntag gd with
        | .done res buffer => some (res, buffer)
        | .next o n gd2 => getslice_loop g d block gmask gtag 0 gsize fuel o n gd2)
    else some (LFS_ERR_NOENT, none)) = _
  rw [if_pos (by omega)]
  unfold getslice_step
  rw [hds, hread]
  simp only []
  rw [hs, hgd]
  simp only [Bool.false_eq_true, false_and, if_false]
  unfold getslice_match
  rw [if_neg hnm]
  simp only []
  rw [land_low31, xor_mod31 _ ntag, ← h1, xor_mod31 _ e.1,
    Nat.mod_eq_of_lt (show e.1 < 2147483648 by omega)]

/-- `lfs_dir_getslice` on a block whose log ends with a tag of the pair is
the lookup in the log. -/
theorem getslice_loop_dir (g : Geometry) (d : Disk) (block gmask gtag gsize fuel : Nat)
    (offset ntag gd : Nat) (L : List (Nat × List Nat))
    (hb : block < g.block_count) (ho : offset ≤ g.block_size)
    (hg : g.block_size < 9223372036854775808)
    (h : block_log d block L offset ntag)
    (hq : lookup_ok gmask (getslice_gtag gtag gd))
    (hp : ntag / 268435456 % 8 = 5 ∨ ntag / 268435456 % 8 = 6 ∨ ntag / 268435456 % 8 = 7)
    (hf : L.length < fuel) :
    getslice_loop g d block gmask gtag 0 gsize fuel offset ntag gd
      = some (log_get gmask gtag gsize L gd) := by
  cases L with
  | nil =>
    have h1 : offset = 4 := h.1
    have h2 : ntag % 2147483648 = 0x7fffffff := h.2
    cases fuel with
    | zero => exact absurd hf (by simp)
    | succ fuel =>
      have hds : lfs_tag_dsize ntag = 4 := by
        rw [lfs_tag_dsize_mod, if_pos (by omega)]
      show (if offset ≥ 4 + lfs_tag_dsize ntag then _ else some (LFS_ERR_NOENT, none)) = _
      rw [if_neg (by omega)]
      rfl
  | cons e L =>
    cases fuel with
    | zero => exact absurd hf (by simp)
    | succ fuel =>
      have he := h.1
      have hpe : e.1 / 268435456 % 8 = 5 ∨ e.1 / 268435456 % 8 = 6
          ∨ e.1 / 268435456 % 8 = 7 := by omega
      rw [getslice_loop_head g d block gmask gtag gsize fuel offset ntag gd e L hb ho hg h
        hq hpe]
      obtain ⟨h1, h2, h3, h4⟩ := h
      rw [getslice_loop_log g d block gmask gtag gsize hb hg L fuel _ _ gd
        ((block_log_congr d block L _ _ _ (by omega)).mp h4) (Nat.mod_lt _ (by omega))
        (by omega) (by simp only [List.length_cons] at hf; omega),
        log_get_cons_plain gmask gtag gsize e L gd (by omega),
        if_neg (pair_tag_nomatch gmask _ e.1 hq hpe)]


theorem fwd_log_congr (d : Disk) (block end_ : Nat) (B : List (Nat × List Nat))
    (offset p1 p2 : Nat) (h : p1 % 2147483648 = p2 % 2147483648) :
    fwd_log d block end_ B offset p1 ↔ fwd_log d block end_ B offset p2 := by
  cases B with
  | nil => exact Iff.rfl
  | cons a B =>
    show (a.1 = (_ ^^^ p1) % 2147483648 ∧ _) ↔ (a.1 = (_ ^^^ p2) % 2147483648 ∧ _)
    rw [xor_mod31 _ p1, xor_mod31 _ p2, h]

theorem fwd_log_le (d : Disk) (block end_ : Nat) : ∀ (B : List (Nat × List Nat))
    (offset p : Nat), fwd_log d block end_ B offset p → offset ≤ end_
  | [], offset, p, h => by
    have h1 : offset = end_ := h
    omega
  | a :: B, offset, p, h => by
    obtain ⟨h1, h2, h3, h4⟩ := h
    omega

theorem xor_self_cancel (w e : Nat) : w ^^^ (w ^^^ e) = e := by
  rw [← Nat.xor_assoc, Nat.xor_self, Nat.zero_xor]

/-- The log that `lfs_dir_getslice` reads backwards is the log that
`lfs_dir_traverse` reads forwards. -/
theorem block_log_fwd (d : Disk) (block end_ : Nat) :
    ∀ (L B : List (Nat × List Nat)) (offset ntag : Nat),
      block_log d block L offset ntag → fwd_log d block end_ B offset ntag →
      fwd_log d block end_ (L.reverse ++ B) 4 0xffffffff
  | [], B, offset, ntag, h, hB => by
    obtain ⟨h1, h2⟩ := h
    rw [List.reverse_nil, List.nil_append, ← h1]
    exact (fwd_log_congr d block end_ B offset _ _ (by omega)).mp hB
  | e :: L, B, offset, ntag, h, hB => by
    obtain ⟨h1, h2, h3, h4⟩ := h
    have hle := fwd_log_le d block end_ B offset ntag hB
    have he31 : e.1 < 2147483648 := by omega
    rw [List.reverse_cons, List.append_assoc, List.singleton_append]
    refine block_log_fwd d block end_ L (e :: B) _ _ h4 ?_
    refine ⟨?_, by omega, ?_, ?_⟩
    · rw [xor_self_cancel, Nat.mod_eq_of_lt he31]
    · rw [h3]
    · have : offset - lfs_tag_dsize e.1 + lfs_tag_dsize e.1 = offset := by omega
      rw [this]
      exact (fwd_log_congr d block end_ B offset _ _ (by omega)).mp hB

theorem fwd_log_frame (d d2 : Disk) (block end_ : Nat) (hd : ∀ o, d2 block o = d block o) :
    ∀ (B : List (Nat × List Nat)) (offset p : Nat),
      fwd_log d block end_ B offset p → fwd_log d2 block end_ B offset p
  | [], _, _, h => h
  | a :: B, offset, p, h => by
    obtain ⟨h1, h2, h3, h4⟩ := h
    refine ⟨?_, h2, ?_, fwd_log_frame d d2 block end_ hd B _ _ h4⟩
    · simp only [hd]
      exact h1
    · simp only [hd]
      exact h3

theorem traverse_filter_noop (ft u : Nat) (h : (lfs_dir_traverse_filter ft u).1 = true) :
    (lfs_dir_traverse_filter ft u).2 = LFS_MKTAG LFS_FROM_NOOP 0 0 := by
  unfold lfs_dir_traverse_filter at h ⊢
  split_ifs at h ⊢ <;> rfl


theorem tag_hi (w ptag a : Nat) (hw : w < 4294967296) (hp : ptag < 4294967296)
    (ha : a = (w ^^^ ptag) % 2147483648) :
    (w ^^^ ptag) ||| 0x80000000 = a + 2147483648 := by
  rw [lor_bit31 _ (xor_lt_two_pow32 w ptag hw hp), ha]

theorem filter_step_def (T u : Nat) :
    filter_step T u = if (lfs_dir_traverse_filter T u).1 then none
      else some (lfs_dir_traverse_filter T u).2 := rfl

/-- The filter run of `lfs_dir_traverse` over the entries of a block that
follow a tag is the filter run over their tags, held with bit 31 set. -/
theorem traverse_filter_pass_log (g : Geometry) (d : Disk) (dir : lfs_metadata_dir_t)
    (hb : dir.pair0 < g.block_count) (ho : dir.offset ≤ g.block_size)
    (hg : g.block_size < 9223372036854775808) :
    ∀ (B : List (Nat × List Nat)) (fuel offset ptag ft : Nat),
      fwd_log d dir.pair0 dir.offset B (offset + lfs_tag_dsize ptag) ptag →
      ptag < 4294967296 →
      (∀ u ∈ B, u.1 / 1048576 % 2048 ≠ 0 ∧ u.1 / 1048576 % 2048 ≠ 257
        ∧ u.1 / 1048576 % 2048 ≠ 258) →
      B.length < fuel →
      traverse_filter_pass g d dir fuel offset ptag ft
        = some (.ok ((log_filter (B.map (fun u => u.1 + 2147483648)) ft).getD
            (LFS_MKTAG LFS_FROM_NOOP 0 0))) := by
  intro B
  induction B with
  | nil =>
    intro fuel offset ptag ft h hp hB hf
    cases fuel with
    | zero => exact absurd hf (by simp)
    | succ fuel =>
      have h1 : offset + lfs_tag_dsize ptag = dir.offset := h
      rw [traverse_filter_pass, if_neg (by unfold wrap64; omega)]
      rfl
  | cons a B ihB =>
    intro fuel offset ptag ft h hp hB hf
    cases fuel with
    | zero => exact absurd hf (by simp)
    | succ fuel =>
      obtain ⟨h1, h2, h3, h4⟩ := h
      have hd := lfs_tag_dsize_ge a.1
      have hw : wrap64 (offset + lfs_tag_dsize ptag) = offset + lfs_tag_dsize ptag := by
        unfold wrap64
        omega
      have hread := lfs_bd_read_ok g d dir.pair0 (offset + lfs_tag_dsize ptag) 4 hb
        (by omega) hg
      have hhi := tag_hi _ ptag a.1 (lfs_frombe32_lt _) hp h1
      obtain ⟨f1, f2, f3, f4, f5, f6, f7⟩ := fields_hi a.1
      obtain ⟨t1, t2, t3⟩ := hB a (List.mem_cons_self _ _)
      have ih := fun ft2 => ihB fuel
        (offset + lfs_tag_dsize ptag) (a.1 + 2147483648) ft2
        (by
          rw [lfs_tag_dsize_congr (a.1 + 2147483648) a.1 f5]
          exact (fwd_log_congr d dir.pair0 dir.offset B _ _ _ (by omega)).mp h4)
        (by omega) (fun u hu => hB u (List.mem_cons_of_mem _ hu))
        (by simp only [List.length_cons] at hf; omega)
      rw [traverse_filter_pass, hw, if_pos (by omega), hread]
      simp only []
      rw [hhi, lfs_tag_type3_eq, f2]
      unfold LFS_FROM_NOOP LFS_FROM_MOVE LFS_FROM_USERATTRS
      rw [if_neg (by omega), if_neg (by omega), List.map_cons, log_filter_cons,
        filter_step_def]
      by_cases hc : (lfs_dir_traverse_filter ft (a.1 + 2147483648)).1 = true
      · rw [if_pos hc, if_pos hc, traverse_filter_noop _ _ hc]
        rfl
      · rw [if_neg hc, if_neg hc]
        exact ih _


/-! ### Writing to the new block -/

theorem disk_prog_one (d : Disk) (block offset x : Nat) (b o : Nat) :
    disk_prog d block offset [x] b o = if b = block ∧ o = offset then x else d b o := by
  unfold disk_prog
  by_cases h : b = block ∧ o = offset
  · rw [if_pos h, if_pos ⟨h.1, by rw [h.2], by rw [h.2]; simp⟩, h.2, Nat.sub_self]
    rfl
  · rw [if_neg h, if_neg]
    intro hc
    apply h
    refine ⟨hc.1, ?_⟩
    have := hc.2.2
    simp only [List.length_singleton] at this
    omega

/-- The copy loop of `lfs_dir_commit_attribute` from another block of the
device. -/
theorem commit_from_disk_ok (g : Geometry) (block offset : Nat)
    (hb : block < g.block_count) (hg : g.block_size < 9223372036854775808) :
    ∀ (count i : Nat) (d : Disk) (c : lfs_commit_t),
      offset + i + count ≤ g.block_size → block ≠ c.block →
      c.offset + count < 9223372036854775808 →
      (commit_from_disk g block offset count i d c).1 = 0
        ∧ (commit_from_disk g block offset count i d c).2.2.offset = c.offset + count
        ∧ (commit_from_disk g block offset count i d c).2.2.block = c.block
        ∧ (commit_from_disk g block offset count i d c).2.2.end_ = c.end_
        ∧ (commit_from_disk g block offset count i d c).2.2.begin_ = c.begin_
        ∧ (∀ j, j < count → (commit_from_disk g block offset count i d c).2.1 c.block
              (c.offset + j) = d block (offset + i + j))
        ∧ (∀ b o, b ≠ c.block ∨ o < c.offset →
              (commit_from_disk g block offset count i d c).2.1 b o = d b o)
  | 0, i, d, c, _, _, _ =>
    ⟨rfl, rfl, rfl, rfl, rfl, fun j hj => absurd hj (by omega), fun _ _ _ => rfl⟩
  | count + 1, i, d, c, ho, hne, hc => by
    have hread := lfs_bd_read_ok g d block (offset + i) 1 hb (by omega) hg
    have hw : wrap64 (offset + i) = offset + i := by unfold wrap64; omega
    have hstep : commit_from_disk g block offset (count + 1) i d c
        = commit_from_disk g block offset count (i + 1)
            (lfs_dir_commit_write d c [d block (offset + i + 0)]).2.1
            (lfs_dir_commit_write d c [d block (offset + i + 0)]).2.2 := by
      rw [commit_from_disk, hw, hread]
      rfl
    have ih := commit_from_disk_ok g block offset hb hg count (i + 1)
      (lfs_dir_commit_write d c [d block (offset + i + 0)]).2.1
      (lfs_dir_commit_write d c [d block (offset + i + 0)]).2.2
      (by omega) hne
      (by
        show wrap64 (c.offset + 1) + count < _
        unfold wrap64
        omega)
    rw [hstep]
    obtain ⟨i1, i2, i3, i4, i5, i6, i7⟩ := ih
    have ho1 : (lfs_dir_commit_write d c [d block (offset + i + 0)]).2.2.offset
        = c.offset + 1 := by
      show wrap64 (c.offset + 1) = _
      unfold wrap64
      omega
    have hb1 : (lfs_dir_commit_write d c [d block (offset + i + 0)]).2.2.block = c.block :=
      rfl
    have hd1 : ∀ b o, (lfs_dir_commit_write d c [d block (offset + i + 0)]).2.1 b o
        = if b = c.block ∧ o = c.offset then d block (offset + i + 0) else d b o :=
      fun b o => disk_prog_one d c.block c.offset _ b o
    rw [ho1] at i2 i6 i7
    rw [hb1] at i3 i6 i7
    refine ⟨i1, by rw [i2]; omega, i3, i4, i5, ?_, ?_⟩
    · intro j hj
      cases j with
      | zero =>
        have h0 := i7 c.block c.offset (Or.inr (by omega))
        rw [hd1, if_pos ⟨rfl, rfl⟩] at h0
        exact h0
      | succ j =>
        have := i6 j (by omega)
        rw [show c.offset + (j + 1) = c.offset + 1 + j by omega, this, hd1,
          if_neg (fun hx => hne hx.1)]
        congr 1
        omega
    · intro b o hbo
      rw [i7 b o (by omega), hd1, if_neg]
      intro hx
      omega


theorem block_log_frame (d d2 : Disk) (block : Nat) :
    ∀ (L : List (Nat × List Nat)) (offset ntag : Nat),
      block_log d block L offset ntag → (∀ o, o < offset → d2 block o = d block o) →
      block_log d2 block L offset ntag
  | [], _, _, h, _ => h
  | e :: L, offset, ntag, h, hf => by
    obtain ⟨h1, h2, h3, h4⟩ := h
    have hd := lfs_tag_dsize_ge e.1
    have hw : (List.range 4).map (fun j => d2 block (offset - lfs_tag_dsize e.1 + j))
        = (List.range 4).map (fun j => d block (offset - lfs_tag_dsize e.1 + j)) := by
      apply List.map_congr_left
      intro j hj
      have := List.mem_range.mp hj
      exact hf _ (by omega)
    have hp : (List.range (lfs_tag_dsize e.1 - 4)).map
          (fun j => d2 block (offset - lfs_tag_dsize e.1 + 4 + j))
        = (List.range (lfs_tag_dsize e.1 - 4)).map
          (fun j => d block (offset - lfs_tag_dsize e.1 + 4 + j)) := by
      apply List.map_congr_left
      intro j hj
      have := List.mem_range.mp hj
      exact hf _ (by omega)
    refine ⟨h1, h2, ?_, ?_⟩
    · rw [hp]
      exact h3
    · rw [hw]
      exact block_log_frame d d2 block L _ _ h4 (fun o ho => hf o (by omega))

theorem read_word_tobe32 (d : Disk) (block offset x : Nat) (hx : x < 4294967296)
    (hw : ∀ j, j < 4 → d block (offset + j) = (lfs_tobe32 x).getD j 0) :
    lfs_frombe32 ((List.range 4).map (fun j => d block (offset + j))) = x := by
  have e : (List.range 4).map (fun j => d block (offset + j)) = lfs_tobe32 x := by
    have h0 := hw 0 (by omega)
    have h1 := hw 1 (by omega)
    have h2 := hw 2 (by omega)
    have h3 := hw 3 (by omega)
    simp only [lfs_tobe32, List.getD_cons_zero, List.getD_cons_succ] at h0 h1 h2 h3
    show [d block (offset + 0), d block (offset + 1), d block (offset + 2),
      d block (offset + 3)] = _
    rw [h0, h1, h2, h3]
    rfl
  rw [e, lfs_frombe32_tobe32 x hx]

/-- A tag appended to a block adds an entry to its log. -/
theorem block_log_append (d d2 : Disk) (block offset t ptag ntag : Nat)
    (Lc : List (Nat × List Nat)) (hL : block_log d block Lc offset ptag)
    (hframe : ∀ o, o < offset → d2 block o = d block o)
    (hword : ∀ j, j < 4 → d2 block (offset + j) = (lfs_tobe32 (t ^^^ ptag)).getD j 0)
    (ht : t < 2147483648) (hp : ptag < 4294967296) (hn : ntag % 2147483648 = t) :
    block_log d2 block
      ((t, (List.range (lfs_tag_dsize t - 4)).map (fun j => d2 block (offset + 4 + j))) :: Lc)
      (offset + lfs_tag_dsize t) ntag := by
  have hd := lfs_tag_dsize_ge t
  have h4 := block_log_length d block Lc offset ptag hL
  have hsub : offset + lfs_tag_dsize t - lfs_tag_dsize t = offset := by omega
  refine ⟨hn.symm, by show 4 + lfs_tag_dsize t ≤ _; omega, ?_, ?_⟩
  · show _ = List.map (fun j => d2 block (offset + lfs_tag_dsize t - lfs_tag_dsize t + 4 + j)) _
    rw [hsub]
  · show block_log d2 block Lc (offset + lfs_tag_dsize t - lfs_tag_dsize t)
      (lfs_frombe32 ((List.range 4).map
        (fun j => d2 block (offset + lfs_tag_dsize t - lfs_tag_dsize t + j))) ^^^ t)
    rw [hsub, read_word_tobe32 d2 block offset (t ^^^ ptag)
      (xor_lt_two_pow32 t ptag (by omega) hp) hword, Nat.xor_comm t ptag, xor_xor_cancel]
    exact block_log_frame d d2 block Lc offset ptag hL hframe


theorem lfs_dir_commit_attribute_nospc (g : Geometry) (d : Disk) (c : lfs_commit_t) (tag : Nat)
    (buffer : List Nat) (source : Nat × Nat)
    (h : ¬ (c.offset + lfs_tag_dsize tag ≤ c.end_)) (ho : c.offset < 9223372036854775808) :
    (lfs_dir_commit_attribute g d c tag buffer source).1 ≠ 0 := by
  have hd := lfs_tag_dsize_le tag
  unfold lfs_dir_commit_attribute
  rw [if_pos (by unfold wrap64; omega)]
  show LFS_ERR_NOSPC ≠ 0
  decide

/-- `lfs_dir_commit_attribute` for a tag with bit 31 set, whose payload is
copied from another block of the device. -/
theorem lfs_dir_commit_attribute_disk (g : Geometry) (d : Disk) (c : lfs_commit_t)
    (tag t : Nat) (buffer : List Nat) (source : Nat × Nat)
    (h31 : tag &&& 0x80000000 ≠ 0) (hlow : tag &&& 0x7fffffff = t)
    (hds : lfs_tag_dsize tag = lfs_tag_dsize t)
    (hfit : c.offset + lfs_tag_dsize t ≤ c.end_) (he : c.end_ < 9223372036854775808)
    (hsb : source.1 < g.block_count) (hso : source.2 + (lfs_tag_dsize t - 4) ≤ g.block_size)
    (hg : g.block_size < 9223372036854775808) (hne : source.1 ≠ c.block) :
    (lfs_dir_commit_attribute g d c tag buffer source).1 = 0
      ∧ (lfs_dir_commit_attribute g d c tag buffer source).2.2.offset
          = c.offset + lfs_tag_dsize t
      ∧ (lfs_dir_commit_attribute g d c tag buffer source).2.2.ptag = t
      ∧ (lfs_dir_commit_attribute g d c tag buffer source).2.2.block = c.block
      ∧ (lfs_dir_commit_attribute g d c tag buffer source).2.2.end_ = c.end_
      ∧ (lfs_dir_commit_attribute g d c tag buffer source).2.2.begin_ = c.begin_
      ∧ (∀ j, j < 4 → (lfs_dir_commit_attribute g d c tag buffer source).2.1 c.block
            (c.offset + j) = (lfs_tobe32 (t ^^^ c.ptag)).getD j 0)
      ∧ (∀ j, j < lfs_tag_dsize t - 4 →
            (lfs_dir_commit_attribute g d c tag buffer source).2.1 c.block
              (c.offset + 4 + j) = d source.1 (source.2 + j))
      ∧ (∀ b o, b ≠ c.block ∨ o < c.offset →
            (lfs_dir_commit_attribute g d c tag buffer source).2.1 b o = d b o) := by
  have hd := lfs_tag_dsize_ge t
  have hlen : (lfs_tobe32 (t ^^^ c.ptag)).length = 4 := rfl
  have hc1o : (lfs_dir_commit_write d c (lfs_tobe32 (t ^^^ c.ptag))).2.2.offset
      = c.offset + 4 := by
    show wrap64 (c.offset + (lfs_tobe32 (t ^^^ c.ptag)).length) = _
    rw [hlen]
    unfold wrap64
    omega
  have hc1b : (lfs_dir_commit_write d c (lfs_tobe32 (t ^^^ c.ptag))).2.2.block = c.block := rfl
  have hd1 : ∀ b o, (lfs_dir_commit_write d c (lfs_tobe32 (t ^^^ c.ptag))).2.1 b o
      = if b = c.block ∧ c.offset ≤ o ∧ o < c.offset + 4
        then (lfs_tobe32 (t ^^^ c.ptag)).getD (o - c.offset) 0 else d b o := fun b o => rfl
  obtain ⟨i1, i2, i3, i4, i5, i6, i7⟩ := commit_from_disk_ok g source.1 source.2 hsb hg
    (lfs_tag_dsize t - 4) 0
    (lfs_dir_commit_write d c (lfs_tobe32 (t ^^^ c.ptag))).2.1
    (lfs_dir_commit_write d c (lfs_tobe32 (t ^^^ c.ptag))).2.2
    (by omega) hne (by rw [hc1o]; omega)
  rw [hc1o] at i2 i6 i7
  rw [hc1b] at i3 i6 i7
  unfold lfs_dir_commit_attribute
  rw [hds, if_neg (by unfold wrap64; omega), if_neg h31, hlow, if_neg (by rw [i1]; decide)]
  refine ⟨rfl, by rw [i2]; omega, rfl, i3, i4, i5, ?_, ?_, ?_⟩
  · intro j hj
    show (commit_from_disk _ _ _ _ _ _ _).2.1 c.block (c.offset + j) = _
    rw [i7 _ _ (Or.inr (by omega)), hd1, if_pos ⟨rfl, by omega, by omega⟩]
    congr 1
    omega
  · intro j hj
    show (commit_from_disk _ _ _ _ _ _ _).2.1 c.block (c.offset + 4 + j) = _
    rw [i6 j hj, hd1, if_neg (fun hx => hne hx.1), Nat.add_zero]
  · intro b o hbo
    show (commit_from_disk _ _ _ _ _ _ _).2.1 b o = _
    rw [i7 b o (by omega), hd1, if_neg]
    intro hx
    omega


theorem filter_step_size (T u t : Nat) (h : filter_step T u = some t) :
    t % 1024 = T % 1024 := by
  rw [filter_step_eq] at h
  split_ifs at h <;> simp only [Option.some.injEq] at h <;> rw [← h]
  all_goals (rw [splice_word_eq]; split_ifs <;> omega)

theorem log_filter_size : ∀ (B : List Nat) (T t : Nat), log_filter B T = some t →
    t % 1024 = T % 1024
  | [], T, t, h => by
    rw [log_filter_nil] at h
    simp only [Option.some.injEq] at h
    rw [h]
  | u :: B, T, t, h => by
    rw [log_filter_cons] at h
    cases hf : filter_step T u with
    | none => rw [hf] at h; exact absurd h (by simp)
    | some t2 =>
      rw [hf] at h
      rw [log_filter_size B t2 t h, filter_step_size T u t2 hf]

theorem hi_land (t : Nat) (ht : t < 2147483648) :
    (t + 2147483648) &&& 0x80000000 ≠ 0 ∧ (t + 2147483648) &&& 0x7fffffff = t := by
  constructor
  · have := land_field 31 1 (t + 2147483648)
    norm_num at this
    rw [this]
    omega
  · rw [land_low31]
    omega

theorem traverse_commit_noop (g : Geometry) (d : Disk) (dir : lfs_metadata_dir_t)
    (begin_ end_ : Nat) (c : lfs_commit_t) (offset : Nat) :
    traverse_commit_tag g d dir begin_ end_ c (LFS_MKTAG LFS_FROM_NOOP 0 0) offset
      = some (0, d, c) := by
  unfold traverse_commit_tag
  by_cases h : ¬ (lfs_tag_id (LFS_MKTAG LFS_FROM_NOOP 0 0) ≥ begin_
      ∧ lfs_tag_id (LFS_MKTAG LFS_FROM_NOOP 0 0) < end_)
  · rw [if_pos h]
  · rw [if_neg h, if_pos (by decide)]

theorem traverse_commit_live (g : Geometry) (d : Disk) (dir : lfs_metadata_dir_t)
    (cnt : Nat) (c : lfs_commit_t) (t offset : Nat) (ht : live_ok cnt t) :
    traverse_commit_tag g d dir 0 cnt c (t + 2147483648) offset
      = some (lfs_dir_commit_attribute g d c (t + 2147483648) [] (dir.pair0, offset)) := by
  obtain ⟨a1, a2, a3, a4, a5, a6⟩ := ht
  obtain ⟨f1, f2, f3, f4, f5, f6, f7⟩ := fields_hi t
  have hz : LFS_MKTAG 0 (ofInt32 (-((0 : Nat) : Int))) 0 = 0 := by decide
  have hw : wrap32 (t + 2147483648 + 0) = t + 2147483648 := by
    unfold wrap32
    omega
  unfold traverse_commit_tag
  rw [lfs_tag_id_eq, lfs_tag_type3_eq, f1, f2, hz, hw]
  unfold LFS_FROM_NOOP LFS_FROM_MOVE LFS_FROM_USERATTRS
  rw [if_neg (by omega), if_neg a4, if_neg a5, if_neg a6]


/-! ### C25: the version check of `lfs_raw_mount` -/

/-- C21 (code): `lfs_dir_rawread` returns `LFS_ERR_OK`, that is 0 and not a
positive value, when it fills the structure with `.`, with `..` or with an
entry, and it returns `LFS_ERR_NOENT`, a negative value and not 0, at the end
of the directory. -/
theorem C21_dir_read_returns_zero_for_entries
    (fetch : lfs_metadata_dir_t → Int × lfs_metadata_dir_t)
    (getinfo : lfs_metadata_dir_t → Nat → lfs_info → Int × lfs_info)
    (fuel : Nat) (dir : lfs_dir_t) (info entry : lfs_info) :
    lfs_dir_rawread fetch getinfo fuel { dir with pos := 0 } info
        = some (0, { dir with pos := 1 }, ⟨LFS_TYPE_DIR, 0, ['.']⟩)
      ∧ lfs_dir_rawread fetch getinfo fuel { dir with pos := 1 } info
        = some (0, { dir with pos := 2 }, ⟨LFS_TYPE_DIR, 0, ['.', '.']⟩)
      ∧ lfs_dir_rawread fetch (fun _ _ _ => (0, entry)) (fuel + 1)
          { dir with pos := 2, id := 0, metadata := { dir.metadata with count := 1 } } info
        = some (0,
            { dir with pos := 3, id := 1, metadata := { dir.metadata with count := 1 } },
            entry)
      ∧ lfs_dir_rawread fetch getinfo (fuel + 1)
          { pos := 2, id := dir.metadata.count,
            metadata := { dir.metadata with split := false } } info
        = some (-2,
            { pos := 2, id := dir.metadata.count,
              metadata := { dir.metadata with split := false } },
            ⟨0, 0, []⟩) := by
  refine ⟨rfl, rfl, ?_, ?_⟩
  · unfold lfs_dir_rawread
    rw [if_neg (show ¬ ((2 : Nat) = 0) by decide), if_neg (show ¬ ((2 : Nat) = 1) by decide)]
    unfold dir_read_loop
    simp only []
    rw [if_neg (by simp), if_neg (by simp)]
    simp [LFS_ERR_NOENT, LFS_ERR_OK, wrap64]
  · unfold lfs_dir_rawread
    rw [if_neg (show ¬ ((2 : Nat) = 0) by decide), if_neg (show ¬ ((2 : Nat) = 1) by decide)]
    unfold dir_read_loop
    simp only []
    rw [if_pos (by simp)]
    rfl

/-! ### C29: the lookahead window and the size of the bitmap -/

set_option maxRecDepth 100000 in
/-- C29 (code): with a lookahead buffer of 8 bytes (64 bits) on a device of
1024 blocks, `lfs_raw_format` seeds a window of 128 positions, and so does
the refill in `lfs_alloc`; when the blocks 0 to 63 are in use, `lfs_alloc`
then reads the bit of position 64, which lies after the buffer, and returns
block 64. -/
theorem C29_lookahead_window_exceeds_buffer :
    (lfs_format_seed 8 1024 0).free.size = 128
      ∧ 8 * (lfs_format_seed 8 1024 0).lookahead_size = 64
      ∧ (alloc_refill (lfs_alloc_drop ⟨1024, 8, ⟨0, 0, 0, 0, 0⟩, ⟨0, [], []⟩⟩)).free.size = 128
      ∧ (lfs_alloc (fun _ => (List.range 64, 0)) none 200
            (lfs_alloc_drop ⟨1024, 8, ⟨0, 0, 0, 0, 0⟩, ⟨0, [], []⟩⟩)).map
          (fun r => (r.1, r.2.1, r.2.2.free.size, r.2.2.free.i,
            r.2.2.trace.examined.getLast?))
        = some (0, 64, 128, 65, some (64, false)) := by
  refine ⟨by decide, by decide, by decide, by rfl⟩


/-! ### C26: a file marked `LFS_F_ERRED` -/

/-- C26 (amended): on a file marked `LFS_F_ERRED`, `lfs_file_rawsync` and the
sync done by `lfs_file_rawclose` change neither the file nor the world and
return `LFS_ERR_OK`, not a saved error code.  `lfs_file_rawwrite` does not
look at the mark: with no read pending, no append and the position inside the
file it performs the write of the buffer, and when that write succeeds it
clears the mark. -/
theorem C26_erred_sync_is_noop_write_is_not {σ : Type} (file_max_size : Nat)
    (flush commit : erred_file σ → Int × erred_file σ)
    (release : erred_file σ → erred_file σ)
    (flushedwrite : erred_file σ → List Nat → Int × erred_file σ)
    (fuel : Nat) (f : erred_file σ) (buffer : List Nat)
    (he : f.flags &&& LFS_F_ERRED ≠ 0) :
    lfs_file_rawsync flush commit f = (LFS_ERR_OK, f)
      ∧ lfs_file_rawclose flush commit release f = (LFS_ERR_OK, release f)
      ∧ (f.flags &&& LFS_F_READING = 0 → f.flags &&& LFS_O_APPEND = 0 →
          f.pos ≤ f.ctz_size → f.pos + buffer.length ≤ file_max_size →
          file_max_size < 18446744073709551616 →
          lfs_file_rawwrite file_max_size flush flushedwrite fuel f buffer
            = some (if (flushedwrite f buffer).1 < 0 then flushedwrite f buffer
                else ((flushedwrite f buffer).1,
                  { (flushedwrite f buffer).2 with
                    flags := (flushedwrite f buffer).2.flags
                      &&& (0xffffffff ^^^ LFS_F_ERRED) }))) := by
  have hs : lfs_file_rawsync flush commit f = (LFS_ERR_OK, f) := by
    unfold lfs_file_rawsync
    rw [if_pos he]
  refine ⟨hs, ?_, ?_⟩
  · unfold lfs_file_rawclose
    rw [hs]
  · intro hr ha hp hm hM
    have hw : wrap64 (f.pos + buffer.length) = f.pos + buffer.length := by
      unfold wrap64
      exact Nat.mod_eq_of_lt (by omega)
    have hap : write_append_pos f = f := by
      unfold write_append_pos
      rw [if_neg]
      intro hc
      exact hc.1 ha
    unfold lfs_file_rawwrite
    rw [if_neg (not_not.mpr hr), hap]
    unfold write_checked
    rw [hw, if_neg (by omega), if_neg (by intro hc; omega)]
    simp only []
    rw [if_neg (by decide)]
    split_ifs <;> rfl

/-- A write of three bytes to an empty file marked `LFS_F_ERRED` is performed
and clears the mark, and a sync of the marked file returns 0. -/
theorem C26_erred_sync_is_noop_write_is_not_witness :
    (0x080002 &&& LFS_F_ERRED ≠ 0)
      ∧ lfs_file_rawsync (fun f => ( LFS_ERR_IO, f)) (fun f => ( LFS_ERR_IO, f))
          (⟨0x080002, 0, 0, false, []⟩ : erred_file (List Nat))
        = (LFS_ERR_OK, ⟨0x080002, 0, 0, false, []⟩)
      ∧ lfs_file_rawwrite 2147483647 (fun f => ( LFS_ERR_IO, f)) example_flushedwrite 4
          (⟨0x080002, 0, 0, false, []⟩ : erred_file (List Nat)) [1, 2, 3]
        = some (3, ⟨0x020002, 3, 3, false, [1, 2, 3]⟩) := by
  have h := C26_erred_sync_is_noop_write_is_not 2147483647 (fun f => ( LFS_ERR_IO, f))
    (fun f => ( LFS_ERR_IO, f)) id example_flushedwrite 4
    (⟨0x080002, 0, 0, false, []⟩ : erred_file (List Nat)) [1, 2, 3] (by decide)
  exact ⟨by decide, h.1,
    (h.2.2 (by decide) (by decide) (by decide) (by decide) (by decide)).trans (by rfl)⟩

/-- C26 (as stated) fails: on a file marked `LFS_F_ERRED` whose flush and
commit would fail with `LFS_ERR_IO`, the sync returns 0 and not an error
code, and a write of three bytes returns 3, moves the position, changes the
world and clears the mark. -/
theorem C26_erred_counterexample :
    (0x080002 &&& LFS_F_ERRED ≠ 0)
      ∧ (lfs_file_rawsync (fun f => ( LFS_ERR_IO, f)) (fun f => ( LFS_ERR_IO, f))
          (⟨0x080002, 0, 0, false, []⟩ : erred_file (List Nat))).1 = 0
      ∧ (lfs_file_rawclose (fun f => ( LFS_ERR_IO, f)) (fun f => ( LFS_ERR_IO, f)) id
          (⟨0x080002, 0, 0, false, []⟩ : erred_file (List Nat))).1 = 0
      ∧ (lfs_file_rawwrite 2147483647 (fun f => ( LFS_ERR_IO, f)) example_flushedwrite 4
          (⟨0x080002, 0, 0, false, []⟩ : erred_file (List Nat)) [1, 2, 3]).map
            (fun r => (r.1, r.2.flags &&& LFS_F_ERRED, r.2.pos, r.2.world))
        = some (3, 0, 3, [1, 2, 3]) := by
  refine ⟨by decide, by rfl, by rfl, by rfl⟩


/-! ### C27: the handles patched after a commit -/

theorem fixmlist_attr_split (e : lfs_metadata_list_t) (tag : Nat) :
    (fixmlist_attr e tag).metadata.split = e.metadata.split := by
  unfold fixmlist_attr
  split_ifs <;> rfl

theorem fixmlist_attrs_split (attrs : List Nat) :
    ∀ e : lfs_metadata_list_t, (fixmlist_attrs e attrs).metadata.split = e.metadata.split := by
  induction attrs with
  | nil => intro e; rfl
  | cons a as ih =>
    intro e
    show (fixmlist_attrs (fixmlist_attr e a) as).metadata.split = e.metadata.split
    rw [ih, fixmlist_attr_split]

theorem fixmlist_split_nosplit (fetch : lfs_metadata_dir_t → Int × lfs_metadata_dir_t)
    (fuel : Nat) (e : lfs_metadata_list_t) (hf : 0 < fuel) (hs : e.metadata.split = false) :
    fixmlist_split fetch fuel e = some (0, e) := by
  obtain ⟨n, rfl⟩ : ∃ n, fuel = n + 1 := ⟨fuel - 1, by omega⟩
  unfold fixmlist_split
  rw [if_neg]
  intro hc
  rw [hs] at hc
  exact absurd hc.2 (by decide)

theorem fixmlist_attr_patch (e : lfs_metadata_list_t) (tag n : Nat)
    (h : handle_in_range (n + 1) e) :
    fixmlist_attr e tag = patch_handle e tag ∧ handle_in_range n (patch_handle e tag) := by
  obtain ⟨e_id, e_type, e_pos, e_md⟩ := e
  unfold handle_in_range at h ⊢
  simp only at h
  obtain ⟨h1, h2⟩ := h
  have hcd : LFS_TYPE_CREATE ≠ LFS_TYPE_DELETE := by decide
  unfold fixmlist_attr patch_handle
  simp only [wrap64]
  by_cases hc : lfs_tag_type3 tag = LFS_TYPE_CREATE
  · simp only [hc, hcd, false_and, if_false, true_and, if_true, ge_iff_le]
    by_cases hk : lfs_tag_id tag ≤ e_id
    · simp only [hk, if_true]
      by_cases ht : e_type = LFS_TYPE_DIR
      · have h3 := h2 ht
        simp only [ht, if_true, true_implies]
        rw [Nat.mod_eq_of_lt (by omega), Nat.mod_eq_of_lt (by omega)]
        exact ⟨rfl, by omega, by omega⟩
      · simp only [ht, if_false, false_implies, and_true]
        rw [Nat.mod_eq_of_lt (by omega)]
        exact ⟨rfl, by omega⟩
    · simp only [hk, if_false, true_and]
      exact ⟨by omega, fun hx => ⟨(h2 hx).1, by have := (h2 hx).2; omega⟩⟩
  · by_cases hd : lfs_tag_type3 tag = LFS_TYPE_DELETE
    · simp only [hd, hcd.symm, true_and, false_and, if_false, if_true, gt_iff_lt]
      by_cases hk : e_id = lfs_tag_id tag
      · subst hk
        simp only [if_true, lt_irrefl, if_false, true_and]
        exact ⟨by omega, fun hx => ⟨(h2 hx).1, by have := (h2 hx).2; omega⟩⟩
      · simp only [hk, if_false]
        by_cases hl : lfs_tag_id tag < e_id
        · have e1 : (e_id + 65535) % 65536 = e_id - 1 := by omega
          simp only [hl, if_true]
          by_cases ht : e_type = LFS_TYPE_DIR
          · have h3 := h2 ht
            have e2 : (e_pos + 18446744073709551615) % 18446744073709551616 = e_pos - 1 := by
              omega
            simp only [ht, if_true, true_implies]
            rw [e1, e2]
            exact ⟨rfl, by omega, by omega⟩
          · simp only [ht, if_false, false_implies, and_true]
            rw [e1]
            exact ⟨rfl, by omega⟩
        · simp only [hl, if_false, true_and]
          exact ⟨by omega, fun hx => ⟨(h2 hx).1, by have := (h2 hx).2; omega⟩⟩
    · simp only [hc, hd, false_and, if_false, true_and]
      exact ⟨by omega, fun hx => ⟨(h2 hx).1, by have := (h2 hx).2; omega⟩⟩

theorem fixmlist_attrs_patch (attrs : List Nat) :
    ∀ e : lfs_metadata_list_t, handle_in_range attrs.length e →
      fixmlist_attrs e attrs = attrs.foldl patch_handle e := by
  induction attrs with
  | nil => intro e _; rfl
  | cons a as ih =>
    intro e h
    have h1 := fixmlist_attr_patch e a as.length h
    show fixmlist_attrs (fixmlist_attr e a) as = as.foldl patch_handle (patch_handle e a)
    rw [h1.1]
    exact ih _ h1.2

theorem fixmlist_nosplit (fetch : lfs_metadata_dir_t → Int × lfs_metadata_dir_t)
    (fuel : Nat) (dir : lfs_metadata_dir_t) (o0 o1 : Nat) (attrs : List Nat)
    (own : Option Nat) (state : Int) (hf : 0 < fuel) (hs : dir.split = false) :
    ∀ (es : List lfs_metadata_list_t) (i : Nat),
      (∀ e ∈ es, handle_in_range attrs.length e) →
      fixmlist fetch fuel dir o0 o1 attrs own state i es
        = some (state, patched_handles dir o0 o1 attrs own i es) := by
  intro es
  induction es with
  | nil => intro i _; rfl
  | cons e es ih =>
    intro i hr
    have he : fixmlist_entry fetch fuel dir o0 o1 attrs (own = some i) e
        = some (0, if lfs_pair_cmp e.metadata.pair0 e.metadata.pair1 o0 o1 = 0 then
            (if own = some i then { e with metadata := dir }
              else attrs.foldl patch_handle { e with metadata := dir })
          else e) := by
      unfold fixmlist_entry
      by_cases hc : lfs_pair_cmp e.metadata.pair0 e.metadata.pair1 o0 o1 = 0
      · rw [if_pos hc, if_pos hc]
        by_cases ho : own = some i
        · simp only [ho, decide_True, if_true]
          exact fixmlist_split_nosplit fetch fuel _ hf hs
        · simp only [ho, decide_False, if_false, Bool.false_eq_true]
          rw [← fixmlist_attrs_patch attrs { e with metadata := dir } (hr e (List.mem_cons_self _ _))]
          refine fixmlist_split_nosplit fetch fuel _ hf ?_
          rw [fixmlist_attrs_split]
          exact hs
      · rw [if_neg hc, if_neg hc]
    unfold fixmlist
    rw [he]
    simp only []
    rw [if_neg (by decide), ih (i + 1) (fun x hx => hr x (List.mem_cons_of_mem _ hx))]
    rfl

/-- C27: the loop over the open handles at the end of
`lfs_dir_relocating_commit` leaves a handle on another pair as it is, gives
the committed directory to the handle whose pair array was given to the
commit, and gives it to every other handle on the pair and patches that
handle attribute by attribute in order as `patch_handle` words it (a CREATE
at id `k` increments ids `>= k`, a DELETE at id `k` decrements ids `> k` and
sets the pair of a handle with id `k` to `(NULL, NULL)`, `pos` of a directory
handle moving with `id`); the patched handle is what then enters the loop
that follows a split, and on a directory that is not split the handles after
the commit are exactly the patched ones. -/
theorem C27_fixmlist_patches_open_handles
    (fetch : lfs_metadata_dir_t → Int × lfs_metadata_dir_t) (fuel : Nat)
    (dir : lfs_metadata_dir_t) (oldpair0 oldpair1 : Nat) (attrs : List Nat)
    (own : Option Nat) (state : Int) (i : Nat) (es : List lfs_metadata_list_t)
    (hr : ∀ e ∈ es, handle_in_range attrs.length e) :
    (∀ e ∈ es, ∀ o : Bool,
        fixmlist_entry fetch fuel dir oldpair0 oldpair1 attrs o e
          = if lfs_pair_cmp e.metadata.pair0 e.metadata.pair1 oldpair0 oldpair1 = 0 then
              fixmlist_split fetch fuel
                (if o then { e with metadata := dir }
                  else attrs.foldl patch_handle { e with metadata := dir })
            else some (0, e))
      ∧ (0 < fuel → dir.split = false →
          fixmlist fetch fuel dir oldpair0 oldpair1 attrs own state i es
            = some (state, patched_handles dir oldpair0 oldpair1 attrs own i es)) := by
  refine ⟨?_, fun hf hs => fixmlist_nosplit fetch fuel dir oldpair0 oldpair1 attrs own state
    hf hs es i hr⟩
  intro e he o
  unfold fixmlist_entry
  rw [fixmlist_attrs_patch attrs { e with metadata := dir } (hr e he)]

set_option maxRecDepth 100000 in
/-- A DELETE of id 1 followed by a CREATE at id 0, committed to the pair
`(10, 11)`: the file handle with id 1 loses its pair and moves to id 2, the
directory handle with id 2 and position 4 goes down and up again, the handle
on the pair `(20, 21)` is untouched, and the handle that owns the pair only
takes the committed directory. -/
theorem C27_fixmlist_patches_open_handles_witness :
    fixmlist (fun m => (0, m)) 1
        ⟨10, 11, 3, 100, 0, 2, true, false, LFS_BLOCK_NULL, LFS_BLOCK_NULL⟩ 10 11
        [LFS_MKTAG LFS_TYPE_DELETE 1 0, LFS_MKTAG LFS_TYPE_CREATE 0 0] (some 3) 0 0
        [⟨1, LFS_TYPE_REG, 0, ⟨10, 11, 2, 60, 0, 2, true, false, LFS_BLOCK_NULL, LFS_BLOCK_NULL⟩⟩,
         ⟨2, LFS_TYPE_DIR, 4, ⟨11, 10, 2, 60, 0, 2, true, false, LFS_BLOCK_NULL, LFS_BLOCK_NULL⟩⟩,
         ⟨0, LFS_TYPE_REG, 0, ⟨20, 21, 7, 40, 0, 1, true, false, LFS_BLOCK_NULL, LFS_BLOCK_NULL⟩⟩,
         ⟨0, LFS_TYPE_REG, 0, ⟨10, 11, 2, 60, 0, 2, true, false, LFS_BLOCK_NULL, LFS_BLOCK_NULL⟩⟩]
      = some (0,
        [⟨2, LFS_TYPE_REG, 0,
            ⟨LFS_BLOCK_NULL, LFS_BLOCK_NULL, 3, 100, 0, 2, true, false,
              LFS_BLOCK_NULL, LFS_BLOCK_NULL⟩⟩,
         ⟨2, LFS_TYPE_DIR, 4, ⟨10, 11, 3, 100, 0, 2, true, false, LFS_BLOCK_NULL, LFS_BLOCK_NULL⟩⟩,
         ⟨0, LFS_TYPE_REG, 0, ⟨20, 21, 7, 40, 0, 1, true, false, LFS_BLOCK_NULL, LFS_BLOCK_NULL⟩⟩,
         ⟨0, LFS_TYPE_REG, 0,
            ⟨10, 11, 3, 100, 0, 2, true, false, LFS_BLOCK_NULL, LFS_BLOCK_NULL⟩⟩]) :=
  ((C27_fixmlist_patches_open_handles (fun m => (0, m)) 1
      ⟨10, 11, 3, 100, 0, 2, true, false, LFS_BLOCK_NULL, LFS_BLOCK_NULL⟩ 10 11
      [LFS_MKTAG LFS_TYPE_DELETE 1 0, LFS_MKTAG LFS_TYPE_CREATE 0 0] (some 3) 0 0
      [⟨1, LFS_TYPE_REG, 0, ⟨10, 11, 2, 60, 0, 2, true, false, LFS_BLOCK_NULL, LFS_BLOCK_NULL⟩⟩,
       ⟨2, LFS_TYPE_DIR, 4, ⟨11, 10, 2, 60, 0, 2, true, false, LFS_BLOCK_NULL, LFS_BLOCK_NULL⟩⟩,
       ⟨0, LFS_TYPE_REG, 0, ⟨20, 21, 7, 40, 0, 1, true, false, LFS_BLOCK_NULL, LFS_BLOCK_NULL⟩⟩,
       ⟨0, LFS_TYPE_REG, 0, ⟨10, 11, 2, 60, 0, 2, true, false, LFS_BLOCK_NULL, LFS_BLOCK_NULL⟩⟩]
      (by decide)).2 (by decide) rfl).trans (by decide)


/-! ### C30: `lfs_fs_demove` -/

theorem prepmove_clears_move {σ : Type} (s : move_state σ) (p0 p1 : Nat) :
    lfs_gstate_hasmove (lfs_fs_prepmove s 0x3ff p0 p1).gstate = false := by
  have h : lfs_tag_type1 (lfs_fs_prepmove s 0x3ff p0 p1).gstate.tag = 0 := by
    show lfs_tag_type1 ((s.gstate.tag &&& (0xffffffff ^^^ LFS_MKTAG LFS_TYPE_MOVESTATE 0x3ff 0))
      ||| (if (0x3ff : Nat) ≠ 0x3ff then LFS_MKTAG LFS_TYPE_DELETE 0x3ff 0 else 0)) = 0
    rw [if_neg (by decide)]
    unfold lfs_tag_type1
    have e : (0xffffffff ^^^ LFS_MKTAG LFS_TYPE_MOVESTATE 0x3ff 0) &&& 0x70000000 = 0 := by
      decide
    rw [Nat.or_zero, Nat.and_assoc, e, Nat.and_zero]
    rfl
  unfold lfs_gstate_hasmove
  rw [h]
  decide

/-- C30 (amended): `lfs_fs_demove` returns `LFS_ERR_OK` and changes nothing
when `gdisk` records no pending move; otherwise it fetches the recorded
pair, clears the move in `gstate` and commits a DELETE of the pending id to
the fetched pair; and when it returns `LFS_ERR_OK` with a commit that is
appended in place or compacted without relocation, then neither `gstate` nor
`gdisk` records a pending move, provided `gdisk` recorded one before or
`gstate` recorded none. -/
theorem C30_demove_clears_pending_move {σ : Type}
    (fetch : σ → Nat → Nat → Int × lfs_metadata_dir_t × σ)
    (commit : move_state σ → lfs_metadata_dir_t → List (Nat × List Nat) → Int × move_state σ)
    (write : move_state σ → lfs_metadata_dir_t → List (Nat × List Nat) → Int × σ)
    (s : move_state σ) :
    (lfs_gstate_hasmove s.gdisk = false → lfs_fs_demove fetch commit s = (LFS_ERR_OK, s))
      ∧ (lfs_gstate_hasmove s.gdisk = true →
          (fetch s.world s.gdisk.pair0 s.gdisk.pair1).1 = 0 →
          (lfs_fs_demove fetch commit s).1
              = (commit
                  (lfs_fs_prepmove
                    { s with world := (fetch s.world s.gdisk.pair0 s.gdisk.pair1).2.2 } 0x3ff 0 0)
                  (fetch s.world s.gdisk.pair0 s.gdisk.pair1).2.1
                  [(LFS_MKTAG LFS_TYPE_DELETE (lfs_tag_id s.gdisk.tag) 0, [])]).1
            ∧ (lfs_fs_demove fetch commit s).2
              = (commit
                  (lfs_fs_prepmove
                    { s with world := (fetch s.world s.gdisk.pair0 s.gdisk.pair1).2.2 } 0x3ff 0 0)
                  (fetch s.world s.gdisk.pair0 s.gdisk.pair1).2.1
                  [(LFS_MKTAG LFS_TYPE_DELETE (lfs_tag_id s.gdisk.tag) 0, [])]).2)
      ∧ ((lfs_gstate_hasmove s.gdisk = true ∨ lfs_gstate_hasmove s.gstate = false) →
          (lfs_fs_demove fetch (lfs_dir_commit_plain write) s).1 = LFS_ERR_OK →
          lfs_gstate_hasmove (lfs_fs_demove fetch (lfs_dir_commit_plain write) s).2.gstate = false
            ∧ lfs_gstate_hasmove (lfs_fs_demove fetch (lfs_dir_commit_plain write) s).2.gdisk
              = false) := by
  refine ⟨?_, ?_, ?_⟩
  · intro h
    unfold lfs_fs_demove
    rw [if_pos (by rw [h]; decide)]
  · intro h hf
    unfold lfs_fs_demove
    rw [if_neg (by rw [h]; decide), if_neg (not_not.mpr hf)]
    split_ifs with hc
    · exact ⟨rfl, rfl⟩
    · exact ⟨(not_not.mp hc).symm, rfl⟩
  · intro h hok
    by_cases hd : lfs_gstate_hasmove s.gdisk = true
    · unfold lfs_fs_demove at hok ⊢
      rw [if_neg (by rw [hd]; decide)] at hok ⊢
      by_cases hf : (fetch s.world s.gdisk.pair0 s.gdisk.pair1).1 = 0
      · rw [if_neg (not_not.mpr hf)] at hok ⊢
        by_cases hw : (write
            (lfs_fs_prepmove
              { s with world := (fetch s.world s.gdisk.pair0 s.gdisk.pair1).2.2 } 0x3ff 0 0)
            (fetch s.world s.gdisk.pair0 s.gdisk.pair1).2.1
            [(LFS_MKTAG LFS_TYPE_DELETE (lfs_tag_id s.gdisk.tag) 0, [])]).1 = 0
        · have hcm : lfs_dir_commit_plain write
              (lfs_fs_prepmove
                { s with world := (fetch s.world s.gdisk.pair0 s.gdisk.pair1).2.2 } 0x3ff 0 0)
              (fetch s.world s.gdisk.pair0 s.gdisk.pair1).2.1
              [(LFS_MKTAG LFS_TYPE_DELETE (lfs_tag_id s.gdisk.tag) 0, [])]
              = (LFS_ERR_OK,
                  { (lfs_fs_prepmove
                      { s with world := (fetch s.world s.gdisk.pair0 s.gdisk.pair1).2.2 }
                      0x3ff 0 0) with
                    gdisk := (lfs_fs_prepmove
                      { s with world := (fetch s.world s.gdisk.pair0 s.gdisk.pair1).2.2 }
                      0x3ff 0 0).gstate,
                    gdelta := ⟨0, 0, 0, 0⟩,
                    world := (write
                      (lfs_fs_prepmove
                        { s with world := (fetch s.world s.gdisk.pair0 s.gdisk.pair1).2.2 }
                        0x3ff 0 0)
                      (fetch s.world s.gdisk.pair0 s.gdisk.pair1).2.1
                      [(LFS_MKTAG LFS_TYPE_DELETE (lfs_tag_id s.gdisk.tag) 0, [])]).2 }) := by
            unfold lfs_dir_commit_plain
            rw [if_neg (not_not.mpr hw)]
          rw [hcm]
          rw [if_neg (fun hx => hx rfl)]
          exact ⟨prepmove_clears_move _ 0 0, prepmove_clears_move _ 0 0⟩
        · exfalso
          have hcm : (lfs_dir_commit_plain write
              (lfs_fs_prepmove
                { s with world := (fetch s.world s.gdisk.pair0 s.gdisk.pair1).2.2 } 0x3ff 0 0)
              (fetch s.world s.gdisk.pair0 s.gdisk.pair1).2.1
              [(LFS_MKTAG LFS_TYPE_DELETE (lfs_tag_id s.gdisk.tag) 0, [])]).1 ≠ 0 := by
            unfold lfs_dir_commit_plain
            rw [if_pos hw]
            exact hw
          rw [if_pos hcm] at hok
          exact hcm hok
      · exfalso
        rw [if_pos hf] at hok
        exact hf hok
    · have hd2 : lfs_gstate_hasmove s.gdisk = false := by
        cases hx : lfs_gstate_hasmove s.gdisk
        · rfl
        · exact absurd hx hd
      have hg : lfs_gstate_hasmove s.gstate = false := by
        rcases h with h | h
        · exact absurd h hd
        · exact h
      unfold lfs_fs_demove
      rw [if_pos (by rw [hd2]; decide)]
      exact ⟨hg, hd2⟩

/-- A move of id 1 out of the pair `(4, 5)` recorded in `gdisk` and in
`gstate`: `lfs_fs_demove` with a commit that succeeds returns 0 and leaves
both without a pending move. -/
theorem C30_demove_clears_pending_move_witness :
    lfs_gstate_hasmove
        (lfs_fs_demove
          (fun (w : List (Nat × Nat × Nat)) p0 p1 =>
            (0, ⟨p0, p1, 1, 40, 0, 2, true, false, LFS_BLOCK_NULL, LFS_BLOCK_NULL⟩, w))
          (lfs_dir_commit_plain
            (fun s dir attrs => (0, s.world ++ attrs.map (fun a => (dir.pair0, dir.pair1, a.1)))))
          ⟨⟨LFS_MKTAG LFS_TYPE_DELETE 1 0, 0, 4, 5⟩, ⟨LFS_MKTAG LFS_TYPE_DELETE 1 0, 0, 4, 5⟩,
            ⟨0, 0, 0, 0⟩, []⟩).2.gstate = false
      ∧ lfs_gstate_hasmove
        (lfs_fs_demove
          (fun (w : List (Nat × Nat × Nat)) p0 p1 =>
            (0, ⟨p0, p1, 1, 40, 0, 2, true, false, LFS_BLOCK_NULL, LFS_BLOCK_NULL⟩, w))
          (lfs_dir_commit_plain
            (fun s dir attrs => (0, s.world ++ attrs.map (fun a => (dir.pair0, dir.pair1, a.1)))))
          ⟨⟨LFS_MKTAG LFS_TYPE_DELETE 1 0, 0, 4, 5⟩, ⟨LFS_MKTAG LFS_TYPE_DELETE 1 0, 0, 4, 5⟩,
            ⟨0, 0, 0, 0⟩, []⟩).2.gdisk = false :=
  (C30_demove_clears_pending_move
    (fun (w : List (Nat × Nat × Nat)) p0 p1 =>
      (0, ⟨p0, p1, 1, 40, 0, 2, true, false, LFS_BLOCK_NULL, LFS_BLOCK_NULL⟩, w))
    (lfs_dir_commit_plain
      (fun s dir attrs => (0, s.world ++ attrs.map (fun a => (dir.pair0, dir.pair1, a.1)))))
    (fun s dir attrs => (0, s.world ++ attrs.map (fun a => (dir.pair0, dir.pair1, a.1))))
    ⟨⟨LFS_MKTAG LFS_TYPE_DELETE 1 0, 0, 4, 5⟩, ⟨LFS_MKTAG LFS_TYPE_DELETE 1 0, 0, 4, 5⟩,
      ⟨0, 0, 0, 0⟩, []⟩).2.2 (Or.inl (by decide)) (by rfl)

/-- C30 (as stated) fails: with a move of id 1 pending in `gstate` and none
recorded in `gdisk`, as after a rename whose commit failed,
`lfs_fs_demove` returns `LFS_ERR_OK`, commits nothing, and `gstate` still
records the pending move. -/
theorem C30_demove_counterexample :
    lfs_gstate_hasmove (⟨0, 0, 0, 0⟩ : lfs_gstate_t) = false
      ∧ (lfs_fs_demove
          (fun (w : List (Nat × Nat × Nat)) p0 p1 =>
            (0, ⟨p0, p1, 1, 40, 0, 2, true, false, LFS_BLOCK_NULL, LFS_BLOCK_NULL⟩, w))
          (lfs_dir_commit_plain
            (fun s dir attrs => (0, s.world ++ attrs.map (fun a => (dir.pair0, dir.pair1, a.1)))))
          ⟨⟨LFS_MKTAG LFS_TYPE_DELETE 1 0, 0, 4, 5⟩, ⟨0, 0, 0, 0⟩, ⟨0, 0, 0, 0⟩, []⟩).1
        = LFS_ERR_OK
      ∧ (lfs_fs_demove
          (fun (w : List (Nat × Nat × Nat)) p0 p1 =>
            (0, ⟨p0, p1, 1, 40, 0, 2, true, false, LFS_BLOCK_NULL, LFS_BLOCK_NULL⟩, w))
          (lfs_dir_commit_plain
            (fun s dir attrs => (0, s.world ++ attrs.map (fun a => (dir.pair0, dir.pair1, a.1)))))
          ⟨⟨LFS_MKTAG LFS_TYPE_DELETE 1 0, 0, 4, 5⟩, ⟨0, 0, 0, 0⟩, ⟨0, 0, 0, 0⟩, []⟩).2.world
        = []
      ∧ lfs_gstate_hasmove
        (lfs_fs_demove
          (fun (w : List (Nat × Nat × Nat)) p0 p1 =>
            (0, ⟨p0, p1, 1, 40, 0, 2, true, false, LFS_BLOCK_NULL, LFS_BLOCK_NULL⟩, w))
          (lfs_dir_commit_plain
            (fun s dir attrs => (0, s.world ++ attrs.map (fun a => (dir.pair0, dir.pair1, a.1)))))
          ⟨⟨LFS_MKTAG LFS_TYPE_DELETE 1 0, 0, 4, 5⟩, ⟨0, 0, 0, 0⟩, ⟨0, 0, 0, 0⟩, []⟩).2.gstate
        = true := by
  refine ⟨by decide, by rfl, by rfl, by rfl⟩


/-! ### C23, C24: the id and the name that `lfs_dir_find` leaves -/

theorem skip_slashes_nil_of_nil : skip_slashes [] = [] := rfl

theorem name_length_noslash (n : List Char) (h : '/' ∉ n) : name_length n = n.length := by
  unfold name_length
  rw [List.takeWhile_eq_self_iff.mpr]
  intro c hc
  simp only [ne_eq, decide_not, Bool.not_eq_eq_eq_not, Bool.not_true, decide_eq_false_iff_not]
  intro hx
  exact h (hx ▸ hc)

theorem find_id_loop_slash {σ : Type} (lookup : σ → Int → List Char → Int × Option Nat × σ) :
    ∀ (fuel : Nat) (s : σ) (name : List Char) (tag : Int) (path : List Char) (id : Nat)
      (r : Int × List Char × Nat × σ),
      lfs_dir_find_id_loop lookup fuel s name tag path id = some r →
      (id ≠ 0x3ff → name = []) → 0 ≤ tag → r.1 < 0 → '/' ∈ r.2.1 → r.2.2.1 = 0x3ff := by
  intro fuel
  induction fuel with
  | zero =>
    intro s name tag path id r h
    exact absurd h (by simp [lfs_dir_find_id_loop])
  | succ n ih =>
    intro s name tag path id r h hinv htag hneg hsl
    have hid : skip_slashes name ≠ [] → id = 0x3ff := by
      intro hne
      by_contra hc
      rw [hinv hc] at hne
      exact hne rfl
    unfold lfs_dir_find_id_loop at h
    by_cases hdot : (name_length (skip_slashes name) = 1 ∧ (skip_slashes name).take 1 = ['.'])
        ∨ (name_length (skip_slashes name) = 2 ∧ (skip_slashes name).take 2 = ['.', '.'])
    · rw [if_pos hdot] at h
      refine ih _ _ _ _ _ r h ?_ htag hneg hsl
      intro hx
      rw [hinv hx]
      rfl
    · rw [if_neg hdot] at h
      cases hfs : find_suffix ((skip_slashes name).length + 1)
          ((skip_slashes name).drop (name_length (skip_slashes name))) 1 with
      | none => rw [hfs] at h; exact absurd h (by simp)
      | some o =>
        rw [hfs] at h
        cases o with
        | some rest =>
          simp only at h
          refine ih _ _ _ _ _ r h ?_ htag hneg hsl
          intro hx
          exfalso
          have e : find_suffix ((skip_slashes ([] : List Char)).length + 1)
              ((skip_slashes ([] : List Char)).drop (name_length (skip_slashes []))) 1
              = some none := by decide
          rw [hinv hx, e] at hfs
          exact absurd hfs (by simp)
        | none =>
          simp only at h
          by_cases h1 : skip_slashes name = []
          · rw [if_pos h1] at h
            rw [← Option.some.inj h] at hneg
            exact absurd hneg (by simp only []; omega)
          · rw [if_neg h1] at h
            by_cases h2 : lfs_tag_type3 tag.toNat ≠ LFS_TYPE_DIR
            · rw [if_pos h2] at h
              rw [← Option.some.inj h]
              exact hid h1
            · rw [if_neg h2] at h
              by_cases h3 : (lookup s tag
                  ((skip_slashes name).take (name_length (skip_slashes name)))).1 < 0
              · rw [if_pos h3] at h
                rw [← Option.some.inj h] at hsl ⊢
                simp only at hsl ⊢
                rw [if_pos hsl]
                exact hid h1
              · rw [if_neg h3] at h
                refine ih _ _ _ _ _ r h ?_ (by omega) hneg hsl
                intro hx
                by_cases hs : '/' ∈ skip_slashes name
                · rw [if_pos hs] at hx
                  exact absurd (hid h1) hx
                · rw [name_length_noslash _ hs]
                  exact List.drop_length _

theorem find_id_loop_keeps {σ γ : Type} (lookup : σ → Int → List Char → Int × Option Nat × σ)
    (g : σ → γ) (hg : ∀ s t n, g (lookup s t n).2.2 = g s) :
    ∀ (fuel : Nat) (s : σ) (name : List Char) (tag : Int) (path : List Char) (id : Nat)
      (r : Int × List Char × Nat × σ),
      lfs_dir_find_id_loop lookup fuel s name tag path id = some r → g r.2.2.2 = g s := by
  intro fuel
  induction fuel with
  | zero =>
    intro s name tag path id r h
    exact absurd h (by simp [lfs_dir_find_id_loop])
  | succ n ih =>
    intro s name tag path id r h
    unfold lfs_dir_find_id_loop at h
    by_cases hdot : (name_length (skip_slashes name) = 1 ∧ (skip_slashes name).take 1 = ['.'])
        ∨ (name_length (skip_slashes name) = 2 ∧ (skip_slashes name).take 2 = ['.', '.'])
    · rw [if_pos hdot] at h
      exact ih _ _ _ _ _ r h
    · rw [if_neg hdot] at h
      cases hfs : find_suffix ((skip_slashes name).length + 1)
          ((skip_slashes name).drop (name_length (skip_slashes name))) 1 with
      | none => rw [hfs] at h; exact absurd h (by simp)
      | some o =>
        rw [hfs] at h
        cases o with
        | some rest =>
          simp only at h
          exact ih _ _ _ _ _ r h
        | none =>
          simp only at h
          by_cases h1 : skip_slashes name = []
          · rw [if_pos h1] at h
            rw [← Option.some.inj h]
          · rw [if_neg h1] at h
            by_cases h2 : lfs_tag_type3 tag.toNat ≠ LFS_TYPE_DIR
            · rw [if_pos h2] at h
              rw [← Option.some.inj h]
            · rw [if_neg h2] at h
              by_cases h3 : (lookup s tag
                  ((skip_slashes name).take (name_length (skip_slashes name)))).1 < 0
              · rw [if_pos h3] at h
                rw [← Option.some.inj h]
                exact hg _ _ _
              · rw [if_neg h3] at h
                rw [ih _ _ _ _ _ r h]
                exact hg _ _ _

theorem find_id_noent_slash {σ : Type} (enter : σ → σ)
    (lookup : σ → Int → List Char → Int × Option Nat × σ) (s : σ) (path name : List Char)
    (id : Nat) (s1 : σ)
    (h : lfs_dir_find_id enter lookup s path = some (LFS_ERR_NOENT, name, id, s1)) :
    '/' ∈ name → id = 0x3ff :=
  find_id_loop_slash lookup _ _ _ _ _ _ _ h (fun hx => absurd rfl hx) (by decide)
    (show LFS_ERR_NOENT < 0 by decide)

/-- C23: when the entry does not exist and its directory does (the search
ends with `LFS_ERR_NOENT` and an id other than `0x3ff`), the name left is the
final component, without a slash, and `lfs_dir_rawcreate`,
`lfs_file_rawopencfg` with `LFS_O_CREAT` and `lfs_raw_rename` each return
`LFS_ERR_NAMETOOLONG` without reaching their commit when that name is longer
than `name_max_length`; when it is not longer (as with exactly
`name_max_length` characters) they go on to create the entry: the directory
is built, the file's entry is committed and, when that commit succeeds, the
open goes on, and the move is made. -/
theorem C23_name_length_boundary {σ : Type} (force : σ → Int × σ) (setup : σ → Nat → σ)
    (enter : σ → σ) (lookup : σ → Int → List Char → Int × Option Nat × σ)
    (enter_old : σ → σ) (lookup_old : σ → Int → List Char → Int × Option Nat × σ)
    (name_max_length : σ → Nat) (append : σ → Nat → σ)
    (commit : σ → List (Nat × List Nat) → Int × σ) (created : σ → Int × σ)
    (existing : σ → Int → Nat → Int × σ) (cleanup : σ → σ)
    (build : σ → List Char → Nat → Int × σ) (samepair : σ → Bool)
    (move : σ → Int → Int → Nat → Nat → List Char → Int × σ)
    (s : σ) (path oldpath name oldname : List Char) (flags id oldid : Nat) (oldtag : Int)
    (s0 s1 : σ) (hid : id ≠ 0x3ff) :
    (lfs_dir_find_id enter lookup s0 path = some (LFS_ERR_NOENT, name, id, s1) → '/' ∉ name)
      ∧ ((force s).1 = 0 →
          lfs_dir_find_id enter lookup (force s).2 path = some (LFS_ERR_NOENT, name, id, s1) →
          (name_max_length s1 < name.length →
              lfs_dir_rawcreate force enter lookup name_max_length build s path
                = some (LFS_ERR_NAMETOOLONG, s1))
            ∧ (name.length ≤ name_max_length s1 →
              lfs_dir_rawcreate force enter lookup name_max_length build s path
                = some (build s1 name id)))
      ∧ (flags &&& LFS_O_CREAT ≠ 0 →
          (flags &&& LFS_O_WRONLY = LFS_O_WRONLY → (force s).1 = 0) →
          lfs_dir_find_id enter lookup
              (setup (if flags &&& LFS_O_WRONLY = LFS_O_WRONLY then (force s).2 else s) flags)
              path = some (LFS_ERR_NOENT, name, id, s1) →
          (name_max_length (append s1 id) < name.length →
              lfs_file_rawopencfg force setup enter lookup name_max_length append commit
                  created existing cleanup s path flags
                = some (LFS_ERR_NAMETOOLONG, cleanup (append s1 id)))
            ∧ (name.length ≤ name_max_length (append s1 id) →
              (commit (append s1 id)
                [(LFS_MKTAG LFS_TYPE_CREATE id 0, []),
                 (LFS_MKTAG LFS_TYPE_REG id name.length, name.map Char.toNat),
                 (LFS_MKTAG LFS_TYPE_INLINESTRUCT id 0, [])]).1 = 0 →
              lfs_file_rawopencfg force setup enter lookup name_max_length append commit
                  created existing cleanup s path flags
                = some (created (commit (append s1 id)
                    [(LFS_MKTAG LFS_TYPE_CREATE id 0, []),
                     (LFS_MKTAG LFS_TYPE_REG id name.length, name.map Char.toNat),
                     (LFS_MKTAG LFS_TYPE_INLINESTRUCT id 0, [])]).2)))
      ∧ ((force s).1 = 0 →
          lfs_dir_find_id enter_old lookup_old (force s).2 oldpath
            = some (oldtag, oldname, oldid, s0) →
          0 ≤ oldtag → lfs_tag_id oldtag.toNat ≠ 0x3ff →
          lfs_dir_find_id enter lookup s0 path = some (LFS_ERR_NOENT, name, id, s1) →
          (name_max_length s1 < name.length →
              lfs_raw_rename force enter_old lookup_old enter lookup name_max_length samepair
                  move s oldpath path
                = some (LFS_ERR_NAMETOOLONG, s1))
            ∧ (name.length ≤ name_max_length s1 →
              lfs_raw_rename force enter_old lookup_old enter lookup name_max_length samepair
                  move s oldpath path
                = some (move s1 oldtag LFS_ERR_NOENT id
                    (if samepair s1 ∧ id ≤ lfs_tag_id oldtag.toNat then
                      (lfs_tag_id oldtag.toNat + 1) % 65536
                    else lfs_tag_id oldtag.toNat) name))) := by
  have hne : ¬ (LFS_ERR_NOENT = LFS_ERR_NOENT ∧ id ≠ 0x3ff) → False := fun h => h ⟨rfl, hid⟩
  refine ⟨?_, ?_, ?_, ?_⟩
  · intro h hs
    exact hid (find_id_noent_slash enter lookup s0 path name id s1 h hs)
  · intro hf h
    refine ⟨fun hl => ?_, fun hl => ?_⟩
    · unfold lfs_dir_rawcreate
      rw [if_neg (not_not.mpr hf), h]
      simp only [hid, ne_eq, not_false_eq_true, and_self, not_true_eq_false, if_false,
        gt_iff_lt, hl, if_true]
    · unfold lfs_dir_rawcreate
      rw [if_neg (not_not.mpr hf), h]
      simp only [hid, ne_eq, not_false_eq_true, and_self, not_true_eq_false, if_false,
        gt_iff_lt, Nat.not_lt.mpr hl]
  · intro hc hf h
    have h0 : ¬ (flags &&& LFS_O_WRONLY = LFS_O_WRONLY ∧ (force s).1 ≠ 0) :=
      fun hx => hx.2 (hf hx.1)
    refine ⟨fun hl => ?_, fun hl hok => ?_⟩
    · unfold lfs_file_rawopencfg
      rw [if_neg h0, h]
      simp only [hid, ne_eq, not_false_eq_true, and_self, not_true_eq_false, and_false,
        if_false, gt_iff_lt, hl, if_true, hc]
    · have hok2 : ¬ ((0 : Int) = LFS_ERR_NOSPC) := by decide
      unfold lfs_file_rawopencfg
      rw [if_neg h0, h]
      simp only [hid, ne_eq, not_false_eq_true, and_self, not_true_eq_false, and_false,
        if_false, gt_iff_lt, Nat.not_lt.mpr hl, if_true, hc, hok, hok2]
  · intro hf hold h1 h2 h
    have h3 : ¬ (oldtag < 0 ∨ lfs_tag_id oldtag.toNat = 0x3ff) := by
      intro hx
      rcases hx with hx | hx
      · omega
      · exact h2 hx
    refine ⟨fun hl => ?_, fun hl => ?_⟩
    · unfold lfs_raw_rename
      rw [if_neg (not_not.mpr hf), hold]
      simp only []
      rw [if_neg h3, h]
      simp only [hid, ne_eq, not_false_eq_true, and_self, not_true_eq_false, and_false,
        if_false, gt_iff_lt, hl, if_true]
    · unfold lfs_raw_rename
      rw [if_neg (not_not.mpr hf), hold]
      simp only []
      rw [if_neg h3, h]
      simp only [hid, ne_eq, not_false_eq_true, and_self, not_true_eq_false, and_false,
        if_false, gt_iff_lt, Nat.not_lt.mpr hl, if_true]

set_option maxRecDepth 100000 in
/-- With names of at most 3 characters: creating the directory `a/abcd` ends
with `LFS_ERR_NAMETOOLONG` after the two lookups and no commit, creating
`a/abc` builds the directory, and renaming `a/f0` to `a/abcd` ends with
`LFS_ERR_NAMETOOLONG` after four lookups and no commit. -/
theorem C23_name_length_boundary_witness :
    lfs_dir_rawcreate (fun s => (0, s)) id example_lookup (fun _ => 3)
        (fun s _ _ => (0, (s.1, s.2 + 1))) (0, 0) ['a', '/', 'a', 'b', 'c', 'd']
      = some (LFS_ERR_NAMETOOLONG, (2, 0))
    ∧ lfs_dir_rawcreate (fun s => (0, s)) id example_lookup (fun _ => 3)
        (fun s _ _ => (0, (s.1, s.2 + 1))) (0, 0) ['a', '/', 'a', 'b', 'c']
      = some (0, (2, 1))
    ∧ lfs_raw_rename (fun s => (0, s)) id example_lookup id example_lookup (fun _ => 3)
        (fun _ => true) (fun s _ _ _ _ _ => (0, (s.1, s.2 + 1))) (0, 0)
        ['a', '/', 'f', '0'] ['a', '/', 'a', 'b', 'c', 'd']
      = some (LFS_ERR_NAMETOOLONG, (4, 0)) :=
  ⟨((C23_name_length_boundary (fun s => (0, s)) (fun s _ => s) id example_lookup id
        example_lookup (fun _ => 3) (fun s _ => s) (fun s a => (0, (s.1, s.2 + a.length)))
        (fun s => (0, s)) (fun s _ _ => (0, s)) id (fun s _ _ => (0, (s.1, s.2 + 1)))
        (fun _ => true) (fun s _ _ _ _ _ => (0, (s.1, s.2 + 1))) (0, 0)
        ['a', '/', 'a', 'b', 'c', 'd'] ['a', '/', 'f', '0'] ['a', 'b', 'c', 'd'] ['f', '0']
        0x102 1 0 (LFS_MKTAG LFS_TYPE_REG 0 2) (2, 0) (2, 0) (by decide)).2.1 rfl
          (by decide)).1 (by decide),
    ((C23_name_length_boundary (fun s => (0, s)) (fun s _ => s) id example_lookup id
        example_lookup (fun _ => 3) (fun s _ => s) (fun s a => (0, (s.1, s.2 + a.length)))
        (fun s => (0, s)) (fun s _ _ => (0, s)) id (fun s _ _ => (0, (s.1, s.2 + 1)))
        (fun _ => true) (fun s _ _ _ _ _ => (0, (s.1, s.2 + 1))) (0, 0)
        ['a', '/', 'a', 'b', 'c'] ['a', '/', 'f', '0'] ['a', 'b', 'c'] ['f', '0']
        0x102 1 0 (LFS_MKTAG LFS_TYPE_REG 0 2) (2, 0) (2, 0) (by decide)).2.1 rfl
          (by decide)).2 (by decide),
    ((C23_name_length_boundary (fun s => (0, s)) (fun s _ => s) id example_lookup id
        example_lookup (fun _ => 3) (fun s _ => s) (fun s a => (0, (s.1, s.2 + a.length)))
        (fun s => (0, s)) (fun s _ _ => (0, s)) id (fun s _ _ => (0, (s.1, s.2 + 1)))
        (fun _ => true) (fun s _ _ _ _ _ => (0, (s.1, s.2 + 1))) (0, 0)
        ['a', '/', 'a', 'b', 'c', 'd'] ['a', '/', 'f', '0'] ['a', 'b', 'c', 'd'] ['f', '0']
        0x102 1 0 (LFS_MKTAG LFS_TYPE_REG 0 2) (2, 0) (4, 0) (by decide)).2.2.2 rfl
          (by decide) (by decide) (by decide) (by decide)).1 (by decide)⟩

/-- C24: `lfs_raw_rename(old, new)`, where the forced-consistency pass
succeeds, `old` is found, and the search for `new` ends with
`LFS_ERR_NOENT` at a component that is not the last one (the name left
still holds a slash: the directory that should hold the final component
does not exist), returns `LFS_ERR_NOENT` with the state that the two
searches leave, without reaching the rest of the function; and every part
`g` of the state that the lookups do not write, such as `gstate` and the
contents of the device, is as the forced-consistency pass left it. -/
theorem C24_rename_into_missing_directory {σ γ : Type} (force : σ → Int × σ)
    (enter_old : σ → σ) (lookup_old : σ → Int → List Char → Int × Option Nat × σ)
    (enter_new : σ → σ) (lookup_new : σ → Int → List Char → Int × Option Nat × σ)
    (name_max_length : σ → Nat) (samepair : σ → Bool)
    (move : σ → Int → Int → Nat → Nat → List Char → Int × σ) (g : σ → γ)
    (s : σ) (oldpath newpath oldname name : List Char) (oldid id : Nat) (oldtag : Int)
    (s1 s2 : σ)
    (hforce : (force s).1 = 0)
    (hold : lfs_dir_find_id enter_old lookup_old (force s).2 oldpath
      = some (oldtag, oldname, oldid, s1))
    (hfound : 0 ≤ oldtag) (hnotroot : lfs_tag_id oldtag.toNat ≠ 0x3ff)
    (hnew : lfs_dir_find_id enter_new lookup_new s1 newpath
      = some (LFS_ERR_NOENT, name, id, s2))
    (hmissing : '/' ∈ name)
    (hread : ∀ s t n, g (lookup_old s t n).2.2 = g s ∧ g (lookup_new s t n).2.2 = g s
      ∧ g (enter_old s) = g s ∧ g (enter_new s) = g s) :
    lfs_raw_rename force enter_old lookup_old enter_new lookup_new name_max_length samepair
        move s oldpath newpath = some (LFS_ERR_NOENT, s2)
      ∧ g s2 = g (force s).2 := by
  have hid : id = 0x3ff := find_id_noent_slash enter_new lookup_new s1 newpath name id s2
    hnew hmissing
  have h3 : ¬ (oldtag < 0 ∨ lfs_tag_id oldtag.toNat = 0x3ff) := by
    intro hx
    rcases hx with hx | hx
    · omega
    · exact hnotroot hx
  refine ⟨?_, ?_⟩
  · unfold lfs_raw_rename
    rw [if_neg (not_not.mpr hforce), hold]
    simp only []
    rw [if_neg h3, hnew]
    simp only []
    rw [if_pos ⟨Or.inl (by decide), fun hx => hx.2 hid⟩, if_pos (by decide)]
  · have e1 := find_id_loop_keeps lookup_old g (fun s t n => (hread s t n).1) _ _ _ _ _ _ _ hold
    have e2 := find_id_loop_keeps lookup_new g (fun s t n => (hread s t n).2.1) _ _ _ _ _ _ _
      hnew
    simp only at e1 e2
    rw [e2, (hread s1 0 []).2.2.2, e1, (hread (force s).2 0 []).2.2.1]

set_option maxRecDepth 100000 in
/-- Renaming `/a/f0` to `/b/g0`, where the root holds only `a`: the result
is `LFS_ERR_NOENT` after three lookups and no commit. -/
theorem C24_rename_into_missing_directory_witness :
    lfs_raw_rename (fun s => (0, s)) id example_lookup id example_lookup (fun _ => 255)
        (fun _ => true) (fun s _ _ _ _ _ => (0, (s.1, s.2 + 1))) (0, 0)
        ['/', 'a', '/', 'f', '0'] ['/', 'b', '/', 'g', '0']
      = some (LFS_ERR_NOENT, (3, 0)) :=
  (C24_rename_into_missing_directory (fun s => (0, s)) id example_lookup id example_lookup
    (fun _ => 255) (fun _ => true) (fun s _ _ _ _ _ => (0, (s.1, s.2 + 1)))
    (fun s => s.2) (0, 0)
    ['/', 'a', '/', 'f', '0'] ['/', 'b', '/', 'g', '0'] ['f', '0'] ['b', '/', 'g', '0'] 0 0x3ff
    (LFS_MKTAG LFS_TYPE_REG 0 2) (2, 0) (3, 0) rfl (by decide) (by decide) (by decide)
    (by decide) (by decide)
    (fun s t n => ⟨by unfold example_lookup; split_ifs <;> rfl,
      by unfold example_lookup; split_ifs <;> rfl, rfl, rfl⟩)).1


/-! ### C22: the buffer of `lfs_raw_get_attribute` when there is no attribute -/

set_option maxRecDepth 100000 in
/-- C22 (code): the file `b` has an attribute of type 5 and none of type 6.
Asked for type 6 with the buffer 1, 2, 3, 4, `lfs_raw_get_attribute` returns
`LFS_ERR_NOATTR` and leaves the buffer as it was, not filled with zeros; asked
for type 5 it returns the size 2 and the buffer holds 7, 7 padded with
zeros. -/
theorem C22_get_attribute_leaves_buffer :
    lfs_raw_get_attribute ⟨256, 4⟩ (disk_of_blocks [example_attr_block]) ⟨0, 0, 0, 0⟩
        (fun _ => (LFS_MKTAG LFS_TYPE_REG 0 1, example_attr_dir)) (0, example_attr_dir)
        1022 ['b'] 6 [1, 2, 3, 4] 100
      = some (LFS_ERR_NOATTR, [1, 2, 3, 4])
    ∧ lfs_raw_get_attribute ⟨256, 4⟩ (disk_of_blocks [example_attr_block]) ⟨0, 0, 0, 0⟩
        (fun _ => (LFS_MKTAG LFS_TYPE_REG 0 1, example_attr_dir)) (0, example_attr_dir)
        1022 ['b'] 5 [1, 2, 3, 4] 100
      = some (2, [7, 7, 0, 0]) := by
  refine ⟨by decide, by decide⟩


/-! ### C28: `lfs_fs_rawsize` counts what the traversal reports -/

theorem res_rel_some {α β : Type} (R : α → β → Prop) (a : Int × α) (b : Int × β)
    (h1 : a.1 = b.1) (h2 : R a.2 b.2) : res_rel R (some a) (some b) := ⟨h1, h2⟩

set_option maxRecDepth 1000000 in
/-- The directories that `example_tree_fetch` gives are those that
`lfs_dir_fetchmatch` finds on `example_tree_disk`. -/
theorem example_tree_fetch_is_fetched :
    ∀ p, p ∈ [(0, 1), (2, 3), (4, 5)] →
      (lfs_dir_fetchmatch ⟨256, 8⟩ example_tree_disk 8 0 ⟨0, 0, 0, 0⟩ p.1 p.2 0xffffffff
          0xffffffff (fun _ _ => 0) 300).map
        (fun r => (r.1, r.2.2.map (fun x =>
          (⟨x.pair0, x.pair1, x.revision_count, x.scan.dir.offset, x.scan.dir.etag,
            x.scan.dir.count, x.scan.erased, x.scan.dir.split, x.scan.dir.tail0,
            x.scan.dir.tail1⟩ : lfs_metadata_dir_t))))
        = some ((example_tree_fetch p.1 p.2).1, some (example_tree_fetch p.1 p.2).2) := by
  decide


/-- The traversal of `lfs_dir_compact` over the entries of the old block
appends the filtered log to the log of the new block. -/
theorem compact_traverse_log (g : Geometry) (dir : lfs_metadata_dir_t) (cnt : Nat)
    (hb : dir.pair0 < g.block_count) (ho : dir.offset ≤ g.block_size)
    (hg : g.block_size < 9223372036854775808) (hne : dir.pair0 ≠ dir.pair1) :
    ∀ (A : List (Nat × List Nat)) (fuel offset ptag : Nat) (d : Disk) (c : lfs_commit_t)
      (Lc : List (Nat × List Nat)) (r : Int × Disk × lfs_commit_t),
      fwd_log d dir.pair0 dir.offset A (offset + lfs_tag_dsize ptag) ptag →
      ptag < 4294967296 →
      (∀ u ∈ A, u.1 / 1048576 % 2048 ≠ 0 ∧ u.1 / 1048576 % 2048 ≠ 257
        ∧ u.1 / 1048576 % 2048 ≠ 258) →
      (∀ A1 a B, A = A1 ++ a :: B → a.1 / 1073741824 % 2 = 0 →
        log_filter (B.map (fun u => u.1 + 2147483648)) (a.1 + 2147483648)
            = (log_filter (B.map (fun u => u.1)) a.1).map (fun t => t + 2147483648)
          ∧ ∀ t, log_filter (B.map (fun u => u.1)) a.1 = some t → live_ok cnt t) →
      A.length < fuel →
      c.block = dir.pair1 → c.end_ < 9223372036854775808 → c.ptag < 4294967296 →
      c.offset ≤ c.end_ →
      block_log d dir.pair1 Lc c.offset c.ptag →
      compact_traverse g dir 0 cnt fuel offset ptag d c = some r → r.1 = 0 →
      block_log r.2.1 dir.pair1 ((live_fwd A).reverse ++ Lc) r.2.2.offset r.2.2.ptag
        ∧ r.2.2.block = dir.pair1 ∧ r.2.2.end_ = c.end_ ∧ r.2.2.begin_ = c.begin_
        ∧ r.2.2.ptag < 4294967296 ∧ r.2.2.offset ≤ c.end_
        ∧ (∀ b o, b ≠ dir.pair1 → r.2.1 b o = d b o) := by
  intro A
  induction A with
  | nil =>
    intro fuel offset ptag d c Lc r h hp hT hA hf hcb he hcp hco hL hr hr0
    cases fuel with
    | zero => exact absurd hf (by simp)
    | succ fuel =>
      have h1 : offset + lfs_tag_dsize ptag = dir.offset := h
      rw [compact_traverse, if_neg (by unfold wrap64; omega)] at hr
      simp only [Option.some.injEq] at hr
      subst hr
      exact ⟨hL, hcb, rfl, rfl, hcp, hco, fun _ _ _ => rfl⟩
  | cons a B ih =>
    intro fuel offset ptag d c Lc r h hp hT hA hf hcb he hcp hco hL hr hr0
    cases fuel with
    | zero => exact absurd hf (by simp)
    | succ fuel =>
      obtain ⟨h1, h2, h3, h4⟩ := h
      have hd := lfs_tag_dsize_ge a.1
      have hw : wrap64 (offset + lfs_tag_dsize ptag) = offset + lfs_tag_dsize ptag := by
        unfold wrap64
        omega
      have hw4 : wrap64 (offset + lfs_tag_dsize ptag + 4)
          = offset + lfs_tag_dsize ptag + 4 := by
        unfold wrap64
        omega
      have hread := lfs_bd_read_ok g d dir.pair0 (offset + lfs_tag_dsize ptag) 4 hb
        (by omega) hg
      have hhi := tag_hi _ ptag a.1 (lfs_frombe32_lt _) hp h1
      obtain ⟨f1, f2, f3, f4, f5, f6, f7⟩ := fields_hi a.1
      have hmask : LFS_MKTAG LFS_TYPE_MOVESTATE 0 0 &&& LFS_MKTAG LFS_TYPE_SPLICE 0x3ff 0
          = 0x40000000 := by decide
      have hname : (0x40000000 : Nat) &&& LFS_MKTAG LFS_TYPE_NAME 0 0 = 0 := by decide
      have hB2 : fwd_log d dir.pair0 dir.offset B
          (offset + lfs_tag_dsize ptag + lfs_tag_dsize (a.1 + 2147483648))
          (a.1 + 2147483648) := by
        rw [lfs_tag_dsize_congr (a.1 + 2147483648) a.1 f5]
        exact (fwd_log_congr d dir.pair0 dir.offset B _ _ _ (by omega)).mp h4
      have hTB : ∀ u ∈ B, u.1 / 1048576 % 2048 ≠ 0 ∧ u.1 / 1048576 % 2048 ≠ 257
          ∧ u.1 / 1048576 % 2048 ≠ 258 := fun u hu => hT u (List.mem_cons_of_mem _ hu)
      have hAB : ∀ A1 a2 B2, B = A1 ++ a2 :: B2 → a2.1 / 1073741824 % 2 = 0 →
          log_filter (B2.map (fun u => u.1 + 2147483648)) (a2.1 + 2147483648)
              = (log_filter (B2.map (fun u => u.1)) a2.1).map (fun t => t + 2147483648)
            ∧ ∀ t, log_filter (B2.map (fun u => u.1)) a2.1 = some t → live_ok cnt t :=
        fun A1 a2 B2 hs => hA (a :: A1) a2 B2 (by rw [hs]; rfl)
      have hlen : B.length < fuel := by
        simp only [List.length_cons] at hf
        omega
      rw [compact_traverse, hw, if_pos (by omega), hread] at hr
      simp only [] at hr
      rw [hhi, hmask, hname, Nat.and_comm 0x40000000 (a.1 + 2147483648), land_bit30, f7,
        hw4] at hr
      by_cases hb30 : a.1 / 1073741824 % 2 = 0
      · rw [if_neg (by omega), traverse_filter_pass_log g d dir hb ho hg B fuel _ _ _ hB2
          (by omega) hTB hlen] at hr
        simp only [] at hr
        obtain ⟨hchain, hlive⟩ := hA [] a B rfl hb30
        rw [hchain] at hr
        have hlf : live_fwd (a :: B)
            = (match log_filter (B.map (fun u => u.1)) a.1 with
                | some t => [(t, a.2)]
                | none => []) ++ live_fwd B := by
          rw [live_fwd_cons, if_pos hb30]
        cases hfl : log_filter (B.map (fun u => u.1)) a.1 with
        | none =>
          rw [hfl] at hr hlf
          simp only [Option.map_none', Option.getD_none] at hr
          rw [traverse_commit_noop] at hr
          simp only [] at hr
          rw [if_neg (by decide)] at hr
          rw [hlf]
          exact ih fuel _ _ d c Lc r hB2 (by omega) hTB hAB hlen hcb he hcp hco hL hr hr0
        | some t =>
          rw [hfl] at hr hlf
          rw [Option.map_some', Option.getD_some] at hr
          have hlt := hlive t hfl
          rw [traverse_commit_live g d dir cnt c t _ hlt] at hr
          simp only [] at hr
          have hsz : lfs_tag_dsize t = lfs_tag_dsize a.1 :=
            lfs_tag_dsize_congr _ _ (log_filter_size _ _ _ hfl)
          have ht31 : t < 2147483648 := hlt.1
          by_cases hfit : c.offset + lfs_tag_dsize t ≤ c.end_
          · obtain ⟨q1, q2, q3, q4, q5, q6, q7, q8, q9⟩ :=
              lfs_dir_commit_attribute_disk g d c (t + 2147483648) t []
                (dir.pair0, offset + lfs_tag_dsize ptag + 4)
                (hi_land t ht31).1 (hi_land t ht31).2
                (lfs_tag_dsize_congr _ _ (fields_hi t).2.2.2.2.1) hfit he hb
                (by show offset + lfs_tag_dsize ptag + 4 + (lfs_tag_dsize t - 4) ≤ _; omega)
                hg (by rw [hcb]; exact hne)
            rw [if_neg (by rw [q1]; decide)] at hr
            rw [hcb] at q7 q8 q9
            have hL1 : block_log
                (lfs_dir_commit_attribute g d c (t + 2147483648) []
                  (dir.pair0, offset + lfs_tag_dsize ptag + 4)).2.1 dir.pair1
                ((t, a.2) :: Lc)
                (lfs_dir_commit_attribute g d c (t + 2147483648) []
                  (dir.pair0, offset + lfs_tag_dsize ptag + 4)).2.2.offset
                (lfs_dir_commit_attribute g d c (t + 2147483648) []
                  (dir.pair0, offset + lfs_tag_dsize ptag + 4)).2.2.ptag := by
              have hap := block_log_append d
                (lfs_dir_commit_attribute g d c (t + 2147483648) []
                  (dir.pair0, offset + lfs_tag_dsize ptag + 4)).2.1
                dir.pair1 c.offset t c.ptag
                (lfs_dir_commit_attribute g d c (t + 2147483648) []
                  (dir.pair0, offset + lfs_tag_dsize ptag + 4)).2.2.ptag
                Lc hL (fun o ho2 => q9 _ o (Or.inr ho2)) q7 ht31 hcp
                (by rw [q3]; exact Nat.mod_eq_of_lt ht31)
              rw [q2]
              have hpay : (List.range (lfs_tag_dsize t - 4)).map
                  (fun j => (lfs_dir_commit_attribute g d c (t + 2147483648) []
                    (dir.pair0, offset + lfs_tag_dsize ptag + 4)).2.1 dir.pair1
                      (c.offset + 4 + j)) = a.2 := by
                rw [h3, hsz]
                apply List.map_congr_left
                intro j hj
                have hj2 := List.mem_range.mp hj
                rw [q8 j (by omega)]
              rw [hpay] at hap
              exact hap
            obtain ⟨z1, z2, z3, z4, z5, z6, z7⟩ := ih fuel _ _ _ _ ((t, a.2) :: Lc) r
              (fwd_log_frame d _ dir.pair0 dir.offset (fun o => q9 _ o (Or.inl hne)) B _ _ hB2)
              (by omega) hTB hAB hlen (by rw [q4]; exact hcb) (by rw [q5]; exact he)
              (by rw [q3]; omega) (by rw [q2, q5]; exact hfit) hL1 hr hr0
            rw [hlf, List.reverse_append, List.reverse_singleton, List.append_assoc,
              List.singleton_append]
            refine ⟨z1, z2, by rw [z3, q5], by rw [z4, q6], z5, by rw [← q5]; exact z6, ?_⟩
            intro b o hbo
            rw [z7 b o hbo, q9 b o (Or.inl hbo)]
          · have hns := lfs_dir_commit_attribute_nospc g d c (t + 2147483648) []
              (dir.pair0, offset + lfs_tag_dsize ptag + 4)
              (by rw [lfs_tag_dsize_congr _ _ (fields_hi t).2.2.2.2.1]; exact hfit)
              (by omega)
            rw [if_pos hns] at hr
            simp only [Option.some.injEq] at hr
            rw [← hr] at hr0
            exact absurd hr0 hns
      · rw [if_pos (by omega)] at hr
        have hlf : live_fwd (a :: B) = live_fwd B := by
          rw [live_fwd_cons, if_neg hb30, List.nil_append]
        rw [hlf]
        exact ih fuel _ _ d c Lc r hB2 (by omega) hTB hAB hlen hcb he hcp hco hL hr hr0


/-- A successful `lfs_dir_commit_attribute` of a tag with bit 31 clear adds
the tag to the log of the block. -/
theorem commit_attribute_log (g : Geometry) (d : Disk) (c : lfs_commit_t) (tag : Nat)
    (buffer : List Nat) (source : Nat × Nat) (Lc : List (Nat × List Nat))
    (ht : tag < 2147483648) (hfit : c.offset + lfs_tag_dsize tag ≤ c.end_)
    (he : c.end_ < 18446744073709551616) (hp : c.ptag < 4294967296)
    (hL : block_log d c.block Lc c.offset c.ptag) :
    (lfs_dir_commit_attribute g d c tag buffer source).1 = 0
      ∧ (∃ p, block_log (lfs_dir_commit_attribute g d c tag buffer source).2.1 c.block
          ((tag, p) :: Lc) (lfs_dir_commit_attribute g d c tag buffer source).2.2.offset
          (lfs_dir_commit_attribute g d c tag buffer source).2.2.ptag)
      ∧ (lfs_dir_commit_attribute g d c tag buffer source).2.2.block = c.block
      ∧ (lfs_dir_commit_attribute g d c tag buffer source).2.2.end_ = c.end_
      ∧ (lfs_dir_commit_attribute g d c tag buffer source).2.2.ptag = tag
      ∧ (lfs_dir_commit_attribute g d c tag buffer source).2.2.offset
          = c.offset + lfs_tag_dsize tag
      ∧ (∀ b o, b ≠ c.block →
          (lfs_dir_commit_attribute g d c tag buffer source).2.1 b o = d b o) := by
  obtain ⟨q1, q2, q3, q4, q5, q6, q7⟩ :=
    lfs_dir_commit_attribute_ok g d c tag buffer source ht hfit he
  have hap := block_log_append d (lfs_dir_commit_attribute g d c tag buffer source).2.1
    c.block c.offset tag c.ptag (lfs_dir_commit_attribute g d c tag buffer source).2.2.ptag
    Lc hL (fun o ho => q7 _ o (Or.inr ho)) q6 ht hp (by rw [q3]; exact Nat.mod_eq_of_lt ht)
  rw [← q2] at hap
  exact ⟨q1, ⟨_, hap⟩, q4, q5, q3, q2, fun b o hb => q7 b o (Or.inl hb)⟩

/-- The commits of `lfs_dir_compact` after the traversal, when they succeed,
add tags of the pair to the log of the new block. -/
theorem compact_trailer_log (g : Geometry) (d : Disk) (c : lfs_commit_t)
    (dir : lfs_metadata_dir_t) (delta : Option (List Nat)) (Lc : List (Nat × List Nat))
    (he : c.end_ < 9223372036854775808) (hp : c.ptag < 4294967296)
    (hco : c.offset ≤ c.end_)
    (hL : block_log d c.block Lc c.offset c.ptag)
    (h0 : (compact_trailer g d c dir delta).1 = 0) :
    ∃ P : List (Nat × List Nat),
      (∀ e ∈ P, e.1 / 268435456 % 8 = 5 ∨ e.1 / 268435456 % 8 = 6 ∨ e.1 / 268435456 % 8 = 7)
        ∧ block_log (compact_trailer g d c dir delta).2.1 c.block (P ++ Lc)
            (compact_trailer g d c dir delta).2.2.offset
            (compact_trailer g d c dir delta).2.2.ptag
        ∧ (compact_trailer g d c dir delta).2.2.block = c.block
        ∧ (compact_trailer g d c dir delta).2.2.end_ = c.end_
        ∧ (compact_trailer g d c dir delta).2.2.ptag < 4294967296
        ∧ (compact_trailer g d c dir delta).2.2.offset ≤ c.end_
        ∧ (∀ b o, b ≠ c.block → (compact_trailer g d c dir delta).2.1 b o = d b o) := by
  -- the commit of the tail
  have htail : ∃ P1 : List (Nat × List Nat),
      ((if dir.tail0 = LFS_BLOCK_NULL ∨ dir.tail1 = LFS_BLOCK_NULL then (0, d, c)
        else lfs_dir_commit_attribute g d c
          (LFS_MKTAG (LFS_TYPE_TAIL + (if dir.split then 1 else 0)) 0x3ff 16)
          (lfs_tole64 dir.tail0 ++ lfs_tole64 dir.tail1) (0, 0)).1 = 0 →
        (∀ e ∈ P1, e.1 / 268435456 % 8 = 5 ∨ e.1 / 268435456 % 8 = 6
          ∨ e.1 / 268435456 % 8 = 7)
        ∧ block_log (if dir.tail0 = LFS_BLOCK_NULL ∨ dir.tail1 = LFS_BLOCK_NULL then (0, d, c)
            else lfs_dir_commit_attribute g d c
              (LFS_MKTAG (LFS_TYPE_TAIL + (if dir.split then 1 else 0)) 0x3ff 16)
              (lfs_tole64 dir.tail0 ++ lfs_tole64 dir.tail1) (0, 0)).2.1 c.block (P1 ++ Lc)
            (if dir.tail0 = LFS_BLOCK_NULL ∨ dir.tail1 = LFS_BLOCK_NULL then (0, d, c)
              else lfs_dir_commit_attribute g d c
                (LFS_MKTAG (LFS_TYPE_TAIL + (if dir.split then 1 else 0)) 0x3ff 16)
                (lfs_tole64 dir.tail0 ++ lfs_tole64 dir.tail1) (0, 0)).2.2.offset
            (if dir.tail0 = LFS_BLOCK_NULL ∨ dir.tail1 = LFS_BLOCK_NULL then (0, d, c)
              else lfs_dir_commit_attribute g d c
                (LFS_MKTAG (LFS_TYPE_TAIL + (if dir.split then 1 else 0)) 0x3ff 16)
                (lfs_tole64 dir.tail0 ++ lfs_tole64 dir.tail1) (0, 0)).2.2.ptag
        ∧ (if dir.tail0 = LFS_BLOCK_NULL ∨ dir.tail1 = LFS_BLOCK_NULL then (0, d, c)
            else lfs_dir_commit_attribute g d c
              (LFS_MKTAG (LFS_TYPE_TAIL + (if dir.split then 1 else 0)) 0x3ff 16)
              (lfs_tole64 dir.tail0 ++ lfs_tole64 dir.tail1) (0, 0)).2.2.block = c.block
        ∧ (if dir.tail0 = LFS_BLOCK_NULL ∨ dir.tail1 = LFS_BLOCK_NULL then (0, d, c)
            else lfs_dir_commit_attribute g d c
              (LFS_MKTAG (LFS_TYPE_TAIL + (if dir.split then 1 else 0)) 0x3ff 16)
              (lfs_tole64 dir.tail0 ++ lfs_tole64 dir.tail1) (0, 0)).2.2.end_ = c.end_
        ∧ (if dir.tail0 = LFS_BLOCK_NULL ∨ dir.tail1 = LFS_BLOCK_NULL then (0, d, c)
            else lfs_dir_commit_attribute g d c
              (LFS_MKTAG (LFS_TYPE_TAIL + (if dir.split then 1 else 0)) 0x3ff 16)
              (lfs_tole64 dir.tail0 ++ lfs_tole64 dir.tail1) (0, 0)).2.2.ptag < 4294967296
        ∧ (if dir.tail0 = LFS_BLOCK_NULL ∨ dir.tail1 = LFS_BLOCK_NULL then (0, d, c)
            else lfs_dir_commit_attribute g d c
              (LFS_MKTAG (LFS_TYPE_TAIL + (if dir.split then 1 else 0)) 0x3ff 16)
              (lfs_tole64 dir.tail0 ++ lfs_tole64 dir.tail1) (0, 0)).2.2.offset ≤ c.end_
        ∧ (∀ b o, b ≠ c.block →
            (if dir.tail0 = LFS_BLOCK_NULL ∨ dir.tail1 = LFS_BLOCK_NULL then (0, d, c)
              else lfs_dir_commit_attribute g d c
                (LFS_MKTAG (LFS_TYPE_TAIL + (if dir.split then 1 else 0)) 0x3ff 16)
                (lfs_tole64 dir.tail0 ++ lfs_tole64 dir.tail1) (0, 0)).2.1 b o = d b o)) := by
    by_cases hn : dir.tail0 = LFS_BLOCK_NULL ∨ dir.tail1 = LFS_BLOCK_NULL
    · refine ⟨[], ?_⟩
      rw [if_pos hn]
      intro _
      exact ⟨fun e he => absurd he (List.not_mem_nil _), hL, rfl, rfl, hp, hco,
        fun _ _ _ => rfl⟩
    · rw [if_neg hn]
      have htag : LFS_MKTAG (LFS_TYPE_TAIL + (if dir.split then 1 else 0)) 0x3ff 16
            < 2147483648
          ∧ LFS_MKTAG (LFS_TYPE_TAIL + (if dir.split then 1 else 0)) 0x3ff 16 / 268435456 % 8
            = 6 := by
        cases dir.split <;> decide
      by_cases hfit : c.offset + lfs_tag_dsize
          (LFS_MKTAG (LFS_TYPE_TAIL + (if dir.split then 1 else 0)) 0x3ff 16) ≤ c.end_
      · obtain ⟨q1, ⟨p, q2⟩, q3, q4, q5, q6, q7⟩ := commit_attribute_log g d c _
          (lfs_tole64 dir.tail0 ++ lfs_tole64 dir.tail1) (0, 0) Lc htag.1 hfit (by omega) hp hL
        refine ⟨[(_, p)], fun _ => ⟨?_, q2, q3, q4, by rw [q5]; omega, by rw [q6]; exact hfit,
          q7⟩⟩
        intro e he
        rw [List.mem_singleton.mp he]
        exact Or.inr (Or.inl htag.2)
      · refine ⟨[], fun h => ?_⟩
        exact absurd h (lfs_dir_commit_attribute_nospc g d c _ _ _ hfit (by omega))
  obtain ⟨P1, hP1⟩ := htail
  unfold compact_trailer at h0 ⊢
  by_cases ht0 : (if dir.tail0 = LFS_BLOCK_NULL ∨ dir.tail1 = LFS_BLOCK_NULL then (0, d, c)
      else lfs_dir_commit_attribute g d c
        (LFS_MKTAG (LFS_TYPE_TAIL + (if dir.split then 1 else 0)) 0x3ff 16)
        (lfs_tole64 dir.tail0 ++ lfs_tole64 dir.tail1) (0, 0)).1 ≠ 0
  · rw [if_pos ht0] at h0
    exact absurd h0 ht0
  · rw [if_neg ht0] at h0 ⊢
    obtain ⟨a1, a2, a3, a4, a5, a6, a7⟩ := hP1 (not_not.mp ht0)
    cases delta with
    | none => exact ⟨P1, a1, a2, a3, a4, a5, a6, a7⟩
    | some bytes =>
      simp only [] at h0 ⊢
      have htag : LFS_MKTAG LFS_TYPE_MOVESTATE 0x3ff 24 < 2147483648
          ∧ LFS_MKTAG LFS_TYPE_MOVESTATE 0x3ff 24 / 268435456 % 8 = 7 := by decide
      by_cases hfit : (if dir.tail0 = LFS_BLOCK_NULL ∨ dir.tail1 = LFS_BLOCK_NULL then (0, d, c)
          else lfs_dir_commit_attribute g d c
            (LFS_MKTAG (LFS_TYPE_TAIL + (if dir.split then 1 else 0)) 0x3ff 16)
            (lfs_tole64 dir.tail0 ++ lfs_tole64 dir.tail1) (0, 0)).2.2.offset
          + lfs_tag_dsize (LFS_MKTAG LFS_TYPE_MOVESTATE 0x3ff 24)
          ≤ (if dir.tail0 = LFS_BLOCK_NULL ∨ dir.tail1 = LFS_BLOCK_NULL then (0, d, c)
          else lfs_dir_commit_attribute g d c
            (LFS_MKTAG (LFS_TYPE_TAIL + (if dir.split then 1 else 0)) 0x3ff 16)
            (lfs_tole64 dir.tail0 ++ lfs_tole64 dir.tail1) (0, 0)).2.2.end_
      · rw [← a3] at a2
        obtain ⟨q1, ⟨p, q2⟩, q3, q4, q5, q6, q7⟩ := commit_attribute_log g _ _ _
          bytes (0, 0) (P1 ++ Lc) htag.1 hfit (by rw [a4]; omega) a5 a2
        rw [a3] at q2 q3 q7
        refine ⟨(_, p) :: P1, ?_, q2, q3, by rw [q4, a4], by rw [q5]; omega,
          by rw [q6, ← a4]; exact hfit, fun b o hb => by rw [q7 b o hb, a7 b o hb]⟩
        intro e he
        rcases List.mem_cons.mp he with h | h
        · rw [h]
          exact Or.inr (Or.inr htag.2)
        · exact a1 e h
      · exact absurd h0 (lfs_dir_commit_attribute_nospc g _ _ _ _ _ hfit
          (by rw [a4] at hfit; omega))


theorem crc_noff_facts (end_ off : Nat) (he : end_ < 9223372036854775808)
    (ho : off + 4 ≤ end_) :
    sub64 (crc_noff end_ off) (wrap64 (off + 4)) ≤ 0x3fe
      ∧ off + 4 + sub64 (crc_noff end_ off) (wrap64 (off + 4)) = crc_noff end_ off
      ∧ (crc_noff end_ off + 4 ≤ end_ ∨ crc_noff end_ off = end_) := by
  have hw : wrap64 (off + 4) = off + 4 := by unfold wrap64; omega
  have hs : sub64 end_ (off + 4) = end_ - (off + 4) := by unfold sub64; omega
  unfold crc_noff
  rw [hw, hs]
  by_cases h1 : end_ - (off + 4) < 0x3fe
  · have hm : lfs_min (end_ - (off + 4)) 0x3fe = end_ - (off + 4) := by
      unfold lfs_min; rw [if_pos h1]
    have hw2 : wrap64 (end_ - (off + 4) + (off + 4)) = end_ := by unfold wrap64; omega
    rw [hm, hw2, if_neg (by omega)]
    unfold sub64
    omega
  · have hm : lfs_min (end_ - (off + 4)) 0x3fe = 0x3fe := by
      unfold lfs_min; rw [if_neg h1]
    have hw2 : wrap64 (0x3fe + (off + 4)) = off + 1026 := by unfold wrap64; omega
    rw [hm, hw2]
    by_cases h2 : off + 1026 < end_
    · rw [if_pos h2]
      have h16 : sub64 end_ 16 = end_ - 16 := by unfold sub64; omega
      rw [h16]
      unfold lfs_min sub64
      split_ifs <;> omega
    · rw [if_neg h2]
      unfold sub64
      omega

theorem crc_reset_le (g : Geometry) (d : Disk) (block noff : Nat) :
    crc_reset g d block noff ≤ 1 := by
  unfold crc_reset
  cases lfs_bd_read g d block noff 4 with
  | error e => exact Nat.zero_le _
  | ok raw =>
    simp only []
    split_ifs <;> omega

theorem crc_tag_facts (reset size : Nat) (hr : reset ≤ 1) (hs : size ≤ 0x3fe) :
    LFS_MKTAG (LFS_TYPE_CRC + reset) 0x3ff size < 2147483648
      ∧ LFS_MKTAG (LFS_TYPE_CRC + reset) 0x3ff size / 268435456 % 8 = 5
      ∧ lfs_tag_dsize (LFS_MKTAG (LFS_TYPE_CRC + reset) 0x3ff size) = 4 + size
      ∧ lfs_tag_size (LFS_MKTAG (LFS_TYPE_CRC + reset) 0x3ff size) = size
      ∧ (LFS_MKTAG (LFS_TYPE_CRC + reset) 0x3ff size ^^^ wrap32 (reset <<< 31)) % 2147483648
          = LFS_MKTAG (LFS_TYPE_CRC + reset) 0x3ff size
      ∧ (LFS_MKTAG (LFS_TYPE_CRC + reset) 0x3ff size ^^^ wrap32 (reset <<< 31)) < 4294967296
      ∧ (LFS_MKTAG (LFS_TYPE_CRC + reset) 0x3ff size ^^^ wrap32 (reset <<< 31))
          / 268435456 % 8 = 5 := by
  have hc : LFS_TYPE_CRC = 1280 := rfl
  have e := LFS_MKTAG_eq (LFS_TYPE_CRC + reset) 0x3ff size (by rw [hc]; omega) (by omega)
    (by omega)
  rw [hc] at e ⊢
  have h31 : (1280 + reset) * 1048576 + 1023 * 1024 + size < 2147483648 := by omega
  have hx : wrap32 (reset <<< 31) < 4294967296 := Nat.mod_lt _ (by omega)
  have hx0 : wrap32 (reset <<< 31) % 2147483648 = 0 := by
    unfold wrap32
    rw [Nat.shiftLeft_eq]
    omega
  have hm : (LFS_MKTAG (1280 + reset) 0x3ff size ^^^ wrap32 (reset <<< 31)) % 2147483648
      = LFS_MKTAG (1280 + reset) 0x3ff size := by
    rw [xor_mod31, hx0, e, Nat.xor_zero]
    exact Nat.mod_eq_of_lt h31
  have hlt := xor_lt_two_pow32 (LFS_MKTAG (1280 + reset) 0x3ff size) (wrap32 (reset <<< 31))
    (by rw [e]; omega) hx
  refine ⟨by rw [e]; exact h31, by rw [e]; omega, ?_, ?_, hm, hlt, ?_⟩
  · rw [lfs_tag_dsize_mod, e]
    rw [if_neg (by omega)]
    omega
  · rw [lfs_tag_size_eq_mod, e]
    omega
  · rw [e] at hm hlt ⊢
    omega

theorem disk_prog_frame (d : Disk) (block offset : Nat) (bytes : List Nat) (b o : Nat)
    (h : b ≠ block ∨ o < offset) : disk_prog d block offset bytes b o = d b o := by
  unfold disk_prog
  rw [if_neg]
  intro hc
  rcases h with h | h
  · exact h hc.1
  · omega

theorem disk_prog_word (d : Disk) (block offset : Nat) (w rest : List Nat) (j : Nat)
    (hj : j < w.length) :
    disk_prog d block offset (w ++ rest) block (offset + j) = w.getD j 0 := by
  unfold disk_prog
  rw [if_pos ⟨rfl, by omega, by rw [List.length_append]; omega⟩, Nat.add_sub_cancel_left,
    List.getD_append _ _ _ _ hj]

/-- The first loop of `lfs_dir_commit_crc` adds CRC tags to the log of the
block until the commit ends at `end_`. -/
theorem commit_crc_loop_log (g : Geometry) (end_ block : Nat)
    (he : end_ < 9223372036854775808) :
    ∀ (fuel : Nat) (s r : crc_state) (Lc : List (Nat × List Nat)),
      commit_crc_loop g end_ fuel s = some r → s.c.block = block →
      (s.c.offset + 4 ≤ end_ ∨ s.c.offset = end_) → s.c.ptag < 4294967296 →
      block_log s.d block Lc s.c.offset s.c.ptag →
      ∃ P : List (Nat × List Nat),
        (∀ e ∈ P, e.1 / 268435456 % 8 = 5)
          ∧ block_log r.d block (P ++ Lc) r.c.offset r.c.ptag
          ∧ r.c.offset = end_ ∧ r.c.block = block ∧ r.c.ptag < 4294967296
          ∧ (∀ b o, b ≠ block → r.d b o = s.d b o)
          ∧ (s.c.offset < end_ → r.c.ptag / 268435456 % 8 = 5) := by
  intro fuel
  induction fuel with
  | zero =>
    intro s r Lc h
    exact absurd h (by simp [commit_crc_loop])
  | succ n ih =>
    intro s r Lc h hb hinv hp hL
    by_cases hlt : s.c.offset < end_
    · rw [commit_crc_loop, if_pos hlt] at h
      have ho : s.c.offset + 4 ≤ end_ := by omega
      obtain ⟨n1, n2, n3⟩ := crc_noff_facts end_ s.c.offset he ho
      have hr := crc_reset_le g s.d s.c.block (crc_noff end_ s.c.offset)
      obtain ⟨t1, t2, t3, t4, t5, t6, t7⟩ := crc_tag_facts
        (crc_reset g s.d s.c.block (crc_noff end_ s.c.offset))
        (sub64 (crc_noff end_ s.c.offset) (wrap64 (s.c.offset + 4))) hr n1
      have hoff : wrap64 (s.c.offset + 4 + lfs_tag_size
          (LFS_MKTAG (LFS_TYPE_CRC + crc_reset g s.d s.c.block (crc_noff end_ s.c.offset))
            0x3ff (sub64 (crc_noff end_ s.c.offset) (wrap64 (s.c.offset + 4)))))
          = s.c.offset + lfs_tag_dsize
            (LFS_MKTAG (LFS_TYPE_CRC + crc_reset g s.d s.c.block (crc_noff end_ s.c.offset))
              0x3ff (sub64 (crc_noff end_ s.c.offset) (wrap64 (s.c.offset + 4)))) := by
        rw [t3, t4]
        show (_ % 18446744073709551616) = _
        rw [Nat.mod_eq_of_lt (by omega)]
        omega
      have hap := block_log_append s.d
        (disk_prog s.d s.c.block s.c.offset
          (lfs_tobe32
              (LFS_MKTAG (LFS_TYPE_CRC + crc_reset g s.d s.c.block (crc_noff end_ s.c.offset))
                  0x3ff (sub64 (crc_noff end_ s.c.offset) (wrap64 (s.c.offset + 4)))
                ^^^ s.c.ptag)
            ++ lfs_tole32 (lfs_crc s.c.crc (lfs_tobe32
              (LFS_MKTAG (LFS_TYPE_CRC + crc_reset g s.d s.c.block (crc_noff end_ s.c.offset))
                  0x3ff (sub64 (crc_noff end_ s.c.offset) (wrap64 (s.c.offset + 4)))
                ^^^ s.c.ptag)))))
        block s.c.offset
        (LFS_MKTAG (LFS_TYPE_CRC + crc_reset g s.d s.c.block (crc_noff end_ s.c.offset))
          0x3ff (sub64 (crc_noff end_ s.c.offset) (wrap64 (s.c.offset + 4))))
        s.c.ptag
        (LFS_MKTAG (LFS_TYPE_CRC + crc_reset g s.d s.c.block (crc_noff end_ s.c.offset))
            0x3ff (sub64 (crc_noff end_ s.c.offset) (wrap64 (s.c.offset + 4)))
          ^^^ wrap32 (crc_reset g s.d s.c.block (crc_noff end_ s.c.offset) <<< 31))
        Lc hL
        (fun o ho2 => disk_prog_frame _ _ _ _ _ _ (Or.inr ho2))
        (fun j hj => by
          rw [hb]
          exact disk_prog_word _ _ _ _ _ j hj)
        t1 hp t5
      rw [← hoff] at hap
      obtain ⟨P, p1, p2, p3, p4, p5, p6, p7⟩ := ih _ r _ h hb
        (by
          show wrap64 _ + 4 ≤ end_ ∨ wrap64 _ = end_
          rw [hoff, t3]
          omega)
        t6 hap
      refine ⟨P ++ [_], ?_, by rw [List.append_assoc]; exact p2, p3, p4, p5, ?_, fun _ => ?_⟩
      · intro e hemem
        rcases List.mem_append.mp hemem with h1 | h1
        · exact p1 e h1
        · rw [List.mem_singleton.mp h1]
          exact t2
      · intro b o hbo
        rw [p6 b o hbo]
        exact disk_prog_frame _ _ _ _ _ _ (Or.inl (by rw [hb]; exact hbo))
      · by_cases hx : wrap64 (s.c.offset + 4 + lfs_tag_size
            (LFS_MKTAG (LFS_TYPE_CRC + crc_reset g s.d s.c.block (crc_noff end_ s.c.offset))
              0x3ff (sub64 (crc_noff end_ s.c.offset) (wrap64 (s.c.offset + 4))))) < end_
        · exact p7 hx
        · -- the loop is left at once
          rw [hoff, t3] at hx
          have hend : s.c.offset + (4 + sub64 (crc_noff end_ s.c.offset)
              (wrap64 (s.c.offset + 4))) = end_ := by omega
          cases n with
          | zero => exact absurd h (by simp [commit_crc_loop])
          | succ m =>
            rw [commit_crc_loop, if_neg (by
              show ¬ (wrap64 _ < end_)
              rw [hoff, t3]
              omega)] at h
            rw [← Option.some.inj h]
            exact t7
    · rw [commit_crc_loop, if_neg hlt] at h
      rw [← Option.some.inj h]
      exact ⟨[], fun e hemem => absurd hemem (List.not_mem_nil _), hL, by omega, hb, hp,
        fun _ _ _ => rfl, fun hx => absurd hx hlt⟩


theorem sub64_one (x : Nat) (h1 : 0 < x) (h2 : x < 18446744073709551616) :
    sub64 x 1 = x - 1 := by
  unfold sub64
  omega

theorem lfs_alignup_facts (a n B : Nat) (hn : 0 < n) (ha0 : 0 < a) (ha : a ≤ B) (hd : n ∣ B)
    (hB : B < 9223372036854775808) :
    a ≤ lfs_alignup a n ∧ lfs_alignup a n ≤ B := by
  obtain ⟨k, hk⟩ := hd
  have hk0 : 0 < k := by
    rcases Nat.eq_zero_or_pos k with h0 | h0
    · rw [h0, Nat.mul_zero] at hk
      omega
    · exact h0
  have hnB : n ≤ B := by rw [hk]; exact Nat.le_mul_of_pos_right n hk0
  have hw : wrap64 (a + n) = a + n := by unfold wrap64; omega
  have hs : sub64 (a + n) 1 = a + n - 1 := sub64_one (a + n) (by omega) (by omega)
  unfold lfs_alignup lfs_aligndown
  rw [hw, hs]
  have hm := Nat.mod_lt (a + n - 1) hn
  have hdm := Nat.div_add_mod (a + n - 1) n
  constructor
  · omega
  · have hq : (a + n - 1) / n ≤ k := by
      apply Nat.le_of_lt_succ
      rw [Nat.div_lt_iff_lt_mul hn]
      rw [Nat.succ_mul, Nat.mul_comm k n, ← hk]
      omega
    have := Nat.mul_le_mul_left n hq
    rw [← hk] at this
    omega

/-- A successful `lfs_dir_commit_crc` adds CRC tags to the log of the block
and leaves a CRC tag as the last tag. -/
theorem commit_crc_log (g : Geometry) (d : Disk) (write_size : Nat) (c : lfs_commit_t)
    (fuel : Nat) (r : Int × Disk × lfs_commit_t) (Lc : List (Nat × List Nat))
    (h : lfs_dir_commit_crc g d write_size c fuel = some r)
    (hws : 0 < write_size) (hdiv : write_size ∣ g.block_size)
    (hg : g.block_size < 9223372036854775808) (hco : c.offset + 16 ≤ g.block_size)
    (hp : c.ptag < 4294967296) (hL : block_log d c.block Lc c.offset c.ptag) :
    ∃ P : List (Nat × List Nat),
      (∀ e ∈ P, e.1 / 268435456 % 8 = 5)
        ∧ block_log r.2.1 c.block (P ++ Lc) r.2.2.offset r.2.2.ptag
        ∧ r.2.2.offset ≤ g.block_size ∧ r.2.2.block = c.block
        ∧ (∀ b o, b ≠ c.block → r.2.1 b o = d b o)
        ∧ r.2.2.ptag / 268435456 % 8 = 5 := by
  have hw : wrap64 (c.offset + 16) = c.offset + 16 := by unfold wrap64; omega
  obtain ⟨a1, a2⟩ := lfs_alignup_facts (c.offset + 16) write_size g.block_size hws (by omega) hco hdiv hg
  unfold lfs_dir_commit_crc at h
  rw [hw] at h
  cases hl : commit_crc_loop g (lfs_alignup (c.offset + 16) write_size) fuel ⟨d, c, 0, 0⟩ with
  | none => rw [hl] at h; exact absurd h (by simp)
  | some s =>
    rw [hl] at h
    simp only [] at h
    cases hc : commit_crc_check g s.d c.block (lfs_alignup (c.offset + 16) write_size)
        s.off1 s.crc1 fuel c.begin_ s.off1 with
    | none => rw [hc] at h; exact absurd h (by simp)
    | some code =>
      rw [hc] at h
      simp only [Option.some.injEq] at h
      obtain ⟨P, p1, p2, p3, p4, p5, p6, p7⟩ := commit_crc_loop_log g
        (lfs_alignup (c.offset + 16) write_size) c.block (by omega) fuel ⟨d, c, 0, 0⟩ s Lc hl
        rfl (Or.inl (by show c.offset + 4 ≤ _; omega)) hp hL
      rw [← h]
      exact ⟨P, p1, p2, by show s.c.offset ≤ _; rw [p3]; exact a2, p4, p6,
        p7 (by show c.offset < _; omega)⟩


theorem lfs_tole32_length (x : Nat) : (lfs_tole32 x).length = 4 := by
  unfold lfs_tole32
  rw [List.length_map, List.length_range]

/-- The filter chain of a well-formed log, as the traversal of
`lfs_dir_compact` needs it. -/
theorem log_wf_compact_chain (L : List (Nat × List Nat)) (hw : log_wf L)
    (A1 : List (Nat × List Nat)) (a : Nat × List Nat) (B : List (Nat × List Nat))
    (hs : L.reverse = A1 ++ a :: B) (hb : a.1 / 1073741824 % 2 = 0) :
    log_filter (B.map (fun u => u.1 + 2147483648)) (a.1 + 2147483648)
        = (log_filter (B.map (fun u => u.1)) a.1).map (fun t => t + 2147483648)
      ∧ ∀ t, log_filter (B.map (fun u => u.1)) a.1 = some t → live_ok (log_count L) t := by
  have hmem : a ∈ L := by
    rw [← List.mem_reverse, hs]
    exact List.mem_append_right _ (List.mem_cons_self _ _)
  have ha31 := (log_wf_tags L hw a hmem).1
  constructor
  · have hmm : B.map (fun u => u.1 + 2147483648)
        = (B.map (fun u => u.1)).map (fun u => u + 2147483648) := by
      rw [List.map_map]
      rfl
    rw [hmm]
    apply log_filter_hi _ _ ha31
    intro B1 B2 t hsplit ht
    obtain ⟨l1, l2, e1, e2, e3⟩ := List.map_eq_append_iff.mp hsplit
    rw [← e2] at ht
    exact (log_wf_chain L hw A1 a l1 l2 (by rw [hs, e1]) hb t ht).1
  · intro t ht
    have h := log_wf_chain L hw A1 a B [] (by rw [hs, List.append_nil]) hb t ht
    rw [← hs, List.reverse_reverse] at h
    exact h

/-- A successful `lfs_dir_compact` of all the ids of a well-formed block
leaves, on the other block of the pair, the live entries of the old log
under tags of the pair, and a directory that ends with a CRC tag. -/
theorem compact_log (g : Geometry) (write_size metadata_max : Nat) (block_cycles : Int)
    (d : Disk) (fill : Nat → Nat) (dir : lfs_metadata_dir_t) (delta : Option (List Nat))
    (fuel : Nat) (L : List (Nat × List Nat)) (r : Int × Disk × lfs_metadata_dir_t)
    (hg : g.block_size < 9223372036854775808)
    (hws : 0 < write_size) (hdiv : write_size ∣ g.block_size)
    (hmm : metadata_max ≤ g.block_size)
    (hmm20 : 20 ≤ (if metadata_max ≠ 0 then metadata_max else g.block_size))
    (hb0 : dir.pair0 < g.block_count) (hne : dir.pair0 ≠ dir.pair1)
    (ho : dir.offset ≤ g.block_size)
    (hL : block_log d dir.pair0 L dir.offset dir.etag)
    (hw : log_wf L) (hc : dir.count = log_count L)
    (hf : L.length < fuel)
    (hr : lfs_dir_compact g write_size metadata_max block_cycles d fill dir delta 0 dir.count
      fuel = some r)
    (hr0 : r.1 = 0) :
    ∃ P : List (Nat × List Nat),
      (∀ e ∈ P, e.1 / 268435456 % 8 = 5 ∨ e.1 / 268435456 % 8 = 6 ∨ e.1 / 268435456 % 8 = 7)
        ∧ block_log r.2.1 dir.pair1 (P ++ log_live L) r.2.2.offset r.2.2.etag
        ∧ r.2.2.pair0 = dir.pair1 ∧ r.2.2.pair1 = dir.pair0
        ∧ r.2.2.offset ≤ g.block_size
        ∧ r.2.2.etag / 268435456 % 8 = 5
        ∧ (∀ b o, b ≠ dir.pair1 → r.2.1 b o = d b o) := by
  have hM : (if metadata_max ≠ 0 then metadata_max else g.block_size) ≤ g.block_size := by
    split_ifs <;> omega
  have hE : sub64 (if metadata_max ≠ 0 then metadata_max else g.block_size) 16
      = (if metadata_max ≠ 0 then metadata_max else g.block_size) - 16 := by
    unfold sub64
    omega
  have hd4 : lfs_tag_dsize 0xffffffff = 4 := by decide
  -- the old block, oldest first
  have hfwd : fwd_log d dir.pair0 dir.offset L.reverse 4 0xffffffff := by
    have h := block_log_fwd d dir.pair0 dir.offset L [] dir.offset dir.etag hL rfl
    rw [List.append_nil] at h
    exact h
  unfold lfs_dir_compact at hr
  by_cases hrel : lfs_dir_needs_relocation block_cycles dir.revision_count = true
      ∧ lfs_pair_cmp dir.pair0 dir.pair1 0 1 ≠ 0
  · rw [if_pos hrel] at hr
    exact absurd hr (by simp)
  · rw [if_neg hrel] at hr
    cases ht : compact_traverse g dir 0 dir.count fuel 0 0xffffffff
        (lfs_dir_commit_write (disk_erase d dir.pair1 fill)
          ⟨dir.pair1, 0, 0xffffffff, 0xffffffff, 0,
            sub64 (if metadata_max ≠ 0 then metadata_max else g.block_size) 16⟩
          (lfs_tole32 (wrap32 (dir.revision_count + 1)))).2.1
        (lfs_dir_commit_write (disk_erase d dir.pair1 fill)
          ⟨dir.pair1, 0, 0xffffffff, 0xffffffff, 0,
            sub64 (if metadata_max ≠ 0 then metadata_max else g.block_size) 16⟩
          (lfs_tole32 (wrap32 (dir.revision_count + 1)))).2.2 with
    | none => rw [ht] at hr; exact absurd hr (by simp)
    | some t =>
      rw [ht] at hr
      simp only [] at hr
      by_cases h1 : t.1 = LFS_ERR_CORRUPT
      · rw [if_pos h1] at hr; exact absurd hr (by simp)
      · rw [if_neg h1] at hr
        by_cases h2 : t.1 ≠ 0
        · rw [if_pos h2] at hr
          rw [← Option.some.inj hr] at hr0
          exact absurd hr0 h2
        · rw [if_neg h2] at hr
          by_cases h3 : (compact_trailer g t.2.1 t.2.2 dir delta).1 = LFS_ERR_CORRUPT
          · rw [if_pos h3] at hr; exact absurd hr (by simp)
          · rw [if_neg h3] at hr
            by_cases h4 : (compact_trailer g t.2.1 t.2.2 dir delta).1 ≠ 0
            · rw [if_pos h4] at hr
              rw [← Option.some.inj hr] at hr0
              exact absurd hr0 h4
            · rw [if_neg h4] at hr
              cases hcrc : lfs_dir_commit_crc g (compact_trailer g t.2.1 t.2.2 dir delta).2.1
                  write_size (compact_trailer g t.2.1 t.2.2 dir delta).2.2 fuel with
              | none => rw [hcrc] at hr; exact absurd hr (by simp)
              | some x =>
                rw [hcrc] at hr
                simp only [] at hr
                by_cases h5 : x.1 = LFS_ERR_CORRUPT
                · rw [if_pos h5] at hr; exact absurd hr (by simp)
                · rw [if_neg h5] at hr
                  by_cases h6 : x.1 ≠ 0
                  · rw [if_pos h6] at hr
                    rw [← Option.some.inj hr] at hr0
                    exact absurd hr0 h6
                  · rw [if_neg h6] at hr
                    -- the traversal
                    obtain ⟨z1, z2, z3, z4, z5, z6, z7⟩ := compact_traverse_log g dir dir.count
                      hb0 ho hg hne L.reverse fuel 0 0xffffffff _ _ [] t
                      (by
                        rw [hd4]
                        refine fwd_log_frame d _ dir.pair0 dir.offset ?_ _ _ _ hfwd
                        intro o
                        show disk_prog (disk_erase d dir.pair1 fill) dir.pair1 0 _ dir.pair0 o
                          = d dir.pair0 o
                        rw [disk_prog_frame _ _ _ _ _ _ (Or.inl hne)]
                        unfold disk_erase
                        rw [if_neg hne])
                      (show (0xffffffff : Nat) < 4294967296 by decide)
                      (fun u hu => (log_wf_tags L hw u (List.mem_reverse.mp hu)).2)
                      (fun A1 a B hs hb => by
                        rw [hc]
                        exact log_wf_compact_chain L hw A1 a B hs hb)
                      (by rw [List.length_reverse]; exact hf)
                      rfl
                      (by
                        show sub64 _ 16 < 9223372036854775808
                        rw [hE]
                        omega)
                      (show (0xffffffff : Nat) < 4294967296 by decide)
                      (by
                        show wrap64 (0 + (lfs_tole32 _).length) ≤ sub64 _ 16
                        rw [hE, lfs_tole32_length]
                        have : wrap64 (0 + 4) = 4 := by decide
                        rw [this]
                        omega)
                      (by
                        show wrap64 (0 + (lfs_tole32 _).length) = 4 ∧ _
                        rw [lfs_tole32_length]
                        exact ⟨show wrap64 (0 + 4) = 4 by decide,
                          show (0xffffffff : Nat) % 2147483648 = 0x7fffffff by decide⟩)
                      ht (not_not.mp h2)
                    rw [List.append_nil, ← log_live_eq] at z1
                    have z3' : t.2.2.end_
                        = (if metadata_max ≠ 0 then metadata_max else g.block_size) - 16 := by
                      rw [z3]
                      exact hE
                    -- the tail and the gstate
                    rw [← z2] at z1
                    obtain ⟨P1, p1, p2, p3, p4, p5, p6, p7⟩ := compact_trailer_log g t.2.1 t.2.2
                      dir delta (log_live L) (by rw [z3']; omega) z5
                      (by rw [z3]; exact z6) z1 (not_not.mp h4)
                    -- the checksum
                    rw [← p3] at p2
                    obtain ⟨P2, c1, c2, c3, c4, c5, c6⟩ := commit_crc_log g _ write_size _ fuel x
                      (P1 ++ log_live L) hcrc hws hdiv hg
                      (by rw [z3'] at p6; omega) p5 p2
                    rw [p3, z2] at c2 c4 c5
                    rw [← Option.some.inj hr]
                    refine ⟨P2 ++ P1, ?_, by rw [List.append_assoc]; exact c2, rfl, rfl, c3, c6,
                      ?_⟩
                    · intro e he
                      rcases List.mem_append.mp he with h | h
                      · exact Or.inl (c1 e h)
                      · exact p1 e h
                    · intro b o hbo
                      show x.2.1 b o = d b o
                      rw [c5 b o hbo, p7 b o (by rw [z2]; exact hbo), z7 b o hbo]
                      show disk_prog (disk_erase d dir.pair1 fill) dir.pair1 0 _ b o = d b o
                      rw [disk_prog_frame _ _ _ _ _ _ (Or.inl hbo)]
                      unfold disk_erase
                      rw [if_neg hbo]


theorem hasmovehere_swap (a : lfs_gstate_t) (p0 p1 : Nat) :
    lfs_gstate_hasmovehere a p1 p0 = lfs_gstate_hasmovehere a p0 p1 := by
  have h : lfs_pair_cmp a.pair0 a.pair1 p1 p0 = lfs_pair_cmp a.pair0 a.pair1 p0 p1 := by
    unfold lfs_pair_cmp
    by_cases hc : a.pair0 = p0 ∨ a.pair1 = p1 ∨ a.pair0 = p1 ∨ a.pair1 = p0
    · rw [if_pos hc, if_pos (by tauto)]
    · rw [if_neg hc, if_neg (by tauto)]
  unfold lfs_gstate_hasmovehere
  rw [h]

theorem option_eq_some_getD {α : Type} (o : Option α) (x : α) (h : o.isSome = true) :
    o = some (o.getD x) := by
  cases o with
  | none => exact absurd h (by simp)
  | some a => rfl

/-- C12 (amended): after a successful `lfs_dir_compact` of the ids
`0..count` of a fetched pair onto the other block of the pair (no extra
attributes, no relocation), `lfs_dir_get` returns the same tag and payload
as before for every lookup that goes by the attributes the filter of the
compaction tells apart: the mask holds the id and the first three bits of
the type (all eleven for the types with the bit 0x100), the tag looked for
is not of a SPLICE, CRC, TAIL or GLOBALS type and its id is below the
count.  The block before the compaction holds a well-formed log `L` that
ends with a tag of the pair, the count of the directory is the count of
the log, and no move is pending on the pair. -/
theorem C12_compaction_preserves_lookups (g : Geometry) (write_size metadata_max : Nat)
    (block_cycles : Int) (d : Disk) (fill : Nat → Nat) (dir : lfs_metadata_dir_t)
    (delta : Option (List Nat)) (fuel : Nat) (L : List (Nat × List Nat))
    (r : Int × Disk × lfs_metadata_dir_t) (gdisk : lfs_gstate_t) (gmask gtag : Nat)
    (hg : g.block_size < 9223372036854775808)
    (hws : 0 < write_size) (hdiv : write_size ∣ g.block_size)
    (hmm : metadata_max ≤ g.block_size)
    (hmm20 : 20 ≤ (if metadata_max ≠ 0 then metadata_max else g.block_size))
    (hb0 : dir.pair0 < g.block_count) (hb1 : dir.pair1 < g.block_count)
    (hne : dir.pair0 ≠ dir.pair1) (ho : dir.offset ≤ g.block_size)
    (hL : block_log d dir.pair0 L dir.offset dir.etag)
    (he : dir.etag / 268435456 % 8 = 5 ∨ dir.etag / 268435456 % 8 = 6
      ∨ dir.etag / 268435456 % 8 = 7)
    (hw : log_wf L) (hc : dir.count = log_count L)
    (hf : g.block_size ≤ 4 * fuel)
    (hr : lfs_dir_compact g write_size metadata_max block_cycles d fill dir delta 0 dir.count
      fuel = some r)
    (hr0 : r.1 = 0)
    (hmove : lfs_gstate_hasmovehere gdisk dir.pair0 dir.pair1 = false)
    (hq : lookup_ok gmask gtag) (hid : lfs_tag_id gtag < dir.count) :
    lfs_dir_get g r.2.1 gdisk r.2.2 gmask gtag fuel
        = lfs_dir_get g d gdisk dir gmask gtag fuel
      ∧ lfs_dir_get g d gdisk dir gmask gtag fuel
        = some (log_get gmask gtag (lfs_tag_size gtag) L 0) := by
  have hlen := block_log_length d dir.pair0 L dir.offset dir.etag hL
  have hf1 : L.length < fuel := by omega
  obtain ⟨P, p1, p2, p3, p4, p5, p6, p7⟩ := compact_log g write_size metadata_max block_cycles
    d fill dir delta fuel L r hg hws hdiv hmm hmm20 hb0 hne ho hL hw hc hf1 hr hr0
  have hlen2 := block_log_length r.2.1 dir.pair1 (P ++ log_live L) r.2.2.offset r.2.2.etag p2
  have hgt : gtag < 4294967296 := by have := hq.1; omega
  have hgg : getslice_gtag gtag 0 = gtag := by
    rw [getslice_gtag_eq gtag 0 hgt (by decide)]
    omega
  have hq' : lookup_ok gmask (getslice_gtag gtag 0) := by rw [hgg]; exact hq
  have hold : lfs_dir_get g d gdisk dir gmask gtag fuel
      = some (log_get gmask gtag (lfs_tag_size gtag) L 0) := by
    unfold lfs_dir_get lfs_dir_getslice
    rw [if_neg (by rw [hmove]; exact fun hx => absurd hx.1 (by decide))]
    exact getslice_loop_dir g d dir.pair0 gmask gtag _ fuel dir.offset dir.etag 0 L hb0 ho hg
      hL hq' he hf1
  have hnew : lfs_dir_get g r.2.1 gdisk r.2.2 gmask gtag fuel
      = some (log_get gmask gtag (lfs_tag_size gtag) (P ++ log_live L) 0) := by
    unfold lfs_dir_get lfs_dir_getslice
    rw [p3, p4, hasmovehere_swap, if_neg (by rw [hmove]; exact fun hx => absurd hx.1 (by decide))]
    exact getslice_loop_dir g r.2.1 dir.pair1 gmask gtag _ fuel r.2.2.offset r.2.2.etag 0 _
      hb1 p5 hg p2 hq' (Or.inl p6) (by omega)
  refine ⟨?_, hold⟩
  rw [hnew, hold, log_get_pair_tags gmask gtag _ 0 hq' (log_live L) P p1,
    log_get_live gmask gtag _ hgt L 0 hw (by decide) hq'
      (Or.inl (by rw [hgg, ← lfs_tag_id_eq, ← hc]; exact hid))]

set_option maxRecDepth 1000000 in
/-- The block `example_attr_block` compacted onto block 1: the lookup of the
struct of id 1, as `lfs_fs_rawtraverse` makes it, gives the CTZ struct of the
file `a` before and after. -/
theorem C12_compaction_preserves_lookups_witness :
    lfs_dir_get ⟨256, 4⟩
        ((lfs_dir_compact ⟨256, 4⟩ 8 0 (-1) (disk_of_blocks [example_attr_block])
          (fun _ => 0xff) example_attr_dir none 0 2 100).getD
            (0, fun _ _ => 0, example_attr_dir)).2.1
        ⟨0, 0, 0, 0⟩
        ((lfs_dir_compact ⟨256, 4⟩ 8 0 (-1) (disk_of_blocks [example_attr_block])
          (fun _ => 0xff) example_attr_dir none 0 2 100).getD
            (0, fun _ _ => 0, example_attr_dir)).2.2
        (LFS_MKTAG LFS_TYPE_GLOBALS 0x3ff 0) (LFS_MKTAG LFS_TYPE_STRUCT 1 16) 100
      = lfs_dir_get ⟨256, 4⟩ (disk_of_blocks [example_attr_block]) ⟨0, 0, 0, 0⟩
          example_attr_dir (LFS_MKTAG LFS_TYPE_GLOBALS 0x3ff 0)
          (LFS_MKTAG LFS_TYPE_STRUCT 1 16) 100
    ∧ lfs_dir_get ⟨256, 4⟩ (disk_of_blocks [example_attr_block]) ⟨0, 0, 0, 0⟩
          example_attr_dir (LFS_MKTAG LFS_TYPE_GLOBALS 0x3ff 0)
          (LFS_MKTAG LFS_TYPE_STRUCT 1 16) 100
      = some (538969104, some [9, 0, 0, 0, 0, 0, 0, 0, 44, 1, 0, 0, 0, 0, 0, 0]) := by
  have h := C12_compaction_preserves_lookups ⟨256, 4⟩ 8 0 (-1)
    (disk_of_blocks [example_attr_block]) (fun _ => 0xff) example_attr_dir none 100
    example_attr_log
    ((lfs_dir_compact ⟨256, 4⟩ 8 0 (-1) (disk_of_blocks [example_attr_block])
      (fun _ => 0xff) example_attr_dir none 0 2 100).getD (0, fun _ _ => 0, example_attr_dir))
    ⟨0, 0, 0, 0⟩ (LFS_MKTAG LFS_TYPE_GLOBALS 0x3ff 0) (LFS_MKTAG LFS_TYPE_STRUCT 1 16)
    (by decide) (by decide) ⟨32, rfl⟩ (by decide) (by decide) (by decide) (by decide)
    (by decide) (by decide) (by decide) (by decide) (by decide) (by decide) (by decide)
    (option_eq_some_getD _ _ (by decide)) (by decide) (by decide) (by decide) (by decide)
  exact ⟨h.1, h.2.trans (by decide)⟩

set_option maxRecDepth 1000000 in
/-- C12 (as stated) fails for a lookup by the full type: the file `a` of
`example_attr_block` (id 1, below the count 2) was written with an inline
struct and later given a CTZ struct.  Before the compaction `lfs_dir_get`
with the mask of the full type finds the inline struct of id 1; the
compaction keeps only the latest struct of every id, and after it the same
lookup returns `LFS_ERR_NOENT`. -/
theorem C12_compaction_counterexample :
    example_attr_dir.count = 2
      ∧ lfs_dir_get ⟨256, 4⟩ (disk_of_blocks [example_attr_block]) ⟨0, 0, 0, 0⟩
          example_attr_dir (LFS_MKTAG 0x7ff 0x3ff 0) (LFS_MKTAG LFS_TYPE_INLINESTRUCT 1 16) 100
        = some (537920514, some [1, 2, 0, 0, 0, 0, 0, 0, 0, 0, 0, 0, 0, 0, 0, 0])
      ∧ (lfs_dir_compact ⟨256, 4⟩ 8 0 (-1) (disk_of_blocks [example_attr_block])
          (fun _ => 0xff) example_attr_dir none 0 2 100).map
          (fun r => (r.1, lfs_dir_get ⟨256, 4⟩ r.2.1 ⟨0, 0, 0, 0⟩ r.2.2
            (LFS_MKTAG 0x7ff 0x3ff 0) (LFS_MKTAG LFS_TYPE_INLINESTRUCT 1 16) 100))
        = some (0, some (LFS_ERR_NOENT, none)) := by
  refine ⟨rfl, by decide, by decide⟩

theorem preporphans_tag (gstate : lfs_gstate_t) (n : Int) (ht : gstate.tag < 4294967296)
    (h0 : 0 ≤ (lfs_tag_size gstate.tag : Int) + n)
    (h1 : (lfs_tag_size gstate.tag : Int) + n ≤ 0x3ff) :
    ((lfs_fs_preporphans gstate n).2.tag : Int)
      = ((gstate.tag % 2147483648 : Nat) : Int) + n
        + (if (lfs_tag_size gstate.tag : Int) + n ≠ 0 then 2147483648 else 0) := by
  rw [lfs_tag_size_eq_mod] at h0 h1 ⊢
  obtain ⟨u, hu⟩ : ∃ u : Nat, (u : Int) = (gstate.tag : Int) + n :=
    ⟨((gstate.tag : Int) + n).toNat, Int.toNat_of_nonneg (by omega)⟩
  have hof : ofInt32 ((gstate.tag : Int) + n) = u := by
    unfold ofInt32
    rw [← hu]
    have : ((u : Int) % 4294967296) = ((u % 4294967296 : Nat) : Int) := by omega
    rw [this, Int.toNat_ofNat]
    omega
  have hm : (0xffffffff ^^^ LFS_MKTAG LFS_TYPE_HAS_ORPHANS 0 0) = 0x7fffffff := by decide
  show (((ofInt32 ((gstate.tag : Int) + n) &&& (0xffffffff ^^^ LFS_MKTAG LFS_TYPE_HAS_ORPHANS 0 0))
        ||| wrap32 ((if lfs_gstate_hasorphans
            { gstate with tag := ofInt32 ((gstate.tag : Int) + n) } then 1 else 0) <<< 31) : Nat)
        : Int) = _
  rw [hof, hm, land_low31]
  unfold lfs_gstate_hasorphans
  simp only [lfs_tag_size_eq_mod, ne_eq, decide_not, Bool.not_eq_true', decide_eq_false_iff_not]
  by_cases hz : u % 1024 = 0
  · rw [if_neg (not_not.mpr hz), if_neg (by omega)]
    simp only [Nat.zero_shiftLeft, wrap32, Nat.zero_mod, Nat.or_zero]
    omega
  · rw [if_pos hz, if_pos (by omega)]
    have e : wrap32 (1 <<< 31) = 0x80000000 := by decide
    rw [e, lor_bit31 _ (by omega)]
    omega

theorem preporphans_fields (t r : Nat) (n : Int)
    (h0 : 0 ≤ ((t % 1024 : Nat) : Int) + n) (h1 : ((t % 1024 : Nat) : Int) + n ≤ 0x3ff)
    (hr : (r : Int) = ((t % 2147483648 : Nat) : Int) + n
        + (if ((t % 1024 : Nat) : Int) + n ≠ 0 then 2147483648 else 0)) :
    ((r % 1024 : Nat) : Int) = ((t % 1024 : Nat) : Int) + n
      ∧ (r / 2147483648 % 2 = 1 ↔ ((t % 1024 : Nat) : Int) + n ≠ 0)
      ∧ r / 1048576 % 2048 = t / 1048576 % 2048
      ∧ r / 1024 % 1024 = t / 1024 % 1024
      ∧ r < 4294967296 := by
  split_ifs at hr with hz <;> omega

/-- C40: for a state whose tag holds the orphan count `c` in its size field
and an `n` with `0 <= c + n <= 0x3ff`, `lfs_fs_preporphans(n)` returns 0,
makes the count `c + n`, sets bit 31 of `gstate.tag` exactly when `c + n` is
not zero, and leaves the move type, the move id and the pair unchanged.
`lfs_fs_preporphans(+1)` followed by `lfs_fs_preporphans(-1)` gives back the
state with bit 31 of its tag set exactly when `c` is not zero: that is the
state itself when bit 31 already agreed with the count. -/
theorem C40_preporphans_updates_count (gstate : lfs_gstate_t) (n : Int)
    (ht : gstate.tag < 4294967296)
    (h0 : 0 ≤ (lfs_tag_size gstate.tag : Int) + n)
    (h1 : (lfs_tag_size gstate.tag : Int) + n ≤ 0x3ff) :
    (lfs_fs_preporphans gstate n).1 = LFS_ERR_OK
      ∧ (lfs_tag_size (lfs_fs_preporphans gstate n).2.tag : Int)
          = (lfs_tag_size gstate.tag : Int) + n
      ∧ ((lfs_fs_preporphans gstate n).2.tag &&& 0x80000000 ≠ 0
          ↔ (lfs_tag_size gstate.tag : Int) + n ≠ 0)
      ∧ lfs_tag_type3 (lfs_fs_preporphans gstate n).2.tag = lfs_tag_type3 gstate.tag
      ∧ lfs_tag_id (lfs_fs_preporphans gstate n).2.tag = lfs_tag_id gstate.tag
      ∧ (lfs_fs_preporphans gstate n).2.pair0 = gstate.pair0
      ∧ (lfs_fs_preporphans gstate n).2.pair1 = gstate.pair1
      ∧ (lfs_tag_size gstate.tag < 0x3ff →
          (lfs_fs_preporphans (lfs_fs_preporphans gstate 1).2 (-1)).2
            = { gstate with
                tag := gstate.tag % 2147483648
                  + (if lfs_tag_size gstate.tag ≠ 0 then 2147483648 else 0) })
      ∧ (lfs_tag_size gstate.tag < 0x3ff →
          (gstate.tag &&& 0x80000000 ≠ 0 ↔ lfs_tag_size gstate.tag ≠ 0) →
          (lfs_fs_preporphans (lfs_fs_preporphans gstate 1).2 (-1)).2 = gstate) := by
  have key := preporphans_tag gstate n ht h0 h1
  have hs := lfs_tag_size_eq_mod gstate.tag
  rw [hs] at h0 h1 key
  obtain ⟨f1, f2, f3, f4, _⟩ := preporphans_fields gstate.tag _ n h0 h1 key
  have hb : ∀ x : Nat, x &&& 0x80000000 ≠ 0 ↔ x / 2147483648 % 2 = 1 := by
    intro x
    have := land_field 31 1 x
    norm_num at this
    rw [this]
    omega
  have round : lfs_tag_size gstate.tag < 0x3ff →
      (lfs_fs_preporphans (lfs_fs_preporphans gstate 1).2 (-1)).2
        = { gstate with
            tag := gstate.tag % 2147483648
              + (if lfs_tag_size gstate.tag ≠ 0 then 2147483648 else 0) } := by
    intro hc
    rw [hs] at hc
    have k1 := preporphans_tag gstate 1 ht (by rw [hs]; omega) (by rw [hs]; omega)
    rw [hs] at k1
    obtain ⟨g1, _, _, _, g5⟩ := preporphans_fields gstate.tag _ 1 (by omega) (by omega) k1
    have k2 := preporphans_tag (lfs_fs_preporphans gstate 1).2 (-1) g5
      (by rw [lfs_tag_size_eq_mod]; omega) (by rw [lfs_tag_size_eq_mod]; omega)
    rw [lfs_tag_size_eq_mod] at k2
    have e : (lfs_fs_preporphans (lfs_fs_preporphans gstate 1).2 (-1)).2.tag
        = gstate.tag % 2147483648
          + (if lfs_tag_size gstate.tag ≠ 0 then 2147483648 else 0) := by
      rw [hs]
      split_ifs at k1 k2 ⊢ <;> omega
    show ({ (lfs_fs_preporphans gstate 1).2 with tag := _ } : lfs_gstate_t) = _
    have e2 : (lfs_fs_preporphans (lfs_fs_preporphans gstate 1).2 (-1)).2.tag = _ := e
    exact congrArg (fun t => ({ gstate with tag := t } : lfs_gstate_t)) e2
  refine ⟨rfl, ?_, ?_, ?_, ?_, rfl, rfl, round, ?_⟩
  · rw [lfs_tag_size_eq_mod, hs]; exact f1
  · rw [hb, hs]; exact f2
  · rw [lfs_tag_type3_eq, lfs_tag_type3_eq]; exact f3
  · rw [lfs_tag_id_eq, lfs_tag_id_eq]; exact f4
  · intro hc hbit
    rw [round hc]
    rw [hb, hs] at hbit
    have : gstate.tag % 2147483648
        + (if lfs_tag_size gstate.tag ≠ 0 then 2147483648 else 0) = gstate.tag := by
      rw [hs]
      split_ifs <;> omega
    rw [this]

theorem C40_preporphans_updates_count_witness :
    (lfs_fs_preporphans ⟨LFS_MKTAG LFS_TYPE_DELETE 3 2 ||| 0x80000000, 0, 6, 7⟩ (-2)).2
        = ⟨LFS_MKTAG LFS_TYPE_DELETE 3 0, 0, 6, 7⟩
      ∧ (lfs_fs_preporphans (lfs_fs_preporphans
            ⟨LFS_MKTAG LFS_TYPE_DELETE 3 2 ||| 0x80000000, 0, 6, 7⟩ 1).2 (-1)).2
          = ⟨LFS_MKTAG LFS_TYPE_DELETE 3 2 ||| 0x80000000, 0, 6, 7⟩ := by
  have h := C40_preporphans_updates_count
    ⟨LFS_MKTAG LFS_TYPE_DELETE 3 2 ||| 0x80000000, 0, 6, 7⟩ (-2) (by decide) (by decide)
    (by decide)
  exact ⟨by decide, h.2.2.2.2.2.2.2.2 (by decide) (by decide)⟩

/-- C40, the state the round trip does not restore: bit 31 of the tag is set
while the count is 0; `lfs_fs_preporphans(+1)` then `lfs_fs_preporphans(-1)`
leaves the tag 0. -/
theorem C40_preporphans_counterexample :
    lfs_tag_size 0x80000000 = 0
      ∧ (lfs_fs_preporphans ⟨0x80000000, 0, 0, 0⟩ 1).2 = ⟨0x80000001, 0, 0, 0⟩
      ∧ (lfs_fs_preporphans (lfs_fs_preporphans ⟨0x80000000, 0, 0, 0⟩ 1).2 (-1)).2
          = ⟨0, 0, 0, 0⟩
      ∧ (lfs_fs_preporphans (lfs_fs_preporphans ⟨0x80000000, 0, 0, 0⟩ 1).2 (-1)).2
          ≠ ⟨0x80000000, 0, 0, 0⟩ := by
  decide

/-- C38, evaluated where it fails: on an erased device (every byte 0xff) the
revision word of the new pair reads 0xffffffff.  With `block_cycles = 2` the
modulus is 3, `lfs_alignup` in 64 bits leaves 0xffffffff (a multiple of 3),
and `lfs_dir_needs_relocation` is true for the directory that `lfs_dir_alloc`
returns, since `revision_count + 1` wraps to 0; the same holds for
`block_cycles = 16` (modulus 17) and 254 (modulus 255).  With
`block_cycles = 100` the aligned value 4294967329 is cut to 33, which is not
a multiple of the modulus 101. -/
theorem C38_fresh_pair_needs_relocation :
    lfs_dir_alloc ⟨4096, 16⟩ (fun _ _ => 0xff) 2 (0, 5) (0, 4)
        ⟨0, 0, 0, 0, 0, 0, false, false, 0, 0⟩
      = (0, ⟨4, 5, 0xffffffff, 4, 0xffffffff, 0, false, false, LFS_BLOCK_NULL, LFS_BLOCK_NULL⟩)
      ∧ lfs_dir_needs_relocation 2
          (lfs_dir_alloc ⟨4096, 16⟩ (fun _ _ => 0xff) 2 (0, 5) (0, 4)
            ⟨0, 0, 0, 0, 0, 0, false, false, 0, 0⟩).2.revision_count = true
      ∧ lfs_dir_needs_relocation 16
          (lfs_dir_alloc ⟨4096, 16⟩ (fun _ _ => 0xff) 16 (0, 5) (0, 4)
            ⟨0, 0, 0, 0, 0, 0, false, false, 0, 0⟩).2.revision_count = true
      ∧ lfs_dir_needs_relocation 254
          (lfs_dir_alloc ⟨4096, 16⟩ (fun _ _ => 0xff) 254 (0, 5) (0, 4)
            ⟨0, 0, 0, 0, 0, 0, false, false, 0, 0⟩).2.revision_count = true
      ∧ (lfs_dir_alloc ⟨4096, 16⟩ (fun _ _ => 0xff) 100 (0, 5) (0, 4)
            ⟨0, 0, 0, 0, 0, 0, false, false, 0, 0⟩).2.revision_count = 33
      ∧ 33 % ((100 + 1) ||| 1) ≠ 0 := by
  decide

theorem xor_land15_zero (c x : Nat) (h : c % 16 = x % 16) : (c ^^^ x) &&& 0xf = 0 := by
  have e : (0xf : Nat) = 2 ^ 4 - 1 := by norm_num
  rw [e, Nat.and_pow_two_sub_one_eq_mod]
  apply Nat.eq_of_testBit_eq
  intro i
  rw [Nat.testBit_mod_two_pow, Nat.testBit_xor, Nat.zero_testBit]
  by_cases hi : i < 4
  · have h1 : (c % 2 ^ 4).testBit i = (x % 2 ^ 4).testBit i := by
      have : (2 : Nat) ^ 4 = 16 := by norm_num
      rw [this, h]
    rw [Nat.testBit_mod_two_pow, Nat.testBit_mod_two_pow] at h1
    simp only [hi, decide_True, Bool.true_and] at h1
    simp [hi, h1]
  · simp [hi]

theorem lfs_crc_byte_self (x b : Nat) (h : b % 256 = x % 256) : lfs_crc_byte x b = x / 256 := by
  unfold lfs_crc_byte
  dsimp only
  have t0 : crc_rtable.getD 0 0 = 0 := rfl
  rw [xor_land15_zero x (b % 256) (by omega), t0, Nat.xor_zero,
    xor_land15_zero (x >>> 4) ((b % 256) >>> 4) (by
      simp only [Nat.shiftRight_eq_div_pow]
      omega), t0, Nat.xor_zero]
  simp only [Nat.shiftRight_eq_div_pow]
  omega

theorem crc_rtable_lt (i : Nat) : crc_rtable.getD i 0 < 4294967296 := by
  by_cases h : i < 16
  · interval_cases i <;> decide
  · unfold crc_rtable
    rw [List.getD_eq_default _ _ (by simp; omega)]
    omega

theorem shr4_lt (y : Nat) (h : y < 4294967296) : y >>> 4 < 4294967296 := by
  rw [Nat.shiftRight_eq_div_pow]
  omega

theorem lfs_crc_byte_lt (c b : Nat) (h : c < 4294967296) : lfs_crc_byte c b < 4294967296 := by
  unfold lfs_crc_byte
  dsimp only
  exact xor_lt_two_pow32 _ _
    (shr4_lt _ (xor_lt_two_pow32 _ _ (shr4_lt _ h) (crc_rtable_lt _))) (crc_rtable_lt _)

theorem lfs_crc_lt : ∀ (s : List Nat) (c : Nat), c < 4294967296 → lfs_crc c s < 4294967296
  | [], _, h => h
  | b :: s, c, h => lfs_crc_lt s (lfs_crc_byte c b) (lfs_crc_byte_lt c b h)

theorem lfs_crc_append (c : Nat) (s t : List Nat) :
    lfs_crc c (s ++ t) = lfs_crc (lfs_crc c s) t := by
  unfold lfs_crc
  rw [List.foldl_append]

theorem lfs_crc_tole32_self (x : Nat) (h : x < 4294967296) : lfs_crc x (lfs_tole32 x) = 0 := by
  have e : lfs_tole32 x = [x % 256, x / 256 % 256, x / 65536 % 256, x / 16777216 % 256] := by
    unfold lfs_tole32
    simp [List.range_succ]
  rw [e]
  unfold lfs_crc
  simp only [List.foldl]
  rw [lfs_crc_byte_self x _ (by omega), lfs_crc_byte_self (x / 256) _ (by omega),
    lfs_crc_byte_self (x / 256 / 256) _ (by omega),
    lfs_crc_byte_self (x / 256 / 256 / 256) _ (by omega)]
  omega
theorem commit_crc_sum_bytes (g : Geometry) (d : Disk) (block off1 crc1 limit : Nat)
    (hb : block < g.block_count) (hl : limit ≤ g.block_size)
    (hl64 : limit < 18446744073709551616) :
    ∀ (bytes : List Nat) (n i crc : Nat), i + bytes.length = limit → bytes.length ≤ n →
      (∀ j, j < bytes.length → d block (i + j) = bytes.getD j 0) →
      (∀ k, k < bytes.length → i + k = off1 → lfs_crc crc (bytes.take k) = crc1) →
      commit_crc_sum g d block off1 crc1 limit n i crc = .ok (lfs_crc crc bytes)
  | [], 0, _, _, _, _, _, _ => rfl
  | [], n + 1, i, crc, hi, _, _, _ => by
    simp only [List.length_nil, Nat.add_zero] at hi
    show (if i < limit then _ else _) = _
    rw [if_neg (by omega)]
    rfl
  | b :: bs, 0, _, _, _, hn, _, _ => absurd hn (by simp)
  | b :: bs, n + 1, i, crc, hi, hn, hd, hc => by
    simp only [List.length_cons] at hi hn
    show (if i < limit then _ else _) = _
    rw [if_pos (by omega)]
    have h0 : ¬ (i = off1 ∧ crc ≠ crc1) := by
      intro ⟨h1, h2⟩
      exact h2 (hc 0 (by simp) (by omega))
    rw [if_neg h0]
    have hr : lfs_bd_read g d block i 1 = .ok [b] := by
      unfold lfs_bd_read
      rw [if_neg (by unfold wrap64; omega)]
      have := hd 0 (by simp)
      simp only [Nat.add_zero, List.getD_cons_zero] at this
      simp [List.range_succ, this]
    rw [hr]
    show commit_crc_sum g d block off1 crc1 limit n (i + 1) (lfs_crc crc [b]) = _
    rw [commit_crc_sum_bytes g d block off1 crc1 limit hb hl hl64 bs n (i + 1) (lfs_crc crc [b])
      (by omega) (by omega)
      (fun j hj => by
        have := hd (j + 1) (by simp; omega)
        rw [List.getD_cons_succ] at this
        rw [← this]
        congr 1
        omega)
      (fun k hk he => by
        have := hc (k + 1) (by simp; omega) (by omega)
        rw [List.take_succ_cons] at this
        exact this)]
    rfl

/-- C34: for every 32-bit start value `c` and every byte sequence `s`,
`lfs_crc` run from `c` over `s` followed by the four little-endian bytes of
`lfs_crc(c, s)` is 0.  The check at the end of `lfs_dir_commit_crc` rests on
it: over a region of a block that holds `s` and then the stored checksum of
`s`, its `for` loop ends with the checksum 0 (and passes the comparison with
`crc1` at `off1`), so it does not report `LFS_ERR_CORRUPT`. -/
theorem C34_crc_of_data_and_checksum_is_zero (c : Nat) (s : List Nat) (hc : c < 4294967296) :
    lfs_crc c (s ++ lfs_tole32 (lfs_crc c s)) = 0
      ∧ ∀ (g : Geometry) (d : Disk) (block offset : Nat),
          block < g.block_count → offset + s.length + 4 ≤ g.block_size →
          g.block_size < 18446744073709551616 →
          (∀ j, j < s.length + 4 →
            d block (offset + j) = (s ++ lfs_tole32 (lfs_crc c s)).getD j 0) →
          commit_crc_sum g d block (offset + s.length) (lfs_crc c s) (offset + s.length + 4)
            (s.length + 4) offset c = .ok 0 := by
  have key : lfs_crc c (s ++ lfs_tole32 (lfs_crc c s)) = 0 := by
    rw [lfs_crc_append]
    exact lfs_crc_tole32_self _ (lfs_crc_lt s c hc)
  have hlen : (s ++ lfs_tole32 (lfs_crc c s)).length = s.length + 4 := by
    rw [List.length_append, lfs_tole32_length]
  refine ⟨key, ?_⟩
  intro g d block offset hb hfit hg hd
  rw [← key]
  exact commit_crc_sum_bytes g d block _ _ _ hb hfit (by omega) _ _ offset c
    (by rw [hlen]; omega) (by rw [hlen]) (fun j hj => hd j (by rw [hlen] at hj; exact hj))
    (fun k hk he => by
      have : k = s.length := by omega
      rw [this, List.take_left' rfl])

theorem C34_crc_of_data_and_checksum_is_zero_witness :
    (0xffffffff : Nat) < 4294967296
      ∧ lfs_crc 0xffffffff ([1, 2, 3] ++ lfs_tole32 (lfs_crc 0xffffffff [1, 2, 3])) = 0 :=
  ⟨by decide, (C34_crc_of_data_and_checksum_is_zero 0xffffffff [1, 2, 3] (by decide)).1⟩

/-- C37, evaluated where it fails: with `erase_size = 16` and
`block_size = 32` (read and write size 8), the read of 16 bytes at offset 8
of logical block 0 is one device call of 16 bytes at offset 8 of erase unit
0, which ends at 24 > 16, and the assertion in the loop does not hold; the
read of the whole block (32 bytes at offset 0) is two calls that stay inside
their units, but the assertion fails before the first, and both calls are
given the start of the buffer, so the second half of the buffer is never
filled.  `lfs_bd_rawprog` issues the same calls.  With `block_size` equal to
`erase_size` one call covers the range. -/
theorem C37_raw_io_leaves_erase_unit :
    lfs_bd_rawread 32 16 0 8 16 10 = some [⟨0, 8, 16, 0, false⟩]
      ∧ lfs_bd_rawprog 32 16 0 8 16 10 = some [⟨0, 8, 16, 0, false⟩]
      ∧ lfs_bd_rawread 32 16 0 0 32 10 = some [⟨0, 0, 16, 0, false⟩, ⟨1, 0, 16, 0, true⟩]
      ∧ lfs_bd_rawprog 32 16 0 0 32 10 = some [⟨0, 0, 16, 0, false⟩, ⟨1, 0, 16, 0, true⟩]
      ∧ lfs_bd_rawread 32 16 3 24 8 10 = some [⟨7, 8, 8, 0, true⟩]
      ∧ lfs_bd_rawread 32 32 3 8 16 10 = some [⟨3, 8, 16, 0, true⟩] := by
  decide

theorem bd_write_loop_nil {σ : Type} (cache_size write_size : Nat)
    (flush : lfs_cache_t → σ → Int × lfs_cache_t × σ) (block fuel : Nat) (wc : lfs_cache_t)
    (s : σ) (offset n : Nat) :
    bd_write_loop cache_size write_size flush block fuel wc s offset [] n
      = some (LFS_ERR_OK, wc, s, n) := by
  cases fuel <;> rfl

theorem bd_write_loop_count {σ : Type} (cache_size write_size : Nat)
    (flush : lfs_cache_t → σ → Int × lfs_cache_t × σ) (block : Nat) :
    ∀ (fuel : Nat) (wc : lfs_cache_t) (s : σ) (offset : Nat) (data : List Nat) (n : Nat)
      (r : Int × lfs_cache_t × σ × Nat),
      bd_write_loop cache_size write_size flush block fuel wc s offset data n = some r →
      n ≤ r.2.2.2 := by
  intro fuel
  induction fuel with
  | zero =>
    intro wc s offset data n r h
    simp only [bd_write_loop] at h
    split_ifs at h
    simp only [Option.some.injEq] at h
    rw [← h]
  | succ fuel ih =>
    intro wc s offset data n r h
    simp only [bd_write_loop] at h
    split_ifs at h
    · simp only [Option.some.injEq] at h
      rw [← h]
      exact Nat.le_succ _
    · exact Nat.le_of_succ_le (ih _ _ _ _ _ _ h)
    · exact ih _ _ _ _ _ _ h
    · exact ih _ _ _ _ _ _ h
    · simp only [Option.some.injEq] at h
      rw [← h]

theorem bd_write_loop_cached {σ : Type} (cache_size write_size : Nat)
    (flush : lfs_cache_t → σ → Int × lfs_cache_t × σ) (block : Nat)
    (hcs : cache_size < 18446744073709551616) :
    ∀ (fuel : Nat) (wc : lfs_cache_t) (s : σ) (offset : Nat) (data : List Nat) (n : Nat)
      (r : Int × lfs_cache_t × σ × Nat),
      data ≠ [] → wc.size ≤ cache_size → wc.offset < 18446744073709551616 →
      offset + data.length < 18446744073709551616 →
      bd_write_loop cache_size write_size flush block fuel wc s offset data n = some r →
      r.2.2.2 = n →
      r.2.1.block = block ∧ r.2.1.offset ≤ offset
        ∧ offset + data.length ≤ r.2.1.offset + r.2.1.size
        ∧ r.2.1.offset + r.2.1.size < 18446744073709551616
        ∧ ∀ j, j < data.length → r.2.1.buffer (offset - r.2.1.offset + j) = data.getD j 0 := by
  intro fuel
  induction fuel with
  | zero =>
    intro wc s offset data n r hd _ _ _ h _
    have hl : data.length > 0 := List.length_pos.mpr hd
    simp only [bd_write_loop] at h
    rw [if_pos hl] at h
    exact absurd h (by simp)
  | succ fuel ih =>
    intro wc s offset data n r hd hsz hwo hfit h hn
    have hl : data.length > 0 := List.length_pos.mpr hd
    simp only [bd_write_loop] at h
    rw [if_pos hl] at h
    by_cases hC : block = wc.block ∧ offset ≥ wc.offset
        ∧ offset < wrap64 (wc.offset + cache_size)
    · rw [if_pos hC] at h
      obtain ⟨hb, hge, hlt⟩ := hC
      have hlt2 : wc.offset + cache_size < 18446744073709551616 := by
        unfold wrap64 at hlt
        omega
      have hlt3 : offset < wc.offset + cache_size := by
        unfold wrap64 at hlt
        omega
      have e1 : sub64 offset wc.offset = offset - wc.offset := by
        unfold sub64
        omega
      have e2 : sub64 cache_size (sub64 offset wc.offset) = cache_size - (offset - wc.offset) := by
        rw [e1]
        unfold sub64
        omega
      rw [e2, e1] at h
      have hdl : lfs_min data.length (cache_size - (offset - wc.offset)) ≤ data.length := by
        unfold lfs_min
        split_ifs <;> omega
      have hdc : lfs_min data.length (cache_size - (offset - wc.offset))
          ≤ cache_size - (offset - wc.offset) := by
        unfold lfs_min
        split_ifs <;> omega
      have hdd : lfs_min data.length (cache_size - (offset - wc.offset)) < data.length →
          lfs_min data.length (cache_size - (offset - wc.offset))
            = cache_size - (offset - wc.offset) := by
        unfold lfs_min
        split_ifs <;> omega
      have e3 : sub64 (wrap64 (offset
          + lfs_min data.length (cache_size - (offset - wc.offset)))) wc.offset
          = offset + lfs_min data.length (cache_size - (offset - wc.offset)) - wc.offset := by
        unfold sub64 wrap64
        omega
      rw [e3] at h
      by_cases hfull : lfs_max wc.size
          (offset + lfs_min data.length (cache_size - (offset - wc.offset)) - wc.offset)
          = cache_size
      · rw [if_pos hfull] at h
        split_ifs at h
        · simp only [Option.some.injEq] at h
          rw [← h] at hn
          simp at hn
        · have := bd_write_loop_count _ _ _ _ _ _ _ _ _ _ _ h
          omega
      · rw [if_neg hfull] at h
        have hmax : lfs_max wc.size
            (offset + lfs_min data.length (cache_size - (offset - wc.offset)) - wc.offset)
            < cache_size := by
          unfold lfs_max at hfull ⊢
          split_ifs at hfull ⊢ <;> omega
        have hall : lfs_min data.length (cache_size - (offset - wc.offset)) = data.length := by
          by_contra hne
          have := hdd (by omega)
          unfold lfs_max at hmax
          split_ifs at hmax <;> omega
        rw [hall, List.drop_length, bd_write_loop_nil] at h
        simp only [Option.some.injEq] at h
        rw [← h]
        simp only
        unfold lfs_max at hmax ⊢
        rw [hall] at hmax
        refine ⟨hb.symm, hge, by split_ifs <;> omega, by split_ifs at hmax ⊢ <;> omega, ?_⟩
        intro j hj
        unfold buffer_copy
        rw [if_pos ⟨by omega, by omega⟩]
        congr 1
        omega
    · rw [if_neg hC] at h
      exact ih _ _ _ _ _ _ hd (Nat.zero_le _)
        (by show lfs_aligndown offset write_size < _; unfold lfs_aligndown; omega) hfit h hn
theorem bd_read_loop_zero (g : Geometry) (read_size cache_size : Nat)
    (rawread : Nat → Nat → Nat → Int × List Nat) (wc : Option lfs_cache_t) (block hint : Nat)
    (fuel : Nat) (rc : lfs_cache_t) (offset : Nat) (out : List Nat) :
    bd_read_loop g read_size cache_size rawread wc block hint fuel rc offset 0 out
      = some (LFS_ERR_OK, out, rc) := by
  cases fuel <;> rfl

theorem cache_bytes_eq (w : lfs_cache_t) (offset : Nat) (data : List Nat)
    (ho : w.offset ≤ offset) (h64 : offset < 18446744073709551616)
    (h : ∀ j, j < data.length → w.buffer (offset - w.offset + j) = data.getD j 0) :
    cache_bytes w offset data.length = data := by
  unfold cache_bytes
  have e : sub64 offset w.offset = offset - w.offset := by
    unfold sub64
    omega
  rw [e]
  apply List.ext_getElem
  · rw [List.length_map, List.length_range]
  · intro i h1 h2
    rw [List.getElem_map, List.getElem_range, h i h2, List.getD_eq_getElem _ _ h2]

/-- C36: the write cache takes priority on reads.  When `lfs_bd_write` has
put `data` at `(block, offset)` without a call of `lfs_bd_flush` (the write
cache held this block or was given to it, and did not fill up), then
`lfs_bd_read` with that write cache returns 0 and exactly `data` for
`(block, offset, |data|)`, for every read cache, every hint and every
content of the device, and leaves the read cache as it was.  The write cache
before the write is any cache holding at most `cache_size` bytes. -/
theorem C36_read_served_from_write_cache {σ : Type} (g : Geometry)
    (read_size cache_size write_size : Nat) (flush : lfs_cache_t → σ → Int × lfs_cache_t × σ)
    (rawread : Nat → Nat → Nat → Int × List Nat) (wc rc : lfs_cache_t) (s : σ)
    (hint block offset : Nat) (data : List Nat) (fuelw fuel : Nat)
    (r : Int × lfs_cache_t × σ × Nat)
    (hcs : cache_size < 18446744073709551616) (hsz : wc.size ≤ cache_size)
    (hwo : wc.offset < 18446744073709551616)
    (hb : block < g.block_count) (hfit : offset + data.length ≤ g.block_size)
    (hg : g.block_size < 18446744073709551616)
    (hw : lfs_bd_write cache_size write_size flush wc s block offset data fuelw = some r)
    (hn : r.2.2.2 = 0) (hf : 0 < fuel) :
    lfs_bd_read_caches g read_size cache_size rawread (some r.2.1) rc hint block offset
        data.length fuel
      = some (LFS_ERR_OK, data, rc) := by
  unfold lfs_bd_read_caches
  rw [if_neg (by unfold wrap64; omega)]
  by_cases hd : data = []
  · subst hd
    exact bd_read_loop_zero _ _ _ _ _ _ _ _ _ _ _
  · obtain ⟨p1, p2, p3, p4, p5⟩ := bd_write_loop_cached cache_size write_size flush block hcs
      fuelw wc s offset data 0 r hd hsz hwo (by omega) hw hn
    have hl : data.length > 0 := List.length_pos.mpr hd
    obtain ⟨f, rfl⟩ : ∃ f, fuel = f + 1 := ⟨fuel - 1, by omega⟩
    simp only [bd_read_loop]
    rw [if_pos hl]
    have hin : in_write_cache (some r.2.1) block offset = true := by
      unfold in_write_cache cache_overlaps wrap64
      simp only [decide_eq_true_eq, Bool.decide_and, Bool.and_eq_true]
      exact ⟨⟨p1.symm, by omega⟩, p2⟩
    rw [if_pos hin]
    have hw2 : the_write_cache (some r.2.1) = r.2.1 := rfl
    rw [hw2]
    have e1 : sub64 r.2.1.size (sub64 offset r.2.1.offset)
        = r.2.1.size - (offset - r.2.1.offset) := by
      unfold sub64
      omega
    have e2 : lfs_min data.length (r.2.1.size - (offset - r.2.1.offset)) = data.length := by
      unfold lfs_min
      split_ifs <;> omega
    have e3 : sub64 data.length data.length = 0 := by
      unfold sub64
      omega
    rw [e1, e2, e3, bd_read_loop_zero, cache_bytes_eq r.2.1 offset data p2 (by omega) p5,
      List.nil_append]

theorem C36_read_served_from_write_cache_witness :
    (lfs_bd_write 16 8 example_cache_flush example_empty_cache () 3 10 [1, 2, 3] 5).isSome = true
      ∧ ((lfs_bd_write 16 8 example_cache_flush example_empty_cache () 3 10 [1, 2, 3] 5).getD
          (0, example_empty_cache, (), 1)).2.2.2 = 0
      ∧ lfs_bd_read_caches ⟨64, 8⟩ 8 16 (fun _ _ n => (0, List.replicate n 0))
          (some ((lfs_bd_write 16 8 example_cache_flush example_empty_cache () 3 10 [1, 2, 3]
            5).getD (0, example_empty_cache, (), 1)).2.1)
          example_stale_cache 4 3 10 3 5
        = some (LFS_ERR_OK, [1, 2, 3], example_stale_cache) :=
  ⟨by decide, by decide,
    C36_read_served_from_write_cache ⟨64, 8⟩ 8 16 8 example_cache_flush
      (fun _ _ n => (0, List.replicate n 0)) example_empty_cache example_stale_cache () 4 3 10
      [1, 2, 3] 5 5 _ (by decide) (by decide) (by decide) (by decide) (by decide) (by decide)
      (option_eq_some_getD _ _ (by decide)) (by decide) (by decide)⟩

theorem crc_noff_step (end_ off : Nat) (he : end_ < 9223372036854775808)
    (ho : off + 16 ≤ end_) :
    off + 16 ≤ crc_noff end_ off
      ∧ (crc_noff end_ off + 16 ≤ end_ ∨ crc_noff end_ off = end_) := by
  unfold crc_noff lfs_min sub64 wrap64
  split_ifs <;> omega

theorem crc_pass_facts (g : Geometry) (end_ : Nat) (s : crc_state)
    (he : end_ < 9223372036854775808) (ho : s.c.offset + 16 ≤ end_) :
    lfs_tag_size (crc_pass_tag g end_ s) ≤ 0x3fe
      ∧ (crc_pass g end_ s).c.offset = crc_noff end_ s.c.offset
      ∧ s.c.offset + 16 ≤ (crc_pass g end_ s).c.offset
      ∧ ((crc_pass g end_ s).c.offset + 16 ≤ end_ ∨ (crc_pass g end_ s).c.offset = end_)
      ∧ (crc_pass g end_ s).off1 = (if s.off1 = 0 then s.c.offset + 4 else s.off1) := by
  obtain ⟨n1, n2, _⟩ := crc_noff_facts end_ s.c.offset he (by omega)
  obtain ⟨m1, m2⟩ := crc_noff_step end_ s.c.offset he ho
  obtain ⟨_, _, _, t4, _⟩ := crc_tag_facts (crc_reset g s.d s.c.block (crc_noff end_ s.c.offset))
    (sub64 (crc_noff end_ s.c.offset) (wrap64 (s.c.offset + 4)))
    (crc_reset_le _ _ _ _) n1
  have e : (crc_pass g end_ s).c.offset = crc_noff end_ s.c.offset := by
    show wrap64 (s.c.offset + 4 + lfs_tag_size (crc_pass_tag g end_ s)) = _
    unfold crc_pass_tag
    rw [t4, n2]
    unfold wrap64
    omega
  refine ⟨by unfold crc_pass_tag; rw [t4]; exact n1, e, by rw [e]; exact m1,
    by rw [e]; exact m2, ?_⟩
  show (if s.off1 = 0 then wrap64 (s.c.offset + 4) else s.off1) = _
  unfold wrap64
  split_ifs <;> omega

theorem disk_prog_after (d : Disk) (block offset : Nat) (bytes : List Nat) (b o : Nat)
    (h : offset + bytes.length ≤ o) : disk_prog d block offset bytes b o = d b o := by
  unfold disk_prog
  rw [if_neg]
  intro hc
  omega

theorem disk_prog_rest (d : Disk) (block offset : Nat) (w rest : List Nat) (j : Nat)
    (hj : j < rest.length) :
    disk_prog d block offset (w ++ rest) block (offset + w.length + j) = rest.getD j 0 := by
  unfold disk_prog
  rw [if_pos ⟨rfl, by omega, by rw [List.length_append]; omega⟩,
    show offset + w.length + j - offset = w.length + j by omega,
    List.getD_append_right _ _ _ _ (by omega), Nat.add_sub_cancel_left]

theorem lfs_fromle32_tole32 (x : Nat) (h : x < 4294967296) :
    lfs_fromle32 (lfs_tole32 x) = x := by
  unfold lfs_fromle32 lfs_tole32
  simp [List.range_succ]
  omega

theorem read_four (g : Geometry) (d : Disk) (block offset : Nat) (w : List Nat)
    (hb : block < g.block_count) (ho : offset + 4 ≤ g.block_size)
    (hg : g.block_size < 9223372036854775808) (hl : w.length = 4)
    (hw : ∀ j, j < 4 → d block (offset + j) = w.getD j 0) :
    lfs_bd_read g d block offset 4 = .ok w := by
  rw [lfs_bd_read_ok g d block offset 4 hb ho hg]
  congr 1
  apply List.ext_getElem
  · rw [List.length_map, List.length_range, hl]
  · intro i h1 h2
    rw [List.getElem_map, List.getElem_range, hw i (by rw [hl] at h2; exact h2),
      List.getD_eq_getElem _ _ h2]

/-- Bit 31 of the xor of two 32-bit words. -/
theorem xor_bit31 (a b : Nat) :
    (a ^^^ b) / 2147483648 % 2 = (a / 2147483648 % 2 + b / 2147483648 % 2) % 2 := by
  have h := @Nat.testBit_xor a b 31
  rw [Nat.testBit_to_div_mod, Nat.testBit_to_div_mod, Nat.testBit_to_div_mod] at h
  have e : (2 : Nat) ^ 31 = 2147483648 := by norm_num
  rw [e] at h
  have ha := Nat.mod_lt (a / 2147483648) (show 0 < 2 by omega)
  have hb := Nat.mod_lt (b / 2147483648) (show 0 < 2 by omega)
  have hc := Nat.mod_lt ((a ^^^ b) / 2147483648) (show 0 < 2 by omega)
  by_cases h1 : a / 2147483648 % 2 = 1 <;> by_cases h2 : b / 2147483648 % 2 = 1 <;>
    by_cases h3 : (a ^^^ b) / 2147483648 % 2 = 1 <;> simp [h1, h2, h3] at h <;> omega
theorem crc_pass_read_after (g : Geometry) (end_ : Nat) (s : crc_state) (o n : Nat)
    (h : s.c.offset + 8 ≤ o) :
    lfs_bd_read g (crc_pass g end_ s).d s.c.block o n = lfs_bd_read g s.d s.c.block o n := by
  unfold lfs_bd_read
  congr 1
  congr 1
  apply List.map_congr_left
  intro j _
  show disk_prog s.d s.c.block s.c.offset _ s.c.block (o + j) = _
  apply disk_prog_after
  rw [List.length_append, lfs_tole32_length]
  have : (lfs_tobe32 (crc_pass_tag g end_ s ^^^ s.c.ptag)).length = 4 := rfl
  omega

theorem crc_pass_chunk (g : Geometry) (end_ : Nat) (s : crc_state)
    (he : end_ < 9223372036854775808) (ho : s.c.offset + 16 ≤ end_) :
    lfs_tag_chunk (crc_pass_tag g end_ s) &&& 1
      = crc_reset g s.d s.c.block (crc_noff end_ s.c.offset) := by
  obtain ⟨n1, _, _⟩ := crc_noff_facts end_ s.c.offset he (by omega)
  have hr := crc_reset_le g s.d s.c.block (crc_noff end_ s.c.offset)
  have hc : LFS_TYPE_CRC = 1280 := rfl
  have e := LFS_MKTAG_eq (LFS_TYPE_CRC + crc_reset g s.d s.c.block (crc_noff end_ s.c.offset))
    0x3ff (sub64 (crc_noff end_ s.c.offset) (wrap64 (s.c.offset + 4)))
    (by rw [hc]; omega) (by omega) (by omega)
  rw [lfs_tag_chunk_eq, Nat.and_one_is_mod]
  unfold crc_pass_tag
  rw [e, hc]
  omega
/-- The word that follows a CRC tag decodes as an invalid tag against the
accumulator that the writer keeps after the tag. -/
theorem crc_pass_next_invalid (g : Geometry) (end_ : Nat) (s : crc_state) (raw : List Nat)
    (he : end_ < 9223372036854775808) (ho : s.c.offset + 16 ≤ end_)
    (hr : lfs_bd_read g s.d s.c.block (crc_noff end_ s.c.offset) 4 = .ok raw) :
    lfs_tag_isvalid (lfs_frombe32 raw ^^^ (crc_pass g end_ s).c.ptag) = false := by
  obtain ⟨n1, _, _⟩ := crc_noff_facts end_ s.c.offset he (by omega)
  have hrl := crc_reset_le g s.d s.c.block (crc_noff end_ s.c.offset)
  obtain ⟨t1, _, _, _, t5, t6, _⟩ := crc_tag_facts
    (crc_reset g s.d s.c.block (crc_noff end_ s.c.offset))
    (sub64 (crc_noff end_ s.c.offset) (wrap64 (s.c.offset + 4))) hrl n1
  have hreset : crc_reset g s.d s.c.block (crc_noff end_ s.c.offset)
      = if lfs_frombe32 raw < 2147483648 then 1 else 0 := by
    unfold crc_reset
    rw [hr]
  have hW := lfs_frombe32_lt raw
  have hx := xor_bit31 (lfs_frombe32 raw) (crc_pass g end_ s).c.ptag
  have hp : (crc_pass g end_ s).c.ptag
      = crc_pass_tag g end_ s
        ^^^ wrap32 (crc_reset g s.d s.c.block (crc_noff end_ s.c.offset) <<< 31) := rfl
  have hx2 := xor_bit31 (crc_pass_tag g end_ s)
    (wrap32 (crc_reset g s.d s.c.block (crc_noff end_ s.c.offset) <<< 31))
  have hsh : wrap32 (crc_reset g s.d s.c.block (crc_noff end_ s.c.offset) <<< 31)
      = crc_reset g s.d s.c.block (crc_noff end_ s.c.offset) * 2147483648 := by
    unfold wrap32
    rw [Nat.shiftLeft_eq]
    omega
  have ht : crc_pass_tag g end_ s < 2147483648 := t1
  rw [← hp] at hx2
  rw [hsh] at hx2
  unfold lfs_tag_isvalid
  have hf := land_field 31 1 (lfs_frombe32 raw ^^^ (crc_pass g end_ s).c.ptag)
  norm_num at hf
  rw [hf]
  simp only [decide_eq_false_iff_not]
  split_ifs at hreset <;> omega

/-- C32: one pass of the loop of `lfs_dir_commit_crc`, for a commit with
`offset + 16 <= end`, and the scan of `lfs_dir_fetchmatch` over what it
wrote.  The low bit of the chunk of the CRC tag is the bit `reset`, which is
1 exactly when the word that follows the tag on disk has its leading bit 0.
A scanner that comes to the tag with the writer's previous tag and checksum
decodes the tag, finds the checksum equal, goes on, and has then the same
previous-tag accumulator as the writer, both having flipped bit 31 by that
bit, and the same next offset.  Whatever the word that follows is, it
decodes against this accumulator as an invalid tag, and the next pass of the
scanner stops. -/
theorem C32_crc_tag_phase_bit (g : Geometry) (write_size fmask ftag end_ : Nat)
    (cb : Nat → List Nat → Int) (s : crc_state) (t : fetch_state)
    (hb : s.c.block < g.block_count) (he : end_ ≤ g.block_size)
    (hg : g.block_size < 9223372036854775808) (ho : s.c.offset + 16 ≤ end_)
    (hp : s.c.ptag < 4294967296) (hc : s.c.crc < 4294967296)
    (ht1 : t.ptag = s.c.ptag) (ht2 : wrap64 (t.offset + lfs_tag_dsize t.ptag) = s.c.offset)
    (ht3 : t.crc = s.c.crc) :
    lfs_tag_chunk (crc_pass_tag g end_ s) &&& 1
        = crc_reset g (crc_pass g end_ s).d s.c.block (crc_pass g end_ s).c.offset
      ∧ (∀ raw, lfs_bd_read g (crc_pass g end_ s).d s.c.block (crc_pass g end_ s).c.offset 4
            = .ok raw →
          (lfs_tag_chunk (crc_pass_tag g end_ s) &&& 1 = 1 ↔ lfs_frombe32 raw < 2147483648))
      ∧ (crc_pass g end_ s).c.ptag
          = crc_pass_tag g end_ s
            ^^^ wrap32 ((lfs_tag_chunk (crc_pass_tag g end_ s) &&& 1) <<< 31)
      ∧ (fetch_step g (crc_pass g end_ s).d write_size s.c.block fmask ftag cb t).2 = .next
      ∧ (fetch_step g (crc_pass g end_ s).d write_size s.c.block fmask ftag cb t).1.ptag
          = (crc_pass g end_ s).c.ptag
      ∧ wrap64 ((fetch_step g (crc_pass g end_ s).d write_size s.c.block fmask ftag cb t).1.offset
            + lfs_tag_dsize
              (fetch_step g (crc_pass g end_ s).d write_size s.c.block fmask ftag cb t).1.ptag)
          = (crc_pass g end_ s).c.offset
      ∧ (∀ raw, lfs_bd_read g (crc_pass g end_ s).d s.c.block (crc_pass g end_ s).c.offset 4
            = .ok raw →
          lfs_tag_isvalid (lfs_frombe32 raw ^^^ (crc_pass g end_ s).c.ptag) = false)
      ∧ (fetch_step g (crc_pass g end_ s).d write_size s.c.block fmask ftag cb
          (fetch_step g (crc_pass g end_ s).d write_size s.c.block fmask ftag cb t).1).2
          = .stop := by
  have he2 : end_ < 9223372036854775808 := by omega
  obtain ⟨n1, n2, _⟩ := crc_noff_facts end_ s.c.offset he2 (by omega)
  obtain ⟨m1, m2⟩ := crc_noff_step end_ s.c.offset he2 ho
  have hrl := crc_reset_le g s.d s.c.block (crc_noff end_ s.c.offset)
  obtain ⟨t1, t2, t3, t4, t5, t6, _⟩ := crc_tag_facts
    (crc_reset g s.d s.c.block (crc_noff end_ s.c.offset))
    (sub64 (crc_noff end_ s.c.offset) (wrap64 (s.c.offset + 4))) hrl n1
  obtain ⟨_, p2, _, _, _⟩ := crc_pass_facts g end_ s he2 ho
  have hchunk := crc_pass_chunk g end_ s he2 ho
  have hread : ∀ n, lfs_bd_read g (crc_pass g end_ s).d s.c.block (crc_pass g end_ s).c.offset n
      = lfs_bd_read g s.d s.c.block (crc_noff end_ s.c.offset) n := by
    intro n
    rw [p2]
    exact crc_pass_read_after g end_ s _ n (by omega)
  have hreset : crc_reset g (crc_pass g end_ s).d s.c.block (crc_pass g end_ s).c.offset
      = crc_reset g s.d s.c.block (crc_noff end_ s.c.offset) := by
    unfold crc_reset
    rw [hread]
  have hptag : (crc_pass g end_ s).c.ptag
      = crc_pass_tag g end_ s
        ^^^ wrap32 ((lfs_tag_chunk (crc_pass_tag g end_ s) &&& 1) <<< 31) := by
    rw [hchunk]
    rfl
  have hinv : ∀ raw, lfs_bd_read g (crc_pass g end_ s).d s.c.block (crc_pass g end_ s).c.offset 4
      = .ok raw →
      lfs_tag_isvalid (lfs_frombe32 raw ^^^ (crc_pass g end_ s).c.ptag) = false := by
    intro raw hr
    rw [hread] at hr
    exact crc_pass_next_invalid g end_ s raw he2 ho hr
  -- the scanner's pass over the CRC tag
  have hT : crc_pass_tag g end_ s < 2147483648 := t1
  have hword : lfs_bd_read g (crc_pass g end_ s).d s.c.block s.c.offset 4
      = .ok (lfs_tobe32 (crc_pass_tag g end_ s ^^^ s.c.ptag)) :=
    read_four g _ _ _ _ hb (by omega) hg rfl
      (fun j hj => disk_prog_word s.d s.c.block s.c.offset _ _ j hj)
  have hsum : lfs_bd_read g (crc_pass g end_ s).d s.c.block (wrap64 (s.c.offset + 4)) 4
      = .ok (lfs_tole32 (lfs_crc s.c.crc (lfs_tobe32 (crc_pass_tag g end_ s ^^^ s.c.ptag)))) := by
    have hw : wrap64 (s.c.offset + 4) = s.c.offset + 4 := by unfold wrap64; omega
    rw [hw]
    exact read_four g _ _ _ _ hb (by omega) hg (lfs_tole32_length _)
      (fun j hj => disk_prog_rest s.d s.c.block s.c.offset
          (lfs_tobe32 (crc_pass_tag g end_ s ^^^ s.c.ptag)) _ j
          (by rw [lfs_tole32_length]; exact hj))
  have hdec : lfs_frombe32 (lfs_tobe32 (crc_pass_tag g end_ s ^^^ s.c.ptag)) ^^^ s.c.ptag
      = crc_pass_tag g end_ s := by
    rw [lfs_frombe32_tobe32 _ (xor_lt_two_pow32 _ _ (by omega) hp), xor_xor_cancel]
  have hv : lfs_tag_isvalid (crc_pass_tag g end_ s) = true := by
    unfold lfs_tag_isvalid
    simp [(valid_tag_land _ hT).2]
  have htype : lfs_tag_type1 (crc_pass_tag g end_ s) = LFS_TYPE_CRC := by
    rw [lfs_tag_type1_eq]
    have : crc_pass_tag g end_ s / 268435456 % 8 = 5 := t2
    rw [this]
    rfl
  have hds : lfs_tag_dsize (crc_pass_tag g end_ s)
      = 4 + sub64 (crc_noff end_ s.c.offset) (wrap64 (s.c.offset + 4)) := t3
  have hnoff : wrap64 (s.c.offset + lfs_tag_dsize (crc_pass_tag g end_ s))
      = crc_noff end_ s.c.offset := by
    rw [hds]
    generalize sub64 (crc_noff end_ s.c.offset) (wrap64 (s.c.offset + 4)) = SZ at n1 n2 ⊢
    unfold wrap64
    omega
  have hstep : fetch_step g (crc_pass g end_ s).d write_size s.c.block fmask ftag cb t
      = fetch_step_crc g (crc_pass g end_ s).d s.c.block
          { fetch_tag_state t (lfs_tobe32 (crc_pass_tag g end_ s ^^^ s.c.ptag)) with
            ptag := crc_pass_tag g end_ s } (crc_pass_tag g end_ s) := by
    unfold fetch_step
    rw [ht2, hword]
    simp only [ht1, hdec]
    rw [if_neg (by simp [hv]), if_neg (by rw [hnoff]; omega), if_pos htype]
  have hoff : (fetch_tag_state t (lfs_tobe32 (crc_pass_tag g end_ s ^^^ s.c.ptag))).offset
      = s.c.offset := ht2
  have hcrc : (fetch_tag_state t (lfs_tobe32 (crc_pass_tag g end_ s ^^^ s.c.ptag))).crc
      = lfs_crc s.c.crc (lfs_tobe32 (crc_pass_tag g end_ s ^^^ s.c.ptag)) := by
    show lfs_crc t.crc _ = _
    rw [ht3]
  have hstep2 : fetch_step_crc g (crc_pass g end_ s).d s.c.block
      { fetch_tag_state t (lfs_tobe32 (crc_pass_tag g end_ s ^^^ s.c.ptag)) with
        ptag := crc_pass_tag g end_ s } (crc_pass_tag g end_ s)
      = ({ ({ fetch_tag_state t (lfs_tobe32 (crc_pass_tag g end_ s ^^^ s.c.ptag)) with
              ptag := crc_pass_tag g end_ s } : fetch_state) with
          ptag := crc_pass_tag g end_ s
            ^^^ wrap32 ((lfs_tag_chunk (crc_pass_tag g end_ s) &&& 1) <<< 31),
          seed := lfs_crc t.seed
            (lfs_tole32 (lfs_crc s.c.crc (lfs_tobe32 (crc_pass_tag g end_ s ^^^ s.c.ptag)))),
          besttag := t.tempbesttag,
          dir := { offset := wrap64 (s.c.offset + lfs_tag_dsize (crc_pass_tag g end_ s)),
                   etag := crc_pass_tag g end_ s
                     ^^^ wrap32 ((lfs_tag_chunk (crc_pass_tag g end_ s) &&& 1) <<< 31),
                   count := t.tempcount, tail0 := t.temptail0, tail1 := t.temptail1,
                   split := t.tempsplit },
          crc := 0xffffffff,
          read_end := max (fetch_tag_state t
            (lfs_tobe32 (crc_pass_tag g end_ s ^^^ s.c.ptag))).read_end
            (wrap64 (s.c.offset + 4) + 4),
          dir_read_end := max (fetch_tag_state t
            (lfs_tobe32 (crc_pass_tag g end_ s ^^^ s.c.ptag))).read_end
            (wrap64 (s.c.offset + 4) + 4) }, .next) := by
    unfold fetch_step_crc
    simp only [hoff, hsum, hcrc]
    rw [lfs_fromle32_tole32 _ (lfs_crc_lt _ _ hc)]
    simp only [ne_eq, not_true_eq_false, if_false]
    rfl
  have hs1 : (fetch_step g (crc_pass g end_ s).d write_size s.c.block fmask ftag cb t).1.ptag
      = (crc_pass g end_ s).c.ptag := by
    rw [hstep, hstep2, hptag]
  have hs2 : (fetch_step g (crc_pass g end_ s).d write_size s.c.block fmask ftag cb t).1.offset
      = s.c.offset := by
    rw [hstep, hstep2]
    exact hoff
  have hds2 : lfs_tag_dsize (crc_pass g end_ s).c.ptag
      = 4 + sub64 (crc_noff end_ s.c.offset) (wrap64 (s.c.offset + 4)) := by
    have e1 : (crc_pass g end_ s).c.ptag % 2147483648 = crc_pass_tag g end_ s := t5
    have e2 := lfs_tag_size_eq_mod (crc_pass_tag g end_ s)
    have e3 : lfs_tag_size (crc_pass_tag g end_ s)
        = sub64 (crc_noff end_ s.c.offset) (wrap64 (s.c.offset + 4)) := t4
    rw [lfs_tag_dsize_mod]
    generalize sub64 (crc_noff end_ s.c.offset) (wrap64 (s.c.offset + 4)) = SZ at n1 e3 ⊢
    rw [if_neg (by omega)]
    omega
  have hnext : wrap64
      ((fetch_step g (crc_pass g end_ s).d write_size s.c.block fmask ftag cb t).1.offset
        + lfs_tag_dsize
          (fetch_step g (crc_pass g end_ s).d write_size s.c.block fmask ftag cb t).1.ptag)
      = (crc_pass g end_ s).c.offset := by
    rw [hs1, hs2, hds2, p2]
    generalize sub64 (crc_noff end_ s.c.offset) (wrap64 (s.c.offset + 4)) = SZ at n1 n2 ⊢
    unfold wrap64
    omega
  refine ⟨by rw [hchunk, hreset], ?_, hptag, by rw [hstep, hstep2], hs1, hnext, hinv, ?_⟩
  · intro raw hr
    rw [hchunk]
    rw [hread] at hr
    unfold crc_reset
    rw [hr]
    simp only
    split_ifs <;> simp_all
  · have key : ∀ S : fetch_state, S.ptag = (crc_pass g end_ s).c.ptag →
        wrap64 (S.offset + lfs_tag_dsize S.ptag) = (crc_pass g end_ s).c.offset →
        (fetch_step g (crc_pass g end_ s).d write_size s.c.block fmask ftag cb S).2
          = .stop := by
      intro S e1 e2
      unfold fetch_step
      rw [e2]
      cases hr : lfs_bd_read g (crc_pass g end_ s).d s.c.block
          (crc_pass g end_ s).c.offset 4 with
      | error err =>
        simp only
        have : err = LFS_ERR_CORRUPT := by
          unfold lfs_bd_read at hr
          split_ifs at hr
          simp only [Except.error.injEq] at hr
          exact hr.symm
        rw [if_pos this]
      | ok raw =>
        simp only
        rw [e1, if_pos (by simp [hinv raw hr])]
    exact key _ hs1 hnext

theorem C32_crc_tag_phase_bit_witness :
    lfs_tag_chunk (crc_pass_tag ⟨256, 4⟩ 32 example_crc_state) &&& 1 = 1
      ∧ (fetch_step ⟨256, 4⟩ (crc_pass ⟨256, 4⟩ 32 example_crc_state).d 16 1 0 0 (fun _ _ => 0)
          example_scan_state).2 = .next
      ∧ (fetch_step ⟨256, 4⟩ (crc_pass ⟨256, 4⟩ 32 example_crc_state).d 16 1 0 0 (fun _ _ => 0)
          example_scan_state).1.ptag = (crc_pass ⟨256, 4⟩ 32 example_crc_state).c.ptag
      ∧ (fetch_step ⟨256, 4⟩ (crc_pass ⟨256, 4⟩ 32 example_crc_state).d 16 1 0 0 (fun _ _ => 0)
          (fetch_step ⟨256, 4⟩ (crc_pass ⟨256, 4⟩ 32 example_crc_state).d 16 1 0 0
            (fun _ _ => 0) example_scan_state).1).2 = .stop := by
  have h := C32_crc_tag_phase_bit ⟨256, 4⟩ 16 0 0 32 (fun _ _ => 0) example_crc_state
    example_scan_state (by decide) (by decide) (by decide) (by decide) (by decide) (by decide)
    (by decide) (by decide) (by decide)
  exact ⟨by decide, h.2.2.2.1, h.2.2.2.2.1, h.2.2.2.2.2.2.2⟩

theorem fs_pred_loop_total (g : Geometry) (fetch : Nat → Nat → Int × lfs_metadata_dir_t)
    (pair0 pair1 : Nat) (hbc : g.block_count < 18446744073709551616) :
    ∀ (fuel cycle : Nat) (pdir : lfs_metadata_dir_t),
      cycle ≤ g.block_count / 2 → g.block_count / 2 - cycle < fuel →
      ∃ r, fs_pred_loop g fetch pair0 pair1 fuel cycle pdir = some r
        ∧ r.2.2 ≤ g.block_count / 2 := by
  intro fuel
  induction fuel with
  | zero => intro _ _ _ h; omega
  | succ fuel ih =>
    intro cycle pdir hc hf
    simp only [fs_pred_loop]
    have hw : cycle < g.block_count / 2 → wrap64 (cycle + 1) = cycle + 1 := by
      intro h
      unfold wrap64
      omega
    split_ifs with h1 h2 h3 h4
    · exact ⟨_, rfl, hc⟩
    · exact ⟨_, rfl, hc⟩
    · exact ⟨_, rfl, by show wrap64 (cycle + 1) ≤ _; rw [hw (by omega)]; omega⟩
    · exact ⟨_, rfl, by show wrap64 (cycle + 1) ≤ _; rw [hw (by omega)]; omega⟩
    · rw [hw (by omega)]
      exact ih _ _ (by omega) (by omega)

theorem fs_parent_loop_total (g : Geometry) (fetchmatch : Nat → Nat → Int × lfs_metadata_dir_t)
    (hbc : g.block_count < 18446744073709551616) :
    ∀ (fuel cycle : Nat) (parent : lfs_metadata_dir_t),
      cycle ≤ g.block_count / 2 → g.block_count / 2 - cycle < fuel →
      ∃ r, fs_parent_loop g fetchmatch fuel cycle parent = some r
        ∧ r.2.2 ≤ g.block_count / 2 := by
  intro fuel
  induction fuel with
  | zero => intro _ _ _ h; omega
  | succ fuel ih =>
    intro cycle parent hc hf
    simp only [fs_parent_loop]
    have hw : cycle < g.block_count / 2 → wrap64 (cycle + 1) = cycle + 1 := by
      intro h
      unfold wrap64
      omega
    split_ifs with h1 h2 h3
    · exact ⟨_, rfl, hc⟩
    · exact ⟨_, rfl, hc⟩
    · exact ⟨_, rfl, by show wrap64 (cycle + 1) ≤ _; rw [hw (by omega)]; omega⟩
    · rw [hw (by omega)]
      exact ih _ _ (by omega) (by omega)

/-- `lfs_fs_pred` along a chain whose first `n` pairs are fetched and are not
the pair looked for. -/
theorem fs_pred_loop_chain (g : Geometry) (fetch : Nat → Nat → Int × lfs_metadata_dir_t)
    (pair0 pair1 : Nat) (hbc : g.block_count < 18446744073709551616) :
    ∀ (n fuel k : Nat) (pdir : lfs_metadata_dir_t),
      (pdir.tail0, pdir.tail1) = tail_chain fetch k → k + n ≤ g.block_count / 2 →
      (∀ j, k ≤ j → j < k + n →
        lfs_pair_isnull (tail_chain fetch j).1 (tail_chain fetch j).2 = false
          ∧ lfs_pair_cmp (tail_chain fetch j).1 (tail_chain fetch j).2 pair0 pair1 ≠ 0
          ∧ (fetch (tail_chain fetch j).1 (tail_chain fetch j).2).1 = 0) →
      ∃ p, (p.tail0, p.tail1) = tail_chain fetch (k + n)
        ∧ fs_pred_loop g fetch pair0 pair1 (fuel + n) k pdir
          = fs_pred_loop g fetch pair0 pair1 fuel (k + n) p := by
  intro n
  induction n with
  | zero =>
    intro fuel k pdir hp _ _
    exact ⟨pdir, hp, rfl⟩
  | succ n ih =>
    intro fuel k pdir hp hk hs
    obtain ⟨s1, s2, s3⟩ := hs k (Nat.le_refl _) (by omega)
    have e0 : pdir.tail0 = (tail_chain fetch k).1 := congrArg Prod.fst hp
    have e1 : pdir.tail1 = (tail_chain fetch k).2 := congrArg Prod.snd hp
    rw [show fuel + (n + 1) = (fuel + n) + 1 by omega]
    simp only [fs_pred_loop]
    rw [e0, e1, s1, if_neg (by simp), if_neg (by omega), if_neg s2, if_neg (not_not.mpr s3)]
    have hw : wrap64 (k + 1) = k + 1 := by unfold wrap64; omega
    rw [hw]
    obtain ⟨p, q1, q2⟩ := ih fuel (k + 1)
      (fetch (tail_chain fetch k).1 (tail_chain fetch k).2).2 rfl (by omega)
      (fun j h1 h2 => hs j (by omega) (by omega))
    exact ⟨p, by rw [q1]; congr 1; omega, by rw [q2]; congr 1; omega⟩
theorem fs_parent_loop_chain (g : Geometry) (fetchmatch : Nat → Nat → Int × lfs_metadata_dir_t)
    (hbc : g.block_count < 18446744073709551616) :
    ∀ (n fuel k : Nat) (parent : lfs_metadata_dir_t),
      (parent.tail0, parent.tail1) = tail_chain fetchmatch k → k + n ≤ g.block_count / 2 →
      (∀ j, k ≤ j → j < k + n →
        lfs_pair_isnull (tail_chain fetchmatch j).1 (tail_chain fetchmatch j).2 = false
          ∧ ((fetchmatch (tail_chain fetchmatch j).1 (tail_chain fetchmatch j).2).1 = 0
            ∨ (fetchmatch (tail_chain fetchmatch j).1 (tail_chain fetchmatch j).2).1
              = LFS_ERR_NOENT)) →
      ∃ p, (p.tail0, p.tail1) = tail_chain fetchmatch (k + n)
        ∧ fs_parent_loop g fetchmatch (fuel + n) k parent
          = fs_parent_loop g fetchmatch fuel (k + n) p := by
  intro n
  induction n with
  | zero =>
    intro fuel k parent hp _ _
    exact ⟨parent, hp, rfl⟩
  | succ n ih =>
    intro fuel k parent hp hk hs
    obtain ⟨s1, s2⟩ := hs k (Nat.le_refl _) (by omega)
    have e0 : parent.tail0 = (tail_chain fetchmatch k).1 := congrArg Prod.fst hp
    have e1 : parent.tail1 = (tail_chain fetchmatch k).2 := congrArg Prod.snd hp
    rw [show fuel + (n + 1) = (fuel + n) + 1 by omega]
    simp only [fs_parent_loop]
    rw [e0, e1, s1, if_neg (by simp), if_neg (by omega),
      if_neg (by intro hc; rcases s2 with h | h; exact hc.1 h; exact hc.2 h)]
    have hw : wrap64 (k + 1) = k + 1 := by unfold wrap64; omega
    rw [hw]
    obtain ⟨p, q1, q2⟩ := ih fuel (k + 1)
      (fetchmatch (tail_chain fetchmatch k).1 (tail_chain fetchmatch k).2).2 rfl (by omega)
      (fun j h1 h2 => hs j (by omega) (by omega))
    exact ⟨p, by rw [q1]; congr 1; omega, by rw [q2]; congr 1; omega⟩

/-- `lfs_fs_rawtraverse` along a chain whose first `n` pairs are reported,
fetched and walked without an error: `S k` is the state of the callback
when the loop comes to the pair number `k`. -/
theorem traverse_pairs_chain {σ : Type} (g : Geometry) (d : Disk) (gdisk : lfs_gstate_t)
    (fetch : Nat → Nat → Int × lfs_metadata_dir_t) (cb : σ → Nat → Int × σ)
    (includeorphans : Bool) (hops : Nat) (S : Nat → σ)
    (hbc : g.block_count < 18446744073709551616) :
    ∀ (n fuel k : Nat), k + n ≤ g.block_count / 2 →
      (∀ j, k ≤ j → j < k + n →
        lfs_pair_isnull (tail_chain fetch j).1 (tail_chain fetch j).2 = false
          ∧ (cb (S j) (tail_chain fetch j).1).1 = 0
          ∧ (cb (cb (S j) (tail_chain fetch j).1).2 (tail_chain fetch j).2).1 = 0
          ∧ (fetch (tail_chain fetch j).1 (tail_chain fetch j).2).1 = 0
          ∧ traverse_ids g d gdisk cb includeorphans hops
              (fetch (tail_chain fetch j).1 (tail_chain fetch j).2).2
              ((fetch (tail_chain fetch j).1 (tail_chain fetch j).2).2.count + 1) 0
              (cb (cb (S j) (tail_chain fetch j).1).2 (tail_chain fetch j).2).2
            = some (0, S (j + 1))) →
      traverse_pairs g d gdisk fetch cb includeorphans hops (fuel + n) k
          (tail_chain fetch k).1 (tail_chain fetch k).2 (S k)
        = traverse_pairs g d gdisk fetch cb includeorphans hops fuel (k + n)
          (tail_chain fetch (k + n)).1 (tail_chain fetch (k + n)).2 (S (k + n)) := by
  intro n
  induction n with
  | zero =>
    intro fuel k _ _
    rfl
  | succ n ih =>
    intro fuel k hk hs
    obtain ⟨s1, s2, s3, s4, s5⟩ := hs k (Nat.le_refl _) (by omega)
    rw [show fuel + (n + 1) = (fuel + n) + 1 by omega]
    simp only [traverse_pairs]
    rw [s1, if_neg (by simp), if_neg (by omega), if_neg (not_not.mpr s2),
      if_neg (not_not.mpr s3), if_neg (not_not.mpr s4), s5]
    simp only [ne_eq, not_true_eq_false, if_false]
    have hw : wrap64 (k + 1) = k + 1 := by unfold wrap64; omega
    rw [hw]
    have := ih fuel (k + 1) (by omega) (fun j h1 h2 => hs j (by omega) (by omega))
    rw [show k + 1 + n = k + (n + 1) by omega] at this
    exact this
theorem getslice_step_next (g : Geometry) (d : Disk) (pair0 gmask gtag goff gsize : Nat)
    (offset ntag gdiff o n gd : Nat)
    (h : getslice_step g d pair0 gmask gtag goff gsize offset ntag gdiff = .next o n gd) :
    o = offset - lfs_tag_dsize ntag := by
  unfold getslice_step at h
  cases hr : lfs_bd_read g d pair0 (offset - lfs_tag_dsize ntag) 4 with
  | error err => rw [hr] at h; simp at h
  | ok raw =>
    rw [hr] at h
    simp only at h
    split_ifs at h
    unfold getslice_match at h
    split_ifs at h
    · cases hr2 : lfs_bd_read g d pair0 (wrap64 (offset - lfs_tag_dsize ntag + 4 + goff))
          (lfs_min (lfs_tag_size ntag) gsize) with
      | error err => rw [hr2] at h; simp at h
      | ok dat => rw [hr2] at h; simp at h
    · simp only [getslice_ctl.next.injEq] at h
      exact h.1.symm

/-- The loop of `lfs_dir_getslice` ends. -/
theorem getslice_loop_total (g : Geometry) (d : Disk) (pair0 gmask gtag goff gsize : Nat) :
    ∀ (fuel offset ntag gdiff : Nat), offset < 4 * fuel →
      ∃ r, getslice_loop g d pair0 gmask gtag goff gsize fuel offset ntag gdiff = some r := by
  intro fuel
  induction fuel with
  | zero => intro _ _ _ h; omega
  | succ fuel ih =>
    intro offset ntag gdiff hf
    simp only [getslice_loop]
    by_cases hge : offset ≥ 4 + lfs_tag_dsize ntag
    · rw [if_pos hge]
      cases hs : getslice_step g d pair0 gmask gtag goff gsize offset ntag gdiff with
      | done res buffer => exact ⟨_, rfl⟩
      | next o n gd =>
        simp only
        have := getslice_step_next g d pair0 gmask gtag goff gsize offset ntag gdiff o n gd hs
        have h4 := lfs_tag_dsize_ge ntag
        exact ih o n gd (by omega)
    · rw [if_neg hge]
      exact ⟨_, rfl⟩

theorem lfs_dir_get_total (g : Geometry) (d : Disk) (gdisk : lfs_gstate_t)
    (dir : lfs_metadata_dir_t) (gmask gtag fuel : Nat) (h : dir.offset < 4 * fuel) :
    ∃ r, lfs_dir_get g d gdisk dir gmask gtag fuel = some r :=
  getslice_loop_total g d dir.pair0 gmask gtag 0 (lfs_tag_size gtag) fuel dir.offset dir.etag _ h

/-- The loop of `lfs_ctz_traverse` ends. -/
theorem lfs_ctz_traverse_loop_total {σ : Type} (g : Geometry) (d : Disk)
    (cb : σ → Nat → Int × σ) :
    ∀ (fuel head index : Nat) (s : σ), index < fuel →
      ∃ r, lfs_ctz_traverse_loop g d cb fuel head index s = some r := by
  intro fuel
  induction fuel with
  | zero => intro _ _ _ h; omega
  | succ fuel ih =>
    intro head index s hf
    simp only [lfs_ctz_traverse_loop]
    by_cases h1 : (cb s head).1 ≠ 0
    · rw [if_pos h1]; exact ⟨_, rfl⟩
    · rw [if_neg h1]
      by_cases h2 : index = 0
      · rw [if_pos h2]; exact ⟨_, rfl⟩
      · rw [if_neg h2]
        cases hr : lfs_bd_read g d head 0 ((2 - (index &&& 1)) * 8) with
        | error e => exact ⟨_, rfl⟩
        | ok bytes =>
          simp only
          by_cases h3 : (cb (cb s head).2 (lfs_fromle64 bytes)).1 ≠ 0
          · rw [if_pos h3]; exact ⟨_, rfl⟩
          · rw [if_neg h3]
            apply ih
            rw [Nat.and_one_is_mod]
            unfold sub64
            omega

theorem lfs_ctz_traverse_total {σ : Type} (g : Geometry) (d : Disk) (head size : Nat)
    (cb : σ → Nat → Int × σ) (s : σ) (fuel : Nat) (hf : 18446744073709551616 ≤ fuel) :
    ∃ r, lfs_ctz_traverse g d head size cb s fuel = some r := by
  unfold lfs_ctz_traverse
  by_cases h : size = 0
  · rw [if_pos h]; exact ⟨_, rfl⟩
  · rw [if_neg h]
    apply lfs_ctz_traverse_loop_total
    have : ofInt64 (lfs_ctz_index g.block_size (sub64 size 1)).1 < 18446744073709551616 := by
      unfold ofInt64
      omega
    omega
theorem traverse_entry_total {σ : Type} (g : Geometry) (d : Disk) (cb : σ → Nat → Int × σ)
    (includeorphans : Bool) (hops : Nat) (tag : Int) (ctz : List Nat) (s : σ)
    (hf : 18446744073709551616 ≤ hops) :
    ∃ r, traverse_entry g d cb includeorphans hops tag ctz s = some r := by
  unfold traverse_entry
  split_ifs
  · exact ⟨_, rfl⟩
  · exact ⟨_, rfl⟩
  · obtain ⟨r, hr⟩ := lfs_ctz_traverse_total g d (lfs_fromle64 ctz) (lfs_fromle64 (ctz.drop 8))
      cb s hops hf
    rw [hr]
    simp only
    split_ifs <;> exact ⟨_, rfl⟩
  · exact ⟨_, rfl⟩
  · exact ⟨_, rfl⟩
  · exact ⟨_, rfl⟩
  · exact ⟨_, rfl⟩

/-- The loop over the ids of a directory in `lfs_fs_rawtraverse` ends. -/
theorem traverse_ids_total {σ : Type} (g : Geometry) (d : Disk) (gdisk : lfs_gstate_t)
    (cb : σ → Nat → Int × σ) (includeorphans : Bool) (hops : Nat) (dir : lfs_metadata_dir_t)
    (hf : 18446744073709551616 ≤ hops) (hc : dir.count < 65536)
    (ho : dir.offset < 18446744073709551616) :
    ∀ (fuel id : Nat) (s : σ), id ≤ dir.count → dir.count - id < fuel →
      ∃ r, traverse_ids g d gdisk cb includeorphans hops dir fuel id s = some r := by
  intro fuel
  induction fuel with
  | zero => intro _ _ _ h; omega
  | succ fuel ih =>
    intro id s hid hfu
    simp only [traverse_ids]
    by_cases hlt : id < dir.count
    · rw [if_pos hlt]
      obtain ⟨r, hr⟩ := lfs_dir_get_total g d gdisk dir (LFS_MKTAG LFS_TYPE_GLOBALS 0x3ff 0)
        (LFS_MKTAG LFS_TYPE_STRUCT id 16) hops (by omega)
      rw [hr]
      obtain ⟨tag, out⟩ := r
      simp only
      obtain ⟨r2, hr2⟩ := traverse_entry_total g d cb includeorphans hops tag (out.getD []) s hf
      rw [hr2]
      obtain ⟨e, s1⟩ := r2
      cases e with
      | some err => exact ⟨_, rfl⟩
      | none =>
        simp only
        rw [Nat.mod_eq_of_lt (by omega)]
        exact ih _ _ (by omega) (by omega)
    · rw [if_neg hlt]
      exact ⟨_, rfl⟩

/-- The loop over the pairs in `lfs_fs_rawtraverse` ends. -/
theorem traverse_pairs_total {σ : Type} (g : Geometry) (d : Disk) (gdisk : lfs_gstate_t)
    (fetch : Nat → Nat → Int × lfs_metadata_dir_t) (cb : σ → Nat → Int × σ)
    (includeorphans : Bool) (hops : Nat)
    (hbc : g.block_count < 18446744073709551616) (hf : 18446744073709551616 ≤ hops)
    (hc : ∀ a b, (fetch a b).2.count < 65536)
    (ho : ∀ a b, (fetch a b).2.offset < 18446744073709551616) :
    ∀ (fuel cycle tail0 tail1 : Nat) (s : σ),
      cycle ≤ g.block_count / 2 → g.block_count / 2 - cycle < fuel →
      ∃ r, traverse_pairs g d gdisk fetch cb includeorphans hops fuel cycle tail0 tail1 s
        = some r := by
  intro fuel
  induction fuel with
  | zero => intro _ _ _ _ _ h; omega
  | succ fuel ih =>
    intro cycle tail0 tail1 s hcy hfu
    simp only [traverse_pairs]
    split_ifs with h1 h2 h3 h4 h5
    · exact ⟨_, rfl⟩
    · exact ⟨_, rfl⟩
    · exact ⟨_, rfl⟩
    · exact ⟨_, rfl⟩
    · exact ⟨_, rfl⟩
    · obtain ⟨r, hr⟩ := traverse_ids_total g d gdisk cb includeorphans hops (fetch tail0 tail1).2
        hf (hc _ _) (ho _ _) ((fetch tail0 tail1).2.count + 1) 0
        (cb (cb s tail0).2 tail1).2 (Nat.zero_le _) (by omega)
      rw [hr]
      simp only
      split_ifs
      · exact ⟨_, rfl⟩
      · have hw : wrap64 (cycle + 1) = cycle + 1 := by unfold wrap64; omega
        rw [hw]
        exact ih _ _ _ _ (by omega) (by omega)

theorem traverse_files_total {σ : Type} (g : Geometry) (d : Disk) (cb : σ → Nat → Int × σ)
    (hops : Nat) (hf : 18446744073709551616 ≤ hops) :
    ∀ (files : List open_file) (s : σ), ∃ r, traverse_files g d cb hops files s = some r := by
  intro files
  induction files with
  | nil => intro s; exact ⟨_, rfl⟩
  | cons f fs ih =>
    intro s
    simp only [traverse_files]
    by_cases h1 : f.type ≠ LFS_TYPE_REG
    · rw [if_pos h1]
      exact ih s
    · rw [if_neg h1]
      obtain ⟨r, hr⟩ : ∃ r, (if f.flags &&& LFS_F_DIRTY ≠ 0 ∧ f.flags &&& LFS_F_INLINE = 0 then
          lfs_ctz_traverse g d f.head f.size cb s hops else some (0, s)) = some r := by
        split_ifs
        · exact lfs_ctz_traverse_total g d f.head f.size cb s hops hf
        · exact ⟨_, rfl⟩
      rw [hr]
      simp only
      by_cases h2 : r.1 ≠ 0
      · rw [if_pos h2]
        exact ⟨_, rfl⟩
      · rw [if_neg h2]
        obtain ⟨r2, hr2⟩ : ∃ r2,
            (if f.flags &&& LFS_F_WRITING ≠ 0 ∧ f.flags &&& LFS_F_INLINE = 0 then
              lfs_ctz_traverse g d f.block f.pos cb r.2 hops else some (0, r.2)) = some r2 := by
          split_ifs
          · exact lfs_ctz_traverse_total g d f.block f.pos cb r.2 hops hf
          · exact ⟨_, rfl⟩
        rw [hr2]
        simp only
        by_cases h3 : r2.1 ≠ 0
        · rw [if_pos h3]
          exact ⟨_, rfl⟩
        · rw [if_neg h3]
          exact ih _

/-- `lfs_fs_rawtraverse` ends on every content of the device. -/
theorem lfs_fs_rawtraverse_total {σ : Type} (g : Geometry) (d : Disk) (gdisk : lfs_gstate_t)
    (fetch : Nat → Nat → Int × lfs_metadata_dir_t) (files : List open_file)
    (cb : σ → Nat → Int × σ) (s : σ) (includeorphans : Bool) (fuel hops : Nat)
    (hbc : g.block_count < 18446744073709551616) (hf : 18446744073709551616 ≤ hops)
    (hc : ∀ a b, (fetch a b).2.count < 65536)
    (ho : ∀ a b, (fetch a b).2.offset < 18446744073709551616)
    (hfu : g.block_count / 2 < fuel) :
    ∃ r, lfs_fs_rawtraverse g d gdisk fetch files cb s includeorphans fuel hops = some r := by
  unfold lfs_fs_rawtraverse
  obtain ⟨r, hr⟩ := traverse_pairs_total g d gdisk fetch cb includeorphans hops hbc hf hc ho
    fuel 0 0 1 s (Nat.zero_le _) (by omega)
  rw [hr]
  simp only
  split_ifs
  · exact ⟨_, rfl⟩
  · exact traverse_files_total g d cb hops hf files r.2
/-- C39: `lfs_fs_pred`, `lfs_fs_parent` and `lfs_fs_rawtraverse` follow at
most `block_count / 2` tail links.  With `fetch` (or `fetchmatch`) standing
for any content of the device: each of the three returns (with fuel above
`block_count / 2`, and for the traversal enough hops for the walks inside a
pair), having visited at most `block_count / 2` pairs; when the first
`block_count / 2` pairs of the chain are visited without an end of the loop
and the chain has not ended, `LFS_ERR_CORRUPT` is returned; and on a chain
of `n <= block_count / 2` pairs that ends with a null tail,
`lfs_fs_rawtraverse` does, for the pairs number 0 to `n - 1` in turn and once
each, the two callbacks on the pair and the walk over its entries (`S k` is
the state of the callback before the pair number `k`), then goes on to the
open files. -/
theorem C39_tail_walks_are_bounded (g : Geometry) (fuel : Nat)
    (hbc : g.block_count < 18446744073709551616) (hfu : g.block_count / 2 < fuel) :
    (∀ (fetch : Nat → Nat → Int × lfs_metadata_dir_t) (pair0 pair1 : Nat)
        (pdir : lfs_metadata_dir_t),
        ∃ r, lfs_fs_pred g fetch pair0 pair1 pdir fuel = some r
          ∧ r.2.2 ≤ g.block_count / 2)
      ∧ (∀ (fetchmatch : Nat → Nat → Int × lfs_metadata_dir_t) (parent : lfs_metadata_dir_t),
        ∃ r, lfs_fs_parent g fetchmatch parent fuel = some r ∧ r.2.2 ≤ g.block_count / 2)
      ∧ (∀ {σ : Type} (d : Disk) (gdisk : lfs_gstate_t)
          (fetch : Nat → Nat → Int × lfs_metadata_dir_t) (files : List open_file)
          (cb : σ → Nat → Int × σ) (s : σ) (includeorphans : Bool) (hops : Nat),
        18446744073709551616 ≤ hops → (∀ a b, (fetch a b).2.count < 65536) →
        (∀ a b, (fetch a b).2.offset < 18446744073709551616) →
        ∃ r, lfs_fs_rawtraverse g d gdisk fetch files cb s includeorphans fuel hops = some r)
      ∧ (∀ (fetch : Nat → Nat → Int × lfs_metadata_dir_t) (pair0 pair1 : Nat)
          (pdir : lfs_metadata_dir_t),
        (∀ j, j < g.block_count / 2 →
          lfs_pair_isnull (tail_chain fetch j).1 (tail_chain fetch j).2 = false
            ∧ lfs_pair_cmp (tail_chain fetch j).1 (tail_chain fetch j).2 pair0 pair1 ≠ 0
            ∧ (fetch (tail_chain fetch j).1 (tail_chain fetch j).2).1 = 0) →
        lfs_pair_isnull (tail_chain fetch (g.block_count / 2)).1
          (tail_chain fetch (g.block_count / 2)).2 = false →
        ∃ p, lfs_fs_pred g fetch pair0 pair1 pdir fuel
          = some (LFS_ERR_CORRUPT, p, g.block_count / 2))
      ∧ (∀ (fetchmatch : Nat → Nat → Int × lfs_metadata_dir_t) (parent : lfs_metadata_dir_t),
        (∀ j, j < g.block_count / 2 →
          lfs_pair_isnull (tail_chain fetchmatch j).1 (tail_chain fetchmatch j).2 = false
            ∧ ((fetchmatch (tail_chain fetchmatch j).1 (tail_chain fetchmatch j).2).1 = 0
              ∨ (fetchmatch (tail_chain fetchmatch j).1 (tail_chain fetchmatch j).2).1
                = LFS_ERR_NOENT)) →
        lfs_pair_isnull (tail_chain fetchmatch (g.block_count / 2)).1
          (tail_chain fetchmatch (g.block_count / 2)).2 = false →
        ∃ p, lfs_fs_parent g fetchmatch parent fuel
          = some (LFS_ERR_CORRUPT, p, g.block_count / 2))
      ∧ (∀ {σ : Type} (d : Disk) (gdisk : lfs_gstate_t)
          (fetch : Nat → Nat → Int × lfs_metadata_dir_t) (files : List open_file)
          (cb : σ → Nat → Int × σ) (includeorphans : Bool) (hops n : Nat) (S : Nat → σ),
        n ≤ g.block_count / 2 →
        (∀ j, j < n →
          lfs_pair_isnull (tail_chain fetch j).1 (tail_chain fetch j).2 = false
            ∧ (cb (S j) (tail_chain fetch j).1).1 = 0
            ∧ (cb (cb (S j) (tail_chain fetch j).1).2 (tail_chain fetch j).2).1 = 0
            ∧ (fetch (tail_chain fetch j).1 (tail_chain fetch j).2).1 = 0
            ∧ traverse_ids g d gdisk cb includeorphans hops
                (fetch (tail_chain fetch j).1 (tail_chain fetch j).2).2
                ((fetch (tail_chain fetch j).1 (tail_chain fetch j).2).2.count + 1) 0
                (cb (cb (S j) (tail_chain fetch j).1).2 (tail_chain fetch j).2).2
              = some (0, S (j + 1))) →
        (lfs_pair_isnull (tail_chain fetch n).1 (tail_chain fetch n).2 = true →
          lfs_fs_rawtraverse g d gdisk fetch files cb (S 0) includeorphans fuel hops
            = traverse_files g d cb hops files (S n))
          ∧ (lfs_pair_isnull (tail_chain fetch n).1 (tail_chain fetch n).2 = false →
              n = g.block_count / 2 →
              lfs_fs_rawtraverse g d gdisk fetch files cb (S 0) includeorphans fuel hops
                = some (LFS_ERR_CORRUPT, S n))) := by
  obtain ⟨f, rfl⟩ : ∃ f, fuel = f + 1 + g.block_count / 2 :=
    ⟨fuel - 1 - g.block_count / 2, by omega⟩
  refine ⟨?_, ?_, ?_, ?_, ?_, ?_⟩
  · intro fetch pair0 pair1 pdir
    exact fs_pred_loop_total g fetch pair0 pair1 hbc _ 0 _ (Nat.zero_le _) (by omega)
  · intro fetchmatch parent
    exact fs_parent_loop_total g fetchmatch hbc _ 0 _ (Nat.zero_le _) (by omega)
  · intro σ d gdisk fetch files cb s includeorphans hops hf hc ho
    exact lfs_fs_rawtraverse_total g d gdisk fetch files cb s includeorphans _ hops hbc hf hc ho
      (by omega)
  · intro fetch pair0 pair1 pdir hs hn
    obtain ⟨p, q1, q2⟩ := fs_pred_loop_chain g fetch pair0 pair1 hbc (g.block_count / 2)
      (f + 1) 0 { pdir with tail0 := 0, tail1 := 1 } rfl (by omega)
      (fun j _ h2 => hs j (by omega))
    refine ⟨p, ?_⟩
    unfold lfs_fs_pred
    rw [q2]
    have e0 : p.tail0 = (tail_chain fetch (0 + g.block_count / 2)).1 := congrArg Prod.fst q1
    have e1 : p.tail1 = (tail_chain fetch (0 + g.block_count / 2)).2 := congrArg Prod.snd q1
    simp only [fs_pred_loop]
    rw [e0, e1, Nat.zero_add, hn, if_neg (by simp), if_pos (Nat.le_refl _)]
  · intro fetchmatch parent hs hn
    obtain ⟨p, q1, q2⟩ := fs_parent_loop_chain g fetchmatch hbc (g.block_count / 2)
      (f + 1) 0 { parent with tail0 := 0, tail1 := 1 } rfl (by omega)
      (fun j _ h2 => hs j (by omega))
    refine ⟨p, ?_⟩
    unfold lfs_fs_parent
    rw [q2]
    have e0 : p.tail0 = (tail_chain fetchmatch (0 + g.block_count / 2)).1 :=
      congrArg Prod.fst q1
    have e1 : p.tail1 = (tail_chain fetchmatch (0 + g.block_count / 2)).2 :=
      congrArg Prod.snd q1
    simp only [fs_parent_loop]
    rw [e0, e1, Nat.zero_add, hn, if_neg (by simp), if_pos (Nat.le_refl _)]
  · intro σ d gdisk fetch files cb includeorphans hops n S hn hs
    have key := traverse_pairs_chain g d gdisk fetch cb includeorphans hops S hbc n
      (f + 1 + (g.block_count / 2 - n)) 0 (by omega) (fun j _ h2 => hs j (by omega))
    rw [show f + 1 + (g.block_count / 2 - n) + n = f + 1 + g.block_count / 2 by omega,
      Nat.zero_add] at key
    have e : f + 1 + (g.block_count / 2 - n) = (f + (g.block_count / 2 - n)) + 1 := by omega
    rw [e] at key
    constructor
    · intro hnull
      unfold lfs_fs_rawtraverse
      have k0 : tail_chain fetch 0 = (0, 1) := rfl
      rw [k0] at key
      rw [key]
      simp only [traverse_pairs]
      rw [hnull]
      simp only [if_true, ne_eq, not_true_eq_false, if_false]
    · intro hnull hnb
      unfold lfs_fs_rawtraverse
      have k0 : tail_chain fetch 0 = (0, 1) := rfl
      rw [k0] at key
      rw [key]
      simp only [traverse_pairs]
      rw [hnull, if_neg (by simp), if_pos (by omega)]
      simp only
      rw [if_pos (by decide)]

set_option maxRecDepth 1000000 in
theorem C39_tail_walks_are_bounded_witness :
    (lfs_fs_pred ⟨256, 8⟩ example_cyclic_fetch 6 7 ⟨0, 0, 0, 0, 0, 0, false, false, 0, 0⟩ 5).map
        (fun r => (r.1, r.2.2)) = some (LFS_ERR_CORRUPT, 4)
      ∧ (lfs_fs_parent ⟨256, 8⟩ example_cyclic_fetch ⟨0, 0, 0, 0, 0, 0, false, false, 0, 0⟩
          5).map (fun r => (r.1, r.2.2)) = some (LFS_ERR_CORRUPT, 4)
      ∧ lfs_fs_rawtraverse ⟨256, 8⟩ example_tree_disk ⟨0, 0, 0, 0⟩ example_cyclic_fetch []
          record_block [] false 5 100 = some (LFS_ERR_CORRUPT, [0, 1, 0, 1, 0, 1, 0, 1])
      ∧ lfs_fs_rawtraverse ⟨256, 8⟩ example_tree_disk ⟨0, 0, 0, 0⟩ example_tree_fetch []
          record_block [] false 5 100 = some (0, [0, 1, 2, 3, 4, 5]) := by
  have h := C39_tail_walks_are_bounded ⟨256, 8⟩ 5 (by decide) (by decide)
  obtain ⟨_, _, _, h4, h5, h6⟩ := h
  refine ⟨?_, ?_, ?_, ?_⟩
  · obtain ⟨p, hp⟩ := h4 example_cyclic_fetch 6 7 ⟨0, 0, 0, 0, 0, 0, false, false, 0, 0⟩
      (by decide) (by decide)
    rw [hp]
    rfl
  · obtain ⟨p, hp⟩ := h5 example_cyclic_fetch ⟨0, 0, 0, 0, 0, 0, false, false, 0, 0⟩
      (by decide) (by decide)
    rw [hp]
    rfl
  · exact (h6 example_tree_disk ⟨0, 0, 0, 0⟩ example_cyclic_fetch [] record_block false 100 4
      (fun k => [[], [0, 1], [0, 1, 0, 1], [0, 1, 0, 1, 0, 1], [0, 1, 0, 1, 0, 1, 0, 1]].getD k [])
      (by decide) (by decide)).2 (by decide) (by decide)
  · exact (h6 example_tree_disk ⟨0, 0, 0, 0⟩ example_tree_fetch [] record_block false 100 3
      (fun k => [[], [0, 1], [0, 1, 2, 3], [0, 1, 2, 3, 4, 5]].getD k [])
      (by decide) (by decide)).1 (by decide)

/-- The lookup passes over tags that are not SPLICE tags and do not match. -/
theorem log_get_skip (gmask gtag gsize gd : Nat) (L : List (Nat × List Nat)) :
    ∀ A : List (Nat × List Nat),
      (∀ e ∈ A, e.1 / 268435456 % 8 ≠ 4
        ∧ ¬ (gmask &&& e.1 = gmask &&& getslice_gtag gtag gd)) →
      log_get gmask gtag gsize (A ++ L) gd = log_get gmask gtag gsize L gd
  | [], _ => rfl
  | e :: A, h => by
    rw [List.cons_append,
      log_get_cons_plain gmask gtag gsize e _ gd (h e (List.mem_cons_self _ _)).1,
      if_neg (h e (List.mem_cons_self _ _)).2]
    exact log_get_skip gmask gtag gsize gd L A (fun x hx => h x (List.mem_cons_of_mem _ hx))

theorem create_or_id (q : Nat) :
    LFS_MKTAG LFS_TYPE_CREATE 0 0 ||| (LFS_MKTAG 0 0x3ff 0 &&& q)
      = 1074790400 + q / 1024 % 1024 * 1024 := by
  have c1 : LFS_MKTAG LFS_TYPE_CREATE 0 0 = 1074790400 := by decide
  have c5 : LFS_MKTAG 0 0x3ff 0 = 0xffc00 := by decide
  rw [c1, c5, land_idmask]
  have := @Nat.mul_add_lt_is_or 20 (q / 1024 % 1024 * 1024) (by norm_num; omega) 1025
  norm_num at this
  omega

theorem getslice_splices_iff (gmask gtag gd t : Nat) (hm : lfs_tag_id gmask ≠ 0)
    (ht : t / 268435456 % 8 = 4) :
    getslice_splices gmask gtag gd t = true
      ↔ t / 1024 % 1024 ≤ getslice_gtag gtag gd / 1024 % 1024 := by
  unfold getslice_splices
  rw [lfs_tag_type1_eq, lfs_tag_id_eq t, lfs_tag_id_eq (getslice_gtag gtag gd), ht]
  unfold LFS_TYPE_SPLICE
  simp [hm]

/-- A pass of the lookup over a CREATE tag of an id at or below the id looked
for, for any mask with id bits. -/
theorem log_get_create_step (gmask gtag gsize : Nat) (e : Nat × List Nat)
    (R : List (Nat × List Nat)) (gd k : Nat) (hm : lfs_tag_id gmask ≠ 0) (hk : k < 1024)
    (he : e.1 = 1074790400 + k * 1024) (hle : k ≤ getslice_gtag gtag gd / 1024 % 1024) :
    log_get gmask gtag gsize (e :: R) gd =
      if k = getslice_gtag gtag gd / 1024 % 1024 then (LFS_ERR_NOENT, none)
      else if gmask &&& e.1 = gmask &&& getslice_gtag gtag ((gd + 1024) % 4294967296) then
        (toInt32 (wrap32 (e.1 + (gd + 1024) % 4294967296)),
          some (e.2.take (lfs_min (lfs_tag_size e.1) gsize)
            ++ List.replicate (gsize - lfs_min (lfs_tag_size e.1) gsize) 0))
      else log_get gmask gtag gsize R ((gd + 1024) % 4294967296) := by
  have hsw : splice_word e.1 = 1024 := by
    rw [splice_word_eq, he]
    have : (1074790400 + k * 1024) / 1048576 % 256 = 1 := by omega
    rw [this]
    rfl
  have hs : getslice_splices gmask gtag gd e.1 = true :=
    (getslice_splices_iff gmask gtag gd e.1 hm (by rw [he]; omega)).mpr (by rw [he]; omega)
  have hnd : lfs_tag_isdelete e.1 = false := by
    cases hx : lfs_tag_isdelete e.1
    · rfl
    · have := (lfs_tag_isdelete_iff e.1).mp hx
      rw [he] at this
      omega
  show (if getslice_splices gmask gtag gd e.1 = true ∧ _ then _ else _) = _
  rw [create_or_id]
  unfold getslice_gdiff
  rw [hs]
  simp only [if_true, hsw, wrap32, true_and]
  by_cases hke : k = getslice_gtag gtag gd / 1024 % 1024
  · rw [if_pos hke, if_pos (by rw [he, hke])]
  · rw [if_neg hke, if_neg (by rw [he]; intro hc; omega), hnd]
    simp only [Bool.false_eq_true, if_false]

/-- A pass of the lookup over a DELETE tag of an id at or below the id looked
for, for any mask with id bits. -/
theorem log_get_delete_step (gmask gtag gsize : Nat) (e : Nat × List Nat)
    (R : List (Nat × List Nat)) (gd : Nat) (hm : lfs_tag_id gmask ≠ 0)
    (he : e.1 / 1048576 % 2048 = 1279) (hsz : e.1 % 1024 ≠ 1023)
    (hle : e.1 / 1024 % 1024 ≤ getslice_gtag gtag gd / 1024 % 1024) :
    log_get gmask gtag gsize (e :: R) gd =
      if gmask &&& e.1 = gmask &&& getslice_gtag gtag ((gd + 4294966272) % 4294967296) then
        (toInt32 (wrap32 (e.1 + (gd + 4294966272) % 4294967296)),
          some (e.2.take (lfs_min (lfs_tag_size e.1) gsize)
            ++ List.replicate (gsize - lfs_min (lfs_tag_size e.1) gsize) 0))
      else log_get gmask gtag gsize R ((gd + 4294966272) % 4294967296) := by
  have hsw : splice_word e.1 = 4294966272 := by
    rw [splice_word_eq]
    have : e.1 / 1048576 % 256 = 255 := by omega
    rw [this]
    rfl
  have hs : getslice_splices gmask gtag gd e.1 = true :=
    (getslice_splices_iff gmask gtag gd e.1 hm (by omega)).mpr hle
  have hnd : lfs_tag_isdelete e.1 = false := by
    cases hx : lfs_tag_isdelete e.1
    · rfl
    · exact absurd ((lfs_tag_isdelete_iff e.1).mp hx) hsz
  have hnc : ¬ (e.1 = 1074790400 + getslice_gtag gtag gd / 1024 % 1024 * 1024) := by
    intro hc
    rw [hc] at he
    omega
  show (if getslice_splices gmask gtag gd e.1 = true ∧ _ then _ else _) = _
  rw [create_or_id, if_neg (fun hc => hnc hc.2)]
  unfold getslice_gdiff
  rw [hs]
  simp only [if_true, hsw, wrap32, hnd, Bool.false_eq_true, if_false]
theorem getslice_gtag_zero (q : Nat) (h : q < 4294967296) : getslice_gtag q 0 = q := by
  rw [getslice_gtag_eq q 0 h (by omega)]
  omega

theorem getslice_gtag_mktag_up (ty j s : Nat) (ht : ty < 2048) (hj : j + 1 < 1024)
    (hs : s < 1024) :
    getslice_gtag (LFS_MKTAG ty (j + 1) s) 1024 = LFS_MKTAG ty j s := by
  have e1 := LFS_MKTAG_eq ty (j + 1) s ht hj hs
  have e0 := LFS_MKTAG_eq ty j s ht (by omega) hs
  rw [getslice_gtag_eq _ 1024 (by rw [e1]; omega) (by omega), e1, e0]
  omega

theorem getslice_gtag_mktag_down (ty j s : Nat) (ht : ty < 2048) (hj : j + 1 < 1024)
    (hs : s < 1024) :
    getslice_gtag (LFS_MKTAG ty j s) 4294966272 = LFS_MKTAG ty (j + 1) s := by
  have e1 := LFS_MKTAG_eq ty (j + 1) s ht hj hs
  have e0 := LFS_MKTAG_eq ty j s ht (by omega) hs
  rw [getslice_gtag_eq _ 4294966272 (by rw [e0]; omega) (by omega), e1, e0]
  omega

theorem toInt32_small (x : Nat) (h : x < 2147483648) : toInt32 x = (x : Int) := by
  unfold toInt32
  rw [Nat.mod_eq_of_lt (by omega), if_pos h]

theorem create_tag_eq (k : Nat) (hk : k < 1024) :
    LFS_MKTAG LFS_TYPE_CREATE k 0 = 1074790400 + k * 1024 := by
  have hc : LFS_TYPE_CREATE = 1025 := rfl
  rw [hc, LFS_MKTAG_eq 1025 k 0 (by omega) hk (by omega)]
  omega

/-- The lookup for the id `j + 1` in a log where a CREATE of an id `k <= j`
follows a tag written for the id `j`. -/
theorem log_get_after_create (gmask gsize ty j k sz gsz : Nat) (A B R : List (Nat × List Nat))
    (c p : List Nat) (hm : lfs_tag_id gmask ≠ 0) (hty : ty < 2048) (hns : ty / 256 ≠ 4)
    (hj : j + 1 < 1024) (hk : k ≤ j) (hsz : sz < 1023) (hgsz : gsz < 1024)
    (hA : ∀ e ∈ A, e.1 / 268435456 % 8 ≠ 4
      ∧ ¬ (gmask &&& e.1 = gmask &&& LFS_MKTAG ty (j + 1) gsz))
    (hS : ¬ (gmask &&& LFS_MKTAG LFS_TYPE_CREATE k 0 = gmask &&& LFS_MKTAG ty j gsz))
    (hB : ∀ e ∈ B, e.1 / 268435456 % 8 ≠ 4
      ∧ ¬ (gmask &&& e.1 = gmask &&& LFS_MKTAG ty j gsz))
    (hT : gmask &&& LFS_MKTAG ty j sz = gmask &&& LFS_MKTAG ty j gsz) :
    log_get gmask (LFS_MKTAG ty (j + 1) gsz) gsize
        (A ++ (LFS_MKTAG LFS_TYPE_CREATE k 0, c) :: (B ++ (LFS_MKTAG ty j sz, p) :: R)) 0
      = (((LFS_MKTAG ty (j + 1) sz : Nat) : Int),
          some (p.take (lfs_min sz gsize) ++ List.replicate (gsize - lfs_min sz gsize) 0)) := by
  have q1 := LFS_MKTAG_eq ty (j + 1) gsz hty hj hgsz
  have q0 := LFS_MKTAG_eq ty j gsz hty (by omega) hgsz
  have t0 := LFS_MKTAG_eq ty j sz hty (by omega) (by omega)
  have t1 := LFS_MKTAG_eq ty (j + 1) sz hty hj (by omega)
  have g0 := getslice_gtag_zero (LFS_MKTAG ty (j + 1) gsz) (by rw [q1]; omega)
  have g1 := getslice_gtag_mktag_up ty j gsz hty hj hgsz
  rw [log_get_skip gmask _ gsize 0 _ A (fun e he => by rw [g0]; exact hA e he),
    log_get_create_step gmask _ gsize _ _ 0 k hm (by omega) (create_tag_eq k (by omega))
      (by rw [g0, q1]; omega),
    if_neg (by rw [g0, q1]; omega)]
  have e1024 : (0 + 1024) % 4294967296 = 1024 := by norm_num
  rw [e1024, g1, if_neg hS,
    log_get_skip gmask _ gsize 1024 _ B (fun e he => by rw [g1]; exact hB e he),
    log_get_cons_plain gmask _ gsize _ _ 1024 (by show LFS_MKTAG ty j sz / _ % 8 ≠ 4; rw [t0]; omega),
    g1, if_pos hT]
  have hnd : lfs_tag_isdelete (LFS_MKTAG ty j sz) = false := by
    cases hx : lfs_tag_isdelete (LFS_MKTAG ty j sz)
    · rfl
    · have := (lfs_tag_isdelete_iff _).mp hx
      rw [t0] at this
      omega
  simp only [hnd, Bool.false_eq_true, if_false]
  have hsize : lfs_tag_size (LFS_MKTAG ty j sz) = sz := by
    rw [lfs_tag_size_eq_mod, t0]
    omega
  have hw : wrap32 (LFS_MKTAG ty j sz + 1024) = LFS_MKTAG ty (j + 1) sz := by
    unfold wrap32
    rw [t0, t1]
    omega
  rw [hsize, hw, toInt32_small _ (by rw [t1]; omega)]
theorem delete_tag_eq (k : Nat) (hk : k < 1024) :
    LFS_MKTAG LFS_TYPE_DELETE k 0 = 1341128704 + k * 1024 := by
  have hc : LFS_TYPE_DELETE = 1279 := rfl
  rw [hc, LFS_MKTAG_eq 1279 k 0 (by omega) hk (by omega)]
  omega

/-- The lookup for the id `i` in a log where a DELETE of an id `k <= i`
follows a tag written for the id `i + 1`. -/
theorem log_get_after_delete (gmask gsize ty i k sz gsz : Nat) (A B R : List (Nat × List Nat))
    (c p : List Nat) (hm : lfs_tag_id gmask ≠ 0) (hty : ty < 2048) (hns : ty / 256 ≠ 4)
    (hi : i + 1 < 1024) (hk : k ≤ i) (hsz : sz < 1023) (hgsz : gsz < 1024)
    (hA : ∀ e ∈ A, e.1 / 268435456 % 8 ≠ 4
      ∧ ¬ (gmask &&& e.1 = gmask &&& LFS_MKTAG ty i gsz))
    (hS : ¬ (gmask &&& LFS_MKTAG LFS_TYPE_DELETE k 0 = gmask &&& LFS_MKTAG ty (i + 1) gsz))
    (hB : ∀ e ∈ B, e.1 / 268435456 % 8 ≠ 4
      ∧ ¬ (gmask &&& e.1 = gmask &&& LFS_MKTAG ty (i + 1) gsz))
    (hT : gmask &&& LFS_MKTAG ty (i + 1) sz = gmask &&& LFS_MKTAG ty (i + 1) gsz) :
    log_get gmask (LFS_MKTAG ty i gsz) gsize
        (A ++ (LFS_MKTAG LFS_TYPE_DELETE k 0, c) :: (B ++ (LFS_MKTAG ty (i + 1) sz, p) :: R)) 0
      = (((LFS_MKTAG ty i sz : Nat) : Int),
          some (p.take (lfs_min sz gsize) ++ List.replicate (gsize - lfs_min sz gsize) 0)) := by
  have q1 := LFS_MKTAG_eq ty (i + 1) gsz hty hi hgsz
  have q0 := LFS_MKTAG_eq ty i gsz hty (by omega) hgsz
  have t0 := LFS_MKTAG_eq ty i sz hty (by omega) (by omega)
  have t1 := LFS_MKTAG_eq ty (i + 1) sz hty hi (by omega)
  have g0 := getslice_gtag_zero (LFS_MKTAG ty i gsz) (by rw [q0]; omega)
  have g1 := getslice_gtag_mktag_down ty i gsz hty hi hgsz
  have hd := delete_tag_eq k (by omega)
  rw [log_get_skip gmask _ gsize 0 _ A (fun e he => by rw [g0]; exact hA e he),
    log_get_delete_step gmask _ gsize _ _ 0 hm
      (by show LFS_MKTAG LFS_TYPE_DELETE k 0 / _ % _ = _; rw [hd]; omega)
      (by show LFS_MKTAG LFS_TYPE_DELETE k 0 % _ ≠ _; rw [hd]; omega)
      (by show LFS_MKTAG LFS_TYPE_DELETE k 0 / _ % _ ≤ _; rw [hd, g0, q0]; omega)]
  have e1 : (0 + 4294966272) % 4294967296 = 4294966272 := by norm_num
  rw [e1, g1, if_neg hS,
    log_get_skip gmask _ gsize 4294966272 _ B (fun e he => by rw [g1]; exact hB e he),
    log_get_cons_plain gmask _ gsize _ _ 4294966272
      (by show LFS_MKTAG ty (i + 1) sz / _ % 8 ≠ 4; rw [t1]; omega),
    g1, if_pos hT]
  have hnd : lfs_tag_isdelete (LFS_MKTAG ty (i + 1) sz) = false := by
    cases hx : lfs_tag_isdelete (LFS_MKTAG ty (i + 1) sz)
    · rfl
    · have := (lfs_tag_isdelete_iff _).mp hx
      rw [t1] at this
      omega
  simp only [hnd, Bool.false_eq_true, if_false]
  have hsize : lfs_tag_size (LFS_MKTAG ty (i + 1) sz) = sz := by
    rw [lfs_tag_size_eq_mod, t1]
    omega
  have hw : wrap32 (LFS_MKTAG ty (i + 1) sz + 4294966272) = LFS_MKTAG ty i sz := by
    unfold wrap32
    rw [t0, t1]
    omega
  rw [hsize, hw, toInt32_small _ (by rw [t0]; omega)]

/-- The lookup for an id whose own CREATE is met before a matching tag. -/
theorem log_get_own_create (gmask gsize ty i gsz : Nat) (A R : List (Nat × List Nat))
    (c : List Nat) (hm : lfs_tag_id gmask ≠ 0) (hty : ty < 2048) (hi : i < 1024)
    (hgsz : gsz < 1024)
    (hA : ∀ e ∈ A, e.1 / 268435456 % 8 ≠ 4
      ∧ ¬ (gmask &&& e.1 = gmask &&& LFS_MKTAG ty i gsz)) :
    log_get gmask (LFS_MKTAG ty i gsz) gsize (A ++ (LFS_MKTAG LFS_TYPE_CREATE i 0, c) :: R) 0
      = (LFS_ERR_NOENT, none) := by
  have q0 := LFS_MKTAG_eq ty i gsz hty hi hgsz
  have g0 := getslice_gtag_zero (LFS_MKTAG ty i gsz) (by rw [q0]; omega)
  rw [log_get_skip gmask _ gsize 0 _ A (fun e he => by rw [g0]; exact hA e he),
    log_get_create_step gmask _ gsize _ _ 0 i hm hi (create_tag_eq i hi)
      (by rw [g0, q0]; omega),
    if_pos (by rw [g0, q0]; omega)]

theorem mask_id (gmask a b : Nat) (hm : lfs_tag_id gmask = 0x3ff)
    (h : gmask &&& a = gmask &&& b) : a / 1024 % 1024 = b / 1024 % 1024 := by
  have hg : 0xffc00 &&& gmask = 0xffc00 := by
    rw [land_idmask, ← lfs_tag_id_eq, hm]
  have h2 : 0xffc00 &&& (gmask &&& a) = 0xffc00 &&& (gmask &&& b) := by rw [h]
  rw [← Nat.and_assoc, ← Nat.and_assoc, hg, land_idmask, land_idmask] at h2
  omega

/-- The lookup over a prefix without SPLICE tags depends on what follows
only through the lookup there. -/
theorem log_get_prefix_congr (gmask gtag gsize gd : Nat) (L1 L2 : List (Nat × List Nat))
    (h : log_get gmask gtag gsize L1 gd = log_get gmask gtag gsize L2 gd) :
    ∀ X : List (Nat × List Nat), (∀ e ∈ X, e.1 / 268435456 % 8 ≠ 4) →
      log_get gmask gtag gsize (X ++ L1) gd = log_get gmask gtag gsize (X ++ L2) gd
  | [], _ => h
  | e :: X, hX => by
    rw [List.cons_append, List.cons_append,
      log_get_cons_plain gmask gtag gsize e _ gd (hX e (List.mem_cons_self _ _)),
      log_get_cons_plain gmask gtag gsize e _ gd (hX e (List.mem_cons_self _ _)),
      log_get_prefix_congr gmask gtag gsize gd L1 L2 h X
        (fun x hx => hX x (List.mem_cons_of_mem _ hx))]

/-- The lookup for the id `j` does not find a tag written for the id `j`
when a CREATE of an id `k <= j` follows it: the answer is that of the log
without the tag. -/
theorem log_get_create_hides (gmask gsize ty j k sz gsz : Nat)
    (A B R : List (Nat × List Nat)) (c p : List Nat) (hm : lfs_tag_id gmask = 0x3ff)
    (hty : ty < 2048) (hns : ty / 256 ≠ 4) (hj : j < 1024) (hk : k ≤ j) (hsz : sz < 1024)
    (hgsz : gsz < 1024)
    (hA : ∀ e ∈ A, e.1 / 268435456 % 8 ≠ 4) (hB : ∀ e ∈ B, e.1 / 268435456 % 8 ≠ 4) :
    log_get gmask (LFS_MKTAG ty j gsz) gsize
        (A ++ (LFS_MKTAG LFS_TYPE_CREATE k 0, c) :: (B ++ (LFS_MKTAG ty j sz, p) :: R)) 0
      = log_get gmask (LFS_MKTAG ty j gsz) gsize
        (A ++ (LFS_MKTAG LFS_TYPE_CREATE k 0, c) :: (B ++ R)) 0 := by
  have q0 := LFS_MKTAG_eq ty j gsz hty hj hgsz
  have t0 := LFS_MKTAG_eq ty j sz hty hj hsz
  have g0 := getslice_gtag_zero (LFS_MKTAG ty j gsz) (by rw [q0]; omega)
  have hm0 : lfs_tag_id gmask ≠ 0 := by rw [hm]; decide
  apply log_get_prefix_congr _ _ _ _ _ _ _ A hA
  rw [log_get_create_step gmask _ gsize _ _ 0 k hm0 (by omega) (create_tag_eq k (by omega))
      (by rw [g0, q0]; omega),
    log_get_create_step gmask _ gsize _ _ 0 k hm0 (by omega) (create_tag_eq k (by omega))
      (by rw [g0, q0]; omega)]
  by_cases hkj : k = getslice_gtag (LFS_MKTAG ty j gsz) 0 / 1024 % 1024
  · rw [if_pos hkj, if_pos hkj]
  · rw [if_neg hkj, if_neg hkj]
    have e1024 : (0 + 1024) % 4294967296 = 1024 := by norm_num
    rw [e1024]
    split_ifs
    · rfl
    · apply log_get_prefix_congr _ _ _ _ _ _ _ B hB
      have hj1 : k < j := by rw [g0, q0] at hkj; omega
      obtain ⟨i, rfl⟩ : ∃ i, j = i + 1 := ⟨j - 1, by omega⟩
      have g1 := getslice_gtag_mktag_up ty i gsz hty hj hgsz
      rw [log_get_cons_plain gmask _ gsize _ _ 1024
        (by show LFS_MKTAG ty (i + 1) sz / _ % 8 ≠ 4; rw [t0]; omega), g1,
        if_neg (fun hc => by
          have := mask_id gmask _ _ hm hc
          rw [t0, LFS_MKTAG_eq ty i gsz hty (by omega) hgsz] at this
          omega)]
/-- `lfs_dir_getslice` on a block whose last tag is not a SPLICE tag and does
not match is the lookup in the rest of the log; the last tag may have its
bit 31 set. -/
theorem getslice_loop_block (g : Geometry) (d : Disk) (block gmask gtag gsize fuel : Nat)
    (offset ntag gd : Nat) (z : Nat × List Nat) (L : List (Nat × List Nat))
    (hb : block < g.block_count) (ho : offset ≤ g.block_size)
    (hg : g.block_size < 9223372036854775808)
    (h : block_log d block (z :: L) offset ntag)
    (hz : z.1 / 268435456 % 8 ≠ 4)
    (hnm : ¬ (gmask &&& ntag = gmask &&& getslice_gtag gtag gd))
    (hf : (z :: L).length < fuel) :
    getslice_loop g d block gmask gtag 0 gsize fuel offset ntag gd
      = some (log_get gmask gtag gsize L gd) := by
  obtain ⟨f, rfl⟩ : ∃ f, fuel = f + 1 := ⟨fuel - 1, by simp only [List.length_cons] at hf; omega⟩
  obtain ⟨h1, h2, h3, h4⟩ := h
  have hd := lfs_tag_dsize_ge z.1
  have hds : lfs_tag_dsize ntag = lfs_tag_dsize z.1 :=
    lfs_tag_dsize_congr _ _ (by omega)
  have hread := lfs_bd_read_ok g d block (offset - lfs_tag_dsize z.1) 4 hb (by omega) hg
  have hs : getslice_splices gmask gtag gd ntag = false := by
    unfold getslice_splices
    rw [lfs_tag_type1_eq]
    unfold LFS_TYPE_SPLICE
    simp
    intro _ h2
    omega
  have hgd : getslice_gdiff gmask gtag gd ntag = gd := by
    unfold getslice_gdiff
    rw [hs]
    rfl
  have hstep : getslice_loop g d block gmask gtag 0 gsize (f + 1) offset ntag gd
      = getslice_loop g d block gmask gtag 0 gsize f (offset - lfs_tag_dsize z.1)
        ((lfs_frombe32 ((List.range 4).map
            (fun j => d block (offset - lfs_tag_dsize z.1 + j))) ^^^ z.1) % 2147483648)
        gd := by
    show (if offset ≥ 4 + lfs_tag_dsize ntag then
        (match getslice_step g d block gmask gtag 0 gsize offset ntag gd with
          | .done res buffer => some (res, buffer)
          | .next o n gd2 => getslice_loop g d block gmask gtag 0 gsize f o n gd2)
      else some (LFS_ERR_NOENT, none)) = _
    rw [if_pos (by omega)]
    unfold getslice_step
    rw [hds, hread]
    simp only []
    rw [hs, hgd]
    simp only [Bool.false_eq_true, false_and, if_false]
    unfold getslice_match
    rw [if_neg hnm]
    simp only []
    rw [land_low31, xor_mod31 _ ntag, ← h1, xor_mod31 _ z.1,
      Nat.mod_eq_of_lt (show z.1 < 2147483648 by omega)]
  rw [hstep]
  exact getslice_loop_log g d block gmask gtag gsize hb hg L f _ _ gd
    ((block_log_congr d block L _ _ _ (by omega)).mp h4) (Nat.mod_lt _ (by omega))
    (by omega) (by simp only [List.length_cons] at hf; omega)

theorem lfs_dir_get_block (g : Geometry) (d : Disk) (gdisk : lfs_gstate_t)
    (dir : lfs_metadata_dir_t) (gmask gtag fuel : Nat) (z : Nat × List Nat)
    (L : List (Nat × List Nat))
    (hb : dir.pair0 < g.block_count) (ho : dir.offset ≤ g.block_size)
    (hg : g.block_size < 9223372036854775808)
    (hmove : lfs_gstate_hasmovehere gdisk dir.pair0 dir.pair1 = false)
    (h : block_log d dir.pair0 (z :: L) dir.offset dir.etag)
    (hz : z.1 / 268435456 % 8 ≠ 4) (hq : gtag < 4294967296)
    (hnm : ¬ (gmask &&& dir.etag = gmask &&& gtag))
    (hf : (z :: L).length < fuel) :
    lfs_dir_get g d gdisk dir gmask gtag fuel
      = some (log_get gmask gtag (lfs_tag_size gtag) L 0) := by
  unfold lfs_dir_get lfs_dir_getslice
  rw [hmove]
  simp only [Bool.false_eq_true, false_and, if_false]
  exact getslice_loop_block g d dir.pair0 gmask gtag _ fuel dir.offset dir.etag 0 z L hb ho hg h
    hz (by rw [getslice_gtag_zero gtag hq]; exact hnm) hf
/-- C35: `lfs_dir_getslice` (through `lfs_dir_get`, with no pending move on
the pair and an id mask of all ones) answers in post-splice ids.  The block
holds, latest first, a last tag `z`, tags `A`, one splice, tags `B`, the tag
`T` of type `ty`, and the rest `R`; `A` and `B` hold no splice and no match.
(1) `T` written for id `j`, then CREATE at `k ≤ j`: the query for id `j + 1`
returns `T` with id `j + 1`, its size and its bytes, zero filled to the size
asked.  (2) The query for id `j` on that block answers as on the log without
`T`.  (3) `T` written for id `i + 1`, then DELETE at `k ≤ i`: the query for id
`i` returns `T` with id `i`.  (4) The query for id `i` that reaches CREATE at
`i` before any match returns `LFS_ERR_NOENT`. -/
theorem C35_getslice_answers_in_logical_ids (g : Geometry) (d : Disk) (gdisk : lfs_gstate_t)
    (dir : lfs_metadata_dir_t) (gmask fuel : Nat)
    (hb : dir.pair0 < g.block_count) (ho : dir.offset ≤ g.block_size)
    (hg : g.block_size < 9223372036854775808)
    (hmove : lfs_gstate_hasmovehere gdisk dir.pair0 dir.pair1 = false)
    (hm : lfs_tag_id gmask = 0x3ff) :
    (∀ (z : Nat × List Nat) (A B R : List (Nat × List Nat)) (c p : List Nat)
        (ty j k sz gsz : Nat),
      block_log d dir.pair0
        (z :: (A ++ (LFS_MKTAG LFS_TYPE_CREATE k 0, c) :: (B ++ (LFS_MKTAG ty j sz, p) :: R)))
        dir.offset dir.etag →
      (z :: (A ++ (LFS_MKTAG LFS_TYPE_CREATE k 0, c)
        :: (B ++ (LFS_MKTAG ty j sz, p) :: R))).length < fuel →
      z.1 / 268435456 % 8 ≠ 4 → ty < 2048 → ty / 256 ≠ 4 → j + 1 < 1024 → k ≤ j →
      sz < 1023 → gsz < 1024 →
      ¬ (gmask &&& dir.etag = gmask &&& LFS_MKTAG ty (j + 1) gsz) →
      (∀ e ∈ A, e.1 / 268435456 % 8 ≠ 4
        ∧ ¬ (gmask &&& e.1 = gmask &&& LFS_MKTAG ty (j + 1) gsz)) →
      ¬ (gmask &&& LFS_MKTAG LFS_TYPE_CREATE k 0 = gmask &&& LFS_MKTAG ty j gsz) →
      (∀ e ∈ B, e.1 / 268435456 % 8 ≠ 4
        ∧ ¬ (gmask &&& e.1 = gmask &&& LFS_MKTAG ty j gsz)) →
      gmask &&& LFS_MKTAG ty j sz = gmask &&& LFS_MKTAG ty j gsz →
      lfs_dir_get g d gdisk dir gmask (LFS_MKTAG ty (j + 1) gsz) fuel
        = some (((LFS_MKTAG ty (j + 1) sz : Nat) : Int),
            some (p.take (lfs_min sz gsz) ++ List.replicate (gsz - lfs_min sz gsz) 0)))
    ∧ (∀ (z : Nat × List Nat) (A B R : List (Nat × List Nat)) (c p : List Nat)
        (ty j k sz gsz : Nat),
      block_log d dir.pair0
        (z :: (A ++ (LFS_MKTAG LFS_TYPE_CREATE k 0, c) :: (B ++ (LFS_MKTAG ty j sz, p) :: R)))
        dir.offset dir.etag →
      (z :: (A ++ (LFS_MKTAG LFS_TYPE_CREATE k 0, c)
        :: (B ++ (LFS_MKTAG ty j sz, p) :: R))).length < fuel →
      z.1 / 268435456 % 8 ≠ 4 → ty < 2048 → ty / 256 ≠ 4 → j < 1024 → k ≤ j →
      sz < 1024 → gsz < 1024 →
      ¬ (gmask &&& dir.etag = gmask &&& LFS_MKTAG ty j gsz) →
      (∀ e ∈ A, e.1 / 268435456 % 8 ≠ 4) → (∀ e ∈ B, e.1 / 268435456 % 8 ≠ 4) →
      lfs_dir_get g d gdisk dir gmask (LFS_MKTAG ty j gsz) fuel
        = some (log_get gmask (LFS_MKTAG ty j gsz) gsz
            (A ++ (LFS_MKTAG LFS_TYPE_CREATE k 0, c) :: (B ++ R)) 0))
    ∧ (∀ (z : Nat × List Nat) (A B R : List (Nat × List Nat)) (c p : List Nat)
        (ty i k sz gsz : Nat),
      block_log d dir.pair0
        (z :: (A ++ (LFS_MKTAG LFS_TYPE_DELETE k 0, c)
          :: (B ++ (LFS_MKTAG ty (i + 1) sz, p) :: R)))
        dir.offset dir.etag →
      (z :: (A ++ (LFS_MKTAG LFS_TYPE_DELETE k 0, c)
        :: (B ++ (LFS_MKTAG ty (i + 1) sz, p) :: R))).length < fuel →
      z.1 / 268435456 % 8 ≠ 4 → ty < 2048 → ty / 256 ≠ 4 → i + 1 < 1024 → k ≤ i →
      sz < 1023 → gsz < 1024 →
      ¬ (gmask &&& dir.etag = gmask &&& LFS_MKTAG ty i gsz) →
      (∀ e ∈ A, e.1 / 268435456 % 8 ≠ 4
        ∧ ¬ (gmask &&& e.1 = gmask &&& LFS_MKTAG ty i gsz)) →
      ¬ (gmask &&& LFS_MKTAG LFS_TYPE_DELETE k 0 = gmask &&& LFS_MKTAG ty (i + 1) gsz) →
      (∀ e ∈ B, e.1 / 268435456 % 8 ≠ 4
        ∧ ¬ (gmask &&& e.1 = gmask &&& LFS_MKTAG ty (i + 1) gsz)) →
      gmask &&& LFS_MKTAG ty (i + 1) sz = gmask &&& LFS_MKTAG ty (i + 1) gsz →
      lfs_dir_get g d gdisk dir gmask (LFS_MKTAG ty i gsz) fuel
        = some (((LFS_MKTAG ty i sz : Nat) : Int),
            some (p.take (lfs_min sz gsz) ++ List.replicate (gsz - lfs_min sz gsz) 0)))
    ∧ (∀ (z : Nat × List Nat) (A R : List (Nat × List Nat)) (c : List Nat) (ty i gsz : Nat),
      block_log d dir.pair0 (z :: (A ++ (LFS_MKTAG LFS_TYPE_CREATE i 0, c) :: R))
        dir.offset dir.etag →
      (z :: (A ++ (LFS_MKTAG LFS_TYPE_CREATE i 0, c) :: R)).length < fuel →
      z.1 / 268435456 % 8 ≠ 4 → ty < 2048 → i < 1024 → gsz < 1024 →
      ¬ (gmask &&& dir.etag = gmask &&& LFS_MKTAG ty i gsz) →
      (∀ e ∈ A, e.1 / 268435456 % 8 ≠ 4
        ∧ ¬ (gmask &&& e.1 = gmask &&& LFS_MKTAG ty i gsz)) →
      lfs_dir_get g d gdisk dir gmask (LFS_MKTAG ty i gsz) fuel
        = some (LFS_ERR_NOENT, none)) := by
  have hm0 : lfs_tag_id gmask ≠ 0 := by rw [hm]; decide
  have hq : ∀ ty i gsz : Nat, ty < 2048 → i < 1024 → gsz < 1024 →
      LFS_MKTAG ty i gsz < 4294967296 ∧ lfs_tag_size (LFS_MKTAG ty i gsz) = gsz := by
    intro ty i gsz h1 h2 h3
    rw [lfs_tag_size_eq_mod, LFS_MKTAG_eq ty i gsz h1 h2 h3]
    omega
  refine ⟨?_, ?_, ?_, ?_⟩
  · intro z A B R c p ty j k sz gsz hl hf hz hty hns hj hk hsz hgsz hnz hA hS hB hT
    obtain ⟨q1, q2⟩ := hq ty (j + 1) gsz hty hj hgsz
    rw [lfs_dir_get_block g d gdisk dir gmask _ fuel z _ hb ho hg hmove hl hz q1 hnz hf, q2,
      log_get_after_create gmask gsz ty j k sz gsz A B R c p hm0 hty hns hj hk hsz hgsz hA hS
        hB hT]
  · intro z A B R c p ty j k sz gsz hl hf hz hty hns hj hk hsz hgsz hnz hA hB
    obtain ⟨q1, q2⟩ := hq ty j gsz hty hj hgsz
    rw [lfs_dir_get_block g d gdisk dir gmask _ fuel z _ hb ho hg hmove hl hz q1 hnz hf, q2,
      log_get_create_hides gmask gsz ty j k sz gsz A B R c p hm hty hns hj hk hsz hgsz hA hB]
  · intro z A B R c p ty i k sz gsz hl hf hz hty hns hi hk hsz hgsz hnz hA hS hB hT
    obtain ⟨q1, q2⟩ := hq ty i gsz hty (by omega) hgsz
    rw [lfs_dir_get_block g d gdisk dir gmask _ fuel z _ hb ho hg hmove hl hz q1 hnz hf, q2,
      log_get_after_delete gmask gsz ty i k sz gsz A B R c p hm0 hty hns hi hk hsz hgsz hA hS
        hB hT]
  · intro z A R c ty i gsz hl hf hz hty hi hgsz hnz hA
    obtain ⟨q1, q2⟩ := hq ty i gsz hty hi hgsz
    rw [lfs_dir_get_block g d gdisk dir gmask _ fuel z _ hb ho hg hmove hl hz q1 hnz hf, q2,
      log_get_own_create gmask gsz ty i gsz A R c hm0 hty hi hgsz hA]

set_option maxRecDepth 1000000 in
/-- The block `example_attr_block`: the inline struct `[1, 2]` that the file
`a` was written with as id 0, before the CREATE at id 0 of the file `b`, is
found by the query for id 1 and returned with id 1. -/
theorem C35_getslice_answers_in_logical_ids_witness :
    lfs_dir_get ⟨256, 4⟩ (disk_of_blocks [example_attr_block]) ⟨0, 0, 0, 0⟩ example_attr_dir
        (LFS_MKTAG 0x7ff 0x3ff 0) (LFS_MKTAG LFS_TYPE_INLINESTRUCT 1 16) 100
      = some (537920514, some [1, 2, 0, 0, 0, 0, 0, 0, 0, 0, 0, 0, 0, 0, 0, 0]) :=
  (C35_getslice_answers_in_logical_ids ⟨256, 4⟩ (disk_of_blocks [example_attr_block])
    ⟨0, 0, 0, 0⟩ example_attr_dir (LFS_MKTAG 0x7ff 0x3ff 0) 100
    (by decide) (by decide) (by decide) (by decide) (by decide)).1
    (1343224847, [165, 129, 7, 191, 255, 255, 255, 255, 255, 255, 255, 255, 255, 255, 255])
    [(810549250, [7, 7]), (538969104, [9, 0, 0, 0, 0, 0, 0, 0, 44, 1, 0, 0, 0, 0, 0, 0]),
      (537919491, [3, 4, 5]), (1048577, [98])]
    [] [(1048577, [97]), (1074790400, [])] [] [1, 2] LFS_TYPE_INLINESTRUCT 0 0 2 16
    (by decide) (by decide) (by decide) (by decide) (by decide) (by decide) (by decide)
    (by decide) (by decide) (by decide) (by decide) (by decide) (by decide) (by decide)

/-- The example list with 200-byte blocks is well formed up to the index
4194303, and with 512-byte blocks up to the index 3. -/
theorem example_list_wellformed_200 :
    ctz_wellformed ⟨200, 4194400⟩ (example_list_disk 4) (example_list_addr 4) 4194303
      ∧ ctz_wellformed ⟨512, 16⟩ (example_list_disk 4) (example_list_addr 4) 3 := by
  refine ⟨?_, ?_⟩
  · apply example_list_wellformed
    · decide
    · decide
    · intro n h1 h2
      have := lfs_ctz64_pow_le n (by omega) (by omega)
      have h3 : lfs_ctz64 n < 23 := by
        by_contra hc
        have : (2 : Nat) ^ 23 ≤ 2 ^ lfs_ctz64 n :=
          Nat.pow_le_pow_right (by norm_num) (by omega)
        norm_num at this
        omega
      show 8 * (lfs_ctz64 n + 1) ≤ 200
      omega
  · apply example_list_wellformed
    · decide
    · decide
    · intro n h1 h2
      have := lfs_ctz64_pow_le n (by omega) (by omega)
      have h3 : lfs_ctz64 n < 2 := by
        by_contra hc
        have : (2 : Nat) ^ 2 ≤ 2 ^ lfs_ctz64 n :=
          Nat.pow_le_pow_right (by norm_num) (by omega)
        norm_num at this
        omega
      show 8 * (lfs_ctz64 n + 1) ≤ 512
      omega

set_option maxRecDepth 1000000 in
/-- C31 (code defect, evaluated): with 512-byte blocks, `lfs_ctz_extend` of
the full four-block example list (2016 bytes, head at address 7) writes the
three pointers of block 4 (the addresses of the blocks 3, 2 and 0) into the
new block 8 and returns offset 24, as claimed.  With 200-byte blocks the
example list of the blocks 0 to 4194303 is well formed and full at 771752128
bytes, and block 4194304 needs 23 pointers; but `lfs_ctz_index` puts the last
byte at offset 183 of block 4194304, so `lfs_ctz_extend` copies the first 184
bytes of the head into the new block instead: its word 0 is the pointer of the
head (the address of block 4194302, not of the head, block 4194303, at
address 4194307) and its word 1 is data of the head.  With the last index
16777215 (3087007952 bytes, block 16777216 needs 25 pointers and offset 200)
one pointer is written and offset 8 returned, the next word is left
erased. -/
theorem C31_ctz_extend_of_full_block_copies_head :
    ctz_wellformed ⟨200, 4194400⟩ (example_list_disk 4) (example_list_addr 4) 4194303
    ∧ ctz_extend_view 4
        (lfs_ctz_extend ⟨512, 16⟩ (example_list_disk 4) (fun _ => 0xff)
          (example_list_addr 4 4) (example_list_addr 4 3) 2016)
      = (0, 8, 24, [7, 6, 4, 0xffffffffffffffff])
    ∧ lfs_ctz_index 200 771752127 = (4194304, 183)
    ∧ lfs_ctz64 4194304 + 1 = 23
    ∧ example_list_addr 4 4194303 = 4194307
    ∧ ctz_extend_view 2
        (lfs_ctz_extend ⟨200, 4194400⟩ (example_list_disk 4) (fun _ => 0xff)
          (example_list_addr 4 4194304) (example_list_addr 4 4194303) 771752128)
      = (0, 4194308, 184, [4194306, 0xabababababababab])
    ∧ lfs_ctz_index 200 3087007951 = (16777216, 199)
    ∧ lfs_ctz64 16777216 + 1 = 25
    ∧ ctz_extend_view 2
        (lfs_ctz_extend ⟨200, 16777300⟩ (example_list_disk 4) (fun _ => 0xff)
          (example_list_addr 4 16777216) (example_list_addr 4 16777215) 3087007952)
      = (0, 16777220, 8, [16777219, 0xffffffffffffffff]) := by
  refine ⟨example_list_wellformed_200.1, ?_⟩
  decide

theorem trailingZeros_dvd : ∀ f n, n < 2 ^ f → 2 ^ trailingZeros f n ∣ n
  | 0, n, h => by
    simp only [trailingZeros, pow_zero]
    exact one_dvd n
  | f + 1, n, h => by
    simp only [trailingZeros]
    split
    · simp
    · have ih := trailingZeros_dvd f (n / 2) (by rw [pow_succ] at h; omega)
      obtain ⟨c, hc⟩ := ih
      refine ⟨c, ?_⟩
      rw [Nat.add_comm, pow_succ, Nat.mul_assoc, Nat.mul_comm 2 c, ← Nat.mul_assoc, ← hc]
      omega

theorem trailingZeros_ge : ∀ f n k, 0 < n → n < 2 ^ f → 2 ^ k ∣ n → k ≤ trailingZeros f n
  | 0, n, k, h0, h1, _ => by simp at h1; omega
  | f + 1, n, k, h0, h1, hd => by
    simp only [trailingZeros]
    cases k with
    | zero => omega
    | succ k =>
      obtain ⟨c, hc⟩ := hd
      rw [pow_succ, Nat.mul_assoc] at hc
      have h2 : n / 2 = 2 ^ k * (2 * c) / 2 := by rw [hc]
      rw [Nat.mul_comm 2 c, ← Nat.mul_assoc, Nat.mul_div_cancel _ (by norm_num : 0 < 2)] at h2
      have hm : n % 2 = 0 := by
        rw [hc, Nat.mul_comm 2 c, ← Nat.mul_assoc]
        exact Nat.mul_mod_left _ _
      rw [if_neg (by omega)]
      have ih := trailingZeros_ge f (n / 2) k (by omega) (by rw [pow_succ] at h1; omega)
        ⟨c, h2⟩
      omega

theorem lfs_ctz64_lt (n : Nat) (h0 : 0 < n) (h1 : n < 18446744073709551616) :
    lfs_ctz64 n < 64 := by
  have hp := lfs_ctz64_pow_le n h0 h1
  by_contra hc
  have : (2 : Nat) ^ 64 ≤ 2 ^ lfs_ctz64 n := Nat.pow_le_pow_right (by norm_num) (by omega)
  norm_num at this
  omega

/-- Below a block of index `n` with more than `k + 1` pointers, the block
`n - 2 ^ k` has index at least 1 and holds a pointer `k`, which is the
address of block `n - 2 ^ (k + 1)`. -/
theorem ctz_skip_below (n k : Nat) (h0 : 0 < n) (h1 : n < 18446744073709551616)
    (hk : k + 1 ≤ lfs_ctz64 n) :
    1 ≤ n - 2 ^ k ∧ n - 2 ^ k < n ∧ k ≤ lfs_ctz64 (n - 2 ^ k)
      ∧ n - 2 ^ k - 2 ^ k = n - 2 ^ (k + 1) := by
  have hp := lfs_ctz64_pow_le n h0 h1
  have hk2 : (2 : Nat) ^ (k + 1) ≤ 2 ^ lfs_ctz64 n := Nat.pow_le_pow_right (by norm_num) hk
  have hpos : 0 < (2 : Nat) ^ k := Nat.pow_pos (by norm_num)
  have hs : (2 : Nat) ^ (k + 1) = 2 ^ k + 2 ^ k := by rw [pow_succ]; omega
  have hd : (2 : Nat) ^ lfs_ctz64 n ∣ n := by
    rw [lfs_ctz64_eq n h0 h1]
    exact trailingZeros_dvd 64 n (by norm_num; exact h1)
  have hd1 : (2 : Nat) ^ k ∣ n :=
    Nat.dvd_trans (Nat.pow_dvd_pow 2 (by omega)) hd
  have hd2 : (2 : Nat) ^ k ∣ n - 2 ^ k := Nat.dvd_sub' hd1 (Nat.dvd_refl _)
  refine ⟨by omega, by omega, ?_, by omega⟩
  rw [lfs_ctz64_eq (n - 2 ^ k) (by omega) (by omega)]
  exact trailingZeros_ge 64 (n - 2 ^ k) k (by omega) (by norm_num; omega) hd2
theorem except_map_ok {α β : Type} (f : α → β) (r : Except Int α) (y : β)
    (h : r.map f = .ok y) : ∃ x, r = .ok x ∧ f x = y := by
  cases r with
  | error e => cases h
  | ok x =>
    refine ⟨x, rfl, ?_⟩
    simp only [Except.map, Except.ok.injEq] at h
    exact h

theorem disk_prog_at (d : Disk) (block offset : Nat) (bytes : List Nat) (j : Nat)
    (hj : j < bytes.length) :
    disk_prog d block offset bytes block (offset + j) = bytes.getD j 0 := by
  unfold disk_prog
  rw [if_pos ⟨rfl, by omega, by omega⟩, Nat.add_sub_cancel_left]

theorem lfs_tole64_length (x : Nat) : (lfs_tole64 x).length = 8 := by
  simp [lfs_tole64]

/-- The pointer loop of `lfs_ctz_extend` on a well-formed list: it ends, the
word `k` of the new block becomes the address of block `n - 2 ^ k` for every
`k` from `idx` to `ctz(n)`, and nothing else changes. -/
theorem ctz_extend_pointers_spec (g : Geometry) (e : Disk) (addr : Nat → Nat)
    (n nblock : Nat) (hn : 1 ≤ n) (hn64 : n < 18446744073709551616)
    (hwf : ∀ m, 1 ≤ m → m < n → ∀ k, k ≤ lfs_ctz64 m →
      (lfs_bd_read g e (addr m) (8 * k) 8).map lfs_fromle64 = .ok (addr (m - 2 ^ k))) :
    ∀ rem idx nhead w, idx + rem = lfs_ctz64 n + 1 →
      (idx ≤ lfs_ctz64 n → nhead = addr (n - 2 ^ idx)) →
      ∃ w2, ctz_extend_pointers g e nblock (lfs_ctz64 n + 1) rem idx nhead w = .ok w2
        ∧ (∀ b o, (b ≠ nblock ∨ o < 8 * idx ∨ 8 * (lfs_ctz64 n + 1) ≤ o) → w2 b o = w b o)
        ∧ (∀ k j, idx ≤ k → k ≤ lfs_ctz64 n → j < 8 →
            w2 nblock (8 * k + j) = (lfs_tole64 (addr (n - 2 ^ k))).getD j 0) := by
  intro rem
  induction rem with
  | zero =>
    intro idx nhead w h1 _
    refine ⟨w, rfl, fun _ _ _ => rfl, ?_⟩
    intro k j h2 h3 _
    omega
  | succ rem ih =>
    intro idx nhead w h1 h2
    have hi : idx ≤ lfs_ctz64 n := by omega
    have hh := h2 hi
    have key : ∀ nh2, (idx + 1 ≤ lfs_ctz64 n → nh2 = addr (n - 2 ^ (idx + 1))) →
        ∃ w2, ctz_extend_pointers g e nblock (lfs_ctz64 n + 1) rem (idx + 1) nh2
            (disk_prog w nblock (8 * idx) (lfs_tole64 nhead)) = .ok w2
          ∧ (∀ b o, (b ≠ nblock ∨ o < 8 * idx ∨ 8 * (lfs_ctz64 n + 1) ≤ o) → w2 b o = w b o)
          ∧ (∀ k j, idx ≤ k → k ≤ lfs_ctz64 n → j < 8 →
              w2 nblock (8 * k + j) = (lfs_tole64 (addr (n - 2 ^ k))).getD j 0) := by
      intro nh2 hnh2
      obtain ⟨w2, r1, r2, r3⟩ := ih (idx + 1) nh2
        (disk_prog w nblock (8 * idx) (lfs_tole64 nhead)) (by omega) hnh2
      refine ⟨w2, r1, ?_, ?_⟩
      · intro b o hbo
        rw [r2 b o (by omega)]
        rcases hbo with hb | ho | ho
        · exact disk_prog_frame _ _ _ _ _ _ (Or.inl hb)
        · exact disk_prog_frame _ _ _ _ _ _ (Or.inr ho)
        · exact disk_prog_after _ _ _ _ _ _ (by rw [lfs_tole64_length]; omega)
      · intro k j hk1 hk2 hj
        by_cases hki : k = idx
        · subst hki
          rw [r2 nblock (8 * k + j) (Or.inr (Or.inl (by omega))),
            disk_prog_at _ _ _ _ _ (by rw [lfs_tole64_length]; exact hj), hh]
        · exact r3 k j (by omega) hk2 hj
    have step : ctz_extend_pointers g e nblock (lfs_ctz64 n + 1) (rem + 1) idx nhead w
        = (if idx ≠ lfs_ctz64 n + 1 - 1 then
          (match lfs_bd_read g e nhead (8 * idx) 8 with
            | .error err => .error err
            | .ok bytes =>
              ctz_extend_pointers g e nblock (lfs_ctz64 n + 1) rem (idx + 1)
                (lfs_fromle64 bytes) (disk_prog w nblock (8 * idx) (lfs_tole64 nhead)))
        else
          ctz_extend_pointers g e nblock (lfs_ctz64 n + 1) rem (idx + 1) nhead
            (disk_prog w nblock (8 * idx) (lfs_tole64 nhead))) := rfl
    rw [step]
    by_cases hlast : idx = lfs_ctz64 n + 1 - 1
    · rw [if_neg (by omega)]
      exact key nhead (by omega)
    · rw [if_pos hlast]
      obtain ⟨q1, q2, q3, q4⟩ := ctz_skip_below n idx (by omega) hn64 (by omega)
      obtain ⟨bytes, hr, hv⟩ := except_map_ok _ _ _ (hwf (n - 2 ^ idx) q1 q2 idx q3)
      rw [hh, hr]
      simp only []
      rw [← hh]
      exact key (lfs_fromle64 bytes) (fun _ => by rw [hv, q4])
theorem lfs_bd_read_erase (g : Geometry) (d : Disk) (fill : Nat → Nat)
    (nblock block offset size : Nat) (h : block ≠ nblock) :
    lfs_bd_read g (disk_erase d nblock fill) block offset size
      = lfs_bd_read g d block offset size := by
  unfold lfs_bd_read disk_erase
  simp only [if_neg h]

theorem lfs_bd_read_block (g : Geometry) (d1 d2 : Disk) (block offset size : Nat)
    (h : ∀ o, d1 block o = d2 block o) :
    lfs_bd_read g d1 block offset size = lfs_bd_read g d2 block offset size := by
  unfold lfs_bd_read
  simp only [h]

theorem lfs_bd_read_tole64 (g : Geometry) (w : Disk) (block k x : Nat)
    (hb : block < g.block_count) (ho : 8 * k + 8 ≤ g.block_size)
    (hg : g.block_size < 18446744073709551616) (hx : x < 18446744073709551616)
    (hw : ∀ j, j < 8 → w block (8 * k + j) = (lfs_tole64 x).getD j 0) :
    (lfs_bd_read g w block (8 * k) 8).map lfs_fromle64 = .ok x := by
  unfold lfs_bd_read
  rw [if_neg (by unfold wrap64; omega)]
  simp only [Except.map, Except.ok.injEq]
  have e : (List.range 8).map (fun j => w block (8 * k + j)) = lfs_tole64 x := by
    simp only [List.range, List.range.loop, List.map]
    rw [hw 0 (by omega), hw 1 (by omega), hw 2 (by omega), hw 3 (by omega), hw 4 (by omega),
      hw 5 (by omega), hw 6 (by omega), hw 7 (by omega)]
    simp [lfs_tole64, List.range, List.range.loop]
  rw [e, lfs_fromle64_tole64 x hx]

/-- Where `lfs_ctz_index` places the last byte of the file at the end of the
block with index `n - 1`, `lfs_ctz_extend` does what C31 states: on a
well-formed list of the blocks `0` to `n - 1` it returns with the new block
and the offset `8 * (ctz(n) + 1)`, word `k` of the new block reads as the
address of block `n - 2 ^ k` for every `k ≤ ctz(n)`, the rest of the new
block is as erased, no other block changes, and the list with the new block
as block `n` is well formed. -/
theorem lfs_ctz_extend_appends (g : Geometry) (d : Disk) (fill : Nat → Nat)
    (addr : Nat → Nat) (n nblock size : Nat)
    (hn : 1 ≤ n) (hn31 : n < 2147483648)
    (hwf : ctz_wellformed g d addr (n - 1))
    (hs0 : 0 < size) (hs64 : size < 18446744073709551616)
    (hg0 : 0 < g.block_size) (hg : g.block_size < 18446744073709551616)
    (hidx : lfs_ctz_index g.block_size (size - 1) = (((n - 1 : Nat) : Int), g.block_size - 1))
    (hfit : 8 * (lfs_ctz64 n + 1) ≤ g.block_size)
    (hnb : nblock < g.block_count)
    (hfresh : ∀ m, m < n → addr m ≠ nblock)
    (haddr : ∀ m, m < n → addr m < 18446744073709551616) :
    ∃ w, lfs_ctz_extend g d fill nblock (addr (n - 1)) size
        = .ok (w, nblock, 8 * (lfs_ctz64 n + 1))
      ∧ (∀ k, k ≤ lfs_ctz64 n →
          (lfs_bd_read g w nblock (8 * k) 8).map lfs_fromle64 = .ok (addr (n - 2 ^ k)))
      ∧ (∀ o, 8 * (lfs_ctz64 n + 1) ≤ o → w nblock o = fill o)
      ∧ (∀ b o, b ≠ nblock → w b o = d b o)
      ∧ ctz_wellformed g w (fun m => if m = n then nblock else addr m) n := by
  have hc64 := lfs_ctz64_lt n (by omega) (by omega)
  have hwfe : ∀ m, 1 ≤ m → m < n → ∀ k, k ≤ lfs_ctz64 m →
      (lfs_bd_read g (disk_erase d nblock fill) (addr m) (8 * k) 8).map lfs_fromle64
        = .ok (addr (m - 2 ^ k)) := by
    intro m h1 h2 k hk
    rw [lfs_bd_read_erase g d fill nblock (addr m) _ _ (hfresh m h2)]
    exact hwf m h1 (by omega) k hk
  obtain ⟨w, r1, r2, r3⟩ := ctz_extend_pointers_spec g (disk_erase d nblock fill) addr n nblock
    hn (by omega) hwfe (lfs_ctz64 n + 1) 0 (addr (n - 1)) (disk_erase d nblock fill)
    (by omega) (fun _ => by rw [pow_zero])
  have hread : ∀ k, k ≤ lfs_ctz64 n →
      (lfs_bd_read g w nblock (8 * k) 8).map lfs_fromle64 = .ok (addr (n - 2 ^ k)) := by
    intro k hk
    have hpos : 0 < (2 : Nat) ^ k := Nat.pow_pos (by norm_num)
    exact lfs_bd_read_tole64 g w nblock k _ hnb (by omega) hg (haddr _ (by omega))
      (fun j hj => r3 k j (by omega) hk hj)
  have hother : ∀ b o, b ≠ nblock → w b o = d b o := by
    intro b o hb
    rw [r2 b o (Or.inl hb)]
    unfold disk_erase
    rw [if_neg hb]
  refine ⟨w, ?_, hread, ?_, hother, ?_⟩
  · unfold lfs_ctz_extend
    have e1 : sub64 size 1 = size - 1 := by unfold sub64; omega
    rw [if_neg (by omega), e1, hidx]
    simp only []
    have e2 : wrap64 (g.block_size - 1 + 1) = g.block_size := by unfold wrap64; omega
    have e3 : wrap64 (ofInt64 ((n - 1 : Nat) : Int) + 1) = n := by
      rw [ofInt64_nonneg _ (by omega) (by omega)]
      unfold wrap64
      omega
    have e4 : wrap64 (8 * (lfs_ctz64 n + 1)) = 8 * (lfs_ctz64 n + 1) := by
      unfold wrap64; omega
    rw [e2, if_neg (by simp), e3, r1, e4]
    rfl
  · intro o ho
    rw [r2 nblock o (Or.inr (Or.inr ho))]
    unfold disk_erase
    rw [if_pos rfl]
  · intro m h1 h2 k hk
    have hpos : 0 < (2 : Nat) ^ k := Nat.pow_pos (by norm_num)
    by_cases hm : m = n
    · subst hm
      simp only [if_true]
      rw [if_neg (by omega)]
      exact hread k hk
    · have hp := lfs_ctz64_pow_le m (by omega) (by omega)
      simp only [if_neg hm]
      rw [if_neg (by omega), lfs_bd_read_block g w d (addr m) _ _
        (fun o => hother (addr m) o (hfresh m (by omega)))]
      exact hwf m h1 (by omega) k hk

/-- Witness for `lfs_ctz_extend_appends`: the full four-block example list
with 512-byte blocks (2016 bytes) is extended by block 8 as block 4. -/
theorem lfs_ctz_extend_appends_witness :
    ∃ w, lfs_ctz_extend ⟨512, 16⟩ (example_list_disk 4) (fun _ => 0xff) 8
          (example_list_addr 4 (4 - 1)) 2016
        = .ok (w, 8, 8 * (lfs_ctz64 4 + 1))
      ∧ (∀ k, k ≤ lfs_ctz64 4 →
          (lfs_bd_read ⟨512, 16⟩ w 8 (8 * k) 8).map lfs_fromle64
            = .ok (example_list_addr 4 (4 - 2 ^ k)))
      ∧ (∀ o, 8 * (lfs_ctz64 4 + 1) ≤ o → w 8 o = (fun _ => 0xff) o)
      ∧ (∀ b o, b ≠ 8 → w b o = example_list_disk 4 b o)
      ∧ ctz_wellformed ⟨512, 16⟩ w (fun m => if m = 4 then 8 else example_list_addr 4 m) 4 :=
  lfs_ctz_extend_appends ⟨512, 16⟩ (example_list_disk 4) (fun _ => 0xff) (example_list_addr 4)
    4 8 2016 (by decide) (by decide) example_list_wellformed_200.2 (by decide) (by decide)
    (by decide) (by decide) (by decide) (by decide) (by decide)
    (fun m hm => by unfold example_list_addr; omega)
    (fun m hm => by unfold example_list_addr; omega)

/-! ### C25: the search for the superblock in `lfs_raw_mount` -/

end LittleFS
